import Mathlib

/-!
# Erebus-Redgiant: profit comparison, attack oracle and forked state

A shallow embedding of parts of the `erebus-redgiant` front-running detector:

* `analysis/summary/profit.go`: the `Profit` sum type, `Profits.Add`, `Profits.Compact`,
  `Profits.Cmp`, `Profits.ProfitsOf`;
* `dataset/searcher.go`: `AttackSearcher.CheckOracle`;
* `dyengine/state/forked.go`: `ForkedState`;
* `dyengine/exevm.go`: `ExeVM.ApplyTx`.

Addresses and hashes are byte strings in the source; here they are natural numbers, since only
their equality is ever used. `*big.Int` amounts are integers.
-/

namespace Erebus

/-- An account address (`common.Address`); the zero address is `0`. -/
abbrev Address := Nat

/-- A 32-byte word (`common.Hash`); the empty hash is `0`. -/
abbrev Hash := Nat

/-- The two sentinel errors of `analysis/summary`. -/
inductive SummaryError
  | ErrNotComparable
  | ErrMergeNotPossible
  deriving DecidableEq, Repr

/-- The asset kinds of `transfer.go`. -/
inductive AssetType
  | ZeroAsset
  | EtherAsset
  | ERC20Asset
  | ERC777Asset
  | ERC721Asset
  | ERC1155Asset
  deriving DecidableEq, Repr

/-- The implementations of the `Profit` interface that the summarizer constructs. The deprecated
`ERC721Profit` is never constructed (its only construction sites are commented out in
`transfer.go`) and is left out. The two token maps of `ERC721CombinedProfit` are used as key sets
only, so they are finite sets of token ids. -/
inductive Profit
  | ZeroProfit
  | EtherProfit (Account : Address) (Amount : Int)
  | ERC20Profit (Account Contract : Address) (Amount : Int)
  | ERC721CombinedProfit (Account Contract : Address) (receiveTokens giveTokens : Finset Hash)
  | ERC777Profit (Account Contract : Address) (Amount : Int)
  | ERC1155Profit (Account Contract : Address) (TokenID : Hash) (Amount : Int)
  deriving DecidableEq

/-- The result of `big.Int.Cmp`. -/
def bigCmp (x y : Int) : Int :=
  if x < y then -1 else if x > y then 1 else 0

namespace Profit

/-- Method `Type` of each profit (`Type` is reserved in Lean). -/
def TypeOf : Profit → AssetType
  | ZeroProfit => AssetType.ZeroAsset
  | EtherProfit _ _ => AssetType.EtherAsset
  | ERC20Profit _ _ _ => AssetType.ERC20Asset
  | ERC721CombinedProfit _ _ _ _ => AssetType.ERC721Asset
  | ERC777Profit _ _ _ => AssetType.ERC777Asset
  | ERC1155Profit _ _ _ _ => AssetType.ERC1155Asset

/-- Method `Beneficiary` of each profit; `ZeroProfit` answers the zero address. -/
def Beneficiary : Profit → Address
  | ZeroProfit => 0
  | EtherProfit a _ => a
  | ERC20Profit a _ _ => a
  | ERC721CombinedProfit a _ _ _ => a
  | ERC777Profit a _ _ => a
  | ERC1155Profit a _ _ _ => a

/-- Method `Copy`: a field-by-field copy, which is the same value. -/
def Copy (p : Profit) : Profit := p

/-- The local helper `p` of `ERC721CombinedProfit.Cmp`:
`len(receiveTokens) - len(giveTokens)`. -/
def netTokens (receiveTokens giveTokens : Finset Hash) : Int :=
  (receiveTokens.card : Int) - (giveTokens.card : Int)

/-- Method `Zero` of each profit. -/
def Zero : Profit → Bool
  | ZeroProfit => true
  | EtherProfit _ v => decide (bigCmp v 0 = 0)
  | ERC20Profit _ _ v => decide (bigCmp v 0 = 0)
  | ERC721CombinedProfit _ _ r g => decide (netTokens r g = 0)
  | ERC777Profit _ _ v => decide (bigCmp v 0 = 0)
  | ERC1155Profit _ _ _ v => decide (bigCmp v 0 = 0)

/-- Method `Positive` of each profit. -/
def Positive : Profit → Bool
  | ZeroProfit => false
  | EtherProfit _ v => decide (bigCmp v 0 > 0)
  | ERC20Profit _ _ v => decide (bigCmp v 0 > 0)
  | ERC721CombinedProfit _ _ r g => decide (netTokens r g > 0)
  | ERC777Profit _ _ v => decide (bigCmp v 0 > 0)
  | ERC1155Profit _ _ _ v => decide (bigCmp v 0 > 0)

/-- Method `Cmp` of each profit, returning Go's pair `(int, error)`; `none` is a nil error.
The type assertion on `other` is reached only after `Type` and `Beneficiary` agree, and among
the profits above equal `Type` means equal dynamic type, so it never fails. -/
def Cmp : Profit → Profit → Int × Option SummaryError
  | ZeroProfit, other =>
      if other.Positive then (-1, none)
      else if other.Zero then (0, none)
      else (1, none)
  | EtherProfit a v, EtherProfit a2 v2 =>
      if a = a2 then (bigCmp v v2, none) else (0, some SummaryError.ErrNotComparable)
  | ERC20Profit a c v, ERC20Profit a2 c2 v2 =>
      if a = a2 ∧ c = c2 then (bigCmp v v2, none) else (0, some SummaryError.ErrNotComparable)
  | ERC721CombinedProfit a c r g, ERC721CombinedProfit a2 c2 r2 g2 =>
      if a = a2 ∧ c = c2 then
        if netTokens r g > netTokens r2 g2 then (1, none)
        else if netTokens r g < netTokens r2 g2 then (-1, none)
        else (0, none)
      else (0, some SummaryError.ErrNotComparable)
  | ERC777Profit a c v, ERC777Profit a2 c2 v2 =>
      if a = a2 ∧ c = c2 then (bigCmp v v2, none) else (0, some SummaryError.ErrNotComparable)
  | ERC1155Profit a c t v, ERC1155Profit a2 c2 t2 v2 =>
      if a = a2 ∧ c = c2 ∧ t = t2 then (bigCmp v v2, none)
      else (0, some SummaryError.ErrNotComparable)
  | _, _ => (0, some SummaryError.ErrNotComparable)

/-- Method `Merge` of each profit. For `ERC721CombinedProfit` the two loops over the other
profit's token maps treat every key independently of the others, so their effect is given per
key: received tokens first cancel given ones or are added, then given tokens cancel received
ones (as they stand after the first loop) or are added. -/
def Merge (p other : Profit) : Except SummaryError Profit :=
  match p with
  | ZeroProfit => Except.ok other.Copy
  | EtherProfit a v =>
      if (p.Cmp other).2 ≠ none then Except.error SummaryError.ErrMergeNotPossible
      else match other with
        | EtherProfit a2 v2 =>
            if a = a2 then Except.ok (EtherProfit a (v + v2))
            else Except.error SummaryError.ErrMergeNotPossible
        | _ => Except.error SummaryError.ErrMergeNotPossible
  | ERC20Profit a c v =>
      if (p.Cmp other).2 ≠ none then Except.error SummaryError.ErrMergeNotPossible
      else match other with
        | ERC20Profit a2 c2 v2 =>
            if a = a2 ∧ c = c2 then Except.ok (ERC20Profit a c (v + v2))
            else Except.error SummaryError.ErrMergeNotPossible
        | _ => Except.error SummaryError.ErrMergeNotPossible
  | ERC721CombinedProfit a c r g =>
      if (p.Cmp other).2 ≠ none then Except.error SummaryError.ErrMergeNotPossible
      else match other with
        | ERC721CombinedProfit _ _ r2 g2 =>
            let give1 := g \ r2
            let receive1 := r ∪ (r2 \ g)
            let receive2 := receive1 \ g2
            let give2 := give1 ∪ (g2 \ receive1)
            Except.ok (ERC721CombinedProfit a c receive2 give2)
        | _ => Except.error SummaryError.ErrMergeNotPossible
  | ERC777Profit a c v =>
      if (p.Cmp other).2 ≠ none then Except.error SummaryError.ErrMergeNotPossible
      else match other with
        | ERC777Profit a2 c2 v2 =>
            if a = a2 ∧ c = c2 then Except.ok (ERC777Profit a c (v + v2))
            else Except.error SummaryError.ErrMergeNotPossible
        | _ => Except.error SummaryError.ErrMergeNotPossible
  | ERC1155Profit a c t v =>
      if (p.Cmp other).2 ≠ none then Except.error SummaryError.ErrMergeNotPossible
      else match other with
        | ERC1155Profit a2 c2 t2 v2 =>
            if a = a2 ∧ c = c2 ∧ t = t2 then Except.ok (ERC1155Profit a c t (v + v2))
            else Except.error SummaryError.ErrMergeNotPossible
        | _ => Except.error SummaryError.ErrMergeNotPossible

end Profit

/-- The slice type `Profits`. -/
abbrev Profits := List Profit

namespace Profits

/-- The inner loop of `Profits.Add` for one element: the first profit of the slice that merges
with `elem` is replaced by the merged profit; when none merges, `elem` is appended. -/
def addOne : Profits → Profit → Profits
  | [], elem => [elem]
  | p :: rest, elem =>
      match p.Merge elem with
      | Except.ok merged => merged :: rest
      | Except.error _ => p :: addOne rest elem

/-- The value returned by `Profits.Add`: each element is copied and added in turn. -/
def Add (ps : Profits) (elems : List Profit) : Profits :=
  elems.foldl (fun slice elem => addOne slice elem.Copy) ps

/-- The function `Profits.Compact`: the merged slice `r` is computed, and the loop that drops the
Zero profits then ranges over the receiver `ps`. -/
def Compact (ps : Profits) : Profits :=
  let _r : Profits := Add [] ps
  ps.filter (fun p => !p.Zero)

/-- The search `for _, p2 := range o` of `innerCmp`: the result of the first comparison of `p`
that returns no error, if any. -/
def firstCmp (p : Profit) : Profits → Option Int
  | [] => none
  | p2 :: o =>
      match p.Cmp p2 with
      | (cmp, none) => some cmp
      | (_, some _) => firstCmp p o

/-- The value of `cmp` at label `update` of `innerCmp` for the profit `p` against the set `o`. -/
def cmpAgainst (p : Profit) (o : Profits) : Int :=
  match firstCmp p o with
  | some cmp => cmp
  | none => if p.Positive then 1 else if p.Zero then 0 else -1

/-- The outer loop of the closure `innerCmp`, with the running `tmpResult`. -/
def innerCmpLoop (o : Profits) : Profits → Int → Int × Option SummaryError
  | [], tmpResult => (tmpResult, none)
  | p :: t, tmpResult =>
      let cmp := cmpAgainst p o
      if tmpResult = 0 then innerCmpLoop o t cmp
      else if cmp ≠ 0 ∧ tmpResult ≠ cmp then (0, some SummaryError.ErrNotComparable)
      else innerCmpLoop o t tmpResult

/-- The closure `innerCmp` of `Profits.Cmp`. -/
def innerCmp (t o : Profits) : Int × Option SummaryError :=
  innerCmpLoop o t 0

/-- The function `Profits.Cmp`. -/
def Cmp (ps other : Profits) : Int × Option SummaryError :=
  let this := ps.Compact
  let other := other.Compact
  let this := if this.length = 0 then Add this [Profit.ZeroProfit] else this
  let other := if other.length = 0 then Add other [Profit.ZeroProfit] else other
  match innerCmp this other with
  | (_, some err) => (0, some err)
  | (result, none) =>
      match innerCmp other this with
      | (_, some err) => (0, some err)
      | (reverseResult, none) =>
          if result = -reverseResult then (result, none)
          else (0, some SummaryError.ErrNotComparable)

/-- The function `Profits.ProfitsOf`. -/
def ProfitsOf (ps : Profits) (account : Address) : Profits :=
  ps.foldl (fun r p => if p.Beneficiary = account then Add r [p] else r) []

/-- The loop of one call `ps.Add(elems...)` followed through Go's slice sharing: `receiver` is
what the receiver's slice header shows, `slice` is the local variable of `Add`, and `shared` says
whether both still use one backing array. A merge writes `slice[i] = merged` into the shared
array, an `append` within the capacity writes past the receiver's length, and an `append` beyond
the capacity moves `slice` to a new array. -/
def addSharedLoop (capacity : Nat) : List Profit → Profits → Profits → Bool → Profits × Profits
  | [], receiver, slice, _ => (receiver, slice)
  | elem :: rest, receiver, slice, shared =>
      let slice2 := addOne slice elem.Copy
      let shared2 := shared && decide (slice2.length ≤ capacity)
      let receiver2 := if shared2 then slice2.take receiver.length else receiver
      addSharedLoop capacity rest receiver2 slice2 shared2

/-- One call `ps.Add(elems...)` for a receiver `ps` whose capacity is `capacity`: the first
component is what the receiver holds after the call (its length never changes), the second is
the returned slice. -/
def AddShared (ps : Profits) (capacity : Nat) (elems : List Profit) : Profits × Profits :=
  addSharedLoop capacity elems ps ps true

end Profits

/-- The fields of `Attack` that `CheckOracle` computes (the transaction records and as-if
summaries are passed through unchanged). -/
structure Attack where
  Attacker : Address
  Victim : Address
  attackerProfits : Profits
  victimProfits : Profits
  attackerAsIfProfits : Profits
  victimAsIfProfits : Profits
  deriving DecidableEq

/-- The arguments of `CheckOracle`, each summary reduced to its `OverallProfits()`; `pr` and
`profitTxAsIfSummary` may be nil. `handlerSet` says whether an attack handler is installed, and
`capacity` is the capacity that the Go runtime gave to the slice `attackTxProfits` built by the
first `Add` (the growth policy of `append` is not part of the repository). -/
structure OracleInput where
  attackers : List Address
  victims : List Address
  ar : Profits
  vr : Profits
  pr : Option Profits
  attackTxAsIfSummary : Profits
  victimTxAsIfSummary : Profits
  profitTxAsIfSummary : Option Profits
  handlerSet : Bool
  capacity : Nat

namespace AttackSearcher

/-- The slice `attackTxProfits` when the attacker loop starts: the attack transaction's profits,
then the call `attackTxProfits.Add(pr...)` whose result is dropped. -/
def attackTxProfits (i : OracleInput) : Profits :=
  let attackTxProfits := Profits.Add [] i.ar
  match i.pr with
  | some prProfits => (Profits.AddShared attackTxProfits i.capacity prProfits).1
  | none => attackTxProfits

/-- The slice `victimTxProfits`. -/
def victimTxProfits (i : OracleInput) : Profits :=
  Profits.Add [] i.vr

/-- The slice `attackTxAsIfProfits` when the attacker loop starts. -/
def attackTxAsIfProfits (i : OracleInput) : Profits :=
  let attackTxAsIfProfits := Profits.Add [] i.attackTxAsIfSummary
  match i.profitTxAsIfSummary with
  | some ps => Profits.Add attackTxAsIfProfits ps
  | none => attackTxAsIfProfits

/-- The slice `victimTxAsIfProfits`. -/
def victimTxAsIfProfits (i : OracleInput) : Profits :=
  Profits.Add [] i.victimTxAsIfSummary

/-- The test of the attacker loop: `err == nil && cmp > 0`. -/
def attackerGains (i : OracleInput) (attacker : Address) : Bool :=
  let attackerProfits := (attackTxProfits i).ProfitsOf attacker
  let attackerAsIfProfits := (attackTxAsIfProfits i).ProfitsOf attacker
  let r := attackerProfits.Cmp attackerAsIfProfits
  decide (r.2 = none ∧ r.1 > 0)

/-- The test of the victim loop: `err == nil && cmp < 0`. -/
def victimLoses (i : OracleInput) (victim : Address) : Bool :=
  let victimProfits := (victimTxProfits i).ProfitsOf victim
  let victimAsIfProfits := (victimTxAsIfProfits i).ProfitsOf victim
  let r := victimProfits.Cmp victimAsIfProfits
  decide (r.2 = none ∧ r.1 < 0)

/-- A `for ... range` loop that leaves by `goto` at the first candidate passing `test`. -/
def firstPassing (test : Address → Bool) : List Address → Option Address
  | [] => none
  | a :: rest => if test a then some a else firstPassing test rest

/-- The function `AttackSearcher.CheckOracle`: the returned boolean and the list of attacks handed
to the handler, in call order. The oracle hook, when set, is called first and returns nothing. -/
def CheckOracle (i : OracleInput) : Bool × List Attack :=
  if i.attackers.length = 0 ∨ i.victims.length = 0 then (false, [])
  else
    match firstPassing (attackerGains i) i.attackers with
    | none => (false, [])
    | some attacker =>
        match firstPassing (victimLoses i) i.victims with
        | none => (false, [])
        | some victim =>
            let attack : Attack :=
              { Attacker := attacker
                Victim := victim
                attackerProfits := (attackTxProfits i).ProfitsOf attacker
                victimProfits := (victimTxProfits i).ProfitsOf victim
                attackerAsIfProfits := (attackTxAsIfProfits i).ProfitsOf attacker
                victimAsIfProfits := (victimTxAsIfProfits i).ProfitsOf victim }
            (true, if i.handlerSet then [attack] else [])

end AttackSearcher

/-! ## The forked state (`dyengine/state/forked.go`) -/

/-- A Go `error` value. Errors that come from outside the repository (the provider, the EVM, the
signer, the database) are told apart by a code; the other two are the ones `ExeVM.ApplyTx`
builds itself. -/
inductive GoError
  | external (code : Nat)
  | txExecutionError (msg : Nat)
  | couldNotCommit (cause : Nat)
  deriving DecidableEq, Repr

/-- The part of `chain.BlockchainReader` that the forked state consumes. Every method returns
Go's pair of a value and an error; the context argument is dropped. `StorageAt` returns the word
that `common.BytesToHash` makes of the returned bytes. A provider is a function of its arguments:
asked twice, it answers the same. -/
structure BlockchainReader where
  BlockNumber : Nat × Option GoError
  BalanceAt : Address → Nat → Nat × Option GoError
  CodeAt : Address → Nat → List Nat × Option GoError
  NonceAt : Address → Nat → Nat × Option GoError
  StorageAt : Address → Hash → Nat → Hash × Option GoError

/-- An account of the library type `state.StateDB` (go-ethereum, outside the repository):
balance, nonce, code, the committed storage (`pendingStorage` over `originStorage`, the empty
hash where nothing was committed) and the storage written since the last `Finalise`. -/
structure StateObject where
  balance : Int
  nonce : Nat
  code : List Nat
  committedStorage : Hash → Hash
  dirtyStorage : Hash → Option Hash

namespace StateObject

/-- A newly created account. -/
def new : StateObject :=
  { balance := 0, nonce := 0, code := [], committedStorage := fun _ => 0,
    dirtyStorage := fun _ => none }

/-- The library's `stateObject.empty`: no nonce, no balance, no code. -/
def empty (o : StateObject) : Bool :=
  decide (o.nonce = 0) && decide (o.balance = 0) && decide (o.code = [])

end StateObject

/-- The account data of the library type `state.StateDB` as go-ethereum documents it: the
accounts that exist, each with its `StateObject`. The library's own copies of the transaction
hash, the transaction index and the access list are never read by the forked state and are left
out, as are logs, refunds and the journal (`ForkedState` does not use the journal for reverting).
-/
structure StateDB where
  stateObjects : Address → Option StateObject

namespace StateDB

/-- The database made by `state.New` over an empty memory database. -/
def new : StateDB := { stateObjects := fun _ => none }

/-- Library `GetOrNewStateObject`: the account, created empty when missing. -/
def getOrNew (db : StateDB) (addr : Address) : StateObject :=
  (db.stateObjects addr).getD StateObject.new

/-- Stores an account. -/
def setObject (db : StateDB) (addr : Address) (o : StateObject) : StateDB :=
  { stateObjects := fun a => if a = addr then some o else db.stateObjects a }

/-- Library `Exist`. -/
def Exist (db : StateDB) (addr : Address) : Bool :=
  (db.stateObjects addr).isSome

/-- Library `Empty`. -/
def Empty (db : StateDB) (addr : Address) : Bool :=
  match db.stateObjects addr with
  | none => true
  | some o => o.empty

/-- Library `GetBalance`: zero for a missing account. -/
def GetBalance (db : StateDB) (addr : Address) : Int :=
  match db.stateObjects addr with
  | none => 0
  | some o => o.balance

/-- Library `GetNonce`: zero for a missing account. -/
def GetNonce (db : StateDB) (addr : Address) : Nat :=
  match db.stateObjects addr with
  | none => 0
  | some o => o.nonce

/-- Library `GetCode`: nil for a missing account. -/
def GetCode (db : StateDB) (addr : Address) : List Nat :=
  match db.stateObjects addr with
  | none => []
  | some o => o.code

/-- Library `AddBalance`: creates the account when missing. -/
def AddBalance (db : StateDB) (addr : Address) (amount : Int) : StateDB :=
  let o := db.getOrNew addr
  db.setObject addr { o with balance := o.balance + amount }

/-- Library `SubBalance`: creates the account when missing. -/
def SubBalance (db : StateDB) (addr : Address) (amount : Int) : StateDB :=
  let o := db.getOrNew addr
  db.setObject addr { o with balance := o.balance - amount }

/-- Library `SetNonce`: creates the account when missing. -/
def SetNonce (db : StateDB) (addr : Address) (nonce : Nat) : StateDB :=
  let o := db.getOrNew addr
  db.setObject addr { o with nonce := nonce }

/-- Library `SetCode`: creates the account when missing. -/
def SetCode (db : StateDB) (addr : Address) (code : List Nat) : StateDB :=
  let o := db.getOrNew addr
  db.setObject addr { o with code := code }

/-- Library `GetCommittedState`: the committed value, the empty hash for a missing account. -/
def GetCommittedState (db : StateDB) (addr : Address) (key : Hash) : Hash :=
  match db.stateObjects addr with
  | none => 0
  | some o => o.committedStorage key

/-- Library `GetState`: the dirty value when there is one, else the committed value. -/
def GetState (db : StateDB) (addr : Address) (key : Hash) : Hash :=
  match db.stateObjects addr with
  | none => 0
  | some o => (o.dirtyStorage key).getD (o.committedStorage key)

/-- Library `SetState`: creates the account when missing; writing the current value changes
nothing, any other value becomes the dirty value. -/
def SetState (db : StateDB) (addr : Address) (key value : Hash) : StateDB :=
  let o := db.getOrNew addr
  let prev := (o.dirtyStorage key).getD (o.committedStorage key)
  if prev = value then db.setObject addr o
  else db.setObject addr
    { o with dirtyStorage := fun k => if k = key then some value else o.dirtyStorage k }

/-- Library `Finalise`: an account that is empty is deleted when `deleteEmptyObjects` is set; in
the other accounts the dirty storage becomes committed. -/
def Finalise (db : StateDB) (deleteEmptyObjects : Bool) : StateDB :=
  { stateObjects := fun a =>
      match db.stateObjects a with
      | none => none
      | some o =>
          if deleteEmptyObjects && o.empty then none
          else some { o with
            committedStorage := fun k => (o.dirtyStorage k).getD (o.committedStorage k)
            dirtyStorage := fun _ => none } }

/-- Library `Copy`: an independent deep copy, hence the same value. -/
def Copy (db : StateDB) : StateDB := db

end StateDB

/-- The shadow access list of `ForkedState`. The source keeps `addresses map[Address]int` with an
index into `slots []map[Hash]struct{}` (`-1` for an address without slots); the indices depend
on insertion order only, so the list is kept as what it denotes: for every listed address its
set of slots. -/
structure accessList where
  addresses : Address → Option (Hash → Bool)

/-- The function `newAccessList`. -/
def newAccessList : accessList := { addresses := fun _ => none }

/-- The struct `ForkedState` (without the mutex and the context). Go maps are partial functions;
a missing key reads as the zero value, and `none` for an inner map is the nil map. -/
structure ForkedState where
  StateDB : StateDB
  stateProvider : BlockchainReader
  forkNumber : Nat
  stateInherited : Address → Option Bool
  storageInherited : Address → Option (Hash → Option Bool)
  dirtyClearedStorage : Address → Option (Hash → Option Bool)
  committedClearedStorage : Address → Option (Hash → Option Bool)
  accessList : accessList
  thash : Hash
  txIndex : Int
  snapshots : List ForkedState
  lastErr : Option GoError

/-- Reading `m[addr][key]` in a map of maps of booleans: false when either key is missing. -/
def lookup2 (m : Address → Option (Hash → Option Bool)) (addr : Address) (key : Hash) : Bool :=
  match m addr with
  | none => false
  | some inner => (inner key).getD false

/-- Storing `m[addr] = inner`. -/
def store1 {β : Type} (m : Address → Option β) (addr : Address) (inner : β) :
    Address → Option β :=
  fun a => if a = addr then some inner else m a

/-- Storing `inner[key] = b` in an inner map. -/
def storeKey (inner : Hash → Option Bool) (key : Hash) (b : Bool) : Hash → Option Bool :=
  fun k => if k = key then some b else inner k

/-- The struct literal that `NewForkedState` returns: an empty library state, empty maps, an
empty access list and no snapshot. -/
def ForkedState.fresh (forkStatePivot : BlockchainReader) (forkNumber : Nat) : ForkedState :=
  { StateDB := StateDB.new
    stateProvider := forkStatePivot
    forkNumber := forkNumber
    stateInherited := fun _ => none
    storageInherited := fun _ => none
    dirtyClearedStorage := fun _ => none
    committedClearedStorage := fun _ => none
    accessList := newAccessList
    thash := 0
    txIndex := 0
    snapshots := []
    lastErr := none }

/-- The function `NewForkedState`; `none` for `forkNumber` is the nil pointer. The second
component is the returned error, and no state is returned with an error. -/
def NewForkedState (forkStatePivot : BlockchainReader) (forkNumber : Option Nat) :
    Option ForkedState × Option GoError :=
  match forkNumber with
  | some n => (some (ForkedState.fresh forkStatePivot n), none)
  | none =>
      match forkStatePivot.BlockNumber with
      | (_, some err) => (none, some err)
      | (blockNumber, none) => (some (ForkedState.fresh forkStatePivot blockNumber), none)

namespace ForkedState

/-- The method `emptyHash`. -/
def emptyHash (hash : Hash) : Bool := decide (hash = 0)

/-- The method `inheritAccountState`: the state afterwards and the returned error. Only the
embedded `StateDB` changes before the final three assignments. -/
def inheritAccountState (s : ForkedState) (addr : Address) : ForkedState × Option GoError :=
  if !(s.stateInherited addr).getD false && !s.StateDB.Exist addr then
    match s.stateProvider.BalanceAt addr s.forkNumber with
    | (_, some err) => (s, some err)
    | (balance, none) =>
        let db1 := if balance > 0 then s.StateDB.AddBalance addr balance else s.StateDB
        match s.stateProvider.CodeAt addr s.forkNumber with
        | (_, some err) => ({ s with StateDB := db1 }, some err)
        | (code, none) =>
            let db2 := if code.length > 0 then db1.SetCode addr code else db1
            match s.stateProvider.NonceAt addr s.forkNumber with
            | (_, some err) => ({ s with StateDB := db2 }, some err)
            | (nonce, none) =>
                let db3 := if nonce > 0 then db2.SetNonce addr nonce else db2
                let m1 := store1 s.storageInherited addr (fun _ => none)
                let m2 := store1 s.dirtyClearedStorage addr (fun _ => none)
                let m3 := store1 s.stateInherited addr true
                ({ s with StateDB := db3, storageInherited := m1, dirtyClearedStorage := m2,
                          stateInherited := m3 }, none)
  else (s, none)

/-- The method `inheritAccountStorage`: the state afterwards and the returned error. -/
def inheritAccountStorage (s : ForkedState) (addr : Address) (key : Hash) :
    ForkedState × Option GoError :=
  if !lookup2 s.storageInherited addr key then
    match s.stateProvider.StorageAt addr key s.forkNumber with
    | (_, some err) => (s, some err)
    | (value, none) =>
        let db1 := if !emptyHash value then s.StateDB.SetState addr key value else s.StateDB
        match s.storageInherited addr with
        | some storage =>
            let m := store1 s.storageInherited addr (storeKey storage key true)
            ({ s with StateDB := db1, storageInherited := m }, none)
        | none =>
            let m := store1 s.storageInherited addr (storeKey (fun _ => none) key true)
            ({ s with StateDB := db1, storageInherited := m }, none)
  else (s, none)

/-- The statement `if err != nil { s.lastErr = err }`. -/
def recordErr (r : ForkedState × Option GoError) : ForkedState :=
  match r.2 with
  | some err => { r.1 with lastErr := some err }
  | none => r.1

/-- The common prologue of the account methods. -/
def touchAccount (s : ForkedState) (addr : Address) : ForkedState :=
  recordErr (s.inheritAccountState addr)

/-- The common prologue of the storage methods. -/
def touchStorage (s : ForkedState) (addr : Address) (key : Hash) : ForkedState :=
  recordErr ((s.touchAccount addr).inheritAccountStorage addr key)

/-- The method `SubBalance`. -/
def SubBalance (s : ForkedState) (addr : Address) (amount : Int) : ForkedState :=
  let s1 := s.touchAccount addr
  { s1 with StateDB := s1.StateDB.SubBalance addr amount }

/-- The method `AddBalance`. -/
def AddBalance (s : ForkedState) (addr : Address) (amount : Int) : ForkedState :=
  let s1 := s.touchAccount addr
  { s1 with StateDB := s1.StateDB.AddBalance addr amount }

/-- The method `GetBalance`: the state afterwards and the returned balance. -/
def GetBalance (s : ForkedState) (addr : Address) : ForkedState × Int :=
  let s1 := s.touchAccount addr
  (s1, s1.StateDB.GetBalance addr)

/-- The method `GetNonce`. -/
def GetNonce (s : ForkedState) (addr : Address) : ForkedState × Nat :=
  let s1 := s.touchAccount addr
  (s1, s1.StateDB.GetNonce addr)

/-- The method `SetNonce`. -/
def SetNonce (s : ForkedState) (addr : Address) (nonce : Nat) : ForkedState :=
  let s1 := s.touchAccount addr
  { s1 with StateDB := s1.StateDB.SetNonce addr nonce }

/-- The method `GetCode`. -/
def GetCode (s : ForkedState) (addr : Address) : ForkedState × List Nat :=
  let s1 := s.touchAccount addr
  (s1, s1.StateDB.GetCode addr)

/-- The method `SetCode`. -/
def SetCode (s : ForkedState) (addr : Address) (code : List Nat) : ForkedState :=
  let s1 := s.touchAccount addr
  { s1 with StateDB := s1.StateDB.SetCode addr code }

/-- The method `GetCommittedState`. -/
def GetCommittedState (s : ForkedState) (addr : Address) (hash : Hash) : ForkedState × Hash :=
  let s1 := s.touchStorage addr hash
  let value := s1.StateDB.GetCommittedState addr hash
  if emptyHash value then
    if lookup2 s1.committedClearedStorage addr hash then (s1, value)
    else
      let r := s1.stateProvider.StorageAt addr hash s1.forkNumber
      (recordErr (s1, r.2), r.1)
  else (s1, value)

/-- The method `GetState`. -/
def GetState (s : ForkedState) (addr : Address) (hash : Hash) : ForkedState × Hash :=
  let s1 := s.touchStorage addr hash
  (s1, s1.StateDB.GetState addr hash)

/-- The method `SetState`. The final assignment `s.dirtyClearedStorage[addr][hash] = ...` is an
assignment to an entry of a nil map, a runtime panic, when the account has no inner map; that
is `none`. -/
def SetState (s : ForkedState) (addr : Address) (hash value : Hash) : Option ForkedState :=
  let s1 := s.touchStorage addr hash
  let s2 := { s1 with StateDB := s1.StateDB.SetState addr hash value }
  match s2.dirtyClearedStorage addr with
  | none => none
  | some inner =>
      let m := store1 s2.dirtyClearedStorage addr (storeKey inner hash (emptyHash value))
      some { s2 with dirtyClearedStorage := m }

/-- The method `Exist`. -/
def Exist (s : ForkedState) (addr : Address) : ForkedState × Bool :=
  let s1 := s.touchAccount addr
  (s1, s1.StateDB.Exist addr)

/-- The method `Empty`. -/
def Empty (s : ForkedState) (addr : Address) : ForkedState × Bool :=
  let s1 := s.touchAccount addr
  (s1, s1.StateDB.Empty addr)

/-- The method `AddAddressToAccessList`. -/
def AddAddressToAccessList (s : ForkedState) (addr : Address) : ForkedState :=
  match s.accessList.addresses addr with
  | some _ => s
  | none =>
      let m := store1 s.accessList.addresses addr (fun _ => false)
      { s with accessList := { addresses := m } }

/-- The method `AddSlotToAccessList`. -/
def AddSlotToAccessList (s : ForkedState) (addr : Address) (slot : Hash) : ForkedState :=
  let slotmap : Hash → Bool := (s.accessList.addresses addr).getD (fun _ => false)
  let m := store1 s.accessList.addresses addr (fun k => if k = slot then true else slotmap k)
  { s with accessList := { addresses := m } }

/-- The method `Prepare`. -/
def Prepare (s : ForkedState) (thash : Hash) (ti : Int) : ForkedState :=
  { s with thash := thash, txIndex := ti }

/-- The method `Copy`. The maps are copied entry by entry and the snapshot slice element by
element, so each is the same value; the copy is prepared with the receiver's transaction hash
and index, and the loop over the receiver's access list adds every address and slot to the
copy's, which ends up denoting the same list. -/
def Copy (s : ForkedState) : ForkedState :=
  { StateDB := s.StateDB.Copy
    stateProvider := s.stateProvider
    forkNumber := s.forkNumber
    stateInherited := s.stateInherited
    storageInherited := s.storageInherited
    dirtyClearedStorage := s.dirtyClearedStorage
    committedClearedStorage := s.committedClearedStorage
    accessList := { addresses := s.accessList.addresses }
    thash := s.thash
    txIndex := s.txIndex
    snapshots := s.snapshots
    lastErr := s.lastErr }

/-- The method `Snapshot`: the state afterwards and the returned id. -/
def Snapshot (s : ForkedState) : ForkedState × Nat :=
  let snapshot := s.Copy
  let id := s.snapshots.length
  ({ s with snapshots := s.snapshots ++ [snapshot] }, id)

/-- The method `RevertToSnapshot`; an index outside the slice is a runtime panic, `none`. The
fields are assigned one by one from the snapshot: the access list, the transaction hash and the
transaction index are not among them. -/
def RevertToSnapshot (s : ForkedState) (snapshotId : Nat) : Option ForkedState :=
  match s.snapshots.get? snapshotId with
  | none => none
  | some snapshot =>
      some { s with
        StateDB := snapshot.StateDB
        stateProvider := snapshot.stateProvider
        forkNumber := snapshot.forkNumber
        stateInherited := snapshot.stateInherited
        storageInherited := snapshot.storageInherited
        dirtyClearedStorage := snapshot.dirtyClearedStorage
        committedClearedStorage := snapshot.committedClearedStorage
        snapshots := snapshot.snapshots
        lastErr := snapshot.lastErr }

/-- The loop of `Finalise` over `dirtyClearedStorage`, entry by entry: an account with a dirty
map gets a committed map when it has none, every key cleared in the dirty map is set in the
committed map and every key written non-zero is deleted from it. -/
def promoteCleared (dirty committed : Address → Option (Hash → Option Bool)) :
    Address → Option (Hash → Option Bool) :=
  fun acc =>
    match dirty acc with
    | none => committed acc
    | some stor =>
        let old : Hash → Option Bool := (committed acc).getD (fun _ => none)
        some (fun key =>
          match stor key with
          | some true => some true
          | some false => none
          | none => old key)

/-- The method `Finalise`. -/
def Finalise (s : ForkedState) (deleteEmptyObjects : Bool) : ForkedState :=
  { s with
    StateDB := s.StateDB.Finalise deleteEmptyObjects
    committedClearedStorage := promoteCleared s.dirtyClearedStorage s.committedClearedStorage }

/-- The method `LastError`. -/
def LastError (s : ForkedState) : Option GoError := s.lastErr

end ForkedState

/-- The method `PrepareAccessList`; an access-list entry is an address with its storage keys. -/
def ForkedState.PrepareAccessList (s : ForkedState) (sender : Address) (dst : Option Address)
    (precompiles : List Address) (list : List (Address × List Hash)) : ForkedState :=
  let s0 : ForkedState := { s with accessList := newAccessList }
  let s1 := s0.AddAddressToAccessList sender
  let s2 := match dst with
    | some d => s1.AddAddressToAccessList d
    | none => s1
  let s3 := precompiles.foldl (fun st addr => st.AddAddressToAccessList addr) s2
  list.foldl
    (fun st el =>
      el.2.foldl (fun st2 key => st2.AddSlotToAccessList el.1 key) (st.AddAddressToAccessList el.1))
    s3

/-- A value returned by a call on the state. -/
inductive OpValue
  | unit
  | int (v : Int)
  | nat (v : Nat)
  | bytes (v : List Nat)
  | word (v : Hash)
  | bool (v : Bool)
  deriving DecidableEq, Repr

/-- One call on a `ForkedState` through the interface `dyengine.State`. `onAccount` stands for
the remaining overridden account methods (`GetCodeHash`, `GetCodeSize`, `Suicide`,
`HasSuicided`), which inherit the account and then call the library method `f`; `promoted`
stands for the library methods that `ForkedState` does not override (`CreateAccount`, refunds,
logs, ...), which reach the embedded `StateDB` directly. -/
inductive StateOp
  | GetBalance (addr : Address)
  | AddBalance (addr : Address) (amount : Int)
  | SubBalance (addr : Address) (amount : Int)
  | GetNonce (addr : Address)
  | SetNonce (addr : Address) (nonce : Nat)
  | GetCode (addr : Address)
  | SetCode (addr : Address) (code : List Nat)
  | GetState (addr : Address) (hash : Hash)
  | SetState (addr : Address) (hash value : Hash)
  | GetCommittedState (addr : Address) (hash : Hash)
  | Exist (addr : Address)
  | Empty (addr : Address)
  | AddAddressToAccessList (addr : Address)
  | AddSlotToAccessList (addr : Address) (slot : Hash)
  | PrepareAccessList (sender : Address) (dst : Option Address) (precompiles : List Address)
      (list : List (Address × List Hash))
  | Snapshot
  | RevertToSnapshot (snapshotId : Nat)
  | onAccount (addr : Address) (f : StateDB → StateDB × OpValue)
  | promoted (f : StateDB → StateDB × OpValue)

/-- Performs one call: the state afterwards and the returned value, or `none` when the call ends
in a runtime panic. -/
def ForkedState.step (s : ForkedState) : StateOp → Option (ForkedState × OpValue)
  | StateOp.GetBalance addr => let r := s.GetBalance addr; some (r.1, OpValue.int r.2)
  | StateOp.AddBalance addr amount => some (s.AddBalance addr amount, OpValue.unit)
  | StateOp.SubBalance addr amount => some (s.SubBalance addr amount, OpValue.unit)
  | StateOp.GetNonce addr => let r := s.GetNonce addr; some (r.1, OpValue.nat r.2)
  | StateOp.SetNonce addr nonce => some (s.SetNonce addr nonce, OpValue.unit)
  | StateOp.GetCode addr => let r := s.GetCode addr; some (r.1, OpValue.bytes r.2)
  | StateOp.SetCode addr code => some (s.SetCode addr code, OpValue.unit)
  | StateOp.GetState addr hash => let r := s.GetState addr hash; some (r.1, OpValue.word r.2)
  | StateOp.SetState addr hash value =>
      (s.SetState addr hash value).map (fun s2 => (s2, OpValue.unit))
  | StateOp.GetCommittedState addr hash =>
      let r := s.GetCommittedState addr hash; some (r.1, OpValue.word r.2)
  | StateOp.Exist addr => let r := s.Exist addr; some (r.1, OpValue.bool r.2)
  | StateOp.Empty addr => let r := s.Empty addr; some (r.1, OpValue.bool r.2)
  | StateOp.AddAddressToAccessList addr => some (s.AddAddressToAccessList addr, OpValue.unit)
  | StateOp.AddSlotToAccessList addr slot => some (s.AddSlotToAccessList addr slot, OpValue.unit)
  | StateOp.PrepareAccessList sender dst precompiles list =>
      some (s.PrepareAccessList sender dst precompiles list, OpValue.unit)
  | StateOp.Snapshot => let r := s.Snapshot; some (r.1, OpValue.nat r.2)
  | StateOp.RevertToSnapshot snapshotId =>
      (s.RevertToSnapshot snapshotId).map (fun s2 => (s2, OpValue.unit))
  | StateOp.onAccount addr f =>
      let s1 := s.touchAccount addr
      let r := f s1.StateDB
      some ({ s1 with StateDB := r.1 }, r.2)
  | StateOp.promoted f =>
      let r := f s.StateDB
      some ({ s with StateDB := r.1 }, r.2)

/-- Performs a sequence of calls, one after the other, and collects the returned values; `none`
when one of them panics. -/
def ForkedState.run (s : ForkedState) : List StateOp → Option (ForkedState × List OpValue)
  | [] => some (s, [])
  | o :: rest =>
      match s.step o with
      | none => none
      | some (s1, v) =>
          match ForkedState.run s1 rest with
          | none => none
          | some (s2, vs) => some (s2, v :: vs)

/-- The five reads of account data. -/
inductive StateRead
  | GetBalance (addr : Address)
  | GetNonce (addr : Address)
  | GetCode (addr : Address)
  | GetState (addr : Address) (hash : Hash)
  | GetCommittedState (addr : Address) (hash : Hash)

/-- The call that a read stands for. -/
def StateRead.toOp : StateRead → StateOp
  | StateRead.GetBalance addr => StateOp.GetBalance addr
  | StateRead.GetNonce addr => StateOp.GetNonce addr
  | StateRead.GetCode addr => StateOp.GetCode addr
  | StateRead.GetState addr hash => StateOp.GetState addr hash
  | StateRead.GetCommittedState addr hash => StateOp.GetCommittedState addr hash

/-- The values returned by a sequence of reads performed one after the other. -/
def ForkedState.readAll (s : ForkedState) (reads : List StateRead) : Option (List OpValue) :=
  (s.run (reads.map StateRead.toOp)).map (fun r => r.2)

/-! ## The transaction runner (`dyengine/exevm.go`) -/

/-- Code that works on a state through the interface `dyengine.State`: it returns, panics, or
performs a call and goes on with the returned value. The EVM, a tracer callback and the closure
of a pseudo transaction are such code. -/
inductive Prog (ρ : Type)
  | ret (r : ρ)
  | panic (msg : Nat)
  | op (o : StateOp) (k : OpValue → Prog ρ)

/-- Runs code on a state: the state when it stops, and the returned value or the panic message.
A call that itself panics (see `ForkedState.step`) stops the code with message `0`. -/
def Prog.exec {ρ : Type} : Prog ρ → ForkedState → ForkedState × Except Nat ρ
  | Prog.ret r, s => (s, Except.ok r)
  | Prog.panic msg, s => (s, Except.error msg)
  | Prog.op o k, s =>
      match s.step o with
      | none => (s, Except.error 0)
      | some (s1, v) => Prog.exec (k v) s1

/-- The library type `core.ExecutionResult`. -/
structure ExecutionResult where
  UsedGas : Nat
  Err : Option GoError
  ReturnData : List Nat
  deriving DecidableEq

/-- The library type `types.Message`, as built by `types.NewMessage`. -/
structure Message where
  From : Address
  To : Option Address
  Nonce : Nat
  Value : Int
  Gas : Nat
  GasPrice : Int
  GasFeeCap : Int
  GasTipCap : Int
  Data : List Nat
  AccessList : List (Address × List Hash)
  IsFake : Bool
  deriving DecidableEq

/-- The struct `Tx` with the fields of the wrapped `types.Transaction` that `ApplyTx` reads.
`AsMessage` is the outcome of the library call `tx.AsMessage(signer, baseFee)` for a signed
transaction. -/
structure Tx where
  Hash : Erebus.Hash
  TxType : Nat
  To : Option Address
  Nonce : Nat
  Value : Int
  Gas : Nat
  GasPrice : Int
  GasFeeCap : Int
  GasTipCap : Int
  Data : List Nat
  AccessList : List (Address × List Erebus.Hash)
  isPseudo : Bool
  PseudoExec : Option (Prog (List Nat × Option GoError))
  signed : Bool
  sender : Address
  AsMessage : Message × Option GoError

/-- The fields of `VMConfig` that `ApplyTx` reads; the two fork tests of the chain configuration
are functions of the block number. -/
structure VMConfig where
  NoBaseFee : Bool
  BypassNonceAndSenderCheck : Bool
  CapGasToBlockLimit : Bool
  ForceZeroGasPrice : Bool
  RegulateBaseFee : Bool
  IsByzantium : Nat → Bool
  IsEIP158 : Nat → Bool

/-- The struct `VMContext`. The gas pool is a pointer shared with the library, which draws gas
from it inside `core.ApplyMessage`; `GasPool` is the gas it holds when `ApplyTx` is called and is
not followed further. `GasUsed` is a `uint64` and `TransactionIndex` a `uint`. -/
structure VMContext where
  BlockNumber : Nat
  BaseFee : Option Int
  BlockHash : Hash
  GasPool : Nat
  GasUsed : Nat
  TransactionIndex : Nat
  deriving DecidableEq

/-- The fields of `types.Receipt` that `ApplyTx` fills without hashing: the post-state root, the
contract address, the logs and the bloom filter are left out. -/
structure Receipt where
  TxType : Nat
  CumulativeGasUsed : Nat
  Status : Nat
  TxHash : Hash
  GasUsed : Nat
  TransactionIndex : Nat
  BlockHash : Hash
  BlockNumber : Nat
  deriving DecidableEq

/-- The interface `TxTracer` as far as `ApplyTx` calls it directly. -/
structure TxTracer where
  TransactionStart : Prog Unit
  TransactionEnd : Prog Unit

/-- The struct `ExeVM`, together with the library code it drives: `ApplyMessage` is
`core.ApplyMessage` for the given message (with the per-opcode tracer callbacks), and
`commitErr` is the cause of the error, if any, that the database answers to `state.Commit`. -/
structure ExeVM where
  Config : VMConfig
  Tracer : Option TxTracer
  ApplyMessage : Message → Prog (Option ExecutionResult × Option GoError)
  commitErr : Option Nat

/-- What `ApplyTx` returns, with the state and the context as it leaves them. -/
structure ApplyTxResult where
  msgResult : Option ExecutionResult
  receipt : Option Receipt
  err : Option GoError
  state : ForkedState
  vmContext : VMContext

namespace ExeVM

/-- The message that `ApplyTx` builds; an error of `tx.AsMessage` is returned as it is. -/
def buildMessage (m : ExeVM) (tx : Tx) (vmContext : VMContext) : Except GoError Message :=
  let regulate (feeCap : Int) : Int :=
    match vmContext.BaseFee with
    | some baseFee =>
        if m.Config.RegulateBaseFee && decide (feeCap < baseFee) then baseFee else feeCap
    | none => feeCap
  if tx.signed then
    match tx.AsMessage with
    | (_, some err) => Except.error err
    | (oriMsg, none) =>
        let gas := if m.Config.CapGasToBlockLimit && decide (oriMsg.Gas > vmContext.GasPool)
          then vmContext.GasPool else oriMsg.Gas
        let gasPrice := if m.Config.ForceZeroGasPrice then 0 else oriMsg.GasPrice
        let feeCap := if m.Config.NoBaseFee then 0 else oriMsg.GasFeeCap
        let tipCap := if m.Config.NoBaseFee then 0 else oriMsg.GasTipCap
        Except.ok
          { From := oriMsg.From, To := oriMsg.To, Nonce := oriMsg.Nonce, Value := oriMsg.Value,
            Gas := gas, GasPrice := gasPrice, GasFeeCap := regulate feeCap, GasTipCap := tipCap,
            Data := oriMsg.Data, AccessList := oriMsg.AccessList,
            IsFake := m.Config.BypassNonceAndSenderCheck }
  else
    let gas := if m.Config.CapGasToBlockLimit && decide (tx.Gas > vmContext.GasPool)
      then vmContext.GasPool else tx.Gas
    let gasPrice := if m.Config.ForceZeroGasPrice then 0 else tx.GasPrice
    let feeCap := if m.Config.NoBaseFee then 0 else tx.GasFeeCap
    let tipCap := if m.Config.NoBaseFee then 0 else tx.GasTipCap
    Except.ok
      { From := tx.sender, To := tx.To, Nonce := tx.Nonce, Value := tx.Value,
        Gas := gas, GasPrice := gasPrice, GasFeeCap := regulate feeCap, GasTipCap := tipCap,
        Data := tx.Data, AccessList := tx.AccessList,
        IsFake := m.Config.BypassNonceAndSenderCheck }

/-- The result that the deferred `recover` leaves when a panic with message `msg` stops
`ApplyTx`: the named results keep what was assigned to them so far and `err` becomes a
`txExecutionError`. -/
def recovered (msgResult : Option ExecutionResult) (receipt : Option Receipt) (msg : Nat)
    (state : ForkedState) (vmContext : VMContext) : ApplyTxResult :=
  { msgResult := msgResult, receipt := receipt, err := some (GoError.txExecutionError msg),
    state := state, vmContext := vmContext }

/-- The library methods `IntermediateRoot` and `Commit`, promoted from the embedded `StateDB`:
both finalise the library state (the bookkeeping of `ForkedState.Finalise` is not run); `Commit`
then writes to the database, which may answer an error. -/
def commitState (state : ForkedState) (deleteEmptyObjects : Bool) : ForkedState :=
  { state with StateDB := state.StateDB.Finalise deleteEmptyObjects }

/-- The step of `ApplyTx` after the message was applied without error: gas accounting,
finalisation, the receipt, the transaction index, the commit and the closing tracer callback. -/
def finish (m : ExeVM) (state : ForkedState) (tx : Tx) (vmContext : VMContext)
    (commit genReceipt : Bool) (msgResult : ExecutionResult) : ApplyTxResult :=
  let ctx1 : VMContext := { vmContext with GasUsed := (vmContext.GasUsed + msgResult.UsedGas) % 2 ^ 64 }
  let state1 :=
    if m.Config.IsByzantium ctx1.BlockNumber then state.Finalise true
    else commitState state (m.Config.IsEIP158 ctx1.BlockNumber)
  let receipt : Option Receipt :=
    if genReceipt then
      some
        { TxType := tx.TxType
          CumulativeGasUsed := ctx1.GasUsed
          Status := if msgResult.Err.isSome then 0 else 1
          TxHash := tx.Hash
          GasUsed := msgResult.UsedGas
          TransactionIndex := ctx1.TransactionIndex
          BlockHash := ctx1.BlockHash
          BlockNumber := ctx1.BlockNumber }
    else none
  let ctx2 : VMContext := { ctx1 with TransactionIndex := (ctx1.TransactionIndex + 1) % 2 ^ 64 }
  let state2 := if commit then commitState state1 (m.Config.IsEIP158 ctx2.BlockNumber) else state1
  match (if commit then m.commitErr else none) with
  | some cause =>
      { msgResult := none, receipt := none, err := some (GoError.couldNotCommit cause),
        state := state2, vmContext := ctx2 }
  | none =>
      match m.Tracer with
      | none =>
          { msgResult := some msgResult, receipt := receipt, err := none, state := state2,
            vmContext := ctx2 }
      | some tracer =>
          match tracer.TransactionEnd.exec state2 with
          | (state3, Except.error msg) => recovered (some msgResult) receipt msg state3 ctx2
          | (state3, Except.ok _) =>
              { msgResult := some msgResult, receipt := receipt, err := none, state := state3,
                vmContext := ctx2 }

/-- The function `ExeVM.ApplyTx`. -/
def ApplyTx (m : ExeVM) (state : ForkedState) (tx : Tx) (vmContext : VMContext)
    (commit genReceipt : Bool) : ApplyTxResult :=
  if tx.isPseudo then
    match tx.PseudoExec with
    | none =>
        { msgResult := some { UsedGas := 0, Err := none, ReturnData := [] }, receipt := none,
          err := none, state := state, vmContext := vmContext }
    | some pseudoExec =>
        match pseudoExec.exec state with
        | (state1, Except.error msg) => recovered none none msg state1 vmContext
        | (state1, Except.ok (returnData, err)) =>
            { msgResult := some { UsedGas := 0, Err := err, ReturnData := returnData },
              receipt := none, err := none, state := state1, vmContext := vmContext }
  else
    match m.buildMessage tx vmContext with
    | Except.error err =>
        { msgResult := none, receipt := none, err := some err, state := state,
          vmContext := vmContext }
    | Except.ok msg =>
        let state1 := state.Prepare tx.Hash vmContext.TransactionIndex
        let snap := state1.Snapshot
        let state2 := snap.1
        let snapshot := snap.2
        let started : ForkedState × Except Nat Unit :=
          match m.Tracer with
          | some tracer => tracer.TransactionStart.exec state2
          | none => (state2, Except.ok ())
        match started with
        | (state3, Except.error panicMsg) => recovered none none panicMsg state3 vmContext
        | (state3, Except.ok _) =>
            match (m.ApplyMessage msg).exec state3 with
            | (state4, Except.error panicMsg) => recovered none none panicMsg state4 vmContext
            | (state4, Except.ok (msgResult, some err)) =>
                match state4.RevertToSnapshot snapshot with
                | none => recovered msgResult none 0 state4 vmContext
                | some state5 =>
                    { msgResult := msgResult, receipt := none, err := some err, state := state5,
                      vmContext := vmContext }
            | (state4, Except.ok (msgResult, none)) =>
                match state4.LastError with
                | some err =>
                    match state4.RevertToSnapshot snapshot with
                    | none => recovered msgResult none 0 state4 vmContext
                    | some state5 =>
                        { msgResult := msgResult, receipt := none, err := some err,
                          state := state5, vmContext := vmContext }
                | none =>
                    match msgResult with
                    | none => recovered none none 0 state4 vmContext
                    | some result => m.finish state4 tx vmContext commit genReceipt result

end ExeVM

/-! ## Notions used to state the properties -/

/-- The oracle's condition on an attacker as the specification words it: the comparison of the
attacker's profits in the attack scenario with those in the attack-free scenario is `(1, nil)`.
-/
def AttackSearcher.Gains (i : OracleInput) (a : Address) : Prop :=
  Profits.Cmp ((AttackSearcher.attackTxProfits i).ProfitsOf a)
    ((AttackSearcher.attackTxAsIfProfits i).ProfitsOf a) = (1, none)

/-- The oracle's condition on a victim as the specification words it: the comparison of the
victim's profits in the attack scenario with those in the attack-free scenario is `(-1, nil)`.
-/
def AttackSearcher.Loses (i : OracleInput) (v : Address) : Prop :=
  Profits.Cmp ((AttackSearcher.victimTxProfits i).ProfitsOf v)
    ((AttackSearcher.victimTxAsIfProfits i).ProfitsOf v) = (-1, none)

/-- The address `a` is the first element of `l`, in list order, that satisfies `P`. -/
def FirstSuch (P : Address → Prop) (l : List Address) (a : Address) : Prop :=
  ∃ l1 l2 : List Address, l = l1 ++ a :: l2 ∧ P a ∧ ∀ x ∈ l1, ¬ P x

/-- The attack that the oracle reports for attacker `a` and victim `v`. -/
def AttackSearcher.reported (i : OracleInput) (a v : Address) : Attack :=
  { Attacker := a
    Victim := v
    attackerProfits := (AttackSearcher.attackTxProfits i).ProfitsOf a
    victimProfits := (AttackSearcher.victimTxProfits i).ProfitsOf v
    attackerAsIfProfits := (AttackSearcher.attackTxAsIfProfits i).ProfitsOf a
    victimAsIfProfits := (AttackSearcher.victimTxAsIfProfits i).ProfitsOf v }

/-- Two profits are comparable when `p.Cmp(q)` returns no error. -/
def Profit.Comparable (p q : Profit) : Bool :=
  decide ((p.Cmp q).2 = none)

/-- No two profits of the list are comparable with each other, in either order. -/
def Profits.NoTwoComparable (l : Profits) : Prop :=
  l.Pairwise (fun p q => p.Comparable q = false ∧ q.Comparable p = false)

/-- The pairing of the profit `p` with its comparable counterpart in the other list, as the
comparison of `p` with that counterpart; when there is none `p` is set against a zero profit,
which `ZeroProfit.Cmp` compares from the other side. -/
def Profits.pairing (p : Profit) (other : Profits) : Int :=
  match other.find? (fun q => p.Comparable q) with
  | some q => (p.Cmp q).1
  | none => -(Profit.ZeroProfit.Cmp p).1

/-- All pairings of two lists, each as the comparison of the side of `A` with the side of `B`:
`1` when the side of `A` is strictly greater, `-1` when it is strictly smaller, `0` when both
are equal. -/
def Profits.pairings (A B : Profits) : List Int :=
  A.map (fun p => Profits.pairing p B) ++ B.map (fun q => -(Profits.pairing q A))

/-- The signed amount that a profit carries (for token sets, received minus given). -/
def Profit.amount : Profit → Int
  | Profit.ZeroProfit => 0
  | Profit.EtherProfit _ v => v
  | Profit.ERC20Profit _ _ v => v
  | Profit.ERC721CombinedProfit _ _ r g => Profit.netTokens r g
  | Profit.ERC777Profit _ _ v => v
  | Profit.ERC1155Profit _ _ _ v => v

/-- What two profits other than `ZeroProfit` must share to be comparable. -/
def Profit.key : Profit → Option (AssetType × Address × Address × Hash)
  | Profit.ZeroProfit => none
  | Profit.EtherProfit a _ => some (AssetType.EtherAsset, a, 0, 0)
  | Profit.ERC20Profit a c _ => some (AssetType.ERC20Asset, a, c, 0)
  | Profit.ERC721CombinedProfit a c _ _ => some (AssetType.ERC721Asset, a, c, 0)
  | Profit.ERC777Profit a c _ => some (AssetType.ERC777Asset, a, c, 0)
  | Profit.ERC1155Profit a c t _ => some (AssetType.ERC1155Asset, a, c, t)

/-- The two lists that `Profits.Cmp` hands to `innerCmp`: compacted, and `[ZeroProfit]` in place
of an empty list. -/
def Profits.prepared (l : Profits) : Profits :=
  if (Profits.Compact l).length = 0 then Profits.Add (Profits.Compact l) [Profit.ZeroProfit]
  else Profits.Compact l

/-- Two forked states hold the same account data and bookkeeping: they may differ in the shadow
access list, the transaction hash, the transaction index and the snapshot stack only. -/
def ForkedState.Agree (s t : ForkedState) : Prop :=
  s.StateDB = t.StateDB ∧ s.stateProvider = t.stateProvider ∧ s.forkNumber = t.forkNumber ∧
    s.stateInherited = t.stateInherited ∧ s.storageInherited = t.storageInherited ∧
    s.dirtyClearedStorage = t.dirtyClearedStorage ∧
    s.committedClearedStorage = t.committedClearedStorage ∧ s.lastErr = t.lastErr

/-- The snapshot stack `l` still starts with the stack `base`, and so does the stack saved in
every snapshot that lies above `base`. -/
inductive ForkedState.Above (base : List ForkedState) : List ForkedState → Prop
  | mk (l : List ForkedState) :
      l.take base.length = base →
      (∀ x ∈ l.drop base.length, ForkedState.Above base x.snapshots) →
      ForkedState.Above base l

/-- The call is not a `RevertToSnapshot` to the snapshot `id` or to an older one. -/
def StateOp.revertsAbove (id : Nat) : StateOp → Bool
  | StateOp.RevertToSnapshot snapshotId => decide (id < snapshotId)
  | _ => true

/-- A provider used in the worked examples: account 1 holds 999 wei, code `[35, 51]`, nonce 9 and
the word 7 in slot 0; every other account is empty; the chain is at block 100. -/
def Example.provider : BlockchainReader :=
  { BlockNumber := (100, none)
    BalanceAt := fun a _ => (if a = 1 then 999 else 0, none)
    CodeAt := fun a _ => (if a = 1 then [35, 51] else [], none)
    NonceAt := fun a _ => (if a = 1 then 9 else 0, none)
    StorageAt := fun a k _ => (if a = 1 ∧ k = 0 then 7 else 0, none) }

/-- A provider whose `CodeAt` fails with a transport error while `NonceAt` answers 5. -/
def Example.failingProvider : BlockchainReader :=
  { BlockNumber := (100, none)
    BalanceAt := fun _ _ => (0, none)
    CodeAt := fun _ _ => ([], some (GoError.external 1))
    NonceAt := fun _ _ => (5, none)
    StorageAt := fun _ _ _ => (0, none) }

/-- The fork block of a state made by `NewForkedState`: the given number, or the provider's
current block number when the number is nil. -/
def forkBlock (provider : BlockchainReader) (forkNumber : Option Nat) : Nat :=
  match forkNumber with
  | some n => n
  | none => provider.BlockNumber.1

/-- The code, run from the state `s`, never reverts to the snapshot `id` or to an older one: it
reverts only to snapshots that were taken after `id`. -/
def Prog.revertsAbove {ρ : Type} (id : Nat) : Prog ρ → ForkedState → Bool
  | Prog.ret _, _ => true
  | Prog.panic _, _ => true
  | Prog.op o k, s =>
      o.revertsAbove id &&
        (match s.step o with
          | none => true
          | some (s1, v) => Prog.revertsAbove id (k v) s1)

/-- During `ApplyTx` the opening tracer callback and the EVM revert only to snapshots that they
took themselves, after the snapshot that `ApplyTx` takes. -/
def ExeVM.revertsOwnSnapshots (m : ExeVM) (state : ForkedState) (tx : Tx)
    (vmContext : VMContext) : Bool :=
  match m.buildMessage tx vmContext with
  | Except.error _ => true
  | Except.ok msg =>
      let snap := (state.Prepare tx.Hash vmContext.TransactionIndex).Snapshot
      match m.Tracer with
      | none => (m.ApplyMessage msg).revertsAbove snap.2 snap.1
      | some tracer =>
          tracer.TransactionStart.revertsAbove snap.2 snap.1 &&
            (match tracer.TransactionStart.exec snap.1 with
              | (state3, Except.ok _) => (m.ApplyMessage msg).revertsAbove snap.2 state3
              | (_, Except.error _) => true)

/-- A chain configuration past Byzantium with no special flags. -/
def Example.config : VMConfig :=
  { NoBaseFee := false, BypassNonceAndSenderCheck := false, CapGasToBlockLimit := false,
    ForceZeroGasPrice := false, RegulateBaseFee := false, IsByzantium := fun _ => true,
    IsEIP158 := fun _ => true }

/-- An unsigned transfer from account 1 to account 2. -/
def Example.tx : Tx :=
  { Hash := 77, TxType := 0, To := some 2, Nonce := 0, Value := 5, Gas := 21000, GasPrice := 0,
    GasFeeCap := 0, GasTipCap := 0, Data := [], AccessList := [], isPseudo := false,
    PseudoExec := none, signed := false, sender := 1,
    AsMessage :=
      ({ From := 1, To := some 2, Nonce := 0, Value := 5, Gas := 21000, GasPrice := 0,
         GasFeeCap := 0, GasTipCap := 0, Data := [], AccessList := [], IsFake := false }, none) }

/-- A block context with nothing used yet. -/
def Example.vmContext : VMContext :=
  { BlockNumber := 101, BaseFee := none, BlockHash := 0, GasPool := 30000000, GasUsed := 0,
    TransactionIndex := 0 }

/-- An EVM that credits account 2 and then panics. -/
def Example.panickingVM : ExeVM :=
  { Config := Example.config, Tracer := none,
    ApplyMessage := fun _ => Prog.op (StateOp.AddBalance 2 5) (fun _ => Prog.panic 1),
    commitErr := none }

/-- An EVM that succeeds, over a database that refuses the commit. -/
def Example.commitFailingVM : ExeVM :=
  { Config := Example.config, Tracer := none,
    ApplyMessage := fun _ =>
      Prog.op (StateOp.AddBalance 2 5)
        (fun _ => Prog.ret (some { UsedGas := 21000, Err := none, ReturnData := [] }, none)),
    commitErr := some 3 }

/-- An EVM that credits account 2, takes a snapshot, writes a slot, reverts to its own snapshot
and then fails the message with an error. -/
def Example.failingVM : ExeVM :=
  { Config := Example.config, Tracer := none,
    ApplyMessage := fun _ =>
      Prog.op (StateOp.AddBalance 2 5) (fun _ =>
        Prog.op StateOp.Snapshot (fun _ =>
          Prog.op (StateOp.SetState 2 0 9) (fun _ =>
            Prog.op (StateOp.RevertToSnapshot 1) (fun _ =>
              Prog.ret (none, some (GoError.external 7)))))),
    commitErr := none }

/-! ## The nested call tracer (`dyengine/tracers`) -/

/-- The library type `vm.OpCode`, a byte. -/
abbrev OpCode := Nat

namespace vm

def STOP : OpCode := 0x00
def ADD : OpCode := 0x01
def KECCAK256 : OpCode := 0x20
def BALANCE : OpCode := 0x31
def CALLDATALOAD : OpCode := 0x35
def CALLDATACOPY : OpCode := 0x37
def CODESIZE : OpCode := 0x38
def CODECOPY : OpCode := 0x39
def EXTCODESIZE : OpCode := 0x3b
def EXTCODECOPY : OpCode := 0x3c
def RETURNDATACOPY : OpCode := 0x3e
def EXTCODEHASH : OpCode := 0x3f
def SELFBALANCE : OpCode := 0x47
def POP : OpCode := 0x50
def MLOAD : OpCode := 0x51
def MSTORE : OpCode := 0x52
def MSTORE8 : OpCode := 0x53
def SLOAD : OpCode := 0x54
def SSTORE : OpCode := 0x55
def JUMP : OpCode := 0x56
def JUMPI : OpCode := 0x57
def JUMPDEST : OpCode := 0x5b
def PUSH1 : OpCode := 0x60
def DUP1 : OpCode := 0x80
def DUP16 : OpCode := 0x8f
def SWAP1 : OpCode := 0x90
def SWAP16 : OpCode := 0x9f
def LOG0 : OpCode := 0xa0
def LOG4 : OpCode := 0xa4
def CREATE : OpCode := 0xf0
def CALL : OpCode := 0xf1
def CALLCODE : OpCode := 0xf2
def RETURN : OpCode := 0xf3
def DELEGATECALL : OpCode := 0xf4
def CREATE2 : OpCode := 0xf5
def STATICCALL : OpCode := 0xfa
def REVERT : OpCode := 0xfd
def INVALID : OpCode := 0xfe
def SELFDESTRUCT : OpCode := 0xff

/-- The library type `vm.Contract` as far as the tracers read it: `self` is what `Address()`
returns and `CodeAddr` is a pointer. -/
structure Contract where
  self : Address
  CodeAddr : Option Address
  deriving DecidableEq

/-- The method `Contract.Address`. -/
def Contract.Address (c : Contract) : Erebus.Address := c.self

/-- The library type `vm.ScopeContext`: the memory as bytes, the stack with its top-most word
last, and the executing contract. -/
structure ScopeContext where
  Memory : List Nat
  Stack : List Nat
  Contract : Contract
  deriving DecidableEq

/-- The method `Stack.Back` of the library: the `n`-th word from the top; an index out of range
is a runtime panic, `none`. -/
def ScopeContext.Back (scope : ScopeContext) (n : Nat) : Option Nat :=
  if n < scope.Stack.length then scope.Stack[scope.Stack.length - n - 1]? else none

end vm

/-- The function `helpers.IsPrecompiledContract`. -/
def IsPrecompiledContract (addr : Address) : Bool := decide (addr ≤ 255)

/-- The struct `CallPosition`; a `position` is a slice of integers. -/
structure CallPosition where
  position : List Nat
  compactPosition : List Nat
  deriving DecidableEq

/-- The struct `location`. -/
structure location where
  pos : CallPosition
  codeAddr : Address
  pc : Nat
  opcode : OpCode
  gasAvailable : Nat
  gasUsed : Nat
  index : Nat
  deriving DecidableEq

/-- The method `location.OpCode`. -/
def location.OpCode (l : location) : Erebus.OpCode := l.opcode

/-- The method `location.Index`. -/
def location.Index (l : location) : Nat := l.index

/-- The function `IsBasicBlockTail`. -/
def IsBasicBlockTail (currentLoc : location) : Bool :=
  let currentOp := currentLoc.OpCode
  currentOp == vm.JUMP || currentOp == vm.JUMPI ||
    currentOp == vm.RETURN || currentOp == vm.STOP || currentOp == vm.INVALID ||
    currentOp == vm.REVERT ||
    currentOp == vm.SELFDESTRUCT ||
    currentOp == vm.CREATE || currentOp == vm.CREATE2 ||
    currentOp == vm.CALL || currentOp == vm.CALLCODE || currentOp == vm.DELEGATECALL ||
    currentOp == vm.STATICCALL

/-- The function `IsBasicBlockHead`; `none` is the nil previous location. -/
def IsBasicBlockHead (previousLoc : Option location) (currentLoc : location) : Bool :=
  match previousLoc with
  | none => true
  | some prev => IsBasicBlockTail prev || currentLoc.OpCode == vm.JUMPDEST

/-- The struct `traceBlock`. The pointers `previous` and `next`, which chain the blocks of a call
and are not read by the tracer, are left out. -/
structure traceBlock where
  content : List location
  stateAddr : Address
  codeAddr : Address
  deriving DecidableEq

/-- A `Trace` is a slice of blocks. -/
abbrev Trace := List traceBlock

/-- The struct `DataWithTrace`; `loc` and `blk` are nil-able. -/
structure DataWithTrace where
  loc : Option location
  blk : Option traceBlock
  paths : List Trace
  deriving DecidableEq

/-- The function `NewDataWithTrace`. -/
def NewDataWithTrace : DataWithTrace := { loc := none, blk := none, paths := [[]] }

namespace DataWithTrace

/-- The method `lastLocation`. -/
def lastLocation (d : DataWithTrace) : Option location := d.loc

/-- The method `setLastLocation`. -/
def setLastLocation (d : DataWithTrace) (l : Option location) : DataWithTrace :=
  { d with loc := l }

/-- The method `currentBasicBlock`. -/
def currentBasicBlock (d : DataWithTrace) : Option traceBlock := d.blk

/-- The method `setCurrentBasicBlock`. -/
def setCurrentBasicBlock (d : DataWithTrace) (b : Option traceBlock) : DataWithTrace :=
  { d with blk := b }

/-- The method `BlockPaths`. -/
def BlockPaths (d : DataWithTrace) : List Trace := d.paths

/-- The method `appendBasicBlock`; with no path at all the index `len(d.paths)-1` is out of
range, a runtime panic. -/
def appendBasicBlock (d : DataWithTrace) (b : traceBlock) : Option DataWithTrace :=
  match d.paths.getLast? with
  | none => none
  | some last => some { d with paths := d.paths.dropLast ++ [last ++ [b]] }

/-- The method `nextTrace`. -/
def nextTrace (d : DataWithTrace) : DataWithTrace := { d with paths := d.paths ++ [[]] }

end DataWithTrace

/-- The interface `IDataWithTrace`: call data that embeds a `DataWithTrace`. -/
class IDataWithTrace (D : Type) where
  /-- The embedded trace data. -/
  trace : D → DataWithTrace
  /-- The call data after the embedded trace data was updated. -/
  withTrace : D → DataWithTrace → D

instance : IDataWithTrace DataWithTrace where
  trace := fun d => d
  withTrace := fun _ d => d

/-- The struct `MsgCallCaller`. -/
structure MsgCallCaller where
  CodeAddr : Option Address
  StateAddr : Address
  CallSite : Option location
  deriving DecidableEq

/-- The struct `MsgCall`. The tracer holds message calls by pointer; a pointer is the index of
the call in the list of the calls the tracer has allocated (`BasicNestedCallTracer.calls`). -/
structure MsgCall (D : Type) where
  Position : CallPosition
  Result : Option ExecutionResult
  Receipt : Option Receipt
  OpCode : Erebus.OpCode
  Caller : MsgCallCaller
  Precompiled : Bool
  CodeAddr : Address
  StateAddr : Address
  Input : List Nat
  Value : Option Int
  parent : Option Nat
  NestedCalls : List Nat
  CurrentLocation : Option location
  InnerData : Option D

/-- The method `MsgCall.IsRoot`. -/
def MsgCall.IsRoot {D : Type} (c : MsgCall D) : Bool := c.Caller.CodeAddr.isNone

/-- The method `MsgCall.GenChildPosition`; `calls` resolves the pointers in `NestedCalls`. -/
def MsgCall.GenChildPosition {D : Type} (calls : List (MsgCall D)) (c : MsgCall D)
    (isPrecompiled : Bool) : CallPosition :=
  let parentCall := c
  { position := parentCall.Position.position ++ [parentCall.NestedCalls.length]
    compactPosition :=
      if isPrecompiled then parentCall.Position.compactPosition
      else parentCall.Position.compactPosition ++
        [(parentCall.NestedCalls.filter
            (fun p => match calls[p]? with
              | some n => !n.Precompiled
              | none => false)).length] }

/-- The struct `BasicNestedCallTracer`, with the message calls its pointers refer to.
`totalOperations` is a `uint` (64 bits). -/
structure BasicNestedCallTracer (D : Type) where
  calls : List (MsgCall D)
  msgCallStack : List Nat
  totalOperations : Nat
  MsgCallDataFactory : Option (MsgCall D → D)

namespace BasicNestedCallTracer

variable {D : Type}

/-- The zero value of the tracer, with an optional factory. -/
def new (factory : Option (MsgCall D → D)) : BasicNestedCallTracer D :=
  { calls := [], msgCallStack := [], totalOperations := 0, MsgCallDataFactory := factory }

/-- The method `CurrentMsgCall`: a pointer, nil when the stack is empty. -/
def CurrentMsgCall (t : BasicNestedCallTracer D) : Option Nat := t.msgCallStack.getLast?

/-- The method `RootMsgCall`. -/
def RootMsgCall (t : BasicNestedCallTracer D) : Option Nat := t.msgCallStack.head?

/-- Dereferencing a call pointer; nil and dangling pointers give `none`. -/
def deref (t : BasicNestedCallTracer D) (p : Option Nat) : Option (MsgCall D) :=
  match p with
  | none => none
  | some i => t.calls[i]?

/-- Writing through a call pointer. -/
def store (t : BasicNestedCallTracer D) (p : Nat) (c : MsgCall D) : BasicNestedCallTracer D :=
  { t with calls := t.calls.set p c }

/-- The method `CaptureState`. Without a current call the assignment dereferences a nil
pointer, a runtime panic (`none`). -/
def CaptureState (t : BasicNestedCallTracer D) (pc : Nat) (op : OpCode) (gas cost : Nat) :
    Option (BasicNestedCallTracer D) :=
  match t.CurrentMsgCall with
  | none => none
  | some p =>
      match t.calls[p]? with
      | none => none
      | some currentCall =>
          let l : location :=
            { pos := currentCall.Position
              codeAddr := currentCall.CodeAddr
              pc := pc
              opcode := op
              gasAvailable := gas
              gasUsed := cost
              index := t.totalOperations }
          let c1 := { currentCall with CurrentLocation := some l }
          some { t.store p c1 with totalOperations := (t.totalOperations + 1) % 2 ^ 64 }

/-- The method `CaptureEnter`. With an empty stack the index `len(t.msgCallStack)-1` is out of
range (`none`). -/
def CaptureEnter (t : BasicNestedCallTracer D) (typ : OpCode) (sender toAddr : Address)
    (input : List Nat) (value : Option Int) : Option (BasicNestedCallTracer D) :=
  let contextAddr : Address :=
    if typ = vm.CALL ∨ typ = vm.CREATE ∨ typ = vm.CREATE2 ∨ typ = vm.STATICCALL then toAddr
    else if typ = vm.CALLCODE ∨ typ = vm.DELEGATECALL then sender
    else 0
  let cpValue : Int := value.getD 0
  let isPrecompiled := IsPrecompiledContract toAddr
  match t.msgCallStack.getLast? with
  | none => none
  | some pp =>
      match t.calls[pp]? with
      | none => none
      | some parentCall =>
          let callPosition := parentCall.GenChildPosition t.calls isPrecompiled
          let msgCall : MsgCall D :=
            { Position := callPosition
              Result := none
              Receipt := none
              OpCode := typ
              Caller :=
                { CodeAddr := some parentCall.CodeAddr
                  StateAddr := parentCall.StateAddr
                  CallSite := parentCall.CurrentLocation }
              Precompiled := isPrecompiled
              CodeAddr := toAddr
              StateAddr := contextAddr
              Input := input
              Value := some cpValue
              parent := some pp
              NestedCalls := []
              CurrentLocation := none
              InnerData := none }
          let msgCall1 :=
            match t.MsgCallDataFactory with
            | some factory => { msgCall with InnerData := some (factory msgCall) }
            | none => msgCall
          let p := t.calls.length
          let parent1 := { parentCall with NestedCalls := parentCall.NestedCalls ++ [p] }
          some { t with calls := (t.calls ++ [msgCall1]).set pp parent1
                        msgCallStack := t.msgCallStack ++ [p] }

/-- The method `CaptureExit`. -/
def CaptureExit (t : BasicNestedCallTracer D) (output : List Nat) (gasUsed : Nat)
    (err : Option GoError) : Option (BasicNestedCallTracer D) :=
  match t.msgCallStack.getLast? with
  | none => none
  | some p =>
      match t.calls[p]? with
      | none => none
      | some call =>
          let call1 :=
            { call with Result := some { Err := err, UsedGas := gasUsed, ReturnData := output } }
          some { t.store p call1 with msgCallStack := t.msgCallStack.dropLast }

/-- The method `TransactionStart`; `created` is the address
`crypto.CreateAddress(from, state.GetNonce(from))`, a hash computed by the library. -/
def TransactionStart (t : BasicNestedCallTracer D) (tx : Tx) (created : Address) :
    BasicNestedCallTracer D :=
  let sender := tx.sender
  let contract : Address :=
    match tx.To with
    | some toAddr => toAddr
    | none => created
  let opcode : OpCode :=
    match tx.To with
    | some _ => vm.CALL
    | none => vm.CREATE
  let call : MsgCall D :=
    { Position := { position := [], compactPosition := [] }
      Result := none
      Receipt := none
      OpCode := opcode
      Caller := { CodeAddr := none, StateAddr := sender, CallSite := none }
      Precompiled := IsPrecompiledContract contract
      CodeAddr := contract
      StateAddr := contract
      Input := tx.Data
      Value := some tx.Value
      parent := none
      NestedCalls := []
      CurrentLocation := none
      InnerData := none }
  let call1 :=
    match t.MsgCallDataFactory with
    | some factory => { call with InnerData := some (factory call) }
    | none => call
  { t with calls := t.calls ++ [call1], msgCallStack := t.msgCallStack ++ [t.calls.length] }

/-- The method `TransactionEnd`. -/
def TransactionEnd (t : BasicNestedCallTracer D) (result : Option ExecutionResult)
    (receipt : Option Receipt) : Option (BasicNestedCallTracer D) :=
  match t.msgCallStack.getLast? with
  | none => none
  | some p =>
      match t.calls[p]? with
      | none => none
      | some call => some (t.store p { call with Result := result, Receipt := receipt })

end BasicNestedCallTracer

/-- A callback of the interface `dyengine.TxTracer`, with its arguments. The receipt of
`TransactionEnd` comes with its field `ContractAddress`, which `Receipt` leaves out. -/
inductive TracerEvent
  | TransactionStart (tx : Tx) (created : Address)
  | CaptureStart
  | CaptureState (pc : Nat) (op : OpCode) (gas cost : Nat) (scope : vm.ScopeContext)
      (err : Option GoError)
  | CaptureEnter (typ : OpCode) (sender toAddr : Address) (input : List Nat) (value : Option Int)
  | CaptureExit (output : List Nat) (gasUsed : Nat) (err : Option GoError)
  | CaptureFault
  | CaptureEnd
  | TransactionEnd (tx : Tx) (result : Option ExecutionResult) (receipt : Option Receipt)
      (contractAddress : Address)

/-- The callback is `CaptureState`. -/
def TracerEvent.isCaptureState : TracerEvent → Bool
  | TracerEvent.CaptureState _ _ _ _ _ _ => true
  | _ => false

namespace BasicNestedCallTracer

variable {D : Type}

/-- The tracer after one callback; `none` when the callback panics. -/
def step (t : BasicNestedCallTracer D) : TracerEvent → Option (BasicNestedCallTracer D)
  | TracerEvent.TransactionStart tx created => some (t.TransactionStart tx created)
  | TracerEvent.CaptureStart => some t
  | TracerEvent.CaptureState pc op gas cost _ _ => t.CaptureState pc op gas cost
  | TracerEvent.CaptureEnter typ sender toAddr input value => t.CaptureEnter typ sender toAddr input value
  | TracerEvent.CaptureExit output gasUsed err => t.CaptureExit output gasUsed err
  | TracerEvent.CaptureFault => some t
  | TracerEvent.CaptureEnd => some t
  | TracerEvent.TransactionEnd _ result receipt _ => t.TransactionEnd result receipt

/-- The tracer after a sequence of callbacks. -/
def run (t : BasicNestedCallTracer D) : List TracerEvent → Option (BasicNestedCallTracer D)
  | [] => some t
  | e :: es =>
      match t.step e with
      | none => none
      | some t1 => run t1 es

/-- The index of the location that the current call holds in `CurrentLocation`. -/
def assigned (t : BasicNestedCallTracer D) : Option Nat :=
  match t.deref t.CurrentMsgCall with
  | none => none
  | some c => c.CurrentLocation.map location.Index

/-- The indices that the `CaptureState` callbacks of a sequence of callbacks leave in
`CurrentLocation`, in callback order, each read right after its callback returned. A callback
that panics ends the sequence. -/
def indices (t : BasicNestedCallTracer D) : List TracerEvent → List Nat
  | [] => []
  | e :: es =>
      match t.step e with
      | none => []
      | some t1 => (if e.isCaptureState then t1.assigned.toList else []) ++ indices t1 es

end BasicNestedCallTracer

namespace NestedCallTracerWithTrace

variable {D : Type} [IDataWithTrace D]

/-- The body of `NestedCallTracerWithTrace.CaptureState` after the call of the embedded
tracer, as it changes the trace data `d` of the current call: `currentLoc` is the location just
captured. The two explicit panics, a nil `scope.Contract.CodeAddr` and an `appendBasicBlock`
without a path are `none`. The deferred `setLastLocation` runs on the paths that do not return
early. -/
def trace (d : DataWithTrace) (currentLoc : location) (scope : vm.ScopeContext)
    (err : Option GoError) : Option DataWithTrace :=
  if err.isSome then
    match d.currentBasicBlock with
    | some b =>
        (d.appendBasicBlock { b with content := b.content ++ [currentLoc] }).map
          (fun d1 => d1.setCurrentBasicBlock none)
    | none => some d
  else if IsBasicBlockHead d.lastLocation currentLoc then
    match scope.Contract.CodeAddr with
    | none => none
    | some codeAddr =>
        let nextBlock : traceBlock :=
          { content := [currentLoc]
            stateAddr := scope.Contract.Address
            codeAddr := codeAddr }
        match d.currentBasicBlock with
        | some b =>
            (d.appendBasicBlock b).map
              (fun d1 => (d1.setCurrentBasicBlock (some nextBlock)).setLastLocation
                (some currentLoc))
        | none =>
            some ((d.setCurrentBasicBlock (some nextBlock)).setLastLocation (some currentLoc))
  else if IsBasicBlockTail currentLoc then
    match d.currentBasicBlock with
    | some b =>
        (d.appendBasicBlock { b with content := b.content ++ [currentLoc] }).map
          (fun d1 => (d1.setCurrentBasicBlock none).setLastLocation (some currentLoc))
    | none => none
  else
    match d.currentBasicBlock with
    | none => none
    | some b =>
        some ((d.setCurrentBasicBlock
          (some { b with content := b.content ++ [currentLoc] })).setLastLocation
            (some currentLoc))

/-- The method `NestedCallTracerWithTrace.CaptureState`. The struct embeds a
`BasicNestedCallTracer` and has no field of its own. A nil `InnerData` is a nil pointer
dereference (`none`). -/
def CaptureState (t : BasicNestedCallTracer D) (pc : Nat) (op : OpCode) (gas cost : Nat)
    (scope : vm.ScopeContext) (err : Option GoError) : Option (BasicNestedCallTracer D) :=
  match t.CaptureState pc op gas cost with
  | none => none
  | some t1 =>
      match t1.CurrentMsgCall with
      | none => none
      | some p =>
          match t1.calls[p]? with
          | none => none
          | some currentCall =>
              match currentCall.CurrentLocation, currentCall.InnerData with
              | some currentLoc, some inner =>
                  (trace (IDataWithTrace.trace inner) currentLoc scope err).map
                    (fun d1 => t1.store p
                      { currentCall with InnerData := some (IDataWithTrace.withTrace inner d1) })
              | _, _ => none

/-- The method `NestedCallTracerWithTrace.CaptureEnter`. -/
def CaptureEnter (t : BasicNestedCallTracer D) (typ : OpCode) (sender toAddr : Address)
    (input : List Nat) (value : Option Int) : Option (BasicNestedCallTracer D) :=
  match t.CurrentMsgCall with
  | none => none
  | some p =>
      match t.calls[p]? with
      | none => none
      | some call =>
          match call.InnerData with
          | none => none
          | some inner =>
              let inner1 := IDataWithTrace.withTrace inner (IDataWithTrace.trace inner).nextTrace
              (t.store p { call with InnerData := some inner1 }).CaptureEnter typ sender toAddr input
                value

/-- The tracer after one callback; the callbacks that the struct does not define are those of
the embedded `BasicNestedCallTracer`. -/
def step (t : BasicNestedCallTracer D) : TracerEvent → Option (BasicNestedCallTracer D)
  | TracerEvent.CaptureState pc op gas cost scope err => CaptureState t pc op gas cost scope err
  | TracerEvent.CaptureEnter typ sender toAddr input value => CaptureEnter t typ sender toAddr input value
  | e => BasicNestedCallTracer.step t e

/-- The tracer after a sequence of callbacks. -/
def run (t : BasicNestedCallTracer D) : List TracerEvent → Option (BasicNestedCallTracer D)
  | [] => some t
  | e :: es =>
      match step t e with
      | none => none
      | some t1 => run t1 es

end NestedCallTracerWithTrace


/-- The locations held by the blocks of the block paths of a call, in order. -/
def DataWithTrace.pathLocations (d : DataWithTrace) : List location :=
  d.BlockPaths.flatten.flatMap (fun b => b.content)

/-- A transaction that calls the contract at address 1000. -/
def Example.callTx : Tx := { Example.tx with To := some 1000 }

/-- The scope of an opcode that the contract 1000 runs on the given stack. -/
def Example.scope (stack : List Nat) : vm.ScopeContext :=
  { Memory := [], Stack := stack, Contract := { self := 1000, CodeAddr := some 1000 } }

/-- The callbacks of a transaction whose code is `PUSH1 0; PUSH1 8; JUMPI; STOP`: the jump is
not taken and the call stops on the next instruction. No opcode fails. -/
def Example.untakenJumpThenStop : List TracerEvent :=
  [ TracerEvent.TransactionStart Example.callTx 0,
    TracerEvent.CaptureStart,
    TracerEvent.CaptureState 0 vm.PUSH1 100 3 (Example.scope []) none,
    TracerEvent.CaptureState 2 vm.PUSH1 97 3 (Example.scope [0]) none,
    TracerEvent.CaptureState 4 vm.JUMPI 94 10 (Example.scope [0, 8]) none,
    TracerEvent.CaptureState 5 vm.STOP 84 0 (Example.scope []) none,
    TracerEvent.CaptureEnd,
    TracerEvent.TransactionEnd Example.callTx
      (some { UsedGas := 16, Err := none, ReturnData := [] }) none 0 ]

/-- The trace data of the root call after the callbacks were traced by a
`NestedCallTracerWithTrace` whose call data is a `DataWithTrace`. -/
def Example.rootTrace (evs : List TracerEvent) : Option DataWithTrace :=
  match NestedCallTracerWithTrace.run
      (BasicNestedCallTracer.new (some (fun _ => NewDataWithTrace))) evs with
  | none => none
  | some t =>
      match t.deref t.RootMsgCall with
      | none => none
      | some c => c.InnerData

/-! ## Transaction summaries (`analysis/summary`) -/

/-- The implementations of the interface `StateVariable`; `L` is a nil-able location, a
`*big.Int` is an integer and `CodeSize` an `int`. -/
inductive StateVariable
  | StorageVariable (Address : Address) (Storage : Hash) (Value : Hash) (L : Option location)
  | BalanceVariable (Address : Address) (Value : Int) (L : Option location)
  | CodeVariable (Address : Address) (Op : OpCode) (Code : List Nat) (CodeSize : Int)
      (CodeHash : Hash) (L : Option location)
  deriving DecidableEq

/-- What the strings returned by `ID()` tell apart: `"<address>:<slot>"`, `"<address>:balance"`
and `"<address>:code"`. -/
inductive VarID
  | storage (address : Address) (slot : Hash)
  | balance (address : Address)
  | code (address : Address)
  deriving DecidableEq

namespace StateVariable

/-- The method `ID`. -/
def ID : StateVariable → VarID
  | StorageVariable a k _ _ => VarID.storage a k
  | BalanceVariable a _ _ => VarID.balance a
  | CodeVariable a _ _ _ _ _ => VarID.code a

/-- The method `Same`. -/
def Same : StateVariable → StateVariable → Bool
  | StorageVariable a k _ _, StorageVariable a2 k2 _ _ => a == a2 && k == k2
  | BalanceVariable a _ _, BalanceVariable a2 _ _ => a == a2
  | CodeVariable a _ _ _ _ _, CodeVariable a2 _ _ _ _ _ => a == a2
  | _, _ => false

/-- The method `Copy`. The copy of a `CodeVariable` is built without the field `Op`, which is
left at its zero value. -/
def Copy : StateVariable → StateVariable
  | StorageVariable a k v l => StorageVariable a k v l
  | BalanceVariable a v l => BalanceVariable a v l
  | CodeVariable a _ code size hash l => CodeVariable a 0 code size hash l

/-- The method `Location`. -/
def Location : StateVariable → Option location
  | StorageVariable _ _ _ l => l
  | BalanceVariable _ _ l => l
  | CodeVariable _ _ _ _ _ l => l

end StateVariable

/-- The type `StateVariables`. -/
abbrev StateVariables := List StateVariable

namespace StateVariables

/-- The inner loop of `AddWithOverride` and the `append` after it: the first element that is
`Same` as `elem` is replaced, and without one `elem` is appended. -/
def overrideOne (elem : StateVariable) : StateVariables → StateVariables
  | [] => [elem]
  | e :: rest => if e.Same elem then elem :: rest else e :: overrideOne elem rest

/-- The method `AddWithOverride`. -/
def AddWithOverride (vs : StateVariables) (elems : List StateVariable) : StateVariables :=
  elems.foldl (fun slice elem => overrideOne elem.Copy slice) vs

/-- The inner loop of `AddIfAbsent` and the `append` after it: with an element that is `Same`
as `elem` the slice is left alone, and without one `elem` is appended. -/
def absentOne (elem : StateVariable) : StateVariables → StateVariables
  | [] => [elem]
  | e :: rest => if e.Same elem then e :: rest else e :: absentOne elem rest

/-- The method `AddIfAbsent`. -/
def AddIfAbsent (vs : StateVariables) (elems : List StateVariable) : StateVariables :=
  elems.foldl (fun slice elem => absentOne elem.Copy slice) vs

end StateVariables

/-- The struct `fungibleTransfer`. -/
structure fungibleTransfer where
  FromAccount : Address
  ToAccount : Address
  Amount : Int
  ContractLocation : Option location
  deriving DecidableEq

/-- The implementations of the interface `ITransfer`. -/
inductive ITransfer
  | EtherTransfer (f : fungibleTransfer)
  | ERC20Transfer (f : fungibleTransfer) (Contract : Address)
  | ERC777Transfer (f : fungibleTransfer) (Contract : Address)
  | ERC721Transfer (FromAccount ToAccount Contract : Address) (TokenID : Hash)
      (ContractLocation : Option location)
  | ERC1155Transfer (f : fungibleTransfer) (Contract : Address) (TokenID : Hash)
  deriving DecidableEq

namespace summary

/-- The struct `Data` of the package `summary`. -/
structure Data where
  Defs : StateVariables
  Uses : StateVariables
  Transfers : List ITransfer
  Profits : Profits
  ExecutionPath : Trace
  deriving DecidableEq

namespace Data

/-- The zero value `Data{}`. -/
def empty : Data := { Defs := [], Uses := [], Transfers := [], Profits := [], ExecutionPath := [] }

/-- The method `clearChanges`. -/
def clearChanges (d : Data) : Data := { d with Defs := [], Transfers := [], Profits := [] }

/-- The method `addDefs`. -/
def addDefs (d : Data) (defs : List StateVariable) : Data :=
  { d with Defs := d.Defs.AddWithOverride defs }

/-- The method `addUses`. -/
def addUses (d : Data) (uses : List StateVariable) : Data :=
  { d with Uses := d.Uses.AddIfAbsent uses }

/-- The method `addProfits`. -/
def addProfits (d : Data) (profits : List Profit) : Data :=
  { d with Profits := Profits.Add d.Profits profits }

/-- The method `addTransfers`. -/
def addTransfers (d : Data) (transfers : List ITransfer) : Data :=
  { d with Transfers := d.Transfers ++ transfers }

end Data

/-- The struct `Config`. -/
structure Config where
  IncludeDef : Bool
  IncludeUse : Bool
  IncludeTransfer : Bool
  IncludeProfit : Bool
  IncludeTrace : Bool
  deriving DecidableEq

end summary

/-- The interface `dyengine.State` as far as the summaries read it: the answers of the state
as it stands when it is asked. -/
structure StateView where
  GetState : Address → Hash → Hash
  GetBalance : Address → Int
  GetCode : Address → List Nat
  GetCodeSize : Address → Int
  GetCodeHash : Address → Hash

/-- The struct `CallSummary` as the tracer fills it: the embedded trace data, the segments and
the state before the call. The back pointer `msgCall` is the call that holds the summary, and
the memo fields only cache what the `Overall...` methods compute. -/
structure CallSummary where
  DataWithTrace : DataWithTrace
  Data : List summary.Data
  preState : StateView

/-- The function `newCallSummary`. -/
def newCallSummary (prestate : StateView) : CallSummary :=
  { DataWithTrace := NewDataWithTrace, Data := [summary.Data.empty], preState := prestate }

/-- The method `addNestedSummary`. -/
def CallSummary.addNestedSummary (s : CallSummary) : CallSummary :=
  { s with Data := s.Data ++ [summary.Data.empty] }

/-- The method `currentData`; without a segment the index is out of range. -/
def CallSummary.currentData (s : CallSummary) : Option summary.Data := s.Data.getLast?

instance : IDataWithTrace CallSummary where
  trace := fun s => s.DataWithTrace
  withTrace := fun s d => { s with DataWithTrace := d }

/-- A call summary as the `Overall...` methods see it: the summary itself, the answers of
`CallFailed()` and `IsRoot()`, which come from its message call, and the summaries of the nested
calls, which `NestedSummaries()` reads through `msgCall.NestedCalls[i].InnerData`. -/
structure SummaryTree where
  summary : CallSummary
  CallFailed : Bool
  IsRoot : Bool
  NestedSummaries : List SummaryTree

/-- The loop `for i := 0; i < len(s.Data)+len(s.NestedSummaries()); i++` of the `Overall...`
methods, with `n` iterations left: an even `i` adds the own segment `i/2`, an odd `i` the
overall result of the nested summary `(i-1)/2`. An index out of range and a nested call that
panicked are `none`. -/
def CallSummary.overallLoop {γ β : Type} (add : γ → β → γ) (own : List β)
    (nested : List (Option β)) : Nat → Nat → γ → Option γ
  | 0, _, acc => some acc
  | n + 1, i, acc =>
      if i % 2 = 0 then
        match own[i / 2]? with
        | none => none
        | some d => CallSummary.overallLoop add own nested n (i + 1) (add acc d)
      else
        match nested[(i - 1) / 2]? with
        | none => none
        | some none => none
        | some (some c) => CallSummary.overallLoop add own nested n (i + 1) (add acc c)

/-- The test of the final loop of `OverallDefs` on the root: a storage definition is kept when
its value differs from the slot of the state before the transaction, a balance definition when
it differs from `new(big.Int).SetBytes(preState.GetBalance(account).Bytes())`, the absolute
value of the balance before, and a code definition always. -/
def CallSummary.changed (preState : StateView) : StateVariable → Bool
  | StateVariable.StorageVariable a k v _ => preState.GetState a k != v
  | StateVariable.BalanceVariable a v _ => bigCmp (Int.natAbs (preState.GetBalance a)) v != 0
  | StateVariable.CodeVariable _ _ _ _ _ _ => true

mutual

/-- The method `OverallDefs`. -/
def CallSummary.OverallDefs : SummaryTree → Option StateVariables
  | ⟨s, failed, isRoot, nested⟩ =>
      if failed then some []
      else
        match CallSummary.overallLoop StateVariables.AddWithOverride (s.Data.map (fun d => d.Defs))
            (CallSummary.OverallDefsOfAll nested) (s.Data.length + nested.length) 0 [] with
        | none => none
        | some defs =>
            if !isRoot then some defs
            else some (defs.filter (CallSummary.changed s.preState))

/-- The results of `OverallDefs` for the nested summaries. -/
def CallSummary.OverallDefsOfAll : List SummaryTree → List (Option StateVariables)
  | [] => []
  | c :: cs => CallSummary.OverallDefs c :: CallSummary.OverallDefsOfAll cs

end

mutual

/-- The method `OverallTransfers`. -/
def CallSummary.OverallTransfers : SummaryTree → Option (List ITransfer)
  | ⟨s, failed, _, nested⟩ =>
      if failed then some []
      else
        CallSummary.overallLoop (fun (acc : List ITransfer) ts => acc ++ ts)
          (s.Data.map (fun d => d.Transfers)) (CallSummary.OverallTransfersOfAll nested)
          (s.Data.length + nested.length) 0 []

/-- The results of `OverallTransfers` for the nested summaries. -/
def CallSummary.OverallTransfersOfAll : List SummaryTree → List (Option (List ITransfer))
  | [] => []
  | c :: cs => CallSummary.OverallTransfers c :: CallSummary.OverallTransfersOfAll cs

end

mutual

/-- Every summary of the tree has one segment more than it has nested summaries (the comment
on the field `Data`). -/
def SummaryTree.wellFormed : SummaryTree → Bool
  | ⟨s, _, _, nested⟩ =>
      decide (s.Data.length = nested.length + 1) && SummaryTree.allWellFormed nested

/-- Every summary of the list is well formed. -/
def SummaryTree.allWellFormed : List SummaryTree → Bool
  | [] => true
  | c :: cs => SummaryTree.wellFormed c && SummaryTree.allWellFormed cs

end

/-- The list `d_0 ++ c_0 ++ d_1 ++ ... ++ c_{n-1} ++ d_n`. -/
def alternate {α : Type} : List (List α) → List (List α) → List α
  | d :: ds, c :: cs => d ++ c ++ alternate ds cs
  | d :: _, [] => d
  | [], _ => []

mutual

/-- The transfers of a summary in execution order, in the words of the specification: none
for a failed call, and otherwise the own segments alternating with the transfers of the nested
summaries. -/
def SummaryTree.transfersInOrder : SummaryTree → List ITransfer
  | ⟨s, failed, _, nested⟩ =>
      if failed then []
      else alternate (s.Data.map (fun d => d.Transfers)) (SummaryTree.transfersInOrderOfAll nested)

/-- The transfers in execution order of each summary of a list. -/
def SummaryTree.transfersInOrderOfAll : List SummaryTree → List (List ITransfer)
  | [] => []
  | c :: cs => SummaryTree.transfersInOrder c :: SummaryTree.transfersInOrderOfAll cs

end


/-- What the loop of the `Overall...` methods computes from the own segments `d_0, ..., d_n`
and the results `c_0, ..., c_{n-1}` for the nested summaries: they are added in the order
`d_0, c_0, d_1, ..., c_{n-1}, d_n`. -/
def alternateFold {γ β : Type} (add : γ → β → γ) : List β → List β → γ → γ
  | d :: ds, c :: cs, acc => alternateFold add ds cs (add (add acc d) c)
  | d :: _, [], acc => add acc d
  | [], _, acc => acc

/-- A state in which every slot holds 7 and every account 100 wei. -/
def Example.preState : StateView :=
  { GetState := fun _ _ => 7
    GetBalance := fun _ => 100
    GetCode := fun _ => []
    GetCodeSize := fun _ => 0
    GetCodeHash := fun _ => 0 }

/-- A segment with the given definitions and transfers. -/
def Example.segment (defs : StateVariables) (transfers : List ITransfer) : summary.Data :=
  { summary.Data.empty with Defs := defs, Transfers := transfers }

/-- An ether transfer of the given amount from account 1 to account 2. -/
def Example.ether (amount : Int) : ITransfer :=
  ITransfer.EtherTransfer
    { FromAccount := 1, ToAccount := 2, Amount := amount, ContractLocation := none }

/-- A root summary with two nested calls, the second of which failed: the root writes 7 (the
old value) to slot 1 and 8 to slot 2, the first nested call writes 9 to slot 3 and sets the
balance of account 5 to 100 (the old balance), the failed call writes 1 to slot 4. -/
def Example.summaryTree : SummaryTree :=
  { summary :=
      { newCallSummary Example.preState with
        Data :=
          [ Example.segment [StateVariable.StorageVariable 1000 1 7 none] [Example.ether 1],
            Example.segment [StateVariable.StorageVariable 1000 2 8 none] [Example.ether 4],
            Example.segment [] [Example.ether 6] ] }
    CallFailed := false
    IsRoot := true
    NestedSummaries :=
      [ { summary :=
            { newCallSummary Example.preState with
              Data :=
                [ Example.segment
                    [StateVariable.StorageVariable 1000 3 9 none,
                     StateVariable.BalanceVariable 5 100 none]
                    [Example.ether 2, Example.ether 3] ] }
          CallFailed := false
          IsRoot := false
          NestedSummaries := [] },
        { summary :=
            { newCallSummary Example.preState with
              Data := [ Example.segment [StateVariable.StorageVariable 1000 4 1 none]
                [Example.ether 5] ] }
          CallFailed := true
          IsRoot := false
          NestedSummaries := [] } ] }

/-! ## The summary tracer (`analysis/summary/summary_tracer.go`) -/

/-- The conversion `common.BigToAddress`: the low 160 bits. -/
def BigToAddress (v : Nat) : Address := v % 2 ^ 160

/-- The library type `types.Log` as the tracer fills it, with the memory range of the data
as the opcode names it. -/
structure Log where
  TxHash : Hash
  Topics : List Hash
  Address : Address
  Memory : List Nat
  dataOffset : Nat
  dataLength : Nat

/-- Code of the package `summary` that the tracer calls for transfers and that is not followed
here: `LogToTransfers` (with `helpers.GetMemoryCopyWithPadding` for the data of the log), whose
answer is `none` for a panic, and otherwise the transfers and the error, and the method
`Profits` of a transfer. -/
structure TransferLib where
  LogToTransfers : Log → Option location → Option (List ITransfer × Option GoError)
  Profits : ITransfer → List Profit

/-- The struct `TxSummaryTracer`. The embedded tracer is a `NestedCallTracerWithTrace` when
`Config.IncludeTrace` is set and a `BasicNestedCallTracer` otherwise; `Summary` points to the
summary held by the call with that index. The field `state` is a pointer to the live state: what
the state answers when a callback reads it is an argument of the callback here. -/
structure TxSummaryTracer where
  INestedCallTracer : BasicNestedCallTracer CallSummary
  Config : summary.Config
  Summary : Option Nat
  currentTx : Option Tx
  defs : VarID → Option StateVariable

namespace TxSummaryTracer

/-- The function `NewTxSummaryTracer`. -/
def new (config : summary.Config) : TxSummaryTracer :=
  { INestedCallTracer := BasicNestedCallTracer.new none
    Config := config
    Summary := none
    currentTx := none
    defs := fun _ => none }

/-- The method `CurrentMsgCall`. -/
def CurrentMsgCall (t : TxSummaryTracer) : Option Nat := t.INestedCallTracer.CurrentMsgCall

/-- The assignment `t.defs[v.ID()] = v`. -/
def define (t : TxSummaryTracer) (v : StateVariable) : TxSummaryTracer :=
  { t with defs := fun id => if id = v.ID then some v else t.defs id }

/-- A call `s.currentData().f(...)` on the summary `s` of the call `p`: `f` changes the last
segment. A nil summary and a summary without segment are `none`. -/
def onData (t : TxSummaryTracer) (p : Option Nat) (f : summary.Data → summary.Data) :
    Option TxSummaryTracer :=
  match p with
  | none => none
  | some p =>
      match t.INestedCallTracer.calls[p]? with
      | none => none
      | some call =>
          match call.InnerData with
          | none => none
          | some s =>
              match s.currentData with
              | none => none
              | some d =>
                  let s1 : CallSummary := { s with Data := s.Data.dropLast ++ [f d] }
                  let inner := t.INestedCallTracer.store p { call with InnerData := some s1 }
                  some { t with INestedCallTracer := inner }

/-- The statements `if _, defined := t.defs[use.ID()]; !defined { ....addUses(use) }`. -/
def addDefClearUse (t : TxSummaryTracer) (p : Option Nat) (use : StateVariable) :
    Option TxSummaryTracer :=
  match t.defs use.ID with
  | some _ => some t
  | none => t.onData p (fun d => d.addUses [use])

/-- The location `t.CurrentMsgCall().CurrentLocation`. -/
def currentLocation (t : TxSummaryTracer) : Option location :=
  match t.INestedCallTracer.deref t.CurrentMsgCall with
  | none => none
  | some c => c.CurrentLocation

/-- The first part of `CaptureState`: the call of the embedded tracer. -/
def captureInner (t : TxSummaryTracer) (pc : Nat) (op : OpCode) (gas cost : Nat)
    (scope : vm.ScopeContext) (err : Option GoError) : Option TxSummaryTracer :=
  (if t.Config.IncludeTrace then
      NestedCallTracerWithTrace.CaptureState t.INestedCallTracer pc op gas cost scope err
    else t.INestedCallTracer.CaptureState pc op gas cost).map
    (fun inner => { t with INestedCallTracer := inner })

/-- The part `if t.Config.IncludeDef` of `CaptureState`. -/
def captureDef (t : TxSummaryTracer) (op : OpCode) (scope : vm.ScopeContext) :
    Option TxSummaryTracer :=
  if t.Config.IncludeDef ∧ op = vm.SSTORE then
    match scope.Back 0, scope.Back 1 with
    | some key, some value =>
        (t.onData t.CurrentMsgCall (fun d => d.addDefs
          [StateVariable.StorageVariable scope.Contract.Address key value t.currentLocation])).map
          (fun t1 => t1.define
            (StateVariable.StorageVariable scope.Contract.Address key value t.currentLocation))
    | _, _ => none
  else some t

/-- The part `if t.Config.IncludeUse` of `CaptureState`. -/
def captureUse (t : TxSummaryTracer) (state : StateView) (op : OpCode)
    (scope : vm.ScopeContext) : Option TxSummaryTracer :=
  if t.Config.IncludeUse then
    if op = vm.SLOAD then
      match scope.Back 0 with
      | none => none
      | some key =>
          t.addDefClearUse t.CurrentMsgCall
            (StateVariable.StorageVariable scope.Contract.Address key
              (state.GetState scope.Contract.Address key) t.currentLocation)
    else if op = vm.BALANCE then
      match scope.Back 0 with
      | none => none
      | some v =>
          t.addDefClearUse t.CurrentMsgCall
            (StateVariable.BalanceVariable (BigToAddress v) (state.GetBalance (BigToAddress v))
              t.currentLocation)
    else if op = vm.SELFBALANCE then
      t.addDefClearUse t.CurrentMsgCall
        (StateVariable.BalanceVariable scope.Contract.Address
          (state.GetBalance scope.Contract.Address) t.currentLocation)
    else if op = vm.CODESIZE then
      match scope.Contract.CodeAddr with
      | none => none
      | some contract =>
          t.onData t.CurrentMsgCall (fun d => d.addUses
            [StateVariable.CodeVariable contract op [] (state.GetCodeSize contract) 0
              t.currentLocation])
    else if op = vm.CODECOPY then
      match scope.Contract.CodeAddr with
      | none => none
      | some contract =>
          t.addDefClearUse t.CurrentMsgCall
            (StateVariable.CodeVariable contract op (state.GetCode contract) 0 0
              t.currentLocation)
    else if op = vm.EXTCODESIZE then
      match scope.Back 0 with
      | none => none
      | some v =>
          t.addDefClearUse t.CurrentMsgCall
            (StateVariable.CodeVariable (BigToAddress v) op []
              (state.GetCodeSize (BigToAddress v)) 0 t.currentLocation)
    else if op = vm.EXTCODECOPY then
      match scope.Back 0 with
      | none => none
      | some v =>
          t.addDefClearUse t.CurrentMsgCall
            (StateVariable.CodeVariable (BigToAddress v) op (state.GetCode (BigToAddress v)) 0 0
              t.currentLocation)
    else if op = vm.EXTCODEHASH then
      match scope.Back 0 with
      | none => none
      | some v =>
          t.addDefClearUse t.CurrentMsgCall
            (StateVariable.CodeVariable (BigToAddress v) op [] 0
              (state.GetCodeHash (BigToAddress v)) t.currentLocation)
    else if op = vm.CALL then
      match scope.Back 2 with
      | none => none
      | some value =>
          if value > 0 then
            t.addDefClearUse t.CurrentMsgCall
              (StateVariable.BalanceVariable scope.Contract.Address
                (state.GetBalance scope.Contract.Address) t.currentLocation)
          else some t
    else some t
  else some t

/-- The reads `scope.Stack.Back(2 + i)` for `i < n`, in order. -/
def readTopics (scope : vm.ScopeContext) : Nat → Option (List Hash)
  | 0 => some []
  | n + 1 =>
      match readTopics scope n, scope.Back (2 + n) with
      | some topics, some topic => some (topics ++ [topic])
      | _, _ => none

/-- The loop `for _, transfer := range transfers { ....addProfits(transfer.Profits()...) }`. -/
def addProfitsOf (lib : TransferLib) (t : TxSummaryTracer) (p : Option Nat) :
    List ITransfer → Option TxSummaryTracer
  | [] => some t
  | transfer :: rest =>
      match t.onData p (fun d => d.addProfits (lib.Profits transfer)) with
      | none => none
      | some t1 => addProfitsOf lib t1 p rest

/-- The part `if t.Config.IncludeTransfer || t.Config.IncludeProfit` of `CaptureState`. -/
def captureTransfer (lib : TransferLib) (t : TxSummaryTracer) (op : OpCode)
    (scope : vm.ScopeContext) : Option TxSummaryTracer :=
  if (t.Config.IncludeTransfer || t.Config.IncludeProfit) ∧ vm.LOG0 ≤ op ∧ op ≤ vm.LOG4 then
    match readTopics scope (op - vm.LOG0), scope.Back 0, scope.Back 1, t.currentTx with
    | some topics, some dataOffset, some dataLength, some tx =>
        match lib.LogToTransfers
            { TxHash := tx.Hash
              Topics := topics
              Address := scope.Contract.Address
              Memory := scope.Memory
              dataOffset := dataOffset
              dataLength := dataLength } t.currentLocation with
        | none => none
        | some (_, some _) => some t
        | some (transfers, none) =>
            match t.onData t.CurrentMsgCall (fun d => d.addTransfers transfers) with
            | none => none
            | some t1 =>
                if t1.Config.IncludeProfit then addProfitsOf lib t1 t1.CurrentMsgCall transfers
                else some t1
    | _, _, _, _ => none
  else some t

/-- The method `CaptureState`; `state` is the live state as it answers during the callback. -/
def CaptureState (lib : TransferLib) (t : TxSummaryTracer) (state : StateView) (pc : Nat)
    (op : OpCode) (gas cost : Nat) (scope : vm.ScopeContext) (err : Option GoError) :
    Option TxSummaryTracer :=
  match t.captureInner pc op gas cost scope err with
  | none => none
  | some t0 =>
      match t0.CurrentMsgCall with
      | none => none
      | some _ =>
          match t0.captureDef op scope with
          | none => none
          | some t1 =>
              match t1.captureUse state op scope with
              | none => none
              | some t2 => captureTransfer lib t2 op scope

/-- The ether transfer that `CaptureEnter` and `TransactionEnd` record. -/
def etherTransfer (sender toAddr : Address) (value : Int) (l : Option location) : ITransfer :=
  ITransfer.EtherTransfer
    { FromAccount := sender, ToAccount := toAddr, Amount := value, ContractLocation := l }

/-- The part of `CaptureEnter` and of `TransactionEnd` that records the ether transfer and its
profits on the summary of the call `p`. -/
def recordEther (lib : TransferLib) (t : TxSummaryTracer) (p : Option Nat)
    (transfer : ITransfer) : Option TxSummaryTracer :=
  match
    (if t.Config.IncludeTransfer || t.Config.IncludeProfit then
      t.onData p (fun d => d.addTransfers [transfer])
    else some t) with
  | none => none
  | some t1 =>
      if t1.Config.IncludeProfit then t1.onData p (fun d => d.addProfits (lib.Profits transfer))
      else some t1

/-- The method `CaptureEnter`. -/
def CaptureEnter (lib : TransferLib) (t : TxSummaryTracer) (state : StateView) (typ : OpCode)
    (sender toAddr : Address) (input : List Nat) (value : Option Int) :
    Option TxSummaryTracer :=
  match t.CurrentMsgCall with
  | none => none
  | some pp =>
      match
        (if t.Config.IncludeTrace then
          NestedCallTracerWithTrace.CaptureEnter t.INestedCallTracer typ sender toAddr input value
        else t.INestedCallTracer.CaptureEnter typ sender toAddr input value) with
      | none => none
      | some inner =>
          match inner.CurrentMsgCall, inner.calls[pp]? with
          | some p, some parentMsgCall =>
              match inner.calls[p]?, parentMsgCall.InnerData with
              | some currentMsgCall, some parentSummary =>
                  let s := newCallSummary state
                  let inner1 := inner.store pp
                    { parentMsgCall with InnerData := some parentSummary.addNestedSummary }
                  let inner2 := inner1.store p { currentMsgCall with InnerData := some s }
                  let t1 := { t with INestedCallTracer := inner2 }
                  match value with
                  | none => some t1
                  | some v =>
                      if v > 0 then
                        match
                          (if t1.Config.IncludeDef then
                            let def0 := StateVariable.BalanceVariable toAddr
                              (state.GetBalance toAddr + v) parentMsgCall.CurrentLocation
                            let def1 := StateVariable.BalanceVariable sender
                              (state.GetBalance sender - v) parentMsgCall.CurrentLocation
                            match t1.onData (some p) (fun d => d.addDefs [def0]) with
                            | none => none
                            | some t2 =>
                                ((t2.define def0).onData (some p) (fun d => d.addDefs [def1])).map
                                  (fun t3 => t3.define def1)
                          else some t1) with
                        | none => none
                        | some t4 =>
                            recordEther lib t4 (some p)
                              (etherTransfer sender toAddr v parentMsgCall.CurrentLocation)
                      else some t1
              | _, _ => none
          | _, _ => none

/-- The loop `for i, trace := range s.BlockPaths() { s.Data[i].ExecutionPath = trace }`; a
path without a segment of the same index is an index out of range. -/
def copyPaths : List Trace → List summary.Data → Option (List summary.Data)
  | [], ds => some ds
  | _ :: _, [] => none
  | trace :: traces, d :: ds =>
      (copyPaths traces ds).map (fun ds1 => { d with ExecutionPath := trace } :: ds1)

/-- The start of `CaptureExit` and of `TransactionEnd`: with `Config.IncludeTrace` the block
paths are copied into the segments of the summary of the current call. -/
def closePaths (t : TxSummaryTracer) : Option TxSummaryTracer :=
  match t.CurrentMsgCall with
  | none => none
  | some p =>
      if t.Config.IncludeTrace then
        match t.INestedCallTracer.calls[p]? with
        | none => none
        | some call =>
            match call.InnerData with
            | none => none
            | some s =>
                (copyPaths s.DataWithTrace.BlockPaths s.Data).map
                  (fun ds =>
                    let s1 : CallSummary := { s with Data := ds }
                    let inner := t.INestedCallTracer.store p { call with InnerData := some s1 }
                    { t with INestedCallTracer := inner })
      else some t

/-- The method `CaptureExit`. -/
def CaptureExit (t : TxSummaryTracer) (output : List Nat) (gasUsed : Nat)
    (err : Option GoError) : Option TxSummaryTracer :=
  match t.closePaths with
  | none => none
  | some t1 =>
      match
        (if err.isSome then t1.onData t1.CurrentMsgCall (fun d => d.clearChanges)
          else some t1) with
      | none => none
      | some t2 =>
          (t2.INestedCallTracer.CaptureExit output gasUsed err).map
            (fun inner => { t2 with INestedCallTracer := inner })

/-- The method `TransactionStart`. -/
def TransactionStart (t : TxSummaryTracer) (state : StateView) (tx : Tx) (created : Address) :
    Option TxSummaryTracer :=
  let inner := t.INestedCallTracer.TransactionStart tx created
  match inner.CurrentMsgCall with
  | none => none
  | some p =>
      match inner.calls[p]? with
      | none => none
      | some call =>
          let inner1 := inner.store p { call with InnerData := some (newCallSummary state) }
          some { t with INestedCallTracer := inner1, currentTx := some tx }

/-- The method `TransactionEnd`; `contractAddress` is the field `ContractAddress` of the
receipt. -/
def TransactionEnd (lib : TransferLib) (t : TxSummaryTracer) (state : StateView) (tx : Tx)
    (result : Option ExecutionResult) (receipt : Option Receipt) (contractAddress : Address) :
    Option TxSummaryTracer :=
  match t.CurrentMsgCall with
  | some p =>
      match { t with Summary := some p }.closePaths, receipt with
      | some t1, some r =>
          match
            (if r.Status ≤ 0 then t1.onData (some p) (fun d => d.clearChanges)
            else if tx.Value > 0 then
              let toAddr : Address :=
                match tx.To with
                | none => contractAddress
                | some a => a
              match
                (if t1.Config.IncludeUse then
                  t1.addDefClearUse (some p)
                    (StateVariable.BalanceVariable tx.sender
                      (state.GetBalance tx.sender - tx.Value) none)
                else some t1) with
              | none => none
              | some t2 =>
                  match
                    (if t2.Config.IncludeDef then
                      let def0 := StateVariable.BalanceVariable tx.sender
                        (state.GetBalance tx.sender) none
                      let def1 := StateVariable.BalanceVariable toAddr
                        (state.GetBalance toAddr) none
                      match t2.onData (some p) (fun d => d.addDefs [def0]) with
                      | none => none
                      | some t3 =>
                          ((t3.define def0).onData (some p) (fun d => d.addDefs [def1])).map
                            (fun t4 => t4.define def1)
                    else some t2) with
                  | none => none
                  | some t5 =>
                      recordEther lib t5 (some p) (etherTransfer tx.sender toAddr tx.Value none)
            else some t1) with
          | none => none
          | some t6 =>
              (t6.INestedCallTracer.TransactionEnd result receipt).map
                (fun inner => { t6 with INestedCallTracer := inner })
      | _, _ => none
  | none => none

/-- The tracer after one callback; `none` when the callback panics. -/
def step (lib : TransferLib) (t : TxSummaryTracer) (state : StateView) :
    TracerEvent → Option TxSummaryTracer
  | TracerEvent.TransactionStart tx created => t.TransactionStart state tx created
  | TracerEvent.CaptureStart => some t
  | TracerEvent.CaptureState pc op gas cost scope err =>
      CaptureState lib t state pc op gas cost scope err
  | TracerEvent.CaptureEnter typ sender toAddr input value =>
      CaptureEnter lib t state typ sender toAddr input value
  | TracerEvent.CaptureExit output gasUsed err => t.CaptureExit output gasUsed err
  | TracerEvent.CaptureFault => some t
  | TracerEvent.CaptureEnd => some t
  | TracerEvent.TransactionEnd tx result receipt contractAddress =>
      TransactionEnd lib t state tx result receipt contractAddress

/-- The tracer after a sequence of callbacks, each with the state as it answers during the
callback. -/
def run (lib : TransferLib) (t : TxSummaryTracer) :
    List (StateView × TracerEvent) → Option TxSummaryTracer
  | [] => some t
  | e :: es =>
      match step lib t e.1 e.2 with
      | none => none
      | some t1 => run lib t1 es

/-- The last segment of the summary of the current call. -/
def currentData (t : TxSummaryTracer) : Option summary.Data :=
  match t.INestedCallTracer.deref t.CurrentMsgCall with
  | none => none
  | some call =>
      match call.InnerData with
      | none => none
      | some s => s.currentData

/-- The uses held by the current segment of the summary of the current call. -/
def currentUses (t : TxSummaryTracer) : Option StateVariables :=
  t.currentData.map (fun d => d.Uses)

end TxSummaryTracer

/-- The callback captures an `SSTORE` of the contract `a` to the slot `k`. -/
def TracerEvent.storesTo (a : Address) (k : Hash) : TracerEvent → Bool
  | TracerEvent.CaptureState _ op _ _ scope _ =>
      decide (op = vm.SSTORE ∧ scope.Contract.Address = a ∧ scope.Back 0 = some k)
  | _ => false


/-- The second tracer has the configuration and the map `defs` of the first. -/
def TxSummaryTracer.Frame (t t1 : TxSummaryTracer) : Prop :=
  t1.Config = t.Config ∧ t1.defs = t.defs ∧ t1.currentTx = t.currentTx

/-- The second tracer has the configuration of the first, and its map `defs` holds the same
storage variables. -/
def TxSummaryTracer.StorageFrame (t t1 : TxSummaryTracer) : Prop :=
  t1.Config = t.Config ∧
    ∀ a k, t1.defs (VarID.storage a k) = t.defs (VarID.storage a k)


/-- The second tracer has the configuration of the first, and its map `defs` holds the storage
variables of the first and those for which `b` answers true. -/
def TxSummaryTracer.StoresFrame (b : Address → Hash → Bool) (t t1 : TxSummaryTracer) : Prop :=
  t1.Config = t.Config ∧
    ∀ a k, (t1.defs (VarID.storage a k)).isSome
      = ((t.defs (VarID.storage a k)).isSome || b a k)

/-- The segments of the summary that the call `q` holds: nothing for a dangling pointer and
for a call without summary. -/
def BasicNestedCallTracer.segments (t : BasicNestedCallTracer CallSummary) (q : Nat) :
    Option (List summary.Data) :=
  match t.calls[q]? with
  | none => none
  | some c => c.InnerData.map (fun s => s.Data)

/-- Summary tracing with definitions and uses only. -/
def Example.defUse : summary.Config :=
  { IncludeDef := true, IncludeUse := true, IncludeTransfer := false, IncludeProfit := false,
    IncludeTrace := false }

/-- A library whose `LogToTransfers` finds no transfer in a log. -/
def Example.lib : TransferLib :=
  { LogToTransfers := fun _ _ => some ([], none), Profits := fun _ => [] }

/-- The callbacks of a transaction whose code reads the slot 5 twice, on a state in which
every slot holds 7. -/
def Example.readTwice : List (StateView × TracerEvent) :=
  [ (Example.preState, TracerEvent.TransactionStart Example.callTx 0),
    (Example.preState, TracerEvent.CaptureState 0 vm.PUSH1 100 3 (Example.scope []) none),
    (Example.preState, TracerEvent.CaptureState 2 vm.SLOAD 97 800 (Example.scope [5]) none),
    (Example.preState, TracerEvent.CaptureState 3 vm.PUSH1 90 3 (Example.scope [7]) none),
    (Example.preState, TracerEvent.CaptureState 5 vm.SLOAD 87 800 (Example.scope [7, 5]) none) ]

/-! ## The data-flow tracer (`analysis/data_flow`) -/

/-- The function `helpers.GetStackEffects`: the table that `init` fills from the London
instruction set of the library, the number of words an opcode takes from the stack and the number
it leaves there; `DUP` counts as (0, 1), `SWAP` as (0, 0) and an undefined opcode as (0, 0). -/
def GetStackEffects (op : OpCode) : Nat × Nat :=
  if op = 0x00 then (0, 0)
  else if op ≤ 0x07 then (2, 1)
  else if op ≤ 0x09 then (3, 1)
  else if op ≤ 0x0b then (2, 1)
  else if op < 0x10 then (0, 0)
  else if op ≤ 0x14 then (2, 1)
  else if op = 0x15 then (1, 1)
  else if op ≤ 0x18 then (2, 1)
  else if op = 0x19 then (1, 1)
  else if op ≤ 0x1d then (2, 1)
  else if op < 0x20 then (0, 0)
  else if op = 0x20 then (2, 1)
  else if op < 0x30 then (0, 0)
  else if op = 0x30 then (0, 1)
  else if op = 0x31 then (1, 1)
  else if op ≤ 0x34 then (0, 1)
  else if op = 0x35 then (1, 1)
  else if op = 0x36 then (0, 1)
  else if op = 0x37 then (3, 0)
  else if op = 0x38 then (0, 1)
  else if op = 0x39 then (3, 0)
  else if op = 0x3a then (0, 1)
  else if op = 0x3b then (1, 1)
  else if op = 0x3c then (4, 0)
  else if op = 0x3d then (0, 1)
  else if op = 0x3e then (3, 0)
  else if op = 0x3f then (1, 1)
  else if op = 0x40 then (1, 1)
  else if op ≤ 0x48 then (0, 1)
  else if op < 0x50 then (0, 0)
  else if op = 0x50 then (1, 0)
  else if op = 0x51 then (1, 1)
  else if op ≤ 0x53 then (2, 0)
  else if op = 0x54 then (1, 1)
  else if op = 0x55 then (2, 0)
  else if op = 0x56 then (1, 0)
  else if op = 0x57 then (2, 0)
  else if op ≤ 0x5a then (0, 1)
  else if op < 0x60 then (0, 0)
  else if op ≤ 0x8f then (0, 1)
  else if op ≤ 0x9f then (0, 0)
  else if op ≤ 0xa4 then (op - 0xa0 + 2, 0)
  else if op < 0xf0 then (0, 0)
  else if op = 0xf0 then (3, 1)
  else if op ≤ 0xf2 then (7, 1)
  else if op = 0xf3 then (2, 0)
  else if op = 0xf4 then (6, 1)
  else if op = 0xf5 then (4, 1)
  else if op = 0xfa then (6, 1)
  else if op = 0xfd then (2, 0)
  else if op = 0xff then (1, 0)
  else (0, 0)

/-- The method `position.Cmp`. -/
def position.Cmp : List Nat → List Nat → Int
  | [], [] => 0
  | [], _ :: _ => -1
  | _ :: _, [] => 1
  | a :: p, b :: q => if a < b then -1 else if a > b then 1 else position.Cmp p q

/-- The method `CallPosition.Cmp` on two call positions. -/
def CallPosition.Cmp (p other : CallPosition) : Int := position.Cmp p.position other.position

/-- A message call with other call data. -/
def MsgCall.mapInner {D E : Type} (f : D → E) (c : MsgCall D) : MsgCall E :=
  { Position := c.Position
    Result := c.Result
    Receipt := c.Receipt
    OpCode := c.OpCode
    Caller := c.Caller
    Precompiled := c.Precompiled
    CodeAddr := c.CodeAddr
    StateAddr := c.StateAddr
    Input := c.Input
    Value := c.Value
    parent := c.parent
    NestedCalls := c.NestedCalls
    CurrentLocation := c.CurrentLocation
    InnerData := c.InnerData.map f }

namespace data_flow

/-- A Go map as the list of its entries; an assignment keeps the place of a key that exists. -/
def mapSet {K V : Type} [DecidableEq K] (m : List (K × V)) (k : K) (v : V) : List (K × V) :=
  if m.any (fun e => decide (e.1 = k)) then m.map (fun e => if e.1 = k then (k, v) else e)
  else m ++ [(k, v)]

/-- The value of a key of a Go map, if the key exists. -/
def mapGet {K V : Type} [DecidableEq K] (m : List (K × V)) (k : K) : Option V :=
  (m.find? (fun e => decide (e.1 = k))).map (fun e => e.2)

/-- The method `Operand.Uint64` of a 256-bit word: its low 64 bits. -/
def Uint64 (v : Nat) : Nat := v % 2 ^ 64

/-- The method `Bytes20` of a 256-bit word: its low 160 bits. -/
def Bytes20 (v : Nat) : Address := v % 2 ^ 160

/-- The method `Bytes32` of a 256-bit word. -/
def Bytes32 (v : Nat) : Hash := v

/-- The struct `Operation`: the location just captured, the pointer to the message call that
runs it, and the operands, the top-most word of the stack last. -/
structure Operation where
  TraceLocation : location
  msgCall : Nat
  args : List Nat
  deriving DecidableEq

/-- The method `Operation.Arg`; an index out of range is a runtime panic (`none`). -/
def Operation.Arg (o : Operation) (i : Nat) : Option Nat :=
  if i < o.args.length then o.args[o.args.length - i - 1]? else none

/-- The method `OpCode` of the embedded location. -/
def Operation.OpCode (o : Operation) : Erebus.OpCode := o.TraceLocation.OpCode

/-- The method `Index` of the embedded location. -/
def Operation.Index (o : Operation) : Nat := o.TraceLocation.Index

/-- What the string `location.ID` is made of: the call position as `CallPosition.String` prints
it (a root position prints as `root`), the program counter and the index. -/
structure OperationID where
  position : List Nat
  compactPosition : List Nat
  pc : Nat
  index : Nat
  deriving DecidableEq

/-- The method `ID` of the embedded location. -/
def Operation.ID (o : Operation) : OperationID :=
  { position := o.TraceLocation.pos.position
    compactPosition :=
      if o.TraceLocation.pos.position = [] then [] else o.TraceLocation.pos.compactPosition
    pc := o.TraceLocation.pc
    index := o.TraceLocation.index }

/-- The type `NodeID`: the label and the identifier of the operation. -/
structure NodeID where
  label : String
  operation : OperationID
  deriving DecidableEq

/-- The interface `FlowNode`: nil (`UntaintedValue`) or a pointer to a node, the index of the
node among the nodes allocated so far. -/
abbrev FlowNode := Option Nat

/-- The type `FlowNodeList`. -/
abbrev FlowNodeList := List FlowNode

/-- The struct `RawFlowNode`; the field `from` is `upstream` here. -/
structure RawFlowNode where
  label : String
  operation : Operation
  upstream : List (NodeID × Nat)
  deriving DecidableEq

/-- The function `NewRawFlowNode`. -/
def NewRawFlowNode (operation : Operation) (label : String) : RawFlowNode :=
  { label := label, operation := operation, upstream := [] }

/-- The method `RawFlowNode.ID`. -/
def RawFlowNode.ID (n : RawFlowNode) : NodeID := { label := n.label, operation := n.operation.ID }

/-- The method `RawFlowNode.From`: the values of the map; `AddUpstream` stores no nil. -/
def RawFlowNode.From (n : RawFlowNode) : List Nat := n.upstream.map (fun e => e.2)

/-- The method `RawFlowNode.HasUpstream`. -/
def RawFlowNode.HasUpstream (n : RawFlowNode) : Bool := decide (0 < n.upstream.length)

/-- The method `RawFlowNode.AddUpstream` on the node at `n`, with the nodes allocated so far.
A pointer that refers to no node is `none`. -/
def AddUpstream (n : Nat) : FlowNodeList → List RawFlowNode → Option (List RawFlowNode)
  | [], nodes => some nodes
  | none :: rest, nodes => AddUpstream n rest nodes
  | some p :: rest, nodes =>
      match nodes[p]?, nodes[n]? with
      | some flowNode, some node =>
          AddUpstream n rest
            (nodes.set n { node with upstream := mapSet node.upstream flowNode.ID p })
      | _, _ => none

/-- The method `FlowNodeList.Back`; an index out of range is a runtime panic (`none`). -/
def FlowNodeList.Back (l : FlowNodeList) (index : Nat) : Option FlowNode :=
  if index < l.length then l[l.length - index - 1]? else none

/-- The method `FlowNodeList.BackSlice` with one bound, `l[0 : len(l)-from]`. -/
def FlowNodeList.BackSlice1 (l : FlowNodeList) (start : Nat) : Option FlowNodeList :=
  if start ≤ l.length then some (l.take (l.length - start)) else none

/-- The method `FlowNodeList.BackSlice` with two bounds, `l[len(l)-to : len(l)-from]`. -/
def FlowNodeList.BackSlice2 (l : FlowNodeList) (start stop : Nat) : Option FlowNodeList :=
  if stop ≤ l.length ∧ start ≤ stop then
    some ((l.take (l.length - start)).drop (l.length - stop))
  else none

/-- The method `FlowNodeList.IsTainted`. -/
def FlowNodeList.IsTainted (l : FlowNodeList) : Bool := l.any (fun node => node.isSome)

/-- An assignment `stackResults[i] = node`; an index out of range is a runtime panic. -/
def setResult (stackResults : FlowNodeList) (i : Nat) (node : FlowNode) : Option FlowNodeList :=
  if i < stackResults.length then some (stackResults.set i node) else none

/-- The struct `stack`, the top-most element last; its field `stack` is `elems` here. -/
structure stack where
  elems : FlowNodeList
  deriving DecidableEq

/-- The function `newStack`. -/
def newStack : stack := { elems := [] }

/-- The method `stack.Depth`. -/
def stack.Depth (s : stack) : Nat := s.elems.length

/-- The method `stack.push`; the sanity check panics beyond the stack limit of 1024. -/
def stack.push (s : stack) (elements : FlowNodeList) : Option stack :=
  if s.Depth + elements.length ≤ 1024 then some { elems := s.elems ++ elements } else none

/-- The method `stack.pop`; the sanity check panics when the stack is not deep enough. -/
def stack.pop (s : stack) (n : Nat) : Option (stack × FlowNodeList) :=
  if n = 0 then some (s, [])
  else if s.Depth ≥ n then
    some ({ elems := s.elems.take (s.Depth - n) }, s.elems.drop (s.Depth - n))
  else none

/-- The method `stack.Get`. -/
def stack.Get (s : stack) (i : Nat) : Option FlowNode :=
  if s.Depth > i then s.elems[s.Depth - i - 1]? else none

/-- The method `stack.Tail`. -/
def stack.Tail (s : stack) (n : Nat) : Option FlowNodeList :=
  if s.Depth ≥ n then some (s.elems.drop (s.Depth - n)) else none

/-- The method `stack.swap`. -/
def stack.swap (s : stack) (pos : Nat) : Option stack :=
  if pos > 0 ∧ s.Depth > pos then
    match s.elems[s.Depth - 1]?, s.elems[s.Depth - pos - 1]? with
    | some top, some swap =>
        some { elems := (s.elems.set (s.Depth - 1) swap).set (s.Depth - pos - 1) top }
    | _, _ => none
  else none

/-- The method `ArrayGranularity.Regulate` of `memoryGranularity`, 32 bytes. -/
def Regulate (index : Nat) : Nat := index - index % 32

/-- The values that `i` takes in a loop
`for i := Regulate(start); i < start+length; i += 32` over 64-bit offsets, where the sum wraps
around. When the bound lies within 32 of the top of the range, `i` wraps around below the bound
and the loop never ends (`none`). -/
def words (start length : Nat) : Option (List Nat) :=
  if Regulate start < (start + length) % 2 ^ 64 then
    if (start + length) % 2 ^ 64 ≤ 2 ^ 64 - 32 then
      some ((List.range (((start + length) % 2 ^ 64 - Regulate start + 31) / 32)).map
        (fun j => Regulate start + 32 * j))
    else none
  else some []

/-- The struct `memory`: a node for each 32-byte word, keyed by the offset of the word. -/
structure memory where
  mem : List (Nat × FlowNode)
  deriving DecidableEq

/-- The function `newMemory`. -/
def newMemory : memory := { mem := [] }

/-- The map access `m.mem[i]`, nil for a key that does not exist. -/
def memory.at (m : memory) (i : Nat) : FlowNode := (mapGet m.mem i).join

/-- The method `memory.Load`. -/
def memory.Load (m : memory) (start length : Nat) : Option FlowNodeList :=
  if length = 0 then some []
  else (words start length).map (fun ws => (ws.map m.at).filter (fun v => v.isSome))

/-- The body of the loops of `memory.Store`, `memory.StoreCallData` and
`memory.StoreCallReturnData` for the word at `index` of a range that starts at `start` and ends
before `bound`: the new content of the word, with the nodes allocated so far. -/
def memory.storeWord (start bound index : Nat) (value : FlowNode) (nodes : List RawFlowNode)
    (m : memory) : Option (List RawFlowNode × memory) :=
  if (index < start ∨ (index + 32) % 2 ^ 64 > bound) ∧ (m.at index).isSome then
    match value with
    | none => some (nodes, { mem := mapSet m.mem index (m.at index) })
    | some v =>
        match nodes[v]? with
        | none => none
        | some valueNode =>
            match AddUpstream nodes.length [value, m.at index]
                (nodes ++ [NewRawFlowNode valueNode.operation "memory_merge"]) with
            | none => none
            | some nodes1 => some (nodes1, { mem := mapSet m.mem index (some nodes.length) })
  else some (nodes, { mem := mapSet m.mem index value })

/-- The loop of `memory.Store` over the words of the range. -/
def memory.storeLoop (start bound : Nat) (value : FlowNode) :
    List Nat → List RawFlowNode → memory → Option (List RawFlowNode × memory)
  | [], nodes, m => some (nodes, m)
  | i :: rest, nodes, m =>
      match memory.storeWord start bound i value nodes m with
      | none => none
      | some (nodes1, m1) => memory.storeLoop start bound value rest nodes1 m1

/-- The method `memory.Store`. -/
def memory.Store (m : memory) (start length : Nat) (value : FlowNode)
    (nodes : List RawFlowNode) : Option (List RawFlowNode × memory) :=
  if length = 0 then some (nodes, m)
  else
    match words start length with
    | none => none
    | some ws => memory.storeLoop start ((start + length) % 2 ^ 64) value ws nodes m

/-- The method `memory.Clear`. -/
def memory.Clear (m : memory) (start length : Nat) (nodes : List RawFlowNode) :
    Option (List RawFlowNode × memory) :=
  m.Store start length none nodes

/-- The method `memory.Get`. -/
def memory.Get (m : memory) (index : Nat) : FlowNode := m.at (Regulate index)

/-- The struct `storage`; its field `storage` is `slots` here. -/
structure storage where
  slots : List (Hash × FlowNode)
  deriving DecidableEq

/-- The function `newStorage`. -/
def newStorage : storage := { slots := [] }

/-- The method `storage.Load`. -/
def storage.Load (s : storage) (key : Hash) : FlowNode := (mapGet s.slots key).join

/-- The method `storage.Store`. -/
def storage.Store (s : storage) (key : Hash) (value : FlowNode) : storage :=
  { slots := mapSet s.slots key value }

/-- The method `storage.Clear`. -/
def storage.Clear (s : storage) (key : Hash) : storage := s.Store key none

/-- The struct `chain`. -/
structure chain where
  balances : List (Address × FlowNode)
  codes : List (Address × FlowNode)
  deriving DecidableEq

/-- The function `newChain`. -/
def newChain : chain := { balances := [], codes := [] }

/-- The method `chain.GetBalance`. -/
def chain.GetBalance (c : chain) (addr : Address) : FlowNode := (mapGet c.balances addr).join

/-- The method `chain.SetBalance`. -/
def chain.SetBalance (c : chain) (addr : Address) (node : FlowNode) : chain :=
  { c with balances := mapSet c.balances addr node }

/-- The method `chain.GetCode`. -/
def chain.GetCode (c : chain) (addr : Address) : FlowNode := (mapGet c.codes addr).join

/-- The method `chain.SetCode`. -/
def chain.SetCode (c : chain) (addr : Address) (node : FlowNode) : chain :=
  { c with codes := mapSet c.codes addr node }

/-- The struct `call`. -/
structure call where
  position : CallPosition
  value : FlowNode
  data : List (Nat × FlowNode)
  returnData : List (Nat × FlowNode)
  success : FlowNode
  source : FlowNode
  deriving DecidableEq

/-- The function `newCall`. -/
def newCall (pos : CallPosition) : call :=
  { position := pos, value := none, data := [], returnData := [], success := none,
    source := none }

/-- The method `call.setFlowSource`. -/
def call.setFlowSource (c : call) (source : FlowNode) : call := { c with source := source }

/-- The method `call.matchMsgCall`, on the position of the message call. -/
def call.matchMsgCall (c : call) (msgCallPosition : CallPosition) : Bool :=
  decide (c.position.Cmp msgCallPosition = 0)

/-- The loop of `call.StoreData` and `call.StoreReturnData`: the word of the memory at
`start+i` goes under the key `i`. -/
def call.storeLoop (m : memory) (start : Nat) (ws : List Nat) (data : List (Nat × FlowNode)) :
    List (Nat × FlowNode) :=
  ws.foldl (fun d w => mapSet d (w - start) (m.at w)) data

/-- The method `call.StoreData`. -/
def call.StoreData (c : call) (m : memory) (offset length : Nat) : Option call :=
  if length = 0 then some c
  else (words offset length).map
    (fun ws => { c with data := call.storeLoop m (Regulate offset) ws c.data })

/-- The method `call.StoreReturnData`. -/
def call.StoreReturnData (c : call) (m : memory) (offset length : Nat) : Option call :=
  if length = 0 then some c
  else (words offset length).map
    (fun ws => { c with returnData := call.storeLoop m (Regulate offset) ws c.returnData })

/-- The end of `call.GetData`, `call.GetReturnData` and `call.GetAllReturnData`: without a
tainted value the flow source of the call stands in. -/
def call.orSource (c : call) (values : FlowNodeList) : FlowNodeList :=
  if values.length = 0 ∧ c.source.isSome then values ++ [c.source] else values

/-- The method `call.GetData`. -/
def call.GetData (c : call) (start length : Nat) : Option FlowNodeList :=
  if length = 0 then some []
  else (words start length).map
    (fun ws => c.orSource ((ws.map (fun i => (mapGet c.data i).join)).filter
      (fun v => v.isSome)))

/-- The method `call.GetValue`. -/
def call.GetValue (c : call) : FlowNode := c.value

/-- The method `call.GetSuccess`. -/
def call.GetSuccess (c : call) : FlowNode :=
  if c.success.isSome then c.success
  else if c.source.isSome then c.source
  else c.success

/-- The method `call.GetReturnData`. -/
def call.GetReturnData (c : call) (start length : Nat) : Option FlowNodeList :=
  if length = 0 then some []
  else (words start length).map
    (fun ws => c.orSource ((ws.map (fun i => (mapGet c.returnData i).join)).filter
      (fun v => v.isSome)))

/-- The method `call.GetAllReturnData`, the values in the order of the entries. -/
def call.GetAllReturnData (c : call) : FlowNodeList :=
  c.orSource ((c.returnData.map (fun e => e.2)).filter (fun v => v.isSome))

/-- The method `call.ReturnDataIsTainted`, with the nodes allocated so far. -/
def call.ReturnDataIsTainted (c : call) (nodes : List RawFlowNode) : Bool :=
  c.returnData.any (fun e =>
    match e.2 with
    | none => false
    | some p =>
        match nodes[p]? with
        | none => false
        | some node => decide (0 < node.From.length))

/-- The loop of `memory.StoreCallData` and `memory.StoreCallReturnData`: `index` runs over the
words of the destination while `i` runs over the words `ws` of the source `data`. -/
def memory.storeCallLoop (data : List (Nat × FlowNode)) (destOffset bound : Nat) :
    List Nat → Nat → List RawFlowNode → memory → Option (List RawFlowNode × memory)
  | [], _, nodes, m => some (nodes, m)
  | i :: rest, index, nodes, m =>
      match memory.storeWord destOffset bound index (mapGet data i).join nodes m with
      | none => none
      | some (nodes1, m1) =>
          memory.storeCallLoop data destOffset bound rest ((index + 32) % 2 ^ 64) nodes1 m1

/-- The method `memory.StoreCallData`. -/
def memory.StoreCallData (m : memory) (c : call) (destOffset offset length : Nat)
    (nodes : List RawFlowNode) : Option (List RawFlowNode × memory) :=
  match words offset length with
  | none => none
  | some ws =>
      memory.storeCallLoop c.data destOffset ((destOffset + length) % 2 ^ 64) ws
        (Regulate destOffset) nodes m

/-- The method `memory.StoreCallReturnData`. -/
def memory.StoreCallReturnData (m : memory) (c : call) (destOffset offset length : Nat)
    (nodes : List RawFlowNode) : Option (List RawFlowNode × memory) :=
  match words offset length with
  | none => none
  | some ws =>
      memory.storeCallLoop c.returnData destOffset ((destOffset + length) % 2 ^ 64) ws
        (Regulate destOffset) nodes m

/-- The struct `TrackerCollection`. The stack and the memory belong to one collection; the
storage, the chain and the calls are shared between collections and held by pointer. -/
structure TrackerCollection where
  Stack : stack
  Memory : memory
  Storage : Nat
  Chain : Option Nat
  Call : Nat
  ChildCall : Option Nat
  deriving DecidableEq

/-- The objects of one analyzer: the analyzer itself, the nodes, storages, chains, calls and
collections allocated for it (a pointer is an index), and its entries
`globalStorages[analyzer]` and `globalChains[analyzer]` of the tracer. `notified` lists the
calls of `SinkTainted` the analyzer has received, each with the collection and the node. -/
structure World (σ : Type) where
  analyzer : σ
  nodes : List RawFlowNode
  storages : List storage
  chains : List chain
  calls : List call
  collections : List TrackerCollection
  globalStorages : Option (List (Address × Nat))
  globalChains : Option Nat
  notified : List (Nat × FlowNode)

/-- The call tree as the analyzers and the flow functions read it through
`operation.msgCall`. -/
abbrev CallView := List (MsgCall Unit)

/-- The interface `Analyzer` without `FlowPolicy`. An analyzer works on its own objects. -/
structure AnalyzerMethods (σ : Type) where
  NewFlowNode : CallView → Operation → World σ → World σ × FlowNode
  CheckOperation : CallView → Operation → World σ → World σ × (Bool × Bool)
  SinkTainted : CallView → Nat → FlowNode → World σ → World σ

/-- The analyzer as the tracer hands it to the flow functions; a call of `SinkTainted` is
listed in `notified`. -/
def AnalyzerMethods.recording {σ : Type} (m : AnalyzerMethods σ) : AnalyzerMethods σ :=
  { m with
    SinkTainted := fun view collection flowedValue w =>
      m.SinkTainted view collection flowedValue
        { w with notified := w.notified ++ [(collection, flowedValue)] } }

/-- The hook that a flow function returns: it runs before the next operation of the call, on
the scope of that operation, and may fill `stackResults`. -/
abbrev PolicyHook (σ : Type) :=
  CallView → vm.ScopeContext → FlowNodeList → World σ → Option (World σ × FlowNodeList)

/-- The type `AfterOperationHook` of the callbacks that the tracer registers. -/
abbrev AfterOperationHook (σ : Type) := CallView → vm.ScopeContext → World σ → Option (World σ)

/-- The type `FlowFn`. A flow function gets the analyzer, the call tree, the scope, the pointer
to the collection, the operation, the arguments popped from the mirror stack and the results to
fill; it returns the results and the hook, `none` when it panics. -/
abbrev FlowFn (σ : Type) :=
  AnalyzerMethods σ → CallView → vm.ScopeContext → Nat → Operation → FlowNodeList →
    FlowNodeList → World σ → Option (World σ × FlowNodeList × Option (PolicyHook σ))

/-- The type `FlowPolicy`. -/
abbrev FlowPolicy (σ : Type) := OpCode → Option (FlowFn σ)

namespace World

variable {σ : Type}

/-- The collection behind a pointer. -/
def collection (w : World σ) (c : Nat) : Option TrackerCollection := w.collections[c]?

/-- Writing through a pointer to a collection. -/
def setCollection (w : World σ) (c : Nat) (col : TrackerCollection) : World σ :=
  { w with collections := w.collections.set c col }

/-- An upstream added to a node: `node.AddUpstream(nodes...)`; a nil node panics. -/
def AddUpstream (w : World σ) (node : FlowNode) (ups : FlowNodeList) : Option (World σ) :=
  match node with
  | none => none
  | some n => (data_flow.AddUpstream n ups w.nodes).map (fun nodes => { w with nodes := nodes })

/-- The call `collection.Memory.Load`. -/
def MemoryLoad (w : World σ) (c : Nat) (start length : Nat) : Option FlowNodeList :=
  match w.collection c with
  | none => none
  | some col => col.Memory.Load start length

/-- The call `collection.Memory.Store`. -/
def MemoryStore (w : World σ) (c : Nat) (start length : Nat) (value : FlowNode) :
    Option (World σ) :=
  match w.collection c with
  | none => none
  | some col =>
      match col.Memory.Store start length value w.nodes with
      | none => none
      | some (nodes, m) =>
          some { w with nodes := nodes, collections := w.collections.set c { col with Memory := m } }

/-- The call `collection.Storage.Load`. -/
def StorageLoad (w : World σ) (c : Nat) (key : Hash) : Option FlowNode :=
  match w.collection c with
  | none => none
  | some col => (w.storages[col.Storage]?).map (fun s => s.Load key)

/-- The call `collection.Storage.Store`. -/
def StorageStore (w : World σ) (c : Nat) (key : Hash) (value : FlowNode) : Option (World σ) :=
  match w.collection c with
  | none => none
  | some col =>
      (w.storages[col.Storage]?).map
        (fun s => { w with storages := w.storages.set col.Storage (s.Store key value) })

/-- The chain of a collection; a nil pointer panics. -/
def chainOf (w : World σ) (c : Nat) : Option (Nat × chain) :=
  match w.collection c with
  | none => none
  | some col =>
      match col.Chain with
      | none => none
      | some p => (w.chains[p]?).map (fun ch => (p, ch))

/-- The call `collection.Chain.GetBalance`. -/
def GetBalance (w : World σ) (c : Nat) (addr : Address) : Option FlowNode :=
  (w.chainOf c).map (fun pc => pc.2.GetBalance addr)

/-- The call `collection.Chain.SetBalance`. -/
def SetBalance (w : World σ) (c : Nat) (addr : Address) (node : FlowNode) : Option (World σ) :=
  (w.chainOf c).map (fun pc => { w with chains := w.chains.set pc.1 (pc.2.SetBalance addr node) })

/-- The call `collection.Chain.GetCode`. -/
def GetCode (w : World σ) (c : Nat) (addr : Address) : Option FlowNode :=
  (w.chainOf c).map (fun pc => pc.2.GetCode addr)

/-- The call `collection.Chain.SetCode`. -/
def SetCode (w : World σ) (c : Nat) (addr : Address) (node : FlowNode) : Option (World σ) :=
  (w.chainOf c).map (fun pc => { w with chains := w.chains.set pc.1 (pc.2.SetCode addr node) })

/-- The call object `collection.Call`. -/
def callOf (w : World σ) (c : Nat) : Option (Nat × call) :=
  match w.collection c with
  | none => none
  | some col => (w.calls[col.Call]?).map (fun cd => (col.Call, cd))

/-- The call object `collection.ChildCall`; a nil pointer panics. -/
def childCallOf (w : World σ) (c : Nat) : Option (Nat × call) :=
  match w.collection c with
  | none => none
  | some col =>
      match col.ChildCall with
      | none => none
      | some p => (w.calls[p]?).map (fun cd => (p, cd))

/-- Writing through a pointer to a call object. -/
def setCall (w : World σ) (p : Nat) (cd : call) : World σ :=
  { w with calls := w.calls.set p cd }

/-- The assignment `collection.ChildCall = newCall(pos)`. -/
def newChildCall (w : World σ) (c : Nat) (pos : CallPosition) : Option (World σ) :=
  match w.collection c with
  | none => none
  | some col =>
      some { w with calls := w.calls ++ [newCall pos]
                    collections := w.collections.set c { col with ChildCall := some w.calls.length } }

end World

/-! ### The default flow policy (`policy.go`) -/

section flows

variable {σ : Type}

/-- The method `Sign` of a 256-bit word, which reads it in two's complement, is positive. -/
def signPositive (v : Nat) : Bool := decide (0 < v % 2 ^ 256 ∧ v % 2 ^ 256 < 2 ^ 255)

/-- The flow function `noopFlow`. -/
def noopFlow : FlowFn σ := fun _ _ _ _ _ _ stackResults w => some (w, stackResults, none)

/-- The flow function `pushFlow`. -/
def pushFlow : FlowFn σ := fun analyzer view _ _ operation _ stackResults w => do
  let (w, (source, _)) := analyzer.CheckOperation view operation w
  if source then
    let (w, node) := analyzer.NewFlowNode view operation w
    let stackResults ← setResult stackResults 0 node
    return (w, stackResults, none)
  else
    return (w, stackResults, none)

/-- The flow function `dupFlow`; the position is computed on bytes. -/
def dupFlow : FlowFn σ := fun analyzer view _ collection operation _ stackResults w => do
  let pos := (operation.OpCode + 256 - 0x80) % 256
  let col ← w.collection collection
  let v ← col.Stack.Get pos
  let stackResults ← setResult stackResults 0 v
  let (w, (source, _)) := analyzer.CheckOperation view operation w
  if source ∧ v = none then
    let (w, node) := analyzer.NewFlowNode view operation w
    let stackResults ← setResult stackResults 0 node
    return (w, stackResults, none)
  else
    return (w, stackResults, none)

/-- The flow function `swapFlow`; the position is computed on bytes. -/
def swapFlow : FlowFn σ := fun _ _ _ collection operation _ stackResults w => do
  let pos := (operation.OpCode + 256 - 0x90 + 1) % 256
  let col ← w.collection collection
  let st ← col.Stack.swap pos
  return (w.setCollection collection { col with Stack := st }, stackResults, none)

/-- The flow function `logFlow`. -/
def logFlow : FlowFn σ := fun analyzer view scope collection operation stackArgs stackResults w => do
  let (w, (_, sink)) := analyzer.CheckOperation view operation w
  if sink then
    let offset ← scope.Back 0
    let length ← scope.Back 1
    let data ← w.MemoryLoad collection (Uint64 offset) (Uint64 length)
    let topics ← FlowNodeList.BackSlice1 stackArgs 2
    if FlowNodeList.IsTainted data ∨ FlowNodeList.IsTainted topics then
      let (w, node) := analyzer.NewFlowNode view operation w
      let w ← w.AddUpstream node topics
      let w ← w.AddUpstream node data
      return (analyzer.SinkTainted view collection node w, stackResults, none)
    else
      return (w, stackResults, none)
  else
    return (w, stackResults, none)

/-- The flow function `pureOpFlow`. -/
def pureOpFlow : FlowFn σ := fun analyzer view _ collection operation stackArgs stackResults w => do
  let (w, (source, sink)) := analyzer.CheckOperation view operation w
  if FlowNodeList.IsTainted stackArgs then
    let (w, node) := analyzer.NewFlowNode view operation w
    let stackResults ← setResult stackResults 0 node
    let w ← w.AddUpstream node stackArgs
    if sink then
      return (analyzer.SinkTainted view collection node w, stackResults, none)
    else
      return (w, stackResults, none)
  else if source then
    let (w, node) := analyzer.NewFlowNode view operation w
    let stackResults ← setResult stackResults 0 node
    return (w, stackResults, none)
  else
    return (w, stackResults, none)

/-- The flow function `hashOpFlow`. -/
def hashOpFlow : FlowFn σ := fun analyzer view _ collection operation _ stackResults w => do
  let (w, (source, sink)) := analyzer.CheckOperation view operation w
  let arg0 ← operation.Arg 0
  let arg1 ← operation.Arg 1
  let payload ← w.MemoryLoad collection (Uint64 arg0) (Uint64 arg1)
  if FlowNodeList.IsTainted payload then
    let (w, node) := analyzer.NewFlowNode view operation w
    let stackResults ← setResult stackResults 0 node
    let w ← w.AddUpstream node payload
    if sink then
      return (analyzer.SinkTainted view collection node w, stackResults, none)
    else
      return (w, stackResults, none)
  else if source then
    let (w, node) := analyzer.NewFlowNode view operation w
    let stackResults ← setResult stackResults 0 node
    return (w, stackResults, none)
  else
    return (w, stackResults, none)

/-- The flow function that `balanceFlowFactory` makes for an address. -/
def balanceFlowFactory (addr : Address) : FlowFn σ :=
  fun analyzer view _ collection operation stackArgs stackResults w => do
    let (w, (source, sink)) := analyzer.CheckOperation view operation w
    let bal ← w.GetBalance collection addr
    if bal.isSome ∨ FlowNodeList.IsTainted stackArgs then
      let (w, node) := analyzer.NewFlowNode view operation w
      let stackResults ← setResult stackResults 0 node
      let w ← w.AddUpstream node stackArgs
      let w ← w.AddUpstream node [bal]
      if sink then
        return (analyzer.SinkTainted view collection node w, stackResults, none)
      else
        return (w, stackResults, none)
    else if source then
      let (w, flowableResult) := analyzer.NewFlowNode view operation w
      let stackResults ← setResult stackResults 0 flowableResult
      return (w, stackResults, none)
    else
      return (w, stackResults, none)

/-- The flow function `txConstReadToStackOpFlow`. -/
def txConstReadToStackOpFlow : FlowFn σ := fun analyzer view _ _ operation _ stackResults w => do
  let (w, (source, _)) := analyzer.CheckOperation view operation w
  if source then
    let (w, node) := analyzer.NewFlowNode view operation w
    let stackResults ← setResult stackResults 0 node
    return (w, stackResults, none)
  else
    return (w, stackResults, none)

/-- The flow function `balanceFlow`. -/
def balanceFlow : FlowFn σ :=
  fun analyzer view scope collection operation stackArgs stackResults w => do
    let top ← scope.Back 0
    balanceFlowFactory (Bytes20 top) analyzer view scope collection operation stackArgs
      stackResults w

/-- The flow function that `codeReadToStackOpFlowFactory` makes for an address. -/
def codeReadToStackOpFlowFactory (addr : Address) : FlowFn σ :=
  fun analyzer view _ collection operation stackArgs stackResults w => do
    let (w, (source, sink)) := analyzer.CheckOperation view operation w
    let code ← w.GetCode collection addr
    if code.isSome ∨ FlowNodeList.IsTainted stackArgs then
      let (w, node) := analyzer.NewFlowNode view operation w
      let stackResults ← setResult stackResults 0 node
      let w ← w.AddUpstream node stackArgs
      let w ← w.AddUpstream node [code]
      if sink then
        return (analyzer.SinkTainted view collection node w, stackResults, none)
      else
        return (w, stackResults, none)
    else if source then
      let (w, flowableResult) := analyzer.NewFlowNode view operation w
      let stackResults ← setResult stackResults 0 flowableResult
      return (w, stackResults, none)
    else
      return (w, stackResults, none)

/-- The flow function that `codeReadToMemoryOpFlowFactory` makes for an address and a range. -/
def codeReadToMemoryOpFlowFactory (addr : Address) (destOffset _offset length : Nat) :
    FlowFn σ :=
  fun analyzer view _ collection operation stackArgs stackResults w => do
    let code ← w.GetCode collection addr
    if FlowNodeList.IsTainted stackArgs then
      let (w, taintedNode) := analyzer.NewFlowNode view operation w
      let w ← w.AddUpstream taintedNode stackArgs
      let w ← w.AddUpstream taintedNode [code]
      let w ← w.MemoryStore collection destOffset length taintedNode
      return (w, stackResults, none)
    else if code.isSome then
      let w ← w.MemoryStore collection destOffset length code
      return (w, stackResults, none)
    else
      let (w, (source, _)) := analyzer.CheckOperation view operation w
      if source then
        let (w, flowableResult) := analyzer.NewFlowNode view operation w
        let w ← w.MemoryStore collection destOffset length flowableResult
        return (w, stackResults, none)
      else
        let w ← w.MemoryStore collection destOffset length none
        return (w, stackResults, none)

/-- The flow function `callValueFlow`. -/
def callValueFlow : FlowFn σ := fun analyzer view _ collection operation _ stackResults w => do
  let (_, cd) ← w.callOf collection
  if cd.value.isSome then
    let stackResults ← setResult stackResults 0 cd.value
    return (w, stackResults, none)
  else
    let (w, (source, _)) := analyzer.CheckOperation view operation w
    if source then
      let (w, node) := analyzer.NewFlowNode view operation w
      let stackResults ← setResult stackResults 0 node
      return (w, stackResults, none)
    else
      return (w, stackResults, none)

/-- The flow function `callDataLoadFlow`. -/
def callDataLoadFlow : FlowFn σ :=
  fun analyzer view scope collection operation stackArgs stackResults w => do
    let start ← scope.Back 0
    let (_, cd) ← w.callOf collection
    let data ← cd.GetData (Uint64 start) 32
    if FlowNodeList.IsTainted data ∨ FlowNodeList.IsTainted stackArgs then
      let (w, flowableResult) := analyzer.NewFlowNode view operation w
      let w ← w.AddUpstream flowableResult data
      let w ← w.AddUpstream flowableResult stackArgs
      let stackResults ← setResult stackResults 0 flowableResult
      return (w, stackResults, none)
    else
      let (w, (source, _)) := analyzer.CheckOperation view operation w
      if source then
        let (w, flowableResult) := analyzer.NewFlowNode view operation w
        let stackResults ← setResult stackResults 0 flowableResult
        return (w, stackResults, none)
      else
        return (w, stackResults, none)

/-- The end of `callDataCopyFlow` and `returnDataCopyFlow`: a source operation taints the
range it wrote when no word of it is tainted. -/
def copySource (analyzer : AnalyzerMethods σ) (view : CallView) (collection : Nat)
    (operation : Operation) (destOffset length : Nat) (stackResults : FlowNodeList)
    (w : World σ) : Option (World σ × FlowNodeList × Option (PolicyHook σ)) := do
  let (w, (source, _)) := analyzer.CheckOperation view operation w
  if source then
    let mem ← w.MemoryLoad collection destOffset length
    if !FlowNodeList.IsTainted mem then
      let (w, node) := analyzer.NewFlowNode view operation w
      let w ← w.MemoryStore collection destOffset length node
      return (w, stackResults, none)
    else
      return (w, stackResults, none)
  else
    return (w, stackResults, none)

/-- The flow function `callDataCopyFlow`. -/
def callDataCopyFlow : FlowFn σ :=
  fun analyzer view scope collection operation _ stackResults w => do
    let destOffset ← scope.Back 0
    let offset ← scope.Back 1
    let length ← scope.Back 2
    let col ← w.collection collection
    let (_, cd) ← w.callOf collection
    let (nodes, m) ←
      col.Memory.StoreCallData cd (Uint64 destOffset) (Uint64 offset) (Uint64 length) w.nodes
    let w := { w with nodes := nodes }.setCollection collection { col with Memory := m }
    copySource analyzer view collection operation (Uint64 destOffset) (Uint64 length)
      stackResults w

/-- The flow function `codeSizeFlow`. -/
def codeSizeFlow : FlowFn σ :=
  fun analyzer view scope collection operation stackArgs stackResults w => do
    let addr ← scope.Contract.CodeAddr
    codeReadToStackOpFlowFactory addr analyzer view scope collection operation stackArgs
      stackResults w

/-- The flow function `codeCopyFlow`. -/
def codeCopyFlow : FlowFn σ :=
  fun analyzer view scope collection operation stackArgs stackResults w => do
    let addr ← scope.Contract.CodeAddr
    let destOffset ← scope.Back 0
    let offset ← scope.Back 1
    let length ← scope.Back 2
    codeReadToMemoryOpFlowFactory addr (Uint64 destOffset) (Uint64 offset) (Uint64 length)
      analyzer view scope collection operation stackArgs stackResults w

/-- The flow function `extCodeSizeFlow`. -/
def extCodeSizeFlow : FlowFn σ :=
  fun analyzer view scope collection operation stackArgs stackResults w => do
    let addr ← scope.Back 0
    codeReadToStackOpFlowFactory (Bytes20 addr) analyzer view scope collection operation
      stackArgs stackResults w

/-- The flow function `extCodeCopyFlow`. -/
def extCodeCopyFlow : FlowFn σ :=
  fun analyzer view scope collection operation stackArgs stackResults w => do
    let addr ← scope.Back 0
    let destOffset ← scope.Back 1
    let offset ← scope.Back 2
    let length ← scope.Back 3
    codeReadToMemoryOpFlowFactory (Bytes20 addr) (Uint64 destOffset) (Uint64 offset)
      (Uint64 length) analyzer view scope collection operation stackArgs stackResults w

/-- The flow function `returnDataCopyFlow`. -/
def returnDataCopyFlow : FlowFn σ :=
  fun analyzer view scope collection operation _ stackResults w => do
    let destOffset ← scope.Back 0
    let offset ← scope.Back 1
    let length ← scope.Back 2
    let col ← w.collection collection
    let (_, cd) ← w.childCallOf collection
    let (nodes, m) ←
      col.Memory.StoreCallReturnData cd (Uint64 destOffset) (Uint64 offset) (Uint64 length)
        w.nodes
    let w := { w with nodes := nodes }.setCollection collection { col with Memory := m }
    copySource analyzer view collection operation (Uint64 destOffset) (Uint64 length)
      stackResults w

/-- The flow function `extCodeHashFlow`. -/
def extCodeHashFlow : FlowFn σ :=
  fun analyzer view scope collection operation stackArgs stackResults w => do
    let addr ← scope.Back 0
    codeReadToStackOpFlowFactory (Bytes20 addr) analyzer view scope collection operation
      stackArgs stackResults w

/-- The flow function `selfBalanceFlow`. -/
def selfBalanceFlow : FlowFn σ :=
  fun analyzer view scope collection operation stackArgs stackResults w =>
    balanceFlowFactory scope.Contract.Address analyzer view scope collection operation
      stackArgs stackResults w

/-- The flow function `mloadFlow`. -/
def mloadFlow : FlowFn σ :=
  fun analyzer view scope collection operation stackArgs stackResults w => do
    let (w, (source, sink)) := analyzer.CheckOperation view operation w
    let start ← scope.Back 0
    let data ← w.MemoryLoad collection (Uint64 start) 32
    if FlowNodeList.IsTainted data ∨ FlowNodeList.IsTainted stackArgs then
      let (w, flowableResult) := analyzer.NewFlowNode view operation w
      let w ← w.AddUpstream flowableResult data
      let w ← w.AddUpstream flowableResult stackArgs
      let stackResults ← setResult stackResults 0 flowableResult
      if sink then
        return (analyzer.SinkTainted view collection flowableResult w, stackResults, none)
      else
        return (w, stackResults, none)
    else if source then
      let (w, node) := analyzer.NewFlowNode view operation w
      let stackResults ← setResult stackResults 0 node
      return (w, stackResults, none)
    else
      return (w, stackResults, none)

/-- The body of `mstoreFlow` and `mstore8Flow` for a range of `length` bytes. -/
def mstoreFlowOf (length : Nat) : FlowFn σ :=
  fun analyzer view scope collection operation stackArgs stackResults w => do
    let start ← scope.Back 0
    let value ← FlowNodeList.Back stackArgs 1
    let w ← w.MemoryStore collection (Uint64 start) length value
    let (w, (source, _)) := analyzer.CheckOperation view operation w
    if source then
      if value = none then
        let (w, node) := analyzer.NewFlowNode view operation w
        let w ← w.MemoryStore collection (Uint64 start) length node
        return (w, stackResults, none)
      else
        return (w, stackResults, none)
    else
      return (w, stackResults, none)

/-- The flow function `mstoreFlow`. -/
def mstoreFlow : FlowFn σ := mstoreFlowOf 32

/-- The flow function `mstore8Flow`. -/
def mstore8Flow : FlowFn σ := mstoreFlowOf 1

/-- The flow function `sloadFlow`. -/
def sloadFlow : FlowFn σ :=
  fun analyzer view scope collection operation stackArgs stackResults w => do
    let (w, (source, sink)) := analyzer.CheckOperation view operation w
    let key ← scope.Back 0
    let value ← w.StorageLoad collection (Bytes32 key)
    if value.isSome ∨ FlowNodeList.IsTainted stackArgs then
      let (w, node) := analyzer.NewFlowNode view operation w
      let loaded ← w.StorageLoad collection (Bytes32 key)
      let w ← w.AddUpstream node [loaded]
      let w ← w.AddUpstream node stackArgs
      let stackResults ← setResult stackResults 0 node
      if sink then
        return (analyzer.SinkTainted view collection node w, stackResults, none)
      else
        return (w, stackResults, none)
    else if source then
      let (w, node) := analyzer.NewFlowNode view operation w
      let stackResults ← setResult stackResults 0 node
      return (w, stackResults, none)
    else
      return (w, stackResults, none)

/-- The flow function `sstoreFlow`. -/
def sstoreFlow : FlowFn σ :=
  fun analyzer view scope collection operation stackArgs stackResults w => do
    let (w, (source, sink)) := analyzer.CheckOperation view operation w
    let key ← scope.Back 0
    if FlowNodeList.IsTainted stackArgs then
      let (w, node) := analyzer.NewFlowNode view operation w
      let w ← w.AddUpstream node stackArgs
      let w ← w.StorageStore collection (Bytes32 key) node
      if sink then
        return (analyzer.SinkTainted view collection node w, stackResults, none)
      else
        return (w, stackResults, none)
    else if source then
      let (w, node) := analyzer.NewFlowNode view operation w
      let w ← w.StorageStore collection (Bytes32 key) node
      return (w, stackResults, none)
    else
      let w ← w.StorageStore collection (Bytes32 key) none
      return (w, stackResults, none)

/-- The flow function `jumpFlow`. -/
def jumpFlow : FlowFn σ :=
  fun analyzer view _ collection operation stackArgs stackResults w => do
    let (w, (_, sink)) := analyzer.CheckOperation view operation w
    let dest ← FlowNodeList.Back stackArgs 0
    if dest.isSome ∧ sink then
      let (w, node) := analyzer.NewFlowNode view operation w
      let w ← w.AddUpstream node [dest]
      return (analyzer.SinkTainted view collection node w, stackResults, none)
    else
      return (w, stackResults, none)

/-- The flow function `jumpiFlow`. -/
def jumpiFlow : FlowFn σ :=
  fun analyzer view _ collection operation stackArgs stackResults w => do
    let (w, (_, sink)) := analyzer.CheckOperation view operation w
    let cond ← FlowNodeList.Back stackArgs 1
    let dest ← FlowNodeList.Back stackArgs 0
    if (cond.isSome ∨ dest.isSome) ∧ sink then
      let (w, node) := analyzer.NewFlowNode view operation w
      let w ← w.AddUpstream node [cond, dest]
      return (analyzer.SinkTainted view collection node w, stackResults, none)
    else
      return (w, stackResults, none)

/-- The start of the flow functions of the opcodes that make a message call: the child call of
the collection is a new call at the position of the next child of the running call, with the
node of the operation as its flow source when the operation is a source, and with the words of
the memory range of its input. -/
def openChildCall (analyzer : AnalyzerMethods σ) (view : CallView) (collection : Nat)
    (operation : Operation) (isPrecompiled source : Bool) (offset length : Nat)
    (w : World σ) : Option (World σ) := do
  let msgCall ← view[operation.msgCall]?
  let w ← w.newChildCall collection (msgCall.GenChildPosition view isPrecompiled)
  let w ←
    if source then
      let (w, node) := analyzer.NewFlowNode view operation w
      let (p, cd) ← w.childCallOf collection
      pure (w.setCall p (cd.setFlowSource node))
    else pure w
  let col ← w.collection collection
  let (p, cd) ← w.childCallOf collection
  let cd ← cd.StoreData col.Memory offset length
  return w.setCall p cd

/-- The end of the hooks of the opcodes that make a message call:
`collection.Memory.StoreCallReturnData(collection.ChildCall, returnDataOffset, 0, length)`. -/
def storeChildReturnData (collection : Nat) (returnDataOffset returnDataLength : Nat)
    (w : World σ) : Option (World σ) := do
  let col ← w.collection collection
  let (_, cd) ← w.childCallOf collection
  let (nodes, m) ← col.Memory.StoreCallReturnData cd returnDataOffset 0 returnDataLength w.nodes
  return { w with nodes := nodes }.setCollection collection { col with Memory := m }

/-- The hook of `createFlow`. -/
def createHook (analyzer : AnalyzerMethods σ) (collection : Nat) (operation : Operation)
    (stackArgs : FlowNodeList) : PolicyHook σ := fun view scope stackResults w => do
  let address ← scope.Back 0
  let (_, cd) ← w.childCallOf collection
  let returnData := cd.GetAllReturnData
  let w ←
    if FlowNodeList.IsTainted returnData then
      let (w, node) := analyzer.NewFlowNode view operation w
      let w ← w.AddUpstream node returnData
      w.SetCode collection (Bytes20 address) node
    else w.SetCode collection (Bytes20 address) none
  let value ← FlowNodeList.Back stackArgs 0
  let w ← w.SetBalance collection (Bytes20 address) value
  return (w, stackResults)

/-- The flow function `createFlow`. -/
def createFlow : FlowFn σ :=
  fun analyzer view scope collection operation stackArgs stackResults w => do
    let (w, (source, sink)) := analyzer.CheckOperation view operation w
    let offset ← scope.Back 1
    let length ← scope.Back 2
    let data ← w.MemoryLoad collection (Uint64 offset) (Uint64 length)
    let w ← openChildCall analyzer view collection operation false source (Uint64 offset)
      (Uint64 length) w
    let w ←
      if FlowNodeList.IsTainted data then
        let (w, flowableResult) := analyzer.NewFlowNode view operation w
        let w ← w.AddUpstream flowableResult data
        let args ← FlowNodeList.BackSlice2 stackArgs 0 3
        let w ← w.AddUpstream flowableResult args
        let value ← FlowNodeList.Back stackArgs 0
        if sink ∧ (value.isSome ∨ FlowNodeList.IsTainted data) then
          pure (analyzer.SinkTainted view collection flowableResult w)
        else pure w
      else
        let args ← FlowNodeList.BackSlice2 stackArgs 0 3
        if FlowNodeList.IsTainted args then
          let (w, flowableResult) := analyzer.NewFlowNode view operation w
          let w ← w.AddUpstream flowableResult data
          let w ← w.AddUpstream flowableResult args
          let value ← FlowNodeList.Back stackArgs 0
          if sink ∧ (value.isSome ∨ FlowNodeList.IsTainted data) then
            pure (analyzer.SinkTainted view collection flowableResult w)
          else pure w
        else pure w
    return (w, stackResults, some (createHook analyzer collection operation stackArgs))

/-- The hook of `callFlow`. -/
def callHook (analyzer : AnalyzerMethods σ) (collection : Nat) (operation : Operation)
    (source : Bool) (returnDataOffset returnDataLength : Nat) : PolicyHook σ :=
  fun view _ stackResults w => do
    let (w, stackResults) ←
      if source then
        let (w, node) := analyzer.NewFlowNode view operation w
        let (_, cd) ← w.childCallOf collection
        let w ← w.AddUpstream node [cd.GetSuccess]
        let stackResults ← setResult stackResults 0 node
        pure (w, stackResults)
      else
        let (_, cd) ← w.childCallOf collection
        let stackResults ← setResult stackResults 0 cd.GetSuccess
        pure (w, stackResults)
    let w ← storeChildReturnData collection returnDataOffset returnDataLength w
    return (w, stackResults)

/-- The flow function `callFlow`. -/
def callFlow : FlowFn σ :=
  fun analyzer view scope collection operation stackArgs stackResults w => do
    let (w, (source, sink)) := analyzer.CheckOperation view operation w
    let addr ← scope.Back 1
    let arg ← operation.Arg 2
    let w ←
      if signPositive arg then
        let value ← FlowNodeList.Back stackArgs 2
        let w ← w.SetBalance collection (Bytes20 addr) value
        w.SetBalance collection scope.Contract.Address value
      else pure w
    let argsOffset ← scope.Back 3
    let argsLength ← scope.Back 4
    let args ← w.MemoryLoad collection (Uint64 argsOffset) (Uint64 argsLength)
    let returnDataOffset ← scope.Back 5
    let returnDataLength ← scope.Back 6
    let w ← openChildCall analyzer view collection operation
      (IsPrecompiledContract (Bytes20 addr)) source (Uint64 argsOffset) (Uint64 argsLength) w
    let w ←
      if sink then
        let targets ← FlowNodeList.BackSlice2 stackArgs 1 3
        if FlowNodeList.IsTainted targets ∨ FlowNodeList.IsTainted args then
          let (w, node) := analyzer.NewFlowNode view operation w
          let w ← w.AddUpstream node targets
          let w ← w.AddUpstream node args
          pure (analyzer.SinkTainted view collection node w)
        else pure w
      else pure w
    return (w, stackResults,
      some (callHook analyzer collection operation source (Uint64 returnDataOffset)
        (Uint64 returnDataLength)))

/-- The hook of `callCodeFlow`, `delegateCallFlow` and `staticCallFlow`. -/
def successHook (collection : Nat) (returnDataOffset returnDataLength : Nat) : PolicyHook σ :=
  fun _ _ stackResults w => do
    let (_, cd) ← w.childCallOf collection
    let stackResults ← setResult stackResults 0 cd.GetSuccess
    let w ← storeChildReturnData collection returnDataOffset returnDataLength w
    return (w, stackResults)

/-- The flow function `callCodeFlow`. -/
def callCodeFlow : FlowFn σ :=
  fun analyzer view scope collection operation stackArgs stackResults w => do
    let (w, (source, sink)) := analyzer.CheckOperation view operation w
    let arg ← operation.Arg 2
    let w ←
      if signPositive arg then
        let value ← FlowNodeList.Back stackArgs 2
        w.SetBalance collection scope.Contract.Address value
      else pure w
    let addr ← scope.Back 1
    let argsOffset ← scope.Back 3
    let argsLength ← scope.Back 4
    let args ← w.MemoryLoad collection (Uint64 argsOffset) (Uint64 argsLength)
    let returnDataOffset ← scope.Back 5
    let returnDataLength ← scope.Back 6
    let w ← openChildCall analyzer view collection operation
      (IsPrecompiledContract (Bytes20 addr)) source (Uint64 argsOffset) (Uint64 argsLength) w
    let w ←
      if sink then
        let targets ← FlowNodeList.BackSlice2 stackArgs 1 3
        if FlowNodeList.IsTainted targets ∨ FlowNodeList.IsTainted args then
          let (w, node) := analyzer.NewFlowNode view operation w
          let w ← w.AddUpstream node targets
          let w ← w.AddUpstream node args
          pure (analyzer.SinkTainted view collection node w)
        else pure w
      else pure w
    return (w, stackResults,
      some (successHook collection (Uint64 returnDataOffset) (Uint64 returnDataLength)))

/-- The body of `returnFlow` and `revertFlow`. -/
def returnFlow : FlowFn σ :=
  fun analyzer view scope collection operation _ stackResults w => do
    let offset ← scope.Back 0
    let length ← scope.Back 1
    let col ← w.collection collection
    let (p, cd) ← w.callOf collection
    let cd ← cd.StoreReturnData col.Memory (Uint64 offset) (Uint64 length)
    let w := w.setCall p cd
    let (w, (source, sink)) := analyzer.CheckOperation view operation w
    if source then
      let (w, flowableResult) := analyzer.NewFlowNode view operation w
      let (p, cd) ← w.callOf collection
      return (w.setCall p { cd with success := flowableResult }, stackResults, none)
    else
      let (_, cd) ← w.callOf collection
      if sink ∧ cd.ReturnDataIsTainted w.nodes then
        let (w, node) := analyzer.NewFlowNode view operation w
        let (_, cd) ← w.callOf collection
        let w ← w.AddUpstream node cd.GetAllReturnData
        return (analyzer.SinkTainted view collection node w, stackResults, none)
      else
        return (w, stackResults, none)

/-- The body of `delegateCallFlow` and `staticCallFlow`. -/
def delegateCallFlow : FlowFn σ :=
  fun analyzer view scope collection operation stackArgs stackResults w => do
    let (w, (source, sink)) := analyzer.CheckOperation view operation w
    let addr ← scope.Back 1
    let argsOffset ← scope.Back 2
    let argsLength ← scope.Back 3
    let args ← w.MemoryLoad collection (Uint64 argsOffset) (Uint64 argsLength)
    let returnDataOffset ← scope.Back 4
    let returnDataLength ← scope.Back 5
    let w ← openChildCall analyzer view collection operation
      (IsPrecompiledContract (Bytes20 addr)) source (Uint64 argsOffset) (Uint64 argsLength) w
    let w ←
      if sink then
        let target ← FlowNodeList.Back stackArgs 1
        if target.isSome ∨ FlowNodeList.IsTainted args then
          let (w, node) := analyzer.NewFlowNode view operation w
          let w ← w.AddUpstream node [target]
          let w ← w.AddUpstream node args
          pure (analyzer.SinkTainted view collection node w)
        else pure w
      else pure w
    return (w, stackResults,
      some (successHook collection (Uint64 returnDataOffset) (Uint64 returnDataLength)))

/-- The flow function `staticCallFlow`, which has the body of `delegateCallFlow`. -/
def staticCallFlow : FlowFn σ := delegateCallFlow

/-- The flow function `revertFlow`, which has the body of `returnFlow`. -/
def revertFlow : FlowFn σ := returnFlow

/-- The flow function `invalidFlow`. -/
def invalidFlow : FlowFn σ := fun analyzer view _ collection operation _ stackResults w => do
  let (w, (source, sink)) := analyzer.CheckOperation view operation w
  if sink then
    let (w, node) := analyzer.NewFlowNode view operation w
    return (analyzer.SinkTainted view collection node w, stackResults, none)
  else if source then
    let (w, node) := analyzer.NewFlowNode view operation w
    let (p, cd) ← w.callOf collection
    return (w.setCall p { cd with success := node }, stackResults, none)
  else
    return (w, stackResults, none)

/-- The flow function `selfDestructFlow`. -/
def selfDestructFlow : FlowFn σ :=
  fun analyzer view scope collection operation stackArgs stackResults w => do
    let (w, (source, sink)) := analyzer.CheckOperation view operation w
    let w ←
      if source then
        let (w, code) := analyzer.NewFlowNode view operation w
        let w ← w.SetCode collection scope.Contract.Address code
        let (w, success) := analyzer.NewFlowNode view operation w
        let (p, cd) ← w.callOf collection
        pure (w.setCall p { cd with success := success })
      else if sink then
        let target ← FlowNodeList.Back stackArgs 0
        if target.isSome then
          let (w, node) := analyzer.NewFlowNode view operation w
          let w ← w.AddUpstream node [target]
          pure (analyzer.SinkTainted view collection node w)
        else pure w
      else pure w
    let addr ← scope.Back 0
    let bal ← w.GetBalance collection scope.Contract.Address
    let w ← w.SetBalance collection (Bytes20 addr) bal
    let (w, node) := analyzer.NewFlowNode view operation w
    let w ← w.SetBalance collection scope.Contract.Address node
    return (w, stackResults, none)

/-- The function `GenDefaultFlowPolicy`. -/
def GenDefaultFlowPolicy : FlowPolicy σ := fun op =>
  if op = 0x00 then some noopFlow
  else if op ≤ 0x0b then some pureOpFlow
  else if op < 0x10 then none
  else if op ≤ 0x1d then some pureOpFlow
  else if op < 0x20 then none
  else if op = 0x20 then some hashOpFlow
  else if op < 0x30 then none
  else if op = 0x30 then some txConstReadToStackOpFlow
  else if op = 0x31 then some balanceFlow
  else if op = 0x32 then some txConstReadToStackOpFlow
  else if op = 0x33 then some txConstReadToStackOpFlow
  else if op = 0x34 then some callValueFlow
  else if op = 0x35 then some callDataLoadFlow
  else if op = 0x36 then some txConstReadToStackOpFlow
  else if op = 0x37 then some callDataCopyFlow
  else if op = 0x38 then some codeSizeFlow
  else if op = 0x39 then some codeCopyFlow
  else if op = 0x3a then some txConstReadToStackOpFlow
  else if op = 0x3b then some extCodeSizeFlow
  else if op = 0x3c then some extCodeCopyFlow
  else if op = 0x3d then some txConstReadToStackOpFlow
  else if op = 0x3e then some returnDataCopyFlow
  else if op = 0x3f then some extCodeHashFlow
  else if op ≤ 0x46 then some txConstReadToStackOpFlow
  else if op = 0x47 then some selfBalanceFlow
  else if op = 0x48 then some txConstReadToStackOpFlow
  else if op < 0x50 then none
  else if op = 0x50 then some noopFlow
  else if op = 0x51 then some mloadFlow
  else if op = 0x52 then some mstoreFlow
  else if op = 0x53 then some mstore8Flow
  else if op = 0x54 then some sloadFlow
  else if op = 0x55 then some sstoreFlow
  else if op = 0x56 then some jumpFlow
  else if op = 0x57 then some jumpiFlow
  else if op ≤ 0x5a then some txConstReadToStackOpFlow
  else if op = 0x5b then some noopFlow
  else if op < 0x60 then none
  else if op ≤ 0x7f then some pushFlow
  else if op ≤ 0x8f then some dupFlow
  else if op ≤ 0x9f then some swapFlow
  else if op ≤ 0xa4 then some logFlow
  else if op < 0xf0 then none
  else if op = 0xf0 then some createFlow
  else if op = 0xf1 then some callFlow
  else if op = 0xf2 then some callCodeFlow
  else if op = 0xf3 then some returnFlow
  else if op = 0xf4 then some delegateCallFlow
  else if op = 0xf5 then some createFlow
  else if op = 0xfa then some staticCallFlow
  else if op = 0xfd then some revertFlow
  else if op = 0xfe then some invalidFlow
  else if op = 0xff then some selfDestructFlow
  else none

end flows

/-! ### The tracer (`tracer.go`) -/

/-- The interface `Analyzer`. -/
structure Analyzer (σ : Type) extends AnalyzerMethods σ where
  FlowPolicy : FlowPolicy σ

/-- The struct `Data`: the two maps are keyed by the analyzer; the collection of an analyzer is
a pointer to one of its own objects. -/
structure Data (σ : Type) where
  trackerCollections : Nat → Option Nat
  lastStateCallbacks : Nat → Option (AfterOperationHook σ)

/-- The struct `DataFlowTracer`. The analyzers are the keys of the map `analyzers`, each with
its methods and its policy; a loop over the map takes them in the order of the list. `worlds`
holds the objects of each analyzer, among them its entries of `globalStorages` and
`globalChains`. -/
structure DataFlowTracer (σ : Type) where
  BasicNestedCallTracer : BasicNestedCallTracer (Data σ)
  analyzers : List (Nat × Analyzer σ)
  worlds : Nat → World σ

/-- The objects of an analyzer before the first transaction. -/
def World.new {σ : Type} (analyzer : σ) : World σ :=
  { analyzer := analyzer, nodes := [], storages := [], chains := [], calls := [],
    collections := [], globalStorages := none, globalChains := none, notified := [] }

/-- The function `NewDataFlowTracer`; `states` gives the analyzers as they are at that time. -/
def NewDataFlowTracer {σ : Type} (analyzers : List (Nat × Analyzer σ)) (states : Nat → σ) :
    DataFlowTracer σ :=
  { BasicNestedCallTracer := BasicNestedCallTracer.new none
    analyzers := analyzers.foldl (fun m a => mapSet m a.1 a.2) []
    worlds := fun a => World.new (states a) }

/-- A loop `for analyzer := range t.analyzers` with a body that may panic. -/
def forAnalyzers {α S : Type} (body : Nat → α → S → Option S) : List (Nat × α) → S → Option S
  | [], s => some s
  | e :: rest, s =>
      match body e.1 e.2 s with
      | none => none
      | some s1 => forAnalyzers body rest s1

/-- The operands that `CaptureState` reads from the real stack: `args[pops-i-1]` is
`scope.Stack.Back(i)`, which panics beyond the depth of the stack. -/
def operands (scope : vm.ScopeContext) : Nat → Option (List Nat)
  | 0 => some []
  | n + 1 =>
      match scope.Back n, operands scope n with
      | some v, some rest => some (v :: rest)
      | _, _ => none

/-- The callback that `CaptureState` registers for an analyzer: the hook of the flow function,
if there is one, and then the push of the results on the mirror stack. -/
def registered {σ : Type} (callback : Option (PolicyHook σ)) (stackResults : FlowNodeList)
    (collection : Nat) : AfterOperationHook σ := fun view scope w =>
  match (match callback with
    | some cb => cb view scope stackResults w
    | none => some (w, stackResults)) with
  | none => none
  | some (w1, results) =>
      match w1.collection collection with
      | none => none
      | some col =>
          match col.Stack.push results with
          | none => none
          | some st => some (w1.setCollection collection { col with Stack := st })

namespace DataFlowTracer

variable {σ : Type}

/-- The call tree as the analyzers read it. -/
def view (base : Erebus.BasicNestedCallTracer (Data σ)) : CallView :=
  base.calls.map (MsgCall.mapInner (fun _ => ()))

/-- The body of the first loop of `CaptureState` for one analyzer, on the data of the current
call and the objects of the analyzers: the callback of the last operation runs and is
removed. -/
def runCallback (view : CallView) (scope : vm.ScopeContext) (a : Nat) (_x : Analyzer σ)
    (s : Option (Data σ) × (Nat → World σ)) : Option (Option (Data σ) × (Nat → World σ)) :=
  match s.1 with
  | none => none
  | some innerData =>
      match innerData.lastStateCallbacks a with
      | none => some s
      | some callback =>
          match callback view scope (s.2 a) with
          | none => none
          | some w =>
              some (some { innerData with
                            lastStateCallbacks := Function.update innerData.lastStateCallbacks a none },
                    Function.update s.2 a w)

/-- The body of the second loop of `CaptureState` for one analyzer: the arguments are popped
from the mirror stack, the flow function of the opcode runs, and the callback is registered. A
nil collection and an opcode without a flow function panic. -/
def applyPolicy (view : CallView) (scope : vm.ScopeContext) (op : OpCode)
    (operation : Operation) (pops pushes : Nat) (a : Nat) (x : Analyzer σ)
    (s : Option (Data σ) × (Nat → World σ)) : Option (Option (Data σ) × (Nat → World σ)) :=
  match s.1 with
  | none => none
  | some innerData =>
      match innerData.trackerCollections a with
      | none => none
      | some c =>
          match (s.2 a).collection c with
          | none => none
          | some col =>
              match col.Stack.pop pops with
              | none => none
              | some (st, stackArgs) =>
                  match x.FlowPolicy op with
                  | none => none
                  | some policy =>
                      match policy x.toAnalyzerMethods.recording view scope c operation stackArgs
                          (List.replicate pushes none)
                          ((s.2 a).setCollection c { col with Stack := st }) with
                      | none => none
                      | some (w, stackResults, callback) =>
                          some (some { innerData with
                                        lastStateCallbacks :=
                                          Function.update innerData.lastStateCallbacks a
                                            (some (registered callback stackResults c)) },
                                Function.update s.2 a w)

/-- The method `DataFlowTracer.CaptureState`. -/
def CaptureState (t : DataFlowTracer σ) (pc : Nat) (op : OpCode) (gas cost : Nat)
    (scope : vm.ScopeContext) (_err : Option GoError) : Option (DataFlowTracer σ) :=
  match t.BasicNestedCallTracer.deref t.BasicNestedCallTracer.CurrentMsgCall with
  | none => none
  | some currentMessageCall =>
      match forAnalyzers (runCallback (view t.BasicNestedCallTracer) scope) t.analyzers
          (currentMessageCall.InnerData, t.worlds) with
      | none => none
      | some s1 =>
          match t.BasicNestedCallTracer.CaptureState pc op gas cost with
          | none => none
          | some base =>
              match operands scope (GetStackEffects op).1 with
              | none => none
              | some args =>
                  match base.CurrentMsgCall with
                  | none => none
                  | some p =>
                      match base.calls[p]? with
                      | none => none
                      | some call =>
                          match call.CurrentLocation with
                          | none => none
                          | some loc =>
                              match forAnalyzers
                                  (applyPolicy (view base) scope op
                                    { TraceLocation := loc, msgCall := p, args := args }
                                    (GetStackEffects op).1 (GetStackEffects op).2)
                                  t.analyzers s1 with
                              | none => none
                              | some s2 =>
                                  some { t with
                                    BasicNestedCallTracer :=
                                      base.store p { call with InnerData := s2.1 }
                                    worlds := s2.2 }

/-- The call data that the parent prepared for the call just entered: the pointer `ChildCall`
of the collection of the parent when it is not nil and its position matches, nil otherwise. -/
def matchingChildCall (w : World σ) (parentCollection : TrackerCollection)
    (position : CallPosition) : Option (Option Nat) :=
  match parentCollection.ChildCall with
  | none => some none
  | some cp =>
      match w.calls[cp]? with
      | none => none
      | some callData => if callData.matchMsgCall position then some (some cp) else some none

/-- The body of the loop of `CaptureEnter` for one analyzer, on the map `collections` and the
objects of the analyzers. `parentData` is the data of the parent call, `position` and
`stateAddr` are those of the call just entered, and `next` is what `GenChildPosition` gives for
the parent at that time. -/
def enter (parentData : Option (Data σ)) (position : CallPosition) (stateAddr : Address)
    (next : CallPosition) (a : Nat) (_x : Analyzer σ)
    (s : (Nat → Option Nat) × (Nat → World σ)) : Option ((Nat → Option Nat) × (Nat → World σ)) :=
  match parentData with
  | none => none
  | some d =>
      match d.trackerCollections a with
      | none => none
      | some pc =>
          match (s.2 a).collection pc with
          | none => none
          | some parentCollection =>
              match matchingChildCall (s.2 a) parentCollection position with
              | none => none
              | some matching =>
                  match (s.2 a).globalStorages with
                  | none => none
                  | some globalStorages =>
                      some (Function.update s.1 a (some (s.2 a).collections.length),
                        Function.update s.2 a
                          { (s.2 a) with
                            calls :=
                              match matching with
                              | some _ => (s.2 a).calls
                              | none => (s.2 a).calls ++ [newCall next]
                            storages :=
                              match mapGet globalStorages stateAddr with
                              | some _ => (s.2 a).storages
                              | none => (s.2 a).storages ++ [newStorage]
                            globalStorages :=
                              match mapGet globalStorages stateAddr with
                              | some _ => some globalStorages
                              | none =>
                                  some (mapSet globalStorages stateAddr (s.2 a).storages.length)
                            collections := (s.2 a).collections ++
                              [{ Call :=
                                   match matching with
                                   | some cp => cp
                                   | none => (s.2 a).calls.length
                                 Stack := newStack
                                 Memory := newMemory
                                 Storage :=
                                   match mapGet globalStorages stateAddr with
                                   | some sp => sp
                                   | none => (s.2 a).storages.length
                                 Chain := (s.2 a).globalChains
                                 ChildCall := none }] })

/-- The loop of `CaptureEnter`. The parent of the call just entered is read inside the loop, so
a nil parent panics with an analyzer and not without one. -/
def enterAll (base : Erebus.BasicNestedCallTracer (Data σ)) (call : MsgCall (Data σ))
    (toAddr : Address) (analyzers : List (Nat × Analyzer σ)) (worlds : Nat → World σ) :
    Option ((Nat → Option Nat) × (Nat → World σ)) :=
  match analyzers with
  | [] => some (fun _ => none, worlds)
  | _ :: _ =>
      match base.deref call.parent with
      | none => none
      | some parent =>
          forAnalyzers
            (enter parent.InnerData call.Position call.StateAddr
              (parent.GenChildPosition base.calls (IsPrecompiledContract toAddr)))
            analyzers (fun _ => none, worlds)

/-- The method `DataFlowTracer.CaptureEnter`. -/
def CaptureEnter (t : DataFlowTracer σ) (typ : OpCode) (sender toAddr : Address)
    (input : List Nat) (value : Option Int) : Option (DataFlowTracer σ) :=
  match t.BasicNestedCallTracer.CaptureEnter typ sender toAddr input value with
  | none => none
  | some base =>
      match base.CurrentMsgCall with
      | none => none
      | some p =>
          match base.calls[p]? with
          | none => none
          | some call =>
              match enterAll base call toAddr t.analyzers t.worlds with
              | none => none
              | some s =>
                  some { t with
                    BasicNestedCallTracer :=
                      base.store p { call with
                        InnerData :=
                          some { trackerCollections := s.1, lastStateCallbacks := fun _ => none } }
                    worlds := s.2 }

/-- The method `DataFlowTracer.CaptureExit`. -/
def CaptureExit (t : DataFlowTracer σ) (output : List Nat) (gasUsed : Nat)
    (err : Option GoError) : Option (DataFlowTracer σ) :=
  (t.BasicNestedCallTracer.CaptureExit output gasUsed err).map
    (fun base => { t with BasicNestedCallTracer := base })

/-- The body of the loop of `TransactionStart` for one analyzer: new maps of storages and a new
chain for the transaction, and the collection of the root call. -/
def start (a : Nat) (_x : Analyzer σ) (s : (Nat → Option Nat) × (Nat → World σ)) :
    Option ((Nat → Option Nat) × (Nat → World σ)) :=
  some (Function.update s.1 a (some (s.2 a).collections.length),
    Function.update s.2 a
      { (s.2 a) with
        globalStorages := some []
        globalChains := some (s.2 a).chains.length
        chains := (s.2 a).chains ++ [newChain]
        storages := (s.2 a).storages ++ [newStorage]
        calls := (s.2 a).calls ++ [newCall { position := [], compactPosition := [] }]
        collections := (s.2 a).collections ++
          [{ Stack := newStack
             Memory := newMemory
             Storage := (s.2 a).storages.length
             Call := (s.2 a).calls.length
             Chain := some (s.2 a).chains.length
             ChildCall := none }] })

/-- The method `DataFlowTracer.TransactionStart`. -/
def TransactionStart (t : DataFlowTracer σ) (tx : Tx) (created : Address) :
    Option (DataFlowTracer σ) :=
  match forAnalyzers start t.analyzers (fun _ => none, t.worlds) with
  | none => none
  | some s =>
      match (t.BasicNestedCallTracer.TransactionStart tx created).CurrentMsgCall with
      | none => none
      | some p =>
          match (t.BasicNestedCallTracer.TransactionStart tx created).calls[p]? with
          | none => none
          | some call =>
              some { t with
                BasicNestedCallTracer :=
                  (t.BasicNestedCallTracer.TransactionStart tx created).store p
                    { call with
                      InnerData :=
                        some { trackerCollections := s.1, lastStateCallbacks := fun _ => none } }
                worlds := s.2 }

/-- The method `DataFlowTracer.TransactionEnd`. -/
def TransactionEnd (t : DataFlowTracer σ) (result : Option ExecutionResult)
    (receipt : Option Receipt) : Option (DataFlowTracer σ) :=
  match t.BasicNestedCallTracer.TransactionEnd result receipt with
  | none => none
  | some base =>
      match base.CurrentMsgCall with
      | none => none
      | some p =>
          match base.calls[p]? with
          | none => none
          | some call =>
              some { t with BasicNestedCallTracer := base.store p { call with InnerData := none } }

/-- The tracer after one callback; `none` when the callback panics. -/
def step (t : DataFlowTracer σ) : TracerEvent → Option (DataFlowTracer σ)
  | TracerEvent.TransactionStart tx created => t.TransactionStart tx created
  | TracerEvent.CaptureStart => some t
  | TracerEvent.CaptureState pc op gas cost scope err => t.CaptureState pc op gas cost scope err
  | TracerEvent.CaptureEnter typ sender toAddr input value =>
      t.CaptureEnter typ sender toAddr input value
  | TracerEvent.CaptureExit output gasUsed err => t.CaptureExit output gasUsed err
  | TracerEvent.CaptureFault => some t
  | TracerEvent.CaptureEnd => some t
  | TracerEvent.TransactionEnd _ result receipt _ => t.TransactionEnd result receipt

/-- The tracer after a sequence of callbacks. -/
def run (t : DataFlowTracer σ) : List TracerEvent → Option (DataFlowTracer σ)
  | [] => some t
  | e :: es =>
      match t.step e with
      | none => none
      | some t1 => run t1 es

end DataFlowTracer

end data_flow

namespace data_flow_test

open data_flow

/-- The struct `analyzer` of the tests of the package (`data_flow_test.go`). Its fields
`operation` and `oracle` are functions given with the analyzer; the oracle only makes
assertions. -/
structure analyzer where
  sinkTainted : Bool
  deriving DecidableEq

/-- The methods of the test analyzer with the classifier `operation`: a new node is a new
`RawFlowNode` with the label `test-analyzer`, and the policy is the default one. -/
def analyzer.methods (operation : Operation → Bool × Bool) : Analyzer analyzer :=
  { NewFlowNode := fun _ op w =>
      ({ w with nodes := w.nodes ++ [NewRawFlowNode op "test-analyzer"] }, some w.nodes.length)
    CheckOperation := fun _ op w => (w, operation op)
    SinkTainted := fun _ _ _ w => { w with analyzer := { sinkTainted := true } }
    FlowPolicy := GenDefaultFlowPolicy }

end data_flow_test

namespace dataset

open data_flow

/-- The struct `TaintAnalyzer` of the package `dataset` as far as `NewFlowNode` uses it while
the analysis does not diverge from the reference path: the map `flowNodes`. -/
structure TaintAnalyzer where
  flowNodes : List (OperationID × Nat)
  deriving DecidableEq

/-- The method `TaintAnalyzer.NewFlowNode` while the analysis does not diverge: the node made
before for the same operation, or a new node with the label `attackTaintNode`. -/
def TaintAnalyzer.NewFlowNode : CallView → Operation → World TaintAnalyzer →
    World TaintAnalyzer × FlowNode := fun _ operation w =>
  match mapGet w.analyzer.flowNodes operation.ID with
  | some n => (w, some n)
  | none =>
      ({ w with
          nodes := w.nodes ++ [NewRawFlowNode operation "attackTaintNode"]
          analyzer := { flowNodes := mapSet w.analyzer.flowNodes operation.ID w.nodes.length } },
        some w.nodes.length)

end dataset

namespace Example

open data_flow

/-- A tracer with the test analyzer, registered under the key 0. -/
def dataFlowTracer (operation : Operation → Bool × Bool) :
    DataFlowTracer data_flow_test.analyzer :=
  NewDataFlowTracer [(0, data_flow_test.analyzer.methods operation)]
    (fun _ => { sinkTainted := false })

/-- The scope of an opcode that the code of the contract 2000 runs on the state of the
contract 1000, as after a `DELEGATECALL`. -/
def delegateScope (stack : List Nat) : vm.ScopeContext :=
  { Memory := [], Stack := stack, Contract := { self := 1000, CodeAddr := some 2000 } }

/-- The callbacks of a transaction to the contract 1000, whose code stores 9 in its slot 5 and
makes a `DELEGATECALL` to the contract 2000, whose code loads the slot 5 and stops. The last
callback is the `STOP` of the nested call. -/
def storeThenDelegate : List TracerEvent :=
  [ TracerEvent.TransactionStart Example.callTx 0,
    TracerEvent.CaptureStart,
    TracerEvent.CaptureState 0 vm.PUSH1 100000 3 (Example.scope []) none,
    TracerEvent.CaptureState 2 vm.PUSH1 99997 3 (Example.scope [9]) none,
    TracerEvent.CaptureState 4 vm.SSTORE 99994 20000 (Example.scope [9, 5]) none,
    TracerEvent.CaptureState 5 vm.PUSH1 79994 3 (Example.scope []) none,
    TracerEvent.CaptureState 7 vm.PUSH1 79991 3 (Example.scope [0]) none,
    TracerEvent.CaptureState 9 vm.PUSH1 79988 3 (Example.scope [0, 0]) none,
    TracerEvent.CaptureState 11 vm.PUSH1 79985 3 (Example.scope [0, 0, 0]) none,
    TracerEvent.CaptureState 13 0x61 79982 3 (Example.scope [0, 0, 0, 0]) none,
    TracerEvent.CaptureState 16 0x5a 79979 2 (Example.scope [0, 0, 0, 0, 2000]) none,
    TracerEvent.CaptureState 17 vm.DELEGATECALL 79977 2600
      (Example.scope [0, 0, 0, 0, 2000, 79977]) none,
    TracerEvent.CaptureEnter vm.DELEGATECALL 1000 2000 [] none,
    TracerEvent.CaptureState 0 vm.PUSH1 70000 3 (delegateScope []) none,
    TracerEvent.CaptureState 2 vm.SLOAD 69997 2100 (delegateScope [5]) none,
    TracerEvent.CaptureState 3 vm.STOP 67897 0 (delegateScope [9]) none ]

/-- A classifier that makes `SSTORE` a source. -/
def sstoreIsSource (operation : Operation) : Bool × Bool :=
  (operation.OpCode == vm.SSTORE, false)

/-- The callbacks of a transaction to the contract 1000, whose code makes a `CALL` without
value to the account 3000, which has no code, and stops. -/
def callThenStop : List TracerEvent :=
  [ TracerEvent.TransactionStart Example.callTx 0,
    TracerEvent.CaptureStart,
    TracerEvent.CaptureState 0 vm.PUSH1 100000 3 (Example.scope []) none,
    TracerEvent.CaptureState 2 vm.PUSH1 99997 3 (Example.scope [0]) none,
    TracerEvent.CaptureState 4 vm.PUSH1 99994 3 (Example.scope [0, 0]) none,
    TracerEvent.CaptureState 6 vm.PUSH1 99991 3 (Example.scope [0, 0, 0]) none,
    TracerEvent.CaptureState 8 vm.PUSH1 99988 3 (Example.scope [0, 0, 0, 0]) none,
    TracerEvent.CaptureState 10 0x61 99985 3 (Example.scope [0, 0, 0, 0, 0]) none,
    TracerEvent.CaptureState 13 0x5a 99982 2 (Example.scope [0, 0, 0, 0, 0, 3000]) none,
    TracerEvent.CaptureState 14 vm.CALL 99980 2600
      (Example.scope [0, 0, 0, 0, 0, 3000, 99980]) none,
    TracerEvent.CaptureEnter vm.CALL 1000 3000 [] (some 0),
    TracerEvent.CaptureExit [] 0 none,
    TracerEvent.CaptureState 15 vm.STOP 97000 0 (Example.scope [1]) none ]

/-- A classifier that makes `CALL` a source. -/
def callIsSource (operation : Operation) : Bool × Bool :=
  (operation.OpCode == vm.CALL, false)

/-- The callbacks of a transaction to the contract 1000, whose code writes 7 to the memory
word at offset 0 and then 8 to the 32 bytes at offset 1, and stops. -/
def overlappingStores : List TracerEvent :=
  [ TracerEvent.TransactionStart Example.callTx 0,
    TracerEvent.CaptureStart,
    TracerEvent.CaptureState 0 vm.PUSH1 100000 3 (Example.scope []) none,
    TracerEvent.CaptureState 2 vm.PUSH1 99997 3 (Example.scope [7]) none,
    TracerEvent.CaptureState 4 vm.MSTORE 99994 6 (Example.scope [7, 0]) none,
    TracerEvent.CaptureState 5 vm.PUSH1 99988 3 (Example.scope []) none,
    TracerEvent.CaptureState 7 vm.PUSH1 99985 3 (Example.scope [8]) none,
    TracerEvent.CaptureState 9 vm.MSTORE 99982 6 (Example.scope [8, 1]) none,
    TracerEvent.CaptureState 10 vm.STOP 99976 0 (Example.scope []) none ]

/-- A classifier that makes `PUSH1` a source. -/
def pushIsSource (operation : Operation) : Bool × Bool :=
  (operation.OpCode == vm.PUSH1, false)

/-- A tracer with an analyzer, registered under the key 0, whose `NewFlowNode` is that of the
`TaintAnalyzer`, and which takes a `CALL` for a source and a sink; the policy is the default
one. -/
def cachingTracer : DataFlowTracer dataset.TaintAnalyzer :=
  NewDataFlowTracer
    [(0, { NewFlowNode := dataset.TaintAnalyzer.NewFlowNode
           CheckOperation := fun _ op w => (w, (op.OpCode == vm.CALL, op.OpCode == vm.CALL))
           SinkTainted := fun _ _ _ w => w
           FlowPolicy := GenDefaultFlowPolicy })]
    (fun _ => { flowNodes := [] })

end Example

namespace data_flow

variable {σ : Type}

/-- The collection of an analyzer in the data of a message call. -/
def DataFlowTracer.collectionOf (t : DataFlowTracer σ) (a p : Nat) : Option TrackerCollection :=
  match t.BasicNestedCallTracer.calls[p]? with
  | none => none
  | some call =>
      match call.InnerData with
      | none => none
      | some d =>
          match d.trackerCollections a with
          | none => none
          | some c => (t.worlds a).collection c

/-- What `collection.Storage.Load(key)` returns in a message call for an analyzer. -/
def DataFlowTracer.loads (t : DataFlowTracer σ) (a p : Nat) (key : Hash) : Option FlowNode :=
  match t.collectionOf a p with
  | none => none
  | some col => ((t.worlds a).storages[col.Storage]?).map (fun s => s.Load key)

/-- The index of the operation of the node behind a pointer. -/
def World.indexOf (w : World σ) (p : Nat) : Option Nat :=
  (w.nodes[p]?).map (fun n => n.operation.Index)

/-- The identifier of the node behind a pointer. -/
def World.idOf (w : World σ) (p : Nat) : Option NodeID := (w.nodes[p]?).map (fun n => n.ID)

/-- The upstream nodes of the node behind a pointer, `From()`. -/
def World.fromOf (w : World σ) (p : Nat) : Option (List Nat) := (w.nodes[p]?).map (fun n => n.From)

end data_flow


/-- A tracer with other call data in each of its message calls, and without a factory. -/
def BasicNestedCallTracer.mapData {D E : Type} (f : D → E) (t : BasicNestedCallTracer D) :
    BasicNestedCallTracer E :=
  { calls := t.calls.map (MsgCall.mapInner f)
    msgCallStack := t.msgCallStack
    totalOperations := t.totalOperations
    MsgCallDataFactory := none }

namespace data_flow

variable {σ : Type}

/-- The entries of an analyzer in the data of a message call: its collection and its
registered callback. -/
def Data.of (a : Nat) (d : Data σ) : Option Nat × Option (AfterOperationHook σ) :=
  (d.trackerCollections a, d.lastStateCallbacks a)

/-- What belongs to one analyzer in a tracer: the call tree with the entries of the analyzer in
the data of each call, and the objects of the analyzer, that is its mirror stacks, memories,
storages, chains and call data, its nodes, its own state and the notifications it received. -/
def DataFlowTracer.slice (a : Nat) (t : DataFlowTracer σ) :
    Erebus.BasicNestedCallTracer (Option Nat × Option (AfterOperationHook σ)) × World σ :=
  (t.BasicNestedCallTracer.mapData (Data.of a), t.worlds a)

end data_flow


namespace Example

open data_flow

/-- The first operation of a root call, a `PUSH1`. -/
def pushOperation : Operation :=
  { TraceLocation :=
      { pos := { position := [], compactPosition := [] }, codeAddr := 1000, pc := 0,
        opcode := vm.PUSH1, gasAvailable := 100000, gasUsed := 3, index := 0 }
    msgCall := 0
    args := [] }

/-- The second operation of the root call, an `ADD` of the words 7 and 8. -/
def addOperation : Operation :=
  { TraceLocation :=
      { pos := { position := [], compactPosition := [] }, codeAddr := 1000, pc := 2,
        opcode := vm.ADD, gasAvailable := 99997, gasUsed := 3, index := 1 }
    msgCall := 0
    args := [7, 8] }

/-- The objects of the test analyzer with one node, made for the `PUSH1`. -/
def oneNode : World data_flow_test.analyzer :=
  { World.new { sinkTainted := false } with
    nodes := [NewRawFlowNode pushOperation "test-analyzer"] }

/-- The objects of the test analyzer after the `ADD` of the node and an untainted word. -/
def twoNodes : World data_flow_test.analyzer :=
  { World.new { sinkTainted := false } with
    nodes := [NewRawFlowNode pushOperation "test-analyzer",
      { label := "test-analyzer", operation := addOperation,
        upstream := [((NewRawFlowNode pushOperation "test-analyzer").ID, 0)] }] }

end Example

/-! ## Transfers (`analysis/summary/transfer.go`) -/

namespace fungibleTransfer

/-- The method `fungibleTransfer.Location`. -/
def Location (f : fungibleTransfer) : Option location := f.ContractLocation

/-- The method `fungibleTransfer.copy`: the copy is built without `ContractLocation`. -/
def copy (f : fungibleTransfer) : fungibleTransfer :=
  { FromAccount := f.FromAccount, ToAccount := f.ToAccount, Amount := f.Amount,
    ContractLocation := none }

/-- The method `fungibleTransfer.merge`. The transfers it builds have no `ContractLocation`.
The last branch but one calls `other.merge(f)`; that call cannot take the same branch again,
which is why the recursion ends. -/
def merge (f other : fungibleTransfer) : Except SummaryError (List fungibleTransfer) :=
  if f.FromAccount = other.ToAccount ∧ f.ToAccount = other.FromAccount then
    if bigCmp f.Amount other.Amount = 0 then Except.ok []
    else if bigCmp f.Amount other.Amount = 1 then
      Except.ok
        [{ FromAccount := f.FromAccount, ToAccount := other.FromAccount,
           Amount := f.Amount - other.Amount, ContractLocation := none }]
    else if bigCmp f.Amount other.Amount = -1 then
      Except.ok
        [{ FromAccount := other.FromAccount, ToAccount := f.FromAccount,
           Amount := other.Amount - f.Amount, ContractLocation := none }]
    else Except.ok []
  else if f.FromAccount = other.FromAccount ∧ f.ToAccount = other.ToAccount then
    Except.ok
      [{ FromAccount := f.FromAccount, ToAccount := f.ToAccount,
         Amount := f.Amount + other.Amount, ContractLocation := none }]
  else if _h3 : f.FromAccount = other.ToAccount then
    if bigCmp f.Amount other.Amount = 0 then
      Except.ok
        [{ FromAccount := other.FromAccount, ToAccount := f.ToAccount, Amount := f.Amount,
           ContractLocation := none }]
    else if bigCmp f.Amount other.Amount = 1 then
      Except.ok
        [{ FromAccount := other.FromAccount, ToAccount := f.ToAccount, Amount := other.Amount,
           ContractLocation := none },
         { FromAccount := f.FromAccount, ToAccount := f.ToAccount,
           Amount := f.Amount - other.Amount, ContractLocation := none }]
    else if bigCmp f.Amount other.Amount = -1 then
      Except.ok
        [{ FromAccount := other.FromAccount, ToAccount := f.ToAccount, Amount := f.Amount,
           ContractLocation := none },
         { FromAccount := other.FromAccount, ToAccount := f.FromAccount,
           Amount := other.Amount - f.Amount, ContractLocation := none }]
    else Except.ok []
  else if _h4 : f.ToAccount = other.FromAccount then
    match merge other f with
    | Except.error err => Except.error err
    | Except.ok merged => Except.ok merged
  else Except.error SummaryError.ErrMergeNotPossible
termination_by (if f.FromAccount = other.ToAccount then 0 else 1 : Nat)
decreasing_by
  simp only [_h3, _h4, if_true, if_false]
  omega

end fungibleTransfer

namespace ITransfer

/-- The method `Type` of each transfer (`Type` is reserved in Lean). -/
def TypeOf : ITransfer → AssetType
  | EtherTransfer _ => AssetType.EtherAsset
  | ERC20Transfer _ _ => AssetType.ERC20Asset
  | ERC777Transfer _ _ => AssetType.ERC777Asset
  | ERC721Transfer _ _ _ _ _ => AssetType.ERC721Asset
  | ERC1155Transfer _ _ _ => AssetType.ERC1155Asset

/-- The method `From` of each transfer. -/
def From : ITransfer → Address
  | EtherTransfer f => f.FromAccount
  | ERC20Transfer f _ => f.FromAccount
  | ERC777Transfer f _ => f.FromAccount
  | ERC721Transfer a _ _ _ _ => a
  | ERC1155Transfer f _ _ => f.FromAccount

/-- The method `To` of each transfer. -/
def To : ITransfer → Address
  | EtherTransfer f => f.ToAccount
  | ERC20Transfer f _ => f.ToAccount
  | ERC777Transfer f _ => f.ToAccount
  | ERC721Transfer _ b _ _ _ => b
  | ERC1155Transfer f _ _ => f.ToAccount

/-- The method `Burn` of each transfer: an `EtherTransfer` never burns, the others burn when
`ToAccount` is the zero address. -/
def Burn : ITransfer → Bool
  | EtherTransfer _ => false
  | ERC20Transfer f _ => decide (f.ToAccount = 0)
  | ERC777Transfer f _ => decide (f.ToAccount = 0)
  | ERC721Transfer _ b _ _ _ => decide (b = 0)
  | ERC1155Transfer f _ _ => decide (f.ToAccount = 0)

/-- The method `Mint` of each transfer: an `EtherTransfer` never mints, the others mint when
`FromAccount` is the zero address. -/
def Mint : ITransfer → Bool
  | EtherTransfer _ => false
  | ERC20Transfer f _ => decide (f.FromAccount = 0)
  | ERC777Transfer f _ => decide (f.FromAccount = 0)
  | ERC721Transfer a _ _ _ _ => decide (a = 0)
  | ERC1155Transfer f _ _ => decide (f.FromAccount = 0)

/-- The method `Zero` of each transfer; that of `ERC721Transfer` is `return false`. -/
def Zero : ITransfer → Bool
  | EtherTransfer f => decide (bigCmp f.Amount 0 = 0) || decide (f.FromAccount = f.ToAccount)
  | ERC20Transfer f _ => decide (bigCmp f.Amount 0 = 0) || decide (f.FromAccount = f.ToAccount)
  | ERC777Transfer f _ => decide (bigCmp f.Amount 0 = 0) || decide (f.FromAccount = f.ToAccount)
  | ERC721Transfer _ _ _ _ _ => false
  | ERC1155Transfer f _ _ =>
      decide (bigCmp f.Amount 0 = 0) || decide (f.ToAccount = f.FromAccount)

/-- The method `Location` of each transfer. -/
def Location : ITransfer → Option location
  | EtherTransfer f => f.Location
  | ERC20Transfer f _ => f.Location
  | ERC777Transfer f _ => f.Location
  | ERC721Transfer _ _ _ _ l => l
  | ERC1155Transfer f _ _ => f.Location

/-- The method `Copy` of each transfer: the fungible kinds copy through
`fungibleTransfer.copy`, `ERC721Transfer` copies every field. -/
def Copy : ITransfer → ITransfer
  | EtherTransfer f => EtherTransfer f.copy
  | ERC20Transfer f c => ERC20Transfer f.copy c
  | ERC777Transfer f c => ERC777Transfer f.copy c
  | ERC721Transfer a b c k l => ERC721Transfer a b c k l
  | ERC1155Transfer f c k => ERC1155Transfer f.copy c k

/-- The method `Profits` of each transfer; a nil slice and an empty slice are both `[]`. -/
def Profits (t : ITransfer) : List Profit :=
  if t.Zero then []
  else
    match t with
    | EtherTransfer f =>
        [Profit.EtherProfit f.FromAccount (-f.Amount), Profit.EtherProfit f.ToAccount f.Amount]
    | ERC20Transfer f c =>
        (if !(ERC20Transfer f c).Mint then [Profit.ERC20Profit f.FromAccount c (-f.Amount)]
          else []) ++
        (if !(ERC20Transfer f c).Burn then [Profit.ERC20Profit f.ToAccount c f.Amount] else [])
    | ERC777Transfer f c =>
        (if !(ERC777Transfer f c).Mint then [Profit.ERC777Profit f.FromAccount c (-f.Amount)]
          else []) ++
        (if !(ERC777Transfer f c).Burn then [Profit.ERC777Profit f.ToAccount c f.Amount] else [])
    | ERC721Transfer a b c k l =>
        (if !(ERC721Transfer a b c k l).Mint then [Profit.ERC721CombinedProfit a c ∅ {k}]
          else []) ++
        (if !(ERC721Transfer a b c k l).Burn then [Profit.ERC721CombinedProfit b c {k} ∅]
          else [])
    | ERC1155Transfer f c k =>
        (if !(ERC1155Transfer f c k).Mint then
          [Profit.ERC1155Profit f.FromAccount c k (-f.Amount)] else []) ++
        (if !(ERC1155Transfer f c k).Burn then [Profit.ERC1155Profit f.ToAccount c k f.Amount]
          else [])

/-- The method `Merge` of each transfer. The type assertion on `other` follows the test of the
types, so it cannot fail. -/
def Merge : ITransfer → ITransfer → Except SummaryError (List ITransfer)
  | EtherTransfer f, other =>
      match other with
      | EtherTransfer o =>
          match f.merge o with
          | Except.error err => Except.error err
          | Except.ok merged => Except.ok (merged.map (fun transfer => EtherTransfer transfer))
      | _ => Except.error SummaryError.ErrMergeNotPossible
  | ERC20Transfer f c, other =>
      match other with
      | ERC20Transfer o oc =>
          if oc ≠ c then Except.error SummaryError.ErrMergeNotPossible
          else
            match f.merge o with
            | Except.error err => Except.error err
            | Except.ok merged =>
                Except.ok (merged.map (fun transfer => ERC20Transfer transfer c))
      | _ => Except.error SummaryError.ErrMergeNotPossible
  | ERC777Transfer f c, other =>
      match other with
      | ERC777Transfer o oc =>
          if oc ≠ c then Except.error SummaryError.ErrMergeNotPossible
          else
            match f.merge o with
            | Except.error err => Except.error err
            | Except.ok merged =>
                Except.ok (merged.map (fun transfer => ERC777Transfer transfer c))
      | _ => Except.error SummaryError.ErrMergeNotPossible
  | ERC721Transfer a b c k _, other =>
      match other with
      | ERC721Transfer oa ob oc ok _ =>
          if oc ≠ c ∨ ok ≠ k then Except.error SummaryError.ErrMergeNotPossible
          else if a = ob ∧ b = oa then Except.ok []
          else if a = ob then Except.ok [ERC721Transfer oa b c k none]
          else if b = oa then Except.ok [ERC721Transfer a ob c k none]
          else Except.error SummaryError.ErrMergeNotPossible
      | _ => Except.error SummaryError.ErrMergeNotPossible
  | ERC1155Transfer f c k, other =>
      match other with
      | ERC1155Transfer o oc ok =>
          if oc ≠ c ∨ ok ≠ k then Except.error SummaryError.ErrMergeNotPossible
          else
            match f.merge o with
            | Except.error err => Except.error err
            | Except.ok merged =>
                Except.ok (merged.map (fun transfer => ERC1155Transfer transfer c k))
      | _ => Except.error SummaryError.ErrMergeNotPossible

/-- The embedded `fungibleTransfer` of the four fungible kinds. -/
def fungible : ITransfer → Option fungibleTransfer
  | EtherTransfer f => some f
  | ERC20Transfer f _ => some f
  | ERC777Transfer f _ => some f
  | ERC721Transfer _ _ _ _ _ => none
  | ERC1155Transfer f _ _ => some f

/-- The field `Contract` of the token transfers. -/
def contract : ITransfer → Option Address
  | EtherTransfer _ => none
  | ERC20Transfer _ c => some c
  | ERC777Transfer _ c => some c
  | ERC721Transfer _ _ c _ _ => some c
  | ERC1155Transfer _ c _ => some c

/-- The field `TokenID` of the transfers that have one. -/
def tokenID : ITransfer → Option Hash
  | ERC721Transfer _ _ _ k _ => some k
  | ERC1155Transfer _ _ k => some k
  | _ => none

/-- Two transfers of the same asset: same type, same contract and same token id. -/
def SameAsset (t z : ITransfer) : Prop :=
  t.TypeOf = z.TypeOf ∧ t.contract = z.contract ∧ t.tokenID = z.tokenID

/-- The underlying amount of a transfer is zero; an `ERC721Transfer`, which moves one token,
has none. -/
def AmountIsZero (t : ITransfer) : Prop :=
  match t.fungible with
  | some f => f.Amount = 0
  | none => False

/-- The profit that stands for what `From` gives: `-Amount` of the asset, or the token of an
`ERC721Transfer` in `giveTokens`. -/
def given : ITransfer → Profit
  | EtherTransfer f => Profit.EtherProfit f.FromAccount (-f.Amount)
  | ERC20Transfer f c => Profit.ERC20Profit f.FromAccount c (-f.Amount)
  | ERC777Transfer f c => Profit.ERC777Profit f.FromAccount c (-f.Amount)
  | ERC721Transfer a _ c k _ => Profit.ERC721CombinedProfit a c ∅ {k}
  | ERC1155Transfer f c k => Profit.ERC1155Profit f.FromAccount c k (-f.Amount)

/-- The profit that stands for what `To` receives: `+Amount` of the asset, or the token of an
`ERC721Transfer` in `receiveTokens`. -/
def received : ITransfer → Profit
  | EtherTransfer f => Profit.EtherProfit f.ToAccount f.Amount
  | ERC20Transfer f c => Profit.ERC20Profit f.ToAccount c f.Amount
  | ERC777Transfer f c => Profit.ERC777Profit f.ToAccount c f.Amount
  | ERC721Transfer _ b c k _ => Profit.ERC721CombinedProfit b c {k} ∅
  | ERC1155Transfer f c k => Profit.ERC1155Profit f.ToAccount c k f.Amount

end ITransfer

/-! ## Pseudo transactions (`dyengine/transaction.go`) -/

/-- The library type `types.LegacyTx`, the inner data of a legacy transaction; absent big
integers read as zero. -/
structure LegacyTx where
  Nonce : Nat
  GasPrice : Int
  Gas : Nat
  To : Option Address
  Value : Int
  Data : List Nat
  V : Int
  R : Int
  S : Int
  deriving DecidableEq

/-- The function `NewPseudoTx`. The wrapped transaction is `types.NewTx(&types.LegacyTx{Data:
data})`; `rlpHash` is the library function that `Transaction.Hash()` applies to the inner data of
a legacy transaction. `exec` may be nil. The transaction carries no signature: `AsMessage`, which
`ApplyTx` calls for signed transactions only, is the library's answer for the zero signature
(an error, code 0). -/
def NewPseudoTx (rlpHash : LegacyTx → Hash) (data : List Nat)
    (exec : Option (Prog (List Nat × Option GoError))) : Tx :=
  let inner : LegacyTx :=
    { Nonce := 0, GasPrice := 0, Gas := 0, To := none, Value := 0, Data := data, V := 0, R := 0,
      S := 0 }
  { Hash := rlpHash inner
    TxType := 0
    To := inner.To
    Nonce := inner.Nonce
    Value := inner.Value
    Gas := inner.Gas
    GasPrice := inner.GasPrice
    GasFeeCap := inner.GasPrice
    GasTipCap := inner.GasPrice
    Data := inner.Data
    AccessList := []
    isPseudo := true
    PseudoExec := exec
    signed := false
    sender := 0
    AsMessage :=
      ({ From := 0, To := inner.To, Nonce := inner.Nonce, Value := inner.Value, Gas := inner.Gas,
         GasPrice := inner.GasPrice, GasFeeCap := inner.GasPrice, GasTipCap := inner.GasPrice,
         Data := inner.Data, AccessList := [], IsFake := false }, some (GoError.external 0)) }

/-- The method `Tx.IsPseudo`. -/
def Tx.IsPseudo (tx : Tx) : Bool := tx.isPseudo

/-- A pseudo transaction whose closure credits account 2 with 5 wei and returns the bytes
`[1]` with error 7. -/
def Example.pseudoTx : Tx :=
  NewPseudoTx (fun inner => inner.Data.length) [9]
    (some (Prog.op (StateOp.AddBalance 2 5) (fun _ => Prog.ret ([1], some (GoError.external 7)))))

/-! ## Hashes of attacks (`dataset/attack.go`, `dataset/attack_analysis.go`) -/

/-- The method `common.Hash.Bytes`: the 32 bytes of the hash, most significant first. -/
def Hash.Bytes (h : Hash) : List Nat :=
  (List.range 32).map (fun i => h / 256 ^ (31 - i) % 256)

/-- The library function `crypto.Keccak256Hash`, which hashes its arguments one after the
other; `keccak256` is the hash of a byte string. -/
def Keccak256Hash (keccak256 : List Nat → Hash) (data : List (List Nat)) : Hash :=
  keccak256 (data.foldl (fun acc d => acc ++ d) [])

namespace dataset

/-- The struct `TxRecord`, with the fields that positions, the happen-before graph and the
hashes read; `Receipt` is `TxSummary.MsgCall().Receipt`, absent when there is no summary. -/
structure TxRecord where
  Tx : Tx
  Err : Option GoError
  Receipt : Option Receipt

/-- The function `ComputeAttackHash`. -/
def ComputeAttackHash (keccak256 : List Nat → Hash) (attackTx victimTx : Hash)
    (profitTx : Option Hash) : Hash :=
  match profitTx with
  | some p => Keccak256Hash keccak256 [Hash.Bytes attackTx, Hash.Bytes victimTx, Hash.Bytes p]
  | none => Keccak256Hash keccak256 [Hash.Bytes attackTx, Hash.Bytes victimTx]

/-- The fields of the struct `Attack` that `Hash` reads and writes: the three transaction
records, of which the last may be nil, and the cache `hash`. -/
structure Attack where
  AttackTxRecord : TxRecord
  VictimTxRecord : TxRecord
  ProfitTxRecord : Option TxRecord
  hash : Option Hash

/-- The method `Attack.Hash`: the returned hash and the attack with its cache. -/
def Attack.Hash (keccak256 : List Nat → Hash) (a : Attack) : Hash × Attack :=
  match a.hash with
  | none =>
      match a.ProfitTxRecord with
      | some pr =>
          let hash := ComputeAttackHash keccak256 a.AttackTxRecord.Tx.Hash a.VictimTxRecord.Tx.Hash
            (some pr.Tx.Hash)
          (hash, { a with hash := some hash })
      | none =>
          let hash := ComputeAttackHash keccak256 a.AttackTxRecord.Tx.Hash a.VictimTxRecord.Tx.Hash
            none
          (hash, { a with hash := some hash })
  | some hash => (hash, a)

/-- The fields of the struct `AttackAnalysis` that `Hash` reads and writes. `Attack` is a
pointer in the source; the analysis is given here with the attack it points to. -/
structure AttackAnalysis where
  SharedVariable : StateVariable
  Attack : Attack
  hash : Option Hash

/-- The method `AttackAnalysis.Hash`: the returned hash and the analysis with its cache and the
cache of its attack. `idBytes` gives the bytes of the string that `SharedVariable.ID()`
returns. -/
def AttackAnalysis.Hash (keccak256 : List Nat → Hash) (idBytes : VarID → List Nat)
    (a : AttackAnalysis) : Hash × AttackAnalysis :=
  match a.hash with
  | none =>
      let attackHash := a.Attack.Hash keccak256
      let h := Keccak256Hash keccak256 [Hash.Bytes attackHash.1, idBytes a.SharedVariable.ID]
      (h, { a with Attack := attackHash.2, hash := some h })
  | some hash => (hash, a)

/-- The hash of an attack as the specification gives it: keccak256 of the bytes of the attack
transaction hash, then those of the victim transaction hash, then those of the profit
transaction hash when there is a profit transaction. -/
def Attack.canonicalHash (keccak256 : List Nat → Erebus.Hash) (a : Attack) : Erebus.Hash :=
  keccak256 (Hash.Bytes a.AttackTxRecord.Tx.Hash ++ Hash.Bytes a.VictimTxRecord.Tx.Hash ++
    (match a.ProfitTxRecord with
      | some pr => Hash.Bytes pr.Tx.Hash
      | none => []))

/-- The hash of an analysis as the specification gives it: keccak256 of the bytes of the attack
hash followed by the bytes of the id of the shared variable. -/
def AttackAnalysis.canonicalHash (keccak256 : List Nat → Erebus.Hash) (idBytes : VarID → List Nat)
    (a : AttackAnalysis) : Erebus.Hash :=
  keccak256 (Hash.Bytes (a.Attack.canonicalHash keccak256) ++ idBytes a.SharedVariable.ID)

/-- The cache of an attack is empty or holds a hash that `Hash` computed from the records the
attack has now. An attack is built with an empty cache, only `Hash` writes the cache, and the
records of an attack are not assigned after it is built. -/
def Attack.CacheValid (keccak256 : List Nat → Erebus.Hash) (a : Attack) : Prop :=
  ∀ h, a.hash = some h → h = a.canonicalHash keccak256

/-- The caches of an analysis and of its attack are empty or hold the hashes of the values the
analysis has now. -/
def AttackAnalysis.CacheValid (keccak256 : List Nat → Erebus.Hash) (idBytes : VarID → List Nat)
    (a : AttackAnalysis) : Prop :=
  a.Attack.CacheValid keccak256 ∧ ∀ h, a.hash = some h → h = a.canonicalHash keccak256 idBytes

/-- A record of a transaction with the given hash. -/
def Example.record (hash : Hash) : TxRecord :=
  { Tx := { Example.tx with Hash := hash }, Err := none, Receipt := none }

/-- An analysis, with empty caches, of the attack of transaction 1 on transaction 2 with profit
transaction 3 through the balance of account 4. -/
def Example.analysis : AttackAnalysis :=
  { SharedVariable := StateVariable.BalanceVariable 4 0 none
    Attack :=
      { AttackTxRecord := Example.record 1, VictimTxRecord := Example.record 2,
        ProfitTxRecord := some (Example.record 3), hash := none }
    hash := none }

end dataset

/-! ## Raw and compact positions -/

/-- The number of message calls flagged `Precompiled` among the call at index `i` and its
ancestors, the root (the call without parent) left out; `fuel` bounds the walk along the parent
pointers. -/
def MsgCall.precompiledOnPath {D : Type} (calls : List (MsgCall D)) : Nat → Nat → Nat
  | 0, _ => 0
  | fuel + 1, i =>
      match calls[i]? with
      | none => 0
      | some c =>
          match c.parent with
          | none => 0
          | some p => (if c.Precompiled then 1 else 0) + MsgCall.precompiledOnPath calls fuel p

/-- The number of precompile calls among the ancestors of the call at index `i`: the calls on
the path from its parent up to the root, the root left out. -/
def MsgCall.precompiledAncestors {D : Type} (calls : List (MsgCall D)) (i : Nat) : Nat :=
  match calls[i]? with
  | none => 0
  | some c =>
      match c.parent with
      | none => 0
      | some p => MsgCall.precompiledOnPath calls calls.length p

/-- What the positions of the calls depend on: position, parent pointer and the flag
`Precompiled`. -/
def MsgCall.shape {D : Type} (c : MsgCall D) : CallPosition × Option Nat × Bool :=
  (c.Position, c.parent, c.Precompiled)

/-- The entry `x` at index `i` of a list of call shapes is placed as `CaptureEnter` and
`TransactionStart` place a call: without parent it has empty positions; with a parent it comes
after its parent, its position is one longer than that of its parent and its compact position
is one longer unless the call is precompiled. -/
def MsgCall.PositionedAt (l : List (CallPosition × Option Nat × Bool)) (i : Nat)
    (x : CallPosition × Option Nat × Bool) : Prop :=
  match x.2.1 with
  | none => x.1.position = [] ∧ x.1.compactPosition = []
  | some p =>
      p < i ∧ ∃ y, l[p]? = some y ∧
        x.1.position.length = y.1.position.length + 1 ∧
        x.1.compactPosition.length = y.1.compactPosition.length + (if x.2.2 then 0 else 1)

/-- Every entry of the list of call shapes is placed as in a call tree. -/
def MsgCall.WellPositioned (l : List (CallPosition × Option Nat × Bool)) : Prop :=
  ∀ (i : Nat) (x : CallPosition × Option Nat × Bool), l[i]? = some x → MsgCall.PositionedAt l i x

/-- A transaction to the contract 1000 that makes a `STATICCALL` to the precompiled contract at
address 1. -/
def Example.callsPrecompile : List TracerEvent :=
  [ TracerEvent.TransactionStart Example.callTx 0,
    TracerEvent.CaptureStart,
    TracerEvent.CaptureEnter vm.STATICCALL 1000 1 [] none ]

/-! ## The transaction history (`dataset/tx_history.go`) -/

namespace dataset

/-- The struct `TxPosition`; `BlockNumber` is a `uint64` and `TxIndex` a `uint`. -/
structure TxPosition where
  BlockNumber : Nat
  TxIndex : Nat
  deriving DecidableEq, Repr

/-- The variable `ZeroTxPosition`. -/
def ZeroTxPosition : TxPosition := { BlockNumber := 0, TxIndex := 0 }

/-- The method `TxPosition.Cmp`. -/
def TxPosition.Cmp (p other : TxPosition) : Int :=
  if p.BlockNumber < other.BlockNumber then -1
  else if p.BlockNumber > other.BlockNumber then 1
  else if p.TxIndex < other.TxIndex then -1
  else if p.TxIndex > other.TxIndex then 1
  else 0

/-- The conversion of an integer to `int64`: the value modulo `2 ^ 64` in the signed range. -/
def int64 (n : Int) : Int := (n + 2 ^ 63) % 2 ^ 64 - 2 ^ 63

namespace TxRecord

/-- The method `TxRecord.IsPseudo`. -/
def IsPseudo (r : TxRecord) : Bool := r.Tx.IsPseudo

/-- The method `TxRecord.Position`; `none` is a panic (a record with an error, or a record
without summary, whose receipt is read through a nil pointer). For a pseudo transaction the
position is what `json.Unmarshal` reads from the payload (`unmarshal`); the error of
`Unmarshal` is dropped. `receipt.BlockNumber.Uint64()` is the number modulo `2 ^ 64`. -/
def Position (unmarshal : List Nat → TxPosition) (r : TxRecord) : Option TxPosition :=
  if r.Err.isSome then none
  else if r.IsPseudo then some (unmarshal r.Tx.Data)
  else
    match r.Receipt with
    | none => none
    | some receipt =>
        some { BlockNumber := receipt.BlockNumber % 2 ^ 64, TxIndex := receipt.TransactionIndex }

/-- The method `TxRecord.ID`, an `int64`. -/
def ID (unmarshal : List Nat → TxPosition) (r : TxRecord) : Option Int :=
  match r.Position unmarshal with
  | none => none
  | some pos => some (int64 (int64 pos.BlockNumber * 10000 + int64 pos.TxIndex))

/-- The method `TxRecord.Compare`. -/
def Compare (unmarshal : List Nat → TxPosition) (r other : TxRecord) : Option Int :=
  match r.Position unmarshal, other.Position unmarshal with
  | some p, some q => some (p.Cmp q)
  | _, _ => none

end TxRecord

/-- The library type `simple.DirectedGraph` of gonum, as far as the session uses it: the map
from ids to nodes, and for every id the ids its edges lead to (the keys of the inner map of
`from`, in the order in which they were first set; Go iterates over them in no fixed order). -/
structure DirectedGraph where
  nodes : Int → Option TxRecord
  edges : Int → List Int

namespace DirectedGraph

/-- The library function `simple.NewDirectedGraph`. -/
def empty : DirectedGraph := { nodes := fun _ => none, edges := fun _ => [] }

/-- The library method `AddNode`: it panics (`none`) when the id is taken. The id itself is
read with `TxRecord.ID`, which may panic. -/
def AddNode (unmarshal : List Nat → TxPosition) (g : DirectedGraph) (n : TxRecord) :
    Option DirectedGraph :=
  match n.ID unmarshal with
  | none => none
  | some id =>
      if (g.nodes id).isSome then none
      else some { g with nodes := fun k => if k = id then some n else g.nodes k }

/-- The library method `SetEdge` applied to `NewEdge(from, to)`: it panics on an edge from a
node to itself, stores both nodes under their ids and records the edge. -/
def SetEdge (unmarshal : List Nat → TxPosition) (g : DirectedGraph) (u v : TxRecord) :
    Option DirectedGraph :=
  match u.ID unmarshal, v.ID unmarshal with
  | some fid, some tid =>
      if fid = tid then none
      else
        some
          { nodes := fun k => if k = tid then some v else if k = fid then some u else g.nodes k
            edges := fun k =>
              if k = fid then (if tid ∈ g.edges fid then g.edges fid else g.edges fid ++ [tid])
              else g.edges k }
  | _, _ => none

/-- The library method `From`: the nodes that the edges from `id` lead to. -/
def From (g : DirectedGraph) (id : Int) : List TxRecord :=
  (g.edges id).filterMap g.nodes

end DirectedGraph

/-- The struct `TxHistorySession`, without the history it was cut from. -/
structure TxHistorySession where
  fromBlock : Nat
  blocks : List (List TxRecord)
  hbGraph : DirectedGraph

/-- One round of the loop of `StartSession` that builds the happen-before graph: records with
an error and pseudo transactions are skipped; the record becomes a node, with an edge to the
last record of the same sender, and is then the last record of its sender. `none` is a panic:
of the graph, or `nonce of sender is not monotonic`. The second test of the source (`sender is
not consistent`) compares the key of the map with the sender stored under it and cannot fail. -/
def addToGraph (unmarshal : List Nat → TxPosition)
    (acc : DirectedGraph × (Address → Option TxRecord)) (r : TxRecord) :
    Option (DirectedGraph × (Address → Option TxRecord)) :=
  if r.Err.isSome then some acc
  else if r.Tx.IsPseudo then some acc
  else
    match acc.1.AddNode unmarshal r with
    | none => none
    | some g1 =>
        match acc.2 r.Tx.sender with
        | some last =>
            if r.Tx.Nonce ≤ last.Tx.Nonce then none
            else if r.Tx.sender ≠ last.Tx.sender then none
            else
              match g1.SetEdge unmarshal r last with
              | none => none
              | some g2 => some (g2, fun a => if a = r.Tx.sender then some r else acc.2 a)
        | none => some (g1, fun a => if a = r.Tx.sender then some r else acc.2 a)

/-- The loops of `StartSession` over the blocks and their records. -/
def buildGraph (unmarshal : List Nat → TxPosition) :
    List TxRecord → DirectedGraph × (Address → Option TxRecord) →
      Option (DirectedGraph × (Address → Option TxRecord))
  | [], acc => some acc
  | r :: rest, acc =>
      match addToGraph unmarshal acc r with
      | none => none
      | some acc1 => buildGraph unmarshal rest acc1

/-- The method `TxHistory.StartSession`, given the blocks that `AcquireBlocks` returned. -/
def StartSession (unmarshal : List Nat → TxPosition) (fromBlock : Nat)
    (blocks : List (List TxRecord)) : Option TxHistorySession :=
  match buildGraph unmarshal (blocks.foldr (fun b acc => b ++ acc) [])
      (DirectedGraph.empty, fun _ => none) with
  | none => none
  | some acc => some { fromBlock := fromBlock, blocks := blocks, hbGraph := acc.1 }

/-- The library function `SymMerge` of `go-datastructures/sort` for a second list of one
element, which is how `SlicePrerequisites` calls it: the element is put into the sorted first
list, behind the elements that do not compare greater. -/
def insertSorted (unmarshal : List Nat → TxPosition) (x : TxRecord) :
    List TxRecord → Option (List TxRecord)
  | [] => some [x]
  | y :: rest =>
      match y.Compare unmarshal x with
      | none => none
      | some c =>
          if c > 0 then some (x :: y :: rest)
          else
            match insertSorted unmarshal x rest with
            | none => none
            | some merged => some (y :: merged)

/-- The library function `SymMerge`: the merge of two sorted lists. -/
def SymMerge (unmarshal : List Nat → TxPosition) (u : List TxRecord) :
    List TxRecord → Option (List TxRecord)
  | [] => some u
  | x :: w =>
      match insertSorted unmarshal x u with
      | none => none
      | some u1 => SymMerge unmarshal u1 w

namespace TxHistorySession

/-- The inner loop of `SlicePrerequisites` over the nodes that `From` returned: a dependency
whose position is behind the bound is merged into the slice and put on the queue. -/
def visit (unmarshal : List Nat → TxPosition) (bound : TxPosition) :
    List TxRecord → List TxRecord × List TxRecord → Option (List TxRecord × List TxRecord)
  | [], acc => some acc
  | dep :: rest, acc =>
      match dep.Position unmarshal with
      | none => none
      | some p =>
          if p.Cmp bound > 0 then
            match SymMerge unmarshal acc.1 [dep] with
            | none => none
            | some slice => visit unmarshal bound rest (slice, acc.2 ++ [dep])
          else visit unmarshal bound rest acc

/-- The outer loop of `SlicePrerequisites` over the queue, which is first in, first out. Each
unit of `fuel` pays for one test of the loop condition; `none` is a panic or the end of the
fuel. -/
def spanning (unmarshal : List Nat → TxPosition) (s : TxHistorySession) (bound : TxPosition) :
    Nat → List TxRecord → List TxRecord → Option (List TxRecord)
  | 0, _, _ => none
  | _ + 1, [], slice => some slice
  | fuel + 1, r :: queue, slice =>
      match r.ID unmarshal with
      | none => none
      | some id =>
          match visit unmarshal bound (s.hbGraph.From id) (slice, queue) with
          | none => none
          | some acc => spanning unmarshal s bound fuel acc.2 acc.1

/-- The method `SlicePrerequisites`, with the fuel for its loop. -/
def SlicePrerequisites (unmarshal : List Nat → TxPosition) (s : TxHistorySession)
    (dependant backBound : TxRecord) (fuel : Nat) : Option (List TxRecord) :=
  if dependant.Err.isSome then none
  else if dependant.IsPseudo then some []
  else
    match dependant.Position unmarshal, backBound.Position unmarshal with
    | some dp, some bp =>
        let bound := if dp.Cmp bp > 0 then bp else ZeroTxPosition
        spanning unmarshal s bound fuel [dependant] []
    | _, _ => none

/-- The records of the session that take part in the happen-before graph, in the order of the
blocks: those without error that are not pseudo transactions. -/
def records (s : TxHistorySession) : List TxRecord :=
  (s.blocks.foldr (fun b acc => b ++ acc) []).filter
    (fun r => !r.Err.isSome && !r.Tx.IsPseudo)

end TxHistorySession

/-- The position of `a` is strictly smaller than that of `b`. -/
def TxRecord.Precedes (unmarshal : List Nat → TxPosition) (a b : TxRecord) : Bool :=
  match a.Compare unmarshal b with
  | some c => decide (c < 0)
  | none => false

/-- The prerequisites of `dependant` as the specification gives them: the records of the
session from the sender of `dependant` that precede it and that come after `backBound`; when
`backBound` does not precede `dependant` there is no bound. -/
def TxHistorySession.prerequisites (unmarshal : List Nat → TxPosition) (s : TxHistorySession)
    (dependant backBound : TxRecord) : List TxRecord :=
  s.records.filter (fun r =>
    decide (r.Tx.sender = dependant.Tx.sender) && r.Precedes unmarshal dependant &&
      (!(backBound.Precedes unmarshal dependant) || backBound.Precedes unmarshal r))

/-- The graph has an edge from the node `a` to the node `b`. -/
def DirectedGraph.Edge (unmarshal : List Nat → TxPosition) (g : DirectedGraph)
    (a b : TxRecord) : Prop :=
  ∃ id, a.ID unmarshal = some id ∧ b ∈ g.From id

/-- The node `b` is a transitive predecessor of `a` in the happen-before graph: a path of one
or more edges leads from `a` to `b`. -/
def DirectedGraph.Reaches (unmarshal : List Nat → TxPosition) (g : DirectedGraph)
    (a b : TxRecord) : Prop :=
  Relation.TransGen (DirectedGraph.Edge unmarshal g) a b

/-- The position of `r` is strictly behind `bound`: the test of the inner loop of
`SlicePrerequisites`. -/
def TxRecord.Behind (unmarshal : List Nat → TxPosition) (bound : TxPosition) (r : TxRecord) :
    Bool :=
  match r.Position unmarshal with
  | some p => decide (p.Cmp bound > 0)
  | none => false

/-- The happen-before graph and the map of last records hold what the loop of `StartSession`
makes of the records `P`: every record is the node of its id, ids of no record have no edges,
the map gives the last record of each sender, and the edges from a record lead to the last
record of the same sender before it and nowhere else. -/
structure GraphOf (unmarshal : List Nat → TxPosition) (P : List TxRecord)
    (acc : DirectedGraph × (Address → Option TxRecord)) : Prop where
  node : ∀ r ∈ P, ∃ id, r.ID unmarshal = some id ∧ acc.1.nodes id = some r
  fresh : ∀ id, (∀ r ∈ P, r.ID unmarshal ≠ some id) → acc.1.edges id = []
  last : ∀ a, acc.2 a = (P.filter (fun r => decide (r.Tx.sender = a))).getLast?
  edge : ∀ P1 x P2, P = P1 ++ x :: P2 → ∀ id, x.ID unmarshal = some id →
    match (P1.filter (fun r => decide (r.Tx.sender = x.Tx.sender))).getLast? with
    | none => acc.1.edges id = []
    | some l => ∃ tid, l.ID unmarshal = some tid ∧ acc.1.edges id = [tid]

/-- A record without error of a transaction of `sender` with the given nonce, whose receipt
places it at `index` in block `block`. -/
def Example.recordAt (block index : Nat) (sender : Address) (nonce : Nat) : TxRecord :=
  { Tx := { Example.tx with sender := sender, Nonce := nonce, Hash := block * 1000 + index }
    Err := none
    Receipt :=
      some { TxType := 0, CumulativeGasUsed := 0, Status := 1, TxHash := block * 1000 + index,
             GasUsed := 0, TransactionIndex := index, BlockHash := 0, BlockNumber := block } }

/-- The record of the pseudo transaction that pays the block reward of `block`, behind `count`
transactions; its payload is not read by the model (`unmarshal` gives the position). -/
def Example.rewardAt : TxRecord :=
  { Tx := NewPseudoTx (fun _ => 0) [] none, Err := none, Receipt := none }

/-- Two blocks: in block 7 the transactions of accounts 1, 2, 1, 1, in block 8 those of
accounts 2, 1, each block closed by its reward. -/
def Example.blocks : List (List TxRecord) :=
  [ [ Example.recordAt 7 0 1 0, Example.recordAt 7 1 2 0, Example.recordAt 7 2 1 1,
      Example.recordAt 7 3 1 2, Example.rewardAt ],
    [ Example.recordAt 8 0 2 1, Example.recordAt 8 1 1 3, Example.rewardAt ] ]

end dataset

/-! ## Net flow of transfers -/

/-- The amount that a transfer moves: the field `Amount` of the fungible kinds; an
`ERC721Transfer` moves one token. -/
def ITransfer.amount (t : ITransfer) : Int :=
  match t.fungible with
  | some f => f.Amount
  | none => 1

/-- The sum of the amounts that the account `X` receives over a list of transfers. -/
def ITransfer.receivedBy (X : Address) (ts : List ITransfer) : Int :=
  ((ts.filter (fun t => decide (t.To = X))).map ITransfer.amount).sum

/-- The sum of the amounts that the account `X` sends over a list of transfers. -/
def ITransfer.sentBy (X : Address) (ts : List ITransfer) : Int :=
  ((ts.filter (fun t => decide (t.From = X))).map ITransfer.amount).sum

/-- The net flow of the account `X` over a list of transfers: what it receives minus what it
sends. -/
def ITransfer.netFlow (X : Address) (ts : List ITransfer) : Int :=
  ITransfer.receivedBy X ts - ITransfer.sentBy X ts

/-- The net flow of the account `X` in one `fungibleTransfer`. -/
def fungibleTransfer.net (X : Address) (f : fungibleTransfer) : Int :=
  (if f.ToAccount = X then f.Amount else 0) - (if f.FromAccount = X then f.Amount else 0)

/-! ## Memory copies (`helpers/ethereum.go`) -/

namespace vm

/-- The library type `vm.Memory`: the bytes of the slice `store`, and the bytes of its backing
array past its length (`cap(store) - len(store)` of them), which a slice expression can reach. -/
structure Memory where
  store : List Nat
  spare : List Nat
  deriving DecidableEq

/-- The method `Memory.Len` of the library. -/
def Memory.Len (m : Memory) : Nat := m.store.length

/-- The method `Memory.GetPtr` of the library: nil for size zero and for an offset at or past
the length, else the slice `store[offset : offset+size]`, a runtime panic (`none`) when
`offset+size` exceeds the capacity. -/
def Memory.GetPtr (m : Memory) (offset size : Nat) : Option (List Nat) :=
  if size = 0 then some []
  else if m.store.length > offset then
    if offset + size ≤ m.store.length + m.spare.length then
      some (((m.store ++ m.spare).drop offset).take size)
    else none
  else some []

end vm

/-- Go's builtin `copy(dst, src)`: the first `min(len(dst), len(src))` elements of `dst` are
overwritten; the value is `dst` afterwards. -/
def goCopy (dst src : List Nat) : List Nat :=
  src.take dst.length ++ dst.drop src.length

/-- The function `helpers.GetMemoryCopyWithPadding`, for the non-negative `offset` and `size`
of its callers (the amounts are `int64`; sizes that `make` accepts are far from its bounds, so
no sum wraps). -/
def GetMemoryCopyWithPadding (memory : vm.Memory) (offset size : Nat) : Option (List Nat) :=
  let memData := List.replicate size 0
  if offset + size ≤ memory.Len then
    match memory.GetPtr offset size with
    | none => none
    | some ptr => some (goCopy memData ptr)
  else
    match memory.GetPtr offset (offset + size - memory.Len) with
    | none => none
    | some ptr => some (goCopy memData ptr)

/-- The bytes that a copy with padding of `size` bytes at `offset` should give: the `i`-th byte
is `memory[offset+i]` below the memory length and 0 otherwise. -/
def paddedCopy (store : List Nat) (offset size : Nat) : List Nat :=
  (List.range size).map (fun i => store.getD (offset + i) 0)

/-- An expanded memory of 64 bytes, the first word filled with 1 and the second with 2. -/
def Example.twoWords : vm.Memory :=
  { store := List.replicate 32 1 ++ List.replicate 32 2, spare := [] }

namespace Example

open data_flow

/-- The scope of an operation of the contract 2000, called by the contract 1000. -/
def calleeScope (stack : List Nat) : vm.ScopeContext :=
  { Memory := [], Stack := stack, Contract := { self := 2000, CodeAddr := some 2000 } }

/-- The callbacks of a transaction to the contract 1000, whose code writes 7 to the memory word
at offset 0 and passes the 32 bytes at offset 0 as call data to the contract 2000, whose code
copies the 2 bytes of call data at offset 0 to the memory at offset 31. The last callback is the
`CALLDATACOPY` of the nested call. -/
def callDataCopyUnaligned : List TracerEvent :=
  [ TracerEvent.TransactionStart Example.callTx 0,
    TracerEvent.CaptureStart,
    TracerEvent.CaptureState 0 vm.PUSH1 100000 3 (Example.scope []) none,
    TracerEvent.CaptureState 2 vm.PUSH1 99997 3 (Example.scope [7]) none,
    TracerEvent.CaptureState 4 vm.MSTORE 99994 6 (Example.scope [7, 0]) none,
    TracerEvent.CaptureState 5 0x61 99988 3 (Example.scope []) none,
    TracerEvent.CaptureState 8 0x61 99985 3 (Example.scope [0]) none,
    TracerEvent.CaptureState 11 0x61 99982 3 (Example.scope [0, 0]) none,
    TracerEvent.CaptureState 14 0x61 99979 3 (Example.scope [0, 0, 32]) none,
    TracerEvent.CaptureState 17 0x61 99976 3 (Example.scope [0, 0, 32, 0]) none,
    TracerEvent.CaptureState 20 0x61 99973 3 (Example.scope [0, 0, 32, 0, 0]) none,
    TracerEvent.CaptureState 23 0x5a 99970 2 (Example.scope [0, 0, 32, 0, 0, 2000]) none,
    TracerEvent.CaptureState 24 vm.CALL 99968 2600
      (Example.scope [0, 0, 32, 0, 0, 2000, 99968]) none,
    TracerEvent.CaptureEnter vm.CALL 1000 2000 [] (some 0),
    TracerEvent.CaptureState 0 0x61 90000 3 (calleeScope []) none,
    TracerEvent.CaptureState 3 0x61 89997 3 (calleeScope [2]) none,
    TracerEvent.CaptureState 6 0x61 89994 3 (calleeScope [2, 0]) none,
    TracerEvent.CaptureState 9 vm.CALLDATACOPY 89991 9 (calleeScope [2, 0, 31]) none ]

/-- The callbacks of a transaction to the contract 1000, whose code writes 7 to the memory word
at offset 0 and returns the 32 bytes at offset 0. -/
def returnPushedWord : List TracerEvent :=
  [ TracerEvent.TransactionStart Example.callTx 0,
    TracerEvent.CaptureStart,
    TracerEvent.CaptureState 0 vm.PUSH1 100000 3 (Example.scope []) none,
    TracerEvent.CaptureState 2 0x61 99997 3 (Example.scope [7]) none,
    TracerEvent.CaptureState 5 vm.MSTORE 99994 6 (Example.scope [7, 0]) none,
    TracerEvent.CaptureState 6 0x61 99988 3 (Example.scope []) none,
    TracerEvent.CaptureState 9 0x61 99985 3 (Example.scope [32]) none,
    TracerEvent.CaptureState 12 vm.RETURN 99982 0 (Example.scope [32, 0]) none ]

/-- The callbacks of a transaction to the contract 1000, whose code writes the sum of 7 and 8 to
the memory word at offset 0 and returns the 32 bytes at offset 0. -/
def returnSum : List TracerEvent :=
  [ TracerEvent.TransactionStart Example.callTx 0,
    TracerEvent.CaptureStart,
    TracerEvent.CaptureState 0 vm.PUSH1 100000 3 (Example.scope []) none,
    TracerEvent.CaptureState 2 vm.PUSH1 99997 3 (Example.scope [7]) none,
    TracerEvent.CaptureState 4 vm.ADD 99994 3 (Example.scope [7, 8]) none,
    TracerEvent.CaptureState 5 0x61 99991 3 (Example.scope [15]) none,
    TracerEvent.CaptureState 8 vm.MSTORE 99988 6 (Example.scope [15, 0]) none,
    TracerEvent.CaptureState 9 0x61 99982 3 (Example.scope []) none,
    TracerEvent.CaptureState 12 0x61 99979 3 (Example.scope [32]) none,
    TracerEvent.CaptureState 15 vm.RETURN 99976 0 (Example.scope [32, 0]) none ]

/-- A classifier that makes `PUSH1` a source and `RETURN` a sink. -/
def pushIsSourceReturnIsSink (operation : Operation) : Bool × Bool :=
  (operation.OpCode == vm.PUSH1, operation.OpCode == vm.RETURN)

/-- The callbacks of a transaction to the contract 1000, whose code destroys the contract with
the account 2000 as the beneficiary. -/
def selfDestruct : List TracerEvent :=
  [ TracerEvent.TransactionStart Example.callTx 0,
    TracerEvent.CaptureStart,
    TracerEvent.CaptureState 0 0x61 100000 3 (Example.scope []) none,
    TracerEvent.CaptureState 3 vm.SELFDESTRUCT 99997 5000 (Example.scope [2000]) none ]

/-- A classifier without sources and sinks. -/
def nothingIsSource (_ : Operation) : Bool × Bool := (false, false)

end Example

namespace data_flow

variable {σ : Type}

/-- The node that the mirror memory of a message call holds for the word at `index`. -/
def DataFlowTracer.memoryAt (t : DataFlowTracer σ) (a p index : Nat) : Option FlowNode :=
  (t.collectionOf a p).map (fun col => col.Memory.at index)

/-- The call data and the return data that the call object of a message call holds. -/
def DataFlowTracer.callDataOf (t : DataFlowTracer σ) (a p : Nat) :
    Option (List (Nat × FlowNode) × List (Nat × FlowNode)) :=
  match t.collectionOf a p with
  | none => none
  | some col => ((t.worlds a).calls[col.Call]?).map (fun cd => (cd.data, cd.returnData))

/-- The balances that the chain tracker of a message call holds. -/
def DataFlowTracer.balancesOf (t : DataFlowTracer σ) (a p : Nat) :
    Option (List (Address × FlowNode)) :=
  match t.collectionOf a p with
  | none => none
  | some col =>
      match col.Chain with
      | none => none
      | some c => ((t.worlds a).chains[c]?).map (fun ch => ch.balances)

end data_flow

/-! ## Influence traces (`dataset/attack_analysis.go`) -/

namespace dataset

open data_flow

/-- A flow node as `locateVarReadAndInfluenceTrace` reads it through the interface `FlowNode`:
what its methods `ID`, `Operation` and `From` return. `From` lists pointers into the list of the
nodes, in the order in which the loop over `fromNodes` gets them. -/
structure TraceNode where
  ID : NodeID
  Operation : Operation
  From : List Nat
  deriving DecidableEq

/-- A `RawFlowNode` read through the interface. -/
def TraceNode.ofRaw (n : RawFlowNode) : TraceNode :=
  { ID := n.ID, Operation := n.operation, From := n.From }

/-- The three results of `innerFind` when the first is not nil: the source node, the operation
trace and the trace of message calls (pointers, nil for a nil pointer). -/
abbrev InfluenceTrace := Nat × List Operation × List (Option Nat)

/-- The update of `cTrace` in `innerFind`: the message call of the operation is appended when
the trace is empty or ends with a call at another position. A nil pointer at the end of the
trace is dereferenced, a runtime panic (`none`). -/
def enterCall (view : CallView) (cTrace : List (Option Nat)) (msgCall : Nat) :
    Option (List (Option Nat)) :=
  match cTrace.getLast? with
  | none => some (cTrace ++ [some msgCall])
  | some none => none
  | some (some p) =>
      match view[msgCall]?, view[p]? with
      | some mc, some last =>
          if mc.Position.Cmp last.Position ≠ 0 then some (cTrace ++ [some msgCall])
          else some cTrace
      | _, _ => none

/-- The loop `for _, from := range fromNodes` of `innerFind`; `find` is the recursive call with
the copies of the two traces, given the map `dupNode` as it stands. -/
def searchFrom (find : List NodeID → Nat → Option (List NodeID × Option InfluenceTrace)) :
    List NodeID → List Nat → Option (List NodeID × Option InfluenceTrace)
  | dup, [] => some (dup, none)
  | dup, f :: rest =>
      match find dup f with
      | none => none
      | some (dup1, some r) => some (dup1, some r)
      | some (dup1, none) => searchFrom find dup1 rest

/-- The closure `innerFind` of `locateVarReadAndInfluenceTrace`, with the keys of the map
`dupNode` before and after the call; `isSource` is given on pointers. The recursion is bounded
by `fuel`; a nil result is `some (_, none)`, a panic or the end of the fuel is `none`. -/
def innerFind (view : CallView) (g : List TraceNode) (isSource : Nat → Bool) :
    Nat → List NodeID → List Operation → List (Option Nat) → Nat →
      Option (List NodeID × Option InfluenceTrace)
  | 0, _, _, _, _ => none
  | fuel + 1, dup, trace, cTrace, node =>
      match g[node]? with
      | none => none
      | some n =>
          if n.ID ∈ dup then some (dup, none)
          else
            match enterCall view cTrace n.Operation.msgCall with
            | none => none
            | some cTrace1 =>
                if isSource node then
                  some (dup ++ [n.ID],
                    some (node, (trace ++ [n.Operation]).reverse, cTrace1.reverse))
                else
                  searchFrom
                    (fun dup1 f =>
                      innerFind view g isSource fuel dup1 (trace ++ [n.Operation]) cTrace1 f)
                    (dup ++ [n.ID]) n.From

/-- The search for the child call of an ether transfer: the first nested call whose call site
has the index of the sink operation, nil when there is none. -/
def findChild (view : CallView) (index : Nat) : List Nat → Option (Option Nat)
  | [] => some none
  | c :: rest =>
      match view[c]? with
      | none => none
      | some child =>
          match child.Caller.CallSite with
          | none => none
          | some l => if l.Index = index then some (some c) else findChild view index rest

/-- The slice of message calls that `locateVarReadAndInfluenceTrace` starts with: the child
call (or nil) when the sink is a `CALL` that transfers ether, nothing otherwise. -/
def startCalls (view : CallView) (sink : TraceNode) : Option (List (Option Nat)) :=
  if sink.Operation.OpCode = vm.CALL then
    match sink.Operation.Arg 2 with
    | none => none
    | some v =>
        if signPositive v then
          match view[sink.Operation.msgCall]? with
          | none => none
          | some mc => (findChild view sink.Operation.Index mc.NestedCalls).map (fun c => [c])
        else some []
  else some []

/-- The method `Attack.locateVarReadAndInfluenceTrace`, which does not read its receiver; a nil
source is `some none`. -/
def Attack.locateVarReadAndInfluenceTrace (view : CallView) (g : List TraceNode) (sink : Nat)
    (isSource : Nat → Bool) (fuel : Nat) : Option (Option InfluenceTrace) :=
  match g[sink]? with
  | none => none
  | some s =>
      match startCalls view s with
      | none => none
      | some cTrace => (innerFind view g isSource fuel [] [] cTrace sink).map (fun r => r.2)

/-- The node at `i` has its identifier among the keys of `dupNode`. -/
def visited (g : List TraceNode) (dup : List NodeID) (i : Nat) : Bool :=
  match g[i]? with
  | some n => decide (n.ID ∈ dup)
  | none => false

/-- The pointers to the nodes whose identifier is not among the keys of `dupNode`. -/
def unvisited (g : List TraceNode) (dup : List NodeID) : Finset Nat :=
  (Finset.range g.length).filter (fun i => visited g dup i = false)

/-- A slice of message calls without nil and dangling pointers. -/
def CallsValid (view : CallView) (cTrace : List (Option Nat)) : Prop :=
  ∀ c ∈ cTrace, ∃ p, c = some p ∧ p < view.length

/-- What a nil result of a search says about the keys of `dupNode` before and after it: a node
marked by the search is no source and all its upstream nodes are marked. -/
def MissSpec (g : List TraceNode) (isSource : Nat → Bool) (dup dup1 : List NodeID) : Prop :=
  ∀ v, visited g dup1 v = true → visited g dup v = false →
    isSource v = false ∧ ∀ n, g[v]? = some n → ∀ u ∈ n.From, visited g dup1 u = true

/-- The nodes of `path` follow each other along `From` edges. -/
def TraceNode.isPath (g : List TraceNode) : List Nat → Bool
  | [] => true
  | [_] => true
  | a :: b :: rest =>
      (match g[a]? with
        | some n => decide (b ∈ n.From)
        | none => false) && TraceNode.isPath g (b :: rest)

/-- The node `b` is reachable from the node `a` through `From` edges. -/
def TraceNode.Reaches (g : List TraceNode) (a b : Nat) : Prop :=
  Relation.ReflTransGen (fun i j => ∃ n, g[i]? = some n ∧ j ∈ n.From) a b

end dataset

namespace Example

open data_flow

/-- The callbacks of a transaction to the contract 1000, whose code writes 5 to the memory word
at offset 0, then writes the low byte of 9 to the byte at offset 0 and again to the byte at
offset 1, and loads the word at offset 0. -/
def storeByteTwice : List TracerEvent :=
  [ TracerEvent.TransactionStart Example.callTx 0,
    TracerEvent.CaptureStart,
    TracerEvent.CaptureState 0 vm.PUSH1 100000 3 (Example.scope []) none,
    TracerEvent.CaptureState 2 0x61 99997 3 (Example.scope [5]) none,
    TracerEvent.CaptureState 5 vm.MSTORE 99994 6 (Example.scope [5, 0]) none,
    TracerEvent.CaptureState 6 vm.PUSH1 99988 3 (Example.scope []) none,
    TracerEvent.CaptureState 8 vm.DUP1 99985 3 (Example.scope [9]) none,
    TracerEvent.CaptureState 9 0x61 99982 3 (Example.scope [9, 9]) none,
    TracerEvent.CaptureState 12 vm.MSTORE8 99979 3 (Example.scope [9, 9, 0]) none,
    TracerEvent.CaptureState 13 0x61 99976 3 (Example.scope [9]) none,
    TracerEvent.CaptureState 16 vm.MSTORE8 99973 3 (Example.scope [9, 1]) none,
    TracerEvent.CaptureState 17 0x61 99970 3 (Example.scope []) none,
    TracerEvent.CaptureState 20 vm.MLOAD 99967 3 (Example.scope [0]) none,
    TracerEvent.CaptureState 21 vm.STOP 99964 0 (Example.scope [9]) none ]

/-- A flow graph of three nodes with distinct identifiers: the node 2 flows from the node 1 and
from itself, the node 1 from the node 0. -/
def flowGraph : List dataset.TraceNode :=
  [ { ID := { label := "test-analyzer", operation := pushOperation.ID },
      Operation := pushOperation, From := [] },
    { ID := { label := "test-analyzer", operation := addOperation.ID },
      Operation := addOperation, From := [0] },
    { ID := { label := "memory_merge", operation := addOperation.ID },
      Operation := addOperation, From := [2, 1] } ]

/-- A node made for a `CALL` of the root call that sends 1 wei to the account 2000. -/
def etherSink : dataset.TraceNode :=
  { ID := { label := "attackTaintNode", operation := pushOperation.ID },
    Operation :=
      { TraceLocation :=
          { pos := { position := [], compactPosition := [] }, codeAddr := 1000, pc := 0,
            opcode := vm.CALL, gasAvailable := 100000, gasUsed := 9000, index := 0 }
        msgCall := 0
        args := [0, 0, 0, 0, 1, 2000, 50000] },
    From := [] }

/-- The call tree after the start of a transaction to the contract 1000. -/
def rootView : CallView :=
  ((BasicNestedCallTracer.new none).TransactionStart Example.callTx 0).calls

end Example

/-! ## Storage addressing paths (`analysis/storage_address`) -/

/-- The method `OpCode.IsPush` of the library: `PUSH1` to `PUSH32`. -/
def vm.IsPush (op : OpCode) : Bool := decide (0x60 ≤ op ∧ op ≤ 0x7f)

namespace storage_address

open data_flow

/-- The struct `StorageAddressingNode`; the field `from` is `upstream` here, a list that keeps
the nil entries and the order of the calls of `AddUpstream`. An `Operand` without value and a
nil `Ingredient` are `none`. The field `to`, which nothing assigns, is left out. -/
structure StorageAddressingNode where
  operation : Operation
  Operand : Option Nat
  Ingredient : Option Nat
  upstream : FlowNodeList
  deriving DecidableEq

/-- The method `StorageAddressingNode.From`. -/
def StorageAddressingNode.From (f : StorageAddressingNode) : FlowNodeList := f.upstream

/-- The method `StorageAddressingNode.copy`. -/
def StorageAddressingNode.copy (f : StorageAddressingNode) : StorageAddressingNode :=
  { operation := f.operation, Operand := f.Operand, Ingredient := f.Ingredient,
    upstream := f.upstream }

/-- The type `AddressingPath`. A path lists its nodes as they are when `AddressingPaths`
returns; the copy `sibling` of a node differs from the node in `Operand` and `Ingredient`. -/
abbrev AddressingPath := List StorageAddressingNode

/-- The method `AddressingPath.Reverse`. -/
def AddressingPath.Reverse (p : AddressingPath) : AddressingPath := p.reverse

/-- The nodes of type `*StorageAddressingNode`, each under its pointer. A pointer without entry
refers to a node of another type, on which the type assertion `.(*StorageAddressingNode)`
panics. -/
abbrev NodeTable := List (Nat × StorageAddressingNode)

/-- The loops `for _, n := range node.From()` of `iter`: nil entries are skipped, and `iter`
(here `recurse`) runs on each other entry with the copy of the path extended by the node. -/
def iterFrom
    (recurse : NodeTable → Nat → AddressingPath → List AddressingPath →
      Option (NodeTable × List AddressingPath))
    (entry : StorageAddressingNode) (path : AddressingPath) :
    FlowNodeList → NodeTable → List AddressingPath → Option (NodeTable × List AddressingPath)
  | [], tbl, paths => some (tbl, paths)
  | none :: rest, tbl, paths => iterFrom recurse entry path rest tbl paths
  | some n :: rest, tbl, paths =>
      match recurse tbl n (path ++ [entry]) paths with
      | none => none
      | some (tbl1, paths1) => iterFrom recurse entry path rest tbl1 paths1

/-- One of the two blocks of the case `ADD` of `iter`: the node or its copy, with `Operand` and
`Ingredient` set, is appended to the copy of the path, and `iter` runs on the upstream
`node.From().Back(index)` when it is not nil. -/
def iterBack
    (recurse : NodeTable → Nat → AddressingPath → List AddressingPath →
      Option (NodeTable × List AddressingPath))
    (entry : StorageAddressingNode) (path : AddressingPath) (index : Nat) (tbl : NodeTable)
    (paths : List AddressingPath) : Option (NodeTable × List AddressingPath) :=
  match FlowNodeList.Back entry.From index with
  | none => none
  | some none => some (tbl, paths)
  | some (some upstream) => recurse tbl upstream (path ++ [entry]) paths

/-- The closure `iter` of `AddressingPaths` on the node behind the pointer `p`, with the nodes
as they stand (the case `ADD` assigns `Operand` and `Ingredient` of the node) and the slice
`paths`. The recursion is bounded by `fuel`; `none` is a panic or the end of the fuel. -/
def iter : Nat → NodeTable → Nat → AddressingPath → List AddressingPath →
    Option (NodeTable × List AddressingPath)
  | 0, _, _, _, _ => none
  | fuel + 1, tbl, p, path, paths =>
      match mapGet tbl p with
      | none => none
      | some node =>
          let paths1 :=
            if vm.IsPush node.operation.OpCode then
              paths ++ [AddressingPath.Reverse (path ++ [node])]
            else paths
          if node.operation.OpCode = vm.ADD then
            match node.operation.Arg 1, node.operation.Arg 0 with
            | some arg1, some arg0 =>
                let node1 := { node with Operand := some arg0, Ingredient := some arg1 }
                let tbl1 := mapSet tbl p node1
                match iterBack (iter fuel) node1 path 0 tbl1 paths1 with
                | none => none
                | some (tbl2, paths2) =>
                    match mapGet tbl2 p with
                    | none => none
                    | some node2 =>
                        let sibling :=
                          { node2.copy with Operand := some arg1, Ingredient := some arg0 }
                        iterBack (iter fuel) sibling path 1 tbl2 paths2
            | _, _ => none
          else if node.operation.OpCode = vm.KECCAK256 ∨ node.operation.OpCode = vm.SLOAD ∨
              node.operation.OpCode = vm.SSTORE then
            iterFrom (iter fuel) node path node.From tbl paths1
          else some (tbl, paths1)

/-- The method `StorageAddressingNode.AddressingPaths` on the node behind the pointer `f`: the
nodes afterwards and the paths; another opcode than `SLOAD` and `SSTORE` panics. -/
def AddressingPaths (fuel : Nat) (tbl : NodeTable) (f : Nat) :
    Option (NodeTable × List AddressingPath) :=
  match mapGet tbl f with
  | none => none
  | some node =>
      if node.operation.OpCode = vm.SLOAD ∨ node.operation.OpCode = vm.SSTORE then
        iter fuel tbl f [] []
      else none

/-- The opcodes of the cases of `iter`: `ADD`, `KECCAK256`, `SLOAD` and `SSTORE`. -/
def IsAddressingStep (op : OpCode) : Prop :=
  op = vm.ADD ∨ op = vm.KECCAK256 ∨ op = vm.SLOAD ∨ op = vm.SSTORE

/-- A node without what the case `ADD` of `iter` assigns to it: `Operand` and `Ingredient` of
an `ADD` node are cleared, another node is left as it is. -/
def StorageAddressingNode.norm (n : StorageAddressingNode) : StorageAddressingNode :=
  if n.operation.OpCode = vm.ADD then { n with Operand := none, Ingredient := none } else n

/-- The node behind a pointer, without what `iter` assigns. -/
def shapeOf (tbl : NodeTable) (p : Nat) : Option StorageAddressingNode :=
  (mapGet tbl p).map StorageAddressingNode.norm

/-- The node `a` of a path is an upstream of the node `b`: a pointer in the list `from` of `b`
refers to a node with the operation and the list `from` of `a`. (A path holds the copy
`sibling` of an `ADD` node in place of the node.) -/
def StorageAddressingNode.IsUpstreamOf (tbl : NodeTable) (a b : StorageAddressingNode) : Prop :=
  ∃ u n, some u ∈ b.From ∧ mapGet tbl u = some n ∧ n.operation = a.operation ∧ n.From = a.From

/-- The nodes that `iter` appends to a path from the node behind `p` on, in the order of the
calls: each stands for the node behind a pointer, the first for `p`, each next one for an
upstream of the one before, all but the last belong to an `ADD`, `KECCAK256`, `SLOAD` or
`SSTORE`, and the last to a `PUSH`. -/
def Descends (sh : Nat → Option StorageAddressingNode) : Nat → List StorageAddressingNode → Prop
  | _, [] => False
  | p, [e] => sh p = some e.norm ∧ vm.IsPush e.operation.OpCode = true
  | p, e :: e2 :: rest =>
      sh p = some e.norm ∧ IsAddressingStep e.operation.OpCode ∧
        ∃ u, some u ∈ e.From ∧ Descends sh u (e2 :: rest)

/-- The struct `StorageAddressingPathAnalyzer` with the objects it allocates: the variable (its
address and its slot) if one is set, the nodes it made, the calls of the callback
`OnStorageStoredOrLoaded` in order, and whether a call of `SinkTainted` has panicked. -/
structure StorageAddressingPathAnalyzer where
  StorageVariable : Option (Address × Hash)
  nodes : NodeTable
  reported : List (OpCode × List AddressingPath)
  panicked : Bool
  deriving DecidableEq

/-- An analyzer before its first node. -/
def StorageAddressingPathAnalyzer.new (storageVariable : Option (Address × Hash)) :
    StorageAddressingPathAnalyzer :=
  { StorageVariable := storageVariable, nodes := [], reported := [], panicked := false }

/-- The method `NewFlowNode`: a new `StorageAddressingNode` with the operation. In the list of
all nodes it stands with its operation and an identifier without label; its list `from` is the
one of the table. -/
def NewFlowNode : CallView → Operation → World StorageAddressingPathAnalyzer →
    World StorageAddressingPathAnalyzer × FlowNode := fun _ operation w =>
  ({ w with
      nodes := w.nodes ++ [NewRawFlowNode operation ""]
      analyzer :=
        { w.analyzer with
          nodes := mapSet w.analyzer.nodes w.nodes.length
            { operation := operation, Operand := none, Ingredient := none, upstream := [] } } },
    some w.nodes.length)

/-- The method `CheckOperation`. -/
def CheckOperation : CallView → Operation → World StorageAddressingPathAnalyzer →
    World StorageAddressingPathAnalyzer × (Bool × Bool) := fun view operation w =>
  let stateAddr := (view[operation.msgCall]?).map (fun c => c.StateAddr)
  let isSource :=
    vm.IsPush operation.OpCode &&
      (match w.analyzer.StorageVariable with
        | none => true
        | some v => decide (some v.1 = stateAddr))
  let isSink :=
    (operation.OpCode == vm.SLOAD || operation.OpCode == vm.SSTORE) &&
      (match w.analyzer.StorageVariable with
        | none => true
        | some v => decide (some v.1 = stateAddr) && decide (some v.2 = operation.Arg 0))
  (w, (isSource, isSink))

/-- The method `SinkTainted`: the paths of the node go to the callback. A nil node, a node of
another type and a panic of `AddressingPaths` are recorded in `panicked`. The fuel is the number
of nodes allocated so far: each step of `iter` goes to an upstream of the node. -/
def SinkTainted : CallView → Nat → FlowNode → World StorageAddressingPathAnalyzer →
    World StorageAddressingPathAnalyzer := fun _ _ flowedValue w =>
  match flowedValue with
  | none => { w with analyzer := { w.analyzer with panicked := true } }
  | some p =>
      match w.nodes[p]?, AddressingPaths (w.nodes.length + 1) w.analyzer.nodes p with
      | some node, some (tbl, paths) =>
          { w with
            analyzer :=
              { w.analyzer with
                nodes := tbl
                reported := w.analyzer.reported ++ [(node.operation.OpCode, paths)] } }
      | _, _ => { w with analyzer := { w.analyzer with panicked := true } }

/-- A call of `AddUpstream` through the interface `FlowNode`: a `StorageAddressingNode` appends
the nodes to its list, another node takes them into its map; a nil node panics. -/
def addUpstream (w : World StorageAddressingPathAnalyzer) (node : FlowNode)
    (ups : FlowNodeList) : Option (World StorageAddressingPathAnalyzer) :=
  match node with
  | none => none
  | some p =>
      match mapGet w.analyzer.nodes p with
      | some n =>
          some { w with
            analyzer :=
              { w.analyzer with
                nodes := mapSet w.analyzer.nodes p { n with upstream := n.upstream ++ ups } } }
      | none => w.AddUpstream node ups

/-- An assignment to the fields of the `StorageAddressingNode` behind a node, after the type
assertion `.(*StorageAddressingNode)`. -/
def assign (w : World StorageAddressingPathAnalyzer) (node : FlowNode)
    (f : StorageAddressingNode → StorageAddressingNode) :
    Option (World StorageAddressingPathAnalyzer) :=
  match node with
  | none => none
  | some p =>
      match mapGet w.analyzer.nodes p with
      | some n =>
          some { w with analyzer := { w.analyzer with nodes := mapSet w.analyzer.nodes p (f n) } }
      | none => none

/-- The flow function `storageOpFlowFn`. A panic of `SinkTainted` ends the flow function. -/
def storageOpFlowFn : FlowFn StorageAddressingPathAnalyzer :=
  fun analyzer view _ collection operation stackArgs stackResults w => do
    let (w, (_, sink)) := analyzer.CheckOperation view operation w
    let address ← FlowNodeList.Back stackArgs 0
    if address.isSome then
      let (w, node) := analyzer.NewFlowNode view operation w
      let w ← assign w node (fun n => n)
      let w ← addUpstream w node [address]
      let arg0 ← operation.Arg 0
      let w ← assign w node (fun n => { n with Operand := some arg0 })
      if sink then
        let w := analyzer.SinkTainted view collection node w
        if w.analyzer.panicked then none else return (w, stackResults, none)
      else
        return (w, stackResults, none)
    else
      return (w, stackResults, none)

/-- The flow function `pureOpFlowFn` of this package. -/
def pureOpFlowFn : FlowFn StorageAddressingPathAnalyzer :=
  fun analyzer view _ _ operation stackArgs stackResults w => do
    if FlowNodeList.IsTainted stackArgs then
      let (w, node) := analyzer.NewFlowNode view operation w
      let stackResults ← setResult stackResults 0 node
      let w ← addUpstream w node stackArgs
      return (w, stackResults, none)
    else
      return (w, stackResults, none)

/-- The value of a big-endian byte string, `new(big.Int).SetBytes`. -/
def bytesToNat (bytes : List Nat) : Nat := bytes.foldl (fun acc b => acc * 256 + b) 0

/-- The call `helpers.GetMemoryCopyWithPadding(scope.Memory, int64(offset), 32)` followed by the
conversion to a 256-bit word. An offset of `2^63` or more is negative as an `int64`, and the
slice expression of `GetPtr` panics. The backing array of the memory is taken without spare
capacity. -/
def wordAt (scope : vm.ScopeContext) (offset : Nat) : Option Nat :=
  if 2 ^ 63 ≤ offset then none
  else (GetMemoryCopyWithPadding { store := scope.Memory, spare := [] } offset 32).map bytesToNat

/-- The flow function `hashOpFlowFn` of this package. -/
def hashOpFlowFn : FlowFn StorageAddressingPathAnalyzer :=
  fun analyzer view scope collection operation _ stackResults w => do
    let offset := Uint64 (← operation.Arg 0)
    let size := Uint64 (← operation.Arg 1)
    if size = 64 then
      let operand ← w.MemoryLoad collection ((offset + 32) % 2 ^ 64) 32
      let (w, node) := analyzer.NewFlowNode view operation w
      let w ← assign w node (fun n => n)
      let w ← addUpstream w node operand
      let ingredientValue ← wordAt scope offset
      let w ← assign w node (fun n => { n with Ingredient := some ingredientValue })
      let operandValue ← wordAt scope ((offset + 32) % 2 ^ 64)
      let w ← assign w node (fun n => { n with Operand := some operandValue })
      if FlowNodeList.IsTainted operand then
        let stackResults ← setResult stackResults 0 node
        return (w, stackResults, none)
      else
        return (w, stackResults, none)
    else if size = 32 then
      let operand ← w.MemoryLoad collection offset 32
      let (w, node) := analyzer.NewFlowNode view operation w
      let w ← assign w node (fun n => n)
      let w ← addUpstream w node operand
      let operandValue ← wordAt scope offset
      let w ← assign w node (fun n => { n with Operand := some operandValue })
      if FlowNodeList.IsTainted operand then
        let stackResults ← setResult stackResults 0 node
        return (w, stackResults, none)
      else
        return (w, stackResults, none)
    else
      return (w, stackResults, none)

/-- The function `genFlowPolicy`. -/
def genFlowPolicy : FlowPolicy StorageAddressingPathAnalyzer := fun op =>
  if op = vm.ADD then some pureOpFlowFn
  else if op = vm.SLOAD then some storageOpFlowFn
  else if op = vm.SSTORE then some storageOpFlowFn
  else if op = vm.KECCAK256 then some hashOpFlowFn
  else GenDefaultFlowPolicy op

/-- The analyzer as the tracer gets it. -/
def StorageAddressingPathAnalyzer.methods : Analyzer StorageAddressingPathAnalyzer :=
  { NewFlowNode := NewFlowNode
    CheckOperation := CheckOperation
    SinkTainted := SinkTainted
    FlowPolicy := genFlowPolicy }

end storage_address

namespace Example

open data_flow storage_address

/-- A tracer with the storage addressing analyzer, without storage variable, under the
key 0. -/
def addressingTracer : DataFlowTracer StorageAddressingPathAnalyzer :=
  NewDataFlowTracer [(0, StorageAddressingPathAnalyzer.methods)]
    (fun _ => StorageAddressingPathAnalyzer.new none)

/-- The scope of an operation of the contract 1000 with 64 bytes of memory: the word 7 at
offset 0 and a word below 256 at offset 32. -/
def scopeWithWords (second : Nat) (stack : List Nat) : vm.ScopeContext :=
  { Memory := List.replicate 31 0 ++ [7] ++ List.replicate 31 0 ++ [second], Stack := stack,
    Contract := { self := 1000, CodeAddr := some 1000 } }

/-- The scope with the word 1 at offset 32. -/
def scopeWithMemory (stack : List Nat) : vm.ScopeContext := scopeWithWords 1 stack

/-- The callbacks of a transaction to the contract 1000, whose code reads the entry of the key 7
of the mapping at slot 1: it writes 7 to the memory word at offset 0 and 1 to the word at offset
32, hashes the 64 bytes at offset 0 and loads the slot of the hash (here 99). -/
def mappingLoad : List TracerEvent :=
  [ TracerEvent.TransactionStart Example.callTx 0,
    TracerEvent.CaptureStart,
    TracerEvent.CaptureState 0 vm.PUSH1 100000 3 (Example.scope []) none,
    TracerEvent.CaptureState 2 vm.PUSH1 99997 3 (Example.scope [7]) none,
    TracerEvent.CaptureState 4 vm.MSTORE 99994 6 (Example.scope [7, 0]) none,
    TracerEvent.CaptureState 5 vm.PUSH1 99988 3 (Example.scope []) none,
    TracerEvent.CaptureState 7 vm.PUSH1 99985 3 (Example.scope [1]) none,
    TracerEvent.CaptureState 9 vm.MSTORE 99982 6 (Example.scope [1, 32]) none,
    TracerEvent.CaptureState 10 vm.PUSH1 99976 3 (scopeWithMemory []) none,
    TracerEvent.CaptureState 12 vm.PUSH1 99973 3 (scopeWithMemory [64]) none,
    TracerEvent.CaptureState 14 vm.KECCAK256 99970 42 (scopeWithMemory [64, 0]) none,
    TracerEvent.CaptureState 15 vm.SLOAD 99928 2100 (scopeWithMemory [99]) none ]

/-- The callbacks of a transaction to the contract 1000, whose code writes 1 to the memory word
at offset 32, then the low byte of 2 to the byte at offset 63, and hashes the 64 bytes at
offset 0. -/
def byteStoreThenHash : List TracerEvent :=
  [ TracerEvent.TransactionStart Example.callTx 0,
    TracerEvent.CaptureStart,
    TracerEvent.CaptureState 0 vm.PUSH1 100000 3 (Example.scope []) none,
    TracerEvent.CaptureState 2 vm.PUSH1 99997 3 (Example.scope [1]) none,
    TracerEvent.CaptureState 4 vm.MSTORE 99994 6 (Example.scope [1, 32]) none,
    TracerEvent.CaptureState 5 vm.PUSH1 99988 3 (Example.scope []) none,
    TracerEvent.CaptureState 7 vm.PUSH1 99985 3 (Example.scope [2]) none,
    TracerEvent.CaptureState 9 vm.MSTORE8 99982 3 (scopeWithMemory [2, 63]) none,
    TracerEvent.CaptureState 10 vm.PUSH1 99979 3 (scopeWithWords 2 []) none,
    TracerEvent.CaptureState 12 vm.PUSH1 99976 3 (scopeWithWords 2 [64]) none,
    TracerEvent.CaptureState 14 vm.KECCAK256 99973 42 (scopeWithWords 2 [64, 0]) none ]

/-- The next callback: the code loads the slot of the hash (here 99). -/
def loadHashedSlot : TracerEvent :=
  TracerEvent.CaptureState 15 vm.SLOAD 99931 2100 (scopeWithWords 2 [99]) none

/-- The operation of an `SLOAD` of the slot 15 in the root call. -/
def sloadOperation : Operation :=
  { TraceLocation :=
      { pos := { position := [], compactPosition := [] }, codeAddr := 1000, pc := 3,
        opcode := vm.SLOAD, gasAvailable := 99994, gasUsed := 2100, index := 2 }
    msgCall := 0
    args := [15] }

/-- The node of the `PUSH1`. -/
def seedNode : StorageAddressingNode :=
  { operation := pushOperation, Operand := none, Ingredient := none, upstream := [] }

/-- The node of the `SLOAD`, which flows from the node of the `ADD`. -/
def slotNode : StorageAddressingNode :=
  { operation := sloadOperation, Operand := some 15, Ingredient := none, upstream := [some 1] }

/-- The nodes of the analyzer after `PUSH1 7`, the `ADD` of 7 and an untainted 8, and the
`SLOAD` of the sum: the list `from` of the `ADD` node holds the node of the `PUSH1` and nil. -/
def addressingTable : NodeTable :=
  [ (0, seedNode),
    (1, { operation := addOperation, Operand := none, Ingredient := none,
          upstream := [some 0, none] }),
    (2, slotNode) ]

end Example

/-! ## The oracle in the words of the specification -/

/-- The profits of the attack scenario as the specification words them: those of the attack
transaction merged with those of the profit transaction, when there is one. -/
def AttackSearcher.scenarioProfits (i : OracleInput) : Profits :=
  Profits.Add (Profits.Add [] i.ar) (i.pr.getD [])

/-- The profits of the attack-free scenario as the specification words them: those of the attack
transaction as if there were no attack, merged with those of the profit transaction as if
there were none. -/
def AttackSearcher.attackFreeProfits (i : OracleInput) : Profits :=
  Profits.Add (Profits.Add [] i.attackTxAsIfSummary) (i.profitTxAsIfSummary.getD [])

/-- The attacker `a` gains, in the words of the specification: the comparison of its profits in
the attack scenario with its profits in the attack-free scenario is `(1, nil)`. -/
def AttackSearcher.GainsInScenario (i : OracleInput) (a : Address) : Prop :=
  Profits.Cmp ((AttackSearcher.scenarioProfits i).ProfitsOf a)
    ((AttackSearcher.attackFreeProfits i).ProfitsOf a) = (1, none)

/-- An attack whose gain arrives with the profit transaction: the attack transaction moves no
asset of the attacker `0x1`, the victim `0x2` loses 5 wei in its transaction, and the profit
transaction gives the attacker 5 wei; without the attack nobody gains or loses. -/
def Example.gainInProfitTx (capacity : Nat) (handlerSet : Bool) : OracleInput :=
  { attackers := [1], victims := [2], ar := [], vr := [Profit.EtherProfit 2 (-5)],
    pr := some [Profit.EtherProfit 1 5], attackTxAsIfSummary := [], victimTxAsIfSummary := [],
    profitTxAsIfSummary := some [], handlerSet := handlerSet, capacity := capacity }

namespace Example

open data_flow storage_address

/-- A tracer with two storage addressing analyzers: under the key 0 one that watches the slot 0
of the contract 5, which the traced code does not touch, under the key 1 one without storage
variable, which watches every slot. -/
def twoAddressingTracers : DataFlowTracer StorageAddressingPathAnalyzer :=
  NewDataFlowTracer
    [(0, StorageAddressingPathAnalyzer.methods), (1, StorageAddressingPathAnalyzer.methods)]
    (fun a => StorageAddressingPathAnalyzer.new (if a = 0 then some (5, 0) else none))

/-- The tracer with the first of the two analyzers alone. -/
def watchingTracer : DataFlowTracer StorageAddressingPathAnalyzer :=
  NewDataFlowTracer [(0, StorageAddressingPathAnalyzer.methods)]
    (fun a => StorageAddressingPathAnalyzer.new (if a = 0 then some (5, 0) else none))

/-- An analyzer with the methods of the test analyzer and a policy without any entry. -/
def withoutPolicy : Analyzer data_flow_test.analyzer :=
  { data_flow_test.analyzer.methods Example.nothingIsSource with FlowPolicy := fun _ => none }

end Example

/-- The list `L` shows a pairing of sign `s` to `Profits.Cmp`, which compares the lists after
dropping the profits of amount zero: it holds no profit with a non-zero amount at all, or one
of its profits with a non-zero amount stands in a pairing of sign `s` (seen from `L`). -/
def Profits.ShowsPairing (s : Int) (L other : Profits) : Prop :=
  (∀ p ∈ L, p.amount = 0) ∨ ∃ p ∈ L, p.amount ≠ 0 ∧ Profits.pairing p other = s

namespace data_flow

/-! ## The order in which flow nodes are created -/

/-- The value is nil or a pointer to one of the first `B` nodes. -/
def PtrBelow (B : Nat) (v : FlowNode) : Prop := ∀ p, v = some p → p < B

/-- Every value of the list is nil or a pointer to one of the first `B` nodes. -/
def ListBelow (B : Nat) (l : FlowNodeList) : Prop := ∀ v ∈ l, PtrBelow B v

/-- Every value of the map is nil or a pointer to one of the first `B` nodes. -/
def MapBelow {K : Type} (B : Nat) (m : List (K × FlowNode)) : Prop := ∀ e ∈ m, PtrBelow B e.2

/-- The mirror stack and memory of the collection hold pointers to the first `B` nodes only. -/
def TrackerCollection.Below (B : Nat) (col : TrackerCollection) : Prop :=
  ListBelow B col.Stack.elems ∧ MapBelow B col.Memory.mem

/-- The chain holds pointers to the first `B` nodes only. -/
def chain.Below (B : Nat) (c : chain) : Prop := MapBelow B c.balances ∧ MapBelow B c.codes

/-- The call object holds pointers to the first `B` nodes only. -/
def call.Below (B : Nat) (c : call) : Prop :=
  PtrBelow B c.value ∧ MapBelow B c.data ∧ MapBelow B c.returnData ∧ PtrBelow B c.success ∧
    PtrBelow B c.source

/-- The objects of the analyzer hold pointers to the first `B` nodes only. -/
def World.Below {σ : Type} (B : Nat) (w : World σ) : Prop :=
  (∀ col ∈ w.collections, col.Below B) ∧ (∀ s ∈ w.storages, MapBelow B s.slots) ∧
    (∀ c ∈ w.chains, c.Below B) ∧ (∀ c ∈ w.calls, c.Below B)

/-- Every upstream of a node was allocated before the node: its pointer is smaller. -/
def UpstreamsEarlier (nodes : List RawFlowNode) : Prop :=
  ∀ (n : Nat) (N : RawFlowNode), nodes[n]? = some N → ∀ u ∈ N.From, u < n

/-- The state of the objects of an analyzer between two steps of a flow function: the mirror
objects refer to the first `B` nodes only, which exist, and every upstream is earlier than its
node. -/
def World.St {σ : Type} (B : Nat) (w : World σ) : Prop :=
  w.Below B ∧ B ≤ w.nodes.length ∧ UpstreamsEarlier w.nodes

/-- The state of the objects of an analyzer between two callbacks. -/
def World.Sound {σ : Type} (w : World σ) : Prop := w.St w.nodes.length

/-- The methods of an analyzer that allocates a new node without upstream at every call of
`NewFlowNode`, as the test analyzer of the package does, and that leaves the nodes and the
mirror objects alone otherwise. -/
structure AnalyzerMethods.Allocating {σ : Type} (m : AnalyzerMethods σ) : Prop where
  newFlowNode : ∀ view op w, ∃ node : RawFlowNode, node.upstream = [] ∧
    (m.NewFlowNode view op w).2 = some w.nodes.length ∧
    (m.NewFlowNode view op w).1.nodes = w.nodes ++ [node] ∧
    (m.NewFlowNode view op w).1.storages = w.storages ∧
    (m.NewFlowNode view op w).1.chains = w.chains ∧
    (m.NewFlowNode view op w).1.calls = w.calls ∧
    (m.NewFlowNode view op w).1.collections = w.collections
  checkOperation : ∀ view op w,
    (m.CheckOperation view op w).1.nodes = w.nodes ∧
    (m.CheckOperation view op w).1.storages = w.storages ∧
    (m.CheckOperation view op w).1.chains = w.chains ∧
    (m.CheckOperation view op w).1.calls = w.calls ∧
    (m.CheckOperation view op w).1.collections = w.collections
  sinkTainted : ∀ view c v w,
    (m.SinkTainted view c v w).nodes = w.nodes ∧
    (m.SinkTainted view c v w).storages = w.storages ∧
    (m.SinkTainted view c v w).chains = w.chains ∧
    (m.SinkTainted view c v w).calls = w.calls ∧
    (m.SinkTainted view c v w).collections = w.collections

/-- A hook of a flow function keeps the state of the objects sound, on every state with at least
`L` nodes. -/
def HookOk {σ : Type} (L : Nat) (h : PolicyHook σ) : Prop :=
  ∀ view scope res (w w1 : World σ) res1, w.Sound → L ≤ w.nodes.length →
    ListBelow w.nodes.length res → h view scope res w = some (w1, res1) →
    w1.Sound ∧ w.nodes.length ≤ w1.nodes.length ∧ ListBelow w1.nodes.length res1

/-- A registered callback keeps the state of the objects sound, on every state with at least `L`
nodes. -/
def AfterHookOk {σ : Type} (L : Nat) (h : AfterOperationHook σ) : Prop :=
  ∀ view scope (w w1 : World σ), w.Sound → L ≤ w.nodes.length → h view scope w = some w1 →
    w1.Sound ∧ w.nodes.length ≤ w1.nodes.length

/-- A flow function keeps the state of the objects sound and returns results and a hook that do
so, with every allocating analyzer. -/
def FlowOk {σ : Type} (f : FlowFn σ) : Prop :=
  ∀ (analyzer : AnalyzerMethods σ), analyzer.Allocating →
    ∀ view scope c op args res (w w1 : World σ) res1 hook,
      w.Sound → ListBelow w.nodes.length args → ListBelow w.nodes.length res →
      f analyzer view scope c op args res w = some (w1, res1, hook) →
      w1.Sound ∧ w.nodes.length ≤ w1.nodes.length ∧ ListBelow w1.nodes.length res1 ∧
        ∀ h, hook = some h → HookOk w1.nodes.length h

end data_flow

namespace data_flow

/-- The callbacks registered in the data of a message call keep the objects of their analyzers
sound. -/
def DataOk {σ : Type} (worlds : Nat → World σ) (o : Option (Data σ)) : Prop :=
  ∀ d, o = some d → ∀ (a : Nat) (h : AfterOperationHook σ),
    d.lastStateCallbacks a = some h → AfterHookOk (worlds a).nodes.length h

/-- The state of a loop over the analyzers inside a callback that started with the objects
`worlds0`. -/
def LoopOk {σ : Type} (worlds0 : Nat → World σ) (s : Option (Data σ) × (Nat → World σ)) :
    Prop :=
  (∀ a, (s.2 a).Sound) ∧ DataOk s.2 s.1 ∧
    ∀ a, (worlds0 a).nodes.length ≤ (s.2 a).nodes.length

/-- The objects of the analyzers are sound and no node was added to those of `worlds0`. -/
def EnterOk {σ : Type} (worlds0 : Nat → World σ) (s : (Nat → Option Nat) × (Nat → World σ)) :
    Prop :=
  (∀ a, (s.2 a).Sound) ∧ ∀ a, (s.2 a).nodes.length = (worlds0 a).nodes.length

/-- The state of the tracer between two callbacks, when every analyzer allocates and uses the
default policy. -/
def DataFlowTracer.Inv {σ : Type} (t : DataFlowTracer σ) : Prop :=
  (∀ a, (t.worlds a).Sound) ∧
    (∀ c ∈ t.BasicNestedCallTracer.calls, DataOk t.worlds c.InnerData) ∧
    t.BasicNestedCallTracer.MsgCallDataFactory = none ∧
    ∀ e ∈ t.analyzers, e.2.FlowPolicy = GenDefaultFlowPolicy ∧
      e.2.toAnalyzerMethods.Allocating

/-- The upstream relation among the nodes of an analyzer: the node `u` is in `From()` of the
node `n`. -/
def World.IsUpstream {σ : Type} (w : World σ) (n u : Nat) : Prop :=
  ∃ N, w.nodes[n]? = some N ∧ u ∈ N.From

end data_flow

/-- The callbacks of a transaction to the contract 1000, whose code pushes 7 and 8, writes the 8
to the memory word at offset 0 and then the 7, the older value, to the byte at offset 1, and
stops. -/
def Example.olderValueOverYounger : List TracerEvent :=
  [ TracerEvent.TransactionStart Example.callTx 0,
    TracerEvent.CaptureStart,
    TracerEvent.CaptureState 0 vm.PUSH1 100000 3 (Example.scope []) none,
    TracerEvent.CaptureState 2 vm.PUSH1 99997 3 (Example.scope [7]) none,
    TracerEvent.CaptureState 4 vm.PUSH1 99994 3 (Example.scope [7, 8]) none,
    TracerEvent.CaptureState 6 vm.MSTORE 99991 6 (Example.scope [7, 8, 0]) none,
    TracerEvent.CaptureState 7 vm.PUSH1 99985 3 (Example.scope [7]) none,
    TracerEvent.CaptureState 9 vm.MSTORE8 99982 3 (Example.scope [7, 1]) none,
    TracerEvent.CaptureState 10 vm.STOP 99979 0 (Example.scope []) none ]

/-! ## Facts about single profits -/

theorem bigCmp_cases (x y : Int) : bigCmp x y = -1 ∨ bigCmp x y = 0 ∨ bigCmp x y = 1 := by
  unfold bigCmp
  split_ifs <;> simp

theorem bigCmp_eq_zero_iff (x y : Int) : bigCmp x y = 0 ↔ x = y := by
  unfold bigCmp
  split_ifs <;> constructor <;> intro h <;> first | omega | exact h.elim

theorem bigCmp_pos_iff (x y : Int) : bigCmp x y > 0 ↔ y < x := by
  unfold bigCmp
  split_ifs <;> constructor <;> intro h <;> omega

theorem bigCmp_neg_iff (x y : Int) : bigCmp x y < 0 ↔ x < y := by
  unfold bigCmp
  split_ifs <;> constructor <;> intro h <;> omega

theorem bigCmp_swap (x y : Int) : bigCmp y x = -bigCmp x y := by
  unfold bigCmp
  split_ifs <;> omega

/-- Every comparison of two profits answers `-1`, `0` or `1`. -/
theorem Profit.Cmp_sign_cases (a b : Profit) :
    (a.Cmp b).1 = -1 ∨ (a.Cmp b).1 = 0 ∨ (a.Cmp b).1 = 1 := by
  cases a <;> cases b <;> simp only [Profit.Cmp] <;> (try split_ifs) <;>
    first
      | exact bigCmp_cases _ _
      | simp

/-- The three-way test of `ERC721CombinedProfit.Cmp` is the comparison of the two token
balances. -/
theorem Profit.Cmp_ERC721 (a c : Address) (r g : Finset Hash) (a2 c2 : Address)
    (r2 g2 : Finset Hash) :
    Profit.Cmp (Profit.ERC721CombinedProfit a c r g) (Profit.ERC721CombinedProfit a2 c2 r2 g2)
      = if a = a2 ∧ c = c2 then
          (bigCmp (Profit.netTokens r g) (Profit.netTokens r2 g2), none)
        else (0, some SummaryError.ErrNotComparable) := by
  simp only [Profit.Cmp, bigCmp]
  split_ifs <;> first | rfl | omega

/-- C4 (as stated) fails: `ZeroProfit` compares with an ether profit, answering `-1` without
error, while the ether profit compared with `ZeroProfit` answers `ErrNotComparable`; so the error
is not symmetric. -/
theorem Profit.Cmp_error_not_symmetric :
    ¬ (∀ a b : Profit,
        ((a.Cmp b).2 = some SummaryError.ErrNotComparable ↔
          (b.Cmp a).2 = some SummaryError.ErrNotComparable)) := by
  intro h
  have h1 := h Profit.ZeroProfit (Profit.EtherProfit 1 5)
  have h2 : (Profit.Cmp (Profit.EtherProfit 1 5) Profit.ZeroProfit).2
      = some SummaryError.ErrNotComparable := by decide
  have h3 : (Profit.Cmp Profit.ZeroProfit (Profit.EtherProfit 1 5)).2 = none := by decide
  rw [h1.mpr h2] at h3
  cases h3

/-- C4 (amended): for two profits that are both `ZeroProfit` or neither, `a.Cmp(b)` returns
`ErrNotComparable` exactly when `b.Cmp(a)` does, and when both are defined `a.Cmp(b) = 0` iff
`b.Cmp(a) = 0` and `a.Cmp(b) > 0` iff `b.Cmp(a) < 0`. -/
theorem Profit.Cmp_antisymm (a b : Profit)
    (hz : a = Profit.ZeroProfit ↔ b = Profit.ZeroProfit) :
    ((a.Cmp b).2 = some SummaryError.ErrNotComparable ↔
        (b.Cmp a).2 = some SummaryError.ErrNotComparable) ∧
      ((a.Cmp b).2 = none → (b.Cmp a).2 = none →
        (((a.Cmp b).1 = 0 ↔ (b.Cmp a).1 = 0) ∧ ((a.Cmp b).1 > 0 ↔ (b.Cmp a).1 < 0))) := by
  cases a <;> cases b <;> simp at hz <;> simp only [Profit.Cmp]
  case ZeroProfit.ZeroProfit => simp [Profit.Positive, Profit.Zero]
  case EtherProfit.EtherProfit a v a2 v2 =>
    by_cases h : a = a2
    · subst h
      rw [if_pos rfl, if_pos rfl, bigCmp_swap v v2]
      refine ⟨by simp, fun _ _ => ⟨by omega, by omega⟩⟩
    · have h2 : ¬ a2 = a := fun e => h e.symm
      simp [h, h2]
  case ERC20Profit.ERC20Profit a c v a2 c2 v2 =>
    by_cases h : a = a2 ∧ c = c2
    · obtain ⟨rfl, rfl⟩ := h
      rw [if_pos ⟨rfl, rfl⟩, if_pos ⟨rfl, rfl⟩, bigCmp_swap v v2]
      refine ⟨by simp, fun _ _ => ⟨by omega, by omega⟩⟩
    · have h2 : ¬ (a2 = a ∧ c2 = c) := fun e => h ⟨e.1.symm, e.2.symm⟩
      simp [h, h2]
  case ERC721CombinedProfit.ERC721CombinedProfit a c r g a2 c2 r2 g2 =>
    rw [← Profit.Cmp, ← Profit.Cmp, Profit.Cmp_ERC721, Profit.Cmp_ERC721]
    by_cases h : a = a2 ∧ c = c2
    · obtain ⟨rfl, rfl⟩ := h
      rw [if_pos ⟨rfl, rfl⟩, if_pos ⟨rfl, rfl⟩,
        bigCmp_swap (Profit.netTokens r g) (Profit.netTokens r2 g2)]
      refine ⟨by simp, fun _ _ => ⟨by omega, by omega⟩⟩
    · have h2 : ¬ (a2 = a ∧ c2 = c) := fun e => h ⟨e.1.symm, e.2.symm⟩
      simp [h, h2]
  case ERC777Profit.ERC777Profit a c v a2 c2 v2 =>
    by_cases h : a = a2 ∧ c = c2
    · obtain ⟨rfl, rfl⟩ := h
      rw [if_pos ⟨rfl, rfl⟩, if_pos ⟨rfl, rfl⟩, bigCmp_swap v v2]
      refine ⟨by simp, fun _ _ => ⟨by omega, by omega⟩⟩
    · have h2 : ¬ (a2 = a ∧ c2 = c) := fun e => h ⟨e.1.symm, e.2.symm⟩
      simp [h, h2]
  case ERC1155Profit.ERC1155Profit a c t v a2 c2 t2 v2 =>
    by_cases h : a = a2 ∧ c = c2 ∧ t = t2
    · obtain ⟨rfl, rfl, rfl⟩ := h
      rw [if_pos ⟨rfl, rfl, rfl⟩, if_pos ⟨rfl, rfl, rfl⟩, bigCmp_swap v v2]
      refine ⟨by simp, fun _ _ => ⟨by omega, by omega⟩⟩
    · have h2 : ¬ (a2 = a ∧ c2 = c ∧ t2 = t) := fun e => h ⟨e.1.symm, e.2.1.symm, e.2.2.symm⟩
      simp [h, h2]
  all_goals simp

/-- C4 witness: an ether gain of 3 against an ether gain of 5 of the same account. -/
theorem Profit.Cmp_antisymm_witness :
    (Profit.Cmp (Profit.EtherProfit 1 3) (Profit.EtherProfit 1 5)).1 = -1 ∧
      (Profit.Cmp (Profit.EtherProfit 1 5) (Profit.EtherProfit 1 3)).1 = 1 ∧
      (((Profit.Cmp (Profit.EtherProfit 1 3) (Profit.EtherProfit 1 5)).1 > 0 ↔
        (Profit.Cmp (Profit.EtherProfit 1 5) (Profit.EtherProfit 1 3)).1 < 0)) :=
  ⟨by decide, by decide,
    ((Profit.Cmp_antisymm (Profit.EtherProfit 1 3) (Profit.EtherProfit 1 5)
      (by decide)).2 (by decide) (by decide)).2⟩

/-- C5 (code at the failing input): `Compact` returns two ether profits of one account as they
are, although the first merges with the second into their sum. -/
theorem Profits.Compact_leaves_mergeable :
    Profits.Compact [Profit.EtherProfit 1 1, Profit.EtherProfit 1 2]
        = [Profit.EtherProfit 1 1, Profit.EtherProfit 1 2] ∧
      Profit.Merge (Profit.EtherProfit 1 1) (Profit.EtherProfit 1 2)
        = Except.ok (Profit.EtherProfit 1 3) :=
  ⟨by decide, rfl⟩

/-- C2, refuted as stated: the first list holds one ether profit, the second holds an equal
ether profit and a token gain besides. Every pairing has the first side less than or equal and
one strictly less, and `Cmp` answers `ErrNotComparable`, since the first list shows no strict
pairing of its own and the last test `result == -reverseResult` rejects 0 against 1; the same
holds the other way round, and also for the lists of the test "should return -1 when all
profits in ps1 <= ps2" when the smaller profit of the first list is zero. -/
theorem Profits.Cmp_included_equal_not_comparable :
    Profits.Cmp [Profit.EtherProfit 1 1] [Profit.EtherProfit 1 1, Profit.ERC20Profit 1 2 1]
        = (0, some SummaryError.ErrNotComparable) ∧
      Profits.Cmp [Profit.EtherProfit 1 1, Profit.ERC20Profit 1 2 1] [Profit.EtherProfit 1 1]
        = (0, some SummaryError.ErrNotComparable) ∧
      Profits.Cmp [Profit.EtherProfit 1 0, Profit.EtherProfit 2 2]
          [Profit.EtherProfit 1 1, Profit.EtherProfit 2 2]
        = (0, some SummaryError.ErrNotComparable) ∧
      Profits.pairings [Profit.EtherProfit 1 1]
          [Profit.EtherProfit 1 1, Profit.ERC20Profit 1 2 1] = [0, 0, -1] ∧
      Profits.pairings [Profit.EtherProfit 1 0, Profit.EtherProfit 2 2]
          [Profit.EtherProfit 1 1, Profit.EtherProfit 2 2] = [-1, 0, -1, 0] := by
  decide

/-! ## The attack oracle -/

theorem Profits.firstCmp_cases (p : Profit) (o : Profits) (c : Int)
    (h : Profits.firstCmp p o = some c) : c = -1 ∨ c = 0 ∨ c = 1 := by
  induction o with
  | nil => simp [Profits.firstCmp] at h
  | cons q o ih =>
    unfold Profits.firstCmp at h
    have hq := Profit.Cmp_sign_cases p q
    rcases hc : p.Cmp q with ⟨c1, e⟩
    rw [hc] at h hq
    cases e with
    | none =>
      simp only [Option.some.injEq] at h
      subst h
      exact hq
    | some e => exact ih h

theorem Profits.cmpAgainst_cases (p : Profit) (o : Profits) :
    Profits.cmpAgainst p o = -1 ∨ Profits.cmpAgainst p o = 0 ∨ Profits.cmpAgainst p o = 1 := by
  unfold Profits.cmpAgainst
  cases h : Profits.firstCmp p o with
  | some c => exact Profits.firstCmp_cases p o c h
  | none =>
    simp only
    split_ifs <;> simp

theorem Profits.innerCmpLoop_cases (o t : Profits) (tmp : Int)
    (ht : tmp = -1 ∨ tmp = 0 ∨ tmp = 1) :
    (Profits.innerCmpLoop o t tmp).1 = -1 ∨ (Profits.innerCmpLoop o t tmp).1 = 0 ∨
      (Profits.innerCmpLoop o t tmp).1 = 1 := by
  induction t generalizing tmp with
  | nil => simpa [Profits.innerCmpLoop] using ht
  | cons p t ih =>
    unfold Profits.innerCmpLoop
    simp only
    split_ifs
    · exact ih _ (Profits.cmpAgainst_cases p o)
    · simp
    · exact ih _ ht

/-- The comparison of two profit sets answers `-1`, `0` or `1`. -/
theorem Profits.Cmp_result_cases (ps other : Profits) :
    (Profits.Cmp ps other).1 = -1 ∨ (Profits.Cmp ps other).1 = 0 ∨
      (Profits.Cmp ps other).1 = 1 := by
  unfold Profits.Cmp
  simp only
  generalize (if (Profits.Compact ps).length = 0 then
    Profits.Add (Profits.Compact ps) [Profit.ZeroProfit] else Profits.Compact ps) = t
  generalize (if (Profits.Compact other).length = 0 then
    Profits.Add (Profits.Compact other) [Profit.ZeroProfit] else Profits.Compact other) = o
  have h1 := Profits.innerCmpLoop_cases o t 0 (by simp)
  unfold Profits.innerCmp
  rcases hr : Profits.innerCmpLoop o t 0 with ⟨r, e⟩
  rw [hr] at h1
  cases e with
  | some e => simp
  | none =>
    simp only
    rcases hr2 : Profits.innerCmpLoop t o 0 with ⟨r2, e2⟩
    cases e2 with
    | some e2 => simp
    | none =>
      simp only
      split_ifs
      · exact h1
      · simp

theorem AttackSearcher.attackerGains_iff (i : OracleInput) (a : Address) :
    AttackSearcher.attackerGains i a = true ↔ AttackSearcher.Gains i a := by
  unfold AttackSearcher.attackerGains AttackSearcher.Gains
  simp only [decide_eq_true_eq]
  have h := Profits.Cmp_result_cases ((AttackSearcher.attackTxProfits i).ProfitsOf a)
    ((AttackSearcher.attackTxAsIfProfits i).ProfitsOf a)
  rcases hr : Profits.Cmp ((AttackSearcher.attackTxProfits i).ProfitsOf a)
    ((AttackSearcher.attackTxAsIfProfits i).ProfitsOf a) with ⟨c, e⟩
  rw [hr] at h
  simp only [Prod.mk.injEq]
  constructor
  · rintro ⟨he, hc⟩
    exact ⟨by omega, he⟩
  · rintro ⟨hc, he⟩
    exact ⟨he, by omega⟩

theorem AttackSearcher.victimLoses_iff (i : OracleInput) (v : Address) :
    AttackSearcher.victimLoses i v = true ↔ AttackSearcher.Loses i v := by
  unfold AttackSearcher.victimLoses AttackSearcher.Loses
  simp only [decide_eq_true_eq]
  have h := Profits.Cmp_result_cases ((AttackSearcher.victimTxProfits i).ProfitsOf v)
    ((AttackSearcher.victimTxAsIfProfits i).ProfitsOf v)
  rcases hr : Profits.Cmp ((AttackSearcher.victimTxProfits i).ProfitsOf v)
    ((AttackSearcher.victimTxAsIfProfits i).ProfitsOf v) with ⟨c, e⟩
  rw [hr] at h
  simp only [Prod.mk.injEq]
  constructor
  · rintro ⟨he, hc⟩
    exact ⟨by omega, he⟩
  · rintro ⟨hc, he⟩
    exact ⟨he, by omega⟩

theorem AttackSearcher.firstPassing_none (test : Address → Bool) (l : List Address) :
    AttackSearcher.firstPassing test l = none ↔ ∀ x ∈ l, test x = false := by
  induction l with
  | nil => simp [AttackSearcher.firstPassing]
  | cons a l ih =>
    unfold AttackSearcher.firstPassing
    by_cases h : test a = true
    · rw [if_pos h]
      simp [h]
    · rw [if_neg h, ih]
      simp only [Bool.not_eq_true] at h
      simp [h]

theorem AttackSearcher.firstPassing_some (test : Address → Bool) (l : List Address)
    (a : Address) :
    AttackSearcher.firstPassing test l = some a ↔ FirstSuch (fun x => test x = true) l a := by
  induction l with
  | nil => simp [AttackSearcher.firstPassing, FirstSuch]
  | cons b l ih =>
    unfold AttackSearcher.firstPassing
    by_cases h : test b = true
    · rw [if_pos h]
      simp only [Option.some.injEq]
      constructor
      · rintro rfl
        exact ⟨[], l, rfl, h, by simp⟩
      · rintro ⟨l1, l2, hl, ha, hno⟩
        cases l1 with
        | nil =>
          simp only [List.nil_append, List.cons.injEq] at hl
          exact hl.1
        | cons c l1 =>
          simp only [List.cons_append, List.cons.injEq] at hl
          exact absurd (hl.1 ▸ h) (hno c (List.mem_cons_self _ _))
    · rw [if_neg h, ih]
      constructor
      · rintro ⟨l1, l2, hl, ha, hno⟩
        refine ⟨b :: l1, l2, by simp [hl], ha, ?_⟩
        intro x hx
        rcases List.mem_cons.mp hx with rfl | hx
        · exact h
        · exact hno x hx
      · rintro ⟨l1, l2, hl, ha, hno⟩
        cases l1 with
        | nil =>
          simp only [List.nil_append, List.cons.injEq] at hl
          exact absurd (hl.1 ▸ ha) h
        | cons c l1 =>
          simp only [List.cons_append, List.cons.injEq] at hl
          exact ⟨l1, l2, hl.2, ha, fun x hx => hno x (List.mem_cons_of_mem _ hx)⟩

theorem FirstSuch.congr {P Q : Address → Prop} (h : ∀ x, P x ↔ Q x) (l : List Address)
    (a : Address) : FirstSuch P l a ↔ FirstSuch Q l a := by
  unfold FirstSuch
  constructor
  · rintro ⟨l1, l2, hl, ha, hno⟩
    exact ⟨l1, l2, hl, (h a).mp ha, fun x hx hq => hno x hx ((h x).mpr hq)⟩
  · rintro ⟨l1, l2, hl, ha, hno⟩
    exact ⟨l1, l2, hl, (h a).mpr ha, fun x hx hp => hno x hx ((h x).mp hp)⟩

theorem FirstSuch.exists_of_mem {P : Address → Prop} (l : List Address) (x : Address)
    (hx : x ∈ l) (hp : P x) : ∃ a, FirstSuch P l a := by
  classical
  induction l with
  | nil => cases hx
  | cons b l ih =>
    by_cases hb : P b
    · exact ⟨b, [], l, rfl, hb, by simp⟩
    · rcases List.mem_cons.mp hx with rfl | hx
      · exact absurd hp hb
      · obtain ⟨a, l1, l2, hl, ha, hno⟩ := ih hx
        refine ⟨a, b :: l1, l2, by simp [hl], ha, ?_⟩
        intro y hy
        rcases List.mem_cons.mp hy with rfl | hy
        · exact hb
        · exact hno y hy

theorem FirstSuch.unique {P : Address → Prop} (l : List Address) (a b : Address)
    (ha : FirstSuch P l a) (hb : FirstSuch P l b) : a = b := by
  classical
  have key : ∀ x, FirstSuch P l x ↔
      AttackSearcher.firstPassing (fun y => decide (P y)) l = some x := by
    intro x
    rw [AttackSearcher.firstPassing_some]
    exact FirstSuch.congr (fun y => by simp) l x
  have h1 := (key a).mp ha
  have h2 := (key b).mp hb
  rw [h1] at h2
  exact Option.some.inj h2

/-- The oracle on the profit lists that `CheckOracle` itself accumulates: it returns true exactly
when both candidate lists are non-empty, some attacker gains on those lists (`Cmp` of
`attackTxProfits` with `attackTxAsIfProfits`, restricted to the attacker, is `(1, nil)`) and some
victim loses (`Cmp` is `(-1, nil)`). When it returns true the handler, if one is installed, is
called exactly once, with the first such attacker and the first such victim in list order; when
it returns false the handler is not called. -/
theorem AttackSearcher.CheckOracle_spec (i : OracleInput) :
    ((AttackSearcher.CheckOracle i).1 = true ↔
        (i.attackers ≠ [] ∧ i.victims ≠ [] ∧
          (∃ a ∈ i.attackers, AttackSearcher.Gains i a) ∧
          (∃ v ∈ i.victims, AttackSearcher.Loses i v))) ∧
      ((AttackSearcher.CheckOracle i).1 = true →
        ∃ a v, FirstSuch (AttackSearcher.Gains i) i.attackers a ∧
          FirstSuch (AttackSearcher.Loses i) i.victims v ∧
          (AttackSearcher.CheckOracle i).2 =
            (if i.handlerSet then [AttackSearcher.reported i a v] else [])) ∧
      ((AttackSearcher.CheckOracle i).1 = false → (AttackSearcher.CheckOracle i).2 = []) := by
  have hG : ∀ x, (AttackSearcher.attackerGains i x = true) ↔ AttackSearcher.Gains i x :=
    AttackSearcher.attackerGains_iff i
  have hL : ∀ x, (AttackSearcher.victimLoses i x = true) ↔ AttackSearcher.Loses i x :=
    AttackSearcher.victimLoses_iff i
  unfold AttackSearcher.CheckOracle
  by_cases hlen : i.attackers.length = 0 ∨ i.victims.length = 0
  · rw [if_pos hlen]
    refine ⟨?_, by simp, by simp⟩
    constructor
    · intro h
      cases h
    · rintro ⟨h1, h2, -, -⟩
      rcases hlen with h | h
      · exact absurd (List.length_eq_zero.mp h) h1
      · exact absurd (List.length_eq_zero.mp h) h2
  · rw [if_neg hlen]
    have hne : i.attackers ≠ [] ∧ i.victims ≠ [] := by
      constructor
      · intro h
        exact hlen (Or.inl (by simp [h]))
      · intro h
        exact hlen (Or.inr (by simp [h]))
    cases ha : AttackSearcher.firstPassing (AttackSearcher.attackerGains i) i.attackers with
    | none =>
      have hno := (AttackSearcher.firstPassing_none _ _).mp ha
      refine ⟨?_, by simp, by simp⟩
      constructor
      · intro h
        cases h
      · rintro ⟨-, -, ⟨a, hmem, hg⟩, -⟩
        have := hno a hmem
        rw [(hG a).mpr hg] at this
        cases this
    | some a =>
      have hfa := (FirstSuch.congr hG i.attackers a).mp
        ((AttackSearcher.firstPassing_some _ _ a).mp ha)
      cases hv : AttackSearcher.firstPassing (AttackSearcher.victimLoses i) i.victims with
      | none =>
        have hno := (AttackSearcher.firstPassing_none _ _).mp hv
        refine ⟨?_, by simp, by simp⟩
        constructor
        · intro h
          cases h
        · rintro ⟨-, -, -, ⟨v, hmem, hl⟩⟩
          have := hno v hmem
          rw [(hL v).mpr hl] at this
          cases this
      | some v =>
        have hfv := (FirstSuch.congr hL i.victims v).mp
          ((AttackSearcher.firstPassing_some _ _ v).mp hv)
        refine ⟨?_, ?_, by simp⟩
        · simp only [true_iff]
          obtain ⟨l1, l2, hl, hga, -⟩ := hfa
          obtain ⟨m1, m2, hm, hlv, -⟩ := hfv
          exact ⟨hne.1, hne.2, ⟨a, by simp [hl], hga⟩, ⟨v, by simp [hm], hlv⟩⟩
        · intro _
          exact ⟨a, v, hfa, hfv, rfl⟩


/-! ## Comparison of profit sets -/

theorem Profit.Zero_eq_amount (p : Profit) : p.Zero = decide (p.amount = 0) := by
  cases p <;> simp [Profit.Zero, Profit.amount, bigCmp_eq_zero_iff]

theorem Profit.Positive_eq_amount (p : Profit) : p.Positive = decide (p.amount > 0) := by
  cases p <;> simp [Profit.Positive, Profit.amount, bigCmp_pos_iff]

theorem Profit.ZeroProfit_Cmp (q : Profit) :
    Profit.ZeroProfit.Cmp q = (bigCmp 0 q.amount, none) := by
  simp only [Profit.Cmp, Profit.Zero_eq_amount, Profit.Positive_eq_amount, decide_eq_true_eq]
  unfold bigCmp
  split_ifs <;> first | rfl | omega

theorem Profit.Cmp_eq_key (p q : Profit) (hp : p ≠ Profit.ZeroProfit) :
    p.Cmp q = if p.key = q.key then (bigCmp p.amount q.amount, none)
      else (0, some SummaryError.ErrNotComparable) := by
  cases p <;> cases q <;> first
    | exact absurd rfl hp
    | (rw [Profit.Cmp_ERC721]; simp [Profit.key, Profit.amount])
    | simp [Profit.Cmp, Profit.key, Profit.amount]

theorem Profit.key_eq_none_iff (p : Profit) : p.key = none ↔ p = Profit.ZeroProfit := by
  cases p <;> simp [Profit.key]

theorem Profit.Comparable_eq_key (p q : Profit) (hp : p ≠ Profit.ZeroProfit) :
    p.Comparable q = decide (p.key = q.key) := by
  unfold Profit.Comparable
  rw [Profit.Cmp_eq_key p q hp]
  by_cases h : p.key = q.key <;> simp [h]

theorem Profit.Comparable_ZeroProfit (q : Profit) : Profit.ZeroProfit.Comparable q = true := by
  unfold Profit.Comparable
  rw [Profit.ZeroProfit_Cmp]
  simp

theorem Profit.default_sign (p : Profit) :
    (if p.Positive then (1 : Int) else if p.Zero then 0 else -1) = bigCmp p.amount 0 := by
  rw [Profit.Zero_eq_amount, Profit.Positive_eq_amount]
  unfold bigCmp
  simp only [decide_eq_true_eq]
  split_ifs <;> first | rfl | omega

theorem Profits.firstCmp_eq_find (p : Profit) (o : Profits) :
    Profits.firstCmp p o =
      (o.find? (fun q => p.Comparable q)).map (fun q => (p.Cmp q).1) := by
  induction o with
  | nil => rfl
  | cons q o ih =>
    unfold Profits.firstCmp
    rw [List.find?_cons]
    unfold Profit.Comparable
    rcases hc : p.Cmp q with ⟨c, e⟩
    cases e with
    | none => simp [hc]
    | some e =>
      simp only [decide_False, reduceCtorEq]
      rw [ih]
      rfl

/-- The pairing of the specification is the value `cmp` that `innerCmp` computes. -/
theorem Profits.pairing_eq_cmpAgainst (p : Profit) (o : Profits) :
    Profits.pairing p o = Profits.cmpAgainst p o := by
  unfold Profits.pairing Profits.cmpAgainst
  rw [Profits.firstCmp_eq_find]
  cases o.find? (fun q => p.Comparable q) with
  | some q => rfl
  | none =>
    simp only [Option.map_none']
    rw [Profit.default_sign, Profit.ZeroProfit_Cmp, bigCmp_swap p.amount 0]
    simp

theorem Profits.cmpAgainst_of_key (p : Profit) (hp : p ≠ Profit.ZeroProfit) (o : Profits)
    (q : Profit) (hq : q ∈ o) (hk : q.key = p.key)
    (huniq : ∀ x ∈ o, x.key = p.key → x.amount = q.amount) :
    Profits.cmpAgainst p o = bigCmp p.amount q.amount := by
  unfold Profits.cmpAgainst
  induction o with
  | nil => cases hq
  | cons x o ih =>
    unfold Profits.firstCmp
    rw [Profit.Cmp_eq_key p x hp]
    by_cases hx : p.key = x.key
    · rw [if_pos hx]
      simp only
      rw [huniq x (List.mem_cons_self _ _) hx.symm]
    · rw [if_neg hx]
      simp only
      rcases List.mem_cons.mp hq with rfl | hq2
      · exact absurd hk.symm hx
      · exact ih hq2 (fun y hy => huniq y (List.mem_cons_of_mem _ hy))

theorem Profits.cmpAgainst_of_no_key (p : Profit) (hp : p ≠ Profit.ZeroProfit) (o : Profits)
    (hno : ∀ x ∈ o, x.key ≠ p.key) :
    Profits.cmpAgainst p o = bigCmp p.amount 0 := by
  unfold Profits.cmpAgainst
  induction o with
  | nil =>
    simp only [Profits.firstCmp]
    exact Profit.default_sign p
  | cons x o ih =>
    unfold Profits.firstCmp
    rw [Profit.Cmp_eq_key p x hp]
    have hx : ¬ p.key = x.key := fun e => hno x (List.mem_cons_self _ _) e.symm
    rw [if_neg hx]
    simp only
    exact ih (fun y hy => hno y (List.mem_cons_of_mem _ hy))

theorem Profits.NoTwoComparable.eq_of_key {l : Profits} (h : Profits.NoTwoComparable l)
    {a b : Profit} (ha : a ∈ l) (hb : b ∈ l) (hk : a.key = b.key) (hn : a.key ≠ none) :
    a = b := by
  by_contra hab
  have hsym : Symmetric (fun p q : Profit => p.Comparable q = false ∧ q.Comparable p = false) :=
    fun _ _ hpq => ⟨hpq.2, hpq.1⟩
  have hR := List.Pairwise.forall hsym h ha hb hab
  have hza : a ≠ Profit.ZeroProfit := fun e => hn ((Profit.key_eq_none_iff a).mpr e)
  rw [Profit.Comparable_eq_key a b hza] at hR
  simp [hk] at hR

theorem Profits.NoTwoComparable.eq_singleton_of_zero {l : Profits}
    (h : Profits.NoTwoComparable l) (hz : Profit.ZeroProfit ∈ l) : l = [Profit.ZeroProfit] := by
  have hsym : Symmetric (fun p q : Profit => p.Comparable q = false ∧ q.Comparable p = false) :=
    fun _ _ hpq => ⟨hpq.2, hpq.1⟩
  have hall : ∀ x ∈ l, x = Profit.ZeroProfit := by
    intro x hx
    by_contra hne
    have hR := List.Pairwise.forall hsym h hz hx (fun e => hne e.symm)
    rw [Profit.Comparable_ZeroProfit] at hR
    cases hR.1
  cases l with
  | nil => cases hz
  | cons a l =>
    have ha := hall a (List.mem_cons_self _ _)
    subst ha
    cases l with
    | nil => rfl
    | cons b l =>
      have hb := hall b (List.mem_cons_of_mem _ (List.mem_cons_self _ _))
      subst hb
      unfold Profits.NoTwoComparable at h
      rw [List.pairwise_cons] at h
      have := (h.1 Profit.ZeroProfit (List.mem_cons_self _ _)).1
      rw [Profit.Comparable_ZeroProfit] at this
      cases this

theorem Profits.mem_Compact (l : Profits) (x : Profit) :
    x ∈ Profits.Compact l ↔ x ∈ l ∧ x.amount ≠ 0 := by
  unfold Profits.Compact
  simp [List.mem_filter, Profit.Zero_eq_amount]

theorem Profits.mem_prepared (l : Profits) (x : Profit) (hx : x ∈ Profits.prepared l) :
    x = Profit.ZeroProfit ∨ (x ∈ l ∧ x.amount ≠ 0) := by
  unfold Profits.prepared at hx
  split_ifs at hx with h
  · rw [List.length_eq_zero.mp h] at hx
    simp [Profits.Add, Profits.addOne, Profit.Copy] at hx
    exact Or.inl hx
  · exact Or.inr ((Profits.mem_Compact l x).mp hx)

theorem Profits.mem_prepared_of_mem (l : Profits) (x : Profit) (hx : x ∈ l)
    (ha : x.amount ≠ 0) : x ∈ Profits.prepared l := by
  have hc : x ∈ Profits.Compact l := (Profits.mem_Compact l x).mpr ⟨hx, ha⟩
  unfold Profits.prepared
  rw [if_neg]
  · exact hc
  · intro h
    rw [List.length_eq_zero.mp h] at hc
    cases hc

theorem Profits.prepared_singleton_zero : Profits.prepared [Profit.ZeroProfit]
    = [Profit.ZeroProfit] := by
  decide

/-- Compacting the other list and putting `[ZeroProfit]` for an empty one does not change what
a profit other than `ZeroProfit` is compared with. -/
theorem Profits.cmpAgainst_prepared (p : Profit) (hp : p ≠ Profit.ZeroProfit) (B : Profits)
    (hB : Profits.NoTwoComparable B) :
    Profits.cmpAgainst p (Profits.prepared B) = Profits.cmpAgainst p B := by
  have hkp : p.key ≠ none := fun e => hp ((Profit.key_eq_none_iff p).mp e)
  by_cases hex : ∃ q ∈ B, q.key = p.key
  · obtain ⟨q, hq, hk⟩ := hex
    have hqk : q.key ≠ none := by rw [hk]; exact hkp
    rw [Profits.cmpAgainst_of_key p hp B q hq hk
      (fun x hx hxk => by rw [hB.eq_of_key hx hq (hxk.trans hk.symm) (by rw [hxk]; exact hkp)])]
    by_cases hz : q.amount = 0
    · rw [hz]
      apply Profits.cmpAgainst_of_no_key p hp
      intro x hx hxk
      rcases Profits.mem_prepared B x hx with rfl | ⟨hxB, hxa⟩
      · exact hkp hxk.symm
      · have := hB.eq_of_key hxB hq (hxk.trans hk.symm) (by rw [hxk]; exact hkp)
        rw [this] at hxa
        exact hxa hz
    · apply Profits.cmpAgainst_of_key p hp _ q (Profits.mem_prepared_of_mem B q hq hz) hk
      intro x hx hxk
      rcases Profits.mem_prepared B x hx with rfl | ⟨hxB, -⟩
      · exact absurd hxk.symm hkp
      · rw [hB.eq_of_key hxB hq (hxk.trans hk.symm) (by rw [hxk]; exact hkp)]
  · have hno : ∀ x ∈ B, x.key ≠ p.key := fun x hx hxk => hex ⟨x, hx, hxk⟩
    rw [Profits.cmpAgainst_of_no_key p hp B hno]
    apply Profits.cmpAgainst_of_no_key p hp
    intro x hx hxk
    rcases Profits.mem_prepared B x hx with rfl | ⟨hxB, -⟩
    · exact hkp hxk.symm
    · exact hno x hxB hxk

/-- A strict pairing of a profit of `A` is seen by `innerCmp` in one of the two directions. -/
theorem Profits.strict_pairing_seen (A B : Profits) (hA : Profits.NoTwoComparable A)
    (hB : Profits.NoTwoComparable B) (p : Profit) (hp : p ∈ A) (s : Int) (hs : s ≠ 0)
    (hps : Profits.cmpAgainst p B = s) :
    (∃ x ∈ Profits.prepared A, Profits.cmpAgainst x (Profits.prepared B) = s) ∨
      (∃ y ∈ Profits.prepared B, Profits.cmpAgainst y (Profits.prepared A) = -s) := by
  by_cases hz : p = Profit.ZeroProfit
  · subst hz
    have hAeq := hA.eq_singleton_of_zero hp
    subst hAeq
    right
    cases B with
    | nil =>
      exfalso
      apply hs
      rw [← hps]
      decide
    | cons q B =>
      have hq : Profits.cmpAgainst Profit.ZeroProfit (q :: B) = bigCmp 0 q.amount := by
        unfold Profits.cmpAgainst Profits.firstCmp
        rw [Profit.ZeroProfit_Cmp]
      rw [hq] at hps
      have hqa : q.amount ≠ 0 := by
        intro h0
        rw [h0] at hps
        exact hs (by rw [← hps]; decide)
      have hqz : q ≠ Profit.ZeroProfit := by
        intro e
        subst e
        exact hqa rfl
      refine ⟨q, Profits.mem_prepared_of_mem _ q (List.mem_cons_self _ _) hqa, ?_⟩
      rw [Profits.prepared_singleton_zero]
      rw [Profits.cmpAgainst_of_no_key q hqz [Profit.ZeroProfit]
        (fun x hx => by
          rw [List.mem_singleton.mp hx]
          intro e
          exact hqz ((Profit.key_eq_none_iff q).mp e.symm)),
        bigCmp_swap 0 q.amount, ← hps]
  · have hkp : p.key ≠ none := fun e => hz ((Profit.key_eq_none_iff p).mp e)
    by_cases ha : p.amount = 0
    · right
      by_cases hex : ∃ q ∈ B, q.key = p.key
      · obtain ⟨q, hq, hk⟩ := hex
        have hqk : q.key ≠ none := by rw [hk]; exact hkp
        have hqz : q ≠ Profit.ZeroProfit := fun e => hqk ((Profit.key_eq_none_iff q).mpr e)
        rw [Profits.cmpAgainst_of_key p hz B q hq hk
          (fun x hx hxk => by
            rw [hB.eq_of_key hx hq (hxk.trans hk.symm) (by rw [hxk]; exact hkp)])] at hps
        rw [ha] at hps
        have hqa : q.amount ≠ 0 := by
          intro h0
          rw [h0] at hps
          exact hs (by rw [← hps]; decide)
        refine ⟨q, Profits.mem_prepared_of_mem B q hq hqa, ?_⟩
        rw [Profits.cmpAgainst_prepared q hqz A hA,
          Profits.cmpAgainst_of_key q hqz A p hp hk.symm
            (fun x hx hxk => by
              rw [hA.eq_of_key hx hp (hxk.trans hk) (by rw [hxk]; exact hqk)]),
          ha, ← hps, bigCmp_swap 0 q.amount]
      · exfalso
        rw [Profits.cmpAgainst_of_no_key p hz B (fun x hx hxk => hex ⟨x, hx, hxk⟩), ha] at hps
        exact hs (by rw [← hps]; decide)
    · left
      refine ⟨p, Profits.mem_prepared_of_mem A p hp ha, ?_⟩
      rw [Profits.cmpAgainst_prepared p hz B hB]
      exact hps

theorem Profits.innerCmpLoop_ok (o t : Profits) (tmp r : Int)
    (h : Profits.innerCmpLoop o t tmp = (r, none)) :
    (tmp = 0 ∨ tmp = r) ∧ ∀ p ∈ t, Profits.cmpAgainst p o = 0 ∨ Profits.cmpAgainst p o = r := by
  induction t generalizing tmp with
  | nil =>
    simp only [Profits.innerCmpLoop, Prod.mk.injEq, and_true] at h
    exact ⟨Or.inr h, fun p hp => by cases hp⟩
  | cons p t ih =>
    unfold Profits.innerCmpLoop at h
    simp only at h
    split_ifs at h with h0 h1
    · obtain ⟨hc, hall⟩ := ih _ h
      refine ⟨Or.inl h0, fun x hx => ?_⟩
      rcases List.mem_cons.mp hx with rfl | hx
      · exact hc
      · exact hall x hx
    · simp at h
    · obtain ⟨hc, hall⟩ := ih _ h
      have htr : tmp = r := hc.resolve_left h0
      refine ⟨Or.inr htr, fun x hx => ?_⟩
      rcases List.mem_cons.mp hx with rfl | hx
      · by_cases hx0 : Profits.cmpAgainst x o = 0
        · exact Or.inl hx0
        · right
          by_contra hne
          exact h1 ⟨hx0, fun e => hne (by rw [← e, htr])⟩
      · exact hall x hx

theorem Profits.innerCmpLoop_err (o t : Profits) (tmp r : Int) (e : SummaryError)
    (h : Profits.innerCmpLoop o t tmp = (r, some e)) :
    r = 0 ∧ e = SummaryError.ErrNotComparable := by
  induction t generalizing tmp with
  | nil => simp [Profits.innerCmpLoop] at h
  | cons p t ih =>
    unfold Profits.innerCmpLoop at h
    simp only at h
    split_ifs at h
    · exact ih _ h
    · simp only [Prod.mk.injEq, Option.some.injEq] at h
      exact ⟨h.1.symm, h.2.symm⟩
    · exact ih _ h

theorem Profits.Cmp_eq_prepared (A B : Profits) :
    Profits.Cmp A B =
      match Profits.innerCmp (Profits.prepared A) (Profits.prepared B) with
      | (_, some err) => (0, some err)
      | (result, none) =>
          match Profits.innerCmp (Profits.prepared B) (Profits.prepared A) with
          | (_, some err) => (0, some err)
          | (reverseResult, none) =>
              if result = -reverseResult then (result, none)
              else (0, some SummaryError.ErrNotComparable) := rfl

/-- C3: for two lists in which no two profits of the same list are comparable, when one pairing
has the side of `A` strictly greater and another has it strictly smaller, `A.Cmp(B)` returns
`(0, ErrNotComparable)`. -/
theorem Profits.Cmp_mixed_not_comparable (A B : Profits) (hA : Profits.NoTwoComparable A)
    (hB : Profits.NoTwoComparable B) (hgt : (1 : Int) ∈ Profits.pairings A B)
    (hlt : (-1 : Int) ∈ Profits.pairings A B) :
    Profits.Cmp A B = (0, some SummaryError.ErrNotComparable) := by
  have seen : ∀ s : Int, s ≠ 0 → s ∈ Profits.pairings A B →
      (∃ x ∈ Profits.prepared A, Profits.cmpAgainst x (Profits.prepared B) = s) ∨
        (∃ y ∈ Profits.prepared B, Profits.cmpAgainst y (Profits.prepared A) = -s) := by
    intro s hs hmem
    unfold Profits.pairings at hmem
    rcases List.mem_append.mp hmem with h | h
    · obtain ⟨p, hp, hps⟩ := List.mem_map.mp h
      rw [Profits.pairing_eq_cmpAgainst] at hps
      exact Profits.strict_pairing_seen A B hA hB p hp s hs hps
    · obtain ⟨q, hq, hqs⟩ := List.mem_map.mp h
      rw [Profits.pairing_eq_cmpAgainst] at hqs
      have hq2 : Profits.cmpAgainst q A = -s := by omega
      rcases Profits.strict_pairing_seen B A hB hA q hq (-s) (by omega) hq2 with h1 | h1
      · exact Or.inr h1
      · left
        obtain ⟨y, hy, hys⟩ := h1
        exact ⟨y, hy, by omega⟩
  have hG := seen 1 (by decide) hgt
  have hS := seen (-1) (by decide) hlt
  rw [Profits.Cmp_eq_prepared]
  unfold Profits.innerCmp
  rcases h1 : Profits.innerCmpLoop (Profits.prepared B) (Profits.prepared A) 0 with ⟨r1, e1⟩
  cases e1 with
  | some e1 =>
    obtain ⟨-, he⟩ := Profits.innerCmpLoop_err _ _ _ _ _ h1
    simp [he]
  | none =>
    simp only
    have k1 := (Profits.innerCmpLoop_ok _ _ _ _ h1).2
    rcases h2 : Profits.innerCmpLoop (Profits.prepared A) (Profits.prepared B) 0 with ⟨r2, e2⟩
    cases e2 with
    | some e2 =>
      obtain ⟨-, he⟩ := Profits.innerCmpLoop_err _ _ _ _ _ h2
      simp [he]
    | none =>
      simp only
      have k2 := (Profits.innerCmpLoop_ok _ _ _ _ h2).2
      rw [if_neg]
      intro hr
      rcases hG with ⟨x, hx, hxs⟩ | ⟨y, hy, hys⟩ <;> rcases hS with ⟨x2, hx2, hxs2⟩ | ⟨y2, hy2, hys2⟩
      · have a1 := k1 x hx
        have a2 := k1 x2 hx2
        omega
      · have a1 := k1 x hx
        have a2 := k2 y2 hy2
        omega
      · have a1 := k2 y hy
        have a2 := k1 x2 hx2
        omega
      · have a1 := k2 y hy
        have a2 := k2 y2 hy2
        omega

/-- C3 witness: the lists of the test "should return ErrNotComparable when not all profits in
ps1 > ps2", as ether profits of the accounts 1 and 2. -/
theorem Profits.Cmp_mixed_not_comparable_witness :
    Profits.Cmp [Profit.EtherProfit 1 1, Profit.EtherProfit 2 2]
      [Profit.EtherProfit 1 2, Profit.EtherProfit 2 1] = (0, some SummaryError.ErrNotComparable) :=
  Profits.Cmp_mixed_not_comparable [Profit.EtherProfit 1 1, Profit.EtherProfit 2 2]
    [Profit.EtherProfit 1 2, Profit.EtherProfit 2 1]
    (by unfold Profits.NoTwoComparable; decide) (by unfold Profits.NoTwoComparable; decide)
    (by decide) (by decide)

/-! ## The forked state -/

theorem ForkedState.Agree.refl (s : ForkedState) : ForkedState.Agree s s :=
  ⟨rfl, rfl, rfl, rfl, rfl, rfl, rfl, rfl⟩

theorem ForkedState.Agree.inheritAccountState {s t : ForkedState} (h : ForkedState.Agree s t)
    (addr : Address) :
    ForkedState.Agree (s.inheritAccountState addr).1 (t.inheritAccountState addr).1 ∧
      (s.inheritAccountState addr).2 = (t.inheritAccountState addr).2 := by
  obtain ⟨h1, h2, h3, h4, h5, h6, h7, h8⟩ := h
  unfold ForkedState.inheritAccountState
  rw [h1, h2, h3, h4, h5, h6]
  split_ifs
  · rcases t.stateProvider.BalanceAt addr t.forkNumber with ⟨b, _ | e⟩
    · rcases t.stateProvider.CodeAt addr t.forkNumber with ⟨c, _ | e⟩
      · rcases t.stateProvider.NonceAt addr t.forkNumber with ⟨n, _ | e⟩ <;>
          refine ⟨⟨?_, ?_, ?_, ?_, ?_, ?_, ?_, ?_⟩, ?_⟩ <;> first | rfl | assumption
      · refine ⟨⟨?_, ?_, ?_, ?_, ?_, ?_, ?_, ?_⟩, ?_⟩ <;> first | rfl | assumption
    · refine ⟨⟨?_, ?_, ?_, ?_, ?_, ?_, ?_, ?_⟩, ?_⟩ <;> first | rfl | assumption
  · refine ⟨⟨?_, ?_, ?_, ?_, ?_, ?_, ?_, ?_⟩, ?_⟩ <;> first | rfl | assumption

theorem ForkedState.Agree.inheritAccountStorage {s t : ForkedState} (h : ForkedState.Agree s t)
    (addr : Address) (key : Hash) :
    ForkedState.Agree (s.inheritAccountStorage addr key).1 (t.inheritAccountStorage addr key).1 ∧
      (s.inheritAccountStorage addr key).2 = (t.inheritAccountStorage addr key).2 := by
  obtain ⟨h1, h2, h3, h4, h5, h6, h7, h8⟩ := h
  unfold ForkedState.inheritAccountStorage
  rw [h1, h2, h3, h5]
  split_ifs
  · rcases t.stateProvider.StorageAt addr key t.forkNumber with ⟨v, _ | e⟩
    · rcases t.storageInherited addr with _ | st <;>
        refine ⟨⟨?_, ?_, ?_, ?_, ?_, ?_, ?_, ?_⟩, ?_⟩ <;> first | rfl | assumption
    · refine ⟨⟨?_, ?_, ?_, ?_, ?_, ?_, ?_, ?_⟩, ?_⟩ <;> first | rfl | assumption
  · refine ⟨⟨?_, ?_, ?_, ?_, ?_, ?_, ?_, ?_⟩, ?_⟩ <;> first | rfl | assumption

theorem ForkedState.Agree.recordErr {r1 r2 : ForkedState × Option GoError}
    (h : ForkedState.Agree r1.1 r2.1) (he : r1.2 = r2.2) :
    ForkedState.Agree (ForkedState.recordErr r1) (ForkedState.recordErr r2) := by
  obtain ⟨h1, h2, h3, h4, h5, h6, h7, h8⟩ := h
  unfold ForkedState.recordErr
  rw [he]
  cases r2.2 with
  | none => exact ⟨h1, h2, h3, h4, h5, h6, h7, h8⟩
  | some e => exact ⟨h1, h2, h3, h4, h5, h6, h7, rfl⟩

theorem ForkedState.Agree.touchAccount {s t : ForkedState} (h : ForkedState.Agree s t)
    (addr : Address) : ForkedState.Agree (s.touchAccount addr) (t.touchAccount addr) :=
  ForkedState.Agree.recordErr (h.inheritAccountState addr).1 (h.inheritAccountState addr).2

theorem ForkedState.Agree.touchStorage {s t : ForkedState} (h : ForkedState.Agree s t)
    (addr : Address) (key : Hash) :
    ForkedState.Agree (s.touchStorage addr key) (t.touchStorage addr key) :=
  ForkedState.Agree.recordErr ((h.touchAccount addr).inheritAccountStorage addr key).1
    ((h.touchAccount addr).inheritAccountStorage addr key).2

theorem ForkedState.Agree.step_read {s t : ForkedState} (h : ForkedState.Agree s t)
    (r : StateRead) :
    ∃ s1 t1 v, s.step r.toOp = some (s1, v) ∧ t.step r.toOp = some (t1, v) ∧
      ForkedState.Agree s1 t1 := by
  cases r with
  | GetBalance addr =>
    have ha := h.touchAccount addr
    refine ⟨_, _, _, rfl, ?_, ha⟩
    simp only [StateRead.toOp, ForkedState.step, ForkedState.GetBalance, ha.1]
  | GetNonce addr =>
    have ha := h.touchAccount addr
    refine ⟨_, _, _, rfl, ?_, ha⟩
    simp only [StateRead.toOp, ForkedState.step, ForkedState.GetNonce, ha.1]
  | GetCode addr =>
    have ha := h.touchAccount addr
    refine ⟨_, _, _, rfl, ?_, ha⟩
    simp only [StateRead.toOp, ForkedState.step, ForkedState.GetCode, ha.1]
  | GetState addr hash =>
    have ha := h.touchStorage addr hash
    refine ⟨_, _, _, rfl, ?_, ha⟩
    simp only [StateRead.toOp, ForkedState.step, ForkedState.GetState, ha.1]
  | GetCommittedState addr hash =>
    have ha := h.touchStorage addr hash
    obtain ⟨h1, h2, h3, h4, h5, h6, h7, h8⟩ := ha
    simp only [StateRead.toOp, ForkedState.step, ForkedState.GetCommittedState, h1, h2, h3, h7]
    split_ifs
    · exact ⟨_, _, _, rfl, rfl, ⟨h1, h2, h3, h4, h5, h6, h7, h8⟩⟩
    · refine ⟨_, _, _, rfl, rfl, ?_⟩
      exact @ForkedState.Agree.recordErr (_, _) (_, _) ⟨h1, h2, h3, h4, h5, h6, h7, h8⟩ rfl
    · exact ⟨_, _, _, rfl, rfl, ⟨h1, h2, h3, h4, h5, h6, h7, h8⟩⟩

theorem ForkedState.Agree.readAll {s t : ForkedState} (h : ForkedState.Agree s t)
    (reads : List StateRead) : s.readAll reads = t.readAll reads := by
  unfold ForkedState.readAll
  induction reads generalizing s t with
  | nil => rfl
  | cons r reads ih =>
    obtain ⟨s1, t1, v, hs, ht, h1⟩ := h.step_read r
    have := ih h1
    simp only [List.map_cons, ForkedState.run, hs, ht]
    cases hs1 : s1.run (List.map StateRead.toOp reads) with
    | none =>
      rw [hs1] at this
      cases ht1 : t1.run (List.map StateRead.toOp reads) with
      | none => rfl
      | some x => rw [ht1] at this; cases this
    | some x =>
      rw [hs1] at this
      cases ht1 : t1.run (List.map StateRead.toOp reads) with
      | none => rw [ht1] at this; cases this
      | some y =>
        rw [ht1] at this
        simp only [Option.map_some', Option.some.injEq] at this ⊢
        rw [this]

theorem ForkedState.inheritAccountState_snapshots (s : ForkedState) (addr : Address) :
    (s.inheritAccountState addr).1.snapshots = s.snapshots := by
  unfold ForkedState.inheritAccountState
  split_ifs
  · rcases s.stateProvider.BalanceAt addr s.forkNumber with ⟨b, _ | e⟩
    · rcases s.stateProvider.CodeAt addr s.forkNumber with ⟨c, _ | e⟩
      · rcases s.stateProvider.NonceAt addr s.forkNumber with ⟨n, _ | e⟩ <;> rfl
      · rfl
    · rfl
  · rfl

theorem ForkedState.inheritAccountStorage_snapshots (s : ForkedState) (addr : Address)
    (key : Hash) : (s.inheritAccountStorage addr key).1.snapshots = s.snapshots := by
  unfold ForkedState.inheritAccountStorage
  split_ifs
  · rcases s.stateProvider.StorageAt addr key s.forkNumber with ⟨v, _ | e⟩
    · rcases s.storageInherited addr with _ | st <;> rfl
    · rfl
  · rfl

theorem ForkedState.recordErr_snapshots (r : ForkedState × Option GoError) :
    (ForkedState.recordErr r).snapshots = r.1.snapshots := by
  unfold ForkedState.recordErr
  cases r.2 <;> rfl

theorem ForkedState.touchAccount_snapshots (s : ForkedState) (addr : Address) :
    (s.touchAccount addr).snapshots = s.snapshots := by
  unfold ForkedState.touchAccount
  rw [ForkedState.recordErr_snapshots, ForkedState.inheritAccountState_snapshots]

theorem ForkedState.touchStorage_snapshots (s : ForkedState) (addr : Address) (key : Hash) :
    (s.touchStorage addr key).snapshots = s.snapshots := by
  unfold ForkedState.touchStorage
  rw [ForkedState.recordErr_snapshots, ForkedState.inheritAccountStorage_snapshots,
    ForkedState.touchAccount_snapshots]

theorem ForkedState.AddAddressToAccessList_snapshots (s : ForkedState) (addr : Address) :
    (s.AddAddressToAccessList addr).snapshots = s.snapshots := by
  unfold ForkedState.AddAddressToAccessList
  cases s.accessList.addresses addr <;> rfl

theorem ForkedState.PrepareAccessList_snapshots (s : ForkedState) (sender : Address)
    (dst : Option Address) (precompiles : List Address) (list : List (Address × List Hash)) :
    (s.PrepareAccessList sender dst precompiles list).snapshots = s.snapshots := by
  have hpre : ∀ (l : List Address) (st : ForkedState),
      (l.foldl (fun st addr => st.AddAddressToAccessList addr) st).snapshots = st.snapshots := by
    intro l
    induction l with
    | nil => intro st; rfl
    | cons a l ih =>
      intro st
      rw [List.foldl_cons, ih, ForkedState.AddAddressToAccessList_snapshots]
  have hkeys : ∀ (a : Address) (l : List Hash) (st : ForkedState),
      (l.foldl (fun st2 key => st2.AddSlotToAccessList a key) st).snapshots = st.snapshots := by
    intro a l
    induction l with
    | nil => intro st; rfl
    | cons k l ih =>
      intro st
      rw [List.foldl_cons, ih]
      rfl
  have hlist : ∀ (l : List (Address × List Hash)) (st : ForkedState),
      (l.foldl (fun st el =>
        el.2.foldl (fun st2 key => st2.AddSlotToAccessList el.1 key)
          (st.AddAddressToAccessList el.1)) st).snapshots = st.snapshots := by
    intro l
    induction l with
    | nil => intro st; rfl
    | cons el l ih =>
      intro st
      rw [List.foldl_cons, ih, hkeys, ForkedState.AddAddressToAccessList_snapshots]
  unfold ForkedState.PrepareAccessList
  simp only
  rw [hlist, hpre]
  cases dst with
  | none => simp only; rw [ForkedState.AddAddressToAccessList_snapshots]
  | some d =>
    simp only
    rw [ForkedState.AddAddressToAccessList_snapshots, ForkedState.AddAddressToAccessList_snapshots]

/-- Every call other than `Snapshot` and `RevertToSnapshot` leaves the snapshot stack alone. -/
theorem ForkedState.step_snapshots (s s1 : ForkedState) (o : StateOp) (v : OpValue)
    (hs : s.step o = some (s1, v)) (h1 : o ≠ StateOp.Snapshot)
    (h2 : ∀ j, o ≠ StateOp.RevertToSnapshot j) : s1.snapshots = s.snapshots := by
  cases o with
  | Snapshot => exact absurd rfl h1
  | RevertToSnapshot j => exact absurd rfl (h2 j)
  | SetState addr hash value =>
    simp only [ForkedState.step, ForkedState.SetState, Option.map_eq_some'] at hs
    obtain ⟨s2, hs2, heq⟩ := hs
    simp only [Prod.mk.injEq] at heq
    rw [← heq.1]
    split at hs2
    · cases hs2
    · simp only [Option.some.injEq] at hs2
      rw [← hs2]
      exact ForkedState.touchStorage_snapshots s addr hash
  | PrepareAccessList sender dst precompiles list =>
    simp only [ForkedState.step, Option.some.injEq, Prod.mk.injEq] at hs
    rw [← hs.1]
    exact ForkedState.PrepareAccessList_snapshots s sender dst precompiles list
  | AddAddressToAccessList addr =>
    simp only [ForkedState.step, Option.some.injEq, Prod.mk.injEq] at hs
    rw [← hs.1]
    exact ForkedState.AddAddressToAccessList_snapshots s addr
  | GetCommittedState addr hash =>
    simp only [ForkedState.step, ForkedState.GetCommittedState, Option.some.injEq,
      Prod.mk.injEq] at hs
    rw [← hs.1]
    split_ifs
    · exact ForkedState.touchStorage_snapshots s addr hash
    · simp only
      rw [ForkedState.recordErr_snapshots]
      exact ForkedState.touchStorage_snapshots s addr hash
    · exact ForkedState.touchStorage_snapshots s addr hash
  | GetState addr hash =>
    simp only [ForkedState.step, ForkedState.GetState, Option.some.injEq, Prod.mk.injEq] at hs
    rw [← hs.1]
    exact ForkedState.touchStorage_snapshots s addr hash
  | AddSlotToAccessList addr slot =>
    simp only [ForkedState.step, Option.some.injEq, Prod.mk.injEq] at hs
    rw [← hs.1]
    rfl
  | promoted f =>
    simp only [ForkedState.step, Option.some.injEq, Prod.mk.injEq] at hs
    rw [← hs.1]
  | _ =>
    simp only [ForkedState.step, ForkedState.GetBalance, ForkedState.AddBalance,
      ForkedState.SubBalance, ForkedState.GetNonce, ForkedState.SetNonce, ForkedState.GetCode,
      ForkedState.SetCode, ForkedState.Exist, ForkedState.Empty, Option.some.injEq,
      Prod.mk.injEq] at hs
    rw [← hs.1]
    exact ForkedState.touchAccount_snapshots s _

theorem ForkedState.Above.length_le {base l : List ForkedState}
    (h : ForkedState.Above base l) : base.length ≤ l.length := by
  cases h with
  | mk _ ht _ =>
    have := congrArg List.length ht
    rw [List.length_take] at this
    omega

theorem ForkedState.Above.base (base : List ForkedState) : ForkedState.Above base base := by
  refine ForkedState.Above.mk base (by simp) ?_
  intro x hx
  simp at hx

theorem ForkedState.Above.push {base l : List ForkedState} (h : ForkedState.Above base l)
    (x : ForkedState) (hx : ForkedState.Above base x.snapshots) :
    ForkedState.Above base (l ++ [x]) := by
  have hlen := h.length_le
  cases h with
  | mk _ ht hd =>
    refine ForkedState.Above.mk _ ?_ ?_
    · rw [List.take_append_of_le_length hlen]
      exact ht
    · intro y hy
      rw [List.drop_append_of_le_length hlen] at hy
      rcases List.mem_append.mp hy with hy | hy
      · exact hd y hy
      · rw [List.mem_singleton.mp hy]
        exact hx

theorem ForkedState.Above.get {base l : List ForkedState} (h : ForkedState.Above base l)
    (j : Nat) (hj : base.length ≤ j) (x : ForkedState) (hx : l.get? j = some x) :
    ForkedState.Above base x.snapshots := by
  cases h with
  | mk _ ht hd =>
    apply hd
    have hjl : j < l.length := by
      by_contra hc
      rw [List.get?_eq_none.mpr (by omega)] at hx
      cases hx
    have hdrop : (l.drop base.length).get? (j - base.length) = some x := by
      rw [List.get?_eq_getElem?, List.getElem?_drop,
        show base.length + (j - base.length) = j by omega, ← List.get?_eq_getElem?]
      exact hx
    exact List.get?_mem hdrop

/-- One call that does not revert to the snapshots of `base` keeps the stack above `base`. -/
theorem ForkedState.step_Above (base : List ForkedState) (id : Nat) (hid : base.length = id + 1)
    (s s1 : ForkedState) (o : StateOp) (v : OpValue) (ho : o.revertsAbove id = true)
    (hs : s.step o = some (s1, v)) (h : ForkedState.Above base s.snapshots) :
    ForkedState.Above base s1.snapshots := by
  by_cases h1 : o = StateOp.Snapshot
  · subst h1
    simp only [ForkedState.step, ForkedState.Snapshot, Option.some.injEq, Prod.mk.injEq] at hs
    rw [← hs.1]
    exact h.push s.Copy h
  · by_cases h2 : ∃ j, o = StateOp.RevertToSnapshot j
    · obtain ⟨j, rfl⟩ := h2
      simp only [StateOp.revertsAbove, decide_eq_true_eq] at ho
      simp only [ForkedState.step, ForkedState.RevertToSnapshot, Option.map_eq_some'] at hs
      obtain ⟨s2, hs2, heq⟩ := hs
      simp only [Prod.mk.injEq] at heq
      rw [← heq.1]
      cases hg : s.snapshots.get? j with
      | none => rw [hg] at hs2; cases hs2
      | some snap =>
        rw [hg] at hs2
        simp only [Option.some.injEq] at hs2
        rw [← hs2]
        exact h.get j (by omega) snap hg
    · rw [ForkedState.step_snapshots s s1 o v hs h1 (fun j e => h2 ⟨j, e⟩)]
      exact h

theorem ForkedState.run_Above (base : List ForkedState) (id : Nat) (hid : base.length = id + 1)
    (ops : List StateOp) (s s1 : ForkedState) (vs : List OpValue)
    (ho : ops.all (StateOp.revertsAbove id) = true) (hs : s.run ops = some (s1, vs))
    (h : ForkedState.Above base s.snapshots) : ForkedState.Above base s1.snapshots := by
  induction ops generalizing s vs with
  | nil =>
    simp only [ForkedState.run, Option.some.injEq, Prod.mk.injEq] at hs
    rw [← hs.1]
    exact h
  | cons o ops ih =>
    rw [List.all_cons, Bool.and_eq_true] at ho
    unfold ForkedState.run at hs
    cases hstep : s.step o with
    | none => rw [hstep] at hs; cases hs
    | some r =>
      obtain ⟨s2, v⟩ := r
      rw [hstep] at hs
      simp only at hs
      cases hrun : s2.run ops with
      | none => rw [hrun] at hs; cases hs
      | some r2 =>
        obtain ⟨s3, vs2⟩ := r2
        rw [hrun] at hs
        simp only [Option.some.injEq, Prod.mk.injEq] at hs
        rw [hs.1] at hrun
        exact ih s2 vs2 ho.2 hrun (ForkedState.step_Above base id hid s s2 o v ho.1 hstep h)

/-- When the stack is above `s.snapshots ++ [s.Copy]`, reverting to the snapshot taken of `s`
succeeds and gives back the data and the stack of `s`. -/
theorem ForkedState.revert_of_Above (s s1 : ForkedState)
    (h : ForkedState.Above (s.snapshots ++ [s.Copy]) s1.snapshots) :
    ∃ s2, s1.RevertToSnapshot s.snapshots.length = some s2 ∧ ForkedState.Agree s2 s ∧
      s2.snapshots = s.snapshots ∧ s2.accessList = s1.accessList ∧ s2.thash = s1.thash ∧
      s2.txIndex = s1.txIndex := by
  have hget : s1.snapshots.get? s.snapshots.length = some s.Copy := by
    cases h with
    | mk _ ht _ =>
      have h1 : (List.take (s.snapshots ++ [s.Copy]).length s1.snapshots).get? s.snapshots.length
          = some s.Copy := by
        rw [ht]
        simp
      rw [List.get?_eq_getElem?, List.getElem?_take_of_lt (by simp),
        ← List.get?_eq_getElem?] at h1
      exact h1
  unfold ForkedState.RevertToSnapshot
  rw [hget]
  exact ⟨_, rfl, ⟨rfl, rfl, rfl, rfl, rfl, rfl, rfl, rfl⟩, rfl, rfl, rfl, rfl⟩

/-- C6: after `id = Snapshot()`, any sequence of calls that does not panic and reverts only to
larger ids, and then `RevertToSnapshot(id)` (which succeeds), every sequence of subsequent
`GetBalance`, `GetNonce`, `GetCode`, `GetState` and `GetCommittedState` returns the values it
would have returned immediately before `Snapshot()` was called. -/
theorem ForkedState.revert_restores_reads (s s1 : ForkedState) (ops : List StateOp)
    (vs : List OpValue) (hnest : ops.all (StateOp.revertsAbove s.Snapshot.2) = true)
    (hrun : s.Snapshot.1.run ops = some (s1, vs)) :
    ∃ s2, s1.RevertToSnapshot s.Snapshot.2 = some s2 ∧
      ∀ reads : List StateRead, s2.readAll reads = s.readAll reads := by
  have habove : ForkedState.Above (s.snapshots ++ [s.Copy]) s1.snapshots :=
    ForkedState.run_Above (s.snapshots ++ [s.Copy]) s.snapshots.length (by simp) ops
      s.Snapshot.1 s1 vs hnest hrun (ForkedState.Above.base _)
  obtain ⟨s2, hrev, hagree, -⟩ := ForkedState.revert_of_Above s s1 habove
  exact ⟨s2, hrev, fun reads => hagree.readAll reads⟩

/-- C6 witness: on a forked account 1, a balance and a storage write, a nested snapshot with a
nonce write that is reverted, and the revert to the first snapshot; the balance, the nonce, the
code and slot 0 then read as the provider gave them. -/
theorem ForkedState.revert_restores_reads_witness :
    (((ForkedState.fresh Example.provider 100).Snapshot.1.run
        [StateOp.AddBalance 1 5, StateOp.SetState 1 0 9, StateOp.Snapshot, StateOp.SetNonce 1 3,
          StateOp.RevertToSnapshot 1, StateOp.GetBalance 1]).bind
      (fun r => r.1.RevertToSnapshot 0)).bind
        (fun s2 => s2.readAll [StateRead.GetBalance 1, StateRead.GetNonce 1,
          StateRead.GetCode 1, StateRead.GetState 1 0, StateRead.GetCommittedState 1 0])
      = some [OpValue.int 999, OpValue.nat 9, OpValue.bytes [35, 51], OpValue.word 7,
          OpValue.word 7] := by
  obtain ⟨r, hr⟩ := Option.isSome_iff_exists.mp
    (show ((ForkedState.fresh Example.provider 100).Snapshot.1.run
      [StateOp.AddBalance 1 5, StateOp.SetState 1 0 9, StateOp.Snapshot, StateOp.SetNonce 1 3,
        StateOp.RevertToSnapshot 1, StateOp.GetBalance 1]).isSome = true by decide)
  obtain ⟨s2, hrev, hreads⟩ := ForkedState.revert_restores_reads
    (ForkedState.fresh Example.provider 100) r.1 _ r.2 (by decide) hr
  rw [hr]
  simp only [Option.some_bind]
  rw [show (ForkedState.fresh Example.provider 100).Snapshot.2 = 0 from rfl] at hrev
  rw [hrev]
  simp only [Option.some_bind]
  rw [hreads]
  decide

/-- C10 (as stated) fails: right after `Snapshot()` returned id 0 the stack holds one snapshot,
after `RevertToSnapshot(0)` it holds none; and an address added to the access list after the
snapshot is still listed after the revert. -/
theorem ForkedState.revert_bookkeeping_differs :
    ((ForkedState.fresh Example.provider 100).Snapshot.1.snapshots.length = 1 ∧
      ((ForkedState.fresh Example.provider 100).Snapshot.1.RevertToSnapshot 0).map
        (fun s2 => s2.snapshots.length) = some 0) ∧
    (((ForkedState.fresh Example.provider 100).Snapshot.1.accessList.addresses 7).isSome = false ∧
      (((ForkedState.fresh Example.provider 100).Snapshot.1.AddAddressToAccessList 7).RevertToSnapshot
        0).map (fun s2 => (s2.accessList.addresses 7).isSome) = some true) := by
  decide

/-- C10 (amended): after `id = Snapshot()`, any sequence of calls that does not panic and reverts
only to larger ids, and then `RevertToSnapshot(id)`, the account and slot inheritance marks, the
dirty and committed cleared-storage sets and the last error equal their values at the moment
`Snapshot()` returned `id`, and the snapshot stack is the first `id` entries of the stack of that
moment (the stack as it was before the call of `Snapshot()`). -/
theorem ForkedState.revert_restores_bookkeeping (s s1 : ForkedState) (ops : List StateOp)
    (vs : List OpValue) (hnest : ops.all (StateOp.revertsAbove s.Snapshot.2) = true)
    (hrun : s.Snapshot.1.run ops = some (s1, vs)) :
    ∃ s2, s1.RevertToSnapshot s.Snapshot.2 = some s2 ∧
      s2.stateInherited = s.Snapshot.1.stateInherited ∧
      s2.storageInherited = s.Snapshot.1.storageInherited ∧
      s2.dirtyClearedStorage = s.Snapshot.1.dirtyClearedStorage ∧
      s2.committedClearedStorage = s.Snapshot.1.committedClearedStorage ∧
      s2.lastErr = s.Snapshot.1.lastErr ∧
      s2.snapshots = s.Snapshot.1.snapshots.take s.Snapshot.2 := by
  have habove : ForkedState.Above (s.snapshots ++ [s.Copy]) s1.snapshots :=
    ForkedState.run_Above (s.snapshots ++ [s.Copy]) s.snapshots.length (by simp) ops
      s.Snapshot.1 s1 vs hnest hrun (ForkedState.Above.base _)
  obtain ⟨s2, hrev, ⟨-, -, -, h4, h5, h6, h7, h8⟩, hsn, -⟩ := ForkedState.revert_of_Above s s1 habove
  refine ⟨s2, hrev, h4, h5, h6, h7, h8, ?_⟩
  rw [hsn]
  simp [ForkedState.Snapshot]

/-- C10 witness: account 1 is inherited and slot 0 cleared after the snapshot; after the revert
account 1 is not marked inherited any more and the stack is empty. -/
theorem ForkedState.revert_restores_bookkeeping_witness :
    (((ForkedState.fresh Example.provider 100).Snapshot.1.run
        [StateOp.SetState 1 0 0, StateOp.Snapshot, StateOp.GetBalance 2]).bind
      (fun r => r.1.RevertToSnapshot 0)).map
        (fun s2 => (s2.stateInherited 1, s2.snapshots.length)) = some (none, 0) := by
  obtain ⟨r, hr⟩ := Option.isSome_iff_exists.mp
    (show ((ForkedState.fresh Example.provider 100).Snapshot.1.run
      [StateOp.SetState 1 0 0, StateOp.Snapshot, StateOp.GetBalance 2]).isSome = true by decide)
  obtain ⟨s2, hrev, h1, -, -, -, -, h6⟩ := ForkedState.revert_restores_bookkeeping
    (ForkedState.fresh Example.provider 100) r.1 _ r.2 (by decide) hr
  rw [hr]
  simp only [Option.some_bind]
  rw [show (ForkedState.fresh Example.provider 100).Snapshot.2 = 0 from rfl] at hrev
  rw [hrev]
  simp only [Option.map_some', h1, h6]
  rfl

theorem StateDB.GetCommittedState_setObject (db : StateDB) (addr : Address) (o : StateObject)
    (ho : o.committedStorage = (db.getOrNew addr).committedStorage) (a : Address) (k : Hash) :
    (db.setObject addr o).GetCommittedState a k = db.GetCommittedState a k := by
  unfold StateDB.GetCommittedState StateDB.setObject
  simp only
  by_cases h : a = addr
  · subst h
    rw [if_pos rfl]
    show o.committedStorage k = _
    rw [ho]
    unfold StateDB.getOrNew
    cases db.stateObjects a <;> rfl
  · rw [if_neg h]

theorem StateDB.GetCommittedState_AddBalance (db : StateDB) (addr : Address) (amount : Int)
    (a : Address) (k : Hash) :
    (db.AddBalance addr amount).GetCommittedState a k = db.GetCommittedState a k := by
  refine StateDB.GetCommittedState_setObject db addr _ ?_ a k
  rfl

theorem StateDB.GetCommittedState_SetCode (db : StateDB) (addr : Address) (code : List Nat)
    (a : Address) (k : Hash) :
    (db.SetCode addr code).GetCommittedState a k = db.GetCommittedState a k := by
  refine StateDB.GetCommittedState_setObject db addr _ ?_ a k
  rfl

theorem StateDB.GetCommittedState_SetNonce (db : StateDB) (addr : Address) (nonce : Nat)
    (a : Address) (k : Hash) :
    (db.SetNonce addr nonce).GetCommittedState a k = db.GetCommittedState a k := by
  refine StateDB.GetCommittedState_setObject db addr _ ?_ a k
  rfl

theorem StateDB.GetCommittedState_SetState (db : StateDB) (addr : Address) (key value : Hash)
    (a : Address) (k : Hash) :
    (db.SetState addr key value).GetCommittedState a k = db.GetCommittedState a k := by
  unfold StateDB.SetState
  simp only
  split_ifs
  · refine StateDB.GetCommittedState_setObject db addr _ ?_ a k
    rfl
  · refine StateDB.GetCommittedState_setObject db addr _ ?_ a k
    rfl

/-- Inheriting an account leaves the provider, the fork block, the committed cleared-storage set
and every committed storage value as they are. -/
theorem ForkedState.inheritAccountState_frame (s : ForkedState) (addr : Address) :
    (s.inheritAccountState addr).1.stateProvider = s.stateProvider ∧
      (s.inheritAccountState addr).1.forkNumber = s.forkNumber ∧
      (s.inheritAccountState addr).1.committedClearedStorage = s.committedClearedStorage ∧
      ∀ a k, (s.inheritAccountState addr).1.StateDB.GetCommittedState a k
        = s.StateDB.GetCommittedState a k := by
  unfold ForkedState.inheritAccountState
  split_ifs
  · rcases s.stateProvider.BalanceAt addr s.forkNumber with ⟨b, _ | e⟩
    · rcases s.stateProvider.CodeAt addr s.forkNumber with ⟨c, _ | e⟩
      · rcases s.stateProvider.NonceAt addr s.forkNumber with ⟨n, _ | e⟩ <;>
          refine ⟨rfl, rfl, rfl, fun a k => ?_⟩ <;> simp only <;> split_ifs <;>
          simp only [StateDB.GetCommittedState_AddBalance, StateDB.GetCommittedState_SetCode,
            StateDB.GetCommittedState_SetNonce]
      · refine ⟨rfl, rfl, rfl, fun a k => ?_⟩
        simp only
        split_ifs <;> simp only [StateDB.GetCommittedState_AddBalance]
    · exact ⟨rfl, rfl, rfl, fun _ _ => rfl⟩
  · exact ⟨rfl, rfl, rfl, fun _ _ => rfl⟩

theorem ForkedState.inheritAccountStorage_frame (s : ForkedState) (addr : Address) (key : Hash) :
    (s.inheritAccountStorage addr key).1.stateProvider = s.stateProvider ∧
      (s.inheritAccountStorage addr key).1.forkNumber = s.forkNumber ∧
      (s.inheritAccountStorage addr key).1.committedClearedStorage = s.committedClearedStorage ∧
      ∀ a k, (s.inheritAccountStorage addr key).1.StateDB.GetCommittedState a k
        = s.StateDB.GetCommittedState a k := by
  unfold ForkedState.inheritAccountStorage
  split_ifs
  · rcases s.stateProvider.StorageAt addr key s.forkNumber with ⟨v, _ | e⟩
    · rcases s.storageInherited addr with _ | st <;>
        refine ⟨rfl, rfl, rfl, fun a k => ?_⟩ <;> simp only <;> split_ifs <;>
        simp only [StateDB.GetCommittedState_SetState]
    · exact ⟨rfl, rfl, rfl, fun _ _ => rfl⟩
  · exact ⟨rfl, rfl, rfl, fun _ _ => rfl⟩

theorem ForkedState.recordErr_frame (r : ForkedState × Option GoError) :
    (ForkedState.recordErr r).stateProvider = r.1.stateProvider ∧
      (ForkedState.recordErr r).forkNumber = r.1.forkNumber ∧
      (ForkedState.recordErr r).committedClearedStorage = r.1.committedClearedStorage ∧
      (ForkedState.recordErr r).StateDB = r.1.StateDB := by
  unfold ForkedState.recordErr
  cases r.2 <;> exact ⟨rfl, rfl, rfl, rfl⟩

theorem ForkedState.touchStorage_frame (s : ForkedState) (addr : Address) (key : Hash) :
    (s.touchStorage addr key).stateProvider = s.stateProvider ∧
      (s.touchStorage addr key).forkNumber = s.forkNumber ∧
      (s.touchStorage addr key).committedClearedStorage = s.committedClearedStorage ∧
      ∀ a k, (s.touchStorage addr key).StateDB.GetCommittedState a k
        = s.StateDB.GetCommittedState a k := by
  unfold ForkedState.touchStorage ForkedState.touchAccount
  obtain ⟨a1, a2, a3, a4⟩ := ForkedState.inheritAccountState_frame s addr
  obtain ⟨b1, b2, b3, b4⟩ := ForkedState.recordErr_frame (s.inheritAccountState addr)
  obtain ⟨c1, c2, c3, c4⟩ := ForkedState.inheritAccountStorage_frame
    (ForkedState.recordErr (s.inheritAccountState addr)) addr key
  obtain ⟨d1, d2, d3, d4⟩ := ForkedState.recordErr_frame
    ((ForkedState.recordErr (s.inheritAccountState addr)).inheritAccountStorage addr key)
  refine ⟨by rw [d1, c1, b1, a1], by rw [d2, c2, b2, a2], by rw [d3, c3, b3, a3], fun a k => ?_⟩
  rw [d4, c4, b4, a4]

/-- C9: `GetCommittedState(addr, slot)` returns the in-memory committed value when that value is
non-zero; when it is zero it returns zero if the slot is marked in
`committedClearedStorage[addr]`, and otherwise the word the provider's `StorageAt(addr, slot)`
answers at the fork block. -/
theorem ForkedState.GetCommittedState_spec (s : ForkedState) (addr : Address) (slot : Hash) :
    (s.GetCommittedState addr slot).2 =
      if s.StateDB.GetCommittedState addr slot ≠ 0 then s.StateDB.GetCommittedState addr slot
      else if lookup2 s.committedClearedStorage addr slot then 0
      else (s.stateProvider.StorageAt addr slot s.forkNumber).1 := by
  obtain ⟨h1, h2, h3, h4⟩ := ForkedState.touchStorage_frame s addr slot
  unfold ForkedState.GetCommittedState
  simp only [h1, h2, h3, h4, ForkedState.emptyHash, decide_eq_true_eq]
  split_ifs <;> simp_all

/-- C8 (as stated) fails: with a provider whose `CodeAt` fails and whose `NonceAt` answers 5,
the first `GetNonce` on a fresh state returns 0. -/
theorem ForkedState.first_GetNonce_not_inherited :
    (NewForkedState Example.failingProvider (some 100)).1.map (fun s => (s.GetNonce 1).2)
        = some 0 ∧
      Example.failingProvider.NonceAt 1 100 = (5, none) := by
  decide

theorem ForkedState.fresh_touchAccount (provider : BlockchainReader) (n : Nat)
    (addr : Address) (balance : Nat) (hb : provider.BalanceAt addr n = (balance, none)) :
    (((ForkedState.fresh provider n).touchAccount addr).StateDB.GetBalance addr = balance) ∧
    (∀ code, provider.CodeAt addr n = (code, none) →
      (((ForkedState.fresh provider n).touchAccount addr).StateDB.GetCode addr = code) ∧
      (∀ nonce, provider.NonceAt addr n = (nonce, none) →
        ((ForkedState.fresh provider n).touchAccount addr).StateDB.GetNonce addr = nonce)) := by
  have hcond : (!((ForkedState.fresh provider n).stateInherited addr).getD false &&
      !(ForkedState.fresh provider n).StateDB.Exist addr) = true := rfl
  have hp : (ForkedState.fresh provider n).stateProvider = provider := rfl
  have hf : (ForkedState.fresh provider n).forkNumber = n := rfl
  have hdb : (ForkedState.fresh provider n).StateDB = StateDB.new := rfl
  unfold ForkedState.touchAccount ForkedState.inheritAccountState
  rw [if_pos hcond, hp, hf, hb, hdb]
  simp only
  rcases hc : provider.CodeAt addr n with ⟨c, _ | e⟩
  · rcases hn : provider.NonceAt addr n with ⟨m, _ | e⟩
    · simp only [ForkedState.recordErr]
      refine ⟨?_, ?_⟩
      · by_cases h1 : balance > 0 <;> by_cases h2 : c.length > 0 <;> by_cases h3 : m > 0 <;>
          simp [h1, h2, h3, StateDB.GetBalance, StateDB.AddBalance, StateDB.SetCode,
            StateDB.SetNonce, StateDB.setObject, StateDB.getOrNew, StateDB.new, StateObject.new]
          <;> omega
      · intro code hcode
        simp only [Prod.mk.injEq, and_true] at hcode
        subst hcode
        refine ⟨?_, ?_⟩
        · by_cases h1 : balance > 0 <;> by_cases h2 : c.length > 0 <;> by_cases h3 : m > 0 <;>
            simp [h1, h2, h3, StateDB.GetCode, StateDB.AddBalance, StateDB.SetCode,
              StateDB.SetNonce, StateDB.setObject, StateDB.getOrNew, StateDB.new, StateObject.new]
            <;> simp_all
        · intro nonce hnonce
          simp only [Prod.mk.injEq, and_true] at hnonce
          subst hnonce
          by_cases h1 : balance > 0 <;> by_cases h2 : c.length > 0 <;> by_cases h3 : m > 0 <;>
            simp [h1, h2, h3, StateDB.GetNonce, StateDB.AddBalance, StateDB.SetCode,
              StateDB.SetNonce, StateDB.setObject, StateDB.getOrNew, StateDB.new, StateObject.new]
            <;> omega
    · simp only [ForkedState.recordErr]
      refine ⟨?_, ?_⟩
      · by_cases h1 : balance > 0 <;> by_cases h2 : c.length > 0 <;>
          simp [h1, h2, StateDB.GetBalance, StateDB.AddBalance, StateDB.SetCode,
            StateDB.setObject, StateDB.getOrNew, StateDB.new, StateObject.new]
          <;> omega
      · intro code hcode
        simp only [Prod.mk.injEq, and_true] at hcode
        subst hcode
        refine ⟨?_, ?_⟩
        · by_cases h1 : balance > 0 <;> by_cases h2 : c.length > 0 <;>
            simp [h1, h2, StateDB.GetCode, StateDB.AddBalance, StateDB.SetCode,
              StateDB.setObject, StateDB.getOrNew, StateDB.new, StateObject.new]
            <;> simp_all
        · intro nonce hnonce
          cases hnonce
  · simp only [ForkedState.recordErr]
    refine ⟨?_, ?_⟩
    · by_cases h1 : balance > 0 <;>
        simp [h1, StateDB.GetBalance, StateDB.AddBalance,
          StateDB.setObject, StateDB.getOrNew, StateDB.new, StateObject.new]
      omega
    · intro code hcode
      cases hcode

/-- C8 (amended): on a state freshly created by `NewForkedState`, whose fork block is the given
`forkNumber` or, when that is nil, the provider's current `BlockNumber`: when the provider's
`BalanceAt` succeeds the first `GetBalance` of the address returns exactly its balance; when
`CodeAt` succeeds as well the first `GetCode` returns exactly its code; and when `NonceAt`
succeeds as well the first `GetNonce` returns exactly its nonce. -/
theorem ForkedState.first_read_inherits (provider : BlockchainReader)
    (forkNumber : Option Nat) (s : ForkedState) (addr : Address)
    (hnew : NewForkedState provider forkNumber = (some s, none)) :
    s.forkNumber = forkBlock provider forkNumber ∧
      ∀ balance : Nat, provider.BalanceAt addr (forkBlock provider forkNumber) = (balance, none) →
        (s.GetBalance addr).2 = (balance : Int) ∧
        ∀ code, provider.CodeAt addr (forkBlock provider forkNumber) = (code, none) →
          (s.GetCode addr).2 = code ∧
          ∀ nonce, provider.NonceAt addr (forkBlock provider forkNumber) = (nonce, none) →
            (s.GetNonce addr).2 = nonce := by
  have hs : s = ForkedState.fresh provider (forkBlock provider forkNumber) := by
    unfold NewForkedState at hnew
    cases forkNumber with
    | some n =>
      simp only [Prod.mk.injEq, Option.some.injEq, and_true] at hnew
      exact hnew.symm
    | none =>
      simp only at hnew
      rcases hb : provider.BlockNumber with ⟨bn, _ | e⟩
      · rw [hb] at hnew
        simp only [Prod.mk.injEq, Option.some.injEq, and_true] at hnew
        rw [← hnew]
        simp [forkBlock, hb]
      · rw [hb] at hnew
        simp at hnew
  subst hs
  refine ⟨rfl, fun balance hb => ?_⟩
  obtain ⟨h1, h2⟩ := ForkedState.fresh_touchAccount provider _ addr balance hb
  refine ⟨h1, fun code hc => ?_⟩
  obtain ⟨h3, h4⟩ := h2 code hc
  exact ⟨h3, fun nonce hn => h4 nonce hn⟩

/-- C8 witness: the test "should use the latest block if forkNumber is not specified": balance
999, code `[0x23, 0x33]` and nonce 9 of account 1 at block 100. -/
theorem ForkedState.first_read_inherits_witness :
    ((ForkedState.fresh Example.provider 100).GetBalance 1).2 = 999 ∧
      ((ForkedState.fresh Example.provider 100).GetCode 1).2 = [35, 51] ∧
      ((ForkedState.fresh Example.provider 100).GetNonce 1).2 = 9 :=
  ⟨((ForkedState.first_read_inherits Example.provider none
      (ForkedState.fresh Example.provider 100) 1 rfl).2 999 rfl).1,
    (((ForkedState.first_read_inherits Example.provider none
      (ForkedState.fresh Example.provider 100) 1 rfl).2 999 rfl).2 [35, 51] rfl).1,
    (((ForkedState.first_read_inherits Example.provider none
      (ForkedState.fresh Example.provider 100) 1 rfl).2 999 rfl).2 [35, 51] rfl).2 9 rfl⟩

/-! ## The transaction runner -/

/-- C7 (as stated) fails: when the EVM panics after crediting account 2, `ApplyTx` returns the
recovered panic as an error and the credit stays in the state; and when the commit fails,
`ApplyTx` returns an error after `GasUsed` and `TransactionIndex` were advanced. -/
theorem ExeVM.ApplyTx_error_without_revert :
    ((Example.panickingVM.ApplyTx (ForkedState.fresh Example.provider 100) Example.tx
          Example.vmContext false true).err = some (GoError.txExecutionError 1) ∧
      (Example.panickingVM.ApplyTx (ForkedState.fresh Example.provider 100) Example.tx
          Example.vmContext false true).state.readAll [StateRead.GetBalance 2]
        = some [OpValue.int 5] ∧
      (ForkedState.fresh Example.provider 100).readAll [StateRead.GetBalance 2]
        = some [OpValue.int 0]) ∧
    ((Example.commitFailingVM.ApplyTx (ForkedState.fresh Example.provider 100) Example.tx
          Example.vmContext true true).err = some (GoError.couldNotCommit 3) ∧
      (Example.commitFailingVM.ApplyTx (ForkedState.fresh Example.provider 100) Example.tx
          Example.vmContext true true).vmContext.GasUsed = 21000 ∧
      (Example.commitFailingVM.ApplyTx (ForkedState.fresh Example.provider 100) Example.tx
          Example.vmContext true true).vmContext.TransactionIndex = 1 ∧
      Example.vmContext.GasUsed = 0 ∧ Example.vmContext.TransactionIndex = 0) := by
  decide

theorem Prog.exec_Above {ρ : Type} (base : List ForkedState) (id : Nat)
    (hid : base.length = id + 1) (prog : Prog ρ) (s : ForkedState)
    (hn : prog.revertsAbove id s = true) (h : ForkedState.Above base s.snapshots) :
    ForkedState.Above base (prog.exec s).1.snapshots := by
  induction prog generalizing s with
  | ret r => exact h
  | panic msg => exact h
  | op o k ih =>
    unfold Prog.revertsAbove at hn
    rw [Bool.and_eq_true] at hn
    unfold Prog.exec
    cases hstep : s.step o with
    | none => exact h
    | some r =>
      obtain ⟨s1, v⟩ := r
      rw [hstep] at hn
      simp only at hn ⊢
      exact ih v s1 hn.2 (ForkedState.step_Above base id hid s s1 o v hn.1 hstep h)

/-- The states from which `ApplyTx` may revert to its snapshot: reverting succeeds and gives
back the data of the state that `ApplyTx` was called with. -/
theorem ExeVM.revert_to_own_snapshot (state state4 : ForkedState) (thash : Hash) (ti : Int)
    (h : ForkedState.Above
      ((state.Prepare thash ti).snapshots ++ [(state.Prepare thash ti).Copy]) state4.snapshots) :
    ∃ state5, state4.RevertToSnapshot (state.Prepare thash ti).Snapshot.2 = some state5 ∧
      ∀ reads : List StateRead, state5.readAll reads = state.readAll reads := by
  obtain ⟨s2, hrev, hagree, -⟩ := ForkedState.revert_of_Above (state.Prepare thash ti) state4 h
  refine ⟨s2, hrev, fun reads => ?_⟩
  have hprep : ForkedState.Agree (state.Prepare thash ti) state :=
    ⟨rfl, rfl, rfl, rfl, rfl, rfl, rfl, rfl⟩
  rw [hagree.readAll reads, hprep.readAll reads]

theorem ExeVM.finish_err_not_external (m : ExeVM) (state : ForkedState) (tx : Tx)
    (vmContext : VMContext) (commit genReceipt : Bool) (msgResult : ExecutionResult)
    (code : Nat) :
    (m.finish state tx vmContext commit genReceipt msgResult).err ≠
      some (GoError.external code) := by
  unfold ExeVM.finish
  simp only
  split
  · simp
  · split
    · simp
    · split <;> simp [ExeVM.recovered]

/-- C7 (amended): for every non-pseudo transaction during which the opening tracer callback and
the EVM revert only to snapshots they took themselves, whenever `ApplyTx` returns an error that
is neither a recovered panic nor a failed commit (so an error of the message conversion, of the
EVM's message application, or a recorded `LastError`), every sequence of reads of the state
returns the values it returned before the call, no receipt is returned, and
`vmContext.GasUsed` and `vmContext.TransactionIndex` are unchanged. -/
theorem ExeVM.ApplyTx_error_reverts (m : ExeVM) (state : ForkedState) (tx : Tx)
    (vmContext : VMContext) (commit genReceipt : Bool) (code : Nat)
    (hpseudo : tx.isPseudo = false)
    (hnest : m.revertsOwnSnapshots state tx vmContext = true)
    (herr : (m.ApplyTx state tx vmContext commit genReceipt).err
      = some (GoError.external code)) :
    (∀ reads : List StateRead,
        (m.ApplyTx state tx vmContext commit genReceipt).state.readAll reads
          = state.readAll reads) ∧
      (m.ApplyTx state tx vmContext commit genReceipt).receipt = none ∧
      (m.ApplyTx state tx vmContext commit genReceipt).vmContext.GasUsed = vmContext.GasUsed ∧
      (m.ApplyTx state tx vmContext commit genReceipt).vmContext.TransactionIndex
        = vmContext.TransactionIndex := by
  unfold ExeVM.ApplyTx at herr ⊢
  unfold ExeVM.revertsOwnSnapshots at hnest
  rw [hpseudo] at herr ⊢
  simp only [Bool.false_eq_true, if_false] at herr ⊢
  cases hmsg : m.buildMessage tx vmContext with
  | error e =>
    exact ⟨fun _ => rfl, rfl, rfl, rfl⟩
  | ok msg =>
    rw [hmsg] at herr hnest
    simp only at herr hnest ⊢
    have hbase : ForkedState.Above
        ((state.Prepare tx.Hash vmContext.TransactionIndex).snapshots ++
          [(state.Prepare tx.Hash vmContext.TransactionIndex).Copy])
        (state.Prepare tx.Hash vmContext.TransactionIndex).Snapshot.1.snapshots :=
      ForkedState.Above.base _
    have hid : ((state.Prepare tx.Hash vmContext.TransactionIndex).snapshots ++
        [(state.Prepare tx.Hash vmContext.TransactionIndex).Copy]).length
        = (state.Prepare tx.Hash vmContext.TransactionIndex).Snapshot.2 + 1 := by
      simp [ForkedState.Snapshot]
    -- the state when the EVM starts, and the EVM's nesting from there
    have key : ∀ state3 : ForkedState,
        ForkedState.Above
          ((state.Prepare tx.Hash vmContext.TransactionIndex).snapshots ++
            [(state.Prepare tx.Hash vmContext.TransactionIndex).Copy]) state3.snapshots →
        (m.ApplyMessage msg).revertsAbove
          (state.Prepare tx.Hash vmContext.TransactionIndex).Snapshot.2 state3 = true →
        ∀ r : ApplyTxResult,
          r = (match (m.ApplyMessage msg).exec state3 with
            | (state4, Except.error panicMsg) => ExeVM.recovered none none panicMsg state4 vmContext
            | (state4, Except.ok (msgResult, some err)) =>
                match state4.RevertToSnapshot
                  (state.Prepare tx.Hash vmContext.TransactionIndex).Snapshot.2 with
                | none => ExeVM.recovered msgResult none 0 state4 vmContext
                | some state5 =>
                    { msgResult := msgResult, receipt := none, err := some err, state := state5,
                      vmContext := vmContext }
            | (state4, Except.ok (msgResult, none)) =>
                match state4.LastError with
                | some err =>
                    match state4.RevertToSnapshot
                      (state.Prepare tx.Hash vmContext.TransactionIndex).Snapshot.2 with
                    | none => ExeVM.recovered msgResult none 0 state4 vmContext
                    | some state5 =>
                        { msgResult := msgResult, receipt := none, err := some err,
                          state := state5, vmContext := vmContext }
                | none =>
                    match msgResult with
                    | none => ExeVM.recovered none none 0 state4 vmContext
                    | some result => m.finish state4 tx vmContext commit genReceipt result) →
          r.err = some (GoError.external code) →
          (∀ reads : List StateRead, r.state.readAll reads = state.readAll reads) ∧
            r.receipt = none ∧ r.vmContext.GasUsed = vmContext.GasUsed ∧
            r.vmContext.TransactionIndex = vmContext.TransactionIndex := by
      intro state3 h3 hn3 r hr hre
      have h4 := Prog.exec_Above _ _ hid (m.ApplyMessage msg) state3 hn3 h3
      rcases hex : (m.ApplyMessage msg).exec state3 with ⟨state4, _ | ⟨msgResult, _ | err⟩⟩
      · rw [hex] at hr
        simp only at hr
        rw [hr] at hre
        simp [ExeVM.recovered] at hre
      · rw [hex] at hr h4
        simp only at hr h4
        obtain ⟨state5, hrev, hreads⟩ := ExeVM.revert_to_own_snapshot state state4 _ _ h4
        cases hle : state4.LastError with
        | none =>
          rw [hle] at hr
          simp only at hr
          cases msgResult with
          | none =>
            rw [hr] at hre
            simp [ExeVM.recovered] at hre
          | some result =>
            rw [hr] at hre
            exact absurd hre (ExeVM.finish_err_not_external m state4 tx vmContext commit
              genReceipt result code)
        | some e =>
          rw [hle, hrev] at hr
          simp only at hr
          rw [hr]
          exact ⟨hreads, rfl, rfl, rfl⟩
      · rw [hex] at hr h4
        simp only at hr h4
        obtain ⟨state5, hrev, hreads⟩ := ExeVM.revert_to_own_snapshot state state4 _ _ h4
        rw [hrev] at hr
        simp only at hr
        rw [hr]
        exact ⟨hreads, rfl, rfl, rfl⟩
    cases htr : m.Tracer with
    | none =>
      rw [htr] at herr hnest
      simp only at herr hnest ⊢
      exact key _ hbase hnest _ rfl herr
    | some tracer =>
      rw [htr] at herr hnest
      simp only [Bool.and_eq_true] at herr hnest ⊢
      have h3 := Prog.exec_Above _ _ hid tracer.TransactionStart _ hnest.1 hbase
      rcases hst : tracer.TransactionStart.exec
        (state.Prepare tx.Hash vmContext.TransactionIndex).Snapshot.1 with ⟨state3, _ | u⟩
      · rw [hst] at herr
        simp [ExeVM.recovered] at herr
      · rw [hst] at herr hnest h3
        simp only at herr hnest h3 ⊢
        exact key state3 h3 hnest.2 _ rfl herr

/-- C7 witness: the EVM credits account 2, writes a slot under its own snapshot, reverts to it
and fails the message; `ApplyTx` returns that error, account 2 reads as before the call, there
is no receipt and the counters of the context stand as they were. -/
theorem ExeVM.ApplyTx_error_reverts_witness :
    (Example.failingVM.ApplyTx (ForkedState.fresh Example.provider 100) Example.tx
        Example.vmContext false true).err = some (GoError.external 7) ∧
      (Example.failingVM.ApplyTx (ForkedState.fresh Example.provider 100) Example.tx
        Example.vmContext false true).state.readAll
          [StateRead.GetBalance 2, StateRead.GetState 2 0]
        = some [OpValue.int 0, OpValue.word 0] ∧
      (Example.failingVM.ApplyTx (ForkedState.fresh Example.provider 100) Example.tx
        Example.vmContext false true).receipt = none ∧
      (Example.failingVM.ApplyTx (ForkedState.fresh Example.provider 100) Example.tx
        Example.vmContext false true).vmContext.GasUsed = Example.vmContext.GasUsed ∧
      (Example.failingVM.ApplyTx (ForkedState.fresh Example.provider 100) Example.tx
        Example.vmContext false true).vmContext.TransactionIndex
        = Example.vmContext.TransactionIndex :=
  have h := ExeVM.ApplyTx_error_reverts Example.failingVM
    (ForkedState.fresh Example.provider 100) Example.tx Example.vmContext false true 7 rfl
    (by decide) (by decide)
  ⟨by decide, (h.1 _).trans (by decide), h.2.1, h.2.2.1, h.2.2.2⟩

/-! ## Provider errors in the state interface -/

theorem ForkedState.inheritAccountState_err (s : ForkedState) (addr : Address) (e : GoError)
    (h : (s.inheritAccountState addr).2 = some e) :
    (s.inheritAccountState addr).1.dirtyClearedStorage = s.dirtyClearedStorage ∧
      (s.inheritAccountState addr).1.committedClearedStorage = s.committedClearedStorage := by
  unfold ForkedState.inheritAccountState at h ⊢
  split_ifs at h ⊢ with hc
  · rcases hb : s.stateProvider.BalanceAt addr s.forkNumber with ⟨b, _ | eb⟩
    · rw [hb] at h
      rcases hcode : s.stateProvider.CodeAt addr s.forkNumber with ⟨c, _ | ec⟩
      · rw [hcode] at h
        rcases hn : s.stateProvider.NonceAt addr s.forkNumber with ⟨n, _ | en⟩
        · rw [hn] at h
          simp at h
        · exact ⟨rfl, rfl⟩
      · exact ⟨rfl, rfl⟩
    · exact ⟨rfl, rfl⟩

theorem ForkedState.touchAccount_err (s : ForkedState) (addr : Address) (e : GoError)
    (h : (s.inheritAccountState addr).2 = some e) :
    (s.touchAccount addr).lastErr = some e ∧
      (s.touchAccount addr).dirtyClearedStorage = s.dirtyClearedStorage := by
  unfold ForkedState.touchAccount ForkedState.recordErr
  rw [h]
  exact ⟨rfl, (ForkedState.inheritAccountState_err s addr e h).1⟩

theorem ForkedState.inheritAccountStorage_keeps (s : ForkedState) (addr : Address) (key : Hash) :
    (s.inheritAccountStorage addr key).1.lastErr = s.lastErr ∧
      (s.inheritAccountStorage addr key).1.dirtyClearedStorage = s.dirtyClearedStorage := by
  unfold ForkedState.inheritAccountStorage
  split_ifs
  · rcases hv : s.stateProvider.StorageAt addr key s.forkNumber with ⟨v, _ | ev⟩
    · cases hm : s.storageInherited addr <;> exact ⟨rfl, rfl⟩
    · exact ⟨rfl, rfl⟩
  · exact ⟨rfl, rfl⟩

theorem ForkedState.recordErr_isSome (r : ForkedState × Option GoError)
    (h : r.1.lastErr.isSome = true) : (ForkedState.recordErr r).lastErr.isSome = true := by
  unfold ForkedState.recordErr
  cases r.2 with
  | none => exact h
  | some e => rfl

theorem ForkedState.recordErr_dirty (r : ForkedState × Option GoError) :
    (ForkedState.recordErr r).dirtyClearedStorage = r.1.dirtyClearedStorage := by
  unfold ForkedState.recordErr
  cases r.2 <;> rfl

theorem ForkedState.touchStorage_err (s : ForkedState) (addr : Address) (key : Hash)
    (e : GoError) (h : (s.inheritAccountState addr).2 = some e) :
    (s.touchStorage addr key).lastErr.isSome = true ∧
      (s.touchStorage addr key).dirtyClearedStorage = s.dirtyClearedStorage := by
  have h1 := ForkedState.touchAccount_err s addr e h
  have h2 := ForkedState.inheritAccountStorage_keeps (s.touchAccount addr) addr key
  unfold ForkedState.touchStorage
  refine ⟨ForkedState.recordErr_isSome _ ?_, ?_⟩
  · rw [h2.1, h1.1]; rfl
  · rw [ForkedState.recordErr_dirty, h2.2, h1.2]

/-- C11: when the provider fails while an account that has no inner map of cleared slots is
being inherited, eleven of the twelve state-interface operations return and leave a provider
error in `LastError()`, but `SetState` does not return: its final assignment writes into the
nil inner map of `dirtyClearedStorage`, a runtime panic. -/
theorem ForkedState.SetState_panics_on_provider_error (s : ForkedState) (addr : Address)
    (hash value : Hash) (amount : Int) (nonce : Nat) (code : List Nat) (e : GoError)
    (herr : (s.inheritAccountState addr).2 = some e)
    (hmap : s.dirtyClearedStorage addr = none) :
    (s.GetBalance addr).1.LastError = some e ∧
      (s.AddBalance addr amount).LastError = some e ∧
      (s.SubBalance addr amount).LastError = some e ∧
      (s.GetNonce addr).1.LastError = some e ∧
      (s.SetNonce addr nonce).LastError = some e ∧
      (s.GetCode addr).1.LastError = some e ∧
      (s.SetCode addr code).LastError = some e ∧
      (s.Exist addr).1.LastError = some e ∧
      (s.Empty addr).1.LastError = some e ∧
      (s.GetState addr hash).1.LastError.isSome = true ∧
      (s.GetCommittedState addr hash).1.LastError.isSome = true ∧
      s.SetState addr hash value = none := by
  have h1 := (ForkedState.touchAccount_err s addr e herr).1
  have h2 := ForkedState.touchStorage_err s addr hash e herr
  refine ⟨h1, h1, h1, h1, h1, h1, h1, h1, h1, h2.1, ?_, ?_⟩
  · unfold ForkedState.GetCommittedState ForkedState.LastError
    simp only []
    split_ifs
    · exact h2.1
    · exact ForkedState.recordErr_isSome _ h2.1
    · exact h2.1
  · unfold ForkedState.SetState
    simp only [h2.2, hmap]

theorem ForkedState.SetState_panics_on_provider_error_witness :
    ((ForkedState.fresh Example.failingProvider 100).GetBalance 1).1.LastError
        = some (GoError.external 1) ∧
      ((ForkedState.fresh Example.failingProvider 100).GetState 1 0).1.LastError.isSome = true ∧
      (ForkedState.fresh Example.failingProvider 100).SetState 1 0 9 = none :=
  have h := ForkedState.SetState_panics_on_provider_error
    (ForkedState.fresh Example.failingProvider 100) 1 0 9 0 0 [] (GoError.external 1)
    (by decide) rfl
  ⟨h.1, h.2.2.2.2.2.2.2.2.2.1, h.2.2.2.2.2.2.2.2.2.2.2⟩

/-! ## The nested call tracer -/

theorem BasicNestedCallTracer.CaptureState_assigned {D : Type} (t t1 : BasicNestedCallTracer D)
    (pc : Nat) (op : OpCode) (gas cost : Nat) (h : t.CaptureState pc op gas cost = some t1) :
    t1.assigned = some t.totalOperations ∧
      t1.totalOperations = (t.totalOperations + 1) % 2 ^ 64 ∧
      t1.msgCallStack = t.msgCallStack := by
  unfold BasicNestedCallTracer.CaptureState at h
  cases hp : t.CurrentMsgCall with
  | none => rw [hp] at h; exact absurd h (by simp)
  | some p =>
      rw [hp] at h
      cases hc : t.calls[p]? with
      | none => simp only [hc] at h; exact absurd h (by simp)
      | some c =>
          simp only [hc] at h
          have hlt : p < t.calls.length := by
            by_contra hge
            rw [List.getElem?_eq_none (by omega)] at hc
            exact absurd hc (by simp)
          injection h with h
          subst h
          refine ⟨?_, rfl, rfl⟩
          have hp1 : t.msgCallStack.getLast? = some p := hp
          simp [BasicNestedCallTracer.assigned, BasicNestedCallTracer.deref,
            BasicNestedCallTracer.CurrentMsgCall, BasicNestedCallTracer.store, hp1, hlt,
            location.Index]

theorem BasicNestedCallTracer.step_totalOperations {D : Type} (t t1 : BasicNestedCallTracer D)
    (e : TracerEvent) (he : e.isCaptureState = false) (h : t.step e = some t1) :
    t1.totalOperations = t.totalOperations := by
  cases e with
  | TransactionStart tx created =>
      simp only [BasicNestedCallTracer.step, Option.some.injEq] at h
      subst h
      simp only [BasicNestedCallTracer.TransactionStart]
  | CaptureStart =>
      simp only [BasicNestedCallTracer.step, Option.some.injEq] at h
      subst h; rfl
  | CaptureState pc op gas cost scope err => simp [TracerEvent.isCaptureState] at he
  | CaptureEnter typ sender toAddr input value =>
      simp only [BasicNestedCallTracer.step, BasicNestedCallTracer.CaptureEnter] at h
      cases hp : t.msgCallStack.getLast? with
      | none => rw [hp] at h; exact absurd h (by simp)
      | some pp =>
          rw [hp] at h
          cases hc : t.calls[pp]? with
          | none => simp only [hc] at h; exact absurd h (by simp)
          | some c =>
              simp only [hc, Option.some.injEq] at h
              subst h; rfl
  | CaptureExit output gasUsed err =>
      simp only [BasicNestedCallTracer.step, BasicNestedCallTracer.CaptureExit] at h
      cases hp : t.msgCallStack.getLast? with
      | none => rw [hp] at h; exact absurd h (by simp)
      | some pp =>
          rw [hp] at h
          cases hc : t.calls[pp]? with
          | none => simp only [hc] at h; exact absurd h (by simp)
          | some c =>
              simp only [hc, Option.some.injEq] at h
              subst h; rfl
  | CaptureFault =>
      simp only [BasicNestedCallTracer.step, Option.some.injEq] at h
      subst h; rfl
  | CaptureEnd =>
      simp only [BasicNestedCallTracer.step, Option.some.injEq] at h
      subst h; rfl
  | TransactionEnd tx result receipt contractAddress =>
      simp only [BasicNestedCallTracer.step, BasicNestedCallTracer.TransactionEnd] at h
      cases hp : t.msgCallStack.getLast? with
      | none => rw [hp] at h; exact absurd h (by simp)
      | some pp =>
          rw [hp] at h
          cases hc : t.calls[pp]? with
          | none => simp only [hc] at h; exact absurd h (by simp)
          | some c =>
              simp only [hc, Option.some.injEq] at h
              subst h; rfl

theorem BasicNestedCallTracer.indices_bounds {D : Type} (evs : List TracerEvent) :
    ∀ t : BasicNestedCallTracer D,
      t.totalOperations + (evs.filter TracerEvent.isCaptureState).length ≤ 2 ^ 64 →
      (t.indices evs).Pairwise (· < ·) ∧
        ∀ x ∈ t.indices evs, t.totalOperations ≤ x ∧
          x < t.totalOperations + (evs.filter TracerEvent.isCaptureState).length := by
  induction evs with
  | nil => intro t _; simp [BasicNestedCallTracer.indices]
  | cons e es ih =>
      intro t hb
      unfold BasicNestedCallTracer.indices
      cases hs : t.step e with
      | none => simp
      | some t1 =>
          simp only []
          cases he : e.isCaptureState with
          | false =>
              have ht := BasicNestedCallTracer.step_totalOperations t t1 e he hs
              simp only [List.filter_cons, he, Bool.false_eq_true, if_false] at hb ⊢
              rw [← ht] at hb ⊢
              simpa using ih t1 hb
          | true =>
              cases e with
              | CaptureState pc op gas cost scope err =>
                  have ha := BasicNestedCallTracer.CaptureState_assigned t t1 pc op gas cost hs
                  simp only [List.filter_cons, he, if_true, List.length_cons] at hb ⊢
                  have hle : t1.totalOperations ≤ t.totalOperations + 1 := by
                    rw [ha.2.1]; exact Nat.mod_le _ _
                  have ih1 := ih t1 (by omega)
                  rw [ha.1]
                  simp only [Option.toList_some, List.singleton_append, List.pairwise_cons,
                    List.mem_cons, forall_eq_or_imp]
                  have key : ∀ x ∈ t1.indices es, t.totalOperations < x := by
                    intro x hx
                    have hx1 := ih1.2 x hx
                    by_cases hw : t.totalOperations + 1 < 2 ^ 64
                    · have : t1.totalOperations = t.totalOperations + 1 := by
                        rw [ha.2.1]; exact Nat.mod_eq_of_lt hw
                      omega
                    · omega
                  refine ⟨⟨key, ih1.1⟩, ⟨le_refl _, by omega⟩, ?_⟩
                  intro x hx
                  have hx1 := ih1.2 x hx
                  have hx2 := key x hx
                  omega
              | _ => simp [TracerEvent.isCaptureState] at he

/-- C20: the indices that `BasicNestedCallTracer.CaptureState` leaves in `CurrentLocation` are
strictly increasing in callback order, across all message calls, and none is assigned twice;
the counter is a 64-bit `uint`, so this is for sequences that do not exhaust it. -/
theorem BasicNestedCallTracer.indices_strictly_increasing {D : Type}
    (t : BasicNestedCallTracer D) (evs : List TracerEvent)
    (hbound : t.totalOperations + (evs.filter TracerEvent.isCaptureState).length ≤ 2 ^ 64) :
    (t.indices evs).Pairwise (· < ·) ∧ (t.indices evs).Nodup := by
  have h := (BasicNestedCallTracer.indices_bounds evs t hbound).1
  exact ⟨h, h.imp (fun hlt => Nat.ne_of_lt hlt)⟩
theorem BasicNestedCallTracer.indices_strictly_increasing_witness :
    (BasicNestedCallTracer.new (none : Option (MsgCall Unit → Unit))).totalOperations
        + (Example.untakenJumpThenStop.filter TracerEvent.isCaptureState).length ≤ 2 ^ 64 ∧
      ((BasicNestedCallTracer.new (none : Option (MsgCall Unit → Unit))).indices
          Example.untakenJumpThenStop).Pairwise (· < ·) ∧
      ((BasicNestedCallTracer.new (none : Option (MsgCall Unit → Unit))).indices
          Example.untakenJumpThenStop).Nodup :=
  ⟨by decide, BasicNestedCallTracer.indices_strictly_increasing _ _ (by decide)⟩

/-- C19: a `STOP` right after an untaken `JUMPI` is at once the head of a block and a tail. The
tracer opens a block for it and never closes it: after the four opcodes `PUSH1, PUSH1, JUMPI,
STOP`, all captured without error, the block paths of the call hold the locations 0, 1 and 2
only; the location 3 of the `STOP` stays in the open current block and is dropped. -/
theorem NestedCallTracerWithTrace.block_paths_drop_head_that_is_tail :
    (Example.rootTrace Example.untakenJumpThenStop).map
        (fun d => d.pathLocations.map location.Index) = some [0, 1, 2] ∧
      (Example.rootTrace Example.untakenJumpThenStop).map
        (fun d => d.pathLocations.map location.OpCode) = some [vm.PUSH1, vm.PUSH1, vm.JUMPI] ∧
      (Example.rootTrace Example.untakenJumpThenStop).map
        (fun d => (d.currentBasicBlock.map
          (fun b => b.content.map (fun l => (l.Index, l.OpCode))))) =
            some (some [(3, vm.STOP)]) ∧
      (BasicNestedCallTracer.new (some (fun _ => NewDataWithTrace))).indices
        Example.untakenJumpThenStop = [0, 1, 2, 3] := by
  refine ⟨?_, ?_, ?_, ?_⟩ <;> rfl

/-! ## Aggregation over the call tree -/

theorem CallSummary.overallLoop_eq {γ β : Type} (add : γ → β → γ) (cs : List β) :
    ∀ (own pre : List β) (preN : List (Option β)) (acc : γ),
      own.length = cs.length + 1 → preN.length = pre.length →
      CallSummary.overallLoop add (pre ++ own) (preN ++ cs.map some)
          (own.length + cs.length) (2 * pre.length) acc
        = some (alternateFold add own cs acc) := by
  induction cs with
  | nil =>
      intro own pre preN acc hlen hpre
      match own, hlen with
      | [d], _ =>
          have h0 : (2 * pre.length) % 2 = 0 := by omega
          have h1 : 2 * pre.length / 2 = pre.length := by omega
          simp [CallSummary.overallLoop, alternateFold, h0, h1]
  | cons c cs ih =>
      intro own pre preN acc hlen hpre
      match own, hlen with
      | d :: own1, hlen =>
          have hlen1 : own1.length = cs.length + 1 := by simpa using hlen
          have h0 : (2 * pre.length) % 2 = 0 := by omega
          have h1 : 2 * pre.length / 2 = pre.length := by omega
          have h2 : ¬ (2 * pre.length + 1) % 2 = 0 := by omega
          have h3 : (2 * pre.length + 1 - 1) / 2 = preN.length := by omega
          have hn : (d :: own1).length + (c :: cs).length
              = (own1.length + cs.length) + 1 + 1 := by simp; omega
          have ih1 := ih own1 (pre ++ [d]) (preN ++ [some c]) (add (add acc d) c) hlen1
            (by simp [hpre])
          rw [hn]
          unfold CallSummary.overallLoop
          rw [if_pos h0, h1]
          simp only [List.getElem?_append_right (le_refl _), Nat.sub_self, List.getElem?_cons_zero]
          unfold CallSummary.overallLoop
          rw [if_neg h2, h3]
          simp only [List.map_cons, List.getElem?_append_right (le_refl _), Nat.sub_self,
            List.getElem?_cons_zero]
          simp only [List.append_assoc, List.singleton_append, List.length_append,
            List.length_singleton, List.map_cons] at ih1
          rw [alternateFold]
          have hidx : 2 * pre.length + 1 + 1 = 2 * (pre.length + 1) := by omega
          rw [hidx]
          exact ih1

theorem CallSummary.overallLoop_start {γ β : Type} (add : γ → β → γ) (own cs : List β)
    (acc : γ) (hlen : own.length = cs.length + 1) :
    CallSummary.overallLoop add own (cs.map some) (own.length + cs.length) 0 acc
      = some (alternateFold add own cs acc) := by
  simpa using CallSummary.overallLoop_eq add cs own [] [] acc hlen rfl

theorem alternateFold_append {α : Type} (own cs : List (List α)) :
    ∀ acc : List α, alternateFold (fun acc ts => acc ++ ts) own cs acc
      = acc ++ alternate own cs := by
  induction own generalizing cs with
  | nil => intro acc; cases cs <;> simp [alternateFold, alternate]
  | cons d ds ih =>
      intro acc
      cases cs with
      | nil => simp [alternateFold, alternate]
      | cons c cs => simp [alternateFold, alternate, ih]

theorem CallSummary.OverallTransfersOfAll_length (l : List SummaryTree) :
    (CallSummary.OverallTransfersOfAll l).length = l.length := by
  induction l with
  | nil => rfl
  | cons c cs ih => simp [CallSummary.OverallTransfersOfAll, ih]

mutual

theorem CallSummary.OverallTransfers_wellFormed :
    ∀ s : SummaryTree, s.wellFormed = true →
      CallSummary.OverallTransfers s = some s.transfersInOrder
  | ⟨s, failed, isRoot, nested⟩, h => by
      simp only [SummaryTree.wellFormed, Bool.and_eq_true, decide_eq_true_eq] at h
      have hn := CallSummary.OverallTransfersOfAll_wellFormed nested h.2
      have hl : (SummaryTree.transfersInOrderOfAll nested).length = nested.length := by
        have := congrArg List.length hn
        simp only [List.length_map] at this
        rw [← this]
        exact CallSummary.OverallTransfersOfAll_length nested
      unfold CallSummary.OverallTransfers SummaryTree.transfersInOrder
      by_cases hf : failed = true
      · simp [hf]
      · simp only [hf, if_false, Bool.false_eq_true]
        rw [hn]
        have := CallSummary.overallLoop_start (fun (acc : List ITransfer) ts => acc ++ ts)
          (s.Data.map (fun d => d.Transfers)) (SummaryTree.transfersInOrderOfAll nested) []
          (by simp [hl, h.1])
        simp only [List.length_map, hl] at this
        rw [this, alternateFold_append]
        simp

theorem CallSummary.OverallTransfersOfAll_wellFormed :
    ∀ l : List SummaryTree, SummaryTree.allWellFormed l = true →
      CallSummary.OverallTransfersOfAll l = (SummaryTree.transfersInOrderOfAll l).map some
  | [], _ => rfl
  | c :: cs, h => by
      simp only [SummaryTree.allWellFormed, Bool.and_eq_true] at h
      simp only [CallSummary.OverallTransfersOfAll, SummaryTree.transfersInOrderOfAll,
        List.map_cons, CallSummary.OverallTransfers_wellFormed c h.1,
        CallSummary.OverallTransfersOfAll_wellFormed cs h.2]

end

theorem SummaryTree.transfersInOrderOfAll_eq_map (l : List SummaryTree) :
    SummaryTree.transfersInOrderOfAll l = l.map SummaryTree.transfersInOrder := by
  induction l with
  | nil => rfl
  | cons c cs ih => simp [SummaryTree.transfersInOrderOfAll, ih]

theorem CallSummary.OverallTransfersOfAll_eq_map (l : List SummaryTree) :
    CallSummary.OverallTransfersOfAll l = l.map CallSummary.OverallTransfers := by
  induction l with
  | nil => rfl
  | cons c cs ih => simp [CallSummary.OverallTransfersOfAll, ih]

/-- C18: for a summary with one segment more than nested summaries (and so throughout the
tree), `OverallTransfers` returns the empty list when the call failed, and otherwise
`Data[0].Transfers ++ OverallTransfers(c_0) ++ Data[1].Transfers ++ ... ++ Data[n].Transfers`:
the transfers in execution order, without those of failed calls. -/
theorem CallSummary.OverallTransfers_in_execution_order (s : SummaryTree)
    (h : s.wellFormed = true) :
    CallSummary.OverallTransfers s = some s.transfersInOrder ∧
      (s.CallFailed = true → CallSummary.OverallTransfers s = some []) ∧
      (s.CallFailed = false →
        s.NestedSummaries.map CallSummary.OverallTransfers
            = (s.NestedSummaries.map SummaryTree.transfersInOrder).map some ∧
          CallSummary.OverallTransfers s
            = some (alternate (s.summary.Data.map (fun d => d.Transfers))
                (s.NestedSummaries.map SummaryTree.transfersInOrder))) := by
  have h1 := CallSummary.OverallTransfers_wellFormed s h
  obtain ⟨sm, failed, isRoot, nested⟩ := s
  have hn : SummaryTree.allWellFormed nested = true := by
    simp only [SummaryTree.wellFormed, Bool.and_eq_true] at h
    exact h.2
  refine ⟨h1, ?_, ?_⟩
  · intro hf
    simp only at hf
    rw [h1]
    simp [SummaryTree.transfersInOrder, hf]
  · intro hf
    simp only at hf
    refine ⟨?_, ?_⟩
    · rw [← CallSummary.OverallTransfersOfAll_eq_map, ← SummaryTree.transfersInOrderOfAll_eq_map]
      exact CallSummary.OverallTransfersOfAll_wellFormed nested hn
    · rw [h1]
      simp [SummaryTree.transfersInOrder, hf, SummaryTree.transfersInOrderOfAll_eq_map]

theorem CallSummary.OverallTransfers_in_execution_order_witness :
    Example.summaryTree.wellFormed = true ∧
      CallSummary.OverallTransfers Example.summaryTree
        = some [Example.ether 1, Example.ether 2, Example.ether 3, Example.ether 4,
            Example.ether 6] :=
  ⟨by decide,
    (CallSummary.OverallTransfers_in_execution_order Example.summaryTree (by decide)).1.trans
      (by decide)⟩

theorem CallSummary.OverallDefsOfAll_length (l : List SummaryTree) :
    (CallSummary.OverallDefsOfAll l).length = l.length := by
  induction l with
  | nil => rfl
  | cons c cs ih => simp [CallSummary.OverallDefsOfAll, ih]

mutual

theorem CallSummary.OverallDefs_wellFormed :
    ∀ s : SummaryTree, s.wellFormed = true → ∃ defs, CallSummary.OverallDefs s = some defs
  | ⟨s, failed, isRoot, nested⟩, h => by
      simp only [SummaryTree.wellFormed, Bool.and_eq_true, decide_eq_true_eq] at h
      obtain ⟨cs, hn⟩ := CallSummary.OverallDefsOfAll_wellFormed nested h.2
      have hl : cs.length = nested.length := by
        have := congrArg List.length hn
        simp only [List.length_map] at this
        rw [← this]
        exact CallSummary.OverallDefsOfAll_length nested
      unfold CallSummary.OverallDefs
      by_cases hf : failed = true
      · exact ⟨[], by simp [hf]⟩
      · simp only [hf, if_false, Bool.false_eq_true]
        rw [hn]
        have := CallSummary.overallLoop_start StateVariables.AddWithOverride
          (s.Data.map (fun d => d.Defs)) cs [] (by simp [hl, h.1])
        simp only [List.length_map, hl] at this
        rw [this]
        by_cases hr : isRoot = true
        · exact ⟨_, by simp only [hr, Bool.not_true, Bool.false_eq_true, if_false]; rfl⟩
        · exact ⟨_, by simp only [hr, Bool.not_eq_true, Bool.not_false, if_true]; rfl⟩

theorem CallSummary.OverallDefsOfAll_wellFormed :
    ∀ l : List SummaryTree, SummaryTree.allWellFormed l = true →
      ∃ cs : List StateVariables, CallSummary.OverallDefsOfAll l = cs.map some
  | [], _ => ⟨[], rfl⟩
  | c :: cs, h => by
      simp only [SummaryTree.allWellFormed, Bool.and_eq_true] at h
      obtain ⟨d, hd⟩ := CallSummary.OverallDefs_wellFormed c h.1
      obtain ⟨ds, hds⟩ := CallSummary.OverallDefsOfAll_wellFormed cs h.2
      exact ⟨d :: ds, by simp [CallSummary.OverallDefsOfAll, hd, hds]⟩

end

theorem CallSummary.OverallDefs_root_filtered (s : SummaryTree) (hroot : s.IsRoot = true)
    (defs : StateVariables) (h : CallSummary.OverallDefs s = some defs) :
    ∀ d ∈ defs, CallSummary.changed s.summary.preState d = true := by
  obtain ⟨sm, failed, isRoot, nested⟩ := s
  simp only at hroot
  subst hroot
  unfold CallSummary.OverallDefs at h
  by_cases hf : failed = true
  · simp only [hf, if_true, Option.some.injEq] at h
    subst h
    simp
  · simp only [hf, if_false, Bool.false_eq_true] at h
    cases hl : CallSummary.overallLoop StateVariables.AddWithOverride
        (sm.Data.map (fun d => d.Defs)) (CallSummary.OverallDefsOfAll nested)
        (sm.Data.length + nested.length) 0 [] with
    | none => rw [hl] at h; exact absurd h (by simp)
    | some merged =>
        rw [hl] at h
        simp only [Bool.not_true, Bool.false_eq_true, if_false, Option.some.injEq] at h
        subst h
        intro d hd
        exact (List.mem_filter.mp hd).2

/-- C17: on the root summary of a well-formed tree `OverallDefs` returns, and its result holds
no storage definition whose value is the value of the slot in the state before the transaction
and no balance definition whose value is the balance before; a transaction whose only
definition is a write of the value that the slot already had has no overall definition. -/
theorem CallSummary.OverallDefs_root_drops_unchanged (s : SummaryTree)
    (hwf : s.wellFormed = true) (hroot : s.IsRoot = true) :
    (∃ defs, CallSummary.OverallDefs s = some defs ∧
      (∀ a k v l, StateVariable.StorageVariable a k v l ∈ defs →
        v ≠ s.summary.preState.GetState a k) ∧
      (∀ a v l, StateVariable.BalanceVariable a v l ∈ defs →
        0 ≤ s.summary.preState.GetBalance a → v ≠ s.summary.preState.GetBalance a)) ∧
      (∀ (pre : StateView) (a : Address) (k v : Hash) (l : Option location)
          (uses : StateVariables),
        pre.GetState a k = v →
        CallSummary.OverallDefs
          { summary :=
              { newCallSummary pre with
                Data := [{ summary.Data.empty with
                  Defs := [StateVariable.StorageVariable a k v l], Uses := uses }] }
            CallFailed := false
            IsRoot := true
            NestedSummaries := [] } = some []) := by
  refine ⟨?_, ?_⟩
  · obtain ⟨defs, hdefs⟩ := CallSummary.OverallDefs_wellFormed s hwf
    have hf := CallSummary.OverallDefs_root_filtered s hroot defs hdefs
    refine ⟨defs, hdefs, ?_, ?_⟩
    · intro a k v l hmem hv
      have := hf _ hmem
      simp [CallSummary.changed, hv] at this
    · intro a v l hmem hpos hv
      have := hf _ hmem
      simp only [CallSummary.changed, bne_iff_ne, ne_eq] at this
      apply this
      rw [hv, Int.natAbs_of_nonneg (hv ▸ hpos)]
      simp [bigCmp]
  · intro pre a k v l uses hv
    simp [CallSummary.OverallDefs, CallSummary.overallLoop, CallSummary.OverallDefsOfAll,
      StateVariables.AddWithOverride, StateVariables.overrideOne, StateVariable.Copy,
      CallSummary.changed, newCallSummary, hv]

theorem CallSummary.OverallDefs_root_drops_unchanged_witness :
    Example.summaryTree.wellFormed = true ∧ Example.summaryTree.IsRoot = true ∧
      CallSummary.OverallDefs Example.summaryTree
        = some [StateVariable.StorageVariable 1000 3 9 none,
            StateVariable.StorageVariable 1000 2 8 none] ∧
      CallSummary.OverallDefs
          { summary :=
              { newCallSummary Example.preState with
                Data := [{ summary.Data.empty with
                  Defs := [StateVariable.StorageVariable 1000 1 7 none], Uses := [] }] }
            CallFailed := false
            IsRoot := true
            NestedSummaries := [] } = some [] :=
  have h := CallSummary.OverallDefs_root_drops_unchanged Example.summaryTree (by decide) rfl
  ⟨by decide, rfl, by decide, h.2 Example.preState 1000 1 7 none [] rfl⟩

/-! ## The summary tracer -/

theorem TxSummaryTracer.Frame.same (t : TxSummaryTracer) : TxSummaryTracer.Frame t t :=
  ⟨rfl, rfl, rfl⟩

theorem TxSummaryTracer.Frame.andThen {t t1 t2 : TxSummaryTracer}
    (h1 : TxSummaryTracer.Frame t t1) (h2 : TxSummaryTracer.Frame t1 t2) :
    TxSummaryTracer.Frame t t2 :=
  ⟨h2.1.trans h1.1, h2.2.1.trans h1.2.1, h2.2.2.trans h1.2.2⟩

theorem TxSummaryTracer.Frame.storage {t t1 : TxSummaryTracer}
    (h : TxSummaryTracer.Frame t t1) : TxSummaryTracer.StorageFrame t t1 :=
  ⟨h.1, fun a k => by rw [h.2.1]⟩

theorem TxSummaryTracer.StorageFrame.followedBy {t t1 t2 : TxSummaryTracer}
    (h1 : TxSummaryTracer.StorageFrame t t1) (h2 : TxSummaryTracer.StorageFrame t1 t2) :
    TxSummaryTracer.StorageFrame t t2 :=
  ⟨h2.1.trans h1.1, fun a k => (h2.2 a k).trans (h1.2 a k)⟩

theorem ite_some_elim {α : Type} {c : Prop} [Decidable c] {x y : Option α} {r : α} {P : Prop}
    (h : (if c then x else y) = some r) (h1 : x = some r → P) (h2 : y = some r → P) : P := by
  by_cases hc : c
  · rw [if_pos hc] at h; exact h1 h
  · rw [if_neg hc] at h; exact h2 h

theorem TxSummaryTracer.onData_frame (t t1 : TxSummaryTracer) (p : Option Nat)
    (f : summary.Data → summary.Data) (h : t.onData p f = some t1) :
    TxSummaryTracer.Frame t t1 := by
  unfold TxSummaryTracer.onData at h
  split at h
  · exact absurd h (by simp)
  · split at h
    · exact absurd h (by simp)
    · split at h
      · exact absurd h (by simp)
      · split at h
        · exact absurd h (by simp)
        · simp only [Option.some.injEq] at h
          subst h
          exact ⟨rfl, rfl, rfl⟩

theorem TxSummaryTracer.addDefClearUse_frame (t t1 : TxSummaryTracer) (p : Option Nat)
    (use : StateVariable) (h : t.addDefClearUse p use = some t1) :
    TxSummaryTracer.Frame t t1 := by
  unfold TxSummaryTracer.addDefClearUse at h
  split at h
  · simp only [Option.some.injEq] at h
    subst h
    exact TxSummaryTracer.Frame.same _
  · exact TxSummaryTracer.onData_frame _ _ _ _ h

theorem TxSummaryTracer.captureInner_frame (t t1 : TxSummaryTracer) (pc : Nat) (op : OpCode)
    (gas cost : Nat) (scope : vm.ScopeContext) (err : Option GoError)
    (h : t.captureInner pc op gas cost scope err = some t1) :
    TxSummaryTracer.Frame t t1 := by
  unfold TxSummaryTracer.captureInner at h
  simp only [Option.map_eq_some'] at h
  obtain ⟨inner, _, h⟩ := h
  subst h
  exact ⟨rfl, rfl, rfl⟩

theorem TxSummaryTracer.define_balance (t : TxSummaryTracer) (a : Address) (v : Int)
    (l : Option location) :
    TxSummaryTracer.StorageFrame t (t.define (StateVariable.BalanceVariable a v l)) :=
  ⟨rfl, fun a k => by simp [TxSummaryTracer.define, StateVariable.ID]⟩

set_option linter.unusedTactic false in
set_option linter.unreachableTactic false in
theorem TxSummaryTracer.captureUse_frame (t t1 : TxSummaryTracer) (state : StateView)
    (op : OpCode) (scope : vm.ScopeContext) (h : t.captureUse state op scope = some t1) :
    TxSummaryTracer.Frame t t1 := by
  unfold TxSummaryTracer.captureUse at h
  refine ite_some_elim h (fun h => ?_) (fun h => ?_)
  swap
  · simp only [Option.some.injEq] at h; subst h; exact TxSummaryTracer.Frame.same _
  refine ite_some_elim h (fun h => ?_) (fun h => ?_)
  · exact (by
      (first
          | exact TxSummaryTracer.addDefClearUse_frame _ _ _ _ h
          | (split at h <;> first
            | exact absurd h (Option.some_ne_none _).symm
            | exact TxSummaryTracer.addDefClearUse_frame _ _ _ _ h
            | exact TxSummaryTracer.onData_frame _ _ _ _ h
            | (simp only [Option.some.injEq] at h; subst h; exact TxSummaryTracer.Frame.same _)
            | (refine ite_some_elim h (fun h => ?_) (fun h => ?_) <;> first
              | exact absurd h (Option.some_ne_none _).symm
              | exact TxSummaryTracer.addDefClearUse_frame _ _ _ _ h
              | exact TxSummaryTracer.onData_frame _ _ _ _ h
              | (simp only [Option.some.injEq] at h; subst h; exact TxSummaryTracer.Frame.same _)))))
  refine ite_some_elim h (fun h => ?_) (fun h => ?_)
  · exact (by
      (first
          | exact TxSummaryTracer.addDefClearUse_frame _ _ _ _ h
          | (split at h <;> first
            | exact absurd h (Option.some_ne_none _).symm
            | exact TxSummaryTracer.addDefClearUse_frame _ _ _ _ h
            | exact TxSummaryTracer.onData_frame _ _ _ _ h
            | (simp only [Option.some.injEq] at h; subst h; exact TxSummaryTracer.Frame.same _)
            | (refine ite_some_elim h (fun h => ?_) (fun h => ?_) <;> first
              | exact absurd h (Option.some_ne_none _).symm
              | exact TxSummaryTracer.addDefClearUse_frame _ _ _ _ h
              | exact TxSummaryTracer.onData_frame _ _ _ _ h
              | (simp only [Option.some.injEq] at h; subst h; exact TxSummaryTracer.Frame.same _)))))
  refine ite_some_elim h (fun h => ?_) (fun h => ?_)
  · exact (by
      (first
          | exact TxSummaryTracer.addDefClearUse_frame _ _ _ _ h
          | (split at h <;> first
            | exact absurd h (Option.some_ne_none _).symm
            | exact TxSummaryTracer.addDefClearUse_frame _ _ _ _ h
            | exact TxSummaryTracer.onData_frame _ _ _ _ h
            | (simp only [Option.some.injEq] at h; subst h; exact TxSummaryTracer.Frame.same _)
            | (refine ite_some_elim h (fun h => ?_) (fun h => ?_) <;> first
              | exact absurd h (Option.some_ne_none _).symm
              | exact TxSummaryTracer.addDefClearUse_frame _ _ _ _ h
              | exact TxSummaryTracer.onData_frame _ _ _ _ h
              | (simp only [Option.some.injEq] at h; subst h; exact TxSummaryTracer.Frame.same _)))))
  refine ite_some_elim h (fun h => ?_) (fun h => ?_)
  · exact (by
      (first
          | exact TxSummaryTracer.addDefClearUse_frame _ _ _ _ h
          | (split at h <;> first
            | exact absurd h (Option.some_ne_none _).symm
            | exact TxSummaryTracer.addDefClearUse_frame _ _ _ _ h
            | exact TxSummaryTracer.onData_frame _ _ _ _ h
            | (simp only [Option.some.injEq] at h; subst h; exact TxSummaryTracer.Frame.same _)
            | (refine ite_some_elim h (fun h => ?_) (fun h => ?_) <;> first
              | exact absurd h (Option.some_ne_none _).symm
              | exact TxSummaryTracer.addDefClearUse_frame _ _ _ _ h
              | exact TxSummaryTracer.onData_frame _ _ _ _ h
              | (simp only [Option.some.injEq] at h; subst h; exact TxSummaryTracer.Frame.same _)))))
  refine ite_some_elim h (fun h => ?_) (fun h => ?_)
  · exact (by
      (first
          | exact TxSummaryTracer.addDefClearUse_frame _ _ _ _ h
          | (split at h <;> first
            | exact absurd h (Option.some_ne_none _).symm
            | exact TxSummaryTracer.addDefClearUse_frame _ _ _ _ h
            | exact TxSummaryTracer.onData_frame _ _ _ _ h
            | (simp only [Option.some.injEq] at h; subst h; exact TxSummaryTracer.Frame.same _)
            | (refine ite_some_elim h (fun h => ?_) (fun h => ?_) <;> first
              | exact absurd h (Option.some_ne_none _).symm
              | exact TxSummaryTracer.addDefClearUse_frame _ _ _ _ h
              | exact TxSummaryTracer.onData_frame _ _ _ _ h
              | (simp only [Option.some.injEq] at h; subst h; exact TxSummaryTracer.Frame.same _)))))
  refine ite_some_elim h (fun h => ?_) (fun h => ?_)
  · exact (by
      (first
          | exact TxSummaryTracer.addDefClearUse_frame _ _ _ _ h
          | (split at h <;> first
            | exact absurd h (Option.some_ne_none _).symm
            | exact TxSummaryTracer.addDefClearUse_frame _ _ _ _ h
            | exact TxSummaryTracer.onData_frame _ _ _ _ h
            | (simp only [Option.some.injEq] at h; subst h; exact TxSummaryTracer.Frame.same _)
            | (refine ite_some_elim h (fun h => ?_) (fun h => ?_) <;> first
              | exact absurd h (Option.some_ne_none _).symm
              | exact TxSummaryTracer.addDefClearUse_frame _ _ _ _ h
              | exact TxSummaryTracer.onData_frame _ _ _ _ h
              | (simp only [Option.some.injEq] at h; subst h; exact TxSummaryTracer.Frame.same _)))))
  refine ite_some_elim h (fun h => ?_) (fun h => ?_)
  · exact (by
      (first
          | exact TxSummaryTracer.addDefClearUse_frame _ _ _ _ h
          | (split at h <;> first
            | exact absurd h (Option.some_ne_none _).symm
            | exact TxSummaryTracer.addDefClearUse_frame _ _ _ _ h
            | exact TxSummaryTracer.onData_frame _ _ _ _ h
            | (simp only [Option.some.injEq] at h; subst h; exact TxSummaryTracer.Frame.same _)
            | (refine ite_some_elim h (fun h => ?_) (fun h => ?_) <;> first
              | exact absurd h (Option.some_ne_none _).symm
              | exact TxSummaryTracer.addDefClearUse_frame _ _ _ _ h
              | exact TxSummaryTracer.onData_frame _ _ _ _ h
              | (simp only [Option.some.injEq] at h; subst h; exact TxSummaryTracer.Frame.same _)))))
  refine ite_some_elim h (fun h => ?_) (fun h => ?_)
  · exact (by
      (first
          | exact TxSummaryTracer.addDefClearUse_frame _ _ _ _ h
          | (split at h <;> first
            | exact absurd h (Option.some_ne_none _).symm
            | exact TxSummaryTracer.addDefClearUse_frame _ _ _ _ h
            | exact TxSummaryTracer.onData_frame _ _ _ _ h
            | (simp only [Option.some.injEq] at h; subst h; exact TxSummaryTracer.Frame.same _)
            | (refine ite_some_elim h (fun h => ?_) (fun h => ?_) <;> first
              | exact absurd h (Option.some_ne_none _).symm
              | exact TxSummaryTracer.addDefClearUse_frame _ _ _ _ h
              | exact TxSummaryTracer.onData_frame _ _ _ _ h
              | (simp only [Option.some.injEq] at h; subst h; exact TxSummaryTracer.Frame.same _)))))
  refine ite_some_elim h (fun h => ?_) (fun h => ?_)
  · exact (by
      (first
          | exact TxSummaryTracer.addDefClearUse_frame _ _ _ _ h
          | (split at h <;> first
            | exact absurd h (Option.some_ne_none _).symm
            | exact TxSummaryTracer.addDefClearUse_frame _ _ _ _ h
            | exact TxSummaryTracer.onData_frame _ _ _ _ h
            | (simp only [Option.some.injEq] at h; subst h; exact TxSummaryTracer.Frame.same _)
            | (refine ite_some_elim h (fun h => ?_) (fun h => ?_) <;> first
              | exact absurd h (Option.some_ne_none _).symm
              | exact TxSummaryTracer.addDefClearUse_frame _ _ _ _ h
              | exact TxSummaryTracer.onData_frame _ _ _ _ h
              | (simp only [Option.some.injEq] at h; subst h; exact TxSummaryTracer.Frame.same _)))))
  simp only [Option.some.injEq] at h; subst h; exact TxSummaryTracer.Frame.same _

theorem TxSummaryTracer.addProfitsOf_frame (lib : TransferLib) (p : Option Nat)
    (transfers : List ITransfer) :
    ∀ t t1 : TxSummaryTracer, TxSummaryTracer.addProfitsOf lib t p transfers = some t1 →
      TxSummaryTracer.Frame t t1 := by
  induction transfers with
  | nil =>
      intro t t1 h
      simp only [TxSummaryTracer.addProfitsOf, Option.some.injEq] at h
      subst h
      exact TxSummaryTracer.Frame.same _
  | cons x xs ih =>
      intro t t1 h
      unfold TxSummaryTracer.addProfitsOf at h
      split at h
      · exact absurd h (by simp)
      · rename_i t2 h2
        exact (TxSummaryTracer.onData_frame _ _ _ _ h2).andThen (ih _ _ h)

theorem TxSummaryTracer.captureTransfer_frame (lib : TransferLib) (t t1 : TxSummaryTracer)
    (op : OpCode) (scope : vm.ScopeContext)
    (h : TxSummaryTracer.captureTransfer lib t op scope = some t1) :
    TxSummaryTracer.Frame t t1 := by
  unfold TxSummaryTracer.captureTransfer at h
  refine ite_some_elim h (fun h => ?_) (fun h => ?_)
  · split at h
    · split at h
      · exact absurd h (by simp)
      · simp only [Option.some.injEq] at h
        subst h
        exact TxSummaryTracer.Frame.same _
      · split at h
        · exact absurd h (by simp)
        · rename_i t2 h2
          have f2 := TxSummaryTracer.onData_frame _ _ _ _ h2
          refine ite_some_elim h (fun h => ?_) (fun h => ?_)
          · exact f2.andThen (TxSummaryTracer.addProfitsOf_frame lib _ _ _ _ h)
          · simp only [Option.some.injEq] at h
            subst h
            exact f2
    · exact absurd h (by simp)
  · simp only [Option.some.injEq] at h
    subst h
    exact TxSummaryTracer.Frame.same _

theorem TxSummaryTracer.StorageFrame.stores {t t1 : TxSummaryTracer}
    (h : TxSummaryTracer.StorageFrame t t1) :
    TxSummaryTracer.StoresFrame (fun _ _ => false) t t1 :=
  ⟨h.1, fun a k => by rw [h.2 a k]; simp⟩

theorem TxSummaryTracer.StoresFrame.after {b : Address → Hash → Bool}
    {t t1 t2 : TxSummaryTracer} (h1 : TxSummaryTracer.StoresFrame b t t1)
    (h2 : TxSummaryTracer.StorageFrame t1 t2) : TxSummaryTracer.StoresFrame b t t2 :=
  ⟨h2.1.trans h1.1, fun a k => by rw [h2.2 a k, h1.2 a k]⟩

theorem TxSummaryTracer.StoresFrame.before {b : Address → Hash → Bool}
    {t t1 t2 : TxSummaryTracer} (h1 : TxSummaryTracer.StorageFrame t t1)
    (h2 : TxSummaryTracer.StoresFrame b t1 t2) : TxSummaryTracer.StoresFrame b t t2 :=
  ⟨h2.1.trans h1.1, fun a k => by rw [h2.2 a k, h1.2 a k]⟩

theorem TxSummaryTracer.captureDef_stores (t t1 : TxSummaryTracer) (op : OpCode)
    (scope : vm.ScopeContext) (h : t.captureDef op scope = some t1) :
    TxSummaryTracer.StoresFrame
      (fun a k => t.Config.IncludeDef &&
        decide (op = vm.SSTORE ∧ scope.Contract.Address = a ∧ scope.Back 0 = some k)) t t1 := by
  unfold TxSummaryTracer.captureDef at h
  by_cases hc : t.Config.IncludeDef = true ∧ op = vm.SSTORE
  · rw [if_pos hc] at h
    split at h
    · rename_i key value hkey hvalue
      simp only [Option.map_eq_some'] at h
      obtain ⟨t2, h2, h⟩ := h
      have f2 := TxSummaryTracer.onData_frame _ _ _ _ h2
      subst h
      refine ⟨f2.1, fun a k => ?_⟩
      simp only [TxSummaryTracer.define, StateVariable.ID, f2.2.1, hc.1, hc.2, hkey,
        Bool.true_and, true_and, Option.some.injEq]
      by_cases hak : VarID.storage a k = VarID.storage scope.Contract.Address key
      · rw [if_pos hak]
        injection hak with ha hk
        simp [ha, hk]
      · rw [if_neg hak]
        have : ¬ (scope.Contract.Address = a ∧ key = k) := by
          rintro ⟨ha, hk⟩
          exact hak (by rw [ha, hk])
        simp [this]
    · exact absurd h (by simp)
  · rw [if_neg hc] at h
    simp only [Option.some.injEq] at h
    subst h
    refine ⟨rfl, fun a k => ?_⟩
    have : (t.Config.IncludeDef &&
        decide (op = vm.SSTORE ∧ scope.Contract.Address = a ∧ scope.Back 0 = some k)) = false := by
      by_cases hd : t.Config.IncludeDef = true
      · have hop : ¬ op = vm.SSTORE := fun ho => hc ⟨hd, ho⟩
        simp [hop]
      · simp [hd]
    simp only [this, Bool.or_false]

theorem TxSummaryTracer.CaptureState_stores (lib : TransferLib) (t t1 : TxSummaryTracer)
    (state : StateView) (pc : Nat) (op : OpCode) (gas cost : Nat) (scope : vm.ScopeContext)
    (err : Option GoError)
    (h : TxSummaryTracer.CaptureState lib t state pc op gas cost scope err = some t1) :
    TxSummaryTracer.StoresFrame
      (fun a k => t.Config.IncludeDef &&
        decide (op = vm.SSTORE ∧ scope.Contract.Address = a ∧ scope.Back 0 = some k)) t t1 := by
  unfold TxSummaryTracer.CaptureState at h
  split at h
  · exact absurd h (by simp)
  · rename_i t0 h0
    split at h
    · exact absurd h (by simp)
    · split at h
      · exact absurd h (by simp)
      · rename_i t2 h2
        split at h
        · exact absurd h (by simp)
        · rename_i t3 h3
          have f0 := TxSummaryTracer.captureInner_frame _ _ _ _ _ _ _ _ h0
          have f2 := TxSummaryTracer.captureDef_stores _ _ _ _ h2
          have f3 := TxSummaryTracer.captureUse_frame _ _ _ _ _ h3
          have f4 := TxSummaryTracer.captureTransfer_frame _ _ _ _ _ h
          rw [f0.1] at f2
          exact (TxSummaryTracer.StoresFrame.before f0.storage f2).after
            (f3.andThen f4).storage

theorem TxSummaryTracer.recordEther_frame (lib : TransferLib) (t t1 : TxSummaryTracer)
    (p : Option Nat) (transfer : ITransfer)
    (h : TxSummaryTracer.recordEther lib t p transfer = some t1) :
    TxSummaryTracer.Frame t t1 := by
  unfold TxSummaryTracer.recordEther at h
  split at h
  · exact absurd h (by simp)
  · rename_i t2 h2
    have f2 : TxSummaryTracer.Frame t t2 := by
      refine ite_some_elim h2 (fun h2 => ?_) (fun h2 => ?_)
      · exact TxSummaryTracer.onData_frame _ _ _ _ h2
      · simp only [Option.some.injEq] at h2
        subst h2
        exact TxSummaryTracer.Frame.same _
    refine ite_some_elim h (fun h => ?_) (fun h => ?_)
    · exact f2.andThen (TxSummaryTracer.onData_frame _ _ _ _ h)
    · simp only [Option.some.injEq] at h
      subst h
      exact f2

theorem TxSummaryTracer.balanceDefs_storage (t t1 : TxSummaryTracer) (p : Option Nat)
    (a0 a1 : Address) (v0 v1 : Int) (l0 l1 : Option location)
    (h : (match t.onData p (fun d => d.addDefs [StateVariable.BalanceVariable a0 v0 l0]) with
          | none => none
          | some t2 =>
              ((t2.define (StateVariable.BalanceVariable a0 v0 l0)).onData p
                (fun d => d.addDefs [StateVariable.BalanceVariable a1 v1 l1])).map
                (fun t3 => t3.define (StateVariable.BalanceVariable a1 v1 l1))) = some t1) :
    TxSummaryTracer.StorageFrame t t1 := by
  split at h
  · exact absurd h (by simp)
  · rename_i t2 h2
    simp only [Option.map_eq_some'] at h
    obtain ⟨t3, h3, h⟩ := h
    subst h
    have f2 := (TxSummaryTracer.onData_frame _ _ _ _ h2).storage
    have f3 := (TxSummaryTracer.onData_frame _ _ _ _ h3).storage
    exact ((f2.followedBy (TxSummaryTracer.define_balance t2 a0 v0 l0)).followedBy f3).followedBy
      (TxSummaryTracer.define_balance t3 a1 v1 l1)

theorem TxSummaryTracer.CaptureEnter_storage (lib : TransferLib) (t t1 : TxSummaryTracer)
    (state : StateView) (typ : OpCode) (sender toAddr : Address) (input : List Nat)
    (value : Option Int)
    (h : TxSummaryTracer.CaptureEnter lib t state typ sender toAddr input value = some t1) :
    TxSummaryTracer.StorageFrame t t1 := by
  unfold TxSummaryTracer.CaptureEnter at h
  split at h
  · exact absurd h (by simp)
  · split at h
    · exact absurd h (by simp)
    · split at h
      · split at h
        · dsimp only at h
          split at h
          · simp only [Option.some.injEq] at h
            subst h
            exact ⟨rfl, fun _ _ => rfl⟩
          · refine ite_some_elim h (fun h => ?_) (fun h => ?_)
            · split at h
              · exact absurd h (by simp)
              · rename_i t4 h4
                have f5 := (TxSummaryTracer.recordEther_frame _ _ _ _ _ h).storage
                refine TxSummaryTracer.StorageFrame.followedBy ?_ f5
                refine ite_some_elim h4 (fun h4 => ?_) (fun h4 => ?_)
                · refine TxSummaryTracer.StorageFrame.followedBy ?_
                    (TxSummaryTracer.balanceDefs_storage _ _ _ _ _ _ _ _ _ h4)
                  exact ⟨rfl, fun _ _ => rfl⟩
                · simp only [Option.some.injEq] at h4
                  subst h4
                  exact ⟨rfl, fun _ _ => rfl⟩
            · simp only [Option.some.injEq] at h
              subst h
              exact ⟨rfl, fun _ _ => rfl⟩
        · exact absurd h (by simp)
      · exact absurd h (by simp)

theorem TxSummaryTracer.closePaths_frame (t t1 : TxSummaryTracer) (h : t.closePaths = some t1) :
    TxSummaryTracer.Frame t t1 := by
  unfold TxSummaryTracer.closePaths at h
  split at h
  · exact absurd h (by simp)
  · refine ite_some_elim h (fun h => ?_) (fun h => ?_)
    · split at h
      · exact absurd h (by simp)
      · split at h
        · exact absurd h (by simp)
        · simp only [Option.map_eq_some'] at h
          obtain ⟨ds, _, h⟩ := h
          subst h
          exact ⟨rfl, rfl, rfl⟩
    · simp only [Option.some.injEq] at h
      subst h
      exact TxSummaryTracer.Frame.same _

theorem TxSummaryTracer.CaptureExit_frame (t t1 : TxSummaryTracer) (output : List Nat)
    (gasUsed : Nat) (err : Option GoError) (h : t.CaptureExit output gasUsed err = some t1) :
    TxSummaryTracer.Frame t t1 := by
  unfold TxSummaryTracer.CaptureExit at h
  split at h
  · exact absurd h (by simp)
  · rename_i t2 h2
    have f2 := TxSummaryTracer.closePaths_frame _ _ h2
    split at h
    · exact absurd h (by simp)
    · rename_i t3 h3
      have f3 : TxSummaryTracer.Frame t2 t3 := by
        refine ite_some_elim h3 (fun h3 => ?_) (fun h3 => ?_)
        · exact TxSummaryTracer.onData_frame _ _ _ _ h3
        · simp only [Option.some.injEq] at h3
          subst h3
          exact TxSummaryTracer.Frame.same _
      simp only [Option.map_eq_some'] at h
      obtain ⟨inner, _, h⟩ := h
      subst h
      exact (f2.andThen f3).andThen ⟨rfl, rfl, rfl⟩

theorem TxSummaryTracer.TransactionStart_storage (t t1 : TxSummaryTracer) (state : StateView)
    (tx : Tx) (created : Address) (h : t.TransactionStart state tx created = some t1) :
    TxSummaryTracer.StorageFrame t t1 := by
  unfold TxSummaryTracer.TransactionStart at h
  dsimp only at h
  split at h
  · exact absurd h (by simp)
  · split at h
    · exact absurd h (by simp)
    · simp only [Option.some.injEq] at h
      subst h
      exact ⟨rfl, fun _ _ => rfl⟩

theorem TxSummaryTracer.TransactionEnd_storage (lib : TransferLib) (t t1 : TxSummaryTracer)
    (state : StateView) (tx : Tx) (result : Option ExecutionResult) (receipt : Option Receipt)
    (contractAddress : Address)
    (h : TxSummaryTracer.TransactionEnd lib t state tx result receipt contractAddress = some t1) :
    TxSummaryTracer.StorageFrame t t1 := by
  unfold TxSummaryTracer.TransactionEnd at h
  split at h
  · split at h
    · rename_i _ p hp _ _ t2 r h2
      have f2 := (TxSummaryTracer.closePaths_frame _ _ h2).storage
      have f0 : TxSummaryTracer.StorageFrame t { t with Summary := some p } :=
        ⟨rfl, fun _ _ => rfl⟩
      split at h
      · exact absurd h (by simp)
      · rename_i t6 h6
        simp only [Option.map_eq_some'] at h
        obtain ⟨inner, _, h⟩ := h
        subst h
        have f6 : TxSummaryTracer.StorageFrame t2 t6 := by
          refine ite_some_elim h6 (fun h6 => ?_) (fun h6 => ?_)
          · exact (TxSummaryTracer.onData_frame _ _ _ _ h6).storage
          · refine ite_some_elim h6 (fun h6 => ?_) (fun h6 => ?_)
            · dsimp only at h6
              split at h6
              · exact absurd h6 (by simp)
              · rename_i t3 h3
                have f3 : TxSummaryTracer.Frame t2 t3 := by
                  refine ite_some_elim h3 (fun h3 => ?_) (fun h3 => ?_)
                  · exact TxSummaryTracer.addDefClearUse_frame _ _ _ _ h3
                  · simp only [Option.some.injEq] at h3
                    subst h3
                    exact TxSummaryTracer.Frame.same _
                split at h6
                · exact absurd h6 (by simp)
                · rename_i t5 h5
                  have f5 : TxSummaryTracer.StorageFrame t3 t5 := by
                    refine ite_some_elim h5 (fun h5 => ?_) (fun h5 => ?_)
                    · exact TxSummaryTracer.balanceDefs_storage _ _ _ _ _ _ _ _ _ h5
                    · simp only [Option.some.injEq] at h5
                      subst h5
                      exact ⟨rfl, fun _ _ => rfl⟩
                  exact (f3.storage.followedBy f5).followedBy
                    (TxSummaryTracer.recordEther_frame _ _ _ _ _ h6).storage
            · simp only [Option.some.injEq] at h6
              subst h6
              exact ⟨rfl, fun _ _ => rfl⟩
        exact ((f0.followedBy f2).followedBy f6).followedBy ⟨rfl, fun _ _ => rfl⟩
    · exact absurd h (by simp)
  · exact absurd h (by simp)

theorem TxSummaryTracer.step_stores (lib : TransferLib) (t t1 : TxSummaryTracer)
    (state : StateView) (e : TracerEvent) (h : TxSummaryTracer.step lib t state e = some t1) :
    TxSummaryTracer.StoresFrame (fun a k => t.Config.IncludeDef && e.storesTo a k) t t1 := by
  have none_case : ∀ {t2 : TxSummaryTracer}, TxSummaryTracer.StorageFrame t t2 →
      (∀ a k, e.storesTo a k = false) →
      TxSummaryTracer.StoresFrame (fun a k => t.Config.IncludeDef && e.storesTo a k) t t2 := by
    intro t2 hf he
    refine ⟨hf.1, fun a k => ?_⟩
    simp only [hf.2 a k, he a k, Bool.and_false, Bool.or_false]
  cases e with
  | TransactionStart tx created =>
      exact none_case (TxSummaryTracer.TransactionStart_storage _ _ _ _ _ h) (fun _ _ => rfl)
  | CaptureStart =>
      simp only [TxSummaryTracer.step, Option.some.injEq] at h
      subst h
      exact none_case ⟨rfl, fun _ _ => rfl⟩ (fun _ _ => rfl)
  | CaptureState pc op gas cost scope err =>
      exact TxSummaryTracer.CaptureState_stores _ _ _ _ _ _ _ _ _ _ h
  | CaptureEnter typ sender toAddr input value =>
      exact none_case (TxSummaryTracer.CaptureEnter_storage _ _ _ _ _ _ _ _ _ h)
        (fun _ _ => rfl)
  | CaptureExit output gasUsed err =>
      exact none_case (TxSummaryTracer.CaptureExit_frame _ _ _ _ _ h).storage (fun _ _ => rfl)
  | CaptureFault =>
      simp only [TxSummaryTracer.step, Option.some.injEq] at h
      subst h
      exact none_case ⟨rfl, fun _ _ => rfl⟩ (fun _ _ => rfl)
  | CaptureEnd =>
      simp only [TxSummaryTracer.step, Option.some.injEq] at h
      subst h
      exact none_case ⟨rfl, fun _ _ => rfl⟩ (fun _ _ => rfl)
  | TransactionEnd tx result receipt contractAddress =>
      exact none_case (TxSummaryTracer.TransactionEnd_storage _ _ _ _ _ _ _ _ h)
        (fun _ _ => rfl)

theorem TxSummaryTracer.run_stores (lib : TransferLib) (evs : List (StateView × TracerEvent)) :
    ∀ t t1 : TxSummaryTracer, TxSummaryTracer.run lib t evs = some t1 →
      TxSummaryTracer.StoresFrame
        (fun a k => t.Config.IncludeDef && evs.any (fun e => e.2.storesTo a k)) t t1 := by
  induction evs with
  | nil =>
      intro t t1 h
      simp only [TxSummaryTracer.run, Option.some.injEq] at h
      subst h
      exact ⟨rfl, fun a k => by simp⟩
  | cons e es ih =>
      intro t t1 h
      unfold TxSummaryTracer.run at h
      split at h
      · exact absurd h (by simp)
      · rename_i t2 h2
        have f2 := TxSummaryTracer.step_stores _ _ _ _ _ h2
        have f3 := ih _ _ h
        refine ⟨f3.1.trans f2.1, fun a k => ?_⟩
        simp only [f3.2 a k, f2.2 a k, f2.1, List.any_cons, Bool.and_or_distrib_left,
          Bool.or_assoc]

theorem BasicNestedCallTracer.CaptureState_segments (t t1 : BasicNestedCallTracer CallSummary)
    (pc : Nat) (op : OpCode) (gas cost : Nat) (h : t.CaptureState pc op gas cost = some t1) :
    t1.msgCallStack = t.msgCallStack ∧ ∀ q, t1.segments q = t.segments q := by
  unfold BasicNestedCallTracer.CaptureState at h
  cases hp : t.CurrentMsgCall with
  | none => rw [hp] at h; exact absurd h (by simp)
  | some p =>
      rw [hp] at h
      cases hc : t.calls[p]? with
      | none => simp only [hc] at h; exact absurd h (by simp)
      | some c =>
          simp only [hc, Option.some.injEq] at h
          subst h
          refine ⟨rfl, fun q => ?_⟩
          have hlt : p < t.calls.length := by
            by_contra hge
            rw [List.getElem?_eq_none (by omega)] at hc
            exact absurd hc (by simp)
          simp only [BasicNestedCallTracer.segments, BasicNestedCallTracer.store,
            List.getElem?_set]
          by_cases hq : p = q
          · subst hq
            simp [hlt, hc]
          · simp [hq]

theorem NestedCallTracerWithTrace.CaptureState_keeps_segments
    (t t1 : BasicNestedCallTracer CallSummary) (pc : Nat) (op : OpCode) (gas cost : Nat)
    (scope : vm.ScopeContext) (err : Option GoError)
    (h : NestedCallTracerWithTrace.CaptureState t pc op gas cost scope err = some t1) :
    t1.msgCallStack = t.msgCallStack ∧ ∀ q, t1.segments q = t.segments q := by
  unfold NestedCallTracerWithTrace.CaptureState at h
  cases h0 : t.CaptureState pc op gas cost with
  | none => rw [h0] at h; exact absurd h (by simp)
  | some t0 =>
      rw [h0] at h
      have f0 := BasicNestedCallTracer.CaptureState_segments _ _ _ _ _ _ h0
      simp only [] at h
      cases hp : t0.CurrentMsgCall with
      | none => rw [hp] at h; exact absurd h (by simp)
      | some p =>
          rw [hp] at h
          simp only [] at h
          cases hc : t0.calls[p]? with
          | none => simp only [hc] at h; exact absurd h (by simp)
          | some c =>
              simp only [hc] at h
              cases hl : c.CurrentLocation with
              | none => simp only [hl] at h; exact absurd h (by simp)
              | some currentLoc =>
                  cases hi : c.InnerData with
                  | none => simp only [hl, hi] at h; exact absurd h (by simp)
                  | some inner =>
                      simp only [hl, hi, Option.map_eq_some'] at h
                      obtain ⟨d1, _, h⟩ := h
                      subst h
                      refine ⟨f0.1, fun q => ?_⟩
                      rw [← f0.2 q]
                      have hlt : p < t0.calls.length := by
                        by_contra hge
                        rw [List.getElem?_eq_none (by omega)] at hc
                        exact absurd hc (by simp)
                      simp only [BasicNestedCallTracer.segments, BasicNestedCallTracer.store,
                        List.getElem?_set]
                      by_cases hq : p = q
                      · subst hq
                        simp [hlt, hc, hi, IDataWithTrace.withTrace]
                      · simp [hq]

theorem TxSummaryTracer.currentData_segments (t : TxSummaryTracer) :
    t.currentData =
      (match t.INestedCallTracer.msgCallStack.getLast? with
        | none => none
        | some p => (t.INestedCallTracer.segments p).bind List.getLast?) := by
  unfold TxSummaryTracer.currentData TxSummaryTracer.CurrentMsgCall
    BasicNestedCallTracer.CurrentMsgCall BasicNestedCallTracer.deref
    BasicNestedCallTracer.segments
  cases t.INestedCallTracer.msgCallStack.getLast? with
  | none => rfl
  | some p =>
      simp only []
      cases t.INestedCallTracer.calls[p]? with
      | none => rfl
      | some c =>
          simp only []
          cases c.InnerData with
          | none => rfl
          | some s => rfl

theorem TxSummaryTracer.currentData_eq (t t1 : TxSummaryTracer)
    (hs : t1.INestedCallTracer.msgCallStack = t.INestedCallTracer.msgCallStack)
    (hq : ∀ q, t1.INestedCallTracer.segments q = t.INestedCallTracer.segments q) :
    t1.currentData = t.currentData := by
  rw [TxSummaryTracer.currentData_segments, TxSummaryTracer.currentData_segments, hs]
  cases t.INestedCallTracer.msgCallStack.getLast? with
  | none => rfl
  | some p => simp only [hq p]

theorem TxSummaryTracer.captureInner_currentData (t t1 : TxSummaryTracer) (pc : Nat)
    (op : OpCode) (gas cost : Nat) (scope : vm.ScopeContext) (err : Option GoError)
    (h : t.captureInner pc op gas cost scope err = some t1) :
    t1.currentData = t.currentData := by
  unfold TxSummaryTracer.captureInner at h
  simp only [Option.map_eq_some'] at h
  obtain ⟨inner, hi, h⟩ := h
  subst h
  have : inner.msgCallStack = t.INestedCallTracer.msgCallStack ∧
      ∀ q, inner.segments q = t.INestedCallTracer.segments q := by
    refine ite_some_elim hi (fun hi => ?_) (fun hi => ?_)
    · exact NestedCallTracerWithTrace.CaptureState_keeps_segments _ _ _ _ _ _ _ _ hi
    · exact BasicNestedCallTracer.CaptureState_segments _ _ _ _ _ _ hi
  exact TxSummaryTracer.currentData_eq _ _ this.1 this.2

theorem TxSummaryTracer.onData_current (t t1 : TxSummaryTracer)
    (f : summary.Data → summary.Data) (h : t.onData t.CurrentMsgCall f = some t1) :
    ∃ d, t.currentData = some d ∧ t1.currentData = some (f d) ∧
      t1.currentLocation = t.currentLocation := by
  unfold TxSummaryTracer.onData at h
  split at h
  · exact absurd h (by simp)
  · rename_i p hp
    split at h
    · exact absurd h (by simp)
    · rename_i c hc
      split at h
      · exact absurd h (by simp)
      · rename_i s hs
        split at h
        · exact absurd h (by simp)
        · rename_i d hd
          simp only [Option.some.injEq] at h
          subst h
          have hlt : p < t.INestedCallTracer.calls.length := by
            by_contra hge
            rw [List.getElem?_eq_none (by omega)] at hc
            exact absurd hc (by simp)
          have hp1 : t.INestedCallTracer.msgCallStack.getLast? = some p := hp
          refine ⟨d, ?_, ?_, ?_⟩
          · simp [TxSummaryTracer.currentData, BasicNestedCallTracer.deref, hp, hc, hs, hd]
          · simp [TxSummaryTracer.currentData, TxSummaryTracer.CurrentMsgCall,
              BasicNestedCallTracer.CurrentMsgCall, BasicNestedCallTracer.deref,
              BasicNestedCallTracer.store, hp1, hlt, CallSummary.currentData]
          · simp [TxSummaryTracer.currentLocation, TxSummaryTracer.CurrentMsgCall,
              BasicNestedCallTracer.CurrentMsgCall, BasicNestedCallTracer.deref,
              BasicNestedCallTracer.store, hp1, hlt, hc]

theorem StateVariables.absentOne_has (elem : StateVariable) (h : elem.Same elem = true)
    (l : StateVariables) : ∃ u ∈ StateVariables.absentOne elem l, u.Same elem = true := by
  induction l with
  | nil => exact ⟨elem, by simp [StateVariables.absentOne], h⟩
  | cons e rest ih =>
      unfold StateVariables.absentOne
      by_cases he : e.Same elem = true
      · rw [if_pos he]
        exact ⟨e, by simp, he⟩
      · rw [if_neg he]
        obtain ⟨u, hu, hs⟩ := ih
        exact ⟨u, by simp [hu], hs⟩

theorem TxSummaryTracer.CaptureState_SLOAD (lib : TransferLib) (t t1 : TxSummaryTracer)
    (state : StateView) (pc gas cost : Nat) (scope : vm.ScopeContext) (err : Option GoError)
    (k : Hash) (huse : t.Config.IncludeUse = true) (hkey : scope.Back 0 = some k)
    (h : TxSummaryTracer.CaptureState lib t state pc vm.SLOAD gas cost scope err = some t1) :
    (∀ v, t.defs (VarID.storage scope.Contract.Address k) = some v →
        t1.currentUses = t.currentUses) ∧
      (t.defs (VarID.storage scope.Contract.Address k) = none →
        ∃ uses, t.currentUses = some uses ∧
          t1.currentUses = some (uses.AddIfAbsent
            [StateVariable.StorageVariable scope.Contract.Address k
              (state.GetState scope.Contract.Address k) t1.currentLocation])) := by
  unfold TxSummaryTracer.CaptureState at h
  cases h0 : t.captureInner pc vm.SLOAD gas cost scope err with
  | none => rw [h0] at h; exact absurd h (by simp)
  | some t0 =>
      rw [h0] at h
      simp only [] at h
      have f0 := TxSummaryTracer.captureInner_frame _ _ _ _ _ _ _ _ h0
      have d0 := TxSummaryTracer.captureInner_currentData _ _ _ _ _ _ _ _ h0
      cases hp : t0.CurrentMsgCall with
      | none => rw [hp] at h; exact absurd h (by simp)
      | some p =>
          rw [hp] at h
          simp only [] at h
          have hdef : t0.captureDef vm.SLOAD scope = some t0 := by
            unfold TxSummaryTracer.captureDef
            rw [if_neg]
            rintro ⟨_, hop⟩
            exact absurd hop (by decide)
          have htr : ∀ t2 : TxSummaryTracer,
              TxSummaryTracer.captureTransfer lib t2 vm.SLOAD scope = some t2 := by
            intro t2
            unfold TxSummaryTracer.captureTransfer
            rw [if_neg]
            rintro ⟨_, hlo, _⟩
            exact absurd hlo (by decide)
          rw [hdef] at h
          simp only [] at h
          cases h2 : t0.captureUse state vm.SLOAD scope with
          | none => rw [h2] at h; exact absurd h (by simp)
          | some t2 =>
              rw [h2] at h
              simp only [] at h
              rw [htr t2] at h
              simp only [Option.some.injEq] at h
              subst h
              unfold TxSummaryTracer.captureUse at h2
              rw [if_pos (f0.1 ▸ huse), if_pos rfl, hkey] at h2
              simp only [] at h2
              unfold TxSummaryTracer.addDefClearUse at h2
              simp only [StateVariable.ID, f0.2.1] at h2
              refine ⟨fun v hv => ?_, fun hn => ?_⟩
              · rw [hv] at h2
                simp only [Option.some.injEq] at h2
                subst h2
                unfold TxSummaryTracer.currentUses
                rw [d0]
              · rw [hn] at h2
                simp only [] at h2
                obtain ⟨d, hd1, hd2, hd3⟩ := TxSummaryTracer.onData_current _ _ _ h2
                refine ⟨d.Uses, ?_, ?_⟩
                · unfold TxSummaryTracer.currentUses
                  rw [← d0, hd1]
                  rfl
                · unfold TxSummaryTracer.currentUses
                  rw [hd2, hd3]
                  rfl

theorem TxSummaryTracer.run_append (lib : TransferLib) (l1 l2 : List (StateView × TracerEvent)) :
    ∀ t : TxSummaryTracer, TxSummaryTracer.run lib t (l1 ++ l2)
      = (TxSummaryTracer.run lib t l1).bind (fun t1 => TxSummaryTracer.run lib t1 l2) := by
  induction l1 with
  | nil => intro t; rfl
  | cons e es ih =>
      intro t
      simp only [List.cons_append, TxSummaryTracer.run]
      cases TxSummaryTracer.step lib t e.1 e.2 with
      | none => rfl
      | some t1 => exact ih t1

/-- C16, counterexample: with `IncludeDef` and `IncludeUse` enabled, a transaction reads the
slot 5 of the contract twice and never writes it. No `SSTORE` precedes the second `SLOAD`,
yet it is not recorded: `AddIfAbsent` finds the use of the first `SLOAD` (location 1) in the
segment and drops the second (location 3). -/
theorem TxSummaryTracer.repeated_SLOAD_not_recorded :
    (Example.readTwice.any (fun e => e.2.storesTo 1000 5)) = false ∧
      ((TxSummaryTracer.run Example.lib (TxSummaryTracer.new Example.defUse)
          Example.readTwice).bind (fun t => t.currentUses)).map
        (fun uses => uses.map (fun u => (u.ID, u.Location.map location.Index)))
        = some [(VarID.storage 1000 5, some 1)] := by
  refine ⟨?_, ?_⟩ <;> rfl

/-- C16, amended: with `IncludeDef` and `IncludeUse` enabled, after any callbacks of a
transaction on a fresh tracer, a captured `SLOAD` of (contract, slot) is passed to `addUses`
exactly when no `SSTORE` to the same (contract, slot) was captured earlier, in any message
call. When none was, the uses of the current segment become `AddIfAbsent` of the use, which
holds a use of the variable but leaves the list alone when it already held one; when one was,
the uses stay as they are. -/
theorem TxSummaryTracer.SLOAD_def_clear (lib : TransferLib) (config : summary.Config)
    (hdef : config.IncludeDef = true) (huse : config.IncludeUse = true)
    (evs : List (StateView × TracerEvent)) (t t1 : TxSummaryTracer) (state : StateView)
    (pc gas cost : Nat) (scope : vm.ScopeContext) (err : Option GoError) (k : Hash)
    (hrun : TxSummaryTracer.run lib (TxSummaryTracer.new config) evs = some t)
    (hkey : scope.Back 0 = some k)
    (hstep : TxSummaryTracer.step lib t state
      (TracerEvent.CaptureState pc vm.SLOAD gas cost scope err) = some t1) :
    (evs.any (fun e => e.2.storesTo scope.Contract.Address k) = true →
        t1.currentUses = t.currentUses) ∧
      (evs.any (fun e => e.2.storesTo scope.Contract.Address k) = false →
        ∃ uses, t.currentUses = some uses ∧
          t1.currentUses = some (uses.AddIfAbsent
            [StateVariable.StorageVariable scope.Contract.Address k
              (state.GetState scope.Contract.Address k) t1.currentLocation]) ∧
          ∃ u ∈ uses.AddIfAbsent
              [StateVariable.StorageVariable scope.Contract.Address k
                (state.GetState scope.Contract.Address k) t1.currentLocation],
            u.ID = VarID.storage scope.Contract.Address k) := by
  have hf := TxSummaryTracer.run_stores lib evs _ _ hrun
  have hcfg : t.Config = config := hf.1
  have hdefs := hf.2 scope.Contract.Address k
  simp only [TxSummaryTracer.new, Option.isSome_none, Bool.false_or, hdef, Bool.true_and]
    at hdefs
  have hs := TxSummaryTracer.CaptureState_SLOAD lib t t1 state pc gas cost scope err k
    (by rw [hcfg]; exact huse) hkey hstep
  refine ⟨fun hany => ?_, fun hany => ?_⟩
  · rw [hany] at hdefs
    obtain ⟨v, hv⟩ := Option.isSome_iff_exists.mp hdefs
    exact hs.1 v hv
  · rw [hany] at hdefs
    have hn : t.defs (VarID.storage scope.Contract.Address k) = none := by
      cases hd : t.defs (VarID.storage scope.Contract.Address k) with
      | none => rfl
      | some v => rw [hd] at hdefs; exact absurd hdefs (by simp)
    obtain ⟨uses, hu, hu1⟩ := hs.2 hn
    refine ⟨uses, hu, hu1, ?_⟩
    obtain ⟨u, hmem, hsame⟩ := StateVariables.absentOne_has
      (StateVariable.StorageVariable scope.Contract.Address k
        (state.GetState scope.Contract.Address k) t1.currentLocation)
      (by simp [StateVariable.Same]) uses
    refine ⟨u, ?_, ?_⟩
    · simpa [StateVariables.AddIfAbsent, StateVariable.Copy] using hmem
    · cases u <;> simp [StateVariable.Same] at hsame
      simp [StateVariable.ID, hsame.1, hsame.2]

theorem TxSummaryTracer.SLOAD_def_clear_witness :
    ∃ (t t1 : TxSummaryTracer) (uses : StateVariables),
      Example.defUse.IncludeDef = true ∧ Example.defUse.IncludeUse = true ∧
      TxSummaryTracer.run Example.lib (TxSummaryTracer.new Example.defUse)
        (Example.readTwice.take 2) = some t ∧
      (Example.scope [5]).Back 0 = some 5 ∧
      TxSummaryTracer.step Example.lib t Example.preState
        (TracerEvent.CaptureState 2 vm.SLOAD 97 800 (Example.scope [5]) none) = some t1 ∧
      (Example.readTwice.take 2).any (fun e => e.2.storesTo 1000 5) = false ∧
      t.currentUses = some uses ∧
      t1.currentUses = some (uses.AddIfAbsent
        [StateVariable.StorageVariable 1000 5 7 t1.currentLocation]) := by
  obtain ⟨t, ht⟩ := Option.isSome_iff_exists.mp
    (show (TxSummaryTracer.run Example.lib (TxSummaryTracer.new Example.defUse)
      (Example.readTwice.take 2)).isSome = true from rfl)
  have h3 : (TxSummaryTracer.run Example.lib (TxSummaryTracer.new Example.defUse)
      (Example.readTwice.take 2 ++
        [(Example.preState,
          TracerEvent.CaptureState 2 vm.SLOAD 97 800 (Example.scope [5]) none)])).isSome
      = true := rfl
  rw [TxSummaryTracer.run_append, ht] at h3
  simp only [Option.some_bind, TxSummaryTracer.run] at h3
  cases ht1 : TxSummaryTracer.step Example.lib t Example.preState
      (TracerEvent.CaptureState 2 vm.SLOAD 97 800 (Example.scope [5]) none) with
  | none => rw [ht1] at h3; exact absurd h3 (by simp)
  | some t1 =>
      have h := TxSummaryTracer.SLOAD_def_clear Example.lib Example.defUse rfl rfl
        (Example.readTwice.take 2) t t1 Example.preState 2 97 800 (Example.scope [5]) none 5
        ht rfl ht1
      obtain ⟨uses, hu, hu1, _⟩ := h.2 rfl
      exact ⟨t, t1, uses, rfl, rfl, ht, rfl, ht1, rfl, hu, hu1⟩

section DataFlowFacts

open data_flow

/-! ### The data-flow tracer -/

theorem data_flow.operands_none (scope : vm.ScopeContext) :
    ∀ n, scope.Stack.length < n → operands scope n = none := by
  intro n
  induction n with
  | zero => intro h; omega
  | succ k ih =>
      intro h
      have hb : scope.Back k = none := by
        unfold vm.ScopeContext.Back
        rw [if_neg (by omega)]
      simp only [operands, hb]

/-- C15 (the code departs from it): `DataFlowTracer.CaptureState` reads from the real stack as
many words as the opcode takes, whatever the execution error; on a stack that holds fewer words
the callback panics, with any analyzers and any mirror stacks. -/
theorem data_flow.DataFlowTracer.CaptureState_panics_on_stack_underflow {σ : Type}
    (t : DataFlowTracer σ) (pc : Nat) (op : OpCode) (gas cost : Nat) (scope : vm.ScopeContext)
    (err : Option GoError) (h : scope.Stack.length < (GetStackEffects op).1) :
    t.CaptureState pc op gas cost scope err = none := by
  unfold DataFlowTracer.CaptureState
  rw [operands_none scope _ h]
  cases t.BasicNestedCallTracer.deref t.BasicNestedCallTracer.CurrentMsgCall with
  | none => rfl
  | some c =>
      simp only []
      cases forAnalyzers (DataFlowTracer.runCallback (DataFlowTracer.view t.BasicNestedCallTracer)
        scope) t.analyzers (c.InnerData, t.worlds) with
      | none => rfl
      | some s1 =>
          simp only []
          cases t.BasicNestedCallTracer.CaptureState pc op gas cost with
          | none => rfl
          | some base => rfl

/-- C15, on an instance: an `ADD` on a stack of one word, which the interpreter reports with a
stack underflow error, after the start of a transaction with the test analyzer. -/
theorem data_flow.DataFlowTracer.CaptureState_panics_on_stack_underflow_witness :
    (Example.scope [5]).Stack.length < (GetStackEffects vm.ADD).1 ∧
      ((Example.dataFlowTracer Example.sstoreIsSource).TransactionStart Example.callTx 0).isSome
        = true ∧
      ((Example.dataFlowTracer Example.sstoreIsSource).TransactionStart Example.callTx 0).bind
        (fun t =>
          t.CaptureState 0 vm.ADD 100000 3 (Example.scope [5]) (some (GoError.external 2)))
        = none := by
  refine ⟨by decide, rfl, ?_⟩
  cases (Example.dataFlowTracer Example.sstoreIsSource).TransactionStart Example.callTx 0 with
  | none => rfl
  | some t =>
      exact data_flow.DataFlowTracer.CaptureState_panics_on_stack_underflow t 0 vm.ADD 100000 3
        (Example.scope [5]) (some (GoError.external 2)) (by decide)

/-- C14 (the code departs from it): the root call and the nested call of a `DELEGATECALL` have
the same state address, 1000, but not the same storage tracker: the node that the root stored
under the key 5 is not what the nested call loads under that key, and the result of its `SLOAD`
on the mirror stack is untainted. -/
theorem data_flow.DataFlowTracer.root_storage_tracker_not_shared :
    ((Example.dataFlowTracer Example.sstoreIsSource).run Example.storeThenDelegate).map
      (fun t =>
        (t.BasicNestedCallTracer.calls.map (fun c => c.StateAddr),
          (t.collectionOf 0 0).map (fun c => c.Storage),
          (t.collectionOf 0 1).map (fun c => c.Storage),
          t.loads 0 0 5, t.loads 0 1 5,
          (t.collectionOf 0 1).map (fun c => c.Stack.elems)))
      = some ([1000, 1000], some 0, some 1, some (some 0), some none, some [none]) := by
  rfl

/-- C12 (counterexample): with the default policy, a `CALL` that is a source gets in its
after-hook a node whose upstream is the node made for the same operation before the call: the
two have the same index, 7, and the same identifier; with the `NewFlowNode` of the
`TaintAnalyzer` the two are one node, which is its own upstream. And a `MSTORE` over a word that
holds a node makes a `memory_merge` node with the operation of the stored value, index 3, and
with that value, of index 3, as an upstream. And a `MSTORE8` of an older value over a word that
holds a younger node makes a `memory_merge` node with the operation of the stored value, index
0, whose second upstream, the node that the word held, has the greater index 1. -/
theorem data_flow.DataFlowTracer.upstream_of_equal_index :
    ((Example.dataFlowTracer Example.callIsSource).run Example.callThenStop).map
        (fun t => ((t.worlds 0).fromOf 1, (t.worlds 0).indexOf 1, (t.worlds 0).indexOf 0,
          decide ((t.worlds 0).idOf 1 = (t.worlds 0).idOf 0)))
      = some (some [0], some 7, some 7, true) ∧
    (Example.cachingTracer.run Example.callThenStop).map
        (fun t => ((t.worlds 0).fromOf 0, (t.collectionOf 0 0).map (fun c => c.Stack.elems)))
      = some (some [0], some [some 0]) ∧
    ((Example.dataFlowTracer Example.pushIsSource).run Example.overlappingStores).map
        (fun t => ((t.collectionOf 0 0).map (fun c => c.Memory.at 0),
          (t.worlds 0).fromOf 4, (t.worlds 0).indexOf 4, (t.worlds 0).indexOf 2))
      = some (some (some 4), some [2, 0], some 3, some 3) ∧
    ((Example.dataFlowTracer Example.pushIsSource).run Example.olderValueOverYounger).map
        (fun t => ((t.collectionOf 0 0).map (fun c => c.Memory.at 0),
          (t.worlds 0).fromOf 4, (t.worlds 0).indexOf 4, (t.worlds 0).indexOf 1))
      = some (some (some 4), some [0, 1], some 0, some 1) := by
  refine ⟨?_, ?_, ?_, ?_⟩
  · rfl
  · rfl
  · rfl
  · rfl

theorem data_flow.mapSet_values {K V : Type} [DecidableEq K] (m : List (K × V)) (k : K) (v : V)
    (e : K × V) (he : e ∈ mapSet m k v) : e ∈ m ∨ e = (k, v) := by
  unfold mapSet at he
  split at he
  · rw [List.mem_map] at he
    obtain ⟨x, hx, hxe⟩ := he
    split at hxe
    · exact Or.inr hxe.symm
    · exact Or.inl (hxe ▸ hx)
  · rw [List.mem_append] at he
    rcases he with he | he
    · exact Or.inl he
    · exact Or.inr (List.mem_singleton.mp he)

/-- What `AddUpstream` changes: no node but the one at `n`, of that one only the upstreams, and
it adds only nodes of the list that exist. -/
theorem data_flow.AddUpstream_spec (n : Nat) :
    ∀ (ups : FlowNodeList) (nodes nodes1 : List RawFlowNode),
      AddUpstream n ups nodes = some nodes1 →
      nodes1.length = nodes.length ∧
      (∀ p, p ≠ n → nodes1[p]? = nodes[p]?) ∧
      (∀ N1, nodes1[n]? = some N1 → ∃ N, nodes[n]? = some N ∧ N1.label = N.label ∧
        N1.operation = N.operation ∧
        ∀ u ∈ N1.From, u ∈ N.From ∨ (some u ∈ ups ∧ u < nodes.length)) := by
  intro ups
  induction ups with
  | nil =>
      intro nodes nodes1 h
      simp only [AddUpstream, Option.some.injEq] at h
      subst h
      exact ⟨rfl, fun _ _ => rfl, fun N1 h1 => ⟨N1, h1, rfl, rfl, fun u hu => Or.inl hu⟩⟩
  | cons x rest ih =>
      intro nodes nodes1 h
      cases x with
      | none =>
          simp only [AddUpstream] at h
          obtain ⟨h1, h2, h3⟩ := ih nodes nodes1 h
          refine ⟨h1, h2, fun N1 hN1 => ?_⟩
          obtain ⟨N, hN, hl, ho, hu⟩ := h3 N1 hN1
          refine ⟨N, hN, hl, ho, fun u hu1 => ?_⟩
          rcases hu u hu1 with h4 | ⟨h4, h5⟩
          · exact Or.inl h4
          · exact Or.inr ⟨List.mem_cons_of_mem _ h4, h5⟩
      | some p =>
          simp only [AddUpstream] at h
          cases hp : nodes[p]? with
          | none => rw [hp] at h; simp at h
          | some flowNode =>
              cases hn : nodes[n]? with
              | none => rw [hp, hn] at h; simp at h
              | some node =>
                  rw [hp, hn] at h
                  simp only [] at h
                  obtain ⟨h1, h2, h3⟩ := ih _ nodes1 h
                  have hlt : n < nodes.length := (List.getElem?_eq_some_iff.mp hn).1
                  have hplt : p < nodes.length := (List.getElem?_eq_some_iff.mp hp).1
                  refine ⟨by rw [h1, List.length_set], fun q hq => ?_, fun N1 hN1 => ?_⟩
                  · rw [h2 q hq, List.getElem?_set_ne (Ne.symm hq)]
                  · obtain ⟨N, hN, hl, ho, hu⟩ := h3 N1 hN1
                    rw [List.getElem?_set_self hlt] at hN
                    simp only [Option.some.injEq] at hN
                    subst hN
                    refine ⟨node, rfl, hl, ho, fun u hu1 => ?_⟩
                    rcases hu u hu1 with h4 | ⟨h4, h5⟩
                    · simp only [RawFlowNode.From, List.mem_map] at h4
                      obtain ⟨e, he, heu⟩ := h4
                      rcases mapSet_values _ _ _ e he with h6 | h6
                      · left
                        simp only [RawFlowNode.From, List.mem_map]
                        exact ⟨e, h6, heu⟩
                      · right
                        rw [h6] at heu
                        simp only [] at heu
                        subst heu
                        exact ⟨List.mem_cons_self _ _, hplt⟩
                    · right
                      rw [List.length_set] at h5
                      exact ⟨List.mem_cons_of_mem _ h4, h5⟩

theorem data_flow.fresh_node_upstreams (nodes nodes1 : List RawFlowNode) (operation : Operation)
    (label : String) (ups : FlowNodeList)
    (h : AddUpstream nodes.length ups (nodes ++ [NewRawFlowNode operation label]) = some nodes1)
    (hargs : ∀ u, some u ∈ ups → u < nodes.length)
    (hearlier : ∀ U ∈ nodes, U.operation.Index < operation.Index) :
    (∀ p, p < nodes.length → nodes1[p]? = nodes[p]?) ∧
    ∀ p N, nodes.length ≤ p → nodes1[p]? = some N →
      N.operation = operation ∧
      ∀ u ∈ N.From, some u ∈ ups ∧
        ∃ U, nodes1[u]? = some U ∧ U.operation.Index < N.operation.Index := by
  obtain ⟨h1, h2, h3⟩ := AddUpstream_spec _ _ _ _ h
  have hold : ∀ p, p < nodes.length → nodes1[p]? = nodes[p]? := by
    intro p hp
    rw [h2 p (by omega), List.getElem?_append_left hp]
  refine ⟨hold, fun p N hp hN => ?_⟩
  have hplt : p < nodes1.length := (List.getElem?_eq_some_iff.mp hN).1
  rw [h1, List.length_append, List.length_singleton] at hplt
  have hpn : p = nodes.length := by omega
  subst hpn
  obtain ⟨N0, hN0, _, ho, hu⟩ := h3 N hN
  rw [List.getElem?_append_right (Nat.le_refl _)] at hN0
  simp only [Nat.sub_self, List.getElem?_cons_zero, Option.some.injEq] at hN0
  subst hN0
  refine ⟨ho, fun u hu1 => ?_⟩
  rcases hu u hu1 with h4 | ⟨h4, _⟩
  · simp [NewRawFlowNode, RawFlowNode.From] at h4
  · refine ⟨h4, ?_⟩
    have hlt := hargs u h4
    have := hold u hlt
    rw [List.getElem?_eq_getElem hlt] at this
    refine ⟨nodes[u], this, ?_⟩
    rw [ho]
    exact hearlier _ (List.getElem_mem hlt)

/-- The order of the trace indices at one step of `pureOpFlow`: a node that `pureOpFlow` makes
for an operation, with an analyzer that allocates a new node for each call of `NewFlowNode`,
has the operation as its own, and its upstreams are among the arguments popped from the mirror
stack; when these are nodes that exist and all nodes that exist belong to operations of smaller
index, every upstream has a strictly smaller index than the node. The nodes that exist stay as
they are. -/
theorem data_flow.pureOpFlow_upstreams_are_earlier (classify : Operation → Bool × Bool)
    (view : CallView) (scope : vm.ScopeContext) (collection : Nat) (operation : Operation)
    (stackArgs stackResults : FlowNodeList) (w w1 : World data_flow_test.analyzer)
    (results : FlowNodeList) (hook : Option (PolicyHook data_flow_test.analyzer))
    (h : pureOpFlow (data_flow_test.analyzer.methods classify).toAnalyzerMethods.recording view
      scope collection operation stackArgs stackResults w = some (w1, results, hook))
    (hargs : ∀ u, some u ∈ stackArgs → u < w.nodes.length)
    (hearlier : ∀ U ∈ w.nodes, U.operation.Index < operation.Index) :
    (∀ p, p < w.nodes.length → w1.nodes[p]? = w.nodes[p]?) ∧
    ∀ p N, w.nodes.length ≤ p → w1.nodes[p]? = some N →
      N.operation = operation ∧
      ∀ u ∈ N.From, some u ∈ stackArgs ∧
        ∃ U, w1.nodes[u]? = some U ∧ U.operation.Index < N.operation.Index := by
  unfold pureOpFlow at h
  simp only [data_flow_test.analyzer.methods, AnalyzerMethods.recording] at h
  by_cases ht : FlowNodeList.IsTainted stackArgs = true
  · rw [if_pos ht] at h
    cases hr : setResult stackResults 0 (some w.nodes.length) with
    | none => rw [hr] at h; simp at h
    | some r =>
        rw [hr] at h
        simp only [Option.bind_eq_bind, Option.some_bind, World.AddUpstream] at h
        cases ha : AddUpstream w.nodes.length stackArgs
            (w.nodes ++ [NewRawFlowNode operation "test-analyzer"]) with
        | none => rw [ha] at h; simp at h
        | some nodes1 =>
            rw [ha] at h
            simp only [Option.map_some', Option.some_bind] at h
            have hn : w1.nodes = nodes1 := by
              split at h
              · simp only [pure, Option.some.injEq, Prod.mk.injEq] at h
                rw [← h.1]
              · simp only [pure, Option.some.injEq, Prod.mk.injEq] at h
                rw [← h.1]
            rw [hn]
            exact fresh_node_upstreams _ _ _ _ _ ha hargs hearlier
  · rw [if_neg ht] at h
    have ha : AddUpstream w.nodes.length [] (w.nodes ++ [NewRawFlowNode operation "test-analyzer"])
        = some (w.nodes ++ [NewRawFlowNode operation "test-analyzer"]) := rfl
    have hf := fresh_node_upstreams _ _ _ _ _ ha (fun u hu => by simp at hu) hearlier
    split at h
    · cases hr : setResult stackResults 0 (some w.nodes.length) with
      | none => rw [hr] at h; simp at h
      | some r =>
          rw [hr] at h
          simp only [Option.bind_eq_bind, Option.some_bind, pure, Option.some.injEq,
            Prod.mk.injEq] at h
          rw [← h.1]
          refine ⟨hf.1, fun p N hp hN => ?_⟩
          obtain ⟨h1, h2⟩ := hf.2 p N hp hN
          exact ⟨h1, fun u hu => absurd (h2 u hu).1 (by simp)⟩
    · simp only [pure, Option.some.injEq, Prod.mk.injEq] at h
      rw [← h.1]
      refine ⟨fun _ _ => rfl, fun p N hp hN => ?_⟩
      have := (List.getElem?_eq_some_iff.mp hN).1
      omega

section mapData

variable {D E : Type} (f : D → E)

theorem MsgCall.GenChildPosition_mapInner (calls : List (MsgCall D)) (c : MsgCall D) (b : Bool) :
    (c.mapInner f).GenChildPosition (calls.map (MsgCall.mapInner f)) b
      = c.GenChildPosition calls b := by
  unfold MsgCall.GenChildPosition
  simp only [MsgCall.mapInner]
  cases b with
  | true => rfl
  | false =>
      simp only [Bool.false_eq_true, if_false]
      congr 4
      apply List.filter_congr
      intro p _
      rw [List.getElem?_map]
      cases calls[p]? <;> rfl

theorem BasicNestedCallTracer.mapData_CaptureState (t : BasicNestedCallTracer D)
    (pc : Nat) (op : OpCode) (gas cost : Nat) :
    (t.mapData f).CaptureState pc op gas cost
      = (t.CaptureState pc op gas cost).map (BasicNestedCallTracer.mapData f) := by
  unfold BasicNestedCallTracer.CaptureState BasicNestedCallTracer.CurrentMsgCall
  simp only [BasicNestedCallTracer.mapData, List.getElem?_map]
  cases t.msgCallStack.getLast? with
  | none => rfl
  | some p =>
      simp only []
      cases t.calls[p]? with
      | none => rfl
      | some c =>
          simp only [Option.map_some', BasicNestedCallTracer.store, List.map_set,
            MsgCall.mapInner, BasicNestedCallTracer.mapData]

theorem BasicNestedCallTracer.mapData_CaptureExit (t : BasicNestedCallTracer D)
    (output : List Nat) (gasUsed : Nat) (err : Option GoError) :
    (t.mapData f).CaptureExit output gasUsed err
      = (t.CaptureExit output gasUsed err).map (BasicNestedCallTracer.mapData f) := by
  unfold BasicNestedCallTracer.CaptureExit
  simp only [BasicNestedCallTracer.mapData, List.getElem?_map]
  cases t.msgCallStack.getLast? with
  | none => rfl
  | some p =>
      simp only []
      cases t.calls[p]? with
      | none => rfl
      | some c =>
          simp only [Option.map_some', BasicNestedCallTracer.store, List.map_set,
            MsgCall.mapInner, BasicNestedCallTracer.mapData]

theorem BasicNestedCallTracer.mapData_TransactionEnd (t : BasicNestedCallTracer D)
    (result : Option ExecutionResult) (receipt : Option Receipt) :
    (t.mapData f).TransactionEnd result receipt
      = (t.TransactionEnd result receipt).map (BasicNestedCallTracer.mapData f) := by
  unfold BasicNestedCallTracer.TransactionEnd
  simp only [BasicNestedCallTracer.mapData, List.getElem?_map]
  cases t.msgCallStack.getLast? with
  | none => rfl
  | some p =>
      simp only []
      cases t.calls[p]? with
      | none => rfl
      | some c =>
          simp only [Option.map_some', BasicNestedCallTracer.store, List.map_set,
            MsgCall.mapInner, BasicNestedCallTracer.mapData]

theorem BasicNestedCallTracer.mapData_TransactionStart (t : BasicNestedCallTracer D)
    (h : t.MsgCallDataFactory = none) (tx : Tx) (created : Address) :
    (t.mapData f).TransactionStart tx created
      = (t.TransactionStart tx created).mapData f := by
  unfold BasicNestedCallTracer.TransactionStart
  simp only [BasicNestedCallTracer.mapData, h, List.map_append, List.length_map, List.map_cons,
    List.map_nil, MsgCall.mapInner, Option.map_none']

theorem BasicNestedCallTracer.mapData_CaptureEnter (t : BasicNestedCallTracer D)
    (h : t.MsgCallDataFactory = none) (typ : OpCode) (sender toAddr : Address)
    (input : List Nat) (value : Option Int) :
    (t.mapData f).CaptureEnter typ sender toAddr input value
      = (t.CaptureEnter typ sender toAddr input value).map (BasicNestedCallTracer.mapData f) := by
  unfold BasicNestedCallTracer.CaptureEnter
  simp only [BasicNestedCallTracer.mapData, List.getElem?_map, h]
  cases t.msgCallStack.getLast? with
  | none => rfl
  | some p =>
      simp only []
      cases hc : t.calls[p]? with
      | none => rfl
      | some c =>
          simp only [Option.map_some', List.map_set, List.map_append, List.length_map,
            List.map_cons, List.map_nil, Option.map_none']
          have := MsgCall.GenChildPosition_mapInner f t.calls c (IsPrecompiledContract toAddr)
          simp only [MsgCall.mapInner] at this ⊢
          rw [this]
          simp only [BasicNestedCallTracer.mapData, List.map_set, List.map_append, List.map_cons,
            List.map_nil, MsgCall.mapInner, Option.map_none']

end mapData

section isolation

variable {σ : Type}

theorem MsgCall.mapInner_mapInner {D E F : Type} (f : D → E) (g : E → F) (c : MsgCall D) :
    (c.mapInner f).mapInner g = c.mapInner (fun d => g (f d)) := by
  simp only [MsgCall.mapInner, Option.map_map]
  rfl

theorem BasicNestedCallTracer.mapData_calls {D E : Type} (f : D → E)
    (t1 t2 : BasicNestedCallTracer D) (h : t1.mapData f = t2.mapData f) (p : Nat)
    (c2 : MsgCall D) (h2 : t2.calls[p]? = some c2) :
    ∃ c1, t1.calls[p]? = some c1 ∧ c1.mapInner f = c2.mapInner f := by
  have hc : t1.calls.map (MsgCall.mapInner f) = t2.calls.map (MsgCall.mapInner f) :=
    congrArg (fun t => t.calls) h
  have := congrArg (fun l => l[p]?) hc
  simp only [List.getElem?_map, h2, Option.map_some'] at this
  cases h1 : t1.calls[p]? with
  | none => rw [h1] at this; simp at this
  | some c1 =>
      rw [h1] at this
      simp only [Option.map_some', Option.some.injEq] at this
      exact ⟨c1, rfl, this⟩

theorem BasicNestedCallTracer.mapData_current {D E : Type} (f : D → E)
    (t1 t2 : BasicNestedCallTracer D) (h : t1.mapData f = t2.mapData f) :
    t1.CurrentMsgCall = t2.CurrentMsgCall := by
  have hc : t1.msgCallStack = t2.msgCallStack := congrArg (fun t => t.msgCallStack) h
  unfold BasicNestedCallTracer.CurrentMsgCall
  rw [hc]

theorem BasicNestedCallTracer.mapData_deref {D E : Type} (f : D → E)
    (t1 t2 : BasicNestedCallTracer D) (h : t1.mapData f = t2.mapData f) (q : Option Nat)
    (c2 : MsgCall D) (h2 : t2.deref q = some c2) :
    ∃ c1, t1.deref q = some c1 ∧ c1.mapInner f = c2.mapInner f := by
  cases q with
  | none => simp [BasicNestedCallTracer.deref] at h2
  | some p => exact BasicNestedCallTracer.mapData_calls f t1 t2 h p c2 h2

theorem BasicNestedCallTracer.mapData_transfer {D E : Type} (f : D → E)
    (op : ∀ {X : Type}, BasicNestedCallTracer X → Option (BasicNestedCallTracer X))
    (hop : ∀ t : BasicNestedCallTracer D,
      op (t.mapData f) = (op t).map (BasicNestedCallTracer.mapData f))
    (t1 t2 b2 : BasicNestedCallTracer D) (h : t1.mapData f = t2.mapData f)
    (h2 : op t2 = some b2) :
    ∃ b1, op t1 = some b1 ∧ b1.mapData f = b2.mapData f := by
  have h1 := hop t1
  rw [h, hop t2, h2] at h1
  simp only [Option.map_some'] at h1
  cases hb : op t1 with
  | none => rw [hb] at h1; simp at h1
  | some b1 =>
      rw [hb] at h1
      simp only [Option.map_some', Option.some.injEq] at h1
      exact ⟨b1, rfl, h1.symm⟩

theorem BasicNestedCallTracer.mapData_store {D E : Type} (f : D → E)
    (b1 b2 : BasicNestedCallTracer D) (h : b1.mapData f = b2.mapData f) (p : Nat)
    (c1 c2 : MsgCall D) (hc : c1.mapInner f = c2.mapInner f) :
    (b1.store p c1).mapData f = (b2.store p c2).mapData f := by
  have h1 : b1.calls.map (MsgCall.mapInner f) = b2.calls.map (MsgCall.mapInner f) :=
    congrArg (fun t => t.calls) h
  have h2 : b1.msgCallStack = b2.msgCallStack := congrArg (fun t => t.msgCallStack) h
  have h3 : b1.totalOperations = b2.totalOperations :=
    congrArg (fun t => t.totalOperations) h
  simp only [BasicNestedCallTracer.mapData, BasicNestedCallTracer.store, List.map_set, h1, h2,
    h3, hc]

theorem data_flow.DataFlowTracer.view_of_mapData {E : Type} (f : Data σ → E)
    (b1 b2 : Erebus.BasicNestedCallTracer (Data σ)) (h : b1.mapData f = b2.mapData f) :
    DataFlowTracer.view b1 = DataFlowTracer.view b2 := by
  have h1 : b1.calls.map (MsgCall.mapInner f) = b2.calls.map (MsgCall.mapInner f) :=
    congrArg (fun t => t.calls) h
  have := congrArg (List.map (MsgCall.mapInner (fun _ : E => ()))) h1
  simp only [List.map_map] at this
  unfold DataFlowTracer.view
  have hcomp : (MsgCall.mapInner (fun _ : E => ())) ∘ (MsgCall.mapInner f)
      = MsgCall.mapInner (fun _ : Data σ => ()) := by
    funext c
    exact MsgCall.mapInner_mapInner f _ c
  rw [hcomp] at this
  exact this

/-- A loop over the analyzers, seen from one analyzer: the iterations of the others do not
change what it sees, and its own iteration depends on nothing else. -/
theorem data_flow.forAnalyzers_filter {α S P : Type} (a : Nat) (proj : S → P)
    (body1 body2 : Nat → α → S → Option S)
    (hother : ∀ b x s s1, b ≠ a → body2 b x s = some s1 → proj s1 = proj s)
    (hself : ∀ x s1 s2 r2, proj s1 = proj s2 → body2 a x s2 = some r2 →
      ∃ r1, body1 a x s1 = some r1 ∧ proj r1 = proj r2) :
    ∀ (L : List (Nat × α)) (s1 s2 r2 : S), proj s1 = proj s2 →
      forAnalyzers body2 L s2 = some r2 →
      ∃ r1, forAnalyzers body1 (L.filter (fun e => decide (e.1 = a))) s1 = some r1 ∧
        proj r1 = proj r2 := by
  intro L
  induction L with
  | nil =>
      intro s1 s2 r2 hp h
      simp only [forAnalyzers, Option.some.injEq] at h
      subst h
      exact ⟨s1, rfl, hp⟩
  | cons e rest ih =>
      intro s1 s2 r2 hp h
      simp only [forAnalyzers] at h
      cases hb : body2 e.1 e.2 s2 with
      | none => rw [hb] at h; simp at h
      | some m2 =>
          rw [hb] at h
          simp only [] at h
          by_cases hea : e.1 = a
          · rw [List.filter_cons_of_pos (by simpa using hea)]
            rw [hea] at hb
            obtain ⟨m1, hm1, hpm⟩ := hself e.2 s1 s2 m2 hp hb
            obtain ⟨r1, hr1, hpr⟩ := ih m1 m2 r2 hpm h
            refine ⟨r1, ?_, hpr⟩
            simp only [forAnalyzers, hea, hm1]
            exact hr1
          · rw [List.filter_cons_of_neg (by simpa using hea)]
            have := hother e.1 e.2 s2 m2 hea hb
            exact ih s1 m2 r2 (hp.trans this.symm) h

theorem data_flow.Data.of_some (a : Nat) (o1 o2 : Option (Data σ)) (d2 : Data σ)
    (h : o1.map (Data.of a) = o2.map (Data.of a)) (h2 : o2 = some d2) :
    ∃ d1, o1 = some d1 ∧ d1.trackerCollections a = d2.trackerCollections a ∧
      d1.lastStateCallbacks a = d2.lastStateCallbacks a := by
  subst h2
  cases o1 with
  | none => simp at h
  | some d1 =>
      simp only [Option.map_some', Option.some.injEq, Data.of, Prod.mk.injEq] at h
      exact ⟨d1, rfl, h.1, h.2⟩

theorem data_flow.DataFlowTracer.runCallback_other (a : Nat) (view : CallView)
    (scope : vm.ScopeContext) (b : Nat) (x : Analyzer σ)
    (s s1 : Option (Data σ) × (Nat → World σ)) (hb : b ≠ a)
    (h : DataFlowTracer.runCallback view scope b x s = some s1) :
    (s1.1.map (Data.of a), s1.2 a) = (s.1.map (Data.of a), s.2 a) := by
  unfold DataFlowTracer.runCallback at h
  cases hd : s.1 with
  | none => rw [hd] at h; simp at h
  | some d =>
      rw [hd] at h
      simp only [] at h
      cases hc : d.lastStateCallbacks b with
      | none =>
          rw [hc] at h
          simp only [Option.some.injEq] at h
          rw [← h, hd]
      | some cb =>
          rw [hc] at h
          simp only [] at h
          cases hw : cb view scope (s.2 b) with
          | none => rw [hw] at h; simp at h
          | some w =>
              rw [hw] at h
              simp only [Option.some.injEq] at h
              rw [← h]
              simp only [Option.map_some', Data.of, Function.update_noteq (Ne.symm hb)]

theorem data_flow.DataFlowTracer.runCallback_self (a : Nat) (view : CallView)
    (scope : vm.ScopeContext) (x : Analyzer σ)
    (s1 s2 r2 : Option (Data σ) × (Nat → World σ))
    (hp : (s1.1.map (Data.of a), s1.2 a) = (s2.1.map (Data.of a), s2.2 a))
    (h : DataFlowTracer.runCallback view scope a x s2 = some r2) :
    ∃ r1, DataFlowTracer.runCallback view scope a x s1 = some r1 ∧
      (r1.1.map (Data.of a), r1.2 a) = (r2.1.map (Data.of a), r2.2 a) := by
  simp only [Prod.mk.injEq] at hp
  obtain ⟨hp1, hp2⟩ := hp
  unfold DataFlowTracer.runCallback at h ⊢
  cases hd : s2.1 with
  | none => rw [hd] at h; simp at h
  | some d2 =>
      obtain ⟨d1, hd1, htc, hcb⟩ := Data.of_some a _ _ d2 hp1 hd
      rw [hd] at h
      rw [hd1]
      simp only [] at h ⊢
      rw [hcb, hp2]
      cases hc : d2.lastStateCallbacks a with
      | none =>
          rw [hc] at h
          simp only [Option.some.injEq] at h
          refine ⟨s1, rfl, ?_⟩
          rw [← h, hp1, hp2]
      | some cb =>
          rw [hc] at h
          simp only [] at h ⊢
          cases hw : cb view scope (s2.2 a) with
          | none => rw [hw] at h; simp at h
          | some w =>
              rw [hw] at h
              simp only [Option.some.injEq] at h
              refine ⟨_, rfl, ?_⟩
              rw [← h]
              simp only [Option.map_some', Data.of, Function.update_same, htc]

theorem data_flow.DataFlowTracer.applyPolicy_other (a : Nat) (view : CallView)
    (scope : vm.ScopeContext) (op : OpCode) (operation : Operation) (pops pushes : Nat)
    (b : Nat) (x : Analyzer σ) (s s1 : Option (Data σ) × (Nat → World σ)) (hb : b ≠ a)
    (h : DataFlowTracer.applyPolicy view scope op operation pops pushes b x s = some s1) :
    (s1.1.map (Data.of a), s1.2 a) = (s.1.map (Data.of a), s.2 a) := by
  unfold DataFlowTracer.applyPolicy at h
  cases hd : s.1 with
  | none => rw [hd] at h; simp at h
  | some d =>
      rw [hd] at h
      simp only [] at h
      cases hc : d.trackerCollections b with
      | none => rw [hc] at h; simp at h
      | some c =>
          rw [hc] at h
          simp only [] at h
          cases hcol : (s.2 b).collection c with
          | none => rw [hcol] at h; simp at h
          | some col =>
              rw [hcol] at h
              simp only [] at h
              cases hpop : col.Stack.pop pops with
              | none => rw [hpop] at h; simp at h
              | some sa =>
                  rw [hpop] at h
                  simp only [] at h
                  cases hpol : x.FlowPolicy op with
                  | none => rw [hpol] at h; simp at h
                  | some policy =>
                      rw [hpol] at h
                      simp only [] at h
                      cases hr : policy x.toAnalyzerMethods.recording view scope c operation sa.2
                          (List.replicate pushes none)
                          ((s.2 b).setCollection c { col with Stack := sa.1 }) with
                      | none => rw [hr] at h; simp at h
                      | some r =>
                          rw [hr] at h
                          simp only [Option.some.injEq] at h
                          rw [← h]
                          simp only [Option.map_some', Data.of,
                            Function.update_noteq (Ne.symm hb)]

theorem data_flow.DataFlowTracer.applyPolicy_self (a : Nat) (view : CallView)
    (scope : vm.ScopeContext) (op : OpCode) (operation : Operation) (pops pushes : Nat)
    (x : Analyzer σ) (s1 s2 r2 : Option (Data σ) × (Nat → World σ))
    (hp : (s1.1.map (Data.of a), s1.2 a) = (s2.1.map (Data.of a), s2.2 a))
    (h : DataFlowTracer.applyPolicy view scope op operation pops pushes a x s2 = some r2) :
    ∃ r1, DataFlowTracer.applyPolicy view scope op operation pops pushes a x s1 = some r1 ∧
      (r1.1.map (Data.of a), r1.2 a) = (r2.1.map (Data.of a), r2.2 a) := by
  simp only [Prod.mk.injEq] at hp
  obtain ⟨hp1, hp2⟩ := hp
  unfold DataFlowTracer.applyPolicy at h ⊢
  cases hd : s2.1 with
  | none => rw [hd] at h; simp at h
  | some d2 =>
      obtain ⟨d1, hd1, htc, hcb⟩ := Data.of_some a _ _ d2 hp1 hd
      rw [hd] at h
      rw [hd1]
      simp only [] at h ⊢
      rw [htc, hp2]
      cases hc : d2.trackerCollections a with
      | none => rw [hc] at h; simp at h
      | some c =>
          rw [hc] at h
          simp only [] at h ⊢
          cases hcol : (s2.2 a).collection c with
          | none => rw [hcol] at h; simp at h
          | some col =>
              rw [hcol] at h
              simp only [] at h ⊢
              cases hpop : col.Stack.pop pops with
              | none => rw [hpop] at h; simp at h
              | some sa =>
                  rw [hpop] at h
                  simp only [] at h ⊢
                  cases hpol : x.FlowPolicy op with
                  | none => rw [hpol] at h; simp at h
                  | some policy =>
                      rw [hpol] at h
                      simp only [] at h ⊢
                      cases hr : policy x.toAnalyzerMethods.recording view scope c operation sa.2
                          (List.replicate pushes none)
                          ((s2.2 a).setCollection c { col with Stack := sa.1 }) with
                      | none => rw [hr] at h; simp at h
                      | some r =>
                          rw [hr] at h
                          simp only [Option.some.injEq] at h
                          refine ⟨_, rfl, ?_⟩
                          rw [← h]
                          simp only [Option.map_some', Data.of, Function.update_same, htc, hc]

theorem data_flow.DataFlowTracer.start_other (a b : Nat) (x : Analyzer σ)
    (s s1 : (Nat → Option Nat) × (Nat → World σ)) (hb : b ≠ a)
    (h : DataFlowTracer.start b x s = some s1) : (s1.1 a, s1.2 a) = (s.1 a, s.2 a) := by
  unfold DataFlowTracer.start at h
  simp only [Option.some.injEq] at h
  rw [← h]
  simp only [Function.update_noteq (Ne.symm hb)]

theorem data_flow.DataFlowTracer.start_self (a : Nat) (x : Analyzer σ)
    (s1 s2 r2 : (Nat → Option Nat) × (Nat → World σ))
    (hp : (s1.1 a, s1.2 a) = (s2.1 a, s2.2 a))
    (h : DataFlowTracer.start a x s2 = some r2) :
    ∃ r1, DataFlowTracer.start a x s1 = some r1 ∧ (r1.1 a, r1.2 a) = (r2.1 a, r2.2 a) := by
  simp only [Prod.mk.injEq] at hp
  obtain ⟨_, hp2⟩ := hp
  unfold DataFlowTracer.start at h ⊢
  simp only [Option.some.injEq] at h
  refine ⟨_, rfl, ?_⟩
  rw [← h]
  simp only [Function.update_same, hp2]

theorem data_flow.DataFlowTracer.enter_other (a : Nat) (parentData : Option (Data σ))
    (position : CallPosition) (stateAddr : Address) (next : CallPosition) (b : Nat)
    (x : Analyzer σ) (s s1 : (Nat → Option Nat) × (Nat → World σ)) (hb : b ≠ a)
    (h : DataFlowTracer.enter parentData position stateAddr next b x s = some s1) :
    (s1.1 a, s1.2 a) = (s.1 a, s.2 a) := by
  unfold DataFlowTracer.enter at h
  cases parentData with
  | none => simp at h
  | some d =>
      simp only [] at h
      cases hc : d.trackerCollections b with
      | none => rw [hc] at h; simp at h
      | some pc =>
          rw [hc] at h
          simp only [] at h
          cases hcol : (s.2 b).collection pc with
          | none => rw [hcol] at h; simp at h
          | some col =>
              rw [hcol] at h
              simp only [] at h
              cases hm : DataFlowTracer.matchingChildCall (s.2 b) col position with
              | none => rw [hm] at h; simp at h
              | some matching =>
                  rw [hm] at h
                  simp only [] at h
                  cases hg : (s.2 b).globalStorages with
                  | none => rw [hg] at h; simp at h
                  | some gs =>
                      rw [hg] at h
                      simp only [Option.some.injEq] at h
                      rw [← h]
                      simp only [Function.update_noteq (Ne.symm hb)]

theorem data_flow.DataFlowTracer.enter_self (a : Nat) (parentData1 parentData2 : Option (Data σ))
    (hparent : parentData1.map (Data.of a) = parentData2.map (Data.of a))
    (position : CallPosition) (stateAddr : Address) (next : CallPosition)
    (x : Analyzer σ) (s1 s2 r2 : (Nat → Option Nat) × (Nat → World σ))
    (hp : (s1.1 a, s1.2 a) = (s2.1 a, s2.2 a))
    (h : DataFlowTracer.enter parentData2 position stateAddr next a x s2 = some r2) :
    ∃ r1, DataFlowTracer.enter parentData1 position stateAddr next a x s1 = some r1 ∧
      (r1.1 a, r1.2 a) = (r2.1 a, r2.2 a) := by
  simp only [Prod.mk.injEq] at hp
  obtain ⟨_, hp2⟩ := hp
  unfold DataFlowTracer.enter at h ⊢
  cases hd : parentData2 with
  | none => rw [hd] at h; simp at h
  | some d2 =>
      obtain ⟨d1, hd1, htc, _⟩ := Data.of_some a _ _ d2 hparent hd
      rw [hd] at h
      rw [hd1]
      simp only [] at h ⊢
      rw [htc, hp2]
      cases hc : d2.trackerCollections a with
      | none => rw [hc] at h; simp at h
      | some pc =>
          rw [hc] at h
          simp only [] at h ⊢
          cases hcol : (s2.2 a).collection pc with
          | none => rw [hcol] at h; simp at h
          | some col =>
              rw [hcol] at h
              simp only [] at h ⊢
              cases hm : DataFlowTracer.matchingChildCall (s2.2 a) col position with
              | none => rw [hm] at h; simp at h
              | some matching =>
                  rw [hm] at h
                  simp only [] at h ⊢
                  cases hg : (s2.2 a).globalStorages with
                  | none => rw [hg] at h; simp at h
                  | some gs =>
                      rw [hg] at h
                      simp only [Option.some.injEq] at h
                      refine ⟨_, rfl, ?_⟩
                      rw [← h]
                      simp only [Function.update_same]

theorem BasicNestedCallTracer.CaptureState_factory {D : Type} (t b : BasicNestedCallTracer D)
    (pc : Nat) (op : OpCode) (gas cost : Nat) (h : t.CaptureState pc op gas cost = some b) :
    b.MsgCallDataFactory = t.MsgCallDataFactory := by
  unfold BasicNestedCallTracer.CaptureState at h
  cases hp : t.CurrentMsgCall with
  | none => rw [hp] at h; simp at h
  | some p =>
      rw [hp] at h
      simp only [] at h
      cases hc : t.calls[p]? with
      | none => rw [hc] at h; simp at h
      | some c =>
          rw [hc] at h
          simp only [Option.some.injEq] at h
          rw [← h]
          rfl

theorem MsgCall.mapInner_fields {D E : Type} (f : D → E) (c1 c2 : MsgCall D)
    (h : c1.mapInner f = c2.mapInner f) :
    c1.CurrentLocation = c2.CurrentLocation ∧ c1.parent = c2.parent ∧
      c1.Position = c2.Position ∧ c1.StateAddr = c2.StateAddr ∧
      c1.InnerData.map f = c2.InnerData.map f :=
  ⟨congrArg (fun c => c.CurrentLocation) h, congrArg (fun c => c.parent) h,
    congrArg (fun c => c.Position) h, congrArg (fun c => c.StateAddr) h,
    congrArg (fun c => c.InnerData) h⟩

theorem MsgCall.mapInner_with {D E : Type} (f : D → E) (c1 c2 : MsgCall D)
    (h : c1.mapInner f = c2.mapInner f) (l : Option location) (d1 d2 : Option D)
    (hd : d1.map f = d2.map f) :
    ({ c1 with CurrentLocation := l, InnerData := d1 } : MsgCall D).mapInner f
      = ({ c2 with CurrentLocation := l, InnerData := d2 } : MsgCall D).mapInner f := by
  have h1 := congrArg (fun c => c.Position) h
  have h2 := congrArg (fun c => c.Result) h
  have h3 := congrArg (fun c => c.Receipt) h
  have h4 := congrArg (fun c => c.OpCode) h
  have h5 := congrArg (fun c => c.Caller) h
  have h6 := congrArg (fun c => c.Precompiled) h
  have h7 := congrArg (fun c => c.CodeAddr) h
  have h8 := congrArg (fun c => c.StateAddr) h
  have h9 := congrArg (fun c => c.Input) h
  have h10 := congrArg (fun c => c.Value) h
  have h11 := congrArg (fun c => c.parent) h
  have h12 := congrArg (fun c => c.NestedCalls) h
  simp only [MsgCall.mapInner] at h1 h2 h3 h4 h5 h6 h7 h8 h9 h10 h11 h12 ⊢
  rw [h1, h2, h3, h4, h5, h6, h7, h8, h9, h10, h11, h12, hd]

theorem data_flow.DataFlowTracer.CaptureState_isolated (a : Nat) (t1 t2 r2 : DataFlowTracer σ)
    (pc : Nat) (op : OpCode) (gas cost : Nat) (scope : vm.ScopeContext) (err : Option GoError)
    (hA : t1.analyzers = t2.analyzers.filter (fun e => decide (e.1 = a)))
    (hs : t1.slice a = t2.slice a)
    (h : t2.CaptureState pc op gas cost scope err = some r2) :
    ∃ r1, t1.CaptureState pc op gas cost scope err = some r1 ∧
      r1.analyzers = r2.analyzers.filter (fun e => decide (e.1 = a)) ∧
      r1.BasicNestedCallTracer.MsgCallDataFactory = t1.BasicNestedCallTracer.MsgCallDataFactory ∧
      r2.BasicNestedCallTracer.MsgCallDataFactory = t2.BasicNestedCallTracer.MsgCallDataFactory ∧
      r1.slice a = r2.slice a := by
  simp only [DataFlowTracer.slice, Prod.mk.injEq] at hs
  obtain ⟨hb, hw⟩ := hs
  unfold DataFlowTracer.CaptureState at h ⊢
  have hcur := BasicNestedCallTracer.mapData_current _ _ _ hb
  cases hd : t2.BasicNestedCallTracer.deref t2.BasicNestedCallTracer.CurrentMsgCall with
  | none => rw [hd] at h; simp at h
  | some c2 =>
      rw [hd] at h
      simp only [] at h
      rw [← hcur] at hd
      obtain ⟨c1, hc1, hcm⟩ := BasicNestedCallTracer.mapData_deref _ _ _ hb _ c2 hd
      rw [hc1]
      simp only []
      cases hl1 : forAnalyzers
          (DataFlowTracer.runCallback (DataFlowTracer.view t2.BasicNestedCallTracer) scope)
          t2.analyzers (c2.InnerData, t2.worlds) with
      | none => rw [hl1] at h; simp at h
      | some m2 =>
          rw [hl1] at h
          simp only [] at h
          obtain ⟨m1, hm1, hpm⟩ := forAnalyzers_filter a
            (fun s : Option (Data σ) × (Nat → World σ) => (s.1.map (Data.of a), s.2 a))
            (DataFlowTracer.runCallback (DataFlowTracer.view t2.BasicNestedCallTracer) scope)
            (DataFlowTracer.runCallback (DataFlowTracer.view t2.BasicNestedCallTracer) scope)
            (fun b x s s1 hba hh => DataFlowTracer.runCallback_other a _ scope b x s s1 hba hh)
            (fun x s1 s2 q2 hp hh => DataFlowTracer.runCallback_self a _ scope x s1 s2 q2 hp hh)
            t2.analyzers (c1.InnerData, t1.worlds) (c2.InnerData, t2.worlds) m2
            (by simp only [(MsgCall.mapInner_fields _ _ _ hcm).2.2.2.2, hw]) hl1
          rw [DataFlowTracer.view_of_mapData _ _ _ hb, hA, hm1]
          simp only []
          cases hcs : t2.BasicNestedCallTracer.CaptureState pc op gas cost with
          | none => rw [hcs] at h; simp at h
          | some base2 =>
              rw [hcs] at h
              simp only [] at h
              obtain ⟨base1, hbase1, hbb⟩ := BasicNestedCallTracer.mapData_transfer (Data.of a)
                (fun t => t.CaptureState pc op gas cost)
                (fun t => BasicNestedCallTracer.mapData_CaptureState _ t pc op gas cost)
                _ _ base2 hb hcs
              rw [hbase1]
              simp only []
              cases ho : operands scope (GetStackEffects op).1 with
              | none => rw [ho] at h; simp at h
              | some args =>
                  rw [ho] at h
                  simp only [] at h ⊢
                  have hcur2 := BasicNestedCallTracer.mapData_current _ _ _ hbb
                  rw [hcur2]
                  cases hp : base2.CurrentMsgCall with
                  | none => rw [hp] at h; simp at h
                  | some p =>
                      rw [hp] at h
                      simp only [] at h ⊢
                      cases hcall : base2.calls[p]? with
                      | none => rw [hcall] at h; simp at h
                      | some call2 =>
                          rw [hcall] at h
                          simp only [] at h
                          obtain ⟨call1, hcall1, hcc⟩ :=
                            BasicNestedCallTracer.mapData_calls _ _ _ hbb p call2 hcall
                          rw [hcall1]
                          simp only []
                          rw [(MsgCall.mapInner_fields _ _ _ hcc).1]
                          cases hloc : call2.CurrentLocation with
                          | none => rw [hloc] at h; simp at h
                          | some loc =>
                              rw [hloc] at h
                              simp only [] at h ⊢
                              cases hl2 : forAnalyzers
                                  (DataFlowTracer.applyPolicy (DataFlowTracer.view base2) scope op
                                    { TraceLocation := loc, msgCall := p, args := args }
                                    (GetStackEffects op).1 (GetStackEffects op).2)
                                  t2.analyzers m2 with
                              | none => rw [hl2] at h; simp at h
                              | some n2 =>
                                  rw [hl2] at h
                                  simp only [Option.some.injEq] at h
                                  obtain ⟨n1, hn1, hpn⟩ := forAnalyzers_filter a
                                    (fun s : Option (Data σ) × (Nat → World σ) =>
                                      (s.1.map (Data.of a), s.2 a))
                                    (DataFlowTracer.applyPolicy (DataFlowTracer.view base2) scope op
                                      { TraceLocation := loc, msgCall := p, args := args }
                                      (GetStackEffects op).1 (GetStackEffects op).2)
                                    (DataFlowTracer.applyPolicy (DataFlowTracer.view base2) scope op
                                      { TraceLocation := loc, msgCall := p, args := args }
                                      (GetStackEffects op).1 (GetStackEffects op).2)
                                    (fun b x s s1 hba hh =>
                                      DataFlowTracer.applyPolicy_other a _ scope op _ _ _ b x s s1
                                        hba hh)
                                    (fun x s1 s2 q2 hp hh =>
                                      DataFlowTracer.applyPolicy_self a _ scope op _ _ _ x s1 s2 q2
                                        hp hh)
                                    t2.analyzers m1 m2 n2 hpm hl2
                                  rw [DataFlowTracer.view_of_mapData _ _ _ hbb, hn1]
                                  simp only [Prod.mk.injEq] at hpn
                                  refine ⟨_, rfl, ?_, ?_, ?_, ?_⟩
                                  · rw [← h]
                                  · exact BasicNestedCallTracer.CaptureState_factory _ base1 _ _
                                      _ _ hbase1
                                  · rw [← h]
                                    exact BasicNestedCallTracer.CaptureState_factory _ base2 _ _
                                      _ _ hcs
                                  · rw [← h]
                                    simp only [DataFlowTracer.slice, Prod.mk.injEq]
                                    exact ⟨BasicNestedCallTracer.mapData_store _ _ _ hbb p _ _
                                      (MsgCall.mapInner_with _ _ _ hcc (some loc) _ _ hpn.1),
                                      hpn.2⟩

theorem BasicNestedCallTracer.mapData_transfer_of {D E : Type} (f : D → E)
    (opD : BasicNestedCallTracer D → Option (BasicNestedCallTracer D))
    (opE : BasicNestedCallTracer E → Option (BasicNestedCallTracer E))
    (t1 t2 b2 : BasicNestedCallTracer D)
    (h1 : opE (t1.mapData f) = (opD t1).map (BasicNestedCallTracer.mapData f))
    (h2 : opE (t2.mapData f) = (opD t2).map (BasicNestedCallTracer.mapData f))
    (h : t1.mapData f = t2.mapData f) (hb : opD t2 = some b2) :
    ∃ b1, opD t1 = some b1 ∧ b1.mapData f = b2.mapData f := by
  rw [h, h2, hb] at h1
  simp only [Option.map_some'] at h1
  cases hb1 : opD t1 with
  | none => rw [hb1] at h1; simp at h1
  | some b1 =>
      rw [hb1] at h1
      simp only [Option.map_some', Option.some.injEq] at h1
      exact ⟨b1, rfl, h1.symm⟩

theorem BasicNestedCallTracer.CaptureEnter_factory {D : Type} (t b : BasicNestedCallTracer D)
    (typ : OpCode) (sender toAddr : Address) (input : List Nat) (value : Option Int)
    (h : t.CaptureEnter typ sender toAddr input value = some b) :
    b.MsgCallDataFactory = t.MsgCallDataFactory := by
  unfold BasicNestedCallTracer.CaptureEnter at h
  cases hp : t.msgCallStack.getLast? with
  | none => rw [hp] at h; simp at h
  | some p =>
      rw [hp] at h
      simp only [] at h
      cases hc : t.calls[p]? with
      | none => rw [hc] at h; simp at h
      | some c =>
          rw [hc] at h
          simp only [Option.some.injEq] at h
          rw [← h]

theorem BasicNestedCallTracer.CaptureExit_factory {D : Type} (t b : BasicNestedCallTracer D)
    (output : List Nat) (gasUsed : Nat) (err : Option GoError)
    (h : t.CaptureExit output gasUsed err = some b) :
    b.MsgCallDataFactory = t.MsgCallDataFactory := by
  unfold BasicNestedCallTracer.CaptureExit at h
  cases hp : t.msgCallStack.getLast? with
  | none => rw [hp] at h; simp at h
  | some p =>
      rw [hp] at h
      simp only [] at h
      cases hc : t.calls[p]? with
      | none => rw [hc] at h; simp at h
      | some c =>
          rw [hc] at h
          simp only [Option.some.injEq] at h
          rw [← h]
          rfl

theorem BasicNestedCallTracer.TransactionEnd_factory {D : Type} (t b : BasicNestedCallTracer D)
    (result : Option ExecutionResult) (receipt : Option Receipt)
    (h : t.TransactionEnd result receipt = some b) :
    b.MsgCallDataFactory = t.MsgCallDataFactory := by
  unfold BasicNestedCallTracer.TransactionEnd at h
  cases hp : t.msgCallStack.getLast? with
  | none => rw [hp] at h; simp at h
  | some p =>
      rw [hp] at h
      simp only [] at h
      cases hc : t.calls[p]? with
      | none => rw [hc] at h; simp at h
      | some c =>
          rw [hc] at h
          simp only [Option.some.injEq] at h
          rw [← h]
          rfl

theorem MsgCall.mapInner_with_data {D E : Type} (f : D → E) (c1 c2 : MsgCall D)
    (h : c1.mapInner f = c2.mapInner f) (d1 d2 : Option D) (hd : d1.map f = d2.map f) :
    ({ c1 with InnerData := d1 } : MsgCall D).mapInner f
      = ({ c2 with InnerData := d2 } : MsgCall D).mapInner f := by
  have h1 := congrArg (fun c => c.Position) h
  have h2 := congrArg (fun c => c.Result) h
  have h3 := congrArg (fun c => c.Receipt) h
  have h4 := congrArg (fun c => c.OpCode) h
  have h5 := congrArg (fun c => c.Caller) h
  have h6 := congrArg (fun c => c.Precompiled) h
  have h7 := congrArg (fun c => c.CodeAddr) h
  have h8 := congrArg (fun c => c.StateAddr) h
  have h9 := congrArg (fun c => c.Input) h
  have h10 := congrArg (fun c => c.Value) h
  have h11 := congrArg (fun c => c.parent) h
  have h12 := congrArg (fun c => c.NestedCalls) h
  have h13 := congrArg (fun c => c.CurrentLocation) h
  simp only [MsgCall.mapInner] at h1 h2 h3 h4 h5 h6 h7 h8 h9 h10 h11 h12 h13 ⊢
  rw [h1, h2, h3, h4, h5, h6, h7, h8, h9, h10, h11, h12, h13, hd]

theorem data_flow.DataFlowTracer.CaptureExit_isolated (a : Nat) (t1 t2 r2 : DataFlowTracer σ)
    (output : List Nat) (gasUsed : Nat) (err : Option GoError)
    (hA : t1.analyzers = t2.analyzers.filter (fun e => decide (e.1 = a)))
    (hs : t1.slice a = t2.slice a)
    (h : t2.CaptureExit output gasUsed err = some r2) :
    ∃ r1, t1.CaptureExit output gasUsed err = some r1 ∧
      r1.analyzers = r2.analyzers.filter (fun e => decide (e.1 = a)) ∧
      r1.BasicNestedCallTracer.MsgCallDataFactory = t1.BasicNestedCallTracer.MsgCallDataFactory ∧
      r2.BasicNestedCallTracer.MsgCallDataFactory = t2.BasicNestedCallTracer.MsgCallDataFactory ∧
      r1.slice a = r2.slice a := by
  simp only [DataFlowTracer.slice, Prod.mk.injEq] at hs
  obtain ⟨hb, hw⟩ := hs
  unfold DataFlowTracer.CaptureExit at h ⊢
  cases hcs : t2.BasicNestedCallTracer.CaptureExit output gasUsed err with
  | none => rw [hcs] at h; simp at h
  | some base2 =>
      rw [hcs] at h
      simp only [Option.map_some', Option.some.injEq] at h
      obtain ⟨base1, hbase1, hbb⟩ := BasicNestedCallTracer.mapData_transfer (Data.of a)
        (fun t => t.CaptureExit output gasUsed err)
        (fun t => BasicNestedCallTracer.mapData_CaptureExit _ t output gasUsed err)
        _ _ base2 hb hcs
      rw [hbase1]
      refine ⟨_, rfl, ?_, ?_, ?_, ?_⟩
      · rw [← h]
        exact hA
      · exact BasicNestedCallTracer.CaptureExit_factory _ base1 _ _ _ hbase1
      · rw [← h]
        exact BasicNestedCallTracer.CaptureExit_factory _ base2 _ _ _ hcs
      · rw [← h]
        simp only [DataFlowTracer.slice, Prod.mk.injEq]
        exact ⟨hbb, hw⟩

theorem data_flow.DataFlowTracer.TransactionEnd_isolated (a : Nat)
    (t1 t2 r2 : DataFlowTracer σ) (result : Option ExecutionResult) (receipt : Option Receipt)
    (hA : t1.analyzers = t2.analyzers.filter (fun e => decide (e.1 = a)))
    (hs : t1.slice a = t2.slice a)
    (h : t2.TransactionEnd result receipt = some r2) :
    ∃ r1, t1.TransactionEnd result receipt = some r1 ∧
      r1.analyzers = r2.analyzers.filter (fun e => decide (e.1 = a)) ∧
      r1.BasicNestedCallTracer.MsgCallDataFactory = t1.BasicNestedCallTracer.MsgCallDataFactory ∧
      r2.BasicNestedCallTracer.MsgCallDataFactory = t2.BasicNestedCallTracer.MsgCallDataFactory ∧
      r1.slice a = r2.slice a := by
  simp only [DataFlowTracer.slice, Prod.mk.injEq] at hs
  obtain ⟨hb, hw⟩ := hs
  unfold DataFlowTracer.TransactionEnd at h ⊢
  cases hcs : t2.BasicNestedCallTracer.TransactionEnd result receipt with
  | none => rw [hcs] at h; simp at h
  | some base2 =>
      rw [hcs] at h
      simp only [] at h
      obtain ⟨base1, hbase1, hbb⟩ := BasicNestedCallTracer.mapData_transfer (Data.of a)
        (fun t => t.TransactionEnd result receipt)
        (fun t => BasicNestedCallTracer.mapData_TransactionEnd _ t result receipt)
        _ _ base2 hb hcs
      rw [hbase1]
      simp only []
      rw [BasicNestedCallTracer.mapData_current _ _ _ hbb]
      cases hp : base2.CurrentMsgCall with
      | none => rw [hp] at h; simp at h
      | some p =>
          rw [hp] at h
          simp only [] at h ⊢
          cases hcall : base2.calls[p]? with
          | none => rw [hcall] at h; simp at h
          | some call2 =>
              rw [hcall] at h
              simp only [Option.some.injEq] at h
              obtain ⟨call1, hcall1, hcc⟩ :=
                BasicNestedCallTracer.mapData_calls _ _ _ hbb p call2 hcall
              rw [hcall1]
              refine ⟨_, rfl, ?_, ?_, ?_, ?_⟩
              · rw [← h]
                exact hA
              · exact BasicNestedCallTracer.TransactionEnd_factory _ base1 _ _ hbase1
              · rw [← h]
                exact BasicNestedCallTracer.TransactionEnd_factory _ base2 _ _ hcs
              · rw [← h]
                simp only [DataFlowTracer.slice, Prod.mk.injEq]
                exact ⟨BasicNestedCallTracer.mapData_store _ _ _ hbb p _ _
                  (MsgCall.mapInner_with_data _ _ _ hcc none none rfl), hw⟩

theorem data_flow.DataFlowTracer.TransactionStart_isolated (a : Nat)
    (t1 t2 r2 : DataFlowTracer σ) (tx : Tx) (created : Address)
    (hA : t1.analyzers = t2.analyzers.filter (fun e => decide (e.1 = a)))
    (hf1 : t1.BasicNestedCallTracer.MsgCallDataFactory = none)
    (hf2 : t2.BasicNestedCallTracer.MsgCallDataFactory = none)
    (hs : t1.slice a = t2.slice a)
    (h : t2.TransactionStart tx created = some r2) :
    ∃ r1, t1.TransactionStart tx created = some r1 ∧
      r1.analyzers = r2.analyzers.filter (fun e => decide (e.1 = a)) ∧
      r1.BasicNestedCallTracer.MsgCallDataFactory = t1.BasicNestedCallTracer.MsgCallDataFactory ∧
      r2.BasicNestedCallTracer.MsgCallDataFactory = t2.BasicNestedCallTracer.MsgCallDataFactory ∧
      r1.slice a = r2.slice a := by
  simp only [DataFlowTracer.slice, Prod.mk.injEq] at hs
  obtain ⟨hb, hw⟩ := hs
  have hbb : (t1.BasicNestedCallTracer.TransactionStart tx created).mapData (Data.of a)
      = (t2.BasicNestedCallTracer.TransactionStart tx created).mapData (Data.of a) := by
    rw [← BasicNestedCallTracer.mapData_TransactionStart _ _ hf1,
      ← BasicNestedCallTracer.mapData_TransactionStart _ _ hf2, hb]
  unfold DataFlowTracer.TransactionStart at h ⊢
  cases hl : forAnalyzers DataFlowTracer.start t2.analyzers (fun _ => none, t2.worlds) with
  | none => rw [hl] at h; simp at h
  | some s2 =>
      rw [hl] at h
      simp only [] at h
      obtain ⟨s1, hs1, hps⟩ := forAnalyzers_filter a
        (fun s : (Nat → Option Nat) × (Nat → World σ) => (s.1 a, s.2 a))
        DataFlowTracer.start DataFlowTracer.start
        (fun b x s q hba hh => DataFlowTracer.start_other a b x s q hba hh)
        (fun x q1 q2 q hp hh => DataFlowTracer.start_self a x q1 q2 q hp hh)
        t2.analyzers (fun _ => none, t1.worlds) (fun _ => none, t2.worlds) s2
        (by simp only [hw]) hl
      rw [hA, hs1]
      simp only []
      rw [BasicNestedCallTracer.mapData_current _ _ _ hbb]
      cases hp : (t2.BasicNestedCallTracer.TransactionStart tx created).CurrentMsgCall with
      | none => rw [hp] at h; simp at h
      | some p =>
          rw [hp] at h
          simp only [] at h ⊢
          cases hcall : (t2.BasicNestedCallTracer.TransactionStart tx created).calls[p]? with
          | none => rw [hcall] at h; simp at h
          | some call2 =>
              rw [hcall] at h
              simp only [Option.some.injEq] at h
              obtain ⟨call1, hcall1, hcc⟩ :=
                BasicNestedCallTracer.mapData_calls _ _ _ hbb p call2 hcall
              rw [hcall1]
              simp only [Prod.mk.injEq] at hps
              refine ⟨_, rfl, ?_, ?_, ?_, ?_⟩
              · rw [← h]
              · rfl
              · rw [← h]
                rfl
              · rw [← h]
                simp only [DataFlowTracer.slice, Prod.mk.injEq]
                refine ⟨BasicNestedCallTracer.mapData_store _ _ _ hbb p _ _
                  (MsgCall.mapInner_with_data _ _ _ hcc _ _ ?_), hps.2⟩
                simp only [Option.map_some', Data.of, hps.1]

theorem data_flow.DataFlowTracer.enterAll_isolated (a : Nat)
    (base1 base2 : Erebus.BasicNestedCallTracer (Data σ))
    (hbb : base1.mapData (Data.of a) = base2.mapData (Data.of a))
    (call1 call2 : MsgCall (Data σ))
    (hcc : call1.mapInner (Data.of a) = call2.mapInner (Data.of a)) (toAddr : Address)
    (L : List (Nat × Analyzer σ)) (worlds1 worlds2 : Nat → World σ)
    (hw : worlds1 a = worlds2 a) (s2 : (Nat → Option Nat) × (Nat → World σ))
    (h : DataFlowTracer.enterAll base2 call2 toAddr L worlds2 = some s2) :
    ∃ s1, DataFlowTracer.enterAll base1 call1 toAddr (L.filter (fun e => decide (e.1 = a)))
        worlds1 = some s1 ∧ (s1.1 a, s1.2 a) = (s2.1 a, s2.2 a) := by
  cases L with
  | nil =>
      simp only [DataFlowTracer.enterAll, Option.some.injEq] at h
      refine ⟨(fun _ => none, worlds1), rfl, ?_⟩
      rw [← h]
      simp only [hw]
  | cons e rest =>
      simp only [DataFlowTracer.enterAll] at h
      obtain ⟨_, hpar, hpos, hst, _⟩ := MsgCall.mapInner_fields _ _ _ hcc
      cases hd : base2.deref call2.parent with
      | none => rw [hd] at h; simp at h
      | some parent2 =>
          rw [hd] at h
          simp only [] at h
          obtain ⟨parent1, hparent1, hpp⟩ :=
            BasicNestedCallTracer.mapData_deref _ _ _ hbb _ parent2 hd
          have hgen : parent1.GenChildPosition base1.calls (IsPrecompiledContract toAddr)
              = parent2.GenChildPosition base2.calls (IsPrecompiledContract toAddr) := by
            rw [← MsgCall.GenChildPosition_mapInner (Data.of a) base1.calls parent1,
              ← MsgCall.GenChildPosition_mapInner (Data.of a) base2.calls parent2, hpp]
            exact congrArg (fun l => MsgCall.GenChildPosition l _ _)
              (congrArg (fun t => t.calls) hbb)
          obtain ⟨r1, hr1, hpr⟩ := forAnalyzers_filter a
            (fun s : (Nat → Option Nat) × (Nat → World σ) => (s.1 a, s.2 a))
            (DataFlowTracer.enter parent1.InnerData call1.Position call1.StateAddr
              (parent1.GenChildPosition base1.calls (IsPrecompiledContract toAddr)))
            (DataFlowTracer.enter parent2.InnerData call2.Position call2.StateAddr
              (parent2.GenChildPosition base2.calls (IsPrecompiledContract toAddr)))
            (fun b x s q hba hh => DataFlowTracer.enter_other a _ _ _ _ b x s q hba hh)
            (fun x q1 q2 q hp hh => by
              rw [hpos, hst, hgen]
              exact DataFlowTracer.enter_self a _ _
                (MsgCall.mapInner_fields _ _ _ hpp).2.2.2.2 _ _ _ x q1 q2 q hp hh)
            (e :: rest) (fun _ => none, worlds1) (fun _ => none, worlds2) s2
            (by simp only [hw]) h
          cases hfl : (e :: rest).filter (fun e => decide (e.1 = a)) with
          | nil =>
              rw [hfl] at hr1
              simp only [forAnalyzers, Option.some.injEq] at hr1
              refine ⟨(fun _ => none, worlds1), rfl, ?_⟩
              rw [hr1]
              exact hpr
          | cons y ys =>
              rw [hfl] at hr1
              refine ⟨r1, ?_, hpr⟩
              simp only [DataFlowTracer.enterAll]
              rw [hpar, hparent1]
              exact hr1

theorem data_flow.DataFlowTracer.CaptureEnter_isolated (a : Nat)
    (t1 t2 r2 : DataFlowTracer σ) (typ : OpCode) (sender toAddr : Address)
    (input : List Nat) (value : Option Int)
    (hA : t1.analyzers = t2.analyzers.filter (fun e => decide (e.1 = a)))
    (hf1 : t1.BasicNestedCallTracer.MsgCallDataFactory = none)
    (hf2 : t2.BasicNestedCallTracer.MsgCallDataFactory = none)
    (hs : t1.slice a = t2.slice a)
    (h : t2.CaptureEnter typ sender toAddr input value = some r2) :
    ∃ r1, t1.CaptureEnter typ sender toAddr input value = some r1 ∧
      r1.analyzers = r2.analyzers.filter (fun e => decide (e.1 = a)) ∧
      r1.BasicNestedCallTracer.MsgCallDataFactory = t1.BasicNestedCallTracer.MsgCallDataFactory ∧
      r2.BasicNestedCallTracer.MsgCallDataFactory = t2.BasicNestedCallTracer.MsgCallDataFactory ∧
      r1.slice a = r2.slice a := by
  simp only [DataFlowTracer.slice, Prod.mk.injEq] at hs
  obtain ⟨hb, hw⟩ := hs
  unfold DataFlowTracer.CaptureEnter at h ⊢
  cases hcs : t2.BasicNestedCallTracer.CaptureEnter typ sender toAddr input value with
  | none => rw [hcs] at h; simp at h
  | some base2 =>
      rw [hcs] at h
      simp only [] at h
      obtain ⟨base1, hbase1, hbb⟩ := BasicNestedCallTracer.mapData_transfer_of (Data.of a)
        (fun t => t.CaptureEnter typ sender toAddr input value)
        (fun t => t.CaptureEnter typ sender toAddr input value)
        _ _ base2
        (BasicNestedCallTracer.mapData_CaptureEnter _ _ hf1 typ sender toAddr input value)
        (BasicNestedCallTracer.mapData_CaptureEnter _ _ hf2 typ sender toAddr input value)
        hb hcs
      rw [hbase1]
      simp only []
      rw [BasicNestedCallTracer.mapData_current _ _ _ hbb]
      cases hp : base2.CurrentMsgCall with
      | none => rw [hp] at h; simp at h
      | some p =>
          rw [hp] at h
          simp only [] at h ⊢
          cases hcall : base2.calls[p]? with
          | none => rw [hcall] at h; simp at h
          | some call2 =>
              rw [hcall] at h
              simp only [] at h
              obtain ⟨call1, hcall1, hcc⟩ :=
                BasicNestedCallTracer.mapData_calls _ _ _ hbb p call2 hcall
              rw [hcall1]
              simp only []
              cases hl : DataFlowTracer.enterAll base2 call2 toAddr t2.analyzers t2.worlds with
              | none => rw [hl] at h; simp at h
              | some s2 =>
                  rw [hl] at h
                  simp only [Option.some.injEq] at h
                  obtain ⟨s1, hs1, hps⟩ := DataFlowTracer.enterAll_isolated a base1 base2 hbb
                    call1 call2 hcc toAddr t2.analyzers t1.worlds t2.worlds hw s2 hl
                  rw [hA, hs1]
                  simp only [Prod.mk.injEq] at hps
                  refine ⟨_, rfl, ?_, ?_, ?_, ?_⟩
                  · rw [← h]
                  · exact BasicNestedCallTracer.CaptureEnter_factory _ base1 _ _ _ _ _ hbase1
                  · rw [← h]
                    exact BasicNestedCallTracer.CaptureEnter_factory _ base2 _ _ _ _ _ hcs
                  · rw [← h]
                    simp only [DataFlowTracer.slice, Prod.mk.injEq]
                    refine ⟨BasicNestedCallTracer.mapData_store _ _ _ hbb p _ _
                      (MsgCall.mapInner_with_data _ _ _ hcc _ _ ?_), hps.2⟩
                    simp only [Option.map_some', Data.of, hps.1]

theorem data_flow.DataFlowTracer.step_isolated (a : Nat) (t1 t2 r2 : DataFlowTracer σ)
    (e : TracerEvent)
    (hA : t1.analyzers = t2.analyzers.filter (fun e => decide (e.1 = a)))
    (hf1 : t1.BasicNestedCallTracer.MsgCallDataFactory = none)
    (hf2 : t2.BasicNestedCallTracer.MsgCallDataFactory = none)
    (hs : t1.slice a = t2.slice a)
    (h : t2.step e = some r2) :
    ∃ r1, t1.step e = some r1 ∧
      r1.analyzers = r2.analyzers.filter (fun e => decide (e.1 = a)) ∧
      r1.BasicNestedCallTracer.MsgCallDataFactory = none ∧
      r2.BasicNestedCallTracer.MsgCallDataFactory = none ∧
      r1.slice a = r2.slice a := by
  cases e with
  | TransactionStart tx created =>
      obtain ⟨r1, h1, h2, h3, h4, h5⟩ :=
        DataFlowTracer.TransactionStart_isolated a t1 t2 r2 tx created hA hf1 hf2 hs h
      exact ⟨r1, h1, h2, h3.trans hf1, h4.trans hf2, h5⟩
  | CaptureStart =>
      simp only [DataFlowTracer.step, Option.some.injEq] at h
      subst h
      exact ⟨t1, rfl, hA, hf1, hf2, hs⟩
  | CaptureState pc op gas cost scope err =>
      obtain ⟨r1, h1, h2, h3, h4, h5⟩ :=
        DataFlowTracer.CaptureState_isolated a t1 t2 r2 pc op gas cost scope err hA hs h
      exact ⟨r1, h1, h2, h3.trans hf1, h4.trans hf2, h5⟩
  | CaptureEnter typ sender toAddr input value =>
      obtain ⟨r1, h1, h2, h3, h4, h5⟩ :=
        DataFlowTracer.CaptureEnter_isolated a t1 t2 r2 typ sender toAddr input value hA hf1 hf2
          hs h
      exact ⟨r1, h1, h2, h3.trans hf1, h4.trans hf2, h5⟩
  | CaptureExit output gasUsed err =>
      obtain ⟨r1, h1, h2, h3, h4, h5⟩ :=
        DataFlowTracer.CaptureExit_isolated a t1 t2 r2 output gasUsed err hA hs h
      exact ⟨r1, h1, h2, h3.trans hf1, h4.trans hf2, h5⟩
  | CaptureFault =>
      simp only [DataFlowTracer.step, Option.some.injEq] at h
      subst h
      exact ⟨t1, rfl, hA, hf1, hf2, hs⟩
  | CaptureEnd =>
      simp only [DataFlowTracer.step, Option.some.injEq] at h
      subst h
      exact ⟨t1, rfl, hA, hf1, hf2, hs⟩
  | TransactionEnd tx result receipt contractAddress =>
      obtain ⟨r1, h1, h2, h3, h4, h5⟩ :=
        DataFlowTracer.TransactionEnd_isolated a t1 t2 r2 result receipt hA hs h
      exact ⟨r1, h1, h2, h3.trans hf1, h4.trans hf2, h5⟩

theorem data_flow.DataFlowTracer.run_isolated (a : Nat) (events : List TracerEvent) :
    ∀ (t1 t2 r2 : DataFlowTracer σ),
      t1.analyzers = t2.analyzers.filter (fun e => decide (e.1 = a)) →
      t1.BasicNestedCallTracer.MsgCallDataFactory = none →
      t2.BasicNestedCallTracer.MsgCallDataFactory = none →
      t1.slice a = t2.slice a →
      t2.run events = some r2 →
      ∃ r1, t1.run events = some r1 ∧ r1.slice a = r2.slice a := by
  induction events with
  | nil =>
      intro t1 t2 r2 _ _ _ hs h
      simp only [DataFlowTracer.run, Option.some.injEq] at h
      subst h
      exact ⟨t1, rfl, hs⟩
  | cons e es ih =>
      intro t1 t2 r2 hA hf1 hf2 hs h
      simp only [DataFlowTracer.run] at h
      cases hst : t2.step e with
      | none => rw [hst] at h; simp at h
      | some m2 =>
          rw [hst] at h
          simp only [] at h
          obtain ⟨m1, hm1, hA1, hg1, hg2, hs1⟩ :=
            DataFlowTracer.step_isolated a t1 t2 m2 e hA hf1 hf2 hs hst
          obtain ⟨r1, hr1, hsr⟩ := ih m1 m2 r2 hA1 hg1 hg2 hs1 h
          refine ⟨r1, ?_, hsr⟩
          simp only [DataFlowTracer.run, hm1]
          exact hr1

/-- C13 (amended): when the tracer with the two analyzers `A` and `B`, in either order, gets
through a sequence of callbacks without a panic, the tracer with `A` alone gets through it too, and what belongs to `A`
is the same at the end: its entries in the data of every message call (its collection and its
registered callback) and its own objects, that is its mirror stacks, memories, storages, chain
and call data, its nodes, its state and the `SinkTainted` notifications it received. -/
theorem data_flow.DataFlowTracer.analyzers_are_isolated (A B : Analyzer σ) (a b : Nat)
    (hab : a ≠ b) (states : Nat → σ) (events : List TracerEvent) :
    (((NewDataFlowTracer [(a, A), (b, B)] states).run events).isSome = true →
      ((NewDataFlowTracer [(a, A)] states).run events).map (DataFlowTracer.slice a)
        = ((NewDataFlowTracer [(a, A), (b, B)] states).run events).map
            (DataFlowTracer.slice a)) ∧
    (((NewDataFlowTracer [(b, B), (a, A)] states).run events).isSome = true →
      ((NewDataFlowTracer [(a, A)] states).run events).map (DataFlowTracer.slice a)
        = ((NewDataFlowTracer [(b, B), (a, A)] states).run events).map
            (DataFlowTracer.slice a)) := by
  have hba : b ≠ a := Ne.symm hab
  constructor
  · intro h
    obtain ⟨r2, hr2⟩ := Option.isSome_iff_exists.mp h
    obtain ⟨r1, hr1, hs⟩ := DataFlowTracer.run_isolated a events
      (NewDataFlowTracer [(a, A)] states) (NewDataFlowTracer [(a, A), (b, B)] states) r2
      (by simp [NewDataFlowTracer, mapSet, hab, hba]) rfl rfl rfl hr2
    rw [hr1, hr2]
    simp only [Option.map_some', hs]
  · intro h
    obtain ⟨r2, hr2⟩ := Option.isSome_iff_exists.mp h
    obtain ⟨r1, hr1, hs⟩ := DataFlowTracer.run_isolated a events
      (NewDataFlowTracer [(a, A)] states) (NewDataFlowTracer [(b, B), (a, A)] states) r2
      (by simp [NewDataFlowTracer, mapSet, hab, hba]) rfl rfl rfl hr2
    rw [hr1, hr2]
    simp only [Option.map_some', hs]

end isolation

/-- The order of the trace indices at one step of `pureOpFlow`, on an instance: the `ADD` of the
node of a `PUSH1` and an untainted word. -/
theorem data_flow.pureOpFlow_upstreams_are_earlier_witness :
    pureOpFlow (data_flow_test.analyzer.methods Example.pushIsSource).toAnalyzerMethods.recording
        [] (Example.scope [7, 8]) 0 Example.addOperation [some 0, none] [none] Example.oneNode
      = some (Example.twoNodes, [some 1], none) ∧
    (∀ u, some u ∈ ([some 0, none] : FlowNodeList) → u < Example.oneNode.nodes.length) ∧
    (∀ U ∈ Example.oneNode.nodes, U.operation.Index < Example.addOperation.Index) ∧
    ((∀ p, p < Example.oneNode.nodes.length →
        Example.twoNodes.nodes[p]? = Example.oneNode.nodes[p]?) ∧
      ∀ p N, Example.oneNode.nodes.length ≤ p → Example.twoNodes.nodes[p]? = some N →
        N.operation = Example.addOperation ∧
        ∀ u ∈ N.From, some u ∈ ([some 0, none] : FlowNodeList) ∧
          ∃ U, Example.twoNodes.nodes[u]? = some U ∧
            U.operation.Index < N.operation.Index) := by
  have hargs : ∀ u, some u ∈ ([some 0, none] : FlowNodeList) →
      u < Example.oneNode.nodes.length := by
    intro u hu
    simp only [List.mem_cons, Option.some.injEq, List.mem_singleton, List.not_mem_nil,
      or_false] at hu
    rcases hu with hu | hu
    · subst hu
      decide
    · exact absurd hu (by simp)
  have hearlier : ∀ U ∈ Example.oneNode.nodes,
      U.operation.Index < Example.addOperation.Index := by
    intro U hU
    simp only [Example.oneNode, World.new, List.mem_singleton] at hU
    subst hU
    decide
  exact ⟨rfl, hargs, hearlier,
    data_flow.pureOpFlow_upstreams_are_earlier Example.pushIsSource [] (Example.scope [7, 8]) 0
      Example.addOperation [some 0, none] [none] Example.oneNode Example.twoNodes [some 1] none
      rfl hargs hearlier⟩

/-- C13 witness: the test analyzer that takes `SSTORE` for a source, alone and
together with the test analyzer that takes `PUSH1` for a source, on the callbacks of a
transaction with a nested call. -/
theorem data_flow.DataFlowTracer.analyzers_are_isolated_witness :
    (0 : Nat) ≠ 1 ∧
    ((NewDataFlowTracer
        [(0, data_flow_test.analyzer.methods Example.sstoreIsSource),
          (1, data_flow_test.analyzer.methods Example.pushIsSource)]
        (fun _ => { sinkTainted := false })).run Example.storeThenDelegate).isSome = true ∧
    ((NewDataFlowTracer [(0, data_flow_test.analyzer.methods Example.sstoreIsSource)]
        (fun _ => { sinkTainted := false })).run Example.storeThenDelegate).map
        (DataFlowTracer.slice 0)
      = ((NewDataFlowTracer
          [(0, data_flow_test.analyzer.methods Example.sstoreIsSource),
            (1, data_flow_test.analyzer.methods Example.pushIsSource)]
          (fun _ => { sinkTainted := false })).run Example.storeThenDelegate).map
          (DataFlowTracer.slice 0) :=
  ⟨by decide, rfl,
    (data_flow.DataFlowTracer.analyzers_are_isolated
      (data_flow_test.analyzer.methods Example.sstoreIsSource)
      (data_flow_test.analyzer.methods Example.pushIsSource) 0 1 (by decide)
      (fun _ => { sinkTainted := false }) Example.storeThenDelegate).1 rfl⟩

end DataFlowFacts

/-! ## Facts about the order of call positions and the copies of state variables -/

theorem position.Cmp_self (p : List Nat) : position.Cmp p p = 0 := by
  induction p with
  | nil => rfl
  | cons a p ih => simp [position.Cmp, ih]

theorem position.Cmp_eq_zero (p q : List Nat) : position.Cmp p q = 0 ↔ p = q := by
  induction p generalizing q with
  | nil => cases q <;> simp [position.Cmp]
  | cons a p ih =>
      cases q with
      | nil => simp [position.Cmp]
      | cons b q =>
          simp only [position.Cmp]
          by_cases h1 : a < b
          · simp [h1]; omega
          · by_cases h2 : a > b
            · simp [h1, h2]; omega
            · have : a = b := by omega
              subst this
              simp [ih]

theorem position.Cmp_eq_neg_one (p q : List Nat) :
    position.Cmp p q = -1 ↔ List.Lex (fun a b : Nat => a < b) p q := by
  induction p generalizing q with
  | nil =>
      cases q with
      | nil => simp [position.Cmp]
      | cons b q => simp only [position.Cmp, true_iff]; exact List.Lex.nil
  | cons a p ih =>
      cases q with
      | nil => simp [position.Cmp]
      | cons b q =>
          simp only [position.Cmp]
          by_cases h1 : a < b
          · simp only [h1, if_true, true_iff]
            exact List.Lex.rel h1
          · by_cases h2 : a > b
            · simp only [h1, h2, if_true, if_false]
              constructor
              · intro h; simp at h
              · intro h
                cases h with
                | cons h => omega
                | rel h => omega
            · have : a = b := by omega
              subst this
              simp only [h1, if_false, ih]
              constructor
              · intro h; exact List.Lex.cons h
              · intro h
                cases h with
                | cons h => exact h
                | rel h => omega

theorem position.Cmp_eq_one (p q : List Nat) :
    position.Cmp p q = 1 ↔ List.Lex (fun a b : Nat => a < b) q p := by
  induction p generalizing q with
  | nil => cases q <;> simp [position.Cmp]
  | cons a p ih =>
      cases q with
      | nil => simp only [position.Cmp, true_iff]; exact List.Lex.nil
      | cons b q =>
          simp only [position.Cmp]
          by_cases h1 : a < b
          · simp only [h1, if_true]
            constructor
            · intro h; simp at h
            · intro h
              cases h with
              | cons h => omega
              | rel h => omega
          · by_cases h2 : a > b
            · simp only [h1, h2, if_true, if_false, true_iff]
              exact List.Lex.rel h2
            · have : a = b := by omega
              subst this
              simp only [h1, if_false, ih]
              constructor
              · intro h; exact List.Lex.cons h
              · intro h
                cases h with
                | cons h => exact h
                | rel h => omega

/-- C22: `position.Cmp p q` is `-1`, not `1`, exactly when `p` is lexicographically smaller than
`q` (a proper prefix counting as smaller), that is when the call at `p` happens before the call
at `q`; it is `1` exactly when `p` is greater, and `0` exactly when the positions are equal. The
first call `[0]` of a transaction compared with the second call `[1]` gives `-1`, and a parent
`[0]` compared with its child `[0, 1]` gives `-1`. -/
theorem position.Cmp_is_minus_one_for_the_earlier_call (p q : List Nat) :
    (position.Cmp p q = -1 ↔ List.Lex (fun a b : Nat => a < b) p q) ∧
    (position.Cmp p q = 1 ↔ List.Lex (fun a b : Nat => a < b) q p) ∧
    (position.Cmp p q = 0 ↔ p = q) ∧
    position.Cmp [0] [1] = -1 ∧ position.Cmp [0] [0, 1] = -1 ∧ position.Cmp [1] [0] = 1 :=
  ⟨position.Cmp_eq_neg_one p q, position.Cmp_eq_one p q, position.Cmp_eq_zero p q,
    by decide, by decide, by decide⟩

theorem StateVariable.Copy_eq_iff (v : StateVariable) :
    v.Copy = v ↔
      ∀ a op code size hash l, v = StateVariable.CodeVariable a op code size hash l → op = 0 := by
  cases v with
  | StorageVariable a k x l => simp [StateVariable.Copy]
  | BalanceVariable a x l => simp [StateVariable.Copy]
  | CodeVariable a op code size hash l =>
      simp only [StateVariable.Copy, StateVariable.CodeVariable.injEq, true_and, and_true]
      constructor
      · intro h a2 op2 code2 size2 hash2 l2 h2
        rw [← h2.2.1]; exact h.symm
      · intro h
        exact (h a op code size hash l ⟨rfl, rfl, rfl, rfl, rfl, rfl⟩).symm

/-- C26: the copy of a `CodeVariable` has opcode `STOP` (the zero value) whatever opcode the
variable was recorded with, and all its other fields are kept; the copies of storage and balance
variables are equal to the variable. A copy is equal to the variable exactly when the variable
is not a `CodeVariable` with an opcode other than zero. The use that `CaptureState` records for
`CODESIZE` is kept by `AddIfAbsent` and by `AddWithOverride` with opcode `STOP`. -/
theorem StateVariable.Copy_of_code_variable_loses_opcode :
    (∀ a op code size hash l,
      (StateVariable.CodeVariable a op code size hash l).Copy =
        StateVariable.CodeVariable a vm.STOP code size hash l) ∧
    (∀ a k x l, (StateVariable.StorageVariable a k x l).Copy =
        StateVariable.StorageVariable a k x l) ∧
    (∀ a x l, (StateVariable.BalanceVariable a x l).Copy = StateVariable.BalanceVariable a x l) ∧
    (∀ v : StateVariable, v.Copy = v ↔
      ∀ a op code size hash l, v = StateVariable.CodeVariable a op code size hash l → op = 0) ∧
    StateVariables.AddIfAbsent [] [StateVariable.CodeVariable 7 vm.CODESIZE [] 3 0 none] =
      [StateVariable.CodeVariable 7 vm.STOP [] 3 0 none] ∧
    StateVariables.AddWithOverride [] [StateVariable.CodeVariable 7 vm.CODESIZE [] 3 0 none] =
      [StateVariable.CodeVariable 7 vm.STOP [] 3 0 none] :=
  ⟨fun _ _ _ _ _ _ => rfl, fun _ _ _ _ => rfl, fun _ _ _ => rfl, StateVariable.Copy_eq_iff,
    by decide, by decide⟩

/-! ## Facts about transfers -/

theorem bigCmp_zero_iff (x y : Int) : bigCmp x y = 0 ↔ x = y := by
  unfold bigCmp
  by_cases h1 : x < y
  · simp [h1]; omega
  · by_cases h2 : x > y
    · simp [h1, h2]; omega
    · simp [h1, h2]; omega

theorem bigCmp_one_iff (x y : Int) : bigCmp x y = 1 ↔ y < x := by
  unfold bigCmp
  by_cases h1 : x < y
  · simp [h1]; omega
  · by_cases h2 : x > y
    · simp [h1, h2]
    · simp [h1, h2]

theorem ITransfer.Zero_fungible (t : ITransfer) (f : fungibleTransfer)
    (h : t.fungible = some f) :
    t.Zero = true ↔ f.Amount = 0 ∨ f.FromAccount = f.ToAccount := by
  cases t <;> simp only [ITransfer.fungible, Option.some.injEq] at h <;>
    first
      | (subst h
         simp only [ITransfer.Zero, Bool.or_eq_true, decide_eq_true_eq, bigCmp_zero_iff]
         try (constructor <;> (intro h; rcases h with h | h <;> [exact Or.inl h; exact Or.inr h.symm])))
      | exact absurd h (by simp)

/-- C23: for every transfer, `Profits` is empty when the transfer is `Zero`; otherwise none of
its profits is `Zero`, and it is the profit of what `From` gives (`-Amount`, or the token in
`giveTokens`), left out when the transfer is a mint, followed by the profit of what `To`
receives (`+Amount`, or the token in `receiveTokens`), left out when the transfer is a burn. -/
theorem ITransfer.Profits_are_loss_of_sender_then_gain_of_receiver (t : ITransfer) :
    (t.Zero = true → t.Profits = []) ∧
    (t.Zero = false →
      (∀ p ∈ t.Profits, p.Zero = false) ∧
      t.Profits =
        (if t.Mint then [] else [t.given]) ++ (if t.Burn then [] else [t.received]) ∧
      t.given.Beneficiary = t.From ∧ t.received.Beneficiary = t.To ∧
      t.given.TypeOf = t.TypeOf ∧ t.received.TypeOf = t.TypeOf) := by
  refine ⟨fun hz => by simp [ITransfer.Profits, hz], fun hz => ?_⟩
  have hshape : t.Profits =
      (if t.Mint then [] else [t.given]) ++ (if t.Burn then [] else [t.received]) := by
    cases t <;> simp only [ITransfer.Profits, hz] <;>
      simp [ITransfer.Mint, ITransfer.Burn, ITransfer.given, ITransfer.received]
  refine ⟨?_, hshape, ?_, ?_, ?_, ?_⟩
  · intro p hp
    rw [hshape] at hp
    have hp2 : p = t.given ∨ p = t.received := by
      simp only [List.mem_append] at hp
      rcases hp with hp | hp
      · split at hp
        · simp at hp
        · left; simpa using hp
      · split at hp
        · simp at hp
        · right; simpa using hp
    cases t with
    | ERC721Transfer a b c k l =>
        rcases hp2 with h | h <;> subst h <;>
          simp [ITransfer.given, ITransfer.received, Profit.Zero, Profit.netTokens]
    | EtherTransfer f =>
        simp only [ITransfer.Zero, Bool.or_eq_false_iff, decide_eq_false_iff_not,
          bigCmp_zero_iff] at hz
        rcases hp2 with h | h <;> subst h <;>
          simp only [ITransfer.given, ITransfer.received, Profit.Zero, decide_eq_false_iff_not,
            bigCmp_zero_iff] <;> omega
    | ERC20Transfer f c =>
        simp only [ITransfer.Zero, Bool.or_eq_false_iff, decide_eq_false_iff_not,
          bigCmp_zero_iff] at hz
        rcases hp2 with h | h <;> subst h <;>
          simp only [ITransfer.given, ITransfer.received, Profit.Zero, decide_eq_false_iff_not,
            bigCmp_zero_iff] <;> omega
    | ERC777Transfer f c =>
        simp only [ITransfer.Zero, Bool.or_eq_false_iff, decide_eq_false_iff_not,
          bigCmp_zero_iff] at hz
        rcases hp2 with h | h <;> subst h <;>
          simp only [ITransfer.given, ITransfer.received, Profit.Zero, decide_eq_false_iff_not,
            bigCmp_zero_iff] <;> omega
    | ERC1155Transfer f c k =>
        simp only [ITransfer.Zero, Bool.or_eq_false_iff, decide_eq_false_iff_not,
          bigCmp_zero_iff] at hz
        rcases hp2 with h | h <;> subst h <;>
          simp only [ITransfer.given, ITransfer.received, Profit.Zero, decide_eq_false_iff_not,
            bigCmp_zero_iff] <;> omega
  · cases t <;> rfl
  · cases t <;> rfl
  · cases t <;> rfl
  · cases t <;> rfl

/-- C25: `Zero` of an `ERC721Transfer` is false also when `From` equals `To`: the transfer of
token 9 of contract 5 from account 1 to account 1 is not `Zero` and has two profits. For the
four fungible kinds `Zero` is true exactly when the amount is zero or `From` equals `To`. -/
theorem ITransfer.Zero_of_ERC721Transfer_is_false :
    (∀ a b c k l, (ITransfer.ERC721Transfer a b c k l).Zero = false) ∧
    (ITransfer.ERC721Transfer 1 1 5 9 none).Zero = false ∧
    (ITransfer.ERC721Transfer 1 1 5 9 none).From = (ITransfer.ERC721Transfer 1 1 5 9 none).To ∧
    (ITransfer.ERC721Transfer 1 1 5 9 none).Profits =
      [Profit.ERC721CombinedProfit 1 5 ∅ {9}, Profit.ERC721CombinedProfit 1 5 {9} ∅] ∧
    (∀ (t : ITransfer) (f : fungibleTransfer), t.fungible = some f →
      (t.Zero = true ↔ f.Amount = 0 ∨ t.From = t.To)) := by
  refine ⟨fun _ _ _ _ _ => rfl, rfl, rfl, by decide, ?_⟩
  intro t f h
  rw [ITransfer.Zero_fungible t f h]
  cases t <;> simp only [ITransfer.fungible, Option.some.injEq] at h <;>
    first
      | (subst h; rfl)
      | exact absurd h (by simp)


theorem fungibleTransfer.merge_zero_amount (f o : fungibleTransfer) (ho : o.Amount = 0)
    (hpos : 0 < f.Amount)
    (h : (o.FromAccount = f.FromAccount ∧ o.ToAccount = f.ToAccount) ∨
      (o.FromAccount = f.ToAccount ∧ o.ToAccount = f.FromAccount)) :
    f.merge o = Except.ok [f.copy] := by
  have hc1 : bigCmp f.Amount o.Amount = 1 := (bigCmp_one_iff _ _).mpr (by omega)
  unfold fungibleTransfer.merge
  rw [hc1]
  by_cases h1 : f.FromAccount = o.ToAccount ∧ f.ToAccount = o.FromAccount
  · rw [if_pos h1]
    simp [fungibleTransfer.copy, ho, ← h1.2]
  · rw [if_neg h1]
    rcases h with h | h
    · rw [if_pos ⟨h.1.symm, h.2.symm⟩]
      simp [fungibleTransfer.copy, ho]
    · exact absurd ⟨h.2.symm, h.1.symm⟩ h1

theorem fungibleTransfer.merge_unrelated (f o : fungibleTransfer)
    (h1 : f.FromAccount ≠ o.ToAccount) (h2 : f.ToAccount ≠ o.FromAccount)
    (h3 : ¬ (f.FromAccount = o.FromAccount ∧ f.ToAccount = o.ToAccount)) :
    f.merge o = Except.error SummaryError.ErrMergeNotPossible := by
  unfold fungibleTransfer.merge
  simp [h1, h2, h3]

/-- C24, refuted as stated: merging with a `Zero` transfer of the same asset fails when the two
transfers share no account (`1 → 2` of 5 wei with `3 → 4` of 0 wei), gives the empty list when
both have amount zero and opposite directions, and gives two transfers, one of them `Zero`,
when the `Zero` transfer ends where the other starts (`1 → 2` of 5 wei with `3 → 1` of 0 wei). -/
theorem ITransfer.Merge_with_zero_transfer_fails :
    (ITransfer.EtherTransfer ⟨3, 4, 0, none⟩).Zero = true ∧
    (ITransfer.EtherTransfer ⟨1, 2, 5, none⟩).SameAsset (ITransfer.EtherTransfer ⟨3, 4, 0, none⟩) ∧
    (ITransfer.EtherTransfer ⟨1, 2, 5, none⟩).Merge (ITransfer.EtherTransfer ⟨3, 4, 0, none⟩) =
      Except.error SummaryError.ErrMergeNotPossible ∧
    (ITransfer.EtherTransfer ⟨2, 1, 0, none⟩).Zero = true ∧
    (ITransfer.EtherTransfer ⟨1, 2, 0, none⟩).Merge (ITransfer.EtherTransfer ⟨2, 1, 0, none⟩) =
      Except.ok [] ∧
    (ITransfer.EtherTransfer ⟨3, 1, 0, none⟩).Zero = true ∧
    (ITransfer.EtherTransfer ⟨1, 2, 5, none⟩).Merge (ITransfer.EtherTransfer ⟨3, 1, 0, none⟩) =
      Except.ok [ITransfer.EtherTransfer ⟨3, 2, 0, none⟩, ITransfer.EtherTransfer ⟨1, 2, 5, none⟩] := by
  refine ⟨by decide, ⟨rfl, rfl, rfl⟩, ?_, by decide, ?_, by decide, ?_⟩
  · simp [ITransfer.Merge, fungibleTransfer.merge]
  · simp [ITransfer.Merge, fungibleTransfer.merge, bigCmp]
  · simp [ITransfer.Merge, fungibleTransfer.merge, bigCmp]

/-- C24, amended: for every transfer `t` with a positive amount and every transfer `z` of the
same asset (same type, contract and token id) whose amount is zero, `z` is `Zero`; when `z`
goes between the same two accounts as `t`, in the same or in the opposite direction,
`t.Merge(z)` succeeds and returns exactly `[t]` (same `From`, `To`, `Amount`, contract and token
id, without the location, as `t.Copy()`); when `z` shares no account with `t` in one of the
three ways that `merge` knows, `t.Merge(z)` is `ErrMergeNotPossible`. -/
theorem ITransfer.Merge_with_zero_amount_between_same_accounts (t z : ITransfer)
    (f : fungibleTransfer) (hf : t.fungible = some f) (hpos : 0 < f.Amount)
    (hsame : t.SameAsset z) (hamt : z.AmountIsZero) :
    z.Zero = true ∧
    (((z.From = t.From ∧ z.To = t.To) ∨ (z.From = t.To ∧ z.To = t.From)) →
      t.Merge z = Except.ok [t.Copy]) ∧
    ((t.From ≠ z.To ∧ t.To ≠ z.From ∧ ¬ (t.From = z.From ∧ t.To = z.To)) →
      t.Merge z = Except.error SummaryError.ErrMergeNotPossible) := by
  obtain ⟨hty, hc, hk⟩ := hsame
  cases t <;> cases z <;>
    first
      | (simp [ITransfer.TypeOf] at hty; done)
      | (simp [ITransfer.fungible] at hf; done)
      | (simp only [ITransfer.fungible, Option.some.injEq] at hf
         subst hf
         simp only [ITransfer.AmountIsZero, ITransfer.fungible] at hamt
         try simp only [ITransfer.contract, Option.some.injEq] at hc
         try simp only [ITransfer.tokenID, Option.some.injEq] at hk
         try subst hc
         try subst hk
         refine ⟨by simp [ITransfer.Zero, bigCmp_zero_iff, hamt], ?_, ?_⟩
         · intro h
           simp only [ITransfer.From, ITransfer.To] at h
           simp [ITransfer.Merge, ITransfer.Copy,
             fungibleTransfer.merge_zero_amount _ _ hamt hpos h]
         · intro h
           simp only [ITransfer.From, ITransfer.To] at h
           simp [ITransfer.Merge, fungibleTransfer.merge_unrelated _ _ h.1 h.2.1 h.2.2])

theorem ITransfer.Merge_with_zero_amount_between_same_accounts_witness :
    (ITransfer.ERC20Transfer ⟨1, 2, 5, none⟩ 7).fungible = some ⟨1, 2, 5, none⟩ ∧
    (ITransfer.ERC20Transfer ⟨1, 2, 5, none⟩ 7).SameAsset (ITransfer.ERC20Transfer ⟨2, 1, 0, none⟩ 7) ∧
    (ITransfer.ERC20Transfer ⟨2, 1, 0, none⟩ 7).AmountIsZero ∧
    ((ITransfer.ERC20Transfer ⟨2, 1, 0, none⟩ 7).Zero = true ∧
    ((((ITransfer.ERC20Transfer ⟨2, 1, 0, none⟩ 7).From =
          (ITransfer.ERC20Transfer ⟨1, 2, 5, none⟩ 7).From ∧
        (ITransfer.ERC20Transfer ⟨2, 1, 0, none⟩ 7).To =
          (ITransfer.ERC20Transfer ⟨1, 2, 5, none⟩ 7).To) ∨
      ((ITransfer.ERC20Transfer ⟨2, 1, 0, none⟩ 7).From =
          (ITransfer.ERC20Transfer ⟨1, 2, 5, none⟩ 7).To ∧
        (ITransfer.ERC20Transfer ⟨2, 1, 0, none⟩ 7).To =
          (ITransfer.ERC20Transfer ⟨1, 2, 5, none⟩ 7).From)) →
      (ITransfer.ERC20Transfer ⟨1, 2, 5, none⟩ 7).Merge (ITransfer.ERC20Transfer ⟨2, 1, 0, none⟩ 7) =
        Except.ok [(ITransfer.ERC20Transfer ⟨1, 2, 5, none⟩ 7).Copy]) ∧
    (((ITransfer.ERC20Transfer ⟨1, 2, 5, none⟩ 7).From ≠
          (ITransfer.ERC20Transfer ⟨2, 1, 0, none⟩ 7).To ∧
        (ITransfer.ERC20Transfer ⟨1, 2, 5, none⟩ 7).To ≠
          (ITransfer.ERC20Transfer ⟨2, 1, 0, none⟩ 7).From ∧
        ¬ ((ITransfer.ERC20Transfer ⟨1, 2, 5, none⟩ 7).From =
            (ITransfer.ERC20Transfer ⟨2, 1, 0, none⟩ 7).From ∧
          (ITransfer.ERC20Transfer ⟨1, 2, 5, none⟩ 7).To =
            (ITransfer.ERC20Transfer ⟨2, 1, 0, none⟩ 7).To)) →
      (ITransfer.ERC20Transfer ⟨1, 2, 5, none⟩ 7).Merge (ITransfer.ERC20Transfer ⟨2, 1, 0, none⟩ 7) =
        Except.error SummaryError.ErrMergeNotPossible)) :=
  ⟨rfl, ⟨rfl, rfl, rfl⟩, rfl,
    ITransfer.Merge_with_zero_amount_between_same_accounts
      (ITransfer.ERC20Transfer ⟨1, 2, 5, none⟩ 7) (ITransfer.ERC20Transfer ⟨2, 1, 0, none⟩ 7)
      ⟨1, 2, 5, none⟩ rfl (by decide) ⟨rfl, rfl, rfl⟩ rfl⟩

/-! ## Facts about pseudo transactions and the hashes of attacks -/

/-- C29: the hash of a pseudo transaction does not depend on its closure: for every payload and
every two closures (nil included), the two transactions that `NewPseudoTx` builds have the same
hash, namely the library hash of the legacy transaction whose only set field is the payload; the
two transactions differ in nothing but the closure. -/
theorem NewPseudoTx_hash_ignores_closure (rlpHash : LegacyTx → Hash) (d : List Nat)
    (f g : Option (Prog (List Nat × Option GoError))) :
    (NewPseudoTx rlpHash d f).Hash = (NewPseudoTx rlpHash d g).Hash ∧
    (NewPseudoTx rlpHash d f).Hash =
      rlpHash { Nonce := 0, GasPrice := 0, Gas := 0, To := none, Value := 0, Data := d, V := 0,
                R := 0, S := 0 } ∧
    { NewPseudoTx rlpHash d f with PseudoExec := g } = NewPseudoTx rlpHash d g ∧
    (NewPseudoTx rlpHash d f).IsPseudo = true :=
  ⟨rfl, rfl, rfl, rfl⟩

theorem ExeVM.ApplyTx_pseudo_without_closure (m : ExeVM) (state : ForkedState) (tx : Tx)
    (vmContext : VMContext) (commit genReceipt : Bool) (hp : tx.IsPseudo = true)
    (hf : tx.PseudoExec = none) :
    m.ApplyTx state tx vmContext commit genReceipt =
      { msgResult := some { UsedGas := 0, Err := none, ReturnData := [] }, receipt := none,
        err := none, state := state, vmContext := vmContext } := by
  unfold Tx.IsPseudo at hp
  simp [ExeVM.ApplyTx, hp, hf]

theorem ExeVM.ApplyTx_pseudo_panic (m : ExeVM) (state : ForkedState) (tx : Tx)
    (vmContext : VMContext) (commit genReceipt : Bool)
    (f : Prog (List Nat × Option GoError)) (state1 : ForkedState) (msg : Nat)
    (hp : tx.IsPseudo = true) (hf : tx.PseudoExec = some f)
    (hr : f.exec state = (state1, Except.error msg)) :
    m.ApplyTx state tx vmContext commit genReceipt =
      { msgResult := none, receipt := none, err := some (GoError.txExecutionError msg),
        state := state1, vmContext := vmContext } := by
  unfold Tx.IsPseudo at hp
  simp [ExeVM.ApplyTx, hp, hf, hr, ExeVM.recovered]

/-- C30: for a pseudo transaction whose closure returns `(returnData, err)` when it is run on
the given state, `ApplyTx` leaves the state as that one run of the closure left it and returns a
result with that return data and that error, a nil receipt and a nil error; the block context
(`TransactionIndex`, `GasUsed`, gas pool and the rest) is unchanged, and nothing of the `ExeVM`
takes part: with any other configuration and tracer, and any other flags `commit` and
`genReceipt`, the outcome is the same, so no tracer callback is run. -/
theorem ExeVM.ApplyTx_pseudo_runs_closure_only (m : ExeVM) (state : ForkedState) (tx : Tx)
    (vmContext : VMContext) (commit genReceipt : Bool)
    (f : Prog (List Nat × Option GoError)) (state1 : ForkedState) (returnData : List Nat)
    (err : Option GoError)
    (hp : tx.IsPseudo = true) (hf : tx.PseudoExec = some f)
    (hr : f.exec state = (state1, Except.ok (returnData, err))) :
    (m.ApplyTx state tx vmContext commit genReceipt).msgResult =
      some { UsedGas := 0, Err := err, ReturnData := returnData } ∧
    (m.ApplyTx state tx vmContext commit genReceipt).receipt = none ∧
    (m.ApplyTx state tx vmContext commit genReceipt).err = none ∧
    (m.ApplyTx state tx vmContext commit genReceipt).state = (f.exec state).1 ∧
    (m.ApplyTx state tx vmContext commit genReceipt).vmContext = vmContext ∧
    (∀ (m2 : ExeVM) (commit2 genReceipt2 : Bool),
      m2.ApplyTx state tx vmContext commit2 genReceipt2 =
        m.ApplyTx state tx vmContext commit genReceipt) := by
  unfold Tx.IsPseudo at hp
  refine ⟨?_, ?_, ?_, ?_, ?_, ?_⟩ <;> simp [ExeVM.ApplyTx, hp, hf, hr]

theorem ExeVM.ApplyTx_pseudo_runs_closure_only_witness :
    Example.pseudoTx.IsPseudo = true ∧
    (Example.failingVM.ApplyTx (ForkedState.fresh Example.provider 100) Example.pseudoTx
        Example.vmContext true true).msgResult =
      some { UsedGas := 0, Err := some (GoError.external 7), ReturnData := [1] } ∧
    (Example.failingVM.ApplyTx (ForkedState.fresh Example.provider 100) Example.pseudoTx
        Example.vmContext true true).receipt = none ∧
    (Example.failingVM.ApplyTx (ForkedState.fresh Example.provider 100) Example.pseudoTx
        Example.vmContext true true).err = none ∧
    (Example.failingVM.ApplyTx (ForkedState.fresh Example.provider 100) Example.pseudoTx
        Example.vmContext true true).vmContext = Example.vmContext := by
  have h := ExeVM.ApplyTx_pseudo_runs_closure_only Example.failingVM
    (ForkedState.fresh Example.provider 100) Example.pseudoTx Example.vmContext true true
    (Prog.op (StateOp.AddBalance 2 5) (fun _ => Prog.ret ([1], some (GoError.external 7))))
    ((Prog.exec (Prog.op (StateOp.AddBalance 2 5)
        (fun _ => Prog.ret ([1], some (GoError.external 7))))
      (ForkedState.fresh Example.provider 100)).1)
    [1] (some (GoError.external 7)) rfl rfl rfl
  exact ⟨rfl, h.1, h.2.1, h.2.2.1, h.2.2.2.2.1⟩


theorem dataset.Attack.Hash_spec (keccak256 : List Nat → Erebus.Hash) (a : dataset.Attack)
    (hv : a.CacheValid keccak256) :
    (a.Hash keccak256).1 = a.canonicalHash keccak256 ∧
    (a.Hash keccak256).2.AttackTxRecord = a.AttackTxRecord ∧
    (a.Hash keccak256).2.VictimTxRecord = a.VictimTxRecord ∧
    (a.Hash keccak256).2.ProfitTxRecord = a.ProfitTxRecord ∧
    (a.Hash keccak256).2.hash = some (a.canonicalHash keccak256) := by
  unfold dataset.Attack.CacheValid at hv
  unfold dataset.Attack.Hash
  cases hh : a.hash with
  | some h =>
      have := hv h hh
      subst this
      exact ⟨rfl, rfl, rfl, rfl, hh⟩
  | none =>
      cases hp : a.ProfitTxRecord with
      | none =>
          simp [dataset.ComputeAttackHash, Keccak256Hash, dataset.Attack.canonicalHash, hp]
      | some pr =>
          simp [dataset.ComputeAttackHash, Keccak256Hash, dataset.Attack.canonicalHash, hp]

theorem dataset.Attack.canonicalHash_congr (keccak256 : List Nat → Erebus.Hash)
    (a b : dataset.Attack) (h1 : b.AttackTxRecord = a.AttackTxRecord)
    (h2 : b.VictimTxRecord = a.VictimTxRecord) (h3 : b.ProfitTxRecord = a.ProfitTxRecord) :
    b.canonicalHash keccak256 = a.canonicalHash keccak256 := by
  unfold dataset.Attack.canonicalHash
  rw [h1, h2, h3]

/-- C27: for an attack and an analysis whose caches are empty or were filled by `Hash` (a cache
is empty when the value is built and nothing else writes it), `Attack.Hash()` is keccak256 of
the bytes of the attack transaction hash, then those of the victim transaction hash, then those
of the profit transaction hash exactly when there is a profit transaction record, and
`AttackAnalysis.Hash()` is keccak256 of the bytes of that attack hash followed by the bytes of
`SharedVariable.ID()`. The calls change nothing but the caches, which stay valid, and two
analyses with the same three transaction hashes and the same variable id have the same two
hashes. -/
theorem dataset.AttackAnalysis.Hash_is_keccak_of_attack_hash_and_variable_id
    (keccak256 : List Nat → Erebus.Hash) (idBytes : VarID → List Nat)
    (a : dataset.AttackAnalysis) (hv : a.CacheValid keccak256 idBytes) :
    (a.Attack.Hash keccak256).1 =
      keccak256 (Hash.Bytes a.Attack.AttackTxRecord.Tx.Hash ++
        Hash.Bytes a.Attack.VictimTxRecord.Tx.Hash ++
        (match a.Attack.ProfitTxRecord with
          | some pr => Hash.Bytes pr.Tx.Hash
          | none => [])) ∧
    (a.Hash keccak256 idBytes).1 =
      keccak256 (Hash.Bytes (a.Attack.Hash keccak256).1 ++ idBytes a.SharedVariable.ID) ∧
    (a.Hash keccak256 idBytes).2.CacheValid keccak256 idBytes ∧
    (a.Hash keccak256 idBytes).2.SharedVariable = a.SharedVariable ∧
    (a.Hash keccak256 idBytes).2.Attack.AttackTxRecord = a.Attack.AttackTxRecord ∧
    (a.Hash keccak256 idBytes).2.Attack.VictimTxRecord = a.Attack.VictimTxRecord ∧
    (a.Hash keccak256 idBytes).2.Attack.ProfitTxRecord = a.Attack.ProfitTxRecord ∧
    ((a.Hash keccak256 idBytes).2.Hash keccak256 idBytes).1 = (a.Hash keccak256 idBytes).1 ∧
    (∀ b : dataset.AttackAnalysis, b.CacheValid keccak256 idBytes →
      b.Attack.AttackTxRecord.Tx.Hash = a.Attack.AttackTxRecord.Tx.Hash →
      b.Attack.VictimTxRecord.Tx.Hash = a.Attack.VictimTxRecord.Tx.Hash →
      b.Attack.ProfitTxRecord.map (fun r => r.Tx.Hash) =
        a.Attack.ProfitTxRecord.map (fun r => r.Tx.Hash) →
      b.SharedVariable.ID = a.SharedVariable.ID →
      (b.Attack.Hash keccak256).1 = (a.Attack.Hash keccak256).1 ∧
      (b.Hash keccak256 idBytes).1 = (a.Hash keccak256 idBytes).1) := by
  have key : ∀ c : dataset.AttackAnalysis, c.CacheValid keccak256 idBytes →
      (c.Hash keccak256 idBytes).1 = c.canonicalHash keccak256 idBytes ∧
      (c.Hash keccak256 idBytes).2.SharedVariable = c.SharedVariable ∧
      (c.Hash keccak256 idBytes).2.Attack.AttackTxRecord = c.Attack.AttackTxRecord ∧
      (c.Hash keccak256 idBytes).2.Attack.VictimTxRecord = c.Attack.VictimTxRecord ∧
      (c.Hash keccak256 idBytes).2.Attack.ProfitTxRecord = c.Attack.ProfitTxRecord ∧
      (c.Hash keccak256 idBytes).2.hash = some (c.canonicalHash keccak256 idBytes) ∧
      (c.Hash keccak256 idBytes).2.Attack.CacheValid keccak256 := by
    intro c hc
    obtain ⟨hca, hch⟩ := hc
    obtain ⟨a1, a2, a3, a4, a5⟩ := dataset.Attack.Hash_spec keccak256 c.Attack hca
    unfold dataset.AttackAnalysis.Hash
    cases hh : c.hash with
    | some h =>
        have := hch h hh
        subst this
        exact ⟨rfl, rfl, rfl, rfl, rfl, hh, hca⟩
    | none =>
        have e : Keccak256Hash keccak256
            [Hash.Bytes (c.Attack.Hash keccak256).1, idBytes c.SharedVariable.ID] =
            c.canonicalHash keccak256 idBytes := by
          rw [a1]
          simp [Keccak256Hash, dataset.AttackAnalysis.canonicalHash]
        refine ⟨e, rfl, a2, a3, a4, congrArg some e, ?_⟩
        intro h hh2
        show h = (c.Attack.Hash keccak256).2.canonicalHash keccak256
        rw [dataset.Attack.canonicalHash_congr keccak256 _ _ a2 a3 a4]
        have hh3 : (c.Attack.Hash keccak256).2.hash = some h := hh2
        rw [a5] at hh3
        exact (Option.some.inj hh3).symm
  obtain ⟨a1, a2, a3, a4, a5⟩ := dataset.Attack.Hash_spec keccak256 a.Attack hv.1
  obtain ⟨k1, k2, k3, k4, k5, k6, k7⟩ := key a hv
  have hsame : (a.Hash keccak256 idBytes).2.canonicalHash keccak256 idBytes =
      a.canonicalHash keccak256 idBytes := by
    unfold dataset.AttackAnalysis.canonicalHash
    rw [dataset.Attack.canonicalHash_congr keccak256 _ _ k3 k4 k5, k2]
  have hvalid : (a.Hash keccak256 idBytes).2.CacheValid keccak256 idBytes := by
    refine ⟨k7, ?_⟩
    intro h hh
    rw [k6] at hh
    rw [← Option.some.inj hh, hsame]
  refine ⟨a1, ?_, hvalid, k2, k3, k4, k5, ?_, ?_⟩
  · rw [k1, a1]; rfl
  · rw [(key _ hvalid).1, hsame, k1]
  · intro b hb h1 h2 h3 h4
    have hB := (dataset.Attack.Hash_spec keccak256 b.Attack hb.1).1
    have hbk := (key b hb).1
    have hattack : b.Attack.canonicalHash keccak256 = a.Attack.canonicalHash keccak256 := by
      unfold dataset.Attack.canonicalHash
      rw [h1, h2]
      cases hbp : b.Attack.ProfitTxRecord <;> cases hap : a.Attack.ProfitTxRecord <;>
        rw [hbp, hap] at h3 <;> simp at h3
      · simp only [h3]
    refine ⟨by rw [hB, a1, hattack], ?_⟩
    rw [hbk, k1]
    unfold dataset.AttackAnalysis.canonicalHash
    rw [hattack, h4]

theorem dataset.AttackAnalysis.Hash_is_keccak_of_attack_hash_and_variable_id_witness :
    dataset.Example.analysis.CacheValid (fun bytes => bytes.sum) (fun _ => [5]) ∧
    (dataset.Example.analysis.Attack.Hash (fun bytes => bytes.sum)).1 =
      (Hash.Bytes 1 ++ Hash.Bytes 2 ++ Hash.Bytes 3).sum ∧
    (dataset.Example.analysis.Hash (fun bytes => bytes.sum) (fun _ => [5])).1 =
      (Hash.Bytes (dataset.Example.analysis.Attack.Hash (fun bytes => bytes.sum)).1 ++ [5]).sum :=
  have hv : dataset.Example.analysis.CacheValid (fun bytes => bytes.sum) (fun _ => [5]) :=
    ⟨fun h hh => absurd hh (by simp [dataset.Example.analysis]),
      fun h hh => absurd hh (by simp [dataset.Example.analysis])⟩
  have h := dataset.AttackAnalysis.Hash_is_keccak_of_attack_hash_and_variable_id
    (fun bytes => bytes.sum) (fun _ => [5]) dataset.Example.analysis hv
  ⟨hv, h.1, h.2.1⟩

/-! ## Facts about raw and compact positions -/

theorem MsgCall.PositionedAt_append (l : List (CallPosition × Option Nat × Bool))
    (z : CallPosition × Option Nat × Bool) (i : Nat) (x : CallPosition × Option Nat × Bool)
    (hi : i ≤ l.length) (h : MsgCall.PositionedAt l i x) :
    MsgCall.PositionedAt (l ++ [z]) i x := by
  unfold MsgCall.PositionedAt at h ⊢
  cases hp : x.2.1 with
  | none => rw [hp] at h; exact h
  | some p =>
      rw [hp] at h
      obtain ⟨h1, y, h2, h3⟩ := h
      refine ⟨h1, y, ?_, h3⟩
      rw [List.getElem?_append_left (by omega)]
      exact h2

theorem MsgCall.WellPositioned_append (l : List (CallPosition × Option Nat × Bool))
    (x : CallPosition × Option Nat × Bool) (hl : MsgCall.WellPositioned l)
    (hx : MsgCall.PositionedAt l l.length x) :
    MsgCall.WellPositioned (l ++ [x]) := by
  intro i z hz
  by_cases hi : i < l.length
  · rw [List.getElem?_append_left hi] at hz
    exact MsgCall.PositionedAt_append l x i z (by omega) (hl i z hz)
  · have hi2 : i = l.length := by
      have := (List.getElem?_eq_some_iff.mp hz).1
      simp at this
      omega
    subst hi2
    simp at hz
    subst hz
    exact MsgCall.PositionedAt_append l _ _ _ (le_refl _) hx

theorem MsgCall.shape_set {D : Type} (calls : List (MsgCall D)) (p : Nat) (c c1 : MsgCall D)
    (hc : calls[p]? = some c) (h : c1.shape = c.shape) :
    (calls.set p c1).map MsgCall.shape = calls.map MsgCall.shape := by
  apply List.ext_getElem?
  intro i
  rw [List.getElem?_map, List.getElem?_map, List.getElem?_set]
  by_cases hip : p = i
  · subst hip
    have hlt : p < calls.length := (List.getElem?_eq_some_iff.mp hc).1
    simp [hlt, hc, h]
  · simp [hip]

theorem MsgCall.WellPositioned_set {D : Type} (calls : List (MsgCall D)) (p : Nat)
    (c c1 : MsgCall D) (hc : calls[p]? = some c) (h : c1.shape = c.shape)
    (ht : MsgCall.WellPositioned (calls.map MsgCall.shape)) :
    MsgCall.WellPositioned ((calls.set p c1).map MsgCall.shape) := by
  rw [MsgCall.shape_set calls p c c1 hc h]
  exact ht

theorem MsgCall.WellPositioned_enter {D : Type} (calls : List (MsgCall D)) (pp : Nat)
    (parentCall parent1 child : MsgCall D) (hc : calls[pp]? = some parentCall)
    (h : parent1.shape = parentCall.shape) (hparent : child.parent = some pp)
    (hpos : child.Position = parentCall.GenChildPosition calls child.Precompiled)
    (ht : MsgCall.WellPositioned (calls.map MsgCall.shape)) :
    MsgCall.WellPositioned (((calls ++ [child]).set pp parent1).map MsgCall.shape) := by
  have hlt : pp < calls.length := (List.getElem?_eq_some_iff.mp hc).1
  have hc2 : (calls ++ [child])[pp]? = some parentCall := by
    rw [List.getElem?_append_left hlt]; exact hc
  rw [MsgCall.shape_set _ _ parentCall _ hc2 h]
  simp only [List.map_append, List.map_cons, List.map_nil]
  apply MsgCall.WellPositioned_append _ _ ht
  have hy : (calls.map MsgCall.shape)[pp]? = some parentCall.shape := by
    rw [List.getElem?_map, hc]; rfl
  unfold MsgCall.PositionedAt
  simp only [MsgCall.shape, hparent, List.length_map]
  refine ⟨hlt, parentCall.shape, hy, ?_, ?_⟩
  · rw [hpos]; simp [MsgCall.GenChildPosition, MsgCall.shape]
  · rw [hpos]
    cases child.Precompiled <;> simp [MsgCall.GenChildPosition, MsgCall.shape]

theorem BasicNestedCallTracer.step_WellPositioned {D : Type} (t t1 : BasicNestedCallTracer D)
    (e : TracerEvent) (h : t.step e = some t1)
    (ht : MsgCall.WellPositioned (t.calls.map MsgCall.shape)) :
    MsgCall.WellPositioned (t1.calls.map MsgCall.shape) := by
  cases e with
  | TransactionStart tx created =>
      simp only [BasicNestedCallTracer.step, Option.some.injEq] at h
      subst h
      simp only [BasicNestedCallTracer.TransactionStart, List.map_append, List.map_cons,
        List.map_nil]
      apply MsgCall.WellPositioned_append _ _ ht
      cases t.MsgCallDataFactory <;> simp [MsgCall.shape, MsgCall.PositionedAt]
  | CaptureStart =>
      simp only [BasicNestedCallTracer.step, Option.some.injEq] at h
      subst h; exact ht
  | CaptureFault =>
      simp only [BasicNestedCallTracer.step, Option.some.injEq] at h
      subst h; exact ht
  | CaptureEnd =>
      simp only [BasicNestedCallTracer.step, Option.some.injEq] at h
      subst h; exact ht
  | CaptureState pc op gas cost scope err =>
      simp only [BasicNestedCallTracer.step, BasicNestedCallTracer.CaptureState] at h
      cases hp : t.CurrentMsgCall with
      | none => rw [hp] at h; simp at h
      | some p =>
          rw [hp] at h
          simp only at h
          cases hc : t.calls[p]? with
          | none => rw [hc] at h; simp at h
          | some c =>
              rw [hc] at h
              simp only [Option.some.injEq] at h
              subst h
              exact MsgCall.WellPositioned_set _ _ c _ hc rfl ht
  | CaptureExit output gasUsed err =>
      simp only [BasicNestedCallTracer.step, BasicNestedCallTracer.CaptureExit] at h
      cases hp : t.msgCallStack.getLast? with
      | none => rw [hp] at h; simp at h
      | some p =>
          rw [hp] at h
          simp only at h
          cases hc : t.calls[p]? with
          | none => rw [hc] at h; simp at h
          | some c =>
              rw [hc] at h
              simp only [Option.some.injEq] at h
              subst h
              exact MsgCall.WellPositioned_set _ _ c _ hc rfl ht
  | TransactionEnd tx result receipt contractAddress =>
      simp only [BasicNestedCallTracer.step, BasicNestedCallTracer.TransactionEnd] at h
      cases hp : t.msgCallStack.getLast? with
      | none => rw [hp] at h; simp at h
      | some p =>
          rw [hp] at h
          simp only at h
          cases hc : t.calls[p]? with
          | none => rw [hc] at h; simp at h
          | some c =>
              rw [hc] at h
              simp only [Option.some.injEq] at h
              subst h
              exact MsgCall.WellPositioned_set _ _ c _ hc rfl ht
  | CaptureEnter typ sender toAddr input value =>
      simp only [BasicNestedCallTracer.step, BasicNestedCallTracer.CaptureEnter] at h
      cases hp : t.msgCallStack.getLast? with
      | none => rw [hp] at h; simp at h
      | some pp =>
          rw [hp] at h
          simp only at h
          cases hc : t.calls[pp]? with
          | none => rw [hc] at h; simp at h
          | some parentCall =>
              rw [hc] at h
              simp only [Option.some.injEq] at h
              subst h
              cases hf : t.MsgCallDataFactory <;>
                exact MsgCall.WellPositioned_enter _ _ parentCall _ _ hc rfl rfl rfl ht

theorem BasicNestedCallTracer.run_WellPositioned {D : Type} (evs : List TracerEvent) :
    ∀ (t t1 : BasicNestedCallTracer D), t.run evs = some t1 →
      MsgCall.WellPositioned (t.calls.map MsgCall.shape) →
      MsgCall.WellPositioned (t1.calls.map MsgCall.shape) := by
  induction evs with
  | nil =>
      intro t t1 h ht
      simp only [BasicNestedCallTracer.run, Option.some.injEq] at h
      subst h; exact ht
  | cons e es ih =>
      intro t t1 h ht
      simp only [BasicNestedCallTracer.run] at h
      cases hs : t.step e with
      | none => rw [hs] at h; simp at h
      | some t2 =>
          rw [hs] at h
          exact ih t2 t1 h (BasicNestedCallTracer.step_WellPositioned t t2 e hs ht)

theorem MsgCall.precompiledOnPath_spec {D : Type} (calls : List (MsgCall D))
    (ht : MsgCall.WellPositioned (calls.map MsgCall.shape)) :
    ∀ (n i fuel : Nat) (c : MsgCall D), i < n → i < fuel → calls[i]? = some c →
      c.Position.position.length =
        c.Position.compactPosition.length + MsgCall.precompiledOnPath calls fuel i := by
  intro n
  induction n with
  | zero => intro i fuel c hi; omega
  | succ n ih =>
      intro i fuel c hi hfuel hc
      have hs : (calls.map MsgCall.shape)[i]? = some c.shape := by
        rw [List.getElem?_map, hc]; rfl
      have h := ht i c.shape hs
      cases fuel with
      | zero => omega
      | succ fuel =>
          unfold MsgCall.PositionedAt at h
          simp only [MsgCall.precompiledOnPath, hc]
          simp only [MsgCall.shape] at h
          cases hp : c.parent with
          | none =>
              rw [hp] at h
              simp [h.1, h.2]
          | some p =>
              rw [hp] at h
              obtain ⟨h1, y, h2, h3, h4⟩ := h
              rw [List.getElem?_map] at h2
              cases hpc : calls[p]? with
              | none => rw [hpc] at h2; simp at h2
              | some pc =>
                  rw [hpc] at h2
                  simp only [Option.map_some', Option.some.injEq] at h2
                  subst h2
                  have := ih p fuel pc (by omega) (by omega) hpc
                  simp only [MsgCall.shape] at h3 h4
                  simp only
                  cases hpre : c.Precompiled <;> simp only [hpre] at h4 <;> simp at h4 ⊢ <;> omega


/-- C21, refuted as stated: when the root call of a transaction makes a `STATICCALL` to the
precompiled contract at address 1, that call has position `[0]` and compact position `[]`; the
lengths differ by one, while its only ancestor, the root, is not a precompile call. -/
theorem BasicNestedCallTracer.compact_position_of_precompile_call_is_that_of_parent :
    ((BasicNestedCallTracer.new (none : Option (MsgCall Unit → Unit))).run
        Example.callsPrecompile).bind
      (fun t => t.calls[1]?.map (fun c =>
        (c.Position.position, c.Position.compactPosition, c.Precompiled, c.parent,
          MsgCall.precompiledAncestors t.calls 1))) =
      some ([0], [], true, some 0, 0) ∧
    ((BasicNestedCallTracer.new (none : Option (MsgCall Unit → Unit))).run
        Example.callsPrecompile).bind
      (fun t => t.calls[0]?.map (fun c => (c.Precompiled, c.parent))) = some (false, none) := by
  constructor <;> rfl

/-- C21, amended: for every message call `M` of a tracer that started empty and received any
sequence of callbacks without panicking, the compact position of `M` is at most as long as its
position, and the difference is the number of precompile calls among `M` and its ancestors, the
root left out: the number of ancestor precompile calls, plus one when `M` itself is a precompile
call that is not a root. -/
theorem BasicNestedCallTracer.compact_position_skips_precompile_calls_on_path {D : Type}
    (factory : Option (MsgCall D → D)) (evs : List TracerEvent) (t : BasicNestedCallTracer D)
    (i : Nat) (c : MsgCall D)
    (hrun : (BasicNestedCallTracer.new factory).run evs = some t)
    (hc : t.calls[i]? = some c) :
    c.Position.compactPosition.length ≤ c.Position.position.length ∧
    c.Position.position.length =
      c.Position.compactPosition.length + MsgCall.precompiledOnPath t.calls t.calls.length i ∧
    MsgCall.precompiledOnPath t.calls t.calls.length i =
      MsgCall.precompiledAncestors t.calls i +
        (if c.Precompiled = true ∧ c.parent ≠ none then 1 else 0) := by
  have hw : MsgCall.WellPositioned (t.calls.map MsgCall.shape) := by
    apply BasicNestedCallTracer.run_WellPositioned evs _ t hrun
    intro j x hx
    simp [BasicNestedCallTracer.new] at hx
  have hlt : i < t.calls.length := (List.getElem?_eq_some_iff.mp hc).1
  have h1 := MsgCall.precompiledOnPath_spec t.calls hw (i + 1) i t.calls.length c (by omega) hlt hc
  refine ⟨by omega, h1, ?_⟩
  unfold MsgCall.precompiledAncestors
  rw [hc]
  cases hlen : t.calls.length with
  | zero => omega
  | succ k =>
      conv_lhs => rw [MsgCall.precompiledOnPath]
      simp only [hc]
      cases hp : c.parent with
      | none => simp
      | some p =>
          have hs : (t.calls.map MsgCall.shape)[i]? = some c.shape := by
            rw [List.getElem?_map, hc]; rfl
          have hpos := hw i c.shape hs
          unfold MsgCall.PositionedAt at hpos
          simp only [MsgCall.shape, hp] at hpos
          obtain ⟨hpi, y, hy, _⟩ := hpos
          rw [List.getElem?_map] at hy
          cases hpc : t.calls[p]? with
          | none => rw [hpc] at hy; simp at hy
          | some pc =>
              have e1 := MsgCall.precompiledOnPath_spec t.calls hw (p + 1) p k pc (by omega)
                (by omega) hpc
              have e2 := MsgCall.precompiledOnPath_spec t.calls hw (p + 1) p (k + 1) pc
                (by omega) (by omega) hpc
              simp only
              cases hpre : c.Precompiled <;> simp <;> omega

theorem BasicNestedCallTracer.compact_position_skips_precompile_calls_on_path_witness :
    (BasicNestedCallTracer.new (none : Option (MsgCall Unit → Unit))).run
        Example.callsPrecompile =
      some
        { calls :=
            [ { Position := { position := [], compactPosition := [] }, Result := none,
                Receipt := none, OpCode := vm.CALL,
                Caller := { CodeAddr := none, StateAddr := 1, CallSite := none },
                Precompiled := false, CodeAddr := 1000, StateAddr := 1000, Input := [],
                Value := some 5, parent := none, NestedCalls := [1], CurrentLocation := none,
                InnerData := none },
              { Position := { position := [0], compactPosition := [] }, Result := none,
                Receipt := none, OpCode := vm.STATICCALL,
                Caller := { CodeAddr := some 1000, StateAddr := 1000, CallSite := none },
                Precompiled := true, CodeAddr := 1, StateAddr := 1, Input := [],
                Value := some 0, parent := some 0, NestedCalls := [], CurrentLocation := none,
                InnerData := none } ],
          msgCallStack := [0, 1], totalOperations := 0, MsgCallDataFactory := none } ∧
    ([] : List Nat).length ≤ [0].length ∧
    [0].length = ([] : List Nat).length + 1 :=
  have hrun : (BasicNestedCallTracer.new (none : Option (MsgCall Unit → Unit))).run
      Example.callsPrecompile = some _ := rfl
  have h := BasicNestedCallTracer.compact_position_skips_precompile_calls_on_path
    (none : Option (MsgCall Unit → Unit)) Example.callsPrecompile _ 1 _ hrun rfl
  ⟨hrun, h.1, h.2.1⟩

/-! ## Facts about the prerequisites of a transaction -/

namespace dataset

theorem TxPosition.Cmp_neg_iff (p q : TxPosition) :
    p.Cmp q < 0 ↔
      p.BlockNumber < q.BlockNumber ∨ (p.BlockNumber = q.BlockNumber ∧ p.TxIndex < q.TxIndex) := by
  unfold TxPosition.Cmp
  split_ifs <;> simp <;> omega

theorem TxPosition.Cmp_pos_iff (p q : TxPosition) :
    p.Cmp q > 0 ↔
      q.BlockNumber < p.BlockNumber ∨ (p.BlockNumber = q.BlockNumber ∧ q.TxIndex < p.TxIndex) := by
  unfold TxPosition.Cmp
  split_ifs <;> simp <;> omega

theorem TxPosition.Cmp_pos_iff_neg (p q : TxPosition) : p.Cmp q > 0 ↔ q.Cmp p < 0 := by
  rw [TxPosition.Cmp_pos_iff, TxPosition.Cmp_neg_iff]
  constructor <;> intro h <;> omega

theorem TxPosition.Cmp_zero_pos (p : TxPosition) : p.Cmp ZeroTxPosition > 0 ↔ p ≠ ZeroTxPosition := by
  rw [TxPosition.Cmp_pos_iff]
  cases p with
  | mk b i =>
      simp only [ZeroTxPosition, ne_eq, TxPosition.mk.injEq]
      omega

theorem TxRecord.Precedes_iff (um : List Nat → TxPosition) (a b : TxRecord) :
    a.Precedes um b = true ↔
      ∃ p q, a.Position um = some p ∧ b.Position um = some q ∧ p.Cmp q < 0 := by
  unfold TxRecord.Precedes TxRecord.Compare
  cases ha : a.Position um <;> cases hb : b.Position um <;> simp

theorem TxRecord.Precedes_trans (um : List Nat → TxPosition) (a b c : TxRecord)
    (h1 : a.Precedes um b = true) (h2 : b.Precedes um c = true) : a.Precedes um c = true := by
  rw [TxRecord.Precedes_iff] at h1 h2 ⊢
  obtain ⟨p, q, hp, hq, hpq⟩ := h1
  obtain ⟨q2, r, hq2, hr, hqr⟩ := h2
  rw [hq] at hq2
  cases hq2
  refine ⟨p, r, hp, hr, ?_⟩
  rw [TxPosition.Cmp_neg_iff] at hpq hqr ⊢
  omega

theorem TxRecord.Precedes_irrefl (um : List Nat → TxPosition) (a : TxRecord) :
    a.Precedes um a = false := by
  cases h : a.Precedes um a with
  | false => rfl
  | true =>
      rw [TxRecord.Precedes_iff] at h
      obtain ⟨p, q, hp, hq, hpq⟩ := h
      rw [hp] at hq
      cases hq
      rw [TxPosition.Cmp_neg_iff] at hpq
      omega

theorem TxRecord.Precedes_asymm (um : List Nat → TxPosition) (a b : TxRecord)
    (h : a.Precedes um b = true) : b.Precedes um a = false := by
  cases h2 : b.Precedes um a with
  | false => rfl
  | true =>
      have := TxRecord.Precedes_trans um a b a h h2
      rw [TxRecord.Precedes_irrefl] at this
      cases this

theorem split_concat {α : Type} (P P1 P2 : List α) (r x : α) (h : P ++ [r] = P1 ++ x :: P2) :
    (P2 = [] ∧ P1 = P ∧ x = r) ∨ (∃ P3, P2 = P3 ++ [r] ∧ P = P1 ++ x :: P3) := by
  rcases List.eq_nil_or_concat P2 with h2 | ⟨P3, b, h2⟩
  · subst h2
    left
    have h3 : P ++ [r] = P1 ++ [x] := h
    have := List.append_inj' h3 rfl
    exact ⟨rfl, this.1.symm, by simpa using this.2.symm⟩
  · rw [List.concat_eq_append] at h2
    subst h2
    right
    have h3 : P ++ [r] = (P1 ++ x :: P3) ++ [b] := by rw [h]; simp
    have := List.append_inj' h3 rfl
    refine ⟨P3, ?_, this.1⟩
    have hb : r = b := by simpa using this.2
    rw [hb]

theorem GraphOf.empty (um : List Nat → TxPosition) :
    GraphOf um [] (DirectedGraph.empty, fun _ => none) where
  node := by intro r hr; simp at hr
  fresh := by intro id _; rfl
  last := by intro a; rfl
  edge := by
    intro P1 x P2 h
    simp at h

theorem GraphOf.last_mem (um : List Nat → TxPosition) (P : List TxRecord)
    (acc : DirectedGraph × (Address → Option TxRecord)) (h : GraphOf um P acc) (a : Address)
    (l : TxRecord) (hl : acc.2 a = some l) : l ∈ P ∧ l.Tx.sender = a := by
  rw [h.last a] at hl
  have := List.mem_of_getLast?_eq_some hl
  rw [List.mem_filter] at this
  exact ⟨this.1, by simpa using this.2⟩

theorem getLast?_filter_concat (P : List TxRecord) (r : TxRecord) (a : Address) :
    ((P ++ [r]).filter (fun x => decide (x.Tx.sender = a))).getLast? =
      if r.Tx.sender = a then some r
      else (P.filter (fun x => decide (x.Tx.sender = a))).getLast? := by
  rw [List.filter_append]
  by_cases h : r.Tx.sender = a
  · simp [h]
  · simp [h]

theorem addToGraph_skip (um : List Nat → TxPosition)
    (acc : DirectedGraph × (Address → Option TxRecord)) (r : TxRecord)
    (h : (!r.Err.isSome && !r.Tx.IsPseudo) = false) : addToGraph um acc r = some acc := by
  unfold addToGraph
  cases he : r.Err.isSome
  · rw [he] at h
    simp at h
    simp [h]
  · simp

theorem addToGraph_GraphOf (um : List Nat → TxPosition) (P : List TxRecord)
    (acc acc1 : DirectedGraph × (Address → Option TxRecord)) (r : TxRecord)
    (hr : (!r.Err.isSome && !r.Tx.IsPseudo) = true) (hP : GraphOf um P acc)
    (h : addToGraph um acc r = some acc1) : GraphOf um (P ++ [r]) acc1 := by
  simp only [Bool.and_eq_true, Bool.not_eq_true'] at hr
  unfold addToGraph at h
  simp only [hr.1, hr.2, Bool.false_eq_true, if_false] at h
  cases hA : acc.1.AddNode um r with
  | none => rw [hA] at h; simp at h
  | some g1 =>
      rw [hA] at h
      simp only at h
      unfold DirectedGraph.AddNode at hA
      cases hid : r.ID um with
      | none => rw [hid] at hA; simp at hA
      | some id =>
          rw [hid] at hA
          simp only at hA
          by_cases hn : (acc.1.nodes id).isSome = true
          · rw [if_pos hn] at hA; simp at hA
          · rw [if_neg hn] at hA
            simp only [Option.some.injEq] at hA
            have hnone : acc.1.nodes id = none := by
              cases hx : acc.1.nodes id with
              | none => rfl
              | some v => rw [hx] at hn; simp at hn
            have K : ∀ x ∈ P, x.ID um ≠ some id := by
              intro x hx hxid
              obtain ⟨id2, h1, h2⟩ := hP.node x hx
              rw [hxid] at h1
              cases h1
              rw [hnone] at h2
              cases h2
            have hfresh : acc.1.edges id = [] := hP.fresh id K
            have hg1n : ∀ k, g1.nodes k = if k = id then some r else acc.1.nodes k := by
              intro k; rw [← hA]
            have hg1e : g1.edges = acc.1.edges := by rw [← hA]
            have hlast : ∀ a, (fun a => if a = r.Tx.sender then some r else acc.2 a) a =
                ((P ++ [r]).filter (fun x => decide (x.Tx.sender = a))).getLast? := by
              intro a
              show (if a = r.Tx.sender then some r else acc.2 a) = _
              rw [getLast?_filter_concat, hP.last a]
              by_cases ha : a = r.Tx.sender
              · simp [ha]
              · have : ¬ r.Tx.sender = a := fun e => ha e.symm
                simp [ha, this]
            cases hl : acc.2 r.Tx.sender with
            | none =>
                rw [hl] at h
                simp only [Option.some.injEq] at h
                subst h
                refine ⟨?_, ?_, hlast, ?_⟩
                · intro x hx
                  rw [List.mem_append] at hx
                  rcases hx with hx | hx
                  · obtain ⟨id2, h1, h2⟩ := hP.node x hx
                    refine ⟨id2, h1, ?_⟩
                    have : id2 ≠ id := fun e => K x hx (e ▸ h1)
                    simp only [hg1n, this, if_false]
                    exact h2
                  · simp only [List.mem_singleton] at hx
                    subst hx
                    exact ⟨id, hid, by simp [hg1n]⟩
                · intro id2 hid2
                  simp only [hg1e]
                  exact hP.fresh id2 (fun x hx => hid2 x (List.mem_append_left _ hx))
                · intro P1 x P2 hsplit id2 hx
                  simp only [hg1e]
                  rcases split_concat P P1 P2 r x hsplit with ⟨_, h2, h3⟩ | ⟨P3, _, h3⟩
                  · subst h2; subst h3
                    rw [hid] at hx
                    cases hx
                    rw [← hP.last, hl]
                    exact hfresh
                  · exact hP.edge P1 x P3 h3 id2 hx
            | some l =>
                rw [hl] at h
                simp only at h
                by_cases hnonce : r.Tx.Nonce ≤ l.Tx.Nonce
                · rw [if_pos hnonce] at h; simp at h
                · rw [if_neg hnonce] at h
                  by_cases hsender : r.Tx.sender ≠ l.Tx.sender
                  · rw [if_pos hsender] at h; simp at h
                  · rw [if_neg hsender] at h
                    obtain ⟨hlP, _⟩ := GraphOf.last_mem um P acc hP _ l hl
                    obtain ⟨tid, hltid, hlnode⟩ := hP.node l hlP
                    have htid : tid ≠ id := fun e => K l hlP (e ▸ hltid)
                    unfold DirectedGraph.SetEdge at h
                    rw [hid, hltid] at h
                    simp only at h
                    have hne : ¬ id = tid := fun e => htid e.symm
                    rw [if_neg hne] at h
                    simp only [Option.some.injEq] at h
                    subst h
                    refine ⟨?_, ?_, hlast, ?_⟩
                    · intro x hx
                      rw [List.mem_append] at hx
                      rcases hx with hx | hx
                      · obtain ⟨id2, h1, h2⟩ := hP.node x hx
                        refine ⟨id2, h1, ?_⟩
                        have hne2 : id2 ≠ id := fun e => K x hx (e ▸ h1)
                        by_cases e : id2 = tid
                        · subst e
                          rw [hlnode] at h2
                          simp only [if_true]
                          exact h2
                        · simp only [e, hne2, if_false, hg1n]
                          exact h2
                      · simp only [List.mem_singleton] at hx
                        subst hx
                        exact ⟨id, hid, by simp [hne]⟩
                    · intro id2 hid2
                      have hne2 : id2 ≠ id := fun e => hid2 r (by simp) (e ▸ hid)
                      dsimp only
                      rw [if_neg hne2, hg1e]
                      exact hP.fresh id2 (fun x hx => hid2 x (List.mem_append_left _ hx))
                    · intro P1 x P2 hsplit id2 hx
                      rcases split_concat P P1 P2 r x hsplit with ⟨_, h2, h3⟩ | ⟨P3, _, h3⟩
                      · subst h2; subst h3
                        rw [hid] at hx
                        cases hx
                        rw [← hP.last, hl]
                        refine ⟨tid, hltid, ?_⟩
                        dsimp only
                        rw [if_pos rfl, hg1e, hfresh]
                        simp
                      · have hxP : x ∈ P := by rw [h3]; simp
                        have hne2 : id2 ≠ id := fun e => K x hxP (e ▸ hx)
                        have := hP.edge P1 x P3 h3 id2 hx
                        dsimp only
                        rw [if_neg hne2, hg1e]
                        exact this

theorem buildGraph_GraphOf (um : List Nat → TxPosition) (rs : List TxRecord) :
    ∀ (P : List TxRecord) (acc acc1 : DirectedGraph × (Address → Option TxRecord)),
      GraphOf um P acc → buildGraph um rs acc = some acc1 →
      GraphOf um (P ++ rs.filter (fun r => !r.Err.isSome && !r.Tx.IsPseudo)) acc1 := by
  induction rs with
  | nil =>
      intro P acc acc1 hP h
      simp only [buildGraph, Option.some.injEq] at h
      subst h
      simpa using hP
  | cons r rest ih =>
      intro P acc acc1 hP h
      simp only [buildGraph] at h
      cases hstep : addToGraph um acc r with
      | none => rw [hstep] at h; simp at h
      | some acc2 =>
          rw [hstep] at h
          simp only at h
          cases hr : (!r.Err.isSome && !r.Tx.IsPseudo) with
          | false =>
              rw [addToGraph_skip um acc r hr] at hstep
              cases hstep
              rw [List.filter_cons, hr]
              exact ih P acc acc1 hP h
          | true =>
              have := addToGraph_GraphOf um P acc acc2 r hr hP hstep
              have h2 := ih (P ++ [r]) acc2 acc1 this h
              rw [List.filter_cons, hr]
              simpa using h2

theorem StartSession_GraphOf (um : List Nat → TxPosition) (fromBlock : Nat)
    (blocks : List (List TxRecord)) (s : TxHistorySession)
    (h : StartSession um fromBlock blocks = some s) :
    s.blocks = blocks ∧ ∃ last, GraphOf um s.records (s.hbGraph, last) := by
  unfold StartSession at h
  cases hb : buildGraph um (blocks.foldr (fun b acc => b ++ acc) [])
      (DirectedGraph.empty, fun _ => none) with
  | none => rw [hb] at h; simp at h
  | some acc =>
      rw [hb] at h
      simp only [Option.some.injEq] at h
      subst h
      refine ⟨rfl, acc.2, ?_⟩
      have := buildGraph_GraphOf um _ [] _ acc (GraphOf.empty um) hb
      simpa [TxHistorySession.records] using this

theorem getLast?_filter_split (p : TxRecord → Bool) (P1 : List TxRecord) :
    ∀ l, (P1.filter p).getLast? = some l →
      ∃ Q Q2, P1 = Q ++ l :: Q2 ∧ p l = true ∧ Q2.filter p = [] ∧
        P1.filter p = Q.filter p ++ [l] := by
  induction P1 using List.reverseRecOn with
  | nil => intro l h; simp at h
  | append_singleton Q x ih =>
      intro l h
      rw [List.filter_append] at h
      cases hx : p x with
      | true =>
          have hf : List.filter p [x] = [x] := by simp [hx]
          rw [hf] at h
          simp only [List.getLast?_append, List.getLast?_singleton, Option.or,
            Option.some.injEq] at h
          subst h
          exact ⟨Q, [], rfl, hx, rfl, by rw [List.filter_append, hf]⟩
      | false =>
          have hf : List.filter p [x] = [] := by simp [hx]
          rw [hf, List.append_nil] at h
          obtain ⟨Q1, Q2, h1, h2, h3, h4⟩ := ih l h
          refine ⟨Q1, Q2 ++ [x], ?_, h2, ?_, ?_⟩
          · rw [h1]; simp
          · rw [List.filter_append, h3, hf]; rfl
          · rw [List.filter_append, hf, List.append_nil, h4]

theorem GraphOf.position (um : List Nat → TxPosition) (P : List TxRecord)
    (acc : DirectedGraph × (Address → Option TxRecord)) (h : GraphOf um P acc) (r : TxRecord)
    (hr : r ∈ P) : ∃ p id, r.Position um = some p ∧ r.ID um = some id := by
  obtain ⟨id, h1, _⟩ := h.node r hr
  unfold TxRecord.ID at h1
  cases hp : r.Position um with
  | none => rw [hp] at h1; simp at h1
  | some p =>
      refine ⟨p, id, rfl, ?_⟩
      unfold TxRecord.ID
      rw [hp]
      rw [hp] at h1
      exact h1

theorem GraphOf.From_eq (um : List Nat → TxPosition) (P : List TxRecord)
    (acc : DirectedGraph × (Address → Option TxRecord)) (h : GraphOf um P acc)
    (P1 : List TxRecord) (x : TxRecord) (P2 : List TxRecord) (hsplit : P = P1 ++ x :: P2)
    (id : Int) (hid : x.ID um = some id) :
    acc.1.From id =
      ((P1.filter (fun r => decide (r.Tx.sender = x.Tx.sender))).getLast?).toList := by
  have he := h.edge P1 x P2 hsplit id hid
  unfold DirectedGraph.From
  cases hl : (P1.filter (fun r => decide (r.Tx.sender = x.Tx.sender))).getLast? with
  | none =>
      rw [hl] at he
      simp only at he
      rw [he]
      rfl
  | some l =>
      rw [hl] at he
      simp only at he
      obtain ⟨tid, h1, h2⟩ := he
      rw [h2]
      have hlP : l ∈ P := by
        have := List.mem_of_getLast?_eq_some hl
        rw [List.mem_filter] at this
        rw [hsplit]
        exact List.mem_append_left _ this.1
      obtain ⟨id2, h3, h4⟩ := h.node l hlP
      rw [h1] at h3
      cases h3
      simp [h4]

theorem insertSorted_front (um : List Nat → TxPosition) (l : TxRecord) (slice : List TxRecord)
    (h : ∀ y ∈ slice, l.Precedes um y = true) :
    insertSorted um l slice = some (l :: slice) := by
  cases slice with
  | nil => rfl
  | cons y rest =>
      have hy := h y (by simp)
      rw [TxRecord.Precedes_iff] at hy
      obtain ⟨p, q, hp, hq, hpq⟩ := hy
      have hc : y.Compare um l = some (q.Cmp p) := by
        unfold TxRecord.Compare
        rw [hp, hq]
      have hpos : q.Cmp p > 0 := (TxPosition.Cmp_pos_iff_neg q p).mpr hpq
      simp only [insertSorted, hc]
      rw [if_pos hpos]

theorem TxHistorySession.spanning_walk (um : List Nat → TxPosition) (s : TxHistorySession)
    (last : Address → Option TxRecord) (bound : TxPosition)
    (G : GraphOf um s.records (s.hbGraph, last))
    (hsorted : s.records.Pairwise (fun a b => a.Precedes um b = true)) :
    ∀ (n : Nat) (P1 : List TxRecord) (r : TxRecord) (P2 slice : List TxRecord) (fuel : Nat),
      s.records = P1 ++ r :: P2 →
      (P1.filter (fun x => decide (x.Tx.sender = r.Tx.sender))).length = n →
      n + 2 ≤ fuel →
      (∀ y ∈ slice, y ∈ r :: P2) →
      TxHistorySession.spanning um s bound fuel [r] slice =
        some (((P1.filter (fun x => decide (x.Tx.sender = r.Tx.sender))).filter
          (fun x => x.Behind um bound)) ++ slice) := by
  intro n
  induction n with
  | zero =>
      intro P1 r P2 slice fuel hsplit hn hfuel hslice
      obtain ⟨p, id, hp, hid⟩ := G.position um _ _ r (by rw [hsplit]; simp)
      have hF := G.From_eq um _ _ P1 r P2 hsplit id hid
      have hnil : P1.filter (fun x => decide (x.Tx.sender = r.Tx.sender)) = [] :=
        List.length_eq_zero.mp hn
      rw [hnil] at hF
      obtain ⟨f2, rfl⟩ : ∃ f2, fuel = f2 + 2 := ⟨fuel - 2, by omega⟩
      simp only [TxHistorySession.spanning, hid]
      have hF2 : s.hbGraph.From id = [] := hF
      rw [hF2]
      simp [TxHistorySession.visit, TxHistorySession.spanning, hnil]
  | succ n ih =>
      intro P1 r P2 slice fuel hsplit hn hfuel hslice
      obtain ⟨p, id, hp, hid⟩ := G.position um _ _ r (by rw [hsplit]; simp)
      have hF := G.From_eq um _ _ P1 r P2 hsplit id hid
      cases hl : (P1.filter (fun x => decide (x.Tx.sender = r.Tx.sender))).getLast? with
      | none =>
          rw [List.getLast?_eq_none_iff] at hl
          rw [hl] at hn
          simp at hn
      | some l =>
          rw [hl] at hF
          have hF2 : s.hbGraph.From id = [l] := hF
          obtain ⟨Q, Q2, h1, h2, h3, h4⟩ := getLast?_filter_split _ P1 l hl
          have hls : l.Tx.sender = r.Tx.sender := by simpa using h2
          have hsplit2 : s.records = Q ++ l :: (Q2 ++ r :: P2) := by
            rw [hsplit, h1]; simp
          obtain ⟨pl, idl, hpl, hidl⟩ := G.position um _ _ l (by rw [hsplit2]; simp)
          have hpw := hsorted
          rw [hsplit2, List.pairwise_append] at hpw
          obtain ⟨hpwQ, hpwR, hpwQR⟩ := hpw
          rw [List.pairwise_cons] at hpwR
          obtain ⟨f2, rfl⟩ : ∃ f2, fuel = f2 + 1 := ⟨fuel - 1, by omega⟩
          have hQn : (Q.filter (fun x => decide (x.Tx.sender = l.Tx.sender))).length = n := by
            rw [hls]
            rw [h4, List.length_append] at hn
            simp at hn
            exact hn
          simp only [TxHistorySession.spanning, hid]
          rw [hF2]
          simp only [TxHistorySession.visit, hpl]
          by_cases hb : pl.Cmp bound > 0
          · rw [if_pos hb]
            have hfront : ∀ y ∈ slice, l.Precedes um y = true := by
              intro y hy
              have hy2 := hslice y hy
              exact hpwR.1 y (by
                rw [List.mem_append]
                right
                exact hy2)
            simp only [SymMerge, insertSorted_front um l slice hfront, List.nil_append]
            have hslice2 : ∀ y ∈ l :: slice, y ∈ l :: (Q2 ++ r :: P2) := by
              intro y hy
              rw [List.mem_cons] at hy
              rcases hy with hy | hy
              · rw [hy]; simp
              · have := hslice y hy
                rw [List.mem_cons]
                right
                rw [List.mem_append]
                right
                exact this
            rw [ih Q l (Q2 ++ r :: P2) (l :: slice) f2 hsplit2 hQn (by omega) hslice2]
            rw [h4, hls, List.filter_append]
            have hbl : l.Behind um bound = true := by
              unfold TxRecord.Behind
              rw [hpl]
              simpa using hb
            simp [hbl]
          · rw [if_neg hb]
            obtain ⟨f3, rfl⟩ : ∃ f3, f2 = f3 + 1 := ⟨f2 - 1, by omega⟩
            simp only [TxHistorySession.spanning]
            have hall : (P1.filter (fun x => decide (x.Tx.sender = r.Tx.sender))).filter
                (fun x => x.Behind um bound) = [] := by
              rw [List.filter_eq_nil_iff]
              intro c hc
              rw [h4, List.mem_append] at hc
              have hcl : c = l ∨ c.Precedes um l = true := by
                rcases hc with hc | hc
                · right
                  rw [List.mem_filter] at hc
                  exact hpwQR c hc.1 l (by simp)
                · left
                  simpa using hc
              rcases hcl with hcl | hcl
              · subst hcl
                unfold TxRecord.Behind
                rw [hpl]
                simpa using hb
              · rw [TxRecord.Precedes_iff] at hcl
                obtain ⟨pc, q, hpc, hq, hlt⟩ := hcl
                rw [hpl] at hq
                cases hq
                unfold TxRecord.Behind
                rw [hpc]
                simp only [gt_iff_lt, decide_eq_true_eq]
                intro hgt
                apply hb
                have h5 := (TxPosition.Cmp_pos_iff pc bound).mp hgt
                rw [TxPosition.Cmp_neg_iff] at hlt
                rw [TxPosition.Cmp_pos_iff]
                omega
            rw [hall]
            rfl

theorem TxHistorySession.prerequisites_eq_chain (um : List Nat → TxPosition)
    (s : TxHistorySession) (last : Address → Option TxRecord)
    (G : GraphOf um s.records (s.hbGraph, last))
    (hsorted : s.records.Pairwise (fun a b => a.Precedes um b = true))
    (hzero : ∀ r ∈ s.records, r.Position um ≠ some ZeroTxPosition)
    (dependant backBound : TxRecord) (P1 P2 : List TxRecord)
    (hsplit : s.records = P1 ++ dependant :: P2) (dp bp : TxPosition)
    (hdp : dependant.Position um = some dp) (hbp : backBound.Position um = some bp) :
    (P1.filter (fun x => decide (x.Tx.sender = dependant.Tx.sender))).filter
        (fun x => x.Behind um (if dp.Cmp bp > 0 then bp else ZeroTxPosition)) =
      s.prerequisites um dependant backBound := by
  have hpw := hsorted
  rw [hsplit, List.pairwise_append, List.pairwise_cons] at hpw
  obtain ⟨_, ⟨hdP2, _⟩, hP1⟩ := hpw
  unfold TxHistorySession.prerequisites
  rw [hsplit, List.filter_append]
  have htail : (dependant :: P2).filter (fun r =>
      decide (r.Tx.sender = dependant.Tx.sender) && r.Precedes um dependant &&
        (!(backBound.Precedes um dependant) || backBound.Precedes um r)) = [] := by
    rw [List.filter_eq_nil_iff]
    intro y hy
    have : y.Precedes um dependant = false := by
      rw [List.mem_cons] at hy
      rcases hy with hy | hy
      · rw [hy]; exact TxRecord.Precedes_irrefl um dependant
      · exact TxRecord.Precedes_asymm um dependant y (hdP2 y hy)
    simp [this]
  rw [htail, List.append_nil, List.filter_filter]
  apply List.filter_congr
  intro c hc
  have hcd : c.Precedes um dependant = true := hP1 c hc dependant (by simp)
  have hcE : c ∈ s.records := by rw [hsplit]; exact List.mem_append_left _ hc
  obtain ⟨pc, _, hpc, _⟩ := G.position um _ _ c hcE
  have hbd : backBound.Precedes um dependant = decide (dp.Cmp bp > 0) := by
    unfold TxRecord.Precedes TxRecord.Compare
    rw [hdp, hbp]
    simp only [gt_iff_lt]
    by_cases h : 0 < dp.Cmp bp
    · simp [h, (TxPosition.Cmp_pos_iff_neg dp bp).mp h]
    · have : ¬ bp.Cmp dp < 0 := fun e => h ((TxPosition.Cmp_pos_iff_neg dp bp).mpr e)
      simp [h, this]
  rw [hcd, hbd]
  by_cases h : dp.Cmp bp > 0
  · rw [if_pos h]
    have hX : backBound.Precedes um c = c.Behind um bp := by
      unfold TxRecord.Precedes TxRecord.Compare TxRecord.Behind
      rw [hpc, hbp]
      simp only [gt_iff_lt]
      by_cases h2 : 0 < pc.Cmp bp
      · simp [h2, (TxPosition.Cmp_pos_iff_neg pc bp).mp h2]
      · have : ¬ bp.Cmp pc < 0 := fun e => h2 ((TxPosition.Cmp_pos_iff_neg pc bp).mpr e)
        simp [h2, this]
    simp [h, hX]
    rw [Bool.and_comm]
  · rw [if_neg h]
    have hZ : c.Behind um ZeroTxPosition = true := by
      unfold TxRecord.Behind
      rw [hpc]
      have : pc ≠ ZeroTxPosition := fun e => hzero c hcE (by rw [hpc, e])
      simpa using (TxPosition.Cmp_zero_pos pc).mpr this
    simp [h, hZ]

theorem GraphOf.edge_spec (um : List Nat → TxPosition) (P : List TxRecord)
    (acc : DirectedGraph × (Address → Option TxRecord)) (G : GraphOf um P acc)
    (hsorted : P.Pairwise (fun a b => a.Precedes um b = true)) (a x : TxRecord) (ha : a ∈ P)
    (h : acc.1.Edge um a x) :
    x ∈ P ∧ x.Tx.sender = a.Tx.sender ∧ x.Precedes um a = true := by
  obtain ⟨id, hid, hx⟩ := h
  obtain ⟨A1, A2, hsplit⟩ := List.append_of_mem ha
  rw [G.From_eq um P acc A1 a A2 hsplit id hid] at hx
  rw [Option.mem_toList] at hx
  have hmem := List.mem_of_getLast?_eq_some hx
  rw [List.mem_filter] at hmem
  have hpw := hsorted
  rw [hsplit, List.pairwise_append] at hpw
  refine ⟨by rw [hsplit]; exact List.mem_append_left _ hmem.1, by simpa using hmem.2, ?_⟩
  exact hpw.2.2 x hmem.1 a (by simp)

theorem GraphOf.reaches_spec (um : List Nat → TxPosition) (P : List TxRecord)
    (acc : DirectedGraph × (Address → Option TxRecord)) (G : GraphOf um P acc)
    (hsorted : P.Pairwise (fun a b => a.Precedes um b = true)) (a x : TxRecord) (ha : a ∈ P)
    (h : acc.1.Reaches um a x) :
    x ∈ P ∧ x.Tx.sender = a.Tx.sender ∧ x.Precedes um a = true := by
  unfold DirectedGraph.Reaches at h
  induction h with
  | single h1 => exact G.edge_spec um P acc hsorted a _ ha h1
  | tail _ h2 ih =>
      obtain ⟨hb, hbs, hba⟩ := ih
      obtain ⟨hc, hcs, hcb⟩ := G.edge_spec um P acc hsorted _ _ hb h2
      exact ⟨hc, by rw [hcs, hbs], TxRecord.Precedes_trans um _ _ _ hcb hba⟩

theorem GraphOf.reaches_chain (um : List Nat → TxPosition) (P : List TxRecord)
    (acc : DirectedGraph × (Address → Option TxRecord)) (G : GraphOf um P acc) :
    ∀ (n : Nat) (P1 : List TxRecord) (r : TxRecord) (P2 : List TxRecord),
      P = P1 ++ r :: P2 →
      (P1.filter (fun x => decide (x.Tx.sender = r.Tx.sender))).length = n →
      ∀ x ∈ P1.filter (fun x => decide (x.Tx.sender = r.Tx.sender)), acc.1.Reaches um r x := by
  intro n
  induction n with
  | zero =>
      intro P1 r P2 _ hn x hx
      rw [List.length_eq_zero.mp hn] at hx
      simp at hx
  | succ n ih =>
      intro P1 r P2 hsplit hn x hx
      obtain ⟨_, id, _, hid⟩ := G.position um _ _ r (by rw [hsplit]; simp)
      have hF := G.From_eq um _ _ P1 r P2 hsplit id hid
      cases hl : (P1.filter (fun x => decide (x.Tx.sender = r.Tx.sender))).getLast? with
      | none =>
          rw [List.getLast?_eq_none_iff] at hl
          rw [hl] at hn
          simp at hn
      | some l =>
          rw [hl] at hF
          obtain ⟨Q, Q2, h1, h2, h3, h4⟩ := getLast?_filter_split _ P1 l hl
          have hls : l.Tx.sender = r.Tx.sender := by simpa using h2
          have hedge : acc.1.Edge um r l := ⟨id, hid, by rw [hF]; simp⟩
          rw [h4, List.mem_append] at hx
          rcases hx with hx | hx
          · have hsplit2 : P = Q ++ l :: (Q2 ++ r :: P2) := by rw [hsplit, h1]; simp
            have hQn : (Q.filter (fun x => decide (x.Tx.sender = l.Tx.sender))).length = n := by
              rw [hls]
              rw [h4, List.length_append] at hn
              simp at hn
              exact hn
            have := ih Q l (Q2 ++ r :: P2) hsplit2 hQn x (by rw [hls]; exact hx)
            exact Relation.TransGen.head hedge this
          · simp only [List.mem_singleton] at hx
            rw [hx]
            exact Relation.TransGen.single hedge

theorem GraphOf.reaches_iff (um : List Nat → TxPosition) (P : List TxRecord)
    (acc : DirectedGraph × (Address → Option TxRecord)) (G : GraphOf um P acc)
    (hsorted : P.Pairwise (fun a b => a.Precedes um b = true)) (a x : TxRecord) (ha : a ∈ P) :
    acc.1.Reaches um a x ↔
      x ∈ P ∧ x.Tx.sender = a.Tx.sender ∧ x.Precedes um a = true := by
  constructor
  · exact G.reaches_spec um P acc hsorted a x ha
  · rintro ⟨hx, hs, hp⟩
    obtain ⟨P1, P2, hsplit⟩ := List.append_of_mem ha
    apply G.reaches_chain um P acc _ P1 a P2 hsplit rfl
    rw [List.mem_filter]
    refine ⟨?_, by simpa using hs⟩
    rw [hsplit, List.mem_append] at hx
    rcases hx with hx | hx
    · exact hx
    · have hpw := hsorted
      rw [hsplit, List.pairwise_append, List.pairwise_cons] at hpw
      have : x.Precedes um a = false := by
        rw [List.mem_cons] at hx
        rcases hx with hx | hx
        · rw [hx]; exact TxRecord.Precedes_irrefl um a
        · exact TxRecord.Precedes_asymm um a x (hpw.2.1.1 x hx)
      rw [this] at hp
      cases hp

/-- C28: in a session that `StartSession` built without panicking from blocks whose records
without error (pseudo transactions apart) have strictly ascending positions, none of them at
position `0:0`, `SlicePrerequisites(dependant, backBound)` returns, for a `dependant` that is
one of these records and a `backBound` that has a position: exactly the records of the session
from the sender of `dependant` that precede `dependant` and whose position is strictly greater
than that of `backBound`, and all that precede `dependant` when `backBound` does not precede
it. These are the transitive predecessors of `dependant` in the happen-before graph that lie
behind the bound. The list is in strictly ascending order of position and every record in it
strictly precedes `dependant`, which is therefore not in it. For a pseudo transaction without
error the method returns the empty list. The loop ends: every fuel above the number of records
gives the result. -/
theorem TxHistorySession.SlicePrerequisites_are_earlier_records_of_sender
    (um : List Nat → TxPosition) (fromBlock : Nat) (blocks : List (List TxRecord))
    (s : TxHistorySession) (dependant backBound : TxRecord) (fuel : Nat)
    (hs : StartSession um fromBlock blocks = some s)
    (hsorted : s.records.Pairwise (fun a b => a.Precedes um b = true))
    (hzero : ∀ r ∈ s.records, r.Position um ≠ some ZeroTxPosition)
    (hdep : dependant ∈ s.records ∨ (dependant.Err = none ∧ dependant.IsPseudo = true))
    (hbb : (backBound.Position um).isSome = true)
    (hfuel : s.records.length + 1 ≤ fuel) :
    s.SlicePrerequisites um dependant backBound fuel =
      some (if dependant.IsPseudo then [] else s.prerequisites um dependant backBound) ∧
    (dependant ∈ s.records →
      ∀ x, x ∈ s.prerequisites um dependant backBound ↔
        s.hbGraph.Reaches um dependant x ∧
          (backBound.Precedes um dependant = true → backBound.Precedes um x = true)) ∧
    (s.prerequisites um dependant backBound).Pairwise (fun a b => a.Precedes um b = true) ∧
    (∀ x ∈ s.prerequisites um dependant backBound, x.Precedes um dependant = true) ∧
    dependant ∉ s.prerequisites um dependant backBound := by
  have hpre : ∀ x ∈ s.prerequisites um dependant backBound, x.Precedes um dependant = true := by
    intro x hx
    unfold TxHistorySession.prerequisites at hx
    rw [List.mem_filter] at hx
    simp only [Bool.and_eq_true] at hx
    exact hx.2.1.2
  obtain ⟨_, last, G⟩ := StartSession_GraphOf um fromBlock blocks s hs
  refine ⟨?_, ?_, ?_, hpre, ?_⟩
  · rcases hdep with hdep | ⟨he, hps⟩
    · have helig := hdep
      unfold TxHistorySession.records at helig
      rw [List.mem_filter] at helig
      simp only [Bool.and_eq_true, Bool.not_eq_true'] at helig
      have hnp : dependant.IsPseudo = false := helig.2.2
      obtain ⟨P1, P2, hsplit⟩ := List.append_of_mem hdep
      obtain ⟨dp, _, hdp, _⟩ := G.position um _ _ dependant hdep
      obtain ⟨bp, hbp⟩ := Option.isSome_iff_exists.mp hbb
      have hlen : (P1.filter (fun x => decide (x.Tx.sender = dependant.Tx.sender))).length + 2
          ≤ fuel := by
        have h1 := List.length_filter_le (fun x => decide (x.Tx.sender = dependant.Tx.sender)) P1
        have h2 : s.records.length = P1.length + (P2.length + 1) := by
          rw [hsplit]; simp
        omega
      have hw := TxHistorySession.spanning_walk um s last
        (if dp.Cmp bp > 0 then bp else ZeroTxPosition) G hsorted _ P1 dependant P2 [] fuel
        hsplit rfl hlen (by intro y hy; simp at hy)
      unfold TxHistorySession.SlicePrerequisites
      simp only [helig.2.1, hnp, Bool.false_eq_true, if_false, hdp, hbp]
      rw [hw, List.append_nil,
        TxHistorySession.prerequisites_eq_chain um s last G hsorted hzero dependant backBound
          P1 P2 hsplit dp bp hdp hbp]
    · unfold TxHistorySession.SlicePrerequisites
      simp [he, hps]
  · intro hmem x
    have hreach := G.reaches_iff um _ _ hsorted dependant x hmem
    have hreach2 : s.hbGraph.Reaches um dependant x ↔
        x ∈ s.records ∧ x.Tx.sender = dependant.Tx.sender ∧ x.Precedes um dependant = true :=
      hreach
    rw [hreach2]
    unfold TxHistorySession.prerequisites
    rw [List.mem_filter]
    simp only [Bool.and_eq_true, Bool.or_eq_true, Bool.not_eq_true', decide_eq_true_eq]
    constructor
    · rintro ⟨h1, ⟨h2, h3⟩, h4⟩
      refine ⟨⟨h1, h2, h3⟩, ?_⟩
      intro hb
      rcases h4 with h4 | h4
      · rw [hb] at h4; cases h4
      · exact h4
    · rintro ⟨⟨h1, h2, h3⟩, h4⟩
      refine ⟨h1, ⟨h2, h3⟩, ?_⟩
      cases hb : backBound.Precedes um dependant with
      | false => left; rfl
      | true => right; exact h4 hb
  · unfold TxHistorySession.prerequisites
    exact List.Pairwise.filter _ hsorted
  · intro hmem
    have := hpre dependant hmem
    rw [TxRecord.Precedes_irrefl] at this
    cases this

theorem TxHistorySession.SlicePrerequisites_are_earlier_records_of_sender_witness :
    (StartSession (fun _ => ZeroTxPosition) 7 Example.blocks).bind
        (fun s => s.SlicePrerequisites (fun _ => ZeroTxPosition) (Example.recordAt 8 1 1 3)
          (Example.recordAt 7 0 1 0) 7) =
      some [Example.recordAt 7 2 1 1, Example.recordAt 7 3 1 2] := by
  cases h : StartSession (fun _ => ZeroTxPosition) 7 Example.blocks with
  | none =>
      have hsome : (StartSession (fun _ => ZeroTxPosition) 7 Example.blocks).isSome = true := rfl
      rw [h] at hsome
      cases hsome
  | some s =>
      have hb := (StartSession_GraphOf _ _ _ s h).1
      have hrec : s.records =
          [Example.recordAt 7 0 1 0, Example.recordAt 7 1 2 0, Example.recordAt 7 2 1 1,
            Example.recordAt 7 3 1 2, Example.recordAt 8 0 2 1, Example.recordAt 8 1 1 3] := by
        unfold TxHistorySession.records
        rw [hb]
        rfl
      have hthm := TxHistorySession.SlicePrerequisites_are_earlier_records_of_sender
        (fun _ => ZeroTxPosition) 7 Example.blocks s (Example.recordAt 8 1 1 3)
        (Example.recordAt 7 0 1 0) 7 h
        (by rw [hrec]; decide)
        (by rw [hrec]; intro r hr; simp at hr; rcases hr with e | e | e | e | e | e <;>
              (rw [e]; decide))
        (Or.inl (by rw [hrec]; simp))
        rfl
        (by rw [hrec]; decide)
      simp only [Option.bind]
      rw [hthm.1]
      unfold TxHistorySession.prerequisites
      rw [hrec]
      rfl

end dataset

/-! ## Facts about the later claims -/

theorem Profits.AddShared_fst_length (capacity : Nat) (elems : List Profit) :
    ∀ (receiver slice : Profits) (shared : Bool), receiver.length ≤ slice.length →
      (Profits.addSharedLoop capacity elems receiver slice shared).1.length = receiver.length := by
  induction elems with
  | nil => intro receiver slice shared _; rfl
  | cons e rest ih =>
      intro receiver slice shared hle
      have hlen : ∀ (s : Profits) (x : Profit), s.length ≤ (Profits.addOne s x).length := by
        intro s x
        induction s with
        | nil => simp [Profits.addOne]
        | cons p t iht =>
            simp only [Profits.addOne]
            cases p.Merge x with
            | ok m => simp
            | error _ => simp only [List.length_cons]; omega
      have h2 := hlen slice e.Copy
      simp only [Profits.addSharedLoop]
      rw [ih]
      · split
        · simp only [List.length_take]; omega
        · rfl
      · split
        · simp only [List.length_take]; omega
        · omega

/-- C36, refuted on the code: the attack transaction gives the attacker `0x1` 5 wei and the
profit transaction gives it 3 units of the ERC20 token `0x7`. Whatever capacity the runtime gave
to the slice, the profits that `CheckOracle` compares for the attacker hold the ether profit only,
while `Profits{}.Add(profits of ar).Add(profits of pr)` restricted to the attacker holds both:
the result of `attackTxProfits.Add(pr...)` is dropped. The attack-free profits do include those
of `profitTxAsIfSummary`. -/
theorem AttackSearcher.attackTxProfits_drop_profit_tx (i : OracleInput)
    (har : i.ar = [Profit.EtherProfit 1 5]) (hpr : i.pr = some [Profit.ERC20Profit 1 7 3])
    (hasif : i.attackTxAsIfSummary = [Profit.EtherProfit 1 5])
    (hpasif : i.profitTxAsIfSummary = some [Profit.ERC20Profit 1 7 3]) :
    (AttackSearcher.attackTxProfits i).ProfitsOf 1 = [Profit.EtherProfit 1 5] ∧
    (Profits.Add (Profits.Add [] i.ar) [Profit.ERC20Profit 1 7 3]).ProfitsOf 1 =
      [Profit.EtherProfit 1 5, Profit.ERC20Profit 1 7 3] ∧
    (AttackSearcher.attackTxAsIfProfits i).ProfitsOf 1 =
      [Profit.EtherProfit 1 5, Profit.ERC20Profit 1 7 3] := by
  refine ⟨?_, ?_, ?_⟩
  · have h1 : AttackSearcher.attackTxProfits i =
        (Profits.AddShared [Profit.EtherProfit 1 5] i.capacity [Profit.ERC20Profit 1 7 3]).1 := by
      simp only [AttackSearcher.attackTxProfits, har, hpr]
      rfl
    rw [h1]
    have h2 : (Profits.AddShared [Profit.EtherProfit 1 5] i.capacity
        [Profit.ERC20Profit 1 7 3]).1 = [Profit.EtherProfit 1 5] := by
      simp only [Profits.AddShared, Profits.addSharedLoop]
      split <;> rfl
    rw [h2]
    rfl
  · rw [har]
    rfl
  · simp only [AttackSearcher.attackTxAsIfProfits, hasif, hpasif]
    rfl

/-- C36 witness: the input of the theorem with capacity 1, the capacity that `append` gives to a
slice of one element. -/
theorem AttackSearcher.attackTxProfits_drop_profit_tx_witness :
    (AttackSearcher.attackTxProfits
      { attackers := [1], victims := [2], ar := [Profit.EtherProfit 1 5], vr := [],
        pr := some [Profit.ERC20Profit 1 7 3], attackTxAsIfSummary := [Profit.EtherProfit 1 5],
        victimTxAsIfSummary := [], profitTxAsIfSummary := some [Profit.ERC20Profit 1 7 3],
        handlerSet := false, capacity := 1 }).ProfitsOf 1 = [Profit.EtherProfit 1 5] :=
  (AttackSearcher.attackTxProfits_drop_profit_tx
    { attackers := [1], victims := [2], ar := [Profit.EtherProfit 1 5], vr := [],
      pr := some [Profit.ERC20Profit 1 7 3], attackTxAsIfSummary := [Profit.EtherProfit 1 5],
      victimTxAsIfSummary := [], profitTxAsIfSummary := some [Profit.ERC20Profit 1 7 3],
      handlerSet := false, capacity := 1 } rfl rfl rfl rfl).1

theorem fungibleTransfer.merge_net (X : Address) (f o : fungibleTransfer)
    (l : List fungibleTransfer) (h : f.merge o = Except.ok l) :
    (l.map (fungibleTransfer.net X)).sum = f.net X + o.net X := by
  have key : ∀ (f o : fungibleTransfer) (l : List fungibleTransfer),
      f.FromAccount = o.ToAccount → f.merge o = Except.ok l →
      (l.map (fungibleTransfer.net X)).sum = f.net X + o.net X := by
    intro f o l h3 h
    unfold fungibleTransfer.merge at h
    have hz := bigCmp_zero_iff f.Amount o.Amount
    have ho := bigCmp_one_iff f.Amount o.Amount
    have hc := bigCmp_cases f.Amount o.Amount
    simp only [h3, true_and, dite_true] at h
    split_ifs at h <;> simp only [Except.ok.injEq] at h <;> subst h <;>
      simp only [List.map_cons, List.map_nil, List.sum_cons, List.sum_nil,
        fungibleTransfer.net] <;>
      (try rw [hz] at *) <;> (try rw [ho] at *) <;>
      split_ifs <;> (try simp only [Address] at *) <;> omega
  by_cases h3 : f.FromAccount = o.ToAccount
  · exact key f o l h3 h
  · unfold fungibleTransfer.merge at h
    simp only [h3, false_and, if_false, dite_false] at h
    by_cases hs : f.FromAccount = o.FromAccount ∧ f.ToAccount = o.ToAccount
    · rw [if_pos hs] at h
      simp only [Except.ok.injEq] at h
      subst h
      simp only [List.map_cons, List.map_nil, List.sum_cons, List.sum_nil, fungibleTransfer.net,
        ← hs.1, ← hs.2]
      split_ifs <;> (try simp only [Address] at *) <;> omega
    · rw [if_neg hs] at h
      by_cases h4 : f.ToAccount = o.FromAccount
      · simp only [h4, dite_true] at h
        cases hm : o.merge f with
        | error e => rw [hm] at h; simp at h
        | ok merged =>
            rw [hm] at h
            simp only [Except.ok.injEq] at h
            subst h
            have := key o f merged h4.symm hm
            omega
      · simp only [h4, dite_false] at h
        simp at h

theorem ITransfer.netFlow_map (X : Address) (C : fungibleTransfer → ITransfer)
    (hf : ∀ f, (C f).fungible = some f) (hto : ∀ f, (C f).To = f.ToAccount)
    (hfrom : ∀ f, (C f).From = f.FromAccount) (l : List fungibleTransfer) :
    ITransfer.netFlow X (l.map C) = (l.map (fungibleTransfer.net X)).sum := by
  induction l with
  | nil => rfl
  | cons f t ih =>
      simp only [ITransfer.netFlow, ITransfer.receivedBy, ITransfer.sentBy, List.map_cons,
        List.sum_cons, fungibleTransfer.net] at ih ⊢
      rw [← ih]
      simp only [List.filter_cons, hto, hfrom, ITransfer.amount, hf]
      by_cases h1 : f.ToAccount = X <;> by_cases h2 : f.FromAccount = X <;>
        simp [h1, h2, ITransfer.amount, hf] <;> omega

/-- C37: for two transfers `a` and `b` where `a` is of a fungible kind and `a.Merge(b)`
succeeds (which makes `b` a transfer of the same asset), the merged list preserves the net flow
of every account `X`: the sum of the amounts received by `X` minus the sum of the amounts sent by
`X` over the merged transfers equals the same quantity over `a` and `b`. -/
theorem ITransfer.Merge_preserves_net_flow (a b : ITransfer) (l : List ITransfer) (X : Address)
    (hfung : a.fungible.isSome = true) (hm : a.Merge b = Except.ok l) :
    ITransfer.netFlow X l = ITransfer.netFlow X [a, b] := by
  have two : ∀ (C : fungibleTransfer → ITransfer), (∀ f, (C f).fungible = some f) →
      (∀ f, (C f).To = f.ToAccount) → (∀ f, (C f).From = f.FromAccount) →
      ∀ (f o : fungibleTransfer) (merged : List fungibleTransfer),
        f.merge o = Except.ok merged →
        ITransfer.netFlow X (merged.map C) = ITransfer.netFlow X [C f, C o] := by
    intro C h1 h2 h3 f o merged hmer
    rw [ITransfer.netFlow_map X C h1 h2 h3, fungibleTransfer.merge_net X f o merged hmer]
    have := ITransfer.netFlow_map X C h1 h2 h3 [f, o]
    simp only [List.map_cons, List.map_nil, List.sum_cons, List.sum_nil] at this
    rw [this]
    omega
  cases a with
  | EtherTransfer f =>
      cases b with
      | EtherTransfer o =>
          simp only [ITransfer.Merge] at hm
          cases hfm : f.merge o with
          | error e => rw [hfm] at hm; simp at hm
          | ok merged =>
              rw [hfm] at hm
              simp only [Except.ok.injEq] at hm
              subst hm
              exact two (fun t => ITransfer.EtherTransfer t) (fun _ => rfl) (fun _ => rfl)
                (fun _ => rfl) f o merged hfm
      | _ => simp [ITransfer.Merge] at hm
  | ERC20Transfer f c =>
      cases b with
      | ERC20Transfer o oc =>
          simp only [ITransfer.Merge] at hm
          by_cases hc : oc = c
          · subst hc
            simp only [ne_eq, not_true_eq_false, if_false] at hm
            cases hfm : f.merge o with
            | error e => rw [hfm] at hm; simp at hm
            | ok merged =>
                rw [hfm] at hm
                simp only [Except.ok.injEq] at hm
                subst hm
                exact two (fun t => ITransfer.ERC20Transfer t oc) (fun _ => rfl) (fun _ => rfl)
                  (fun _ => rfl) f o merged hfm
          · simp [hc] at hm
      | _ => simp [ITransfer.Merge] at hm
  | ERC777Transfer f c =>
      cases b with
      | ERC777Transfer o oc =>
          simp only [ITransfer.Merge] at hm
          by_cases hc : oc = c
          · subst hc
            simp only [ne_eq, not_true_eq_false, if_false] at hm
            cases hfm : f.merge o with
            | error e => rw [hfm] at hm; simp at hm
            | ok merged =>
                rw [hfm] at hm
                simp only [Except.ok.injEq] at hm
                subst hm
                exact two (fun t => ITransfer.ERC777Transfer t oc) (fun _ => rfl) (fun _ => rfl)
                  (fun _ => rfl) f o merged hfm
          · simp [hc] at hm
      | _ => simp [ITransfer.Merge] at hm
  | ERC721Transfer a1 b1 c k loc => simp [ITransfer.fungible] at hfung
  | ERC1155Transfer f c k =>
      cases b with
      | ERC1155Transfer o oc ok =>
          simp only [ITransfer.Merge] at hm
          by_cases hc : oc = c ∧ ok = k
          · obtain ⟨h1, h2⟩ := hc
            subst h1
            subst h2
            simp only [ne_eq, not_true_eq_false, or_self, if_false] at hm
            cases hfm : f.merge o with
            | error e => rw [hfm] at hm; simp at hm
            | ok merged =>
                rw [hfm] at hm
                simp only [Except.ok.injEq] at hm
                subst hm
                exact two (fun t => ITransfer.ERC1155Transfer t oc ok) (fun _ => rfl)
                  (fun _ => rfl) (fun _ => rfl) f o merged hfm
          · have hc2 : oc ≠ c ∨ ok ≠ k := by
              by_contra hcon
              push_neg at hcon
              exact hc hcon
            simp [hc2] at hm
      | _ => simp [ITransfer.Merge] at hm

/-- C37 witness: 5 wei from `0x1` to `0x2` merged with 3 wei from `0x3` to `0x1` gives 3 wei
from `0x3` to `0x2` and 2 wei from `0x1` to `0x2`; the net flow of `0x1` is -2 in both. -/
theorem ITransfer.Merge_preserves_net_flow_witness :
    (ITransfer.EtherTransfer ⟨1, 2, 5, none⟩).Merge (ITransfer.EtherTransfer ⟨3, 1, 3, none⟩) =
      Except.ok [ITransfer.EtherTransfer ⟨3, 2, 3, none⟩, ITransfer.EtherTransfer ⟨1, 2, 2, none⟩] ∧
    ITransfer.netFlow 1
      [ITransfer.EtherTransfer ⟨3, 2, 3, none⟩, ITransfer.EtherTransfer ⟨1, 2, 2, none⟩] =
    ITransfer.netFlow 1
      [ITransfer.EtherTransfer ⟨1, 2, 5, none⟩, ITransfer.EtherTransfer ⟨3, 1, 3, none⟩] :=
  ⟨by simp [ITransfer.Merge, fungibleTransfer.merge, bigCmp],
   ITransfer.Merge_preserves_net_flow (ITransfer.EtherTransfer ⟨1, 2, 5, none⟩)
    (ITransfer.EtherTransfer ⟨3, 1, 3, none⟩) _ 1 rfl
    (by simp [ITransfer.Merge, fungibleTransfer.merge, bigCmp])⟩

/-- C38, refuted on the code: with an expanded memory of 64 bytes (first word 1, second word 2),
offset 0 and size 96, `GetMemoryCopyWithPadding` returns 96 bytes of which only the first 32 are
copied: the second word of the memory comes back as zeros. The else branch passes the number of
padding bytes `offset+size-len` to `GetPtr` instead of the number of bytes left, `len-offset`. -/
theorem GetMemoryCopyWithPadding_drops_bytes_below_the_length :
    GetMemoryCopyWithPadding Example.twoWords 0 96 =
      some (List.replicate 32 1 ++ List.replicate 64 0) ∧
    paddedCopy Example.twoWords.store 0 96 =
      List.replicate 32 1 ++ List.replicate 32 2 ++ List.replicate 32 0 ∧
    GetMemoryCopyWithPadding Example.twoWords 0 96 ≠
      some (paddedCopy Example.twoWords.store 0 96) := by
  refine ⟨by decide, by decide, by decide⟩

/-- A tracer that has traced a transaction from start to end keeps the root of that transaction
on its call stack: a second `TransactionStart` leaves a call stack of two entries, the root of
the first transaction below the root of the transaction just started, for every factory and
every pair of transactions. -/
theorem BasicNestedCallTracer.second_TransactionStart_keeps_earlier_root {D : Type}
    (factory : Option (MsgCall D → D)) (tx1 tx2 : Tx) (created1 created2 : Address)
    (result : Option ExecutionResult) (receipt : Option Receipt) :
    (((BasicNestedCallTracer.new factory).TransactionStart tx1 created1).TransactionEnd result
      receipt).map
      (fun t => ((t.TransactionStart tx2 created2).msgCallStack,
        (t.TransactionStart tx2 created2).RootMsgCall,
        (t.TransactionStart tx2 created2).CurrentMsgCall,
        ((t.TransactionStart tx2 created2).calls.map (fun c => c.Input)))) =
    some ([0, 1], some 0, some 1, [tx1.Data, tx2.Data]) := by
  cases factory <;>
    simp [BasicNestedCallTracer.new, BasicNestedCallTracer.TransactionStart,
      BasicNestedCallTracer.TransactionEnd, BasicNestedCallTracer.store,
      BasicNestedCallTracer.RootMsgCall, BasicNestedCallTracer.CurrentMsgCall]

section later_flows

open data_flow

/-- C31, refuted on the code: the nested call gets 32 bytes of call data whose word at offset 0
holds the node 0, and copies the 2 bytes at offset 0 to the memory at offset 31. The byte
`offset+1 = 1` lies in the tainted call-data word 0, and the byte `dest+1 = 32` lies in the
memory word 32, which stays untainted: the loop of `StoreCallData` runs over the words of the
source range only, one word here, and writes the memory word 0. -/
theorem data_flow.DataFlowTracer.CALLDATACOPY_unaligned_leaves_word_untainted :
    ((Example.dataFlowTracer Example.pushIsSource).run Example.callDataCopyUnaligned).map
      (fun t => (t.callDataOf 0 1, t.memoryAt 0 1 0, t.memoryAt 0 1 32)) =
    some (some ([(0, some 0)], []), some (some 0), some none) ∧
    Regulate (0 + 1) = 0 ∧ Regulate (31 + 1) = 32 := by
  refine ⟨rfl, rfl, rfl⟩

/-- C32, refuted on the code: with `PUSH1` a source and `RETURN` a sink, a `RETURN` of the
memory word that holds the node of a `PUSH1`, a source node without upstream, stores that node
as return data and does not call `SinkTainted`; a `RETURN` of the word that holds the node of
an `ADD`, which has upstream nodes, does. `ReturnDataIsTainted` looks at the upstream nodes of
the nodes in the return data, not at the nodes. -/
theorem data_flow.DataFlowTracer.RETURN_of_source_node_not_reported :
    ((Example.dataFlowTracer Example.pushIsSourceReturnIsSink).run Example.returnPushedWord).map
      (fun t => ((t.callDataOf 0 0).map (fun d => d.2), (t.worlds 0).fromOf 0,
        (t.worlds 0).analyzer.sinkTainted, (t.worlds 0).notified)) =
    some (some [(0, some 0)], some [], false, []) ∧
    ((Example.dataFlowTracer Example.pushIsSourceReturnIsSink).run Example.returnSum).map
      (fun t => ((t.callDataOf 0 0).map (fun d => d.2), (t.worlds 0).fromOf 2,
        (t.worlds 0).analyzer.sinkTainted, (t.worlds 0).notified)) =
    some (some [(0, some 2)], some [0, 1], true, [(0, some 3)]) := by
  refine ⟨rfl, rfl⟩

/-- C33, refuted on the code: with an analyzer that has no sources and no sinks, a
`SELFDESTRUCT` of the contract 1000 with the beneficiary 2000 leaves in the chain tracker the
balance node that 1000 held before (none) for 2000, and for 1000 a new node, made for the
`SELFDESTRUCT` (the operation of index 1) and without upstream. -/
theorem data_flow.DataFlowTracer.SELFDESTRUCT_taints_own_balance :
    ((Example.dataFlowTracer Example.nothingIsSource).run Example.selfDestruct).map
      (fun t => (t.balancesOf 0 0, (t.worlds 0).nodes.length, (t.worlds 0).indexOf 0,
        (t.worlds 0).fromOf 0)) =
    some (some [(2000, none), (1000, some 0)], 1, some 1, some []) := by
  rfl

end later_flows

section influence_trace

open data_flow dataset

theorem dataset.visited_mono (g : List TraceNode) (dup dup1 : List NodeID)
    (h : ∀ x ∈ dup, x ∈ dup1) (v : Nat) (hv : visited g dup v = true) :
    visited g dup1 v = true := by
  unfold visited at hv ⊢
  cases hg : g[v]? with
  | none => rw [hg] at hv; simp at hv
  | some n =>
      rw [hg] at hv
      simp only [decide_eq_true_eq] at hv ⊢
      exact h _ hv

theorem dataset.unvisited_card_mono (g : List TraceNode) (dup dup1 : List NodeID)
    (h : ∀ x ∈ dup, x ∈ dup1) : (unvisited g dup1).card ≤ (unvisited g dup).card := by
  apply Finset.card_le_card
  intro i hi
  simp only [unvisited, Finset.mem_filter, Finset.mem_range] at hi ⊢
  refine ⟨hi.1, ?_⟩
  cases hc : visited g dup i with
  | false => rfl
  | true =>
      have := dataset.visited_mono g dup dup1 h i hc
      rw [hi.2] at this
      exact absurd this (by simp)

theorem dataset.unvisited_card_lt (g : List TraceNode) (dup : List NodeID) (node : Nat)
    (n : TraceNode) (hg : g[node]? = some n) (hn : n.ID ∉ dup) :
    (unvisited g (dup ++ [n.ID])).card < (unvisited g dup).card := by
  apply Finset.card_lt_card
  rw [Finset.ssubset_iff_of_subset]
  · refine ⟨node, ?_, ?_⟩
    · simp only [unvisited, Finset.mem_filter, Finset.mem_range]
      refine ⟨?_, ?_⟩
      · by_contra hlt
        rw [List.getElem?_eq_none (by omega)] at hg
        simp at hg
      · simp [visited, hg, hn]
    · simp [unvisited, visited, hg]
  · intro i hi
    simp only [unvisited, Finset.mem_filter, Finset.mem_range] at hi ⊢
    refine ⟨hi.1, ?_⟩
    cases hc : visited g dup i with
    | false => rfl
    | true =>
        have := dataset.visited_mono g dup (dup ++ [n.ID])
          (fun x hx => List.mem_append_left _ hx) i hc
        rw [hi.2] at this
        exact absurd this (by simp)

theorem dataset.enterCall_valid (view : CallView) (cTrace : List (Option Nat)) (m : Nat)
    (hm : m < view.length) (hv : CallsValid view cTrace) :
    ∃ c1, enterCall view cTrace m = some c1 ∧ CallsValid view c1 := by
  have happ : CallsValid view (cTrace ++ [some m]) := by
    intro c hc
    rcases List.mem_append.mp hc with h | h
    · exact hv c h
    · simp only [List.mem_singleton] at h
      exact ⟨m, h, hm⟩
  unfold enterCall
  cases hl : cTrace.getLast? with
  | none => exact ⟨_, rfl, happ⟩
  | some c =>
      obtain ⟨p, hp, hlt⟩ := hv c (List.mem_of_getLast?_eq_some hl)
      subst hp
      simp only []
      obtain ⟨mc, hmc⟩ : ∃ mc, view[m]? = some mc := ⟨view[m], List.getElem?_eq_getElem hm⟩
      obtain ⟨last, hlast⟩ : ∃ last, view[p]? = some last :=
        ⟨view[p], List.getElem?_eq_getElem hlt⟩
      rw [hmc, hlast]
      simp only []
      split
      · exact ⟨_, rfl, happ⟩
      · exact ⟨_, rfl, hv⟩

theorem dataset.innerFind_spec (view : CallView) (g : List TraceNode) (isSource : Nat → Bool)
    (hfrom : ∀ (i : Nat) (n : TraceNode), g[i]? = some n → ∀ j ∈ n.From, j < g.length)
    (hcall : ∀ (i : Nat) (n : TraceNode), g[i]? = some n → n.Operation.msgCall < view.length)
    (hinj : ∀ (i j : Nat) (ni nj : TraceNode), g[i]? = some ni → g[j]? = some nj →
      ni.ID = nj.ID → i = j) :
    ∀ (fuel : Nat) (dup : List NodeID) (trace : List Operation) (cTrace : List (Option Nat))
      (node : Nat) (n : TraceNode),
      g[node]? = some n → CallsValid view cTrace → (unvisited g dup).card < fuel →
      ∃ dup1 r, innerFind view g isSource fuel dup trace cTrace node = some (dup1, r) ∧
        (∀ x ∈ dup, x ∈ dup1) ∧ visited g dup1 node = true ∧
        (r = none → MissSpec g isSource dup dup1) ∧
        (∀ s tr ct, r = some (s, tr, ct) → isSource s = true ∧ TraceNode.Reaches g node s ∧
          ∃ ns ops, g[s]? = some ns ∧ tr = (trace ++ n.Operation :: ops).reverse ∧
            (n.Operation :: ops).getLast? = some ns.Operation) := by
  intro fuel
  induction fuel with
  | zero => intro dup trace cTrace node n _ _ h; exact absurd h (by omega)
  | succ fuel ih =>
      intro dup trace cTrace node n hg hv hcard
      simp only [innerFind, hg]
      by_cases hd : n.ID ∈ dup
      · rw [if_pos hd]
        refine ⟨dup, none, rfl, fun x h => h, ?_, ?_, ?_⟩
        · simp [visited, hg, hd]
        · intro _ v h1 h2
          rw [h1] at h2
          exact absurd h2 (by simp)
        · intro s tr ct h
          exact absurd h (by simp)
      · rw [if_neg hd]
        obtain ⟨c1, hc1, hv1⟩ := dataset.enterCall_valid view cTrace n.Operation.msgCall
          (hcall node n hg) hv
        rw [hc1]
        simp only []
        have hmonoM : ∀ x ∈ dup, x ∈ dup ++ [n.ID] := fun x hx => List.mem_append_left _ hx
        have hvisM : visited g (dup ++ [n.ID]) node = true := by simp [visited, hg]
        by_cases hs : isSource node = true
        · rw [if_pos hs]
          refine ⟨dup ++ [n.ID], _, rfl, hmonoM, hvisM, ?_, ?_⟩
          · intro h
            exact absurd h (by simp)
          · intro s tr ct h
            simp only [Option.some.injEq, Prod.mk.injEq] at h
            obtain ⟨h1, h2, _⟩ := h
            subst h1
            refine ⟨hs, Relation.ReflTransGen.refl, n, [], hg, h2.symm, rfl⟩
        · rw [if_neg hs]
          have hcardM : (unvisited g (dup ++ [n.ID])).card < fuel := by
            have := dataset.unvisited_card_lt g dup node n hg hd
            omega
          have loop : ∀ (l : List Nat) (dup0 : List NodeID), (∀ j ∈ l, j < g.length) →
              (∀ x ∈ dup ++ [n.ID], x ∈ dup0) →
              ∃ dup1 r,
                searchFrom (fun dup1 f =>
                  innerFind view g isSource fuel dup1 (trace ++ [n.Operation]) c1 f) dup0 l =
                  some (dup1, r) ∧
                (∀ x ∈ dup0, x ∈ dup1) ∧
                (r = none → MissSpec g isSource dup0 dup1 ∧ ∀ u ∈ l, visited g dup1 u = true) ∧
                (∀ s tr ct, r = some (s, tr, ct) → isSource s = true ∧
                  (∃ u ∈ l, TraceNode.Reaches g u s) ∧
                  ∃ ns ops, g[s]? = some ns ∧ tr = (trace ++ [n.Operation] ++ ops).reverse ∧
                    ops.getLast? = some ns.Operation) := by
            intro l
            induction l with
            | nil =>
                intro dup0 _ _
                refine ⟨dup0, none, rfl, fun x h => h, ?_, ?_⟩
                · intro _
                  refine ⟨?_, fun u hu => absurd hu (List.not_mem_nil u)⟩
                  intro v h1 h2
                  rw [h1] at h2
                  exact absurd h2 (by simp)
                · intro s tr ct h
                  exact absurd h (by simp)
            | cons f rest ihl =>
                intro dup0 hl hsub
                have hf : f < g.length := hl f (List.mem_cons_self _ _)
                obtain ⟨nf, hnf⟩ : ∃ nf, g[f]? = some nf := ⟨g[f], List.getElem?_eq_getElem hf⟩
                have hcard0 : (unvisited g dup0).card < fuel := by
                  have := dataset.unvisited_card_mono g (dup ++ [n.ID]) dup0 hsub
                  omega
                obtain ⟨dupA, rA, hA, hmonoA, hvisA, hmissA, hhitA⟩ :=
                  ih dup0 (trace ++ [n.Operation]) c1 f nf hnf hv1 hcard0
                simp only [searchFrom, hA]
                cases rA with
                | some found =>
                    obtain ⟨s, tr, ct⟩ := found
                    refine ⟨dupA, some (s, tr, ct), rfl, hmonoA, ?_, ?_⟩
                    · intro h
                      exact absurd h (by simp)
                    · intro s2 tr2 ct2 h
                      simp only [Option.some.injEq, Prod.mk.injEq] at h
                      obtain ⟨h1, h2, h3⟩ := h
                      subst h1
                      subst h2
                      subst h3
                      obtain ⟨hsrc, hreach, ns, ops, hns, htr, hlast⟩ := hhitA s tr ct rfl
                      refine ⟨hsrc, ⟨f, List.mem_cons_self _ _, hreach⟩, ns, nf.Operation :: ops,
                        hns, htr, hlast⟩
                | none =>
                    obtain ⟨dupB, rB, hB, hmonoB, hmissB, hhitB⟩ :=
                      ihl dupA (fun j hj => hl j (List.mem_cons_of_mem _ hj))
                        (fun x hx => hmonoA x (hsub x hx))
                    refine ⟨dupB, rB, hB, fun x hx => hmonoB x (hmonoA x hx), ?_, ?_⟩
                    · intro hr
                      obtain ⟨hmB, hvisB⟩ := hmissB hr
                      have hmA := hmissA rfl
                      refine ⟨?_, ?_⟩
                      · intro v h1 h2
                        cases hvA : visited g dupA v with
                        | true =>
                            obtain ⟨ha, hb⟩ := hmA v hvA h2
                            exact ⟨ha, fun m hm u hu =>
                              dataset.visited_mono g dupA dupB hmonoB u (hb m hm u hu)⟩
                        | false => exact hmB v h1 hvA
                      · intro u hu
                        rcases List.mem_cons.mp hu with h | h
                        · subst h
                          exact dataset.visited_mono g dupA dupB hmonoB _ hvisA
                        · exact hvisB u h
                    · intro s tr ct h
                      obtain ⟨hsrc, ⟨u, hu, hreach⟩, rest2⟩ := hhitB s tr ct h
                      exact ⟨hsrc, ⟨u, List.mem_cons_of_mem _ hu, hreach⟩, rest2⟩
          obtain ⟨dup1, r, hrun, hmono1, hmiss1, hhit1⟩ :=
            loop n.From (dup ++ [n.ID]) (hfrom node n hg) (fun x hx => hx)
          refine ⟨dup1, r, hrun, fun x hx => hmono1 x (hmonoM x hx),
            dataset.visited_mono g _ dup1 hmono1 node hvisM, ?_, ?_⟩
          · intro hr
            obtain ⟨hm, hvis⟩ := hmiss1 hr
            intro v h1 h2
            cases hvM : visited g (dup ++ [n.ID]) v with
            | false => exact hm v h1 hvM
            | true =>
                have hvn : v = node := by
                  unfold visited at hvM h2
                  cases hgv : g[v]? with
                  | none => rw [hgv] at hvM; simp at hvM
                  | some nv =>
                      rw [hgv] at hvM h2
                      simp only [decide_eq_true_eq, decide_eq_false_iff_not] at hvM h2
                      rcases List.mem_append.mp hvM with h | h
                      · exact absurd h h2
                      · simp only [List.mem_singleton] at h
                        exact hinj v node nv n hgv hg h
                subst hvn
                refine ⟨by simpa using hs, ?_⟩
                intro m hm2 u hu
                rw [hg] at hm2
                simp only [Option.some.injEq] at hm2
                subst hm2
                exact hvis u hu
          · intro s tr ct h
            obtain ⟨hsrc, ⟨u, hu, hreach⟩, ns, ops, hns, htr, hlast⟩ := hhit1 s tr ct h
            refine ⟨hsrc, ?_, ns, ops, hns, ?_, ?_⟩
            · exact Relation.ReflTransGen.head ⟨n, hg, hu⟩ hreach
            · rw [htr]
              simp
            · cases ops with
              | nil => simp at hlast
              | cons o t => rw [List.getLast?_cons_cons]; exact hlast

/-- C35, refuted as stated: the code stores the source node of a `PUSH1` (node 0) in the memory
word 0 and then twice one byte of the node 1 over that word, which makes the two `memory_merge`
nodes 2 and 3 for the operation of the node 1, with the same identifier; the `MLOAD` node 4
flows from 3, 3 from 1 and 2, 2 from 1 and 0. The source, node 0, is reachable from the sink 4
along 4, 3, 2, 0, and the function returns a nil source: the node 2 is taken for visited because
the node 3 has its identifier. From the sink 2 the source is found. And for a sink that is a
`CALL` with a positive value in a message call without nested calls (the call failed before it
was entered), the function starts with a nil message call and panics on it, whatever the
fuel. -/
theorem dataset.Attack.locateVarReadAndInfluenceTrace_misses_source_behind_equal_ID :
    ((Example.dataFlowTracer Example.pushIsSource).run Example.storeByteTwice).map
      (fun t =>
        ((t.worlds 0).nodes.map (fun n => (n.label, n.operation.Index, n.From)),
          (t.worlds 0).idOf 2 == (t.worlds 0).idOf 3,
          TraceNode.isPath ((t.worlds 0).nodes.map TraceNode.ofRaw) [4, 3, 2, 0],
          Attack.locateVarReadAndInfluenceTrace (DataFlowTracer.view t.BasicNestedCallTracer)
            ((t.worlds 0).nodes.map TraceNode.ofRaw) 4 (fun p => decide (p = 0)) 6,
          (Attack.locateVarReadAndInfluenceTrace (DataFlowTracer.view t.BasicNestedCallTracer)
            ((t.worlds 0).nodes.map TraceNode.ofRaw) 2 (fun p => decide (p = 0)) 6).map
            (fun r => r.map (fun found => (found.1, found.2.1.map Operation.Index))))) =
    some ([("test-analyzer", 0, []), ("test-analyzer", 3, []), ("memory_merge", 3, [1, 0]),
        ("memory_merge", 3, [1, 2]), ("test-analyzer", 10, [3])],
      true, true, some none, some (some (0, [0, 3]))) ∧
    ∀ fuel, Attack.locateVarReadAndInfluenceTrace Example.rootView [Example.etherSink] 0
      (fun _ => true) fuel = none := by
  refine ⟨rfl, ?_⟩
  intro fuel
  cases fuel with
  | zero => rfl
  | succ k => rfl

theorem dataset.TraceNode.Reaches_of_isPath (g : List TraceNode) :
    ∀ (path : List Nat) (a b : Nat), TraceNode.isPath g (a :: path) = true →
      (a :: path).getLast? = some b → TraceNode.Reaches g a b := by
  intro path
  induction path with
  | nil =>
      intro a b _ h
      simp only [List.getLast?_singleton, Option.some.injEq] at h
      subst h
      exact Relation.ReflTransGen.refl
  | cons c rest ih =>
      intro a b hp hl
      simp only [TraceNode.isPath, Bool.and_eq_true] at hp
      rw [List.getLast?_cons_cons] at hl
      have hstep : ∃ n, g[a]? = some n ∧ c ∈ n.From := by
        cases hg : g[a]? with
        | none => rw [hg] at hp; simp at hp
        | some n =>
            rw [hg] at hp
            simp only [decide_eq_true_eq] at hp
            exact ⟨n, rfl, hp.1⟩
      exact Relation.ReflTransGen.head hstep (ih c b hp.2 hl)

/-- C35 (amended): on a flow graph whose nodes have distinct identifiers and whose pointers
refer to nodes and message calls, for a sink that is not an ether transfer without child call
(the slice of calls it starts with holds no nil), and with fuel beyond the number of nodes,
`locateVarReadAndInfluenceTrace` returns; the source it returns is not nil exactly when some
node that satisfies `isSource` is reachable from the sink through `From` edges (cycles
included); the returned node satisfies `isSource` and is reachable from the sink, the operation
trace starts with its operation and ends with that of the sink. -/
theorem dataset.Attack.locateVarReadAndInfluenceTrace_finds_reachable_source (view : CallView)
    (g : List TraceNode) (sink : Nat) (isSource : Nat → Bool) (fuel : Nat) (s : TraceNode)
    (hs : g[sink]? = some s)
    (hfrom : ∀ n ∈ g, ∀ j ∈ n.From, j < g.length)
    (hcall : ∀ n ∈ g, n.Operation.msgCall < view.length)
    (hnodup : (g.map (fun n => n.ID)).Nodup)
    (hstart : ∃ c, startCalls view s = some c ∧ CallsValid view c)
    (hfuel : g.length < fuel) :
    ∃ r, Attack.locateVarReadAndInfluenceTrace view g sink isSource fuel = some r ∧
      (r.isSome = true ↔ ∃ x, TraceNode.Reaches g sink x ∧ isSource x = true) ∧
      ∀ x tr ct, r = some (x, tr, ct) →
        isSource x = true ∧ TraceNode.Reaches g sink x ∧
        (∃ nx, g[x]? = some nx ∧ tr.head? = some nx.Operation) ∧
        tr.getLast? = some s.Operation := by
  have hmem : ∀ (i : Nat) (n : TraceNode), g[i]? = some n → n ∈ g := by
    intro i n h
    obtain ⟨hl, he⟩ := List.getElem?_eq_some_iff.mp h
    rw [← he]
    exact List.getElem_mem hl
  have hinj : ∀ (i j : Nat) (ni nj : TraceNode), g[i]? = some ni → g[j]? = some nj →
      ni.ID = nj.ID → i = j := by
    intro i j ni nj hi hj hid
    obtain ⟨hil, hie⟩ := List.getElem?_eq_some_iff.mp hi
    obtain ⟨hjl, hje⟩ := List.getElem?_eq_some_iff.mp hj
    have h1 : (g.map (fun n => n.ID))[i]? = some ni.ID := by simp [hi]
    have h2 : (g.map (fun n => n.ID))[j]? = some ni.ID := by simp [hj, hid]
    by_contra hne
    rcases Nat.lt_or_gt_of_ne hne with hlt | hlt
    · have := (List.pairwise_iff_getElem.mp hnodup) i j (by simpa using hil) (by simpa using hjl) hlt
      simp only [List.getElem_map] at this
      rw [hie, hje] at this
      exact this hid
    · have := (List.pairwise_iff_getElem.mp hnodup) j i (by simpa using hjl) (by simpa using hil) hlt
      simp only [List.getElem_map] at this
      rw [hie, hje] at this
      exact this hid.symm
  obtain ⟨c, hc, hcv⟩ := hstart
  have hcard : (unvisited g []).card < fuel := by
    have : (unvisited g []).card ≤ g.length := by
      unfold unvisited
      calc ((Finset.range g.length).filter _).card ≤ (Finset.range g.length).card :=
            Finset.card_filter_le _ _
        _ = g.length := Finset.card_range _
    omega
  obtain ⟨dup1, r, hrun, _, hvis, hmiss, hhit⟩ :=
    dataset.innerFind_spec view g isSource (fun i n h => hfrom n (hmem i n h))
      (fun i n h => hcall n (hmem i n h)) hinj fuel [] [] c sink s hs hcv hcard
  have hnil : ∀ v, visited g [] v = false := by
    intro v
    unfold visited
    cases g[v]? <;> simp
  refine ⟨r, ?_, ?_, ?_⟩
  · simp only [Attack.locateVarReadAndInfluenceTrace, hs, hc, hrun, Option.map_some']
  · constructor
    · intro hsome
      cases r with
      | none => simp at hsome
      | some found =>
          obtain ⟨x, tr, ct⟩ := found
          obtain ⟨h1, h2, _⟩ := hhit x tr ct rfl
          exact ⟨x, h2, h1⟩
    · rintro ⟨x, hreach, hsrc⟩
      cases r with
      | some found => rfl
      | none =>
          exfalso
          have hm := hmiss rfl
          have hall : ∀ y, TraceNode.Reaches g sink y → visited g dup1 y = true := by
            intro y hy
            induction hy with
            | refl => exact hvis
            | tail _ hbc ih =>
                obtain ⟨n, hn, hmemf⟩ := hbc
                exact (hm _ ih (hnil _)).2 n hn _ hmemf
          have := (hm x (hall x hreach) (hnil x)).1
          rw [hsrc] at this
          exact absurd this (by simp)
  · intro x tr ct hr
    obtain ⟨h1, h2, nx, ops, hnx, htr, hlast⟩ := hhit x tr ct hr
    refine ⟨h1, h2, ⟨nx, hnx, ?_⟩, ?_⟩
    · rw [htr]
      simp only [List.nil_append, List.head?_reverse]
      exact hlast
    · rw [htr]
      simp

/-- C35 witness: on the graph of three nodes where the sink, node 2, flows from itself and from
the node 1, and the node 1 from the source, node 0, the source is found and the trace runs from
its operation to the operation of the sink. -/
theorem dataset.Attack.locateVarReadAndInfluenceTrace_finds_reachable_source_witness :
    Attack.locateVarReadAndInfluenceTrace Example.rootView Example.flowGraph 2
        (fun p => decide (p = 0)) 4 =
      some (some (0, [Example.pushOperation, Example.addOperation, Example.addOperation],
        [some 0])) ∧
    ∃ r, Attack.locateVarReadAndInfluenceTrace Example.rootView Example.flowGraph 2
        (fun p => decide (p = 0)) 4 = some r ∧
      (r.isSome = true ↔
        ∃ x, TraceNode.Reaches Example.flowGraph 2 x ∧ (fun p => decide (p = 0)) x = true) ∧
      ∀ x tr ct, r = some (x, tr, ct) →
        (fun p => decide (p = 0)) x = true ∧ TraceNode.Reaches Example.flowGraph 2 x ∧
        (∃ nx, Example.flowGraph[x]? = some nx ∧ tr.head? = some nx.Operation) ∧
        tr.getLast? = some Example.addOperation :=
  ⟨by rfl,
   dataset.Attack.locateVarReadAndInfluenceTrace_finds_reachable_source Example.rootView
    Example.flowGraph 2 (fun p => decide (p = 0)) 4
    { ID := { label := "memory_merge", operation := Example.addOperation.ID },
      Operation := Example.addOperation, From := [2, 1] } rfl (by decide) (by decide) (by decide)
    ⟨[], rfl, fun c hc => absurd hc (List.not_mem_nil c)⟩ (by decide)⟩

end influence_trace

theorem paddedCopy_length (store : List Nat) (offset size : Nat) :
    (paddedCopy store offset size).length = size := by
  simp [paddedCopy]

theorem paddedCopy_getElem? (store : List Nat) (offset size i : Nat) (hi : i < size) :
    (paddedCopy store offset size)[i]? = some (store.getD (offset + i) 0) := by
  unfold paddedCopy
  rw [List.getElem?_map, List.getElem?_range hi]
  rfl

theorem GetMemoryCopyWithPadding_within_length (m : vm.Memory) (offset size : Nat)
    (h : offset + size ≤ m.Len) :
    GetMemoryCopyWithPadding m offset size = some (paddedCopy m.store offset size) := by
  unfold GetMemoryCopyWithPadding
  simp only [if_pos h]
  unfold vm.Memory.Len at h
  unfold vm.Memory.GetPtr
  by_cases hs : size = 0
  · subst hs
    simp [goCopy, paddedCopy]
  · have h1 : m.store.length > offset := by omega
    have h2 : offset + size ≤ m.store.length + m.spare.length := by omega
    simp only [hs, if_false, h1, if_true, h2]
    congr 1
    have hlen : (((m.store ++ m.spare).drop offset).take size).length = size := by
      simp only [List.length_take, List.length_drop, List.length_append]
      omega
    have hgo : goCopy (List.replicate size 0) (((m.store ++ m.spare).drop offset).take size) =
        ((m.store ++ m.spare).drop offset).take size := by
      have hd : (List.replicate size 0).drop size = [] := by simp
      unfold goCopy
      rw [List.length_replicate, hlen, hd, List.append_nil]
      exact List.take_of_length_le (by omega)
    rw [hgo]
    apply List.ext_getElem?
    intro i
    by_cases hi : i < size
    · rw [paddedCopy_getElem? _ _ _ _ hi, List.getElem?_take_of_lt hi, List.getElem?_drop,
        List.getElem?_append_left (by omega), List.getD_eq_getElem?_getD,
        List.getElem?_eq_getElem (by omega)]
      rfl
    · rw [List.getElem?_eq_none (by rw [hlen]; omega),
        List.getElem?_eq_none (by rw [paddedCopy_length]; omega)]

theorem GetMemoryCopyWithPadding_beyond_length (m : vm.Memory) (offset size : Nat)
    (h : m.Len ≤ offset) :
    GetMemoryCopyWithPadding m offset size = some (paddedCopy m.store offset size) := by
  unfold vm.Memory.Len at h
  have h1 : ¬ m.store.length > offset := by omega
  have hpad : paddedCopy m.store offset size = List.replicate size 0 := by
    apply List.ext_getElem?
    intro i
    by_cases hi : i < size
    · rw [paddedCopy_getElem? _ _ _ _ hi, List.getD_eq_getElem?_getD,
        List.getElem?_eq_none (show m.store.length ≤ offset + i by omega)]
      simp [hi]
    · rw [List.getElem?_eq_none (by rw [paddedCopy_length]; omega),
        List.getElem?_eq_none (by simp; omega)]
  have hptr : ∀ n, m.GetPtr offset n = some [] := by
    intro n
    unfold vm.Memory.GetPtr
    rw [if_neg h1]
    split <;> rfl
  unfold GetMemoryCopyWithPadding
  simp only [hptr, hpad]
  split <;> simp [goCopy]

section addressing_paths

open data_flow storage_address

theorem data_flow.mapGet_map_replace {K V : Type} [DecidableEq K] (k : K) (v : V) (k2 : K) :
    ∀ (m : List (K × V)),
      mapGet (m.map (fun e => if e.1 = k then (k, v) else e)) k2 =
        if k2 = k then (if m.any (fun e => decide (e.1 = k)) then some v else none)
        else mapGet m k2 := by
  intro m
  induction m with
  | nil => simp [mapGet]
  | cons e t ih =>
      unfold mapGet at ih ⊢
      simp only [List.map_cons, List.find?_cons, List.any_cons]
      by_cases hek : e.1 = k
      · by_cases hk2 : k2 = k
        · subst hk2
          simp [hek]
        · have h1 : ¬ k = k2 := fun h => hk2 h.symm
          have h2 : ¬ e.1 = k2 := fun h => hk2 (h.symm.trans hek)
          simp only [hek, if_true, h1, decide_False, hk2, if_false, h2] at ih ⊢
          exact ih
      · by_cases hk2 : k2 = k
        · subst hk2
          simp only [hek, if_false, decide_False, Bool.false_or, if_true] at ih ⊢
          exact ih
        · simp only [hek, if_false, hk2] at ih ⊢
          by_cases he2 : e.1 = k2
          · simp [he2]
          · simp only [he2, decide_False]
            exact ih

theorem data_flow.mapGet_mapSet {K V : Type} [DecidableEq K] (m : List (K × V)) (k : K) (v : V)
    (k2 : K) : mapGet (mapSet m k v) k2 = if k2 = k then some v else mapGet m k2 := by
  unfold mapSet
  by_cases h : m.any (fun e => decide (e.1 = k)) = true
  · rw [if_pos h, data_flow.mapGet_map_replace, h]
    simp
  · rw [if_neg h]
    unfold mapGet
    rw [List.find?_append]
    by_cases hk2 : k2 = k
    · subst hk2
      have hnone : List.find? (fun e => decide (e.1 = k2)) m = none := by
        rw [List.find?_eq_none]
        intro x hx hxk
        exact h (List.any_eq_true.mpr ⟨x, hx, hxk⟩)
      simp [hnone]
    · have h1 : ¬ k = k2 := fun h => hk2 h.symm
      simp [hk2, h1]

theorem storage_address.shapeOf_mapSet (tbl : NodeTable) (p : Nat)
    (node node1 : StorageAddressingNode) (h : mapGet tbl p = some node)
    (hn : node1.norm = node.norm) : shapeOf (mapSet tbl p node1) = shapeOf tbl := by
  funext q
  unfold shapeOf
  rw [data_flow.mapGet_mapSet]
  by_cases hq : q = p
  · subst hq
    simp [h, hn]
  · simp [hq]

theorem storage_address.norm_assign (n : StorageAddressingNode) (a b : Option Nat)
    (h : n.operation.OpCode = vm.ADD) :
    ({ n with Operand := a, Ingredient := b } : StorageAddressingNode).norm = n.norm := by
  simp [StorageAddressingNode.norm, h]

theorem storage_address.norm_operation (n : StorageAddressingNode) :
    n.norm.operation = n.operation := by
  unfold StorageAddressingNode.norm
  split <;> rfl

theorem storage_address.norm_upstream (n : StorageAddressingNode) :
    n.norm.upstream = n.upstream := by
  unfold StorageAddressingNode.norm
  split <;> rfl

theorem storage_address.norm_eq_self (n : StorageAddressingNode)
    (h : n.operation.OpCode ≠ vm.ADD) : n.norm = n := by
  simp [StorageAddressingNode.norm, h]

theorem data_flow.FlowNodeList.Back_mem (l : FlowNodeList) (i : Nat) (x : FlowNode)
    (h : FlowNodeList.Back l i = some x) : x ∈ l := by
  unfold FlowNodeList.Back at h
  split at h
  · obtain ⟨hl, he⟩ := List.getElem?_eq_some_iff.mp h
    rw [← he]
    exact List.getElem_mem hl
  · simp at h

theorem storage_address.iter_spec :
    ∀ (fuel : Nat) (tbl : NodeTable) (p : Nat) (path : AddressingPath)
      (paths : List AddressingPath) (tbl1 : NodeTable) (paths1 : List AddressingPath),
      iter fuel tbl p path paths = some (tbl1, paths1) →
      shapeOf tbl1 = shapeOf tbl ∧
      ∃ news, paths1 = paths ++ news ∧
        ∀ x ∈ news, ∃ ext, x = (path ++ ext).reverse ∧ Descends (shapeOf tbl) p ext := by
  intro fuel
  induction fuel with
  | zero =>
      intro tbl p path paths tbl1 paths1 h
      simp [iter] at h
  | succ fuel ih =>
      intro tbl p path paths tbl1 paths1 h
      unfold iter at h
      cases hg : mapGet tbl p with
      | none => rw [hg] at h; simp at h
      | some node =>
          rw [hg] at h
          simp only [] at h
          have hsh : shapeOf tbl p = some node.norm := by simp [shapeOf, hg]
          -- the path that a `PUSH` node ends
          have hpush : ∃ news0,
              (if vm.IsPush node.operation.OpCode = true then
                paths ++ [AddressingPath.Reverse (path ++ [node])] else paths) = paths ++ news0 ∧
              ∀ x ∈ news0, ∃ ext, x = (path ++ ext).reverse ∧ Descends (shapeOf tbl) p ext := by
            by_cases hp : vm.IsPush node.operation.OpCode = true
            · refine ⟨[AddressingPath.Reverse (path ++ [node])], by rw [if_pos hp], ?_⟩
              intro x hx
              simp only [List.mem_singleton] at hx
              subst hx
              exact ⟨[node], rfl, hsh, hp⟩
            · refine ⟨[], by rw [if_neg hp]; simp, ?_⟩
              intro x hx
              exact absurd hx (List.not_mem_nil x)
          obtain ⟨news0, hnews0, hspec0⟩ := hpush
          rw [hnews0] at h
          -- one block of the case `ADD`
          have back : ∀ (entry : StorageAddressingNode) (index : Nat) (tblA : NodeTable)
              (pathsA : List AddressingPath) (tblB : NodeTable) (pathsB : List AddressingPath),
              shapeOf tblA = shapeOf tbl → entry.norm = node.norm →
              entry.operation.OpCode = vm.ADD →
              iterBack (iter fuel) entry path index tblA pathsA = some (tblB, pathsB) →
              shapeOf tblB = shapeOf tbl ∧
              ∃ news, pathsB = pathsA ++ news ∧
                ∀ x ∈ news, ∃ ext, x = (path ++ ext).reverse ∧
                  Descends (shapeOf tbl) p ext := by
            intro entry index tblA pathsA tblB pathsB hA hentry hop hrun
            unfold iterBack at hrun
            cases hb : FlowNodeList.Back entry.From index with
            | none => rw [hb] at hrun; simp at hrun
            | some up =>
                rw [hb] at hrun
                cases up with
                | none =>
                    simp only [Option.some.injEq, Prod.mk.injEq] at hrun
                    obtain ⟨h1, h2⟩ := hrun
                    subst h1
                    subst h2
                    exact ⟨hA, [], by simp, fun x hx => absurd hx (List.not_mem_nil x)⟩
                | some u =>
                    simp only [] at hrun
                    obtain ⟨hB, news, hnews, hspec⟩ := ih tblA u (path ++ [entry]) pathsA tblB
                      pathsB hrun
                    refine ⟨hB.trans hA, news, hnews, ?_⟩
                    intro x hx
                    obtain ⟨ext, hx1, hx2⟩ := hspec x hx
                    refine ⟨entry :: ext, by rw [hx1]; simp, ?_⟩
                    rw [hA] at hx2
                    cases ext with
                    | nil => exact absurd hx2 (by simp [Descends])
                    | cons e2 rest =>
                        refine ⟨by rw [hsh, hentry], Or.inl hop, u, ?_, hx2⟩
                        exact data_flow.FlowNodeList.Back_mem _ _ _ hb
          by_cases hadd : node.operation.OpCode = vm.ADD
          · rw [if_pos hadd] at h
            cases h1 : node.operation.Arg 1 with
            | none => rw [h1] at h; simp at h
            | some arg1 =>
                cases h0 : node.operation.Arg 0 with
                | none => rw [h1, h0] at h; simp at h
                | some arg0 =>
                    rw [h1, h0] at h
                    simp only [] at h
                    cases hfirst : iterBack (iter fuel)
                        { node with Operand := some arg0, Ingredient := some arg1 } path 0
                        (mapSet tbl p { node with Operand := some arg0, Ingredient := some arg1 })
                        (paths ++ news0) with
                    | none => rw [hfirst] at h; simp at h
                    | some r1 =>
                        obtain ⟨tbl2, paths2⟩ := r1
                        rw [hfirst] at h
                        simp only [] at h
                        have hshape1 : shapeOf
                            (mapSet tbl p
                              { node with Operand := some arg0, Ingredient := some arg1 }) =
                            shapeOf tbl :=
                          storage_address.shapeOf_mapSet tbl p node _ hg
                            (storage_address.norm_assign node _ _ hadd)
                        obtain ⟨hB, newsB, hnewsB, hspecB⟩ :=
                          back { node with Operand := some arg0, Ingredient := some arg1 } 0 _ _
                            tbl2 paths2 hshape1
                            (storage_address.norm_assign node (some arg0) (some arg1) hadd) hadd
                            hfirst
                        cases hg2 : mapGet tbl2 p with
                        | none => rw [hg2] at h; simp at h
                        | some node2 =>
                            rw [hg2] at h
                            simp only [] at h
                            have hn2 : node2.norm = node.norm := by
                              have := congrFun hB p
                              simp only [shapeOf, hg2, hg, Option.map_some',
                                Option.some.injEq] at this
                              exact this
                            have hop2 : node2.operation.OpCode = vm.ADD := by
                              have := congrArg StorageAddressingNode.operation hn2
                              rw [storage_address.norm_operation,
                                storage_address.norm_operation] at this
                              rw [this]
                              exact hadd
                            have hsib : (StorageAddressingNode.mk node2.copy.operation (some arg1)
                                (some arg0) node2.copy.upstream).norm = node.norm := by
                              rw [← hn2]
                              simp [StorageAddressingNode.norm, StorageAddressingNode.copy, hop2]
                            obtain ⟨hC, newsC, hnewsC, hspecC⟩ :=
                              back (StorageAddressingNode.mk node2.copy.operation (some arg1)
                                (some arg0) node2.copy.upstream) 1 _ _ tbl1 paths1 hB hsib
                                hop2 h
                            refine ⟨hC, news0 ++ newsB ++ newsC, ?_, ?_⟩
                            · rw [hnewsC, hnewsB]
                              simp
                            · intro x hx
                              simp only [List.mem_append] at hx
                              rcases hx with (hx | hx) | hx
                              · exact hspec0 x hx
                              · exact hspecB x hx
                              · exact hspecC x hx
          · rw [if_neg hadd] at h
            by_cases hstep : node.operation.OpCode = vm.KECCAK256 ∨
                node.operation.OpCode = vm.SLOAD ∨ node.operation.OpCode = vm.SSTORE
            · rw [if_pos hstep] at h
              have loop : ∀ (l : FlowNodeList) (tblA : NodeTable) (pathsA : List AddressingPath)
                  (tblB : NodeTable) (pathsB : List AddressingPath),
                  (∀ x ∈ l, x ∈ node.From) → shapeOf tblA = shapeOf tbl →
                  iterFrom (iter fuel) node path l tblA pathsA = some (tblB, pathsB) →
                  shapeOf tblB = shapeOf tbl ∧
                  ∃ news, pathsB = pathsA ++ news ∧
                    ∀ x ∈ news, ∃ ext, x = (path ++ ext).reverse ∧
                      Descends (shapeOf tbl) p ext := by
                intro l
                induction l with
                | nil =>
                    intro tblA pathsA tblB pathsB _ hA hrun
                    simp only [iterFrom, Option.some.injEq, Prod.mk.injEq] at hrun
                    obtain ⟨h1, h2⟩ := hrun
                    subst h1
                    subst h2
                    exact ⟨hA, [], by simp, fun x hx => absurd hx (List.not_mem_nil x)⟩
                | cons a rest ihl =>
                    intro tblA pathsA tblB pathsB hmem hA hrun
                    cases a with
                    | none =>
                        simp only [iterFrom] at hrun
                        exact ihl tblA pathsA tblB pathsB
                          (fun x hx => hmem x (List.mem_cons_of_mem _ hx)) hA hrun
                    | some u =>
                        simp only [iterFrom] at hrun
                        cases hrec : iter fuel tblA u (path ++ [node]) pathsA with
                        | none => rw [hrec] at hrun; simp at hrun
                        | some r =>
                            obtain ⟨tblM, pathsM⟩ := r
                            rw [hrec] at hrun
                            simp only [] at hrun
                            obtain ⟨hM, newsM, hnewsM, hspecM⟩ :=
                              ih tblA u (path ++ [node]) pathsA tblM pathsM hrec
                            obtain ⟨hB, newsB, hnewsB, hspecB⟩ :=
                              ihl tblM pathsM tblB pathsB
                                (fun x hx => hmem x (List.mem_cons_of_mem _ hx)) (hM.trans hA)
                                hrun
                            refine ⟨hB, newsM ++ newsB, by rw [hnewsB, hnewsM]; simp, ?_⟩
                            intro x hx
                            rcases List.mem_append.mp hx with hx | hx
                            · obtain ⟨ext, hx1, hx2⟩ := hspecM x hx
                              refine ⟨node :: ext, by rw [hx1]; simp, ?_⟩
                              rw [hA] at hx2
                              cases ext with
                              | nil => exact absurd hx2 (by simp [Descends])
                              | cons e2 rest2 =>
                                  refine ⟨hsh, Or.inr hstep, u, ?_, hx2⟩
                                  exact hmem _ (List.mem_cons_self _ _)
                            · exact hspecB x hx
              obtain ⟨hB, newsB, hnewsB, hspecB⟩ :=
                loop node.From tbl (paths ++ news0) tbl1 paths1 (fun x hx => hx) rfl h
              refine ⟨hB, news0 ++ newsB, by rw [hnewsB]; simp, ?_⟩
              intro x hx
              rcases List.mem_append.mp hx with hx | hx
              · exact hspec0 x hx
              · exact hspecB x hx
            · rw [if_neg hstep] at h
              simp only [Option.some.injEq, Prod.mk.injEq] at h
              obtain ⟨h1, h2⟩ := h
              subst h1
              subst h2
              exact ⟨rfl, news0, rfl, hspec0⟩

theorem storage_address.Descends_head (sh : Nat → Option StorageAddressingNode) :
    ∀ (ext : List StorageAddressingNode) (p : Nat), Descends sh p ext →
      ∃ e, ext.head? = some e ∧ sh p = some e.norm := by
  intro ext p h
  cases ext with
  | nil => exact absurd h (by simp [Descends])
  | cons e rest =>
      cases rest with
      | nil => exact ⟨e, rfl, h.1⟩
      | cons e2 rest2 => exact ⟨e, rfl, h.1⟩

theorem storage_address.Descends_last (sh : Nat → Option StorageAddressingNode) :
    ∀ (ext : List StorageAddressingNode) (p : Nat), Descends sh p ext →
      ∃ e, ext.getLast? = some e ∧ vm.IsPush e.operation.OpCode = true := by
  intro ext
  induction ext with
  | nil => intro p h; exact absurd h (by simp [Descends])
  | cons e rest ih =>
      intro p h
      cases rest with
      | nil => exact ⟨e, rfl, h.2⟩
      | cons e2 rest2 =>
          obtain ⟨_, _, u, _, hd⟩ := h
          obtain ⟨l, hl, hp⟩ := ih u hd
          exact ⟨l, by rw [List.getLast?_cons_cons]; exact hl, hp⟩

theorem storage_address.Descends_steps (sh : Nat → Option StorageAddressingNode) :
    ∀ (ext : List StorageAddressingNode) (p : Nat), Descends sh p ext →
      ∀ e ∈ ext.dropLast, IsAddressingStep e.operation.OpCode := by
  intro ext
  induction ext with
  | nil => intro p h; exact absurd h (by simp [Descends])
  | cons e rest ih =>
      intro p h
      cases rest with
      | nil => intro x hx; simp at hx
      | cons e2 rest2 =>
          obtain ⟨_, hstep, u, _, hd⟩ := h
          intro x hx
          rw [List.dropLast_cons₂] at hx
          rcases List.mem_cons.mp hx with hx | hx
          · subst hx
            exact hstep
          · exact ih u hd x hx

theorem storage_address.Descends_chain (tbl : NodeTable) :
    ∀ (ext : List StorageAddressingNode) (p : Nat), Descends (shapeOf tbl) p ext →
      List.Chain' (fun a b => StorageAddressingNode.IsUpstreamOf tbl b a) ext := by
  intro ext
  induction ext with
  | nil => intro p h; exact absurd h (by simp [Descends])
  | cons e rest ih =>
      intro p h
      cases rest with
      | nil => exact List.chain'_singleton e
      | cons e2 rest2 =>
          obtain ⟨_, _, u, hu, hd⟩ := h
          rw [List.chain'_cons]
          refine ⟨?_, ih u hd⟩
          obtain ⟨e3, he3, hs⟩ := storage_address.Descends_head _ _ _ hd
          simp only [List.head?_cons, Option.some.injEq] at he3
          subst he3
          unfold shapeOf at hs
          cases hg : mapGet tbl u with
          | none => rw [hg] at hs; simp at hs
          | some n =>
              rw [hg] at hs
              simp only [Option.map_some', Option.some.injEq] at hs
              refine ⟨u, n, hu, hg, ?_, ?_⟩
              · have := congrArg StorageAddressingNode.operation hs
                rw [storage_address.norm_operation, storage_address.norm_operation] at this
                exact this
              · have := congrArg StorageAddressingNode.upstream hs
                rw [storage_address.norm_upstream, storage_address.norm_upstream] at this
                exact this

/-- C34: every path that `AddressingPaths` returns on the node `f` (an `SLOAD` or `SSTORE`
node, for the method panics on another one) has at least two nodes; its first node belongs to a
`PUSH`, its last node is `f`, every node between them belongs to an `ADD`, `KECCAK256`, `SLOAD`
or `SSTORE`, and each node is an upstream of the node that follows it, the copy that stands for
an `ADD` node counting as that node. -/
theorem storage_address.AddressingPaths_shape (fuel : Nat) (tbl : NodeTable) (f : Nat)
    (node : StorageAddressingNode) (tbl1 : NodeTable) (paths : List AddressingPath)
    (hf : mapGet tbl f = some node)
    (h : AddressingPaths fuel tbl f = some (tbl1, paths)) :
    (node.operation.OpCode = vm.SLOAD ∨ node.operation.OpCode = vm.SSTORE) ∧
    ∀ path ∈ paths,
      2 ≤ path.length ∧
      (∃ first, path.head? = some first ∧ vm.IsPush first.operation.OpCode = true) ∧
      path.getLast? = some node ∧
      (∀ e ∈ path.tail.dropLast, IsAddressingStep e.operation.OpCode) ∧
      List.Chain' (fun a b => StorageAddressingNode.IsUpstreamOf tbl a b) path := by
  unfold AddressingPaths at h
  rw [hf] at h
  simp only [] at h
  by_cases hop : node.operation.OpCode = vm.SLOAD ∨ node.operation.OpCode = vm.SSTORE
  · rw [if_pos hop] at h
    refine ⟨hop, ?_⟩
    obtain ⟨_, news, hnews, hspec⟩ := storage_address.iter_spec fuel tbl f [] [] tbl1 paths h
    intro path hpath
    rw [hnews, List.nil_append] at hpath
    obtain ⟨ext, hx, hd⟩ := hspec path hpath
    rw [List.nil_append] at hx
    subst hx
    have hnotadd : node.operation.OpCode ≠ vm.ADD := by
      rcases hop with h1 | h1 <;> rw [h1] <;> decide
    have hnotpush : vm.IsPush node.operation.OpCode = false := by
      rcases hop with h1 | h1 <;> rw [h1] <;> decide
    obtain ⟨e, he, hs⟩ := storage_address.Descends_head _ _ _ hd
    have hen : e = node := by
      have h1 : shapeOf tbl f = some node.norm := by simp [shapeOf, hf]
      rw [h1] at hs
      simp only [Option.some.injEq] at hs
      have hopeq : e.operation = node.operation := by
        have := congrArg StorageAddressingNode.operation hs
        rw [storage_address.norm_operation, storage_address.norm_operation] at this
        exact this.symm
      rw [storage_address.norm_eq_self node hnotadd,
        storage_address.norm_eq_self e (by rw [hopeq]; exact hnotadd)] at hs
      exact hs.symm
    subst hen
    obtain ⟨l, hl, hlp⟩ := storage_address.Descends_last _ _ _ hd
    refine ⟨?_, ⟨l, by rw [List.head?_reverse]; exact hl, hlp⟩,
      by rw [List.getLast?_reverse]; exact he, ?_, ?_⟩
    · rw [List.length_reverse]
      cases ext with
      | nil => simp at he
      | cons a rest =>
          cases rest with
          | nil =>
              simp only [List.head?_cons, Option.some.injEq] at he
              subst he
              have := hd.2
              rw [hnotpush] at this
              exact absurd this (by simp)
          | cons b rest2 => simp
    · intro x hx
      have h1 : x ∈ ext.reverse.tail := List.dropLast_subset _ hx
      rw [List.tail_reverse] at h1
      exact storage_address.Descends_steps _ _ _ hd x (List.mem_reverse.mp h1)
    · rw [List.chain'_reverse]
      exact storage_address.Descends_chain tbl _ _ hd
  · rw [if_neg hop] at h
    simp at h

/-- C34 witness: on the nodes of `PUSH1 7`, the `ADD` of 7 and an untainted 8, and the `SLOAD`
of the sum, the one path of the `SLOAD` node holds the node of the `PUSH1`, the copy of the
`ADD` node with the operand 7, and the `SLOAD` node. -/
theorem storage_address.AddressingPaths_shape_witness :
    AddressingPaths 3 Example.addressingTable 2 =
      some ([(0, Example.seedNode),
          (1, { operation := Example.addOperation, Operand := some 8, Ingredient := some 7,
                upstream := [some 0, none] }),
          (2, Example.slotNode)],
        [[Example.seedNode,
          { operation := Example.addOperation, Operand := some 7, Ingredient := some 8,
            upstream := [some 0, none] },
          Example.slotNode]]) ∧
    ∀ path ∈ [[Example.seedNode,
          { operation := Example.addOperation, Operand := some 7, Ingredient := some 8,
            upstream := [some 0, none] },
          Example.slotNode]],
      2 ≤ path.length ∧
      (∃ first, path.head? = some first ∧ vm.IsPush first.operation.OpCode = true) ∧
      path.getLast? = some Example.slotNode ∧
      (∀ e ∈ path.tail.dropLast, IsAddressingStep e.operation.OpCode) ∧
      List.Chain' (fun a b => StorageAddressingNode.IsUpstreamOf Example.addressingTable a b)
        path :=
  ⟨rfl, (storage_address.AddressingPaths_shape 3 Example.addressingTable 2 Example.slotNode _ _
    rfl rfl).2⟩

theorem storage_address.iter_none_of_other_type (fuel : Nat) (tbl : NodeTable) (p : Nat)
    (path : AddressingPath) (paths : List AddressingPath) (h : mapGet tbl p = none) :
    iter fuel tbl p path paths = none := by
  cases fuel with
  | zero => rfl
  | succ k => simp [iter, h]

/-- C39, refuted on the code: with the storage addressing analyzer and its policy, the code
stores the node of a `PUSH1` in the memory word at offset 32, stores one byte of the node of
another `PUSH1` over that word with `MSTORE8`, which makes `memory.Store` put a `RawFlowNode`
with the label `memory_merge` in the word (node 4, no `StorageAddressingNode`), and hashes the
64 bytes at offset 0: the `KECCAK256` node (node 7) gets the node 4 as its upstream. At the
`SLOAD` of the hash, `SinkTainted` calls `AddressingPaths`, whose type assertion on the node 4
panics: the callback does not return. -/
theorem storage_address.AddressingPaths_panics_on_memory_merge_upstream :
    (Example.addressingTracer.run Example.byteStoreThenHash).map
      (fun t =>
        (((t.worlds 0).nodes[4]?).map (fun n => n.label),
          (t.collectionOf 0 0).map (fun c => c.Memory.at 32),
          (mapGet (t.worlds 0).analyzer.nodes 7).map
            (fun n => (n.operation.OpCode, n.upstream)),
          (mapGet (t.worlds 0).analyzer.nodes 4).isSome,
          (t.worlds 0).analyzer.panicked)) =
      some (some "memory_merge", some (some 4), some (vm.KECCAK256, [some 4]), false, false) ∧
    Example.addressingTracer.run (Example.byteStoreThenHash ++ [Example.loadHashedSlot]) =
      none := by
  refine ⟨rfl, rfl⟩

end addressing_paths

/-! ## Facts for the revised claims -/

theorem AttackSearcher.attackTxProfits_of_no_attack_profit (i : OracleInput) (h : i.ar = []) :
    AttackSearcher.attackTxProfits i = [] := by
  unfold AttackSearcher.attackTxProfits
  rw [h]
  cases i.pr with
  | none => rfl
  | some prProfits =>
      have := Profits.AddShared_fst_length i.capacity prProfits [] [] true (le_refl _)
      exact List.length_eq_zero.mp this

/-- C1, refuted on the code: the candidate lists are not empty, the attacker `0x1` gains in the
words of the claim (the comparison of its profits in the attack scenario, 5 wei from the profit
transaction, with its profits in the attack-free scenario, none, is `(1, nil)`) and the victim
`0x2` loses (the comparison is `(-1, nil)`), and `CheckOracle` returns false without calling the
handler, whatever the capacity of the slice: the profits it compares for the attacker leave out
those of the profit transaction. -/
theorem AttackSearcher.CheckOracle_misses_gain_of_profit_tx (capacity : Nat)
    (handlerSet : Bool) :
    (Example.gainInProfitTx capacity handlerSet).attackers ≠ [] ∧
    (Example.gainInProfitTx capacity handlerSet).victims ≠ [] ∧
    AttackSearcher.GainsInScenario (Example.gainInProfitTx capacity handlerSet) 1 ∧
    AttackSearcher.Loses (Example.gainInProfitTx capacity handlerSet) 2 ∧
    AttackSearcher.CheckOracle (Example.gainInProfitTx capacity handlerSet) = (false, []) := by
  refine ⟨by simp [Example.gainInProfitTx], by simp [Example.gainInProfitTx], ?_, ?_, ?_⟩
  · show Profits.Cmp
        ((Profits.Add (Profits.Add [] []) [Profit.EtherProfit 1 5]).ProfitsOf 1)
        ((Profits.Add (Profits.Add [] []) []).ProfitsOf 1) = (1, none)
    decide
  · show Profits.Cmp ((Profits.Add [] [Profit.EtherProfit 2 (-5)]).ProfitsOf 2)
        ((Profits.Add [] []).ProfitsOf 2) = (-1, none)
    decide
  have h := AttackSearcher.attackTxProfits_of_no_attack_profit
    (Example.gainInProfitTx capacity handlerSet) rfl
  have hg : AttackSearcher.attackerGains (Example.gainInProfitTx capacity handlerSet) 1 =
      false := by
    unfold AttackSearcher.attackerGains
    rw [h]
    rfl
  simp [AttackSearcher.CheckOracle, Example.gainInProfitTx, AttackSearcher.firstPassing] at hg ⊢
  simp [Example.gainInProfitTx, hg]

/-- C40 (amended): immediately after `TransactionStart`, `CurrentMsgCall()` returns the root call
of the transaction just started, a new call without parent that carries the data and the value
of the transaction; on a tracer whose call stack is empty, as it is for a tracer that has
traced no transaction before, the call stack consists of exactly that root, and `RootMsgCall()`
returns it too. -/
theorem BasicNestedCallTracer.TransactionStart_on_empty_stack {D : Type}
    (t : BasicNestedCallTracer D) (tx : Tx) (created : Address) :
    (t.TransactionStart tx created).CurrentMsgCall = some t.calls.length ∧
    ((t.TransactionStart tx created).deref (some t.calls.length)).map
      (fun c => (c.IsRoot, c.Position, c.Input, c.Value, c.parent)) =
      some (true, { position := [], compactPosition := [] }, tx.Data, some tx.Value, none) ∧
    (t.msgCallStack = [] →
      (t.TransactionStart tx created).msgCallStack = [t.calls.length] ∧
      (t.TransactionStart tx created).RootMsgCall = some t.calls.length) := by
  refine ⟨?_, ?_, ?_⟩
  · cases hf : t.MsgCallDataFactory <;>
      simp [BasicNestedCallTracer.TransactionStart, BasicNestedCallTracer.CurrentMsgCall, hf]
  · cases hf : t.MsgCallDataFactory <;>
      simp [BasicNestedCallTracer.TransactionStart, BasicNestedCallTracer.deref,
        MsgCall.IsRoot, hf]
  · intro h
    cases hf : t.MsgCallDataFactory <;>
      simp [BasicNestedCallTracer.TransactionStart, BasicNestedCallTracer.RootMsgCall, h, hf]

/-- C40 witness: the first transaction of a new tracer. -/
theorem BasicNestedCallTracer.TransactionStart_on_empty_stack_witness :
    (BasicNestedCallTracer.new none : BasicNestedCallTracer Unit).msgCallStack = [] ∧
    ((BasicNestedCallTracer.new none : BasicNestedCallTracer Unit).TransactionStart
      Example.callTx 0).msgCallStack = [0] ∧
    ((BasicNestedCallTracer.new none : BasicNestedCallTracer Unit).TransactionStart
      Example.callTx 0).RootMsgCall = some 0 ∧
    ((BasicNestedCallTracer.new none : BasicNestedCallTracer Unit).TransactionStart
      Example.callTx 0).CurrentMsgCall = some 0 :=
  ⟨rfl,
   ((BasicNestedCallTracer.TransactionStart_on_empty_stack
      (BasicNestedCallTracer.new none : BasicNestedCallTracer Unit) Example.callTx 0).2.2 rfl).1,
   ((BasicNestedCallTracer.TransactionStart_on_empty_stack
      (BasicNestedCallTracer.new none : BasicNestedCallTracer Unit) Example.callTx 0).2.2 rfl).2,
   (BasicNestedCallTracer.TransactionStart_on_empty_stack
      (BasicNestedCallTracer.new none : BasicNestedCallTracer Unit) Example.callTx 0).1⟩

section panics_of_other_analyzers

open data_flow storage_address

/-- C13, refuted as stated: a panic of the analyzer `B` ends the callback for the whole tracer.
With the storage addressing analyzer that watches a slot of another contract as `A` and the one
that watches every slot as `B`, the tracer with `A` alone gets through the callbacks of a
one-byte store over a tainted word, a hash and a load, and `A` receives no notification; the
tracer with `A` and `B` does not get through them, in either order of the two. Likewise the
test analyzer alone gets through a `PUSH1`, and together with an analyzer whose policy has no
entry for the opcode it does not. -/
theorem data_flow.DataFlowTracer.panic_of_other_analyzer_ends_the_run :
    (Example.watchingTracer.run (Example.byteStoreThenHash ++ [Example.loadHashedSlot])).map
      (fun t => ((t.worlds 0).analyzer.reported, (t.worlds 0).analyzer.panicked,
        (t.worlds 0).notified, (t.collectionOf 0 0).map (fun c => c.Memory.mem))) =
      some ([], false, [], some [(32, none)]) ∧
    Example.twoAddressingTracers.run (Example.byteStoreThenHash ++ [Example.loadHashedSlot]) =
      none ∧
    ((NewDataFlowTracer
        [(1, StorageAddressingPathAnalyzer.methods), (0, StorageAddressingPathAnalyzer.methods)]
        (fun a => StorageAddressingPathAnalyzer.new (if a = 0 then some (5, 0) else none))).run
      (Example.byteStoreThenHash ++ [Example.loadHashedSlot])) = none ∧
    ((NewDataFlowTracer [(0, data_flow_test.analyzer.methods Example.pushIsSource)]
        (fun _ => { sinkTainted := false })).run
      (Example.overlappingStores.take 3)).isSome = true ∧
    ((NewDataFlowTracer
        [(0, data_flow_test.analyzer.methods Example.pushIsSource), (1, Example.withoutPolicy)]
        (fun _ => { sinkTainted := false })).run (Example.overlappingStores.take 3)) = none := by
  refine ⟨rfl, rfl, rfl, rfl, rfl⟩

end panics_of_other_analyzers

/-! ## Profit sets whose pairings agree -/

theorem Profits.innerCmpLoop_keeps (o t : Profits) (r : Int)
    (hall : ∀ p ∈ t, Profits.cmpAgainst p o = 0 ∨ Profits.cmpAgainst p o = r) :
    Profits.innerCmpLoop o t r = (r, none) := by
  induction t with
  | nil => rfl
  | cons p t ih =>
      have hp := hall p (List.mem_cons_self _ _)
      have ht := ih (fun x hx => hall x (List.mem_cons_of_mem _ hx))
      unfold Profits.innerCmpLoop
      simp only
      by_cases h0 : r = 0
      · subst h0
        rw [if_pos rfl]
        rcases hp with hp | hp <;> rw [hp] <;> exact ht
      · rw [if_neg h0, if_neg]
        · exact ht
        · rintro ⟨h1, h2⟩
          rcases hp with hp | hp
          · exact h1 hp
          · exact h2 hp.symm

theorem Profits.innerCmpLoop_finds (o t : Profits) (r : Int)
    (hall : ∀ p ∈ t, Profits.cmpAgainst p o = 0 ∨ Profits.cmpAgainst p o = r)
    (hex : ∃ p ∈ t, Profits.cmpAgainst p o = r) :
    Profits.innerCmpLoop o t 0 = (r, none) := by
  induction t with
  | nil =>
      obtain ⟨p, hp, -⟩ := hex
      cases hp
  | cons p t ih =>
      have hp := hall p (List.mem_cons_self _ _)
      have hrest : ∀ x ∈ t, Profits.cmpAgainst x o = 0 ∨ Profits.cmpAgainst x o = r :=
        fun x hx => hall x (List.mem_cons_of_mem _ hx)
      unfold Profits.innerCmpLoop
      simp only [if_true]
      by_cases hpr : Profits.cmpAgainst p o = r
      · rw [hpr]
        exact Profits.innerCmpLoop_keeps o t r hrest
      · have hp0 : Profits.cmpAgainst p o = 0 := hp.resolve_right hpr
        rw [hp0]
        apply ih hrest
        obtain ⟨x, hx, hxr⟩ := hex
        rcases List.mem_cons.mp hx with rfl | hx
        · exact absurd hxr hpr
        · exact ⟨x, hx, hxr⟩

theorem Profits.prepared_of_silent (L : Profits) (h : ∀ p ∈ L, p.amount = 0) :
    Profits.prepared L = [Profit.ZeroProfit] := by
  have hc : Profits.Compact L = [] := by
    apply List.eq_nil_iff_forall_not_mem.mpr
    intro x hx
    have := (Profits.mem_Compact L x).mp hx
    exact this.2 (h x this.1)
  unfold Profits.prepared
  rw [hc]
  rfl

theorem Profits.prepared_of_not_silent (L : Profits) (h : ¬ ∀ p ∈ L, p.amount = 0) :
    Profits.prepared L = Profits.Compact L ∧ Profits.Compact L ≠ [] := by
  push_neg at h
  obtain ⟨p, hp, hpa⟩ := h
  have hc : p ∈ Profits.Compact L := (Profits.mem_Compact L p).mpr ⟨hp, hpa⟩
  have hne : Profits.Compact L ≠ [] := by
    intro e
    rw [e] at hc
    cases hc
  refine ⟨?_, hne⟩
  unfold Profits.prepared
  rw [if_neg]
  intro e
  exact hne (List.length_eq_zero.mp e)

theorem Profit.ne_zero_of_amount (p : Profit) (h : p.amount ≠ 0) : p ≠ Profit.ZeroProfit := by
  intro e
  subst e
  exact h rfl

theorem Profits.cmpAgainst_silent (q : Profit) (hq : q ≠ Profit.ZeroProfit) (A : Profits)
    (hA : Profits.NoTwoComparable A) (hs : ∀ p ∈ A, p.amount = 0) :
    Profits.cmpAgainst q A = bigCmp q.amount 0 := by
  have hkq : q.key ≠ none := fun e => hq ((Profit.key_eq_none_iff q).mp e)
  by_cases hex : ∃ a ∈ A, a.key = q.key
  · obtain ⟨a, ha, hk⟩ := hex
    rw [Profits.cmpAgainst_of_key q hq A a ha hk
      (fun x hx hxk => by
        rw [hA.eq_of_key hx ha (hxk.trans hk.symm) (by rw [hxk]; exact hkq)]), hs a ha]
  · exact Profits.cmpAgainst_of_no_key q hq A (fun x hx hxk => hex ⟨x, hx, hxk⟩)

theorem Profits.cmpAgainst_zero_cons (b : Profit) (rest : Profits) :
    Profits.cmpAgainst Profit.ZeroProfit (b :: rest) = bigCmp 0 b.amount := by
  unfold Profits.cmpAgainst Profits.firstCmp
  rw [Profit.ZeroProfit_Cmp]

theorem Profits.pairing_mem_left (A B : Profits) (p : Profit) (hp : p ∈ A) :
    Profits.pairing p B ∈ Profits.pairings A B := by
  unfold Profits.pairings
  exact List.mem_append_left _ (List.mem_map.mpr ⟨p, hp, rfl⟩)

theorem Profits.pairing_mem_right (A B : Profits) (q : Profit) (hq : q ∈ B) :
    -(Profits.pairing q A) ∈ Profits.pairings A B := by
  unfold Profits.pairings
  exact List.mem_append_right _ (List.mem_map.mpr ⟨q, hq, rfl⟩)

theorem Profits.pairings_swap (A B : Profits) (x : Int) :
    x ∈ Profits.pairings B A ↔ -x ∈ Profits.pairings A B := by
  unfold Profits.pairings
  simp only [List.mem_append, List.mem_map]
  constructor
  · rintro (⟨q, hq, h⟩ | ⟨p, hp, h⟩)
    · exact Or.inr ⟨q, hq, by omega⟩
    · exact Or.inl ⟨p, hp, by omega⟩
  · rintro (⟨p, hp, h⟩ | ⟨q, hq, h⟩)
    · exact Or.inr ⟨p, hp, by omega⟩
    · exact Or.inl ⟨q, hq, by omega⟩

/-- One direction of `Profits.Cmp`: when every pairing has the sign 0 or `r` and the list `A`
shows the sign `r`, the closure `innerCmp` answers `r` for `A` against `B`. -/
theorem Profits.innerCmp_of_pairings (A B : Profits) (hA : Profits.NoTwoComparable A)
    (hB : Profits.NoTwoComparable B) (r : Int)
    (hall : ∀ x ∈ Profits.pairings A B, x = 0 ∨ x = r)
    (hshow : r = 0 ∨ (Profits.ShowsPairing r A B ∧ r ∈ Profits.pairings A B)) :
    Profits.innerCmp (Profits.prepared A) (Profits.prepared B) = (r, none) := by
  unfold Profits.innerCmp
  by_cases hsA : ∀ p ∈ A, p.amount = 0
  · -- `A` is compared as `[ZeroProfit]`
    rw [Profits.prepared_of_silent A hsA]
    have hone : ∀ o : Profits, Profits.innerCmpLoop o [Profit.ZeroProfit] 0 =
        (Profits.cmpAgainst Profit.ZeroProfit o, none) := by
      intro o
      simp [Profits.innerCmpLoop]
    rw [hone]
    by_cases hsB : ∀ q ∈ B, q.amount = 0
    · rw [Profits.prepared_of_silent B hsB]
      have hz : Profits.cmpAgainst Profit.ZeroProfit [Profit.ZeroProfit] = 0 := by decide
      rw [hz]
      rcases hshow with h0 | ⟨-, hmem⟩
      · rw [h0]
      · -- all pairings are zero, so `r` is
        have hzero : ∀ x ∈ Profits.pairings A B, x = 0 := by
          intro x hx
          unfold Profits.pairings at hx
          have side : ∀ (L M : Profits), Profits.NoTwoComparable M →
              (∀ p ∈ L, p.amount = 0) → (∀ q ∈ M, q.amount = 0) → ∀ p ∈ L,
              Profits.pairing p M = 0 := by
            intro L M hM hL hMs p hp
            rw [Profits.pairing_eq_cmpAgainst]
            by_cases hpz : p = Profit.ZeroProfit
            · subst hpz
              cases M with
              | nil => decide
              | cons b rest =>
                  rw [Profits.cmpAgainst_zero_cons, hMs b (List.mem_cons_self _ _)]
                  decide
            · rw [Profits.cmpAgainst_silent p hpz M hM hMs, hL p hp]
              decide
          rcases List.mem_append.mp hx with h | h
          · obtain ⟨p, hp, hps⟩ := List.mem_map.mp h
            rw [← hps]
            exact side A B hB hsA hsB p hp
          · obtain ⟨q, hq, hqs⟩ := List.mem_map.mp h
            rw [← hqs, side B A hA hsB hsA q hq]
            rfl
        rw [hzero r hmem]
    · obtain ⟨hprep, hne⟩ := Profits.prepared_of_not_silent B hsB
      rw [hprep]
      cases hc : Profits.Compact B with
      | nil => exact absurd hc hne
      | cons b rest =>
          rw [Profits.cmpAgainst_zero_cons]
          have hb : b ∈ Profits.Compact B := by rw [hc]; exact List.mem_cons_self _ _
          obtain ⟨hbB, hba⟩ := (Profits.mem_Compact B b).mp hb
          have hbz := Profit.ne_zero_of_amount b hba
          have hpair : -(Profits.pairing b A) = bigCmp 0 b.amount := by
            rw [Profits.pairing_eq_cmpAgainst, Profits.cmpAgainst_silent b hbz A hA hsA,
              bigCmp_swap 0 b.amount]
            simp
          have hmem := Profits.pairing_mem_right A B b hbB
          rw [hpair] at hmem
          have hne0 : bigCmp 0 b.amount ≠ 0 := by
            intro e
            exact hba ((bigCmp_eq_zero_iff 0 b.amount).mp e).symm
          rcases hall _ hmem with h | h
          · exact absurd h hne0
          · rw [h]
  · -- `A` is compared as its profits of non-zero amount
    obtain ⟨hprep, -⟩ := Profits.prepared_of_not_silent A hsA
    rw [hprep]
    have hval : ∀ x ∈ Profits.Compact A,
        Profits.cmpAgainst x (Profits.prepared B) = Profits.pairing x B := by
      intro x hx
      obtain ⟨-, hxa⟩ := (Profits.mem_Compact A x).mp hx
      rw [Profits.cmpAgainst_prepared x (Profit.ne_zero_of_amount x hxa) B hB,
        Profits.pairing_eq_cmpAgainst]
    have hsigns : ∀ x ∈ Profits.Compact A,
        Profits.cmpAgainst x (Profits.prepared B) = 0 ∨
          Profits.cmpAgainst x (Profits.prepared B) = r := by
      intro x hx
      rw [hval x hx]
      exact hall _ (Profits.pairing_mem_left A B x ((Profits.mem_Compact A x).mp hx).1)
    rcases hshow with h0 | ⟨hsh, -⟩
    · subst h0
      exact Profits.innerCmpLoop_keeps _ _ 0 hsigns
    · rcases hsh with hsil | ⟨p, hp, hpa, hpr⟩
      · exact absurd hsil hsA
      · apply Profits.innerCmpLoop_finds _ _ r hsigns
        have hpc : p ∈ Profits.Compact A := (Profits.mem_Compact A p).mpr ⟨hp, hpa⟩
        exact ⟨p, hpc, by rw [hval p hpc]; exact hpr⟩

theorem Profits.Cmp_of_pairings (A B : Profits) (hA : Profits.NoTwoComparable A)
    (hB : Profits.NoTwoComparable B) (r : Int)
    (hall : ∀ x ∈ Profits.pairings A B, x = 0 ∨ x = r)
    (hshow : r = 0 ∨ (r ∈ Profits.pairings A B ∧ Profits.ShowsPairing r A B ∧
      Profits.ShowsPairing (-r) B A)) :
    Profits.Cmp A B = (r, none) := by
  have h1 : Profits.innerCmp (Profits.prepared A) (Profits.prepared B) = (r, none) := by
    apply Profits.innerCmp_of_pairings A B hA hB r hall
    rcases hshow with h | ⟨hm, hs, -⟩
    · exact Or.inl h
    · exact Or.inr ⟨hs, hm⟩
  have h2 : Profits.innerCmp (Profits.prepared B) (Profits.prepared A) = (-r, none) := by
    apply Profits.innerCmp_of_pairings B A hB hA (-r)
    · intro x hx
      have := hall _ ((Profits.pairings_swap A B x).mp hx)
      omega
    · rcases hshow with h | ⟨hm, -, hs⟩
      · exact Or.inl (by omega)
      · refine Or.inr ⟨hs, (Profits.pairings_swap A B (-r)).mpr ?_⟩
        rw [neg_neg]
        exact hm
  rw [Profits.Cmp_eq_prepared, h1]
  simp only
  rw [h2]
  simp

theorem Profits.innerCmp_of_no_pairing_shown (A B : Profits) (hB : Profits.NoTwoComparable B)
    (s : Int) (hnot : ¬ Profits.ShowsPairing s A B)
    (hvals : ∀ p ∈ A, Profits.pairing p B = 0 ∨ Profits.pairing p B = s) :
    Profits.innerCmp (Profits.prepared A) (Profits.prepared B) = (0, none) := by
  unfold Profits.ShowsPairing at hnot
  rw [not_or] at hnot
  obtain ⟨hsil, hno⟩ := hnot
  obtain ⟨hprep, -⟩ := Profits.prepared_of_not_silent A hsil
  unfold Profits.innerCmp
  rw [hprep]
  apply Profits.innerCmpLoop_keeps
  intro x hx
  obtain ⟨hxA, hxa⟩ := (Profits.mem_Compact A x).mp hx
  rw [Profits.cmpAgainst_prepared x (Profit.ne_zero_of_amount x hxa) B hB,
    ← Profits.pairing_eq_cmpAgainst]
  rcases hvals x hxA with h | h
  · exact Or.inl h
  · exact absurd ⟨x, hxA, hxa, h⟩ hno

theorem Profits.Cmp_needs_both_lists (A B : Profits) (hA : Profits.NoTwoComparable A)
    (hB : Profits.NoTwoComparable B) (r : Int) (hr : r ≠ 0)
    (hall : ∀ x ∈ Profits.pairings A B, x = 0 ∨ x = r)
    (hc : Profits.Cmp A B = (r, none)) :
    Profits.ShowsPairing r A B ∧ Profits.ShowsPairing (-r) B A := by
  by_contra hn
  rw [not_and_or] at hn
  rw [Profits.Cmp_eq_prepared] at hc
  rcases hn with h | h
  · have h1 := Profits.innerCmp_of_no_pairing_shown A B hB r h
      (fun p hp => hall _ (Profits.pairing_mem_left A B p hp))
    rw [h1] at hc
    simp only at hc
    rcases h2 : Profits.innerCmp (Profits.prepared B) (Profits.prepared A) with ⟨rr, _ | err⟩
    · rw [h2] at hc
      simp only at hc
      split_ifs at hc
      · exact hr (Prod.mk.inj hc).1.symm
      · simp at hc
    · rw [h2] at hc
      simp at hc
  · have h1 := Profits.innerCmp_of_no_pairing_shown B A hA (-r) h
      (fun q hq => by
        have := hall _ (Profits.pairing_mem_right A B q hq)
        omega)
    rw [h1] at hc
    rcases h2 : Profits.innerCmp (Profits.prepared A) (Profits.prepared B) with ⟨rr, _ | err⟩
    · rw [h2] at hc
      simp only at hc
      split_ifs at hc with h3
      · have := (Prod.mk.inj hc).1
        omega
      · simp at hc
    · rw [h2] at hc
      simp at hc

/-- C2 (amended): for two lists in which no two profits of the same list are comparable, pair
every profit with its comparable counterpart in the other list, a zero profit when there is
none. If in every pairing the side of `A` is greater than or equal to the side of `B` and in at
least one it is strictly greater, `A.Cmp(B)` returns `(1, nil)` exactly when each of the two
lists either holds no profit with a non-zero amount or holds a profit with a non-zero amount
that stands in a strictly greater pairing; with less in place of greater the same holds for
`(-1, nil)`; if all pairings are equal it returns `(0, nil)`. -/
theorem Profits.Cmp_of_pairings_shown_by_both_lists (A B : Profits)
    (hA : Profits.NoTwoComparable A) (hB : Profits.NoTwoComparable B) :
    ((∀ x ∈ Profits.pairings A B, 0 ≤ x) → (1 : Int) ∈ Profits.pairings A B →
      (Profits.Cmp A B = (1, none) ↔
        Profits.ShowsPairing 1 A B ∧ Profits.ShowsPairing (-1) B A)) ∧
    ((∀ x ∈ Profits.pairings A B, x ≤ 0) → (-1 : Int) ∈ Profits.pairings A B →
      (Profits.Cmp A B = (-1, none) ↔
        Profits.ShowsPairing (-1) A B ∧ Profits.ShowsPairing 1 B A)) ∧
    ((∀ x ∈ Profits.pairings A B, x = 0) → Profits.Cmp A B = (0, none)) := by
  have hsign : ∀ x ∈ Profits.pairings A B, x = -1 ∨ x = 0 ∨ x = 1 := by
    intro x hx
    unfold Profits.pairings at hx
    rcases List.mem_append.mp hx with h | h
    · obtain ⟨p, -, hps⟩ := List.mem_map.mp h
      rw [← hps, Profits.pairing_eq_cmpAgainst]
      exact Profits.cmpAgainst_cases p B
    · obtain ⟨q, -, hqs⟩ := List.mem_map.mp h
      have := Profits.cmpAgainst_cases q A
      rw [← hqs, Profits.pairing_eq_cmpAgainst]
      omega
  refine ⟨?_, ?_, ?_⟩
  · intro hge hmem
    have hall : ∀ x ∈ Profits.pairings A B, x = 0 ∨ x = 1 := by
      intro x hx
      have := hsign x hx
      have := hge x hx
      omega
    constructor
    · exact Profits.Cmp_needs_both_lists A B hA hB 1 (by decide) hall
    · rintro ⟨hs1, hs2⟩
      exact Profits.Cmp_of_pairings A B hA hB 1 hall (Or.inr ⟨hmem, hs1, hs2⟩)
  · intro hle hmem
    have hall : ∀ x ∈ Profits.pairings A B, x = 0 ∨ x = -1 := by
      intro x hx
      have := hsign x hx
      have := hle x hx
      omega
    constructor
    · intro hc
      have := Profits.Cmp_needs_both_lists A B hA hB (-1) (by decide) hall hc
      rw [neg_neg] at this
      exact this
    · rintro ⟨hs1, hs2⟩
      exact Profits.Cmp_of_pairings A B hA hB (-1) hall
        (Or.inr ⟨hmem, hs1, by rw [neg_neg]; exact hs2⟩)
  · intro hz
    apply Profits.Cmp_of_pairings A B hA hB 0
    · intro x hx
      exact Or.inl (hz x hx)
    · exact Or.inl rfl

/-- C2 witness: the lists of the test "should return 1 when all profits in ps1 >= ps2", as ether
profits of the accounts 1 and 2, and an ether profit against the empty list. -/
theorem Profits.Cmp_of_pairings_shown_by_both_lists_witness :
    Profits.NoTwoComparable [Profit.EtherProfit 1 2, Profit.EtherProfit 2 2] ∧
    Profits.NoTwoComparable [Profit.EtherProfit 1 1, Profit.EtherProfit 2 2] ∧
    Profits.pairings [Profit.EtherProfit 1 2, Profit.EtherProfit 2 2]
      [Profit.EtherProfit 1 1, Profit.EtherProfit 2 2] = [1, 0, 1, 0] ∧
    Profits.Cmp [Profit.EtherProfit 1 2, Profit.EtherProfit 2 2]
      [Profit.EtherProfit 1 1, Profit.EtherProfit 2 2] = (1, none) ∧
    Profits.Cmp [Profit.EtherProfit 1 5] [] = (1, none) :=
  ⟨by unfold Profits.NoTwoComparable; decide, by unfold Profits.NoTwoComparable; decide,
   by decide,
   ((Profits.Cmp_of_pairings_shown_by_both_lists
      [Profit.EtherProfit 1 2, Profit.EtherProfit 2 2]
      [Profit.EtherProfit 1 1, Profit.EtherProfit 2 2]
      (by unfold Profits.NoTwoComparable; decide) (by unfold Profits.NoTwoComparable; decide)).1
      (by decide) (by decide)).mpr
      ⟨Or.inr ⟨Profit.EtherProfit 1 2, by simp, by decide, by decide⟩,
       Or.inr ⟨Profit.EtherProfit 1 1, by simp, by decide, by decide⟩⟩,
   ((Profits.Cmp_of_pairings_shown_by_both_lists [Profit.EtherProfit 1 5] []
      (by unfold Profits.NoTwoComparable; decide) (by unfold Profits.NoTwoComparable; decide)).1
      (by decide) (by decide)).mpr
      ⟨Or.inr ⟨Profit.EtherProfit 1 5, by simp, by decide, by decide⟩,
       Or.inl (fun p hp => absurd hp (List.not_mem_nil p))⟩⟩

/-- C40, refuted as stated: a new tracer traces the transaction `Example.callTx` from start to
end and is then given the `TransactionStart` of the transaction `Example.tx`. Immediately after
it the call stack holds two entries, the root of the first transaction below the root of the
transaction just started: `CurrentMsgCall()` returns the new root, the call 1, and
`RootMsgCall()` returns the call 0, the root of the earlier transaction. -/
theorem BasicNestedCallTracer.RootMsgCall_of_reused_tracer :
    (((BasicNestedCallTracer.new none : BasicNestedCallTracer Unit).TransactionStart
        Example.callTx 0).TransactionEnd none none).map
      (fun t => ((t.TransactionStart Example.tx 0).msgCallStack,
        (t.TransactionStart Example.tx 0).RootMsgCall,
        (t.TransactionStart Example.tx 0).CurrentMsgCall,
        ((t.TransactionStart Example.tx 0).calls.map (fun c => c.Input)))) =
    some ([0, 1], some 0, some 1, [Example.callTx.Data, Example.tx.Data]) := by
  rfl

section creation_order

open data_flow

variable {σ : Type}

theorem data_flow.mem_of_getElem? {α : Type} {l : List α} {i : Nat} {x : α}
    (h : l[i]? = some x) : x ∈ l := by
  obtain ⟨hi, hx⟩ := List.getElem?_eq_some_iff.mp h
  exact hx ▸ List.getElem_mem hi

theorem data_flow.PtrBelow.mono_ptr {B C : Nat} {v : FlowNode} (h : PtrBelow B v) (hBC : B ≤ C) :
    PtrBelow C v := fun p hp => lt_of_lt_of_le (h p hp) hBC

theorem data_flow.ListBelow.mono {B C : Nat} {l : FlowNodeList} (h : ListBelow B l)
    (hBC : B ≤ C) : ListBelow C l := fun v hv => (h v hv).mono_ptr hBC

theorem data_flow.MapBelow.mono_map {K : Type} {B C : Nat} {m : List (K × FlowNode)}
    (h : MapBelow B m) (hBC : B ≤ C) : MapBelow C m := fun e he => (h e he).mono_ptr hBC

theorem data_flow.PtrBelow_none (B : Nat) : PtrBelow B none := fun _ h => by cases h

theorem data_flow.PtrBelow_some {B p : Nat} (h : p < B) : PtrBelow B (some p) :=
  fun q hq => by cases hq; exact h

theorem data_flow.ListBelow_nil (B : Nat) : ListBelow B [] := fun _ h => by cases h

theorem data_flow.MapBelow_nil {K : Type} (B : Nat) : MapBelow B ([] : List (K × FlowNode)) :=
  fun _ h => by cases h

theorem data_flow.ListBelow_cons {B : Nat} {v : FlowNode} {l : FlowNodeList}
    (hv : PtrBelow B v) (hl : ListBelow B l) : ListBelow B (v :: l) := by
  intro x hx
  rcases List.mem_cons.mp hx with rfl | hx
  · exact hv
  · exact hl x hx

theorem data_flow.ListBelow_append {B : Nat} {l1 l2 : FlowNodeList}
    (h1 : ListBelow B l1) (h2 : ListBelow B l2) : ListBelow B (l1 ++ l2) := by
  intro x hx
  rcases List.mem_append.mp hx with hx | hx
  · exact h1 x hx
  · exact h2 x hx

theorem data_flow.ListBelow_replicate (B n : Nat) : ListBelow B (List.replicate n none) := by
  intro x hx
  rw [(List.mem_replicate.mp hx).2]
  exact PtrBelow_none B

theorem data_flow.ListBelow_of_sublist {B : Nat} {l1 l2 : FlowNodeList}
    (h : ∀ x ∈ l1, x ∈ l2) (h2 : ListBelow B l2) : ListBelow B l1 :=
  fun x hx => h2 x (h x hx)

theorem data_flow.MapBelow_mapSet {K : Type} [DecidableEq K] {B : Nat}
    {m : List (K × FlowNode)} (hm : MapBelow B m) (k : K) {v : FlowNode} (hv : PtrBelow B v) :
    MapBelow B (mapSet m k v) := by
  intro e he
  rcases mapSet_values m k v e he with h | h
  · exact hm e h
  · rw [h]
    exact hv

theorem data_flow.PtrBelow_mapGet {K : Type} [DecidableEq K] {B : Nat}
    {m : List (K × FlowNode)} (hm : MapBelow B m) (k : K) : PtrBelow B (mapGet m k).join := by
  intro p hp
  unfold mapGet at hp
  cases hf : m.find? (fun e => decide (e.1 = k)) with
  | none => rw [hf] at hp; cases hp
  | some e =>
      rw [hf] at hp
      simp only [Option.map_some', Option.join] at hp
      exact hm e (List.mem_of_find?_eq_some hf) p hp

/-! ### Lists of values -/

theorem data_flow.FlowNodeList.Back_below {B : Nat} {l : FlowNodeList} (hl : ListBelow B l)
    {i : Nat} {x : FlowNode} (h : l.Back i = some x) : PtrBelow B x :=
  hl x (FlowNodeList.Back_mem l i x h)

theorem data_flow.FlowNodeList.BackSlice1_below {B : Nat} {l r : FlowNodeList}
    (hl : ListBelow B l) {i : Nat} (h : l.BackSlice1 i = some r) : ListBelow B r := by
  unfold FlowNodeList.BackSlice1 at h
  split at h
  · cases h
    exact ListBelow_of_sublist (fun x hx => List.mem_of_mem_take hx) hl
  · cases h

theorem data_flow.FlowNodeList.BackSlice2_below {B : Nat} {l r : FlowNodeList}
    (hl : ListBelow B l) {i j : Nat} (h : l.BackSlice2 i j = some r) : ListBelow B r := by
  unfold FlowNodeList.BackSlice2 at h
  split at h
  · cases h
    exact ListBelow_of_sublist
      (fun x hx => List.mem_of_mem_take (List.mem_of_mem_drop hx)) hl
  · cases h

theorem data_flow.setResult_below {B : Nat} {l r : FlowNodeList} (hl : ListBelow B l)
    {i : Nat} {v : FlowNode} (hv : PtrBelow B v) (h : setResult l i v = some r) :
    ListBelow B r := by
  unfold setResult at h
  split at h
  · cases h
    intro x hx
    rcases List.mem_or_eq_of_mem_set hx with hx | hx
    · exact hl x hx
    · rw [hx]
      exact hv
  · cases h

theorem data_flow.filter_below {B : Nat} {l : FlowNodeList} (hl : ListBelow B l)
    (p : FlowNode → Bool) : ListBelow B (l.filter p) :=
  ListBelow_of_sublist (fun _ hx => List.mem_of_mem_filter hx) hl

/-! ### The mirror stack -/

theorem data_flow.stack.Get_below {B : Nat} {s : stack} (hs : ListBelow B s.elems) {i : Nat}
    {x : FlowNode} (h : s.Get i = some x) : PtrBelow B x := by
  unfold stack.Get at h
  split at h
  · exact hs x (mem_of_getElem? h)
  · cases h

theorem data_flow.stack.pop_below {B : Nat} {s s1 : stack} (hs : ListBelow B s.elems) {n : Nat}
    {args : FlowNodeList} (h : s.pop n = some (s1, args)) :
    ListBelow B s1.elems ∧ ListBelow B args := by
  unfold stack.pop at h
  split at h
  · cases h
    exact ⟨hs, ListBelow_nil B⟩
  · split at h
    · cases h
      exact ⟨ListBelow_of_sublist (fun x hx => List.mem_of_mem_take hx) hs,
        ListBelow_of_sublist (fun x hx => List.mem_of_mem_drop hx) hs⟩
    · cases h

theorem data_flow.stack.push_below {B : Nat} {s s1 : stack} (hs : ListBelow B s.elems)
    {l : FlowNodeList} (hl : ListBelow B l) (h : s.push l = some s1) :
    ListBelow B s1.elems := by
  unfold stack.push at h
  split at h
  · cases h
    exact ListBelow_append hs hl
  · cases h

theorem data_flow.stack.swap_below {B : Nat} {s s1 : stack} (hs : ListBelow B s.elems)
    {pos : Nat} (h : s.swap pos = some s1) : ListBelow B s1.elems := by
  unfold stack.swap at h
  split at h
  · split at h
    · rename_i top sw htop hsw
      cases h
      intro x hx
      rcases List.mem_or_eq_of_mem_set hx with hx | hx
      · rcases List.mem_or_eq_of_mem_set hx with hx | hx
        · exact hs x hx
        · rw [hx]
          exact hs sw (mem_of_getElem? hsw)
      · rw [hx]
        exact hs top (mem_of_getElem? htop)
    · cases h
  · cases h

end creation_order

section creation_order_objects

open data_flow

variable {σ : Type}

/-! ### The nodes -/

theorem data_flow.UpstreamsEarlier_append {nodes : List RawFlowNode}
    (h : UpstreamsEarlier nodes) {node : RawFlowNode} (hn : node.upstream = []) :
    UpstreamsEarlier (nodes ++ [node]) := by
  intro n N hN u hu
  by_cases hlt : n < nodes.length
  · rw [List.getElem?_append_left hlt] at hN
    exact h n N hN u hu
  · rw [List.getElem?_append_right (not_lt.mp hlt)] at hN
    have hN1 : N = node := by
      cases hk : n - nodes.length with
      | zero => rw [hk] at hN; simpa using hN.symm
      | succ k => rw [hk] at hN; simp at hN
    rw [hN1] at hu
    simp [RawFlowNode.From, hn] at hu

theorem data_flow.UpstreamsEarlier_AddUpstream {nodes nodes1 : List RawFlowNode}
    (h : UpstreamsEarlier nodes) {n : Nat} {ups : FlowNodeList} (hups : ListBelow n ups)
    (hadd : AddUpstream n ups nodes = some nodes1) :
    UpstreamsEarlier nodes1 ∧ nodes1.length = nodes.length := by
  obtain ⟨hlen, hother, hself⟩ := AddUpstream_spec n ups nodes nodes1 hadd
  refine ⟨?_, hlen⟩
  intro p N hN u hu
  by_cases hp : p = n
  · subst hp
    obtain ⟨N0, hN0, -, -, hfrom⟩ := hself N hN
    rcases hfrom u hu with hold | ⟨hmem, -⟩
    · exact h p N0 hN0 u hold
    · exact hups (some u) hmem u rfl
  · rw [hother p hp] at hN
    exact h p N hN u hu

/-! ### The mirror memory -/

theorem data_flow.memory.at_below {B : Nat} {m : memory} (hm : MapBelow B m.mem) (i : Nat) :
    PtrBelow B (m.at i) := PtrBelow_mapGet hm i

theorem data_flow.memory.Load_below {B : Nat} {m : memory} (hm : MapBelow B m.mem)
    {start length : Nat} {data : FlowNodeList} (h : m.Load start length = some data) :
    ListBelow B data := by
  unfold memory.Load at h
  split at h
  · cases h
    exact ListBelow_nil B
  · cases hw : words start length with
    | none => rw [hw] at h; cases h
    | some ws =>
        rw [hw] at h
        cases h
        apply filter_below
        intro v hv
        obtain ⟨i, -, hi⟩ := List.mem_map.mp hv
        rw [← hi]
        exact memory.at_below hm i

theorem data_flow.memory.storeWord_ok {nodes nodes1 : List RawFlowNode} {m m1 : memory}
    (hu : UpstreamsEarlier nodes) (hm : MapBelow nodes.length m.mem) {value : FlowNode}
    (hv : PtrBelow nodes.length value) {start bound index : Nat}
    (h : memory.storeWord start bound index value nodes m = some (nodes1, m1)) :
    UpstreamsEarlier nodes1 ∧ nodes.length ≤ nodes1.length ∧ MapBelow nodes1.length m1.mem := by
  unfold memory.storeWord at h
  split at h
  · cases value with
    | none =>
        simp only [Option.some.injEq, Prod.mk.injEq] at h
        obtain ⟨h1, h2⟩ := h
        subst h1 h2
        exact ⟨hu, le_refl _, MapBelow_mapSet hm _ (memory.at_below hm _)⟩
    | some v =>
        simp only at h
        cases hv1 : nodes[v]? with
        | none => rw [hv1] at h; cases h
        | some valueNode =>
            rw [hv1] at h
            simp only at h
            cases hadd : AddUpstream nodes.length [some v, m.at index]
                (nodes ++ [NewRawFlowNode valueNode.operation "memory_merge"]) with
            | none => rw [hadd] at h; cases h
            | some nodes2 =>
                rw [hadd] at h
                simp only [Option.some.injEq, Prod.mk.injEq] at h
                obtain ⟨h1, h2⟩ := h
                subst h1 h2
                have hups : ListBelow nodes.length [some v, m.at index] :=
                  ListBelow_cons hv (ListBelow_cons (memory.at_below hm _) (ListBelow_nil _))
                obtain ⟨hu2, hlen⟩ := UpstreamsEarlier_AddUpstream
                  (UpstreamsEarlier_append hu
                    (rfl : (NewRawFlowNode valueNode.operation "memory_merge").upstream = []))
                  hups hadd
                have hlen2 : nodes2.length = nodes.length + 1 := by
                  rw [hlen]
                  simp
                refine ⟨hu2, by omega, ?_⟩
                exact MapBelow_mapSet (hm.mono_map (by omega)) _
                  (PtrBelow_some (by omega))
  · simp only [Option.some.injEq, Prod.mk.injEq] at h
    obtain ⟨h1, h2⟩ := h
    subst h1 h2
    exact ⟨hu, le_refl _, MapBelow_mapSet hm _ hv⟩

theorem data_flow.memory.storeLoop_ok {start bound : Nat} {value : FlowNode} :
    ∀ (ws : List Nat) {nodes nodes1 : List RawFlowNode} {m m1 : memory},
      UpstreamsEarlier nodes → MapBelow nodes.length m.mem → PtrBelow nodes.length value →
      memory.storeLoop start bound value ws nodes m = some (nodes1, m1) →
      UpstreamsEarlier nodes1 ∧ nodes.length ≤ nodes1.length ∧
        MapBelow nodes1.length m1.mem := by
  intro ws
  induction ws with
  | nil =>
      intro nodes nodes1 m m1 hu hm _ h
      simp only [memory.storeLoop, Option.some.injEq, Prod.mk.injEq] at h
      obtain ⟨h1, h2⟩ := h
      subst h1 h2
      exact ⟨hu, le_refl _, hm⟩
  | cons i rest ih =>
      intro nodes nodes1 m m1 hu hm hv h
      unfold memory.storeLoop at h
      cases hw : memory.storeWord start bound i value nodes m with
      | none => rw [hw] at h; cases h
      | some r =>
          obtain ⟨nodes2, m2⟩ := r
          rw [hw] at h
          simp only at h
          obtain ⟨hu2, hl2, hm2⟩ := memory.storeWord_ok hu hm hv hw
          obtain ⟨hu3, hl3, hm3⟩ := ih hu2 hm2 (hv.mono_ptr hl2) h
          exact ⟨hu3, le_trans hl2 hl3, hm3⟩

theorem data_flow.memory.Store_ok {nodes nodes1 : List RawFlowNode} {m m1 : memory}
    (hu : UpstreamsEarlier nodes) (hm : MapBelow nodes.length m.mem) {value : FlowNode}
    (hv : PtrBelow nodes.length value) {start length : Nat}
    (h : m.Store start length value nodes = some (nodes1, m1)) :
    UpstreamsEarlier nodes1 ∧ nodes.length ≤ nodes1.length ∧ MapBelow nodes1.length m1.mem := by
  unfold memory.Store at h
  split at h
  · simp only [Option.some.injEq, Prod.mk.injEq] at h
    obtain ⟨h1, h2⟩ := h
    subst h1 h2
    exact ⟨hu, le_refl _, hm⟩
  · cases hw : words start length with
    | none => rw [hw] at h; cases h
    | some ws =>
        rw [hw] at h
        exact memory.storeLoop_ok ws hu hm hv h

theorem data_flow.memory.storeCallLoop_ok {data : List (Nat × FlowNode)}
    {destOffset bound : Nat} :
    ∀ (ws : List Nat) (index : Nat) {nodes nodes1 : List RawFlowNode} {m m1 : memory},
      UpstreamsEarlier nodes → MapBelow nodes.length m.mem → MapBelow nodes.length data →
      memory.storeCallLoop data destOffset bound ws index nodes m = some (nodes1, m1) →
      UpstreamsEarlier nodes1 ∧ nodes.length ≤ nodes1.length ∧
        MapBelow nodes1.length m1.mem := by
  intro ws
  induction ws with
  | nil =>
      intro index nodes nodes1 m m1 hu hm _ h
      simp only [memory.storeCallLoop, Option.some.injEq, Prod.mk.injEq] at h
      obtain ⟨h1, h2⟩ := h
      subst h1 h2
      exact ⟨hu, le_refl _, hm⟩
  | cons i rest ih =>
      intro index nodes nodes1 m m1 hu hm hd h
      unfold memory.storeCallLoop at h
      cases hw : memory.storeWord destOffset bound index (mapGet data i).join nodes m with
      | none => rw [hw] at h; cases h
      | some r =>
          obtain ⟨nodes2, m2⟩ := r
          rw [hw] at h
          simp only at h
          obtain ⟨hu2, hl2, hm2⟩ := memory.storeWord_ok hu hm (PtrBelow_mapGet hd i) hw
          obtain ⟨hu3, hl3, hm3⟩ := ih _ hu2 hm2 (hd.mono_map hl2) h
          exact ⟨hu3, le_trans hl2 hl3, hm3⟩

theorem data_flow.memory.StoreCallData_ok {nodes nodes1 : List RawFlowNode} {m m1 : memory}
    (hu : UpstreamsEarlier nodes) (hm : MapBelow nodes.length m.mem) {c : call}
    (hc : c.Below nodes.length) {destOffset offset length : Nat}
    (h : m.StoreCallData c destOffset offset length nodes = some (nodes1, m1)) :
    UpstreamsEarlier nodes1 ∧ nodes.length ≤ nodes1.length ∧ MapBelow nodes1.length m1.mem := by
  unfold memory.StoreCallData at h
  cases hw : words offset length with
  | none => rw [hw] at h; cases h
  | some ws =>
      rw [hw] at h
      exact memory.storeCallLoop_ok ws _ hu hm hc.2.1 h

theorem data_flow.memory.StoreCallReturnData_ok {nodes nodes1 : List RawFlowNode}
    {m m1 : memory} (hu : UpstreamsEarlier nodes) (hm : MapBelow nodes.length m.mem) {c : call}
    (hc : c.Below nodes.length) {destOffset offset length : Nat}
    (h : m.StoreCallReturnData c destOffset offset length nodes = some (nodes1, m1)) :
    UpstreamsEarlier nodes1 ∧ nodes.length ≤ nodes1.length ∧ MapBelow nodes1.length m1.mem := by
  unfold memory.StoreCallReturnData at h
  cases hw : words offset length with
  | none => rw [hw] at h; cases h
  | some ws =>
      rw [hw] at h
      exact memory.storeCallLoop_ok ws _ hu hm hc.2.2.1 h

/-! ### The call data -/

theorem data_flow.call.storeLoop_below {B : Nat} {m : memory} (hm : MapBelow B m.mem)
    (start : Nat) (ws : List Nat) :
    ∀ {data : List (Nat × FlowNode)}, MapBelow B data →
      MapBelow B (call.storeLoop m start ws data) := by
  unfold call.storeLoop
  induction ws with
  | nil => intro data hd; exact hd
  | cons w rest ih =>
      intro data hd
      rw [List.foldl_cons]
      exact ih (MapBelow_mapSet hd _ (memory.at_below hm w))

theorem data_flow.call.StoreData_below {B : Nat} {c c1 : call} (hc : c.Below B) {m : memory}
    (hm : MapBelow B m.mem) {offset length : Nat} (h : c.StoreData m offset length = some c1) :
    c1.Below B := by
  unfold call.StoreData at h
  split at h
  · cases h
    exact hc
  · cases hw : words offset length with
    | none => rw [hw] at h; cases h
    | some ws =>
        rw [hw] at h
        cases h
        exact ⟨hc.1, call.storeLoop_below hm _ ws hc.2.1, hc.2.2.1, hc.2.2.2.1, hc.2.2.2.2⟩

theorem data_flow.call.StoreReturnData_below {B : Nat} {c c1 : call} (hc : c.Below B)
    {m : memory} (hm : MapBelow B m.mem) {offset length : Nat}
    (h : c.StoreReturnData m offset length = some c1) : c1.Below B := by
  unfold call.StoreReturnData at h
  split at h
  · cases h
    exact hc
  · cases hw : words offset length with
    | none => rw [hw] at h; cases h
    | some ws =>
        rw [hw] at h
        cases h
        exact ⟨hc.1, hc.2.1, call.storeLoop_below hm _ ws hc.2.2.1, hc.2.2.2.1, hc.2.2.2.2⟩

theorem data_flow.call.orSource_below {B : Nat} {c : call} (hc : c.Below B)
    {values : FlowNodeList} (hv : ListBelow B values) : ListBelow B (c.orSource values) := by
  unfold call.orSource
  split
  · exact ListBelow_append hv (ListBelow_cons hc.2.2.2.2 (ListBelow_nil B))
  · exact hv

theorem data_flow.call.GetData_below {B : Nat} {c : call} (hc : c.Below B)
    {start length : Nat} {data : FlowNodeList} (h : c.GetData start length = some data) :
    ListBelow B data := by
  unfold call.GetData at h
  split at h
  · cases h
    exact ListBelow_nil B
  · cases hw : words start length with
    | none => rw [hw] at h; cases h
    | some ws =>
        rw [hw] at h
        cases h
        apply call.orSource_below hc
        apply filter_below
        intro v hv
        obtain ⟨i, -, hi⟩ := List.mem_map.mp hv
        rw [← hi]
        exact PtrBelow_mapGet hc.2.1 i

theorem data_flow.call.GetSuccess_below {B : Nat} {c : call} (hc : c.Below B) :
    PtrBelow B c.GetSuccess := by
  unfold call.GetSuccess
  split
  · exact hc.2.2.2.1
  · split
    · exact hc.2.2.2.2
    · exact hc.2.2.2.1

theorem data_flow.call.GetAllReturnData_below {B : Nat} {c : call} (hc : c.Below B) :
    ListBelow B c.GetAllReturnData := by
  unfold call.GetAllReturnData
  apply call.orSource_below hc
  apply filter_below
  intro v hv
  obtain ⟨e, he, hev⟩ := List.mem_map.mp hv
  rw [← hev]
  exact hc.2.2.1 e he

theorem data_flow.newCall_below (B : Nat) (pos : CallPosition) : (newCall pos).Below B :=
  ⟨PtrBelow_none B, MapBelow_nil B, MapBelow_nil B, PtrBelow_none B, PtrBelow_none B⟩

/-! ### The objects of an analyzer -/

theorem data_flow.World.Below.mono_objects {w : World σ} {B C : Nat} (h : w.Below B)
    (hBC : B ≤ C) : w.Below C :=
  ⟨fun col hcol => ⟨(h.1 col hcol).1.mono hBC, (h.1 col hcol).2.mono_map hBC⟩,
    fun s hs => (h.2.1 s hs).mono_map hBC,
    fun c hc => ⟨(h.2.2.1 c hc).1.mono_map hBC, (h.2.2.1 c hc).2.mono_map hBC⟩,
    fun c hc => ⟨(h.2.2.2 c hc).1.mono_ptr hBC, (h.2.2.2 c hc).2.1.mono_map hBC,
      (h.2.2.2 c hc).2.2.1.mono_map hBC, (h.2.2.2 c hc).2.2.2.1.mono_ptr hBC,
      (h.2.2.2 c hc).2.2.2.2.mono_ptr hBC⟩⟩

theorem data_flow.World.St.mono_state {w : World σ} {B C : Nat} (h : w.St B) (hBC : B ≤ C)
    (hC : C ≤ w.nodes.length) : w.St C :=
  ⟨h.1.mono_objects hBC, hC, h.2.2⟩

theorem data_flow.World.St.sound {w : World σ} {B : Nat} (h : w.St B) : w.Sound :=
  h.mono_state h.2.1 (le_refl _)

theorem data_flow.World.St.of_same {w w1 : World σ} {B : Nat} (h : w.St B)
    (hn : w1.nodes = w.nodes) (hs : w1.storages = w.storages) (hch : w1.chains = w.chains)
    (hc : w1.calls = w.calls) (hcol : w1.collections = w.collections) : w1.St B := by
  unfold World.St World.Below at *
  rw [hn, hs, hch, hc, hcol]
  exact h

theorem data_flow.World.collection_below {w : World σ} {B : Nat} (hw : w.St B) {c : Nat}
    {col : TrackerCollection} (h : w.collection c = some col) : col.Below B :=
  hw.1.1 col (mem_of_getElem? h)

theorem data_flow.World.setCollection_St {w : World σ} {B : Nat} (hw : w.St B) (c : Nat)
    {col : TrackerCollection} (hcol : col.Below B) : (w.setCollection c col).St B := by
  refine ⟨⟨?_, hw.1.2.1, hw.1.2.2.1, hw.1.2.2.2⟩, hw.2.1, hw.2.2⟩
  intro x hx
  rcases List.mem_or_eq_of_mem_set hx with hx | hx
  · exact hw.1.1 x hx
  · rw [hx]
    exact hcol

theorem data_flow.World.setCall_St {w : World σ} {B : Nat} (hw : w.St B) (p : Nat)
    {cd : call} (hcd : cd.Below B) : (w.setCall p cd).St B := by
  refine ⟨⟨hw.1.1, hw.1.2.1, hw.1.2.2.1, ?_⟩, hw.2.1, hw.2.2⟩
  intro x hx
  rcases List.mem_or_eq_of_mem_set hx with hx | hx
  · exact hw.1.2.2.2 x hx
  · rw [hx]
    exact hcd

theorem data_flow.World.AddUpstream_St {w w1 : World σ} {B : Nat} (hw : w.St B) {n : Nat}
    (hn : B ≤ n) {ups : FlowNodeList} (hups : ListBelow B ups)
    (h : w.AddUpstream (some n) ups = some w1) :
    w1.St B ∧ w1.nodes.length = w.nodes.length := by
  unfold World.AddUpstream at h
  simp only at h
  cases hadd : data_flow.AddUpstream n ups w.nodes with
  | none => rw [hadd] at h; cases h
  | some nodes1 =>
      rw [hadd] at h
      cases h
      obtain ⟨hu, hlen⟩ := UpstreamsEarlier_AddUpstream hw.2.2 (hups.mono hn) hadd
      exact ⟨⟨hw.1, by simp only [hlen]; exact hw.2.1, hu⟩, hlen⟩

theorem data_flow.World.MemoryLoad_below {w : World σ} {B : Nat} (hw : w.St B) {c : Nat}
    {start length : Nat} {data : FlowNodeList} (h : w.MemoryLoad c start length = some data) :
    ListBelow B data := by
  unfold World.MemoryLoad at h
  cases hc : w.collection c with
  | none => rw [hc] at h; cases h
  | some col =>
      rw [hc] at h
      exact memory.Load_below (World.collection_below hw hc).2 h

theorem data_flow.World.MemoryStore_Sound {w w1 : World σ} (hw : w.Sound) {c : Nat}
    {start length : Nat} {value : FlowNode} (hv : PtrBelow w.nodes.length value)
    (h : w.MemoryStore c start length value = some w1) :
    w1.Sound ∧ w.nodes.length ≤ w1.nodes.length := by
  unfold World.MemoryStore at h
  cases hc : w.collection c with
  | none => rw [hc] at h; cases h
  | some col =>
      rw [hc] at h
      simp only at h
      cases hs : col.Memory.Store start length value w.nodes with
      | none => rw [hs] at h; cases h
      | some r =>
          obtain ⟨nodes1, m1⟩ := r
          rw [hs] at h
          cases h
          have hcol := World.collection_below hw hc
          obtain ⟨hu, hl, hm⟩ := memory.Store_ok hw.2.2 hcol.2 hv hs
          have hb := World.Below.mono_objects (w := w) hw.1 hl
          refine ⟨⟨⟨?_, hb.2.1, hb.2.2.1, hb.2.2.2⟩, le_refl _, hu⟩, hl⟩
          intro x hx
          rcases List.mem_or_eq_of_mem_set hx with hx | hx
          · exact hb.1 x hx
          · rw [hx]
            exact ⟨hcol.1.mono hl, hm⟩

theorem data_flow.World.StorageLoad_below {w : World σ} {B : Nat} (hw : w.St B) {c : Nat}
    {key : Hash} {v : FlowNode} (h : w.StorageLoad c key = some v) : PtrBelow B v := by
  unfold World.StorageLoad at h
  cases hc : w.collection c with
  | none => rw [hc] at h; cases h
  | some col =>
      rw [hc] at h
      simp only at h
      cases hs : w.storages[col.Storage]? with
      | none => rw [hs] at h; cases h
      | some s =>
          rw [hs] at h
          cases h
          exact PtrBelow_mapGet (hw.1.2.1 s (mem_of_getElem? hs)) key

theorem data_flow.World.StorageStore_St {w w1 : World σ} {B : Nat} (hw : w.St B) {c : Nat}
    {key : Hash} {v : FlowNode} (hv : PtrBelow B v) (h : w.StorageStore c key v = some w1) :
    w1.St B ∧ w1.nodes = w.nodes := by
  unfold World.StorageStore at h
  cases hc : w.collection c with
  | none => rw [hc] at h; cases h
  | some col =>
      rw [hc] at h
      simp only at h
      cases hs : w.storages[col.Storage]? with
      | none => rw [hs] at h; cases h
      | some s =>
          rw [hs] at h
          cases h
          refine ⟨⟨⟨hw.1.1, ?_, hw.1.2.2.1, hw.1.2.2.2⟩, hw.2.1, hw.2.2⟩, rfl⟩
          intro x hx
          rcases List.mem_or_eq_of_mem_set hx with hx | hx
          · exact hw.1.2.1 x hx
          · rw [hx]
            exact MapBelow_mapSet (hw.1.2.1 s (mem_of_getElem? hs)) key hv

theorem data_flow.World.chainOf_below {w : World σ} {B : Nat} (hw : w.St B) {c : Nat}
    {pc : Nat × chain} (h : w.chainOf c = some pc) : pc.2.Below B := by
  unfold World.chainOf at h
  cases hc : w.collection c with
  | none => rw [hc] at h; cases h
  | some col =>
      rw [hc] at h
      simp only at h
      cases hch : col.Chain with
      | none => rw [hch] at h; cases h
      | some p =>
          rw [hch] at h
          simp only at h
          cases hs : w.chains[p]? with
          | none => rw [hs] at h; cases h
          | some ch =>
              rw [hs] at h
              cases h
              exact hw.1.2.2.1 ch (mem_of_getElem? hs)

theorem data_flow.World.GetBalance_below {w : World σ} {B : Nat} (hw : w.St B) {c : Nat}
    {addr : Address} {v : FlowNode} (h : w.GetBalance c addr = some v) : PtrBelow B v := by
  unfold World.GetBalance at h
  cases hc : w.chainOf c with
  | none => rw [hc] at h; cases h
  | some pc =>
      rw [hc] at h
      cases h
      exact PtrBelow_mapGet (World.chainOf_below hw hc).1 addr

theorem data_flow.World.GetCode_below {w : World σ} {B : Nat} (hw : w.St B) {c : Nat}
    {addr : Address} {v : FlowNode} (h : w.GetCode c addr = some v) : PtrBelow B v := by
  unfold World.GetCode at h
  cases hc : w.chainOf c with
  | none => rw [hc] at h; cases h
  | some pc =>
      rw [hc] at h
      cases h
      exact PtrBelow_mapGet (World.chainOf_below hw hc).2 addr

theorem data_flow.World.set_chains_St {w : World σ} {B : Nat} (hw : w.St B) (p : Nat)
    {ch : chain} (hch : ch.Below B) :
    ({ w with chains := w.chains.set p ch } : World σ).St B := by
  refine ⟨⟨hw.1.1, hw.1.2.1, ?_, hw.1.2.2.2⟩, hw.2.1, hw.2.2⟩
  intro x hx
  rcases List.mem_or_eq_of_mem_set hx with hx | hx
  · exact hw.1.2.2.1 x hx
  · rw [hx]
    exact hch

theorem data_flow.World.SetBalance_St {w w1 : World σ} {B : Nat} (hw : w.St B) {c : Nat}
    {addr : Address} {v : FlowNode} (hv : PtrBelow B v) (h : w.SetBalance c addr v = some w1) :
    w1.St B ∧ w1.nodes = w.nodes := by
  unfold World.SetBalance at h
  cases hc : w.chainOf c with
  | none => rw [hc] at h; cases h
  | some pc =>
      rw [hc] at h
      cases h
      have hb := World.chainOf_below hw hc
      exact ⟨World.set_chains_St hw _ ⟨MapBelow_mapSet hb.1 addr hv, hb.2⟩, rfl⟩

theorem data_flow.World.SetCode_St {w w1 : World σ} {B : Nat} (hw : w.St B) {c : Nat}
    {addr : Address} {v : FlowNode} (hv : PtrBelow B v) (h : w.SetCode c addr v = some w1) :
    w1.St B ∧ w1.nodes = w.nodes := by
  unfold World.SetCode at h
  cases hc : w.chainOf c with
  | none => rw [hc] at h; cases h
  | some pc =>
      rw [hc] at h
      cases h
      have hb := World.chainOf_below hw hc
      exact ⟨World.set_chains_St hw _ ⟨hb.1, MapBelow_mapSet hb.2 addr hv⟩, rfl⟩

theorem data_flow.World.callOf_below {w : World σ} {B : Nat} (hw : w.St B) {c : Nat}
    {pc : Nat × call} (h : w.callOf c = some pc) : pc.2.Below B := by
  unfold World.callOf at h
  cases hc : w.collection c with
  | none => rw [hc] at h; cases h
  | some col =>
      rw [hc] at h
      simp only at h
      cases hs : w.calls[col.Call]? with
      | none => rw [hs] at h; cases h
      | some cd =>
          rw [hs] at h
          cases h
          exact hw.1.2.2.2 cd (mem_of_getElem? hs)

theorem data_flow.World.childCallOf_below {w : World σ} {B : Nat} (hw : w.St B) {c : Nat}
    {pc : Nat × call} (h : w.childCallOf c = some pc) : pc.2.Below B := by
  unfold World.childCallOf at h
  cases hc : w.collection c with
  | none => rw [hc] at h; cases h
  | some col =>
      rw [hc] at h
      simp only at h
      cases hch : col.ChildCall with
      | none => rw [hch] at h; cases h
      | some p =>
          rw [hch] at h
          simp only at h
          cases hs : w.calls[p]? with
          | none => rw [hs] at h; cases h
          | some cd =>
              rw [hs] at h
              cases h
              exact hw.1.2.2.2 cd (mem_of_getElem? hs)

theorem data_flow.World.newChildCall_St {w w1 : World σ} {B : Nat} (hw : w.St B) {c : Nat}
    {pos : CallPosition} (h : w.newChildCall c pos = some w1) :
    w1.St B ∧ w1.nodes = w.nodes := by
  unfold World.newChildCall at h
  cases hc : w.collection c with
  | none => rw [hc] at h; cases h
  | some col =>
      rw [hc] at h
      cases h
      have hcol := World.collection_below hw hc
      refine ⟨⟨⟨?_, hw.1.2.1, hw.1.2.2.1, ?_⟩, hw.2.1, hw.2.2⟩, rfl⟩
      · intro x hx
        rcases List.mem_or_eq_of_mem_set hx with hx | hx
        · exact hw.1.1 x hx
        · rw [hx]
          exact hcol
      · intro x hx
        rcases List.mem_append.mp hx with hx | hx
        · exact hw.1.2.2.2 x hx
        · rw [List.mem_singleton.mp hx]
          exact newCall_below B pos

/-- What `StoreCallData` and `StoreCallReturnData` leave when their result is written back to
the collection. -/
theorem data_flow.World.storeCall_Sound {w : World σ} (hw : w.Sound) {c : Nat}
    {col : TrackerCollection} (hc : w.collection c = some col) {nodes1 : List RawFlowNode}
    {m1 : memory} (hu : UpstreamsEarlier nodes1) (hl : w.nodes.length ≤ nodes1.length)
    (hm : MapBelow nodes1.length m1.mem) :
    (World.setCollection { w with nodes := nodes1 } c { col with Memory := m1 }).Sound := by
  have hcol := World.collection_below hw hc
  have hbase : ({ w with nodes := nodes1 } : World σ).St nodes1.length :=
    ⟨World.Below.mono_objects (w := w) hw.1 hl, le_refl _, hu⟩
  exact World.setCollection_St hbase c ⟨hcol.1.mono hl, hm⟩

/-! ### The methods of an allocating analyzer -/

theorem data_flow.AnalyzerMethods.Allocating.recording {m : AnalyzerMethods σ}
    (h : m.Allocating) : m.recording.Allocating :=
  ⟨h.newFlowNode, h.checkOperation, fun view c v w => by
    have := h.sinkTainted view c v { w with notified := w.notified ++ [(c, v)] }
    exact this⟩

theorem data_flow.AnalyzerMethods.Allocating.NewFlowNode_St {m : AnalyzerMethods σ}
    (hA : m.Allocating) {w w1 : World σ} {B : Nat} (hw : w.St B) {view : CallView}
    {op : Operation} {node : FlowNode} (h : m.NewFlowNode view op w = (w1, node)) :
    node = some w.nodes.length ∧ w1.St B ∧ w1.nodes.length = w.nodes.length + 1 := by
  obtain ⟨N, hN, h2, hn, hs, hch, hc, hcol⟩ := hA.newFlowNode view op w
  rw [h] at h2 hn hs hch hc hcol
  simp only at h2 hn hs hch hc hcol
  refine ⟨h2, ?_, by rw [hn]; simp⟩
  unfold World.St World.Below
  rw [hn, hs, hch, hc, hcol]
  exact ⟨hw.1, by simp only [List.length_append]; have := hw.2.1; omega,
    UpstreamsEarlier_append hw.2.2 hN⟩

theorem data_flow.AnalyzerMethods.Allocating.CheckOperation_St {m : AnalyzerMethods σ}
    (hA : m.Allocating) {w w1 : World σ} {B : Nat} (hw : w.St B) {view : CallView}
    {op : Operation} {r : Bool × Bool} (h : m.CheckOperation view op w = (w1, r)) :
    w1.St B ∧ w1.nodes = w.nodes := by
  obtain ⟨hn, hs, hch, hc, hcol⟩ := hA.checkOperation view op w
  rw [h] at hn hs hch hc hcol
  exact ⟨hw.of_same hn hs hch hc hcol, hn⟩

theorem data_flow.AnalyzerMethods.Allocating.SinkTainted_St {m : AnalyzerMethods σ}
    (hA : m.Allocating) {w : World σ} {B : Nat} (hw : w.St B) (view : CallView) (c : Nat)
    (v : FlowNode) :
    (m.SinkTainted view c v w).St B ∧ (m.SinkTainted view c v w).nodes = w.nodes := by
  obtain ⟨hn, hs, hch, hc, hcol⟩ := hA.sinkTainted view c v w
  exact ⟨hw.of_same hn hs hch hc hcol, hn⟩

end creation_order_objects

section creation_order_flows

open data_flow

variable {σ : Type}

theorem data_flow.AnalyzerMethods.Allocating.check {m : AnalyzerMethods σ} (hA : m.Allocating)
    {w : World σ} {B : Nat} (hw : w.St B) (view : CallView) (op : Operation) :
    (m.CheckOperation view op w).1.St B ∧
      (m.CheckOperation view op w).1.nodes.length = w.nodes.length := by
  obtain ⟨h1, h2⟩ := hA.CheckOperation_St hw (rfl : m.CheckOperation view op w = (_, _))
  exact ⟨h1, by rw [h2]⟩

theorem data_flow.AnalyzerMethods.Allocating.new {m : AnalyzerMethods σ} (hA : m.Allocating)
    {w : World σ} {B : Nat} (hw : w.St B) (view : CallView) (op : Operation) :
    (m.NewFlowNode view op w).2 = some w.nodes.length ∧ (m.NewFlowNode view op w).1.St B ∧
      (m.NewFlowNode view op w).1.nodes.length = w.nodes.length + 1 :=
  hA.NewFlowNode_St hw (rfl : m.NewFlowNode view op w = (_, _))

theorem data_flow.AnalyzerMethods.Allocating.sink {m : AnalyzerMethods σ} (hA : m.Allocating)
    {w : World σ} {B : Nat} (hw : w.St B) (view : CallView) (c : Nat) (v : FlowNode) :
    (m.SinkTainted view c v w).St B ∧
      (m.SinkTainted view c v w).nodes.length = w.nodes.length := by
  obtain ⟨h1, h2⟩ := hA.SinkTainted_St hw view c v
  exact ⟨h1, by rw [h2]⟩

/-- The end of a flow function that returns no hook. -/
theorem data_flow.FlowOk.done {w wk w1 : World σ} {resk res1 : FlowNodeList}
    {hook : Option (PolicyHook σ)} {B : Nat} (hwk : wk.St B)
    (hl : w.nodes.length ≤ wk.nodes.length) (hres : ListBelow wk.nodes.length resk)
    (h : some (wk, resk, (none : Option (PolicyHook σ))) = some (w1, res1, hook)) :
    w1.Sound ∧ w.nodes.length ≤ w1.nodes.length ∧ ListBelow w1.nodes.length res1 ∧
      ∀ h, hook = some h → HookOk w1.nodes.length h := by
  simp only [Option.some.injEq, Prod.mk.injEq] at h
  obtain ⟨rfl, rfl, rfl⟩ := h
  exact ⟨hwk.sound, hl, hres, fun _ hh => by cases hh⟩

/-- The end of a flow function for a source: the new node is the result. -/
theorem data_flow.FlowOk.source {w wk w1 : World σ} {res res1 : FlowNodeList}
    {hook : Option (PolicyHook σ)} {B n : Nat} (hwk : wk.St B)
    (hl : w.nodes.length ≤ wk.nodes.length) (hres : ListBelow w.nodes.length res)
    (hn : n < wk.nodes.length)
    (h : (setResult res 0 (some n)).bind
      (fun r => some (wk, r, (none : Option (PolicyHook σ)))) = some (w1, res1, hook)) :
    w1.Sound ∧ w.nodes.length ≤ w1.nodes.length ∧ ListBelow w1.nodes.length res1 ∧
      ∀ h, hook = some h → HookOk w1.nodes.length h := by
  obtain ⟨res2, hr2, h⟩ := Option.bind_eq_some.mp h
  exact FlowOk.done hwk hl (setResult_below (hres.mono hl) (PtrBelow_some hn) hr2) h

theorem data_flow.noopFlow_ok : FlowOk (noopFlow : FlowFn σ) := by
  intro analyzer hA view scope c op args res w w1 res1 hook hw hargs hres h
  exact FlowOk.done hw (le_refl _) hres h

theorem data_flow.pushFlow_ok : FlowOk (pushFlow : FlowFn σ) := by
  intro analyzer hA view scope c op args res w w1 res1 hook hw hargs hres h
  unfold pushFlow at h
  simp only at h
  obtain ⟨hw2, hl2⟩ := hA.check hw view op
  generalize (analyzer.CheckOperation view op w).1 = w2 at h hw2 hl2
  split at h
  · obtain ⟨hnode, hw3, hl3⟩ := hA.new hw2 view op
    rw [hnode] at h
    generalize (analyzer.NewFlowNode view op w2).1 = w3 at h hw3 hl3
    exact FlowOk.source hw3 (by omega) hres (by omega) h
  · exact FlowOk.done hw2 (by omega) (hres.mono (by omega)) h

theorem data_flow.txConstReadToStackOpFlow_ok :
    FlowOk (txConstReadToStackOpFlow : FlowFn σ) := by
  intro analyzer hA view scope c op args res w w1 res1 hook hw hargs hres h
  unfold txConstReadToStackOpFlow at h
  simp only at h
  obtain ⟨hw2, hl2⟩ := hA.check hw view op
  generalize (analyzer.CheckOperation view op w).1 = w2 at h hw2 hl2
  split at h
  · obtain ⟨hnode, hw3, hl3⟩ := hA.new hw2 view op
    rw [hnode] at h
    generalize (analyzer.NewFlowNode view op w2).1 = w3 at h hw3 hl3
    exact FlowOk.source hw3 (by omega) hres (by omega) h
  · exact FlowOk.done hw2 (by omega) (hres.mono (by omega)) h

theorem data_flow.dupFlow_ok : FlowOk (dupFlow : FlowFn σ) := by
  intro analyzer hA view scope c op args res w w1 res1 hook hw hargs hres h
  unfold dupFlow at h
  simp only at h
  obtain ⟨col, hcol, h⟩ := Option.bind_eq_some.mp h
  obtain ⟨v, hv, h⟩ := Option.bind_eq_some.mp h
  obtain ⟨res2, hr2, h⟩ := Option.bind_eq_some.mp h
  have hres2 : ListBelow w.nodes.length res2 :=
    setResult_below hres (stack.Get_below (World.collection_below hw hcol).1 hv) hr2
  obtain ⟨hw2, hl2⟩ := hA.check hw view op
  generalize (analyzer.CheckOperation view op w).1 = w2 at h hw2 hl2
  split at h
  · obtain ⟨hnode, hw3, hl3⟩ := hA.new hw2 view op
    rw [hnode] at h
    generalize (analyzer.NewFlowNode view op w2).1 = w3 at h hw3 hl3
    exact FlowOk.source hw3 (by omega) hres2 (by omega) h
  · exact FlowOk.done hw2 (by omega) (hres2.mono (by omega)) h

theorem data_flow.swapFlow_ok : FlowOk (swapFlow : FlowFn σ) := by
  intro analyzer hA view scope c op args res w w1 res1 hook hw hargs hres h
  unfold swapFlow at h
  simp only at h
  obtain ⟨col, hcol, h⟩ := Option.bind_eq_some.mp h
  obtain ⟨st, hst, h⟩ := Option.bind_eq_some.mp h
  have hc := World.collection_below hw hcol
  exact FlowOk.done
    (World.setCollection_St hw c
      (⟨stack.swap_below hc.1 hst, hc.2⟩ : TrackerCollection.Below _ { col with Stack := st }))
    (le_refl _) hres h

theorem data_flow.logFlow_ok : FlowOk (logFlow : FlowFn σ) := by
  intro analyzer hA view scope c op args res w w1 res1 hook hw hargs hres h
  unfold logFlow at h
  simp only at h
  obtain ⟨hw2, hl2⟩ := hA.check hw view op
  generalize (analyzer.CheckOperation view op w).1 = w2 at h hw2 hl2
  split at h
  · obtain ⟨offset, -, h⟩ := Option.bind_eq_some.mp h
    obtain ⟨length, -, h⟩ := Option.bind_eq_some.mp h
    obtain ⟨data, hdata, h⟩ := Option.bind_eq_some.mp h
    obtain ⟨topics, htopics, h⟩ := Option.bind_eq_some.mp h
    have hd := World.MemoryLoad_below hw2 hdata
    have ht := FlowNodeList.BackSlice1_below hargs htopics
    split at h
    · obtain ⟨hnode, hw3, hl3⟩ := hA.new hw2 view op
      rw [hnode] at h
      generalize (analyzer.NewFlowNode view op w2).1 = w3 at h hw3 hl3
      obtain ⟨w4, ha4, h⟩ := Option.bind_eq_some.mp h
      obtain ⟨hw4, hl4⟩ := World.AddUpstream_St hw3 (by omega) ht ha4
      obtain ⟨w5, ha5, h⟩ := Option.bind_eq_some.mp h
      obtain ⟨hw5, hl5⟩ := World.AddUpstream_St hw4 (by omega) hd ha5
      obtain ⟨hw6, hl6⟩ := hA.sink hw5 view c (some w2.nodes.length)
      exact FlowOk.done hw6 (by omega) (hres.mono (by omega)) h
    · exact FlowOk.done hw2 (by omega) (hres.mono (by omega)) h
  · exact FlowOk.done hw2 (by omega) (hres.mono (by omega)) h

theorem data_flow.pureOpFlow_ok : FlowOk (pureOpFlow : FlowFn σ) := by
  intro analyzer hA view scope c op args res w w1 res1 hook hw hargs hres h
  unfold pureOpFlow at h
  simp only at h
  obtain ⟨hw2, hl2⟩ := hA.check hw view op
  generalize (analyzer.CheckOperation view op w).1 = w2 at h hw2 hl2
  obtain ⟨hnode, hw3, hl3⟩ := hA.new hw2 view op
  rw [hnode] at h
  generalize (analyzer.NewFlowNode view op w2).1 = w3 at h hw3 hl3
  split at h
  · obtain ⟨res2, hr2, h⟩ := Option.bind_eq_some.mp h
    obtain ⟨w4, ha4, h⟩ := Option.bind_eq_some.mp h
    obtain ⟨hw4, hl4⟩ := World.AddUpstream_St hw3 (by omega) hargs ha4
    have hres2 : ListBelow w4.nodes.length res2 :=
      setResult_below (hres.mono (by omega)) (PtrBelow_some (by omega)) hr2
    split at h
    · obtain ⟨hw5, hl5⟩ := hA.sink hw4 view c (some w2.nodes.length)
      exact FlowOk.done hw5 (by omega) (by rw [hl5]; exact hres2) h
    · exact FlowOk.done hw4 (by omega) hres2 h
  · split at h
    · exact FlowOk.source hw3 (by omega) hres (by omega) h
    · exact FlowOk.done hw2 (by omega) (hres.mono (by omega)) h

theorem data_flow.hashOpFlow_ok : FlowOk (hashOpFlow : FlowFn σ) := by
  intro analyzer hA view scope c op args res w w1 res1 hook hw hargs hres h
  unfold hashOpFlow at h
  simp only at h
  obtain ⟨hw2, hl2⟩ := hA.check hw view op
  generalize (analyzer.CheckOperation view op w).1 = w2 at h hw2 hl2
  obtain ⟨arg0, -, h⟩ := Option.bind_eq_some.mp h
  obtain ⟨arg1, -, h⟩ := Option.bind_eq_some.mp h
  obtain ⟨payload, hp, h⟩ := Option.bind_eq_some.mp h
  have hpb := World.MemoryLoad_below hw2 hp
  obtain ⟨hnode, hw3, hl3⟩ := hA.new hw2 view op
  rw [hnode] at h
  generalize (analyzer.NewFlowNode view op w2).1 = w3 at h hw3 hl3
  split at h
  · obtain ⟨res2, hr2, h⟩ := Option.bind_eq_some.mp h
    obtain ⟨w4, ha4, h⟩ := Option.bind_eq_some.mp h
    obtain ⟨hw4, hl4⟩ := World.AddUpstream_St hw3 (by omega) hpb ha4
    have hres2 : ListBelow w4.nodes.length res2 :=
      setResult_below (hres.mono (by omega)) (PtrBelow_some (by omega)) hr2
    split at h
    · obtain ⟨hw5, hl5⟩ := hA.sink hw4 view c (some w2.nodes.length)
      exact FlowOk.done hw5 (by omega) (by rw [hl5]; exact hres2) h
    · exact FlowOk.done hw4 (by omega) hres2 h
  · split at h
    · exact FlowOk.source hw3 (by omega) hres (by omega) h
    · exact FlowOk.done hw2 (by omega) (hres.mono (by omega)) h

theorem data_flow.balanceFlowFactory_ok (addr : Address) :
    FlowOk (balanceFlowFactory addr : FlowFn σ) := by
  intro analyzer hA view scope c op args res w w1 res1 hook hw hargs hres h
  unfold balanceFlowFactory at h
  simp only at h
  obtain ⟨hw2, hl2⟩ := hA.check hw view op
  generalize (analyzer.CheckOperation view op w).1 = w2 at h hw2 hl2
  obtain ⟨bal, hbal, h⟩ := Option.bind_eq_some.mp h
  have hb := World.GetBalance_below hw2 hbal
  obtain ⟨hnode, hw3, hl3⟩ := hA.new hw2 view op
  rw [hnode] at h
  generalize (analyzer.NewFlowNode view op w2).1 = w3 at h hw3 hl3
  split at h
  · obtain ⟨res2, hr2, h⟩ := Option.bind_eq_some.mp h
    obtain ⟨w4, ha4, h⟩ := Option.bind_eq_some.mp h
    obtain ⟨hw4, hl4⟩ := World.AddUpstream_St hw3 (by omega) hargs ha4
    obtain ⟨w5, ha5, h⟩ := Option.bind_eq_some.mp h
    obtain ⟨hw5, hl5⟩ := World.AddUpstream_St hw4 (by omega)
      (ListBelow_cons hb (ListBelow_nil _)) ha5
    have hres2 : ListBelow w5.nodes.length res2 :=
      setResult_below (hres.mono (by omega)) (PtrBelow_some (by omega)) hr2
    split at h
    · obtain ⟨hw6, hl6⟩ := hA.sink hw5 view c (some w2.nodes.length)
      exact FlowOk.done hw6 (by omega) (by rw [hl6]; exact hres2) h
    · exact FlowOk.done hw5 (by omega) hres2 h
  · split at h
    · exact FlowOk.source hw3 (by omega) hres (by omega) h
    · exact FlowOk.done hw2 (by omega) (hres.mono (by omega)) h

theorem data_flow.balanceFlow_ok : FlowOk (balanceFlow : FlowFn σ) := by
  intro analyzer hA view scope c op args res w w1 res1 hook hw hargs hres h
  unfold balanceFlow at h
  obtain ⟨top, -, h⟩ := Option.bind_eq_some.mp h
  exact balanceFlowFactory_ok _ analyzer hA view scope c op args res w w1 res1 hook hw hargs
    hres h

theorem data_flow.selfBalanceFlow_ok : FlowOk (selfBalanceFlow : FlowFn σ) := by
  intro analyzer hA view scope c op args res w w1 res1 hook hw hargs hres h
  exact balanceFlowFactory_ok _ analyzer hA view scope c op args res w w1 res1 hook hw hargs
    hres h

theorem data_flow.codeReadToStackOpFlowFactory_ok (addr : Address) :
    FlowOk (codeReadToStackOpFlowFactory addr : FlowFn σ) := by
  intro analyzer hA view scope c op args res w w1 res1 hook hw hargs hres h
  unfold codeReadToStackOpFlowFactory at h
  simp only at h
  obtain ⟨hw2, hl2⟩ := hA.check hw view op
  generalize (analyzer.CheckOperation view op w).1 = w2 at h hw2 hl2
  obtain ⟨code, hcode, h⟩ := Option.bind_eq_some.mp h
  have hb := World.GetCode_below hw2 hcode
  obtain ⟨hnode, hw3, hl3⟩ := hA.new hw2 view op
  rw [hnode] at h
  generalize (analyzer.NewFlowNode view op w2).1 = w3 at h hw3 hl3
  split at h
  · obtain ⟨res2, hr2, h⟩ := Option.bind_eq_some.mp h
    obtain ⟨w4, ha4, h⟩ := Option.bind_eq_some.mp h
    obtain ⟨hw4, hl4⟩ := World.AddUpstream_St hw3 (by omega) hargs ha4
    obtain ⟨w5, ha5, h⟩ := Option.bind_eq_some.mp h
    obtain ⟨hw5, hl5⟩ := World.AddUpstream_St hw4 (by omega)
      (ListBelow_cons hb (ListBelow_nil _)) ha5
    have hres2 : ListBelow w5.nodes.length res2 :=
      setResult_below (hres.mono (by omega)) (PtrBelow_some (by omega)) hr2
    split at h
    · obtain ⟨hw6, hl6⟩ := hA.sink hw5 view c (some w2.nodes.length)
      exact FlowOk.done hw6 (by omega) (by rw [hl6]; exact hres2) h
    · exact FlowOk.done hw5 (by omega) hres2 h
  · split at h
    · exact FlowOk.source hw3 (by omega) hres (by omega) h
    · exact FlowOk.done hw2 (by omega) (hres.mono (by omega)) h

theorem data_flow.codeSizeFlow_ok : FlowOk (codeSizeFlow : FlowFn σ) := by
  intro analyzer hA view scope c op args res w w1 res1 hook hw hargs hres h
  unfold codeSizeFlow at h
  obtain ⟨addr, -, h⟩ := Option.bind_eq_some.mp h
  exact codeReadToStackOpFlowFactory_ok _ analyzer hA view scope c op args res w w1 res1 hook
    hw hargs hres h

theorem data_flow.extCodeSizeFlow_ok : FlowOk (extCodeSizeFlow : FlowFn σ) := by
  intro analyzer hA view scope c op args res w w1 res1 hook hw hargs hres h
  unfold extCodeSizeFlow at h
  obtain ⟨addr, -, h⟩ := Option.bind_eq_some.mp h
  exact codeReadToStackOpFlowFactory_ok _ analyzer hA view scope c op args res w w1 res1 hook
    hw hargs hres h

theorem data_flow.extCodeHashFlow_ok : FlowOk (extCodeHashFlow : FlowFn σ) := by
  intro analyzer hA view scope c op args res w w1 res1 hook hw hargs hres h
  unfold extCodeHashFlow at h
  obtain ⟨addr, -, h⟩ := Option.bind_eq_some.mp h
  exact codeReadToStackOpFlowFactory_ok _ analyzer hA view scope c op args res w w1 res1 hook
    hw hargs hres h

/-- The end of a flow function that stores a value to the mirror memory. -/
theorem data_flow.FlowOk.stored {w wk w1 : World σ} {res res1 : FlowNodeList}
    {hook : Option (PolicyHook σ)} {B : Nat} (hwk : wk.St B)
    (hl : w.nodes.length ≤ wk.nodes.length) (hres : ListBelow w.nodes.length res) {c : Nat}
    {start length : Nat} {value : FlowNode} (hv : PtrBelow wk.nodes.length value)
    (h : (wk.MemoryStore c start length value).bind
      (fun w2 => some (w2, res, (none : Option (PolicyHook σ)))) = some (w1, res1, hook)) :
    w1.Sound ∧ w.nodes.length ≤ w1.nodes.length ∧ ListBelow w1.nodes.length res1 ∧
      ∀ h, hook = some h → HookOk w1.nodes.length h := by
  obtain ⟨w2, hs, h⟩ := Option.bind_eq_some.mp h
  obtain ⟨hw2, hl2⟩ := World.MemoryStore_Sound hwk.sound hv hs
  exact FlowOk.done hw2 (by omega) (hres.mono (by omega)) h

theorem data_flow.codeReadToMemoryOpFlowFactory_ok (addr : Address)
    (destOffset offset length : Nat) :
    FlowOk (codeReadToMemoryOpFlowFactory addr destOffset offset length : FlowFn σ) := by
  intro analyzer hA view scope c op args res w w1 res1 hook hw hargs hres h
  unfold codeReadToMemoryOpFlowFactory at h
  simp only at h
  obtain ⟨code, hcode, h⟩ := Option.bind_eq_some.mp h
  have hb := World.GetCode_below hw hcode
  split at h
  · obtain ⟨hnode, hw3, hl3⟩ := hA.new hw view op
    rw [hnode] at h
    generalize (analyzer.NewFlowNode view op w).1 = w3 at h hw3 hl3
    obtain ⟨w4, ha4, h⟩ := Option.bind_eq_some.mp h
    obtain ⟨hw4, hl4⟩ := World.AddUpstream_St hw3 (le_refl _) hargs ha4
    obtain ⟨w5, ha5, h⟩ := Option.bind_eq_some.mp h
    obtain ⟨hw5, hl5⟩ := World.AddUpstream_St hw4 (le_refl _)
      (ListBelow_cons hb (ListBelow_nil _)) ha5
    exact FlowOk.stored hw5 (by omega) hres (PtrBelow_some (by omega)) h
  · split at h
    · exact FlowOk.stored hw (le_refl _) hres hb h
    · obtain ⟨hw2, hl2⟩ := hA.check hw view op
      generalize (analyzer.CheckOperation view op w).1 = w2 at h hw2 hl2
      split at h
      · obtain ⟨hnode, hw3, hl3⟩ := hA.new hw2 view op
        rw [hnode] at h
        generalize (analyzer.NewFlowNode view op w2).1 = w3 at h hw3 hl3
        exact FlowOk.stored hw3 (by omega) hres (PtrBelow_some (by omega)) h
      · exact FlowOk.stored hw2 (by omega) hres (PtrBelow_none _) h

theorem data_flow.codeCopyFlow_ok : FlowOk (codeCopyFlow : FlowFn σ) := by
  intro analyzer hA view scope c op args res w w1 res1 hook hw hargs hres h
  unfold codeCopyFlow at h
  obtain ⟨addr, -, h⟩ := Option.bind_eq_some.mp h
  obtain ⟨d, -, h⟩ := Option.bind_eq_some.mp h
  obtain ⟨o, -, h⟩ := Option.bind_eq_some.mp h
  obtain ⟨l, -, h⟩ := Option.bind_eq_some.mp h
  exact codeReadToMemoryOpFlowFactory_ok _ _ _ _ analyzer hA view scope c op args res w w1 res1
    hook hw hargs hres h

theorem data_flow.extCodeCopyFlow_ok : FlowOk (extCodeCopyFlow : FlowFn σ) := by
  intro analyzer hA view scope c op args res w w1 res1 hook hw hargs hres h
  unfold extCodeCopyFlow at h
  obtain ⟨addr, -, h⟩ := Option.bind_eq_some.mp h
  obtain ⟨d, -, h⟩ := Option.bind_eq_some.mp h
  obtain ⟨o, -, h⟩ := Option.bind_eq_some.mp h
  obtain ⟨l, -, h⟩ := Option.bind_eq_some.mp h
  exact codeReadToMemoryOpFlowFactory_ok _ _ _ _ analyzer hA view scope c op args res w w1 res1
    hook hw hargs hres h

theorem data_flow.callValueFlow_ok : FlowOk (callValueFlow : FlowFn σ) := by
  intro analyzer hA view scope c op args res w w1 res1 hook hw hargs hres h
  unfold callValueFlow at h
  simp only at h
  obtain ⟨pc, hpc, h⟩ := Option.bind_eq_some.mp h
  have hcd := World.callOf_below hw hpc
  split at h
  · obtain ⟨res2, hr2, h⟩ := Option.bind_eq_some.mp h
    exact FlowOk.done hw (le_refl _) (setResult_below hres hcd.1 hr2) h
  · obtain ⟨hw2, hl2⟩ := hA.check hw view op
    generalize (analyzer.CheckOperation view op w).1 = w2 at h hw2 hl2
    split at h
    · obtain ⟨hnode, hw3, hl3⟩ := hA.new hw2 view op
      rw [hnode] at h
      generalize (analyzer.NewFlowNode view op w2).1 = w3 at h hw3 hl3
      exact FlowOk.source hw3 (by omega) hres (by omega) h
    · exact FlowOk.done hw2 (by omega) (hres.mono (by omega)) h

theorem data_flow.callDataLoadFlow_ok : FlowOk (callDataLoadFlow : FlowFn σ) := by
  intro analyzer hA view scope c op args res w w1 res1 hook hw hargs hres h
  unfold callDataLoadFlow at h
  simp only at h
  obtain ⟨start, -, h⟩ := Option.bind_eq_some.mp h
  obtain ⟨pc, hpc, h⟩ := Option.bind_eq_some.mp h
  obtain ⟨data, hdata, h⟩ := Option.bind_eq_some.mp h
  have hd := call.GetData_below (World.callOf_below hw hpc) hdata
  split at h
  · obtain ⟨hnode, hw3, hl3⟩ := hA.new hw view op
    rw [hnode] at h
    generalize (analyzer.NewFlowNode view op w).1 = w3 at h hw3 hl3
    obtain ⟨w4, ha4, h⟩ := Option.bind_eq_some.mp h
    obtain ⟨hw4, hl4⟩ := World.AddUpstream_St hw3 (le_refl _) hd ha4
    obtain ⟨w5, ha5, h⟩ := Option.bind_eq_some.mp h
    obtain ⟨hw5, hl5⟩ := World.AddUpstream_St hw4 (le_refl _) hargs ha5
    exact FlowOk.source hw5 (by omega) hres (by omega) h
  · obtain ⟨hw2, hl2⟩ := hA.check hw view op
    generalize (analyzer.CheckOperation view op w).1 = w2 at h hw2 hl2
    split at h
    · obtain ⟨hnode, hw3, hl3⟩ := hA.new hw2 view op
      rw [hnode] at h
      generalize (analyzer.NewFlowNode view op w2).1 = w3 at h hw3 hl3
      exact FlowOk.source hw3 (by omega) hres (by omega) h
    · exact FlowOk.done hw2 (by omega) (hres.mono (by omega)) h

end creation_order_flows

section creation_order_flows2

open data_flow

variable {σ : Type}

theorem data_flow.copySource_ok {analyzer : AnalyzerMethods σ} (hA : analyzer.Allocating)
    {view : CallView} {c : Nat} {op : Operation} {destOffset length : Nat}
    {res res1 : FlowNodeList} {w w1 : World σ} {hook : Option (PolicyHook σ)} (hw : w.Sound)
    (hres : ListBelow w.nodes.length res)
    (h : copySource analyzer view c op destOffset length res w = some (w1, res1, hook)) :
    w1.Sound ∧ w.nodes.length ≤ w1.nodes.length ∧ ListBelow w1.nodes.length res1 ∧
      ∀ h, hook = some h → HookOk w1.nodes.length h := by
  unfold copySource at h
  simp only at h
  obtain ⟨hw2, hl2⟩ := hA.check hw view op
  generalize (analyzer.CheckOperation view op w).1 = w2 at h hw2 hl2
  split at h
  · obtain ⟨mem, -, h⟩ := Option.bind_eq_some.mp h
    split at h
    · obtain ⟨hnode, hw3, hl3⟩ := hA.new hw2 view op
      rw [hnode] at h
      generalize (analyzer.NewFlowNode view op w2).1 = w3 at h hw3 hl3
      exact FlowOk.stored hw3 (by omega) hres (PtrBelow_some (by omega)) h
    · exact FlowOk.done hw2 (by omega) (hres.mono (by omega)) h
  · exact FlowOk.done hw2 (by omega) (hres.mono (by omega)) h

theorem data_flow.callDataCopyFlow_ok : FlowOk (callDataCopyFlow : FlowFn σ) := by
  intro analyzer hA view scope c op args res w w1 res1 hook hw hargs hres h
  unfold callDataCopyFlow at h
  simp only at h
  obtain ⟨d, -, h⟩ := Option.bind_eq_some.mp h
  obtain ⟨o, -, h⟩ := Option.bind_eq_some.mp h
  obtain ⟨l, -, h⟩ := Option.bind_eq_some.mp h
  obtain ⟨col, hcol, h⟩ := Option.bind_eq_some.mp h
  obtain ⟨pc, hpc, h⟩ := Option.bind_eq_some.mp h
  obtain ⟨r, hr, h⟩ := Option.bind_eq_some.mp h
  obtain ⟨nodes1, m1⟩ := r
  obtain ⟨hu, hl, hm⟩ := memory.StoreCallData_ok hw.2.2 (World.collection_below hw hcol).2
    (World.callOf_below hw hpc) hr
  have hs := World.storeCall_Sound hw hcol hu hl hm
  obtain ⟨h1, h2, h3, h4⟩ := copySource_ok hA hs (hres.mono hl) h
  exact ⟨h1, le_trans hl h2, h3, h4⟩

theorem data_flow.returnDataCopyFlow_ok : FlowOk (returnDataCopyFlow : FlowFn σ) := by
  intro analyzer hA view scope c op args res w w1 res1 hook hw hargs hres h
  unfold returnDataCopyFlow at h
  simp only at h
  obtain ⟨d, -, h⟩ := Option.bind_eq_some.mp h
  obtain ⟨o, -, h⟩ := Option.bind_eq_some.mp h
  obtain ⟨l, -, h⟩ := Option.bind_eq_some.mp h
  obtain ⟨col, hcol, h⟩ := Option.bind_eq_some.mp h
  obtain ⟨pc, hpc, h⟩ := Option.bind_eq_some.mp h
  obtain ⟨r, hr, h⟩ := Option.bind_eq_some.mp h
  obtain ⟨nodes1, m1⟩ := r
  obtain ⟨hu, hl, hm⟩ := memory.StoreCallReturnData_ok hw.2.2
    (World.collection_below hw hcol).2 (World.childCallOf_below hw hpc) hr
  have hs := World.storeCall_Sound hw hcol hu hl hm
  obtain ⟨h1, h2, h3, h4⟩ := copySource_ok hA hs (hres.mono hl) h
  exact ⟨h1, le_trans hl h2, h3, h4⟩

theorem data_flow.mloadFlow_ok : FlowOk (mloadFlow : FlowFn σ) := by
  intro analyzer hA view scope c op args res w w1 res1 hook hw hargs hres h
  unfold mloadFlow at h
  simp only at h
  obtain ⟨hw2, hl2⟩ := hA.check hw view op
  generalize (analyzer.CheckOperation view op w).1 = w2 at h hw2 hl2
  obtain ⟨start, -, h⟩ := Option.bind_eq_some.mp h
  obtain ⟨data, hdata, h⟩ := Option.bind_eq_some.mp h
  have hd := World.MemoryLoad_below hw2 hdata
  obtain ⟨hnode, hw3, hl3⟩ := hA.new hw2 view op
  rw [hnode] at h
  generalize (analyzer.NewFlowNode view op w2).1 = w3 at h hw3 hl3
  split at h
  · obtain ⟨w4, ha4, h⟩ := Option.bind_eq_some.mp h
    obtain ⟨hw4, hl4⟩ := World.AddUpstream_St hw3 (by omega) hd ha4
    obtain ⟨w5, ha5, h⟩ := Option.bind_eq_some.mp h
    obtain ⟨hw5, hl5⟩ := World.AddUpstream_St hw4 (by omega) hargs ha5
    obtain ⟨res2, hr2, h⟩ := Option.bind_eq_some.mp h
    have hres2 : ListBelow w5.nodes.length res2 :=
      setResult_below (hres.mono (by omega)) (PtrBelow_some (by omega)) hr2
    split at h
    · obtain ⟨hw6, hl6⟩ := hA.sink hw5 view c (some w2.nodes.length)
      exact FlowOk.done hw6 (by omega) (by rw [hl6]; exact hres2) h
    · exact FlowOk.done hw5 (by omega) hres2 h
  · split at h
    · exact FlowOk.source hw3 (by omega) hres (by omega) h
    · exact FlowOk.done hw2 (by omega) (hres.mono (by omega)) h

theorem data_flow.mstoreFlowOf_ok (length : Nat) : FlowOk (mstoreFlowOf length : FlowFn σ) := by
  intro analyzer hA view scope c op args res w w1 res1 hook hw hargs hres h
  unfold mstoreFlowOf at h
  simp only at h
  obtain ⟨start, -, h⟩ := Option.bind_eq_some.mp h
  obtain ⟨value, hvalue, h⟩ := Option.bind_eq_some.mp h
  obtain ⟨wm, hwm, h⟩ := Option.bind_eq_some.mp h
  obtain ⟨hwm1, hlm⟩ := World.MemoryStore_Sound hw (FlowNodeList.Back_below hargs hvalue) hwm
  obtain ⟨hw2, hl2⟩ := hA.check hwm1 view op
  generalize (analyzer.CheckOperation view op wm).1 = w2 at h hw2 hl2
  split at h
  · split at h
    · obtain ⟨hnode, hw3, hl3⟩ := hA.new hw2 view op
      rw [hnode] at h
      generalize (analyzer.NewFlowNode view op w2).1 = w3 at h hw3 hl3
      exact FlowOk.stored hw3 (by omega) hres (PtrBelow_some (by omega)) h
    · exact FlowOk.done hw2 (by omega) (hres.mono (by omega)) h
  · exact FlowOk.done hw2 (by omega) (hres.mono (by omega)) h

theorem data_flow.mstoreFlow_ok : FlowOk (mstoreFlow : FlowFn σ) := mstoreFlowOf_ok 32

theorem data_flow.mstore8Flow_ok : FlowOk (mstore8Flow : FlowFn σ) := mstoreFlowOf_ok 1

theorem data_flow.sloadFlow_ok : FlowOk (sloadFlow : FlowFn σ) := by
  intro analyzer hA view scope c op args res w w1 res1 hook hw hargs hres h
  unfold sloadFlow at h
  simp only at h
  obtain ⟨hw2, hl2⟩ := hA.check hw view op
  generalize (analyzer.CheckOperation view op w).1 = w2 at h hw2 hl2
  obtain ⟨key, -, h⟩ := Option.bind_eq_some.mp h
  obtain ⟨value, -, h⟩ := Option.bind_eq_some.mp h
  obtain ⟨hnode, hw3, hl3⟩ := hA.new hw2 view op
  rw [hnode] at h
  generalize (analyzer.NewFlowNode view op w2).1 = w3 at h hw3 hl3
  split at h
  · obtain ⟨loaded, hloaded, h⟩ := Option.bind_eq_some.mp h
    have hlb := World.StorageLoad_below hw3 hloaded
    obtain ⟨w4, ha4, h⟩ := Option.bind_eq_some.mp h
    obtain ⟨hw4, hl4⟩ := World.AddUpstream_St hw3 (by omega)
      (ListBelow_cons hlb (ListBelow_nil _)) ha4
    obtain ⟨w5, ha5, h⟩ := Option.bind_eq_some.mp h
    obtain ⟨hw5, hl5⟩ := World.AddUpstream_St hw4 (by omega) hargs ha5
    obtain ⟨res2, hr2, h⟩ := Option.bind_eq_some.mp h
    have hres2 : ListBelow w5.nodes.length res2 :=
      setResult_below (hres.mono (by omega)) (PtrBelow_some (by omega)) hr2
    split at h
    · obtain ⟨hw6, hl6⟩ := hA.sink hw5 view c (some w2.nodes.length)
      exact FlowOk.done hw6 (by omega) (by rw [hl6]; exact hres2) h
    · exact FlowOk.done hw5 (by omega) hres2 h
  · split at h
    · exact FlowOk.source hw3 (by omega) hres (by omega) h
    · exact FlowOk.done hw2 (by omega) (hres.mono (by omega)) h

theorem data_flow.sstoreFlow_ok : FlowOk (sstoreFlow : FlowFn σ) := by
  intro analyzer hA view scope c op args res w w1 res1 hook hw hargs hres h
  unfold sstoreFlow at h
  simp only at h
  obtain ⟨hw2, hl2⟩ := hA.check hw view op
  generalize (analyzer.CheckOperation view op w).1 = w2 at h hw2 hl2
  obtain ⟨key, -, h⟩ := Option.bind_eq_some.mp h
  obtain ⟨hnode, hw3, hl3⟩ := hA.new hw2 view op
  rw [hnode] at h
  generalize (analyzer.NewFlowNode view op w2).1 = w3 at h hw3 hl3
  split at h
  · obtain ⟨w4, ha4, h⟩ := Option.bind_eq_some.mp h
    obtain ⟨hw4, hl4⟩ := World.AddUpstream_St hw3 (by omega) hargs ha4
    obtain ⟨w5, hs5, h⟩ := Option.bind_eq_some.mp h
    obtain ⟨hw5, hn5⟩ := World.StorageStore_St hw4.sound (PtrBelow_some (by omega)) hs5
    have hl5 : w5.nodes.length = w4.nodes.length := by rw [hn5]
    rw [← hl5] at hw5
    split at h
    · obtain ⟨hw6, hl6⟩ := hA.sink hw5 view c (some w2.nodes.length)
      exact FlowOk.done hw6 (by omega) (hres.mono (by omega)) h
    · exact FlowOk.done hw5 (by omega) (hres.mono (by omega)) h
  · split at h
    · obtain ⟨w5, hs5, h⟩ := Option.bind_eq_some.mp h
      obtain ⟨hw5, hn5⟩ := World.StorageStore_St hw3.sound (PtrBelow_some (by omega)) hs5
      have hl5 : w5.nodes.length = w3.nodes.length := by rw [hn5]
      exact FlowOk.done hw5 (by omega) (hres.mono (by omega)) h
    · obtain ⟨w5, hs5, h⟩ := Option.bind_eq_some.mp h
      obtain ⟨hw5, hn5⟩ := World.StorageStore_St hw2 (PtrBelow_none _) hs5
      have hl5 : w5.nodes.length = w2.nodes.length := by rw [hn5]
      exact FlowOk.done hw5 (by omega) (hres.mono (by omega)) h

theorem data_flow.jumpFlow_ok : FlowOk (jumpFlow : FlowFn σ) := by
  intro analyzer hA view scope c op args res w w1 res1 hook hw hargs hres h
  unfold jumpFlow at h
  simp only at h
  obtain ⟨hw2, hl2⟩ := hA.check hw view op
  generalize (analyzer.CheckOperation view op w).1 = w2 at h hw2 hl2
  obtain ⟨dest, hdest, h⟩ := Option.bind_eq_some.mp h
  have hd := FlowNodeList.Back_below hargs hdest
  split at h
  · obtain ⟨hnode, hw3, hl3⟩ := hA.new hw2 view op
    rw [hnode] at h
    generalize (analyzer.NewFlowNode view op w2).1 = w3 at h hw3 hl3
    obtain ⟨w4, ha4, h⟩ := Option.bind_eq_some.mp h
    obtain ⟨hw4, hl4⟩ := World.AddUpstream_St hw3 (by omega)
      (ListBelow_cons hd (ListBelow_nil _)) ha4
    obtain ⟨hw6, hl6⟩ := hA.sink hw4 view c (some w2.nodes.length)
    exact FlowOk.done hw6 (by omega) (hres.mono (by omega)) h
  · exact FlowOk.done hw2 (by omega) (hres.mono (by omega)) h

theorem data_flow.jumpiFlow_ok : FlowOk (jumpiFlow : FlowFn σ) := by
  intro analyzer hA view scope c op args res w w1 res1 hook hw hargs hres h
  unfold jumpiFlow at h
  simp only at h
  obtain ⟨hw2, hl2⟩ := hA.check hw view op
  generalize (analyzer.CheckOperation view op w).1 = w2 at h hw2 hl2
  obtain ⟨cond, hcond, h⟩ := Option.bind_eq_some.mp h
  obtain ⟨dest, hdest, h⟩ := Option.bind_eq_some.mp h
  have hc := FlowNodeList.Back_below hargs hcond
  have hd := FlowNodeList.Back_below hargs hdest
  split at h
  · obtain ⟨hnode, hw3, hl3⟩ := hA.new hw2 view op
    rw [hnode] at h
    generalize (analyzer.NewFlowNode view op w2).1 = w3 at h hw3 hl3
    obtain ⟨w4, ha4, h⟩ := Option.bind_eq_some.mp h
    obtain ⟨hw4, hl4⟩ := World.AddUpstream_St hw3 (by omega)
      (ListBelow_cons hc (ListBelow_cons hd (ListBelow_nil _))) ha4
    obtain ⟨hw6, hl6⟩ := hA.sink hw4 view c (some w2.nodes.length)
    exact FlowOk.done hw6 (by omega) (hres.mono (by omega)) h
  · exact FlowOk.done hw2 (by omega) (hres.mono (by omega)) h

theorem data_flow.call.with_success_below {B : Nat} {cd : call} (hcd : cd.Below B)
    {v : FlowNode} (hv : PtrBelow B v) : ({ cd with success := v } : call).Below B :=
  ⟨hcd.1, hcd.2.1, hcd.2.2.1, hv, hcd.2.2.2.2⟩

theorem data_flow.call.setFlowSource_below {B : Nat} {cd : call} (hcd : cd.Below B)
    {v : FlowNode} (hv : PtrBelow B v) : (cd.setFlowSource v).Below B :=
  ⟨hcd.1, hcd.2.1, hcd.2.2.1, hcd.2.2.2.1, hv⟩

theorem data_flow.returnFlow_ok : FlowOk (returnFlow : FlowFn σ) := by
  intro analyzer hA view scope c op args res w w1 res1 hook hw hargs hres h
  unfold returnFlow at h
  simp only at h
  obtain ⟨offset, -, h⟩ := Option.bind_eq_some.mp h
  obtain ⟨length, -, h⟩ := Option.bind_eq_some.mp h
  obtain ⟨col, hcol, h⟩ := Option.bind_eq_some.mp h
  obtain ⟨pc, hpc, h⟩ := Option.bind_eq_some.mp h
  obtain ⟨cd, hcd, h⟩ := Option.bind_eq_some.mp h
  have hcdb := call.StoreReturnData_below (World.callOf_below hw hpc)
    (World.collection_below hw hcol).2 hcd
  have hwa := World.setCall_St hw pc.1 hcdb
  have hla : (w.setCall pc.1 cd).nodes.length = w.nodes.length := rfl
  generalize w.setCall pc.1 cd = wa at h hwa hla
  obtain ⟨hw2, hl2⟩ := hA.check hwa view op
  generalize (analyzer.CheckOperation view op wa).1 = w2 at h hw2 hl2
  obtain ⟨hnode, hw3, hl3⟩ := hA.new hw2 view op
  split at h
  · rw [hnode] at h
    generalize (analyzer.NewFlowNode view op w2).1 = w3 at h hw3 hl3
    obtain ⟨pc2, hpc2, h⟩ := Option.bind_eq_some.mp h
    have hcd2 := World.callOf_below hw3.sound hpc2
    have hw4 := World.setCall_St hw3.sound pc2.1
      (call.with_success_below hcd2 (v := some w2.nodes.length) (PtrBelow_some (by omega)))
    exact FlowOk.done hw4 (by show w.nodes.length ≤ w3.nodes.length; omega)
      (by show ListBelow w3.nodes.length res; exact hres.mono (by omega)) h
  · obtain ⟨pc2, hpc2, h⟩ := Option.bind_eq_some.mp h
    split at h
    · rw [hnode] at h
      generalize (analyzer.NewFlowNode view op w2).1 = w3 at h hw3 hl3
      obtain ⟨pc3, hpc3, h⟩ := Option.bind_eq_some.mp h
      have hcd3 := World.callOf_below hw3 hpc3
      obtain ⟨w4, ha4, h⟩ := Option.bind_eq_some.mp h
      obtain ⟨hw4, hl4⟩ := World.AddUpstream_St hw3 (by omega)
        (call.GetAllReturnData_below hcd3) ha4
      obtain ⟨hw6, hl6⟩ := hA.sink hw4 view c (some w2.nodes.length)
      exact FlowOk.done hw6 (by omega) (hres.mono (by omega)) h
    · exact FlowOk.done hw2 (by omega) (hres.mono (by omega)) h

theorem data_flow.revertFlow_ok : FlowOk (revertFlow : FlowFn σ) := returnFlow_ok

theorem data_flow.invalidFlow_ok : FlowOk (invalidFlow : FlowFn σ) := by
  intro analyzer hA view scope c op args res w w1 res1 hook hw hargs hres h
  unfold invalidFlow at h
  simp only at h
  obtain ⟨hw2, hl2⟩ := hA.check hw view op
  generalize (analyzer.CheckOperation view op w).1 = w2 at h hw2 hl2
  obtain ⟨hnode, hw3, hl3⟩ := hA.new hw2 view op
  split at h
  · rw [hnode] at h
    generalize (analyzer.NewFlowNode view op w2).1 = w3 at h hw3 hl3
    obtain ⟨hw6, hl6⟩ := hA.sink hw3 view c (some w2.nodes.length)
    exact FlowOk.done hw6 (by omega) (hres.mono (by omega)) h
  · split at h
    · rw [hnode] at h
      generalize (analyzer.NewFlowNode view op w2).1 = w3 at h hw3 hl3
      obtain ⟨pc2, hpc2, h⟩ := Option.bind_eq_some.mp h
      have hcd2 := World.callOf_below hw3.sound hpc2
      have hw4 := World.setCall_St hw3.sound pc2.1
        (call.with_success_below hcd2 (v := some w2.nodes.length) (PtrBelow_some (by omega)))
      exact FlowOk.done hw4 (by show w.nodes.length ≤ w3.nodes.length; omega)
        (by show ListBelow w3.nodes.length res; exact hres.mono (by omega)) h
    · exact FlowOk.done hw2 (by omega) (hres.mono (by omega)) h

theorem data_flow.selfDestructFlow_ok : FlowOk (selfDestructFlow : FlowFn σ) := by
  intro analyzer hA view scope c op args res w w1 res1 hook hw hargs hres h
  unfold selfDestructFlow at h
  simp only at h
  obtain ⟨hw2, hl2⟩ := hA.check hw view op
  generalize (analyzer.CheckOperation view op w).1 = w2 at h hw2 hl2
  have tail : ∀ y : World σ, y.Sound → w.nodes.length ≤ y.nodes.length →
      ((scope.Back 0).bind fun addr =>
        (y.GetBalance c scope.Contract.Address).bind fun bal =>
          (y.SetBalance c (Bytes20 addr) bal).bind fun w7 =>
            ((analyzer.NewFlowNode view op w7).1.SetBalance c scope.Contract.Address
              (analyzer.NewFlowNode view op w7).2).bind fun w9 =>
                some (w9, res, (none : Option (PolicyHook σ)))) = some (w1, res1, hook) →
      w1.Sound ∧ w.nodes.length ≤ w1.nodes.length ∧ ListBelow w1.nodes.length res1 ∧
        ∀ h, hook = some h → HookOk w1.nodes.length h := by
    intro y hy hly h
    obtain ⟨addr, -, h⟩ := Option.bind_eq_some.mp h
    obtain ⟨bal, hbal, h⟩ := Option.bind_eq_some.mp h
    have hb := World.GetBalance_below hy hbal
    obtain ⟨w7, hs7, h⟩ := Option.bind_eq_some.mp h
    obtain ⟨hw7, hn7⟩ := World.SetBalance_St hy hb hs7
    have hl7 : w7.nodes.length = y.nodes.length := by rw [hn7]
    obtain ⟨hnode8, hw8, hl8⟩ := hA.new hw7 view op
    rw [hnode8] at h
    generalize (analyzer.NewFlowNode view op w7).1 = w8 at h hw8 hl8
    obtain ⟨w9, hs9, h⟩ := Option.bind_eq_some.mp h
    obtain ⟨hw9, hn9⟩ := World.SetBalance_St hw8.sound (PtrBelow_some (by omega)) hs9
    have hl9 : w9.nodes.length = w8.nodes.length := by rw [hn9]
    exact FlowOk.done hw9 (by omega) (hres.mono (by omega)) h
  split at h
  · obtain ⟨hnode, hw3, hl3⟩ := hA.new hw2 view op
    rw [hnode] at h
    generalize (analyzer.NewFlowNode view op w2).1 = w3 at h hw3 hl3
    obtain ⟨w4, hs4, h⟩ := Option.bind_eq_some.mp h
    obtain ⟨hw4, hn4⟩ := World.SetCode_St hw3.sound (PtrBelow_some (by omega)) hs4
    have hl4 : w4.nodes.length = w3.nodes.length := by rw [hn4]
    rw [← hl4] at hw4
    obtain ⟨hnode5, hw5, hl5⟩ := hA.new hw4 view op
    rw [hnode5] at h
    generalize (analyzer.NewFlowNode view op w4).1 = w5 at h hw5 hl5
    obtain ⟨pc2, hpc2, h⟩ := Option.bind_eq_some.mp h
    have hcd2 := World.callOf_below hw5.sound hpc2
    have hw6 := World.setCall_St hw5.sound pc2.1
      (call.with_success_below hcd2 (v := some w4.nodes.length) (PtrBelow_some (by omega)))
    obtain ⟨y, hy, h⟩ := Option.bind_eq_some.mp h
    simp only [pure, Option.some.injEq] at hy
    subst hy
    exact tail _ hw6 (by show w.nodes.length ≤ w5.nodes.length; omega) h
  · split at h
    · obtain ⟨target, ht, h⟩ := Option.bind_eq_some.mp h
      have htb := FlowNodeList.Back_below hargs ht
      split at h
      · obtain ⟨hnode, hw3, hl3⟩ := hA.new hw2 view op
        rw [hnode] at h
        generalize (analyzer.NewFlowNode view op w2).1 = w3 at h hw3 hl3
        obtain ⟨w4, ha4, h⟩ := Option.bind_eq_some.mp h
        obtain ⟨hw4, hl4⟩ := World.AddUpstream_St hw3 (by omega)
          (ListBelow_cons htb (ListBelow_nil _)) ha4
        obtain ⟨hw6, hl6⟩ := hA.sink hw4 view c (some w2.nodes.length)
        obtain ⟨y, hy, h⟩ := Option.bind_eq_some.mp h
        simp only [pure, Option.some.injEq] at hy
        subst hy
        exact tail _ hw6.sound (by omega) h
      · obtain ⟨y, hy, h⟩ := Option.bind_eq_some.mp h
        simp only [pure, Option.some.injEq] at hy
        subst hy
        exact tail _ hw2.sound (by omega) h
    · obtain ⟨y, hy, h⟩ := Option.bind_eq_some.mp h
      simp only [pure, Option.some.injEq] at hy
      subst hy
      exact tail _ hw2.sound (by omega) h

end creation_order_flows2

section creation_order_calls

open data_flow

variable {σ : Type}

/-- The end of a flow function that returns a hook. -/
theorem data_flow.FlowOk.done_hook {w wk w1 : World σ} {resk res1 : FlowNodeList}
    {hk : PolicyHook σ} {hook : Option (PolicyHook σ)} (hwk : wk.Sound)
    (hl : w.nodes.length ≤ wk.nodes.length) (hres : ListBelow wk.nodes.length resk)
    (hh : HookOk wk.nodes.length hk)
    (h : some (wk, resk, some hk) = some (w1, res1, hook)) :
    w1.Sound ∧ w.nodes.length ≤ w1.nodes.length ∧ ListBelow w1.nodes.length res1 ∧
      ∀ h, hook = some h → HookOk w1.nodes.length h := by
  simp only [Option.some.injEq, Prod.mk.injEq] at h
  obtain ⟨rfl, rfl, rfl⟩ := h
  exact ⟨hwk, hl, hres, fun _ hh1 => by cases hh1; exact hh⟩

theorem data_flow.openChildCall_ok {analyzer : AnalyzerMethods σ} (hA : analyzer.Allocating)
    {view : CallView} {c : Nat} {op : Operation} {isPrecompiled source : Bool}
    {offset length : Nat} {w w1 : World σ} (hw : w.Sound)
    (h : openChildCall analyzer view c op isPrecompiled source offset length w = some w1) :
    w1.Sound ∧ w.nodes.length ≤ w1.nodes.length := by
  unfold openChildCall at h
  simp -zeta only at h
  obtain ⟨msgCall, -, h⟩ := Option.bind_eq_some.mp h
  obtain ⟨wa, hwa, h⟩ := Option.bind_eq_some.mp h
  obtain ⟨hwa1, hna⟩ := World.newChildCall_St hw hwa
  have hla : wa.nodes.length = w.nodes.length := by rw [hna]
  lift_lets at h
  extract_lets jp at h
  have tail : ∀ y : World σ, y.Sound → w.nodes.length ≤ y.nodes.length → jp y = some w1 →
      w1.Sound ∧ w.nodes.length ≤ w1.nodes.length := by
    intro y hy hly hj
    simp only [jp] at hj
    obtain ⟨col, hcol, hj⟩ := Option.bind_eq_some.mp hj
    obtain ⟨pc, hpc, hj⟩ := Option.bind_eq_some.mp hj
    obtain ⟨cd, hcd, hj⟩ := Option.bind_eq_some.mp hj
    simp only [pure, Option.some.injEq] at hj
    subst hj
    exact ⟨World.setCall_St hy pc.1 (call.StoreData_below (World.childCallOf_below hy hpc)
      (World.collection_below hy hcol).2 hcd), hly⟩
  split at h
  · obtain ⟨hnode, hw3, hl3⟩ := hA.new hwa1 view op
    rw [hnode] at h
    generalize (analyzer.NewFlowNode view op wa).1 = w3 at h hw3 hl3
    obtain ⟨pc, hpc, h⟩ := Option.bind_eq_some.mp h
    obtain ⟨y, hy, h⟩ := Option.bind_eq_some.mp h
    simp only [pure, Option.some.injEq] at hy
    subst hy
    refine tail _ (World.setCall_St hw3.sound pc.1 (call.setFlowSource_below
      (World.childCallOf_below hw3.sound hpc) (PtrBelow_some (by omega)))) ?_ h
    show w.nodes.length ≤ w3.nodes.length
    omega
  · obtain ⟨y, hy, h⟩ := Option.bind_eq_some.mp h
    simp only [pure, Option.some.injEq] at hy
    subst hy
    rw [← hla] at hwa1
    exact tail _ hwa1 (by omega) h

theorem data_flow.storeChildReturnData_ok {c : Nat} {returnDataOffset returnDataLength : Nat}
    {w w1 : World σ} (hw : w.Sound)
    (h : storeChildReturnData c returnDataOffset returnDataLength w = some w1) :
    w1.Sound ∧ w.nodes.length ≤ w1.nodes.length := by
  unfold storeChildReturnData at h
  simp only at h
  obtain ⟨col, hcol, h⟩ := Option.bind_eq_some.mp h
  obtain ⟨pc, hpc, h⟩ := Option.bind_eq_some.mp h
  obtain ⟨r, hr, h⟩ := Option.bind_eq_some.mp h
  obtain ⟨nodes1, m1⟩ := r
  obtain ⟨hu, hl, hm⟩ := memory.StoreCallReturnData_ok hw.2.2
    (World.collection_below hw hcol).2 (World.childCallOf_below hw hpc) hr
  simp only [pure, Option.some.injEq] at h
  subst h
  exact ⟨World.storeCall_Sound hw hcol hu hl hm, hl⟩

theorem data_flow.createHook_ok {analyzer : AnalyzerMethods σ} (hA : analyzer.Allocating)
    (c : Nat) (op : Operation) {stackArgs : FlowNodeList} {L : Nat}
    (hargs : ListBelow L stackArgs) : HookOk L (createHook analyzer c op stackArgs) := by
  intro view scope res w w1 res1 hw hL hres h
  unfold createHook at h
  simp -zeta only at h
  obtain ⟨address, -, h⟩ := Option.bind_eq_some.mp h
  obtain ⟨pc, hpc, h⟩ := Option.bind_eq_some.mp h
  have hcd := World.childCallOf_below hw hpc
  lift_lets at h
  extract_lets returnData jp at h
  have tail : ∀ y : World σ, y.Sound → w.nodes.length ≤ y.nodes.length →
      jp y = some (w1, res1) →
      w1.Sound ∧ w.nodes.length ≤ w1.nodes.length ∧ ListBelow w1.nodes.length res1 := by
    intro y hy hly hj
    simp only [jp] at hj
    obtain ⟨value, hvalue, hj⟩ := Option.bind_eq_some.mp hj
    obtain ⟨wb, hwb, hj⟩ := Option.bind_eq_some.mp hj
    obtain ⟨hwb1, hnb⟩ := World.SetBalance_St hy
      ((FlowNodeList.Back_below hargs hvalue).mono_ptr (by omega)) hwb
    have hlb : wb.nodes.length = y.nodes.length := by rw [hnb]
    simp only [pure, Option.some.injEq, Prod.mk.injEq] at hj
    obtain ⟨rfl, rfl⟩ := hj
    rw [← hlb] at hwb1
    exact ⟨hwb1, by omega, hres.mono (by omega)⟩
  split at h
  · obtain ⟨hnode, hw3, hl3⟩ := hA.new hw view op
    rw [hnode] at h
    generalize (analyzer.NewFlowNode view op w).1 = w3 at h hw3 hl3
    obtain ⟨w4, ha4, h⟩ := Option.bind_eq_some.mp h
    obtain ⟨hw4, hl4⟩ := World.AddUpstream_St hw3 (le_refl _)
      (call.GetAllReturnData_below hcd) ha4
    obtain ⟨y, hy, h⟩ := Option.bind_eq_some.mp h
    obtain ⟨hw5, hn5⟩ := World.SetCode_St hw4.sound (PtrBelow_some (by omega)) hy
    have hl5 : y.nodes.length = w4.nodes.length := by rw [hn5]
    rw [← hl5] at hw5
    exact tail _ hw5 (by omega) h
  · obtain ⟨y, hy, h⟩ := Option.bind_eq_some.mp h
    obtain ⟨hw5, hn5⟩ := World.SetCode_St hw (PtrBelow_none _) hy
    have hl5 : y.nodes.length = w.nodes.length := by rw [hn5]
    rw [← hl5] at hw5
    exact tail _ hw5 (by omega) h

theorem data_flow.callHook_ok {analyzer : AnalyzerMethods σ} (hA : analyzer.Allocating)
    (c : Nat) (op : Operation) (source : Bool) (returnDataOffset returnDataLength : Nat)
    (L : Nat) :
    HookOk L (callHook analyzer c op source returnDataOffset returnDataLength) := by
  intro view scope res w w1 res1 hw hL hres h
  unfold callHook at h
  simp -zeta only at h
  lift_lets at h
  extract_lets jp at h
  have tail : ∀ y : World σ × FlowNodeList, y.1.Sound → w.nodes.length ≤ y.1.nodes.length →
      ListBelow y.1.nodes.length y.2 → jp y = some (w1, res1) →
      w1.Sound ∧ w.nodes.length ≤ w1.nodes.length ∧ ListBelow w1.nodes.length res1 := by
    intro y hy hly hry hj
    simp only [jp] at hj
    obtain ⟨wb, hwb, hj⟩ := Option.bind_eq_some.mp hj
    obtain ⟨hwb1, hlb⟩ := storeChildReturnData_ok hy hwb
    simp only [pure, Option.some.injEq, Prod.mk.injEq] at hj
    obtain ⟨rfl, rfl⟩ := hj
    exact ⟨hwb1, by omega, hry.mono hlb⟩
  split at h
  · obtain ⟨hnode, hw3, hl3⟩ := hA.new hw view op
    rw [hnode] at h
    generalize (analyzer.NewFlowNode view op w).1 = w3 at h hw3 hl3
    obtain ⟨pc, hpc, h⟩ := Option.bind_eq_some.mp h
    obtain ⟨w4, ha4, h⟩ := Option.bind_eq_some.mp h
    obtain ⟨hw4, hl4⟩ := World.AddUpstream_St hw3 (le_refl _)
      (ListBelow_cons (call.GetSuccess_below (World.childCallOf_below hw3 hpc))
        (ListBelow_nil _)) ha4
    obtain ⟨res2, hr2, h⟩ := Option.bind_eq_some.mp h
    obtain ⟨y, hy, h⟩ := Option.bind_eq_some.mp h
    simp only [pure, Option.some.injEq] at hy
    subst hy
    exact tail _ hw4.sound (by show w.nodes.length ≤ w4.nodes.length; omega)
      (setResult_below (hres.mono (by show w.nodes.length ≤ w4.nodes.length; omega))
        (PtrBelow_some (by show w.nodes.length < w4.nodes.length; omega)) hr2) h
  · obtain ⟨pc, hpc, h⟩ := Option.bind_eq_some.mp h
    obtain ⟨res2, hr2, h⟩ := Option.bind_eq_some.mp h
    obtain ⟨y, hy, h⟩ := Option.bind_eq_some.mp h
    simp only [pure, Option.some.injEq] at hy
    subst hy
    exact tail _ hw (le_refl _)
      (setResult_below hres (call.GetSuccess_below (World.childCallOf_below hw hpc)) hr2) h

theorem data_flow.successHook_ok (c : Nat) (returnDataOffset returnDataLength : Nat) (L : Nat) :
    HookOk L (successHook c returnDataOffset returnDataLength : PolicyHook σ) := by
  intro view scope res w w1 res1 hw hL hres h
  unfold successHook at h
  simp only at h
  obtain ⟨pc, hpc, h⟩ := Option.bind_eq_some.mp h
  obtain ⟨res2, hr2, h⟩ := Option.bind_eq_some.mp h
  obtain ⟨wb, hwb, h⟩ := Option.bind_eq_some.mp h
  obtain ⟨hwb1, hlb⟩ := storeChildReturnData_ok hw hwb
  simp only [pure, Option.some.injEq, Prod.mk.injEq] at h
  obtain ⟨rfl, rfl⟩ := h
  exact ⟨hwb1, hlb, (setResult_below hres
    (call.GetSuccess_below (World.childCallOf_below hw hpc)) hr2).mono hlb⟩

theorem data_flow.createFlow_ok : FlowOk (createFlow : FlowFn σ) := by
  intro analyzer hA view scope c op args res w w1 res1 hook hw hargs hres h
  unfold createFlow at h
  simp -zeta only at h
  obtain ⟨hw2, hl2⟩ := hA.check hw view op
  generalize (analyzer.CheckOperation view op w).1 = w2 at h hw2 hl2
  obtain ⟨offset, -, h⟩ := Option.bind_eq_some.mp h
  obtain ⟨length, -, h⟩ := Option.bind_eq_some.mp h
  obtain ⟨data, hdata, h⟩ := Option.bind_eq_some.mp h
  have hd := World.MemoryLoad_below hw2 hdata
  obtain ⟨wa, hwa, h⟩ := Option.bind_eq_some.mp h
  obtain ⟨hwa1, hla⟩ := openChildCall_ok hA hw2.sound hwa
  lift_lets at h
  extract_lets jp at h
  have tail : ∀ y : World σ, y.Sound → w.nodes.length ≤ y.nodes.length →
      jp y = some (w1, res1, hook) →
      w1.Sound ∧ w.nodes.length ≤ w1.nodes.length ∧ ListBelow w1.nodes.length res1 ∧
        ∀ h, hook = some h → HookOk w1.nodes.length h := by
    intro y hy hly hj
    simp only [jp] at hj
    exact FlowOk.done_hook hy hly (hres.mono hly) (createHook_ok hA c op (hargs.mono hly)) hj
  obtain ⟨hnode, hw3, hl3⟩ := hA.new hwa1 view op
  split at h
  · rw [hnode] at h
    generalize (analyzer.NewFlowNode view op wa).1 = w3 at h hw3 hl3
    obtain ⟨w4, ha4, h⟩ := Option.bind_eq_some.mp h
    obtain ⟨hw4, hl4⟩ := World.AddUpstream_St hw3 (le_refl _) (hd.mono (by omega)) ha4
    obtain ⟨args2, hargs2, h⟩ := Option.bind_eq_some.mp h
    obtain ⟨w5, ha5, h⟩ := Option.bind_eq_some.mp h
    obtain ⟨hw5, hl5⟩ := World.AddUpstream_St hw4 (le_refl _)
      ((FlowNodeList.BackSlice2_below hargs hargs2).mono (by omega)) ha5
    obtain ⟨value, hvalue, h⟩ := Option.bind_eq_some.mp h
    split at h
    · obtain ⟨hw6, hl6⟩ := hA.sink hw5 view c (some wa.nodes.length)
      obtain ⟨y, hy, h⟩ := Option.bind_eq_some.mp h
      simp only [pure, Option.some.injEq] at hy
      subst hy
      exact tail _ hw6.sound (by omega) h
    · obtain ⟨y, hy, h⟩ := Option.bind_eq_some.mp h
      simp only [pure, Option.some.injEq] at hy
      subst hy
      exact tail _ hw5.sound (by omega) h
  · obtain ⟨args2, hargs2, h⟩ := Option.bind_eq_some.mp h
    split at h
    · rw [hnode] at h
      generalize (analyzer.NewFlowNode view op wa).1 = w3 at h hw3 hl3
      obtain ⟨w4, ha4, h⟩ := Option.bind_eq_some.mp h
      obtain ⟨hw4, hl4⟩ := World.AddUpstream_St hw3 (le_refl _) (hd.mono (by omega)) ha4
      obtain ⟨w5, ha5, h⟩ := Option.bind_eq_some.mp h
      obtain ⟨hw5, hl5⟩ := World.AddUpstream_St hw4 (le_refl _)
        ((FlowNodeList.BackSlice2_below hargs hargs2).mono (by omega)) ha5
      obtain ⟨value, hvalue, h⟩ := Option.bind_eq_some.mp h
      split at h
      · obtain ⟨hw6, hl6⟩ := hA.sink hw5 view c (some wa.nodes.length)
        obtain ⟨y, hy, h⟩ := Option.bind_eq_some.mp h
        simp only [pure, Option.some.injEq] at hy
        subst hy
        exact tail _ hw6.sound (by omega) h
      · obtain ⟨y, hy, h⟩ := Option.bind_eq_some.mp h
        simp only [pure, Option.some.injEq] at hy
        subst hy
        exact tail _ hw5.sound (by omega) h
    · obtain ⟨y, hy, h⟩ := Option.bind_eq_some.mp h
      simp only [pure, Option.some.injEq] at hy
      subst hy
      exact tail _ hwa1 (by omega) h

end creation_order_calls

section creation_order_policy

open data_flow

variable {σ : Type}

theorem data_flow.callFlow_ok : FlowOk (callFlow : FlowFn σ) := by
  intro analyzer hA view scope c op args res w w1 res1 hook hw hargs hres h
  unfold callFlow at h
  simp -zeta only at h
  obtain ⟨hw2, hl2⟩ := hA.check hw view op
  generalize (analyzer.CheckOperation view op w).1 = w2 at h hw2 hl2
  obtain ⟨addr, -, h⟩ := Option.bind_eq_some.mp h
  obtain ⟨arg, -, h⟩ := Option.bind_eq_some.mp h
  lift_lets at h
  extract_lets jp1 at h
  have tail : ∀ y : World σ, y.Sound → w.nodes.length ≤ y.nodes.length →
      jp1 y = some (w1, res1, hook) →
      w1.Sound ∧ w.nodes.length ≤ w1.nodes.length ∧ ListBelow w1.nodes.length res1 ∧
        ∀ h, hook = some h → HookOk w1.nodes.length h := by
    intro y hy hly hj
    simp -zeta only [jp1] at hj
    obtain ⟨argsOffset, -, hj⟩ := Option.bind_eq_some.mp hj
    obtain ⟨argsLength, -, hj⟩ := Option.bind_eq_some.mp hj
    obtain ⟨args1, hargs1, hj⟩ := Option.bind_eq_some.mp hj
    have ha1 := World.MemoryLoad_below hy hargs1
    obtain ⟨rdo, -, hj⟩ := Option.bind_eq_some.mp hj
    obtain ⟨rdl, -, hj⟩ := Option.bind_eq_some.mp hj
    lift_lets at hj
    extract_lets jp2 at hj
    obtain ⟨wa, hwa, hj⟩ := Option.bind_eq_some.mp hj
    obtain ⟨hwa1, hla⟩ := openChildCall_ok hA hy hwa
    have tail2 : ∀ y2 : World σ, y2.Sound → w.nodes.length ≤ y2.nodes.length →
        jp2 y2 = some (w1, res1, hook) →
        w1.Sound ∧ w.nodes.length ≤ w1.nodes.length ∧ ListBelow w1.nodes.length res1 ∧
          ∀ h, hook = some h → HookOk w1.nodes.length h := by
      intro y2 hy2 hly2 hj2
      simp only [jp2] at hj2
      exact FlowOk.done_hook hy2 hly2 (hres.mono hly2) (callHook_ok hA c op _ _ _ _) hj2
    split at hj
    · obtain ⟨targets, htargets, hj⟩ := Option.bind_eq_some.mp hj
      split at hj
      · obtain ⟨hnode, hw3, hl3⟩ := hA.new hwa1 view op
        rw [hnode] at hj
        generalize (analyzer.NewFlowNode view op wa).1 = w3 at hj hw3 hl3
        obtain ⟨w4, ha4, hj⟩ := Option.bind_eq_some.mp hj
        obtain ⟨hw4, hl4⟩ := World.AddUpstream_St hw3 (le_refl _)
          ((FlowNodeList.BackSlice2_below hargs htargets).mono (by omega)) ha4
        obtain ⟨w5, ha5, hj⟩ := Option.bind_eq_some.mp hj
        obtain ⟨hw5, hl5⟩ := World.AddUpstream_St hw4 (le_refl _) (ha1.mono (by omega)) ha5
        obtain ⟨hw6, hl6⟩ := hA.sink hw5 view c (some wa.nodes.length)
        obtain ⟨y2, hy2, hj⟩ := Option.bind_eq_some.mp hj
        simp only [pure, Option.some.injEq] at hy2
        subst hy2
        exact tail2 _ hw6.sound (by omega) hj
      · obtain ⟨y2, hy2, hj⟩ := Option.bind_eq_some.mp hj
        simp only [pure, Option.some.injEq] at hy2
        subst hy2
        exact tail2 _ hwa1 (by omega) hj
    · obtain ⟨y2, hy2, hj⟩ := Option.bind_eq_some.mp hj
      simp only [pure, Option.some.injEq] at hy2
      subst hy2
      exact tail2 _ hwa1 (by omega) hj
  split at h
  · obtain ⟨value, hvalue, h⟩ := Option.bind_eq_some.mp h
    have hv := FlowNodeList.Back_below hargs hvalue
    obtain ⟨w3, hs3, h⟩ := Option.bind_eq_some.mp h
    obtain ⟨hw3, hn3⟩ := World.SetBalance_St hw2 hv hs3
    have hl3 : w3.nodes.length = w2.nodes.length := by rw [hn3]
    obtain ⟨y, hs4, h⟩ := Option.bind_eq_some.mp h
    obtain ⟨hw4, hn4⟩ := World.SetBalance_St hw3 hv hs4
    have hl4 : y.nodes.length = w3.nodes.length := by rw [hn4]
    exact tail _ hw4.sound (by omega) h
  · obtain ⟨y, hy, h⟩ := Option.bind_eq_some.mp h
    simp only [pure, Option.some.injEq] at hy
    subst hy
    exact tail _ hw2.sound (by omega) h

theorem data_flow.callCodeFlow_ok : FlowOk (callCodeFlow : FlowFn σ) := by
  intro analyzer hA view scope c op args res w w1 res1 hook hw hargs hres h
  unfold callCodeFlow at h
  simp -zeta only at h
  obtain ⟨hw2, hl2⟩ := hA.check hw view op
  generalize (analyzer.CheckOperation view op w).1 = w2 at h hw2 hl2
  obtain ⟨arg, -, h⟩ := Option.bind_eq_some.mp h
  lift_lets at h
  extract_lets jp1 at h
  have tail : ∀ y : World σ, y.Sound → w.nodes.length ≤ y.nodes.length →
      jp1 y = some (w1, res1, hook) →
      w1.Sound ∧ w.nodes.length ≤ w1.nodes.length ∧ ListBelow w1.nodes.length res1 ∧
        ∀ h, hook = some h → HookOk w1.nodes.length h := by
    intro y hy hly hj
    simp -zeta only [jp1] at hj
    obtain ⟨addr, -, hj⟩ := Option.bind_eq_some.mp hj
    obtain ⟨argsOffset, -, hj⟩ := Option.bind_eq_some.mp hj
    obtain ⟨argsLength, -, hj⟩ := Option.bind_eq_some.mp hj
    obtain ⟨args1, hargs1, hj⟩ := Option.bind_eq_some.mp hj
    have ha1 := World.MemoryLoad_below hy hargs1
    obtain ⟨rdo, -, hj⟩ := Option.bind_eq_some.mp hj
    obtain ⟨rdl, -, hj⟩ := Option.bind_eq_some.mp hj
    lift_lets at hj
    extract_lets jp2 at hj
    obtain ⟨wa, hwa, hj⟩ := Option.bind_eq_some.mp hj
    obtain ⟨hwa1, hla⟩ := openChildCall_ok hA hy hwa
    have tail2 : ∀ y2 : World σ, y2.Sound → w.nodes.length ≤ y2.nodes.length →
        jp2 y2 = some (w1, res1, hook) →
        w1.Sound ∧ w.nodes.length ≤ w1.nodes.length ∧ ListBelow w1.nodes.length res1 ∧
          ∀ h, hook = some h → HookOk w1.nodes.length h := by
      intro y2 hy2 hly2 hj2
      simp only [jp2] at hj2
      exact FlowOk.done_hook hy2 hly2 (hres.mono hly2) (successHook_ok c _ _ _) hj2
    split at hj
    · obtain ⟨targets, htargets, hj⟩ := Option.bind_eq_some.mp hj
      split at hj
      · obtain ⟨hnode, hw3, hl3⟩ := hA.new hwa1 view op
        rw [hnode] at hj
        generalize (analyzer.NewFlowNode view op wa).1 = w3 at hj hw3 hl3
        obtain ⟨w4, ha4, hj⟩ := Option.bind_eq_some.mp hj
        obtain ⟨hw4, hl4⟩ := World.AddUpstream_St hw3 (le_refl _)
          ((FlowNodeList.BackSlice2_below hargs htargets).mono (by omega)) ha4
        obtain ⟨w5, ha5, hj⟩ := Option.bind_eq_some.mp hj
        obtain ⟨hw5, hl5⟩ := World.AddUpstream_St hw4 (le_refl _) (ha1.mono (by omega)) ha5
        obtain ⟨hw6, hl6⟩ := hA.sink hw5 view c (some wa.nodes.length)
        obtain ⟨y2, hy2, hj⟩ := Option.bind_eq_some.mp hj
        simp only [pure, Option.some.injEq] at hy2
        subst hy2
        exact tail2 _ hw6.sound (by omega) hj
      · obtain ⟨y2, hy2, hj⟩ := Option.bind_eq_some.mp hj
        simp only [pure, Option.some.injEq] at hy2
        subst hy2
        exact tail2 _ hwa1 (by omega) hj
    · obtain ⟨y2, hy2, hj⟩ := Option.bind_eq_some.mp hj
      simp only [pure, Option.some.injEq] at hy2
      subst hy2
      exact tail2 _ hwa1 (by omega) hj
  split at h
  · obtain ⟨value, hvalue, h⟩ := Option.bind_eq_some.mp h
    have hv := FlowNodeList.Back_below hargs hvalue
    obtain ⟨y, hs4, h⟩ := Option.bind_eq_some.mp h
    obtain ⟨hw4, hn4⟩ := World.SetBalance_St hw2 hv hs4
    have hl4 : y.nodes.length = w2.nodes.length := by rw [hn4]
    exact tail _ hw4.sound (by omega) h
  · obtain ⟨y, hy, h⟩ := Option.bind_eq_some.mp h
    simp only [pure, Option.some.injEq] at hy
    subst hy
    exact tail _ hw2.sound (by omega) h

theorem data_flow.delegateCallFlow_ok : FlowOk (delegateCallFlow : FlowFn σ) := by
  intro analyzer hA view scope c op args res w w1 res1 hook hw hargs hres h
  unfold delegateCallFlow at h
  simp -zeta only at h
  obtain ⟨hw2, hl2⟩ := hA.check hw view op
  generalize (analyzer.CheckOperation view op w).1 = w2 at h hw2 hl2
  obtain ⟨addr, -, h⟩ := Option.bind_eq_some.mp h
  obtain ⟨argsOffset, -, h⟩ := Option.bind_eq_some.mp h
  obtain ⟨argsLength, -, h⟩ := Option.bind_eq_some.mp h
  obtain ⟨args1, hargs1, h⟩ := Option.bind_eq_some.mp h
  have ha1 := World.MemoryLoad_below hw2 hargs1
  obtain ⟨rdo, -, h⟩ := Option.bind_eq_some.mp h
  obtain ⟨rdl, -, h⟩ := Option.bind_eq_some.mp h
  obtain ⟨wa, hwa, h⟩ := Option.bind_eq_some.mp h
  obtain ⟨hwa1, hla⟩ := openChildCall_ok hA hw2.sound hwa
  lift_lets at h
  extract_lets jp2 at h
  have tail2 : ∀ y2 : World σ, y2.Sound → w.nodes.length ≤ y2.nodes.length →
      jp2 y2 = some (w1, res1, hook) →
      w1.Sound ∧ w.nodes.length ≤ w1.nodes.length ∧ ListBelow w1.nodes.length res1 ∧
        ∀ h, hook = some h → HookOk w1.nodes.length h := by
    intro y2 hy2 hly2 hj2
    simp only [jp2] at hj2
    exact FlowOk.done_hook hy2 hly2 (hres.mono hly2) (successHook_ok c _ _ _) hj2
  split at h
  · obtain ⟨target, htarget, h⟩ := Option.bind_eq_some.mp h
    split at h
    · obtain ⟨hnode, hw3, hl3⟩ := hA.new hwa1 view op
      rw [hnode] at h
      generalize (analyzer.NewFlowNode view op wa).1 = w3 at h hw3 hl3
      obtain ⟨w4, ha4, h⟩ := Option.bind_eq_some.mp h
      obtain ⟨hw4, hl4⟩ := World.AddUpstream_St hw3 (le_refl _)
        (ListBelow_cons ((FlowNodeList.Back_below hargs htarget).mono_ptr (by omega))
          (ListBelow_nil _)) ha4
      obtain ⟨w5, ha5, h⟩ := Option.bind_eq_some.mp h
      obtain ⟨hw5, hl5⟩ := World.AddUpstream_St hw4 (le_refl _) (ha1.mono (by omega)) ha5
      obtain ⟨hw6, hl6⟩ := hA.sink hw5 view c (some wa.nodes.length)
      obtain ⟨y2, hy2, h⟩ := Option.bind_eq_some.mp h
      simp only [pure, Option.some.injEq] at hy2
      subst hy2
      exact tail2 _ hw6.sound (by omega) h
    · obtain ⟨y2, hy2, h⟩ := Option.bind_eq_some.mp h
      simp only [pure, Option.some.injEq] at hy2
      subst hy2
      exact tail2 _ hwa1 (by omega) h
  · obtain ⟨y2, hy2, h⟩ := Option.bind_eq_some.mp h
    simp only [pure, Option.some.injEq] at hy2
    subst hy2
    exact tail2 _ hwa1 (by omega) h

theorem data_flow.staticCallFlow_ok : FlowOk (staticCallFlow : FlowFn σ) :=
  delegateCallFlow_ok

/-- Every flow function of the default policy keeps the objects of an allocating analyzer
sound. -/
theorem data_flow.GenDefaultFlowPolicy_ok (op : OpCode) (f : FlowFn σ)
    (h : GenDefaultFlowPolicy op = some f) : FlowOk f := by
  unfold GenDefaultFlowPolicy at h
  repeat
    (refine ite_some_elim h (fun h => ?_) (fun h => ?_);
     (first
      | exact absurd h (Option.some_ne_none _).symm
      | (cases h
         first
          | with_reducible exact noopFlow_ok
          | with_reducible exact pureOpFlow_ok
          | with_reducible exact hashOpFlow_ok
          | with_reducible exact txConstReadToStackOpFlow_ok
          | with_reducible exact balanceFlow_ok
          | with_reducible exact callValueFlow_ok
          | with_reducible exact callDataLoadFlow_ok
          | with_reducible exact callDataCopyFlow_ok
          | with_reducible exact codeSizeFlow_ok
          | with_reducible exact codeCopyFlow_ok
          | with_reducible exact extCodeSizeFlow_ok
          | with_reducible exact extCodeCopyFlow_ok
          | with_reducible exact returnDataCopyFlow_ok
          | with_reducible exact extCodeHashFlow_ok
          | with_reducible exact selfBalanceFlow_ok
          | with_reducible exact mloadFlow_ok
          | with_reducible exact mstoreFlow_ok
          | with_reducible exact mstore8Flow_ok
          | with_reducible exact sloadFlow_ok
          | with_reducible exact sstoreFlow_ok
          | with_reducible exact jumpFlow_ok
          | with_reducible exact jumpiFlow_ok
          | with_reducible exact pushFlow_ok
          | with_reducible exact dupFlow_ok
          | with_reducible exact swapFlow_ok
          | with_reducible exact logFlow_ok
          | with_reducible exact createFlow_ok
          | with_reducible exact callFlow_ok
          | with_reducible exact callCodeFlow_ok
          | with_reducible exact returnFlow_ok
          | with_reducible exact delegateCallFlow_ok
          | with_reducible exact staticCallFlow_ok
          | with_reducible exact revertFlow_ok
          | with_reducible exact invalidFlow_ok
          | with_reducible exact selfDestructFlow_ok)))
  exact absurd h (Option.some_ne_none _).symm

end creation_order_policy

section creation_order_tracer

open data_flow

variable {σ : Type}

theorem data_flow.AfterHookOk.mono_hook {L M : Nat} {h : AfterOperationHook σ}
    (hh : AfterHookOk L h) (hLM : L ≤ M) : AfterHookOk M h :=
  fun view scope w w1 hw hM hr => hh view scope w w1 hw (le_trans hLM hM) hr

theorem data_flow.DataOk.mono_data {worlds worlds1 : Nat → World σ} {o : Option (Data σ)}
    (h : DataOk worlds o)
    (hl : ∀ a, (worlds a).nodes.length ≤ (worlds1 a).nodes.length) : DataOk worlds1 o :=
  fun d hd a hk hhk => (h d hd a hk hhk).mono_hook (hl a)

theorem data_flow.DataOk_none (worlds : Nat → World σ) : DataOk worlds none :=
  fun _ hd => by cases hd

theorem data_flow.DataOk_fresh (worlds : Nat → World σ) (cols : Nat → Option Nat) :
    DataOk worlds (some { trackerCollections := cols, lastStateCallbacks := fun _ => none }) := by
  intro d hd a h hh
  cases hd
  cases hh

theorem data_flow.registered_ok {L : Nat} {callback : Option (PolicyHook σ)}
    (hcb : ∀ h, callback = some h → HookOk L h) {res : FlowNodeList} (hres : ListBelow L res)
    (c : Nat) : AfterHookOk L (registered callback res c) := by
  intro view scope w w1 hw hL h
  unfold registered at h
  split at h
  · cases h
  · rename_i w2 results heq
    have hfirst : w2.Sound ∧ w.nodes.length ≤ w2.nodes.length ∧
        ListBelow w2.nodes.length results := by
      cases callback with
      | none =>
          simp only [Option.some.injEq, Prod.mk.injEq] at heq
          obtain ⟨rfl, rfl⟩ := heq
          exact ⟨hw, le_refl _, hres.mono hL⟩
      | some cb =>
          simp only at heq
          exact hcb cb rfl view scope res w w2 results hw hL (hres.mono hL) heq
    obtain ⟨hw2, hl2, hres2⟩ := hfirst
    split at h
    · cases h
    · rename_i col hc
      split at h
      · cases h
      · rename_i st hp
        simp only [Option.some.injEq] at h
        subst h
        have hcol := World.collection_below hw2 hc
        exact ⟨World.setCollection_St hw2 c
          (⟨stack.push_below hcol.1 hres2 hp, hcol.2⟩ :
            TrackerCollection.Below _ { col with Stack := st }), hl2⟩

theorem data_flow.forAnalyzers_inv {α S : Type} (J : S → Prop)
    (body : Nat → α → S → Option S) :
    ∀ (l : List (Nat × α)) (s s1 : S),
      (∀ e ∈ l, ∀ s s1, J s → body e.1 e.2 s = some s1 → J s1) → J s →
      forAnalyzers body l s = some s1 → J s1 := by
  intro l
  induction l with
  | nil =>
      intro s s1 _ hJ h
      simp only [forAnalyzers, Option.some.injEq] at h
      subst h
      exact hJ
  | cons e rest ih =>
      intro s s1 hbody hJ h
      unfold forAnalyzers at h
      cases hb : body e.1 e.2 s with
      | none => rw [hb] at h; cases h
      | some s2 =>
          rw [hb] at h
          exact ih s2 s1 (fun e1 he1 => hbody e1 (List.mem_cons_of_mem _ he1))
            (hbody e (List.mem_cons_self _ _) s s2 hJ hb) h

theorem data_flow.DataFlowTracer.runCallback_ok (worlds0 : Nat → World σ) (view : CallView)
    (scope : vm.ScopeContext) (a : Nat) (x : Analyzer σ)
    (s s1 : Option (Data σ) × (Nat → World σ)) (hJ : LoopOk worlds0 s)
    (h : DataFlowTracer.runCallback view scope a x s = some s1) : LoopOk worlds0 s1 := by
  unfold DataFlowTracer.runCallback at h
  obtain ⟨hsound, hdata, hgrow⟩ := hJ
  cases hd : s.1 with
  | none => rw [hd] at h; cases h
  | some innerData =>
      rw [hd] at h
      simp only at h
      cases hcb : innerData.lastStateCallbacks a with
      | none =>
          rw [hcb] at h
          simp only [Option.some.injEq] at h
          subst h
          exact ⟨hsound, hdata, hgrow⟩
      | some callback =>
          rw [hcb] at h
          simp only at h
          cases hr : callback view scope (s.2 a) with
          | none => rw [hr] at h; cases h
          | some w =>
              rw [hr] at h
              simp only [Option.some.injEq] at h
              subst h
              obtain ⟨hw, hl⟩ := hdata innerData hd a callback hcb view scope (s.2 a) w
                (hsound a) (le_refl _) hr
              have hlen : ∀ b, (s.2 b).nodes.length ≤ (Function.update s.2 a w b).nodes.length := by
                intro b
                by_cases hb : b = a
                · subst hb
                  rw [Function.update_same]
                  exact hl
                · rw [Function.update_noteq hb]
              have hs : ∀ b, (Function.update s.2 a w b).Sound := by
                intro b
                by_cases hb : b = a
                · subst hb
                  rw [Function.update_same]
                  exact hw
                · rw [Function.update_noteq hb]
                  exact hsound b
              refine ⟨hs, ?_, fun b => le_trans (hgrow b) (hlen b)⟩
              intro d hd1 b k hk
              simp only [Option.some.injEq] at hd1
              subst hd1
              simp only at hk
              show AfterHookOk (Function.update s.2 a w b).nodes.length k
              by_cases hb : b = a
              · subst hb
                rw [Function.update_same] at hk
                cases hk
              · rw [Function.update_noteq hb] at hk
                exact (hdata innerData hd b k hk).mono_hook (hlen b)

theorem data_flow.DataFlowTracer.applyPolicy_ok (worlds0 : Nat → World σ) (view : CallView)
    (scope : vm.ScopeContext) (op : OpCode) (operation : Operation) (pops pushes : Nat)
    (a : Nat) (x : Analyzer σ) (hx : x.FlowPolicy = GenDefaultFlowPolicy)
    (hA : x.toAnalyzerMethods.Allocating)
    (s s1 : Option (Data σ) × (Nat → World σ)) (hJ : LoopOk worlds0 s)
    (h : DataFlowTracer.applyPolicy view scope op operation pops pushes a x s = some s1) :
    LoopOk worlds0 s1 := by
  unfold DataFlowTracer.applyPolicy at h
  obtain ⟨hsound, hdata, hgrow⟩ := hJ
  cases hd : s.1 with
  | none => rw [hd] at h; cases h
  | some innerData =>
      rw [hd] at h
      simp only at h
      cases hc : innerData.trackerCollections a with
      | none => rw [hc] at h; cases h
      | some c =>
          rw [hc] at h
          simp only at h
          cases hcol : (s.2 a).collection c with
          | none => rw [hcol] at h; cases h
          | some col =>
              rw [hcol] at h
              simp only at h
              cases hpop : col.Stack.pop pops with
              | none => rw [hpop] at h; cases h
              | some r =>
                  obtain ⟨st, stackArgs⟩ := r
                  rw [hpop] at h
                  simp only at h
                  cases hpol : x.FlowPolicy op with
                  | none => rw [hpol] at h; cases h
                  | some policy =>
                      rw [hpol] at h
                      simp only at h
                      cases hf : policy x.toAnalyzerMethods.recording view scope c operation
                          stackArgs (List.replicate pushes none)
                          ((s.2 a).setCollection c { col with Stack := st }) with
                      | none => rw [hf] at h; cases h
                      | some r2 =>
                          obtain ⟨w, stackResults, callback⟩ := r2
                          rw [hf] at h
                          simp only [Option.some.injEq] at h
                          subst h
                          rw [hx] at hpol
                          have hcolb := World.collection_below (hsound a) hcol
                          obtain ⟨hst, hargs⟩ := stack.pop_below hcolb.1 hpop
                          have hw0 := World.setCollection_St (hsound a) c
                            (⟨hst, hcolb.2⟩ :
                              TrackerCollection.Below _ { col with Stack := st })
                          obtain ⟨hw, hl, hres, hhook⟩ := GenDefaultFlowPolicy_ok op policy hpol
                            x.toAnalyzerMethods.recording hA.recording view scope c operation
                            stackArgs (List.replicate pushes none) _ w stackResults callback hw0
                            hargs (ListBelow_replicate _ _) hf
                          have hl1 : (s.2 a).nodes.length ≤ w.nodes.length := hl
                          have hlen : ∀ b,
                              (s.2 b).nodes.length ≤ (Function.update s.2 a w b).nodes.length := by
                            intro b
                            by_cases hb : b = a
                            · subst hb
                              rw [Function.update_same]
                              exact hl1
                            · rw [Function.update_noteq hb]
                          have hs : ∀ b, (Function.update s.2 a w b).Sound := by
                            intro b
                            by_cases hb : b = a
                            · subst hb
                              rw [Function.update_same]
                              exact hw
                            · rw [Function.update_noteq hb]
                              exact hsound b
                          refine ⟨hs, ?_, fun b => le_trans (hgrow b) (hlen b)⟩
                          intro d hd1 b k hk
                          simp only [Option.some.injEq] at hd1
                          subst hd1
                          simp only at hk
                          show AfterHookOk (Function.update s.2 a w b).nodes.length k
                          by_cases hb : b = a
                          · subst hb
                            rw [Function.update_same] at hk
                            simp only [Option.some.injEq] at hk
                            subst hk
                            rw [Function.update_same]
                            exact registered_ok hhook hres c
                          · rw [Function.update_noteq hb] at hk
                            exact (hdata innerData hd b k hk).mono_hook (hlen b)

end creation_order_tracer

section creation_order_run

open data_flow

variable {σ : Type}

/-! ### The data of the message calls across the callbacks of the embedded tracer -/

theorem BasicNestedCallTracer.deref_mem {D : Type} (t : BasicNestedCallTracer D)
    (p : Option Nat) (c : MsgCall D) (h : t.deref p = some c) : c ∈ t.calls := by
  unfold BasicNestedCallTracer.deref at h
  cases p with
  | none => cases h
  | some i => exact mem_of_getElem? h

theorem BasicNestedCallTracer.CaptureState_datas {D : Type} (P : Option D → Prop)
    (t b : BasicNestedCallTracer D) (pc : Nat) (op : OpCode) (gas cost : Nat)
    (h : t.CaptureState pc op gas cost = some b) (hP : ∀ c ∈ t.calls, P c.InnerData) :
    ∀ c ∈ b.calls, P c.InnerData := by
  unfold BasicNestedCallTracer.CaptureState at h
  cases hp : t.CurrentMsgCall with
  | none => rw [hp] at h; simp at h
  | some p =>
      rw [hp] at h
      simp only [] at h
      cases hc : t.calls[p]? with
      | none => rw [hc] at h; simp at h
      | some c0 =>
          rw [hc] at h
          simp only [Option.some.injEq] at h
          rw [← h]
          intro c hmem
          rcases List.mem_or_eq_of_mem_set hmem with hmem | hmem
          · exact hP c hmem
          · rw [hmem]
            exact hP c0 (mem_of_getElem? hc)

theorem BasicNestedCallTracer.CaptureExit_datas {D : Type} (P : Option D → Prop)
    (t b : BasicNestedCallTracer D) (output : List Nat) (gasUsed : Nat) (err : Option GoError)
    (h : t.CaptureExit output gasUsed err = some b) (hP : ∀ c ∈ t.calls, P c.InnerData) :
    ∀ c ∈ b.calls, P c.InnerData := by
  unfold BasicNestedCallTracer.CaptureExit at h
  cases hp : t.msgCallStack.getLast? with
  | none => rw [hp] at h; simp at h
  | some p =>
      rw [hp] at h
      simp only [] at h
      cases hc : t.calls[p]? with
      | none => rw [hc] at h; simp at h
      | some c0 =>
          rw [hc] at h
          simp only [Option.some.injEq] at h
          rw [← h]
          intro c hmem
          rcases List.mem_or_eq_of_mem_set hmem with hmem | hmem
          · exact hP c hmem
          · rw [hmem]
            exact hP c0 (mem_of_getElem? hc)

theorem BasicNestedCallTracer.TransactionEnd_datas {D : Type} (P : Option D → Prop)
    (t b : BasicNestedCallTracer D) (result : Option ExecutionResult)
    (receipt : Option Receipt)
    (h : t.TransactionEnd result receipt = some b) (hP : ∀ c ∈ t.calls, P c.InnerData) :
    ∀ c ∈ b.calls, P c.InnerData := by
  unfold BasicNestedCallTracer.TransactionEnd at h
  cases hp : t.msgCallStack.getLast? with
  | none => rw [hp] at h; simp at h
  | some p =>
      rw [hp] at h
      simp only [] at h
      cases hc : t.calls[p]? with
      | none => rw [hc] at h; simp at h
      | some c0 =>
          rw [hc] at h
          simp only [Option.some.injEq] at h
          rw [← h]
          intro c hmem
          rcases List.mem_or_eq_of_mem_set hmem with hmem | hmem
          · exact hP c hmem
          · rw [hmem]
            exact hP c0 (mem_of_getElem? hc)

theorem BasicNestedCallTracer.CaptureEnter_datas {D : Type} (P : Option D → Prop)
    (hnone : P none) (t b : BasicNestedCallTracer D) (hfac : t.MsgCallDataFactory = none)
    (typ : OpCode) (sender toAddr : Address) (input : List Nat) (value : Option Int)
    (h : t.CaptureEnter typ sender toAddr input value = some b)
    (hP : ∀ c ∈ t.calls, P c.InnerData) : ∀ c ∈ b.calls, P c.InnerData := by
  unfold BasicNestedCallTracer.CaptureEnter at h
  cases hp : t.msgCallStack.getLast? with
  | none => rw [hp] at h; simp at h
  | some p =>
      rw [hp] at h
      simp only [] at h
      cases hc : t.calls[p]? with
      | none => rw [hc] at h; simp at h
      | some c0 =>
          rw [hc, hfac] at h
          simp only [Option.some.injEq] at h
          rw [← h]
          intro c hmem
          rcases List.mem_or_eq_of_mem_set hmem with hmem | hmem
          · rcases List.mem_append.mp hmem with hmem | hmem
            · exact hP c hmem
            · rw [List.mem_singleton.mp hmem]
              exact hnone
          · rw [hmem]
            exact hP c0 (mem_of_getElem? hc)

theorem BasicNestedCallTracer.TransactionStart_datas {D : Type} (P : Option D → Prop)
    (hnone : P none) (t : BasicNestedCallTracer D) (hfac : t.MsgCallDataFactory = none)
    (tx : Tx) (created : Address) (hP : ∀ c ∈ t.calls, P c.InnerData) :
    (∀ c ∈ (t.TransactionStart tx created).calls, P c.InnerData) ∧
      (t.TransactionStart tx created).MsgCallDataFactory = none := by
  refine ⟨?_, hfac⟩
  unfold BasicNestedCallTracer.TransactionStart
  simp only [hfac]
  intro c hmem
  rcases List.mem_append.mp hmem with hmem | hmem
  · exact hP c hmem
  · rw [List.mem_singleton.mp hmem]
    exact hnone

/-! ### The loops of `TransactionStart` and `CaptureEnter` -/

theorem data_flow.World.Sound_of_new_objects {w w1 : World σ} (hw : w.Sound)
    (hn : w1.nodes = w.nodes)
    (hcol : ∀ col ∈ w1.collections, col ∈ w.collections ∨
      (col.Stack = newStack ∧ col.Memory = newMemory))
    (hst : ∀ s ∈ w1.storages, s ∈ w.storages ∨ s = newStorage)
    (hch : ∀ c ∈ w1.chains, c ∈ w.chains ∨ c = newChain)
    (hc : ∀ c ∈ w1.calls, c ∈ w.calls ∨ ∃ pos, c = newCall pos) : w1.Sound := by
  unfold World.Sound World.St
  rw [hn]
  refine ⟨⟨?_, ?_, ?_, ?_⟩, le_refl _, hw.2.2⟩
  · intro col h
    rcases hcol col h with h | ⟨h1, h2⟩
    · exact hw.1.1 col h
    · unfold TrackerCollection.Below
      rw [h1, h2]
      exact ⟨ListBelow_nil _, MapBelow_nil _⟩
  · intro s h
    rcases hst s h with h | h
    · exact hw.1.2.1 s h
    · rw [h]
      exact MapBelow_nil _
  · intro c h
    rcases hch c h with h | h
    · exact hw.1.2.2.1 c h
    · rw [h]
      exact ⟨MapBelow_nil _, MapBelow_nil _⟩
  · intro c h
    rcases hc c h with h | ⟨pos, h⟩
    · exact hw.1.2.2.2 c h
    · rw [h]
      exact newCall_below _ pos

theorem data_flow.EnterOk.update {worlds0 : Nat → World σ}
    {s : (Nat → Option Nat) × (Nat → World σ)} (hJ : EnterOk worlds0 s) (a : Nat)
    (cols : Nat → Option Nat) {w : World σ} (hw : w.Sound)
    (hn : w.nodes = (s.2 a).nodes) : EnterOk worlds0 (cols, Function.update s.2 a w) := by
  refine ⟨fun b => ?_, fun b => ?_⟩
  · show (Function.update s.2 a w b).Sound
    by_cases hb : b = a
    · subst hb
      rw [Function.update_same]
      exact hw
    · rw [Function.update_noteq hb]
      exact hJ.1 b
  · show (Function.update s.2 a w b).nodes.length = (worlds0 b).nodes.length
    by_cases hb : b = a
    · subst hb
      rw [Function.update_same, hn]
      exact hJ.2 b
    · rw [Function.update_noteq hb]
      exact hJ.2 b

theorem data_flow.DataFlowTracer.start_ok (worlds0 : Nat → World σ) (a : Nat) (x : Analyzer σ)
    (s s1 : (Nat → Option Nat) × (Nat → World σ)) (hJ : EnterOk worlds0 s)
    (h : DataFlowTracer.start a x s = some s1) : EnterOk worlds0 s1 := by
  unfold DataFlowTracer.start at h
  simp only [Option.some.injEq] at h
  subst h
  apply hJ.update a
  · refine World.Sound_of_new_objects (hJ.1 a) rfl ?_ ?_ ?_ ?_
    · intro col h
      rcases List.mem_append.mp h with h | h
      · exact Or.inl h
      · rw [List.mem_singleton.mp h]
        exact Or.inr ⟨rfl, rfl⟩
    · intro st h
      rcases List.mem_append.mp h with h | h
      · exact Or.inl h
      · exact Or.inr (List.mem_singleton.mp h)
    · intro c h
      rcases List.mem_append.mp h with h | h
      · exact Or.inl h
      · exact Or.inr (List.mem_singleton.mp h)
    · intro c h
      rcases List.mem_append.mp h with h | h
      · exact Or.inl h
      · exact Or.inr ⟨_, List.mem_singleton.mp h⟩
  · rfl

theorem data_flow.DataFlowTracer.enter_ok (worlds0 : Nat → World σ)
    (parentData : Option (Data σ)) (position : CallPosition) (stateAddr : Address)
    (next : CallPosition) (a : Nat) (x : Analyzer σ)
    (s s1 : (Nat → Option Nat) × (Nat → World σ)) (hJ : EnterOk worlds0 s)
    (h : DataFlowTracer.enter parentData position stateAddr next a x s = some s1) :
    EnterOk worlds0 s1 := by
  unfold DataFlowTracer.enter at h
  split at h
  · cases h
  rename_i d
  split at h
  · cases h
  rename_i pc hpc
  split at h
  · cases h
  rename_i parentCollection hparent
  split at h
  · cases h
  rename_i matching hmatching
  split at h
  · cases h
  rename_i globalStorages hglobal
  simp only [Option.some.injEq] at h
  subst h
  apply hJ.update a
  · refine World.Sound_of_new_objects (hJ.1 a) rfl ?_ ?_ ?_ ?_
    · intro col h
      rcases List.mem_append.mp h with h | h
      · exact Or.inl h
      · rw [List.mem_singleton.mp h]
        exact Or.inr ⟨rfl, rfl⟩
    · intro st h
      simp only at h
      split at h
      · exact Or.inl h
      · rcases List.mem_append.mp h with h | h
        · exact Or.inl h
        · exact Or.inr (List.mem_singleton.mp h)
    · intro c h
      exact Or.inl h
    · intro c h
      simp only at h
      split at h
      · exact Or.inl h
      · rcases List.mem_append.mp h with h | h
        · exact Or.inl h
        · exact Or.inr ⟨_, List.mem_singleton.mp h⟩
  · rfl

end creation_order_run

section creation_order_steps

open data_flow

variable {σ : Type}

theorem data_flow.DataFlowTracer.CaptureState_Inv (t t1 : DataFlowTracer σ) (pc : Nat)
    (op : OpCode) (gas cost : Nat) (scope : vm.ScopeContext) (err : Option GoError)
    (hI : t.Inv) (h : t.CaptureState pc op gas cost scope err = some t1) : t1.Inv := by
  unfold DataFlowTracer.CaptureState at h
  split at h
  · cases h
  rename_i cm hcur
  split at h
  · cases h
  rename_i s1 hl1
  split at h
  · cases h
  rename_i base hb
  split at h
  · cases h
  rename_i args hops
  split at h
  · cases h
  rename_i p hp
  split at h
  · cases h
  rename_i call hc
  split at h
  · cases h
  rename_i loc hloc
  split at h
  · cases h
  rename_i s2 hl2
  simp only [Option.some.injEq] at h
  subst h
  obtain ⟨hsound, hcalls, hfac, han⟩ := hI
  have hJ0 : LoopOk t.worlds (cm.InnerData, t.worlds) :=
    ⟨hsound, hcalls cm (BasicNestedCallTracer.deref_mem _ _ _ hcur), fun _ => le_refl _⟩
  have hJ1 := forAnalyzers_inv (LoopOk t.worlds) _ t.analyzers _ s1
    (fun e _ s s1 hJ hbody => DataFlowTracer.runCallback_ok _ _ _ _ _ s s1 hJ hbody) hJ0 hl1
  have hJ2 := forAnalyzers_inv (LoopOk t.worlds) _ t.analyzers _ s2
    (fun e he s s1 hJ hbody => DataFlowTracer.applyPolicy_ok _ _ _ _ _ _ _ _ _ (han e he).1
      (han e he).2 s s1 hJ hbody) hJ1 hl2
  refine ⟨hJ2.1, ?_, ?_, han⟩
  · intro c hmem
    rcases List.mem_or_eq_of_mem_set hmem with hmem | hmem
    · exact (BasicNestedCallTracer.CaptureState_datas (DataOk t.worlds) _ _ _ _ _ _ hb hcalls
        c hmem).mono_data hJ2.2.2
    · rw [hmem]
      exact hJ2.2.1
  · show base.MsgCallDataFactory = none
    rw [BasicNestedCallTracer.CaptureState_factory _ _ _ _ _ _ hb]
    exact hfac

theorem data_flow.DataFlowTracer.enterAll_ok (base : Erebus.BasicNestedCallTracer (Data σ))
    (call : MsgCall (Data σ)) (toAddr : Address) (analyzers : List (Nat × Analyzer σ))
    (worlds : Nat → World σ) (s : (Nat → Option Nat) × (Nat → World σ))
    (hw : ∀ a, (worlds a).Sound)
    (h : DataFlowTracer.enterAll base call toAddr analyzers worlds = some s) :
    EnterOk worlds s := by
  have h0 : EnterOk worlds (fun _ => none, worlds) := ⟨hw, fun _ => rfl⟩
  unfold DataFlowTracer.enterAll at h
  split at h
  · simp only [Option.some.injEq] at h
    subst h
    exact h0
  · split at h
    · cases h
    · exact forAnalyzers_inv (EnterOk worlds) _ _ _ s
        (fun e _ s s1 hJ hbody => DataFlowTracer.enter_ok _ _ _ _ _ _ _ s s1 hJ hbody) h0 h

theorem data_flow.DataFlowTracer.CaptureEnter_Inv (t t1 : DataFlowTracer σ) (typ : OpCode)
    (sender toAddr : Address) (input : List Nat) (value : Option Int) (hI : t.Inv)
    (h : t.CaptureEnter typ sender toAddr input value = some t1) : t1.Inv := by
  unfold DataFlowTracer.CaptureEnter at h
  split at h
  · cases h
  rename_i base hb
  split at h
  · cases h
  rename_i p hp
  split at h
  · cases h
  rename_i call hc
  split at h
  · cases h
  rename_i s hs
  simp only [Option.some.injEq] at h
  subst h
  obtain ⟨hsound, hcalls, hfac, han⟩ := hI
  have hJ := DataFlowTracer.enterAll_ok _ _ _ _ _ s hsound hs
  refine ⟨hJ.1, ?_, ?_, han⟩
  · intro c hmem
    rcases List.mem_or_eq_of_mem_set hmem with hmem | hmem
    · exact (BasicNestedCallTracer.CaptureEnter_datas (DataOk t.worlds) (DataOk_none _) _ _
        hfac _ _ _ _ _ hb hcalls c hmem).mono_data (fun a => le_of_eq (hJ.2 a).symm)
    · rw [hmem]
      exact DataOk_fresh _ _
  · show base.MsgCallDataFactory = none
    rw [BasicNestedCallTracer.CaptureEnter_factory _ _ _ _ _ _ _ hb]
    exact hfac

theorem data_flow.DataFlowTracer.CaptureExit_Inv (t t1 : DataFlowTracer σ) (output : List Nat)
    (gasUsed : Nat) (err : Option GoError) (hI : t.Inv)
    (h : t.CaptureExit output gasUsed err = some t1) : t1.Inv := by
  unfold DataFlowTracer.CaptureExit at h
  cases hb : t.BasicNestedCallTracer.CaptureExit output gasUsed err with
  | none => rw [hb] at h; cases h
  | some base =>
      rw [hb] at h
      simp only [Option.map_some', Option.some.injEq] at h
      subst h
      obtain ⟨hsound, hcalls, hfac, han⟩ := hI
      refine ⟨hsound, BasicNestedCallTracer.CaptureExit_datas (DataOk t.worlds) _ _ _ _ _ hb
        hcalls, ?_, han⟩
      show base.MsgCallDataFactory = none
      rw [BasicNestedCallTracer.CaptureExit_factory _ _ _ _ _ hb]
      exact hfac

theorem data_flow.DataFlowTracer.TransactionStart_Inv (t t1 : DataFlowTracer σ) (tx : Tx)
    (created : Address) (hI : t.Inv) (h : t.TransactionStart tx created = some t1) :
    t1.Inv := by
  unfold DataFlowTracer.TransactionStart at h
  split at h
  · cases h
  rename_i s hs
  split at h
  · cases h
  rename_i p hp
  split at h
  · cases h
  rename_i call hc
  simp only [Option.some.injEq] at h
  subst h
  obtain ⟨hsound, hcalls, hfac, han⟩ := hI
  have h0 : EnterOk t.worlds (fun _ => none, t.worlds) := ⟨hsound, fun _ => rfl⟩
  have hJ := forAnalyzers_inv (EnterOk t.worlds) _ _ _ s
    (fun e _ s s1 hJ hbody => DataFlowTracer.start_ok _ _ _ s s1 hJ hbody) h0 hs
  obtain ⟨hd, hf⟩ := BasicNestedCallTracer.TransactionStart_datas (DataOk t.worlds)
    (DataOk_none _) t.BasicNestedCallTracer hfac tx created hcalls
  refine ⟨hJ.1, ?_, hf, han⟩
  intro c hmem
  rcases List.mem_or_eq_of_mem_set hmem with hmem | hmem
  · exact (hd c hmem).mono_data (fun a => le_of_eq (hJ.2 a).symm)
  · rw [hmem]
    exact DataOk_fresh _ _

theorem data_flow.DataFlowTracer.TransactionEnd_Inv (t t1 : DataFlowTracer σ)
    (result : Option ExecutionResult) (receipt : Option Receipt) (hI : t.Inv)
    (h : t.TransactionEnd result receipt = some t1) : t1.Inv := by
  unfold DataFlowTracer.TransactionEnd at h
  split at h
  · cases h
  rename_i base hb
  split at h
  · cases h
  rename_i p hp
  split at h
  · cases h
  rename_i call hc
  simp only [Option.some.injEq] at h
  subst h
  obtain ⟨hsound, hcalls, hfac, han⟩ := hI
  refine ⟨hsound, ?_, ?_, han⟩
  · intro c hmem
    rcases List.mem_or_eq_of_mem_set hmem with hmem | hmem
    · exact BasicNestedCallTracer.TransactionEnd_datas (DataOk t.worlds) _ _ _ _ hb hcalls c
        hmem
    · rw [hmem]
      exact DataOk_none _
  · show base.MsgCallDataFactory = none
    rw [BasicNestedCallTracer.TransactionEnd_factory _ _ _ _ hb]
    exact hfac

theorem data_flow.DataFlowTracer.step_Inv (t t1 : DataFlowTracer σ) (e : TracerEvent)
    (hI : t.Inv) (h : t.step e = some t1) : t1.Inv := by
  cases e with
  | TransactionStart tx created => exact DataFlowTracer.TransactionStart_Inv t t1 tx created hI h
  | CaptureStart =>
      simp only [DataFlowTracer.step, Option.some.injEq] at h
      subst h
      exact hI
  | CaptureState pc op gas cost scope err =>
      exact DataFlowTracer.CaptureState_Inv t t1 pc op gas cost scope err hI h
  | CaptureEnter typ sender toAddr input value =>
      exact DataFlowTracer.CaptureEnter_Inv t t1 typ sender toAddr input value hI h
  | CaptureExit output gasUsed err =>
      exact DataFlowTracer.CaptureExit_Inv t t1 output gasUsed err hI h
  | CaptureFault =>
      simp only [DataFlowTracer.step, Option.some.injEq] at h
      subst h
      exact hI
  | CaptureEnd =>
      simp only [DataFlowTracer.step, Option.some.injEq] at h
      subst h
      exact hI
  | TransactionEnd tx result receipt contractAddress =>
      exact DataFlowTracer.TransactionEnd_Inv t t1 result receipt hI h

theorem data_flow.DataFlowTracer.run_Inv (events : List TracerEvent) :
    ∀ (t t1 : DataFlowTracer σ), t.Inv → t.run events = some t1 → t1.Inv := by
  induction events with
  | nil =>
      intro t t1 hI h
      simp only [DataFlowTracer.run, Option.some.injEq] at h
      subst h
      exact hI
  | cons e es ih =>
      intro t t1 hI h
      unfold DataFlowTracer.run at h
      cases hs : t.step e with
      | none => rw [hs] at h; cases h
      | some t2 =>
          rw [hs] at h
          exact ih t2 t1 (DataFlowTracer.step_Inv t t2 e hI hs) h

theorem data_flow.World.new_Sound (s : σ) : (World.new s).Sound := by
  refine ⟨⟨?_, ?_, ?_, ?_⟩, le_refl _, ?_⟩
  · intro col h
    cases h
  · intro st h
    cases h
  · intro c h
    cases h
  · intro c h
    cases h
  · intro n N h
    simp [World.new] at h

theorem data_flow.mem_foldl_mapSet {α : Type} (P : Nat × α → Prop) :
    ∀ (l m : List (Nat × α)), (∀ e ∈ l, P e) → (∀ e ∈ m, P e) →
      ∀ e ∈ l.foldl (fun m a => mapSet m a.1 a.2) m, P e := by
  intro l
  induction l with
  | nil =>
      intro m _ hm e he
      exact hm e he
  | cons x rest ih =>
      intro m hl hm e he
      rw [List.foldl_cons] at he
      refine ih _ (fun e he => hl e (List.mem_cons_of_mem _ he)) ?_ e he
      intro e1 he1
      rcases mapSet_values m x.1 x.2 e1 he1 with h | h
      · exact hm e1 h
      · rw [h]
        exact hl x (List.mem_cons_self _ _)

theorem data_flow.NewDataFlowTracer_Inv (analyzers : List (Nat × Analyzer σ))
    (states : Nat → σ)
    (hA : ∀ e ∈ analyzers, e.2.FlowPolicy = GenDefaultFlowPolicy ∧
      e.2.toAnalyzerMethods.Allocating) :
    (NewDataFlowTracer analyzers states).Inv := by
  refine ⟨fun a => World.new_Sound _, ?_, rfl, ?_⟩
  · intro c h
    cases h
  · exact mem_foldl_mapSet _ analyzers [] hA (fun e he => by cases he)

theorem data_flow.World.IsUpstream_lt {w : World σ} (hw : UpstreamsEarlier w.nodes)
    {n u : Nat} (h : w.IsUpstream n u) : u < n := by
  obtain ⟨N, hN, hu⟩ := h
  exact hw n N hN u hu

theorem data_flow.World.TransGen_IsUpstream_lt {w : World σ} (hw : UpstreamsEarlier w.nodes)
    {n u : Nat} (h : Relation.TransGen w.IsUpstream n u) : u < n := by
  induction h with
  | single h1 => exact World.IsUpstream_lt hw h1
  | tail _ h2 ih => exact lt_trans (World.IsUpstream_lt hw h2) ih

theorem data_flow_test.analyzer.methods_Allocating (classify : Operation → Bool × Bool) :
    (data_flow_test.analyzer.methods classify).toAnalyzerMethods.Allocating :=
  ⟨fun _ op _ => ⟨NewRawFlowNode op "test-analyzer", rfl, rfl, rfl, rfl, rfl, rfl, rfl⟩,
    fun _ _ _ => ⟨rfl, rfl, rfl, rfl, rfl⟩, fun _ _ _ _ => ⟨rfl, rfl, rfl, rfl, rfl⟩⟩

/-- C12 (amended): for every flow node `N` created while the data-flow tracer with the default
flow policy replays callbacks, with analyzers that allocate a new node at every call of
`NewFlowNode` and leave the nodes and the mirror objects alone otherwise: every node in
`N.From()` was created before `N` (its pointer, the place among the nodes allocated so far, is
smaller); in particular no node is its own upstream and the upstream graph is acyclic. -/
theorem data_flow.DataFlowTracer.upstreams_are_created_earlier
    (analyzers : List (Nat × Analyzer σ)) (states : Nat → σ) (events : List TracerEvent)
    (t : DataFlowTracer σ)
    (hA : ∀ e ∈ analyzers, e.2.FlowPolicy = GenDefaultFlowPolicy ∧
      e.2.toAnalyzerMethods.Allocating)
    (hrun : (NewDataFlowTracer analyzers states).run events = some t) (a : Nat) :
    (∀ (n : Nat) (N : RawFlowNode), (t.worlds a).nodes[n]? = some N →
      ∀ u ∈ N.From, u < n ∧ u < (t.worlds a).nodes.length) ∧
    (∀ (n : Nat) (N : RawFlowNode), (t.worlds a).nodes[n]? = some N → n ∉ N.From) ∧
    (∀ n, ¬ Relation.TransGen (t.worlds a).IsUpstream n n) := by
  have hI := DataFlowTracer.run_Inv events _ t (NewDataFlowTracer_Inv analyzers states hA) hrun
  have hu : UpstreamsEarlier (t.worlds a).nodes := (hI.1 a).2.2
  refine ⟨?_, ?_, ?_⟩
  · intro n N hN u hmem
    have h1 := hu n N hN u hmem
    have h2 : n < (t.worlds a).nodes.length := (List.getElem?_eq_some_iff.mp hN).1
    exact ⟨h1, lt_trans h1 h2⟩
  · intro n N hN hmem
    exact lt_irrefl _ (hu n N hN n hmem)
  · intro n h
    exact lt_irrefl _ (World.TransGen_IsUpstream_lt hu h)

/-- C12 witness: the test analyzer that takes `CALL` for a source, on the callbacks of a
transaction that makes a `CALL` to an account without code and stops. The node that the hook
of the `CALL` makes, the node 1, has the node 0 as its upstream, which was created before it
for the same operation. -/
theorem data_flow.DataFlowTracer.upstreams_are_created_earlier_witness :
    (∀ e ∈ [((0 : Nat), data_flow_test.analyzer.methods Example.callIsSource)],
      e.2.FlowPolicy = GenDefaultFlowPolicy ∧ e.2.toAnalyzerMethods.Allocating) ∧
    ∃ t, (Example.dataFlowTracer Example.callIsSource).run Example.callThenStop = some t ∧
      (t.worlds 0).fromOf 1 = some [0] ∧
      (∀ (n : Nat) (N : RawFlowNode), (t.worlds 0).nodes[n]? = some N →
        ∀ u ∈ N.From, u < n ∧ u < (t.worlds 0).nodes.length) ∧
      (∀ (n : Nat) (N : RawFlowNode), (t.worlds 0).nodes[n]? = some N → n ∉ N.From) ∧
      (∀ n, ¬ Relation.TransGen (t.worlds 0).IsUpstream n n) := by
  have hA : ∀ e ∈ [((0 : Nat), data_flow_test.analyzer.methods Example.callIsSource)],
      e.2.FlowPolicy = GenDefaultFlowPolicy ∧ e.2.toAnalyzerMethods.Allocating := by
    intro e he
    rw [List.mem_singleton.mp he]
    exact ⟨rfl, data_flow_test.analyzer.methods_Allocating _⟩
  refine ⟨hA, ?_⟩
  have hev : ((Example.dataFlowTracer Example.callIsSource).run Example.callThenStop).map
      (fun t => (t.worlds 0).fromOf 1) = some (some [0]) := rfl
  cases hrun : (Example.dataFlowTracer Example.callIsSource).run Example.callThenStop with
  | none =>
      rw [hrun] at hev
      cases hev
  | some t =>
      rw [hrun] at hev
      exact ⟨t, rfl, Option.some.inj hev,
        data_flow.DataFlowTracer.upstreams_are_created_earlier
          [((0 : Nat), data_flow_test.analyzer.methods Example.callIsSource)]
          (fun _ => { sinkTainted := false }) Example.callThenStop t hA hrun 0⟩

end creation_order_steps

end Erebus
